import Mathlib

/-!
# Scheme Markup Language (package `sml`): a shallow embedding

The Go package `sml` turns an indentation-structured text into a `Project`:
`runLexer` (lingling.go) produces tokens, `parseGeneric` (lingling.go) builds
an untyped tree from the indentation, `findIndentationErrors` (lingling.go)
checks the tree against the keyword grammar, and the methods of `smlParser`
(sml.go) build the typed entities.

Conventions of the embedding.

* A Go `string` is a sequence of bytes.  It is modelled as `Str = List Char`,
  one `Char` per byte.  The functions of the Go standard library that decode
  UTF-8 are modelled for every sequence of bytes: `strings.TrimSpace` and
  `strings.Fields` know the white space of `unicode.IsSpace` by its UTF-8
  encodings, the regular expression of `TokenizeSQL` takes a rune of one to
  four bytes where its pattern takes any character, and `strings.ToLower`,
  `strings.ToUpper` and `strings.Title`, whose results outside ASCII depend
  on the tables of the version of Go, take them from `GoUnicode`.
* A Go `int` is modelled as `Int` or, for lengths and indices that cannot be
  negative, as `Nat`; none of the modelled arithmetic can overflow 64 bits.
* A Go `map` is modelled as an association list in insertion order; the
  order in which a `range` loop visits the keys is not fixed by Go and is
  taken from `GoRuntime`.
-/

namespace sml

/-- A Go string: a sequence of bytes, one `Char` per byte. -/
abbrev Str := List Char

/-! ## Bytes that cannot be written as plain character literals -/

/-- The byte `\t`. -/
def chTab : Char := Char.ofNat 9
/-- The byte `\n`. -/
def chNewline : Char := Char.ofNat 10
/-- The byte `\v`. -/
def chVTab : Char := Char.ofNat 11
/-- The byte `\f`. -/
def chFormFeed : Char := Char.ofNat 12
/-- The byte `\r`. -/
def chReturn : Char := Char.ofNat 13
/-- The byte `"`. -/
def chDQuote : Char := Char.ofNat 34
/-- The byte of the single quote. -/
def chSQuote : Char := Char.ofNat 39
/-- The byte `\`. -/
def chBackslash : Char := Char.ofNat 92
/-- The byte of the backquote. -/
def chBackquote : Char := Char.ofNat 96

/-! ## util.go: character classes and `IsValidID` -/

/-- Go `isAlpha` (util.go:54). -/
def isAlpha (c : Char) : Bool :=
  c == '_' || (c ≥ 'a' && c ≤ 'z') || (c ≥ 'A' && c ≤ 'Z')

/-- Go `isAlphaNumeric` (util.go:58). -/
def isAlphaNumeric (c : Char) : Bool :=
  isAlpha c || (c ≥ '0' && c ≤ '9')

/-- Go `isSpace` (util.go:62). -/
def isSpace (c : Char) : Bool :=
  c == ' ' || c == chTab

/-- Go `IsValidID` (util.go:72): length at least 1, `value[0]` passes
`isAlpha`, and the loop `for i := 1; i < len(value); i++` finds no byte
failing `isAlphaNumeric`. -/
def IsValidID (value : Str) : Bool :=
  match value with
  | [] => false
  | c :: rest => isAlpha c && rest.all isAlphaNumeric

/-! ## The parts of package `strings` the code uses -/

/-- Go `strings.HasPrefix`. -/
def strings.HasPrefix : Str → Str → Bool
  | _, [] => true
  | [], _ :: _ => false
  | c :: s, d :: p => c == d && strings.HasPrefix s p

/-- Go `strings.HasSuffix`. -/
def strings.HasSuffix (s suffix : Str) : Bool :=
  strings.HasPrefix s.reverse suffix.reverse

/-- Go `strings.Index(s, substr)`: the index of the first occurrence of
`substr` in `s`, or `none` where Go returns -1. -/
def strings.Index : Str → Str → Option Nat
  | [], substr => if substr.isEmpty then some 0 else none
  | c :: s, substr =>
    if strings.HasPrefix (c :: s) substr then some 0
    else (strings.Index s substr).map (· + 1)

/-- Go `strings.IndexByte(s, c)`. -/
def strings.IndexByte : Str → Char → Option Nat
  | [], _ => none
  | d :: s, c => if d == c then some 0 else (strings.IndexByte s c).map (· + 1)

/-- Go `strings.Split(s, sep)` for a separator `sep` of one byte: the
pieces of `s` between the occurrences of `sep`; always at least one piece. -/
def strings.Split : Str → Char → List Str
  | [], _ => [[]]
  | c :: s, sep =>
    if c == sep then [] :: strings.Split s sep
    else
      match strings.Split s sep with
      | [] => [[c]]
      | p :: ps => (c :: p) :: ps

/-- Go `strings.Join(elems, sep)`. -/
def strings.Join : List Str → Str → Str
  | [], _ => []
  | [a], _ => a
  | a :: b :: rest, sep => a ++ sep ++ strings.Join (b :: rest) sep

/-- Go `strings.TrimLeft(s, cutset)`. -/
def strings.TrimLeft : Str → Str → Str
  | [], _ => []
  | c :: s, cutset => if cutset.contains c then strings.TrimLeft s cutset else c :: s

/-- Go `strings.TrimRight(s, cutset)`. -/
def strings.TrimRight : Str → Str → Str
  | [], _ => []
  | c :: s, cutset =>
    match strings.TrimRight s cutset with
    | [] => if cutset.contains c then [] else [c]
    | r => c :: r

/-- Go `strings.Trim(s, cutset)`. -/
def strings.Trim (s cutset : Str) : Str :=
  strings.TrimRight (strings.TrimLeft s cutset) cutset

/-- The list of ASCII white space bytes, as a cutset. -/
def asciiSpaces : Str := [chTab, chNewline, chVTab, chFormFeed, chReturn, ' ']

/-- Whether every byte of `s` is an ASCII byte, one below `utf8.RuneSelf`. -/
def isASCII (s : Str) : Bool :=
  s.all (fun c => decide (c.toNat < 128))

/-- The UTF-8 encodings of the runes for which Go `unicode.IsSpace` holds:
`\t \n \v \f \r`, the blank, U+0085, U+00A0, U+1680, U+2000 to U+200A,
U+2028, U+2029, U+202F, U+205F and U+3000. -/
def spaceRunes : List Str :=
  [[chTab], [chNewline], [chVTab], [chFormFeed], [chReturn], [' '],
    [Char.ofNat 0xC2, Char.ofNat 0x85], [Char.ofNat 0xC2, Char.ofNat 0xA0],
    [Char.ofNat 0xE1, Char.ofNat 0x9A, Char.ofNat 0x80]] ++
  (List.range 11).map (fun i => [Char.ofNat 0xE2, Char.ofNat 0x80, Char.ofNat (0x80 + i)]) ++
  [[Char.ofNat 0xE2, Char.ofNat 0x80, Char.ofNat 0xA8],
    [Char.ofNat 0xE2, Char.ofNat 0x80, Char.ofNat 0xA9],
    [Char.ofNat 0xE2, Char.ofNat 0x80, Char.ofNat 0xAF],
    [Char.ofNat 0xE2, Char.ofNat 0x81, Char.ofNat 0x9F],
    [Char.ofNat 0xE3, Char.ofNat 0x80, Char.ofNat 0x80]]

/-- The number of bytes at the start of `s` that are one of the encodings
`runes`, and 0 if `s` starts with none of them.  An ASCII byte is looked up
in `asciiSpaces`, the encodings of one byte. -/
def spaceWidthOf (runes : List Str) : Str → Nat
  | [] => 0
  | c :: s =>
    if c.toNat < 128 then (if asciiSpaces.contains c then 1 else 0)
    else
      match runes.find? (fun e => strings.HasPrefix (c :: s) e) with
      | some e => e.length
      | none => 0

/-- The number of bytes of the rune at the start of `s` if Go
`utf8.DecodeRuneInString` finds a rune of `unicode.IsSpace` there, and 0 if
not.  The decoder accepts the shortest encoding of a rune only, so the rune
at the start of `s` is white space exactly when `s` starts with one of
`spaceRunes`. -/
def spaceWidth (s : Str) : Nat :=
  spaceWidthOf spaceRunes s

/-- The text `s` without the encodings `runes` at its start; `fuel` bounds
the number of encodings taken off. -/
def trimRunes (runes : List Str) : Nat → Str → Str
  | 0, s => s
  | fuel + 1, s =>
    if spaceWidthOf runes s = 0 then s else trimRunes runes fuel (s.drop (spaceWidthOf runes s))

/-- Go `strings.TrimLeftFunc(s, unicode.IsSpace)`: `s` without the white
space runes at its start; `fuel` bounds the number of runes taken off. -/
def trimLeftSpace (fuel : Nat) (s : Str) : Str :=
  trimRunes spaceRunes fuel s

/-- Go `strings.TrimRightFunc(s, unicode.IsSpace)`: `s` without the white
space runes at its end; `fuel` bounds the number of runes taken off.  Go
`utf8.DecodeLastRuneInString` finds a rune of `unicode.IsSpace` at the end of
a text exactly when the text ends with one of `spaceRunes`, that is, when the
text read backwards starts with one of them read backwards. -/
def trimRightSpace (fuel : Nat) (s : Str) : Str :=
  (trimRunes (spaceRunes.map List.reverse) fuel s.reverse).reverse

/-- Go `strings.TrimSpace`: the white space runes at the start are taken off,
then those at the end (for ASCII text byte by byte, and from the first byte
outside ASCII on with `TrimFunc(s, unicode.IsSpace)`, which is the same). -/
def strings.TrimSpace (s : Str) : Str :=
  trimRightSpace s.length (trimLeftSpace s.length s)

/-- The loop `for end, rune := range s` of Go `strings.FieldsFunc(s,
unicode.IsSpace)`: `cur` is the field being read, in reverse, and `skip` is
the number of bytes of `s` that still belong to the white space rune met
last.  A rune that is not white space is read byte by byte: none of its
bytes after the first starts an encoding of `spaceRunes`. -/
def fieldsAux : Str → Str → Nat → List Str
  | [], cur, _ => if cur.isEmpty then [] else [cur.reverse]
  | _ :: s, cur, skip + 1 => fieldsAux s cur skip
  | c :: s, cur, 0 =>
    if spaceWidth (c :: s) ≠ 0 then
      if cur.isEmpty then fieldsAux s [] (spaceWidth (c :: s) - 1)
      else cur.reverse :: fieldsAux s [] (spaceWidth (c :: s) - 1)
    else fieldsAux s (c :: cur) 0

/-- Go `strings.Fields`: the maximal runs of runes that are not white space
(`unicode.IsSpace`). -/
def strings.Fields (s : Str) : List Str :=
  fieldsAux s [] 0

/-- Go `unicode.ToLower` on an ASCII byte. -/
def toLowerByte (c : Char) : Char :=
  if c ≥ 'A' && c ≤ 'Z' then Char.ofNat (c.toNat + 32) else c

/-- Go `unicode.ToUpper` on an ASCII byte. -/
def toUpperByte (c : Char) : Char :=
  if c ≥ 'a' && c ≤ 'z' then Char.ofNat (c.toNat - 32) else c

/-- What the code takes from the tables of the Go packages `unicode` and
`strconv`, which differ between the versions of Go: for a text that holds a
byte outside ASCII, `ToLower s` is `strings.ToLower(s)`, `ToUpper s` is
`strings.ToUpper(s)` and `Title s` is `strings.Title(s)`; for a text that
holds a byte outside the printable ASCII bytes `0x20..0x7E`, `Quote s` is
`strconv.Quote(s)`.  For the other texts the four functions are written out
below and these fields are not read.

One fact of the tables is used: the only runes outside ASCII that
`unicode.ToLower` maps into ASCII are U+0130, to `i`, and U+212A, to `k`, and
a byte that is not part of a rune is kept or replaced by U+FFFD; so when a
text with a byte outside ASCII is mapped to ASCII text, the result holds an
`i` or a `k` (`ToLower_ascii`). -/
structure GoUnicode where
  ToLower : Str → Str
  ToUpper : Str → Str
  Title : Str → Str
  Quote : Str → Str
  ToLower_ascii : ∀ s : Str, isASCII s = false → isASCII (ToLower s) = true →
    (ToLower s).contains 'i' = true ∨ (ToLower s).contains 'k' = true

/-- Tables that leave every text outside ASCII as it is; the closed
evaluations below are made on ASCII text, for which no table is read. -/
def GoUnicode.unchanged : GoUnicode where
  ToLower := fun s => s
  ToUpper := fun s => s
  Title := fun s => s
  Quote := fun s => s
  ToLower_ascii := fun s h1 h2 => absurd (h1.symm.trans h2) (by decide)

/-- Go `strings.ToLower`: ASCII text is mapped byte by byte, any other text
by `strings.Map(unicode.ToLower, s)`. -/
def strings.ToLower (u : GoUnicode) (s : Str) : Str :=
  if isASCII s then s.map toLowerByte else u.ToLower s

/-- Go `strings.ToUpper`: ASCII text is mapped byte by byte, any other text
by `strings.Map(unicode.ToUpper, s)`. -/
def strings.ToUpper (u : GoUnicode) (s : Str) : Str :=
  if isASCII s then s.map toUpperByte else u.ToUpper s

/-- Go `isSeparator` of package `strings` on an ASCII byte: letters, digits
and the underscore do not separate words, every other ASCII byte does. -/
def isSeparator (c : Char) : Bool :=
  if c.toNat ≤ 127 then !isAlphaNumeric c else false

/-- The fold of Go `strings.Title` on ASCII text: `prev` is the byte before
`s`. -/
def titleAux : Char → Str → Str
  | _, [] => []
  | prev, c :: s => (if isSeparator prev then toUpperByte c else c) :: titleAux c s

/-- Go `strings.Title`: in ASCII text the first letter of every word is
mapped to upper case (`prev := ' '` at the start, and `unicode.ToTitle` is
`unicode.ToUpper` on ASCII); any other text is mapped with the tables of
package `unicode`. -/
def strings.Title (u : GoUnicode) (s : Str) : Str :=
  if isASCII s then titleAux ' ' s else u.Title s

/-- Go `strings.ReplaceAll(s, "\r\n", "\n")`, the only use the code makes of
`ReplaceAll`. -/
def replaceCRLF : Str → Str
  | [] => []
  | [c] => [c]
  | c :: d :: s =>
    if c == chReturn && d == chNewline then chNewline :: replaceCRLF s
    else c :: replaceCRLF (d :: s)

/-- Go `fmt.Sprintf("%d", n)` for a Go `int`. -/
def fmtInt (n : Int) : Str :=
  match n with
  | Int.ofNat m => Nat.toDigits 10 m
  | Int.negSucc m => '-' :: Nat.toDigits 10 (m + 1)

/-! ## util.go: `createSmartLabel` and small helpers -/

/-- Go `createSmartLabel` (util.go:136). -/
def createSmartLabel (u : GoUnicode) (name : Str) : Str :=
  let tmp := strings.Trim name ['_']
  if tmp = [] then name
  else
    let parts := strings.Split tmp '_'
    strings.Join (parts.map (strings.Title u)) [' ']

/-- Go `sliceContains` (util.go:148). -/
def sliceContains (a : List Str) (x : Str) : Bool :=
  a.any (fun n => x == n)

/-- Go `IsStringInSlice` (util.go:287): membership up to the case of the
letters. -/
def IsStringInSlice (u : GoUnicode) (str : Str) (list : List Str) : Bool :=
  list.any (fun s => strings.ToLower u s == strings.ToLower u str)

/-! ## What the specification says, in its own words -/

/-- The regular expression `^[A-Za-z_][A-Za-z0-9_]*$` of the specification,
as a predicate on byte strings: a first byte that is a letter or the
underscore, followed by any number of letters, digits and underscores. -/
def MatchesIdRegex (s : Str) : Prop :=
  ∃ c rest, s = c :: rest ∧
    (('A' ≤ c ∧ c ≤ 'Z') ∨ ('a' ≤ c ∧ c ≤ 'z') ∨ c = '_') ∧
    ∀ d ∈ rest, ('A' ≤ d ∧ d ≤ 'Z') ∨ ('a' ≤ d ∧ d ≤ 'z') ∨ ('0' ≤ d ∧ d ≤ '9') ∨ d = '_'

/-- The smart label as the specification words it: trim the underscores at
both ends, split on the underscore, Title-case each part, join with single
blanks. -/
def smartLabelSpec (u : GoUnicode) (name : Str) : Str :=
  let trimmed := ((name.dropWhile (· == '_')).reverse.dropWhile (· == '_')).reverse
  [' '].intercalate ((trimmed.splitOn '_').map (strings.Title u))

/-! ## lingling.go: tokens and keywords -/

/-- Go `type keyword int` (lingling.go:67). -/
abbrev Keyword := Int

/-- Go `kwError` (lingling.go:70): `-iota - 1` at `iota = 0`. -/
def kwError : Keyword := -1
/-- Go `kwEOF` (lingling.go:71): `-iota - 1` at `iota = 1`. -/
def kwEOF : Keyword := -2

/-- Go `skwAuxiliaryColumn` (sml.go:18). -/
def skwAuxiliaryColumn : Keyword := 0
/-- Go `skwColumn`. -/
def skwColumn : Keyword := 1
/-- Go `skwCombine`. -/
def skwCombine : Keyword := 2
/-- Go `skwCriteria`. -/
def skwCriteria : Keyword := 3
/-- Go `skwDataset`. -/
def skwDataset : Keyword := 4
/-- Go `skwDescription`. -/
def skwDescription : Keyword := 5
/-- Go `skwEvaluation`. -/
def skwEvaluation : Keyword := 6
/-- Go `skwFormat`. -/
def skwFormat : Keyword := 7
/-- Go `skwGranulariy` (spelled so in the source). -/
def skwGranulariy : Keyword := 8
/-- Go `skwJoin`. -/
def skwJoin : Keyword := 9
/-- Go `skwLabel`. -/
def skwLabel : Keyword := 10
/-- Go `skwName`. -/
def skwName : Keyword := 11
/-- Go `skwOn`. -/
def skwOn : Keyword := 12
/-- Go `skwOperator`. -/
def skwOperator : Keyword := 13
/-- Go `skwProject`. -/
def skwProject : Keyword := 14
/-- Go `skwScheme`. -/
def skwScheme : Keyword := 15
/-- Go `skwSQL`. -/
def skwSQL : Keyword := 16
/-- Go `skwTable`. -/
def skwTable : Keyword := 17
/-- Go `skwTerm`. -/
def skwTerm : Keyword := 18
/-- Go `skwThen`. -/
def skwThen : Keyword := 19
/-- Go `skwTransformer`. -/
def skwTransformer : Keyword := 20
/-- Go `skwTransformerName`. -/
def skwTransformerName : Keyword := 21
/-- Go `skwType`. -/
def skwType : Keyword := 22
/-- Go `skwValue`. -/
def skwValue : Keyword := 23

/-- Go `smlKeywords` (sml.go:49), as the list of its entries. -/
def smlKeywords : List (Str × Keyword) :=
  [ ("auxiliary_column".toList, skwAuxiliaryColumn),
    ("column".toList, skwColumn),
    ("combine".toList, skwCombine),
    ("criteria".toList, skwCriteria),
    ("dataset".toList, skwDataset),
    ("description".toList, skwDescription),
    ("evaluation".toList, skwEvaluation),
    ("format".toList, skwFormat),
    ("granularity".toList, skwGranulariy),
    ("join".toList, skwJoin),
    ("label".toList, skwLabel),
    ("name".toList, skwName),
    ("on".toList, skwOn),
    ("operator".toList, skwOperator),
    ("project".toList, skwProject),
    ("scheme".toList, skwScheme),
    ("sql".toList, skwSQL),
    ("table".toList, skwTable),
    ("term".toList, skwTerm),
    ("then".toList, skwThen),
    ("transformer".toList, skwTransformer),
    ("transformer_name".toList, skwTransformerName),
    ("type".toList, skwType),
    ("value".toList, skwValue) ]

/-- Go `linglingKeywords` (keywords.go:38), as the list of its entries; the
constants of keywords.go are `iota + 1000` in the order of their
declaration (`kwAllowed = 1000`, `kwAllowedValue = 1001`, ...). -/
def linglingKeywords : List (Str × Keyword) :=
  [ ("allowed_value".toList, 1001),
    ("calendar_type".toList, 1002),
    ("control_type".toList, 1003),
    ("data_type".toList, 1004),
    ("default_value".toList, 1006),
    ("empty_state".toList, 1007),
    ("end".toList, 1008),
    ("end_label".toList, 1009),
    ("end_type".toList, 1010),
    ("granularity".toList, 1011),
    ("label".toList, 1012),
    ("lvalue".toList, 1013),
    ("max".toList, 1014),
    ("min".toList, 1015),
    ("multi_select".toList, 1016),
    ("name".toList, 1018),
    ("parameter".toList, 1019),
    ("precision".toList, 1020),
    ("rvalue".toList, 1021),
    ("source".toList, 1022),
    ("source_type".toList, 1023),
    ("start".toList, 1024),
    ("start_label".toList, 1025),
    ("start_type".toList, 1026),
    ("type".toList, 1027),
    ("value".toList, 1028),
    ("values".toList, 1029),
    ("var".toList, 1030),
    ("variables".toList, 1031),
    ("allowed".toList, 1001),
    ("default_selected".toList, 1029) ]

/-- The value a Go `map[string]keyword` holds for a key, if any. -/
def lookupKeyword : List (Str × Keyword) → Str → Option Keyword
  | [], _ => none
  | (k, v) :: m, s => if k = s then some v else lookupKeyword m s

/-- Go `smlKeyword2string` (sml.go:76), built by `makeKeywordToString` with
no synonyms: the string of a keyword of `smlKeywords` (no two entries of
`smlKeywords` share a keyword), and the empty string, Go's zero value, for
any other keyword. -/
def smlKeyword2string (kw : Keyword) : Str :=
  match smlKeywords.find? (fun e => e.2 = kw) with
  | some e => e.1
  | none => []

/-- Go `ParseError` (lingling.go:52). -/
structure ParseError where
  Msg : Str
  LineNum : Int
deriving DecidableEq, Repr

/-- Go `token` (lingling.go:60). -/
structure Token where
  indent : Int
  kw : Keyword
  value : Str
  line : Int
deriving DecidableEq, Repr

/-- Go `tabSize` (lingling.go:58). -/
def tabSize : Nat := 4

/-- Go `errorToken` (lingling.go:240); `msg` is the inner
`fmt.Sprintf(format, args...)`, `line` and `pos` are 0-based. -/
def errorToken (line : Nat) (pos : Int) (msg : Str) : Token :=
  { indent := -1, kw := kwError,
    value := "error at position ".toList ++ fmtInt (pos + 1) ++ ": ".toList ++ msg,
    line := (line : Int) + 1 }

/-! ## lingling.go: `runLexer` -/

/-- The first loop of `runLexer` (lingling.go:111): the position after the
leading blanks and tabs of a line, and the indent they amount to. -/
def measureIndent : Str → Nat × Nat
  | [] => (0, 0)
  | c :: s =>
    if c = ' ' then ((measureIndent s).1 + 1, (measureIndent s).2 + 1)
    else if c = chTab then ((measureIndent s).1 + 1, (measureIndent s).2 + tabSize)
    else (0, 0)

/-- The three bytes that open and close a multi-line string. -/
def tripleQuote : Str := [chDQuote, chDQuote, chDQuote]

/-- The loop of Go `multilineString` (lingling.go:249) over the lines that
are left; `pos` is the start in the first of them, `i` the number of lines
already taken and `pieces` what they gave.  `none` stands for the
result `-1, -1, ""` of an unterminated string. -/
def multilineStringLoop : List Str → Nat → Nat → List Str → Option (Nat × Nat × Str)
  | [], _, _, _ => none
  | line :: rest, pos, i, pieces =>
    match strings.Index (line.drop pos) tripleQuote with
    | some j => some (pos + j + 3, i, strings.Join (pieces ++ [(line.drop pos).take j]) [])
    | none =>
      let s := line.drop pos
      let s1 :=
        if strings.HasSuffix s [chBackslash] then s.take (s.length - 1) else s ++ [chNewline]
      multilineStringLoop rest 0 (i + 1) (pieces ++ [s1])

/-- Go `multilineString` (lingling.go:247): `(newPos, linesConsumed, value)`,
or `none` for `-1, -1, ""`. -/
def multilineString (pos : Nat) (lines : List Str) : Option (Nat × Nat × Str) :=
  multilineStringLoop lines pos 0 []

/-- The loop of `runLexer` over a quoted string (lingling.go:177): `i` is
the index in `line` from which the delimiter is searched, `value` what has
been read.  The result is the index of the closing delimiter and the value,
or `none` where Go leaves the loop with `i < 0`.  Every round moves `i` on by
two bytes at least, so `len(line)` rounds are enough. -/
def quotedLoop (delimiter : Char) (line : Str) : Nat → Nat → Str → Option (Nat × Str)
  | 0, _, _ => none
  | fuel + 1, i, value =>
    match strings.IndexByte (line.drop i) delimiter with
    | none => none
    | some j =>
      if j = 0 || line.getD (i + j - 1) ' ' ≠ chBackslash then
        some (i + j, value ++ (line.drop i).take j)
      else
        quotedLoop delimiter line fuel (i + j + 1)
          (value ++ (line.drop i).take (j - 1) ++ [delimiter])

/-- What one round of the main loop of `runLexer` does. -/
inductive LexStep where
  /-- The round ends with `lineNum` set to `next` (by `lineNum++`, after a
  `continue` or at the end of the body), having sent `tok` if there is one. -/
  | next (tok : Option Token) (next : Nat)
  /-- The round sends `tok` and leaves the loop by `break`. -/
  | stop (tok : Token)
deriving DecidableEq, Repr

/-- The fourth part of a round of `runLexer` (lingling.go:212): after the
value, only a comment may follow.  `lineNum` and `line` are those of the
line on which the value ended. -/
def lexTrailer (lineNum : Nat) (line : Str) (pos : Nat) (indent : Nat) (kw : Keyword)
    (value : Str) : LexStep :=
  let pos1 := pos + ((line.drop pos).takeWhile isSpace).length
  if pos1 < line.length then
    if line.getD pos1 ' ' = '#' || strings.HasPrefix (line.drop pos1) ['/', '/'] then
      .next (some { indent := indent, kw := kw, value := value, line := (lineNum : Int) + 1 })
        (lineNum + 1)
    else
      .next (some (errorToken lineNum pos1 ("unexpected content: ".toList ++ line.drop pos1)))
        (lineNum + 1)
  else
    .next (some { indent := indent, kw := kw, value := value, line := (lineNum : Int) + 1 })
      (lineNum + 1)

/-- The third part of a round of `runLexer` (lingling.go:158): the value.
`line` is `lines[lineNum]`, `rest` the lines after it and `pos` the position
after the keyword. -/
def lexValue (lineNum : Nat) (line : Str) (rest : List Str) (pos : Nat) (indent : Nat)
    (kw : Keyword) : LexStep :=
  let pos1 := pos + ((line.drop pos).takeWhile isSpace).length
  if pos1 < line.length then
    if strings.HasPrefix (line.drop pos1) tripleQuote then
      match multilineString (pos1 + 3) (line :: rest) with
      | none => .stop (errorToken lineNum (-1) "multiline string not terminated".toList)
      | some (newPos, linesConsumed, value) =>
        lexTrailer (lineNum + linesConsumed) ((line :: rest).getD linesConsumed []) newPos
          indent kw value
    else if line.getD pos1 ' ' = chDQuote || line.getD pos1 ' ' = chSQuote then
      match quotedLoop (line.getD pos1 ' ') line line.length (pos1 + 1) [] with
      | none => .stop (errorToken lineNum pos1 "string not terminated".toList)
      | some (i, value) => lexTrailer lineNum line (i + 1) indent kw value
    else
      let i :=
        match strings.Index (line.drop pos1) ['/', '/'] with
        | some i => i + pos1
        | none =>
          match strings.IndexByte (line.drop pos1) '#' with
          | some i => i + pos1
          | none => line.length
      lexTrailer lineNum line i indent kw (strings.TrimSpace ((line.drop pos1).take (i - pos1)))
  else
    lexTrailer lineNum line pos1 indent kw []

/-- The test of lingling.go:123 for a line that gives no token: after the
indentation the line ends, or a comment starts with `#` or `//`. -/
def isBlankOrComment (line : Str) : Bool :=
  (measureIndent line).1 ≥ line.length || line.getD (measureIndent line).1 ' ' = '#' ||
    ((measureIndent line).1 + 1 < line.length &&
      (line.drop (measureIndent line).1).take 2 = ['/', '/'])

/-- Go `fmt.Sprintf("%c", b)` for a byte `b`: the UTF-8 encoding of the rune
of the value of `b`, which is the byte itself below `0x80` and two bytes from
`0x80` on. -/
def fmtByteRune (b : Char) : Str :=
  if b.toNat < 128 then [b]
  else [Char.ofNat (0xC0 + b.toNat / 64), Char.ofNat (0x80 + b.toNat % 64)]

/-- One round of the main loop of `runLexer` (lingling.go:106) at line
`lineNum` (0-based): `line` is `lines[lineNum]` and `rest` are the lines
after it. -/
def lexLine (string2keyword : List (Str × Keyword)) (lineNum : Nat) (line : Str)
    (rest : List Str) : LexStep :=
  let pos := (measureIndent line).1
  let indent := (measureIndent line).2
  if isBlankOrComment line then
    .next none (lineNum + 1)
  else if !isAlpha (line.getD pos ' ') then
    .next (some (errorToken lineNum pos ("expected keyword, got ".toList ++
      fmtByteRune (line.getD pos ' '))))
      (lineNum + 1)
  else
    let kwEnd := pos + 1 + ((line.drop (pos + 1)).takeWhile isAlphaNumeric).length
    let kwString := (line.drop pos).take (kwEnd - pos)
    match lookupKeyword string2keyword kwString with
    | some kw => lexValue lineNum line rest kwEnd indent kw
    | none =>
      match lookupKeyword linglingKeywords kwString with
      | some kw => lexValue lineNum line rest kwEnd indent kw
      | none =>
        .next (some (errorToken lineNum pos ("unknown keyword: ".toList ++ kwString)))
          (lineNum + 1)

/-- The End-of-input token `runLexer` sends last (lingling.go:236). -/
def eofToken (lineNum : Nat) : Token :=
  { indent := -1, kw := kwEOF, value := [], line := (lineNum : Int) + 1 }

/-- The main loop of `runLexer` (lingling.go:106) from line `lineNum` on,
followed by the End-of-input token.  Every round moves `lineNum` on by one
at least, so `len(lines) + 1` rounds of `fuel` are enough. -/
def runLexerLoop (string2keyword : List (Str × Keyword)) (lines : List Str) :
    Nat → Nat → List Token
  | 0, lineNum => [eofToken lineNum]
  | fuel + 1, lineNum =>
    match lines.drop lineNum with
    | [] => [eofToken lineNum]
    | line :: rest =>
      match lexLine string2keyword lineNum line rest with
      | .next tok next => tok.toList ++ runLexerLoop string2keyword lines fuel next
      | .stop tok => [tok, eofToken lineNum]

/-- Go `runLexer` (lingling.go:102): the tokens sent on the channel, in
order.  The comment sink is `nil` at every call in the package and is left
out. -/
def runLexer (input : Str) (string2keyword : List (Str × Keyword)) : List Token :=
  runLexerLoop string2keyword (strings.Split input chNewline)
    ((strings.Split input chNewline).length + 1) 0

/-- Go `startLex` (lingling.go:269): the channel, as the list of the tokens
that will be received from it. -/
def startLex (input : Str) (string2keyword : List (Str × Keyword)) : List Token :=
  runLexer (replaceCRLF input) string2keyword

/-! ## lingling.go: the generic tree and `parseGeneric` -/

/-- Go `generic` (lingling.go:286).  The field
`children map[keyword][]*generic` is represented by the list of all the
children in the order in which `parseGeneric` appended them: the slice
stored under a key is the sublist of the children with that keyword
(`Generic.childrenOf`), the map is `nil` exactly when there is no child, and
no slice in the map is empty. -/
inductive Generic where
  | mk (kw : Keyword) (value : Str) (children : List Generic) (line : Int)
deriving Repr

/-- The field `kw`. -/
def Generic.kw : Generic → Keyword
  | .mk kw _ _ _ => kw

/-- The field `value`. -/
def Generic.value : Generic → Str
  | .mk _ value _ _ => value

/-- All the children, in the order in which they were appended. -/
def Generic.children : Generic → List Generic
  | .mk _ _ children _ => children

/-- The field `line`. -/
def Generic.line : Generic → Int
  | .mk _ _ _ line => line

/-- Go `g.children[kw]`: the slice stored under `kw` (`nil` if there is
none). -/
def Generic.childrenOf (g : Generic) (kw : Keyword) : List Generic :=
  g.children.filter (fun c => c.kw = kw)

/-- The elements of a list, each once, in the order of their first
occurrence. -/
def firstOccurrences {α : Type} [DecidableEq α] : List α → List α
  | [] => []
  | k :: ks => k :: (firstOccurrences ks).filter (fun x => x ≠ k)

/-- The keys of the map `g.children`, each once, in the order of their
first insertion. -/
def Generic.childKeys (g : Generic) : List Keyword :=
  firstOccurrences (g.children.map Generic.kw)

/-- A receive `<-l` from the token channel: the next token and the channel
after it; a closed and drained channel gives the zero token. -/
def recv : List Token → Token × List Token
  | [] => ({ indent := 0, kw := 0, value := [], line := 0 }, [])
  | t :: ts => (t, ts)

/-- The loop `for nextToken.kw == kwError` of `parseGeneric`
(lingling.go:300): every error token is recorded and the next token is
received. -/
def skipErrorTokens : Token → List Token → List ParseError → Token × List Token × List ParseError
  | tok, [], errs =>
    if tok.kw = kwError then
      ((recv []).1, [], errs ++ [{ Msg := tok.value, LineNum := tok.line }])
    else (tok, [], errs)
  | tok, t :: ts, errs =>
    if tok.kw = kwError then
      skipErrorTokens t ts (errs ++ [{ Msg := tok.value, LineNum := tok.line }])
    else (tok, t :: ts, errs)

/-- The result of `parseGeneric`: the node, the token that ended it, the
errors, and the channel after it. -/
structure GenericResult where
  g : Generic
  nextToken : Token
  parseErrors : List ParseError
  l : List Token

mutual
/-- Go `parseGeneric` (lingling.go:293).  `fuel` bounds the depth of the
calls; `parseGenericFuel` gives a bound that is enough. -/
def parseGeneric : Nat → List Token → Token → GenericResult
  | 0, l, root =>
    { g := .mk root.kw root.value [] root.line, nextToken := (recv l).1, parseErrors := [],
      l := (recv l).2 }
  | fuel + 1, l, root =>
    let r := skipErrorTokens (recv l).1 (recv l).2 []
    if r.1.indent > root.indent then
      let c := parseChildren fuel r.1.indent r.2.1 r.1 [] r.2.2
      if c.nextToken.indent > root.indent then
        { g := .mk root.kw root.value c.g.children root.line,
          nextToken := (recv c.l).1,
          parseErrors := c.parseErrors ++
            [{ Msg := "inconsistent indentation".toList, LineNum := c.nextToken.line }],
          l := (recv c.l).2 }
      else
        { g := .mk root.kw root.value c.g.children root.line, nextToken := c.nextToken,
          parseErrors := c.parseErrors, l := c.l }
    else
      { g := .mk root.kw root.value [] root.line, nextToken := r.1, parseErrors := r.2.2,
        l := r.2.1 }
/-- The loop `for nextToken.indent == childIndent` of `parseGeneric`
(lingling.go:307); the children read so far are carried in the field `g` of
the result, as the children of a node without keyword. -/
def parseChildren : Nat → Int → List Token → Token → List Generic → List ParseError →
    GenericResult
  | 0, _, l, nextToken, children, errs =>
    { g := .mk 0 [] children 0, nextToken := nextToken, parseErrors := errs, l := l }
  | fuel + 1, childIndent, l, nextToken, children, errs =>
    if nextToken.indent = childIndent then
      let r := parseGeneric fuel l nextToken
      parseChildren fuel childIndent r.l r.nextToken (children ++ [r.g]) (errs ++ r.parseErrors)
    else
      { g := .mk 0 [] children 0, nextToken := nextToken, parseErrors := errs, l := l }
end

/-- A depth of calls that is enough for `parseGeneric` on the channel `l`:
every call and every round of the loop of children receives a token. -/
def parseGenericFuel (l : List Token) : Nat := 2 * l.length + 2

/-! ## What Go leaves to the run time -/

/-- The choices Go leaves to the run time.

* `kwOrder salt keys` is the order in which a `range` loop visits the keys
  of a map keyed by keyword; `salt` tells the loops apart (the line of the
  node whose children are visited), and the only thing known of the order is
  that it is a permutation of the keys.
* `strOrder salt keys` is the same for a map keyed by string.
* `RandomString line` is the value of `RandomString(8)` (util.go:436), which
  is seeded from the clock, at the criterion of line `line`.
* `parseFloat32 v` is `strconv.ParseFloat(v, 32)`: the float, written as Go
  prints it, or the text of the error.
* `unicode` holds what the tables of package `unicode` give for text outside
  ASCII. -/
structure GoRuntime where
  kwOrder : Int → List Keyword → List Keyword
  kwOrder_perm : ∀ salt keys, (kwOrder salt keys).Perm keys
  strOrder : Int → List Str → List Str
  strOrder_perm : ∀ salt keys, (strOrder salt keys).Perm keys
  RandomString : Int → Str
  parseFloat32 : Str → Except Str Str
  unicode : GoUnicode

/-- The run time that visits every map in the order of insertion. -/
def GoRuntime.insertionOrder : GoRuntime where
  kwOrder := fun _ keys => keys
  kwOrder_perm := fun _ keys => List.Perm.refl keys
  strOrder := fun _ keys => keys
  strOrder_perm := fun _ keys => List.Perm.refl keys
  RandomString := fun _ => "r4nd0m_s".toList
  parseFloat32 := fun v => .ok v
  unicode := GoUnicode.unchanged

/-- The run time that visits every map in the reverse order of insertion. -/
def GoRuntime.reverseOrder : GoRuntime where
  kwOrder := fun _ keys => keys.reverse
  kwOrder_perm := fun _ keys => List.reverse_perm keys
  strOrder := fun _ keys => keys.reverse
  strOrder_perm := fun _ keys => List.reverse_perm keys
  RandomString := fun _ => "r4nd0m_s".toList
  parseFloat32 := fun v => .ok v
  unicode := GoUnicode.unchanged

/-- Go `for kw, list := range g.children`: the pairs of a key and its slice,
in the order the run time visits them. -/
def rangeChildren (rt : GoRuntime) (g : Generic) : List (Keyword × List Generic) :=
  (rt.kwOrder g.line g.childKeys).map (fun kw => (kw, g.childrenOf kw))

/-! ## util.go: the keyword grammar -/

/-- Go `kwTree` (util.go:361). -/
inductive KwTree where
  | mk (kw : Keyword) (children : List KwTree)
deriving Repr

/-- The field `kw`. -/
def KwTree.kw : KwTree → Keyword
  | .mk kw _ => kw

/-- The field `children`. -/
def KwTree.children : KwTree → List KwTree
  | .mk _ children => children

/-- An entry of the stack of Go `makeKwTree`: a node whose children are
still being added.  `attached` tells whether the node was appended to the
children of the entry below it when it was created. -/
structure KwTreeFrame where
  kw : Keyword
  children : List KwTree
  attached : Bool

/-- Takes the top `k` entries off the stack of `makeKwTree` (the top is the
head of the list).  An entry that was appended to the children of the entry
below it is a finished child of it now; Go holds the two by pointer, here
the child is put in place when it is finished, which gives the children in
the same order. -/
def popFrames : Nat → List KwTreeFrame → List KwTreeFrame
  | 0, stack => stack
  | _ + 1, [] => []
  | k + 1, [_] => popFrames k []
  | k + 1, top :: below :: stack =>
    popFrames k
      ((if top.attached then { below with children := below.children ++ [.mk top.kw top.children] }
        else below) :: stack)

/-- One round of the loop of Go `makeKwTree` (util.go:388) for a line with
indentation `indent` and keyword `kw`; the state is the stack (its top is
the head of the list) and `lastIndent`. -/
def makeKwTreeStep (state : List KwTreeFrame × Nat) (indent : Nat) (kw : Keyword) :
    List KwTreeFrame × Nat :=
  let stack := state.1
  let lastIndent := state.2
  if indent > lastIndent then
    ({ kw := kw, children := [], attached := !stack.isEmpty } :: stack, indent)
  else
    let stack1 := if indent < lastIndent then popFrames ((lastIndent - indent) / 2) stack else stack
    if stack1.length ≥ 2 then
      ({ kw := kw, children := [], attached := true } :: popFrames 1 stack1, indent)
    else
      ({ kw := kw, children := [], attached := false } :: stack1, indent)

/-- Go `makeKwTree` (util.go:380).  The assertions of the source are not
compiled in (`Debug = false`); a keyword that is not found is the zero
keyword, and `stack[0]` of an empty stack is modelled as a node of the zero
keyword. -/
def makeKwTree (keywords : List (Str × Keyword)) (hierarchy : Str) : KwTree :=
  let lines := strings.Split (strings.TrimSpace hierarchy) chNewline
  let final := lines.foldl
    (fun state line =>
      let v1 := trimRightSpace line.length line
      let v2 := trimLeftSpace v1.length v1
      let kw := match lookupKeyword keywords v2 with
        | some kw => kw
        | none => (lookupKeyword linglingKeywords v2).getD 0
      makeKwTreeStep state (v1.length - v2.length) kw)
    (([], 0) : List KwTreeFrame × Nat)
  match popFrames (final.1.length - 1) final.1 with
  | root :: _ => .mk root.kw root.children
  | [] => .mk 0 []

/-- The lines of the text of the grammar in sml.go:100, between the newline
that opens the raw string and the newline that closes it. -/
def smlKwTreeLines : List String :=
  [
    "project  ",
    "  dataset",
    "    table",
    "    join",
    "      on",
    "      sql",
    "      then",
    "        on",
    "        sql",
    "    label",
    "  table",
    "    description",
    "    sql",
    "    label",
    "    column",
    "      sql",
    "      label",
    "      format",
    "      type",
    "      transformer",
    "  scheme",
    "    name",
    "    description",
    "    criteria",
    "      column",
    "      table",
    "      operator",
    "      value",
    "      combine",
    "        term",
    "          column",
    "          table",
    "          operator",
    "          value",
    "          granularity",
    "          combine",
    "        column",
    "        table",
    "        operator",
    "        value",
    "        granularity",
    "    evaluation" ]

/-- The text of the grammar in sml.go:100. -/
def smlKwTreeText : Str :=
  chNewline :: (strings.Join (smlKwTreeLines.map String.toList) [chNewline] ++ [chNewline])

/-- Go `smlKwTree` (sml.go:100). -/
def smlKwTree : KwTree := makeKwTree smlKeywords smlKwTreeText

/-- Go `makeKwSubtree` (util.go:423); the tree is never `nil` in the
package. -/
def makeKwSubtree (tree : KwTree) (kw : Keyword) : KwTree :=
  match tree.children.find? (fun t => t.kw = kw) with
  | some t => t
  | none => tree

/-- Go `isValidPath` (lingling.go:485). -/
def isValidPathFrom : List KwTree → List Keyword → Bool
  | _, [] => true
  | children, kw :: path =>
    match children.find? (fun t => t.kw = kw) with
    | some t => isValidPathFrom t.children path
    | none => false

/-- Go `isValidPath` (lingling.go:485): the walk starts from
`children := []*kwTree{tree}`. -/
def isValidPath (path : List Keyword) (tree : KwTree) : Bool :=
  isValidPathFrom [tree] path

/-! ## lingling.go: `findIndentationErrors` -/

/-- The smaller `(line, level)` of Go `firstLineMismatchWithGrammar`: the
update `if line >= 0 && (minLine < 0 || line < minLine)` of lingling.go:466. -/
def updateMin (cur : Int × Int) (line level : Int) : Int × Int :=
  if line ≥ 0 && (cur.1 < 0 || line < cur.1) then (line, level) else cur

/-- The update `if minLine < 0 || line < minLine` of lingling.go:476, which
does not look at the sign of `line`. -/
def updateMinUnchecked (cur : Int × Int) (line level : Int) : Int × Int :=
  if cur.1 < 0 || line < cur.1 then (line, level) else cur

mutual
/-- Go `firstLineMismatchWithGrammar` (lingling.go:454): `(minLine,
minLevel)`.  The recursive calls on the children are prepared by
`firstLineMismatchChildren` and made in the order of the loops. -/
def firstLineMismatchWithGrammar (rt : GoRuntime) : Generic → Int → KwTree → Int × Int
  | .mk _ _ children line, level, grammar =>
    let calls := firstLineMismatchChildren rt children
    let keys := rt.kwOrder line (firstOccurrences (children.map Generic.kw))
    keys.foldl
      (fun cur kw =>
        match grammar.children.find? (fun t => t.kw = kw) with
        | some sub =>
          (calls.filter (fun c => c.1.kw = kw)).foldl
            (fun cur1 c => updateMin cur1 (c.2 (level + 1) sub).1 (c.2 (level + 1) sub).2) cur
        | none =>
          (calls.filter (fun c => c.1.kw = kw)).foldl
            (fun cur1 c => updateMinUnchecked cur1 c.1.line level) cur)
      (-1, -1)
/-- Every child with the call of `firstLineMismatchWithGrammar` on it. -/
def firstLineMismatchChildren (rt : GoRuntime) :
    List Generic → List (Generic × (Int → KwTree → Int × Int))
  | [] => []
  | c :: cs => (c, firstLineMismatchWithGrammar rt c) :: firstLineMismatchChildren rt cs
end

mutual
/-- The nodes Go `walkGeneric` (lingling.go:437) visits when no visitor
stops the walk, in the order of the visits. -/
def walkOrder (rt : GoRuntime) : Generic → List Generic
  | .mk kw value children line =>
    let walks := walkOrderChildren rt children
    let keys := rt.kwOrder line (firstOccurrences (children.map Generic.kw))
    .mk kw value children line ::
      (keys.map (fun k =>
        ((walks.filter (fun c => c.1.kw = k)).map (fun c => c.2)).flatten)).flatten
/-- Every child with the walk of it. -/
def walkOrderChildren (rt : GoRuntime) : List Generic → List (Generic × List Generic)
  | [] => []
  | c :: cs => (c, walkOrder rt c) :: walkOrderChildren rt cs
end

mutual
/-- The second walk of `findIndentationErrors` (lingling.go:384): `path`
when `walkGeneric` is stopped by `preFunc` at the first node it visits whose
line is `previousLine`, from the node `g` down; `none` if the walk of `g` is
not stopped (`postFunc` has then taken every node off `path` again). -/
def pathToLine (rt : GoRuntime) (previousLine : Int) : Generic → Option (List Generic)
  | .mk kw value children line =>
    if line = previousLine then some [.mk kw value children line]
    else
      let walks := pathToLineChildren rt previousLine children
      let keys := rt.kwOrder line (firstOccurrences (children.map Generic.kw))
      let ordered := (keys.map (fun k => walks.filter (fun c => c.1.kw = k))).flatten
      match ordered.find? (fun c => c.2.isSome) with
      | some (_, some p) => some (.mk kw value children line :: p)
      | _ => none
/-- Every child with the walk of it. -/
def pathToLineChildren (rt : GoRuntime) (previousLine : Int) :
    List Generic → List (Generic × Option (List Generic))
  | [] => []
  | c :: cs => (c, pathToLine rt previousLine c) :: pathToLineChildren rt previousLine cs
end

/-- Go `linglingKeyword2string` (keywords.go:73), built by
`makeKeywordToString` from `linglingKeywords`: the entries are visited in the
order of the run time and a later entry overwrites an earlier one with the
same keyword. -/
def linglingKeyword2string (rt : GoRuntime) (kw : Keyword) : Str :=
  let keys := rt.strOrder 0 (linglingKeywords.map (fun e => e.1))
  match keys.reverse.find? (fun k => lookupKeyword linglingKeywords k = some kw) with
  | some k => k
  | none => []

/-- The name of a keyword in the messages of `findIndentationErrors`
(lingling.go:409 and 420): `keyword2string[kw]` if present, else
`linglingKeyword2string[kw]`. -/
def keywordName (rt : GoRuntime) (keyword2string : List (Str × Keyword)) (kw : Keyword) : Str :=
  match keyword2string.find? (fun e => e.2 = kw) with
  | some e => e.1
  | none => linglingKeyword2string rt kw

/-- The loop `for len(keywordSequence) > 0` of `findIndentationErrors`
(lingling.go:399).  `revSeq` is `keywordSequence` in reverse; `path`, `kw`,
`line` and `level` are as in the source.  Every round takes one keyword off
the sequence. -/
def findRepair (rt : GoRuntime) (keyword2string : List (Str × Keyword)) (grammar : KwTree)
    (path : List Generic) (kw : Keyword) (line level : Int) : List Keyword → List ParseError
  | [] => []
  | last :: revSeq =>
    let keywordSequence := (last :: revSeq).reverse ++ [kw]
    if isValidPath keywordSequence grammar then
      let possibleParent := keywordSequence.length - 2
      let newLevel : Int := keywordSequence.length - 1
      let direction := if newLevel > level then "right".toList else "left".toList
      let parentKw := keywordSequence.getD possibleParent 0
      let parentKwName := keywordName rt keyword2string parentKw
      let parentValue0 := strings.TrimSpace ((path.getD possibleParent (.mk 0 [] [] 0)).value)
      let parentValue1 :=
        if parentValue0.length > 8 then parentValue0.take 5 ++ "...".toList else parentValue0
      let parentValue :=
        if parentValue1 ≠ [] then " (".toList ++ parentValue1 ++ ")".toList else parentValue1
      let kwName := keywordName rt keyword2string kw
      if parentKwName = "project".toList then
        [{ LineNum := line,
           Msg := "indentation error for \"".toList ++ kwName ++ "\", maybe move ".toList ++
             direction }]
      else
        [{ LineNum := line,
           Msg := "indentation error for \"".toList ++ kwName ++ "\", maybe move ".toList ++
             direction ++ " to be under \"".toList ++ parentKwName ++ "\"".toList ++ parentValue }]
    else findRepair rt keyword2string grammar path kw line level revSeq

/-- Go `findIndentationErrors` (lingling.go:360), for a tree and a grammar
with the same root keyword (the source panics otherwise, and is never
called so). -/
def findIndentationErrors (rt : GoRuntime) (g : Generic) (grammar : KwTree)
    (keyword2string : List (Str × Keyword)) : List ParseError :=
  let lineLevel := firstLineMismatchWithGrammar rt g 1 grammar
  let line := lineLevel.1
  let level := lineLevel.2
  if line < 0 then []
  else
    let visited := walkOrder rt g
    let kw := ((visited.filter (fun g1 => g1.line = line)).getLast?.map Generic.kw).getD 0
    let previousLine := visited.foldl
      (fun prev g1 => if g1.line ≠ line ∧ g1.line < line ∧ g1.line > prev then g1.line else prev)
      (-1 : Int)
    let path := (pathToLine rt previousLine g).getD []
    findRepair rt keyword2string grammar path kw line level (path.map Generic.kw).reverse

/-! ## sml.go: the data model -/

/-- A Go `map[string]α`, as the list of its entries in the order in which
the keys were first inserted. -/
abbrev GoMap (α : Type) := List (Str × α)

/-- Go `v, isPresent := m[k]`. -/
def GoMap.get? {α : Type} : GoMap α → Str → Option α
  | [], _ => none
  | (k, v) :: m, key => if k = key then some v else GoMap.get? m key

/-- Go `m[k] = v`. -/
def GoMap.set {α : Type} : GoMap α → Str → α → GoMap α
  | [], key, val => [(key, val)]
  | (k, v) :: m, key, val => if k = key then (k, val) :: m else (k, v) :: GoMap.set m key val

/-- The keys of a Go map. -/
def GoMap.keys {α : Type} (m : GoMap α) : List Str := m.map (fun e => e.1)

/-- Go `Column` (sml.go:185); the field `Type` is written `Type_`. -/
structure Column where
  Name : Str := []
  SQL : Str := []
  Label : Str := []
  Format : Str := []
  Type_ : Str := []
  Description : Str := []
  Transformer : Str := []
  TransformerName : Str := []
deriving DecidableEq, Repr

/-- Go `Table` (sml.go:157). -/
structure Table where
  Name : Str := []
  DataSource : Str := []
  SQL : Str := []
  ColumnNames : List Str := []
  Columns : GoMap Column := []
  Label : Str := []
  Pk : List Str := []
  Description : Str := []
deriving DecidableEq, Repr

/-- Go `OperatorTableSQL` (sml.go:197). -/
structure OperatorTableSQL where
  Operator : Str := []
  Table : Str := []
  SQL : Str := []
deriving DecidableEq, Repr

/-- Go `Join` (sml.go:204). -/
structure Join where
  OneTable : Str := []
  OneColumns : List Str := []
  OTS : List OperatorTableSQL := []
deriving DecidableEq, Repr

/-- Go `Dataset` (sml.go:176). -/
structure Dataset where
  Name : Str := []
  Label : Str := []
  TableNames : List Str := []
  Tables : GoMap Table := []
  Joins : List Join := []
deriving DecidableEq, Repr

/-- An element of `CriteriaSimpleTerm.Value`, a Go `interface{}`: the
dynamic types the parser stores are `string`, `int`, `float64` and `bool`.
A `float64` is held as the text Go prints for it. -/
inductive TypedValue where
  | string (v : Str)
  | int (v : Int)
  | float64 (v : Str)
  | bool (v : Bool)
deriving DecidableEq, Repr

/-- Go `CriteriaSimpleTerm` (sml.go:229). -/
structure CriteriaSimpleTerm where
  Column : Str := []
  Table : Str := []
  Operator : Str := []
  Granularity : Str := []
  Value : List TypedValue := []
deriving DecidableEq, Repr

mutual
/-- Go `CriteriaTerm` (sml.go:242); a `nil` pointer is `none`. -/
inductive CriteriaTerm where
  | mk (Name : Str) (SimpleTerm : Option CriteriaSimpleTerm)
      (CombinationTerm : Option CriteriaCombinationTerm)
/-- Go `CriteriaCombinationTerm` (sml.go:237). -/
inductive CriteriaCombinationTerm where
  | mk (LogicalOperator : Str) (Terms : List CriteriaTerm)
end

/-- The field `Name`. -/
def CriteriaTerm.Name : CriteriaTerm → Str
  | .mk n _ _ => n

/-- The field `SimpleTerm`. -/
def CriteriaTerm.SimpleTerm : CriteriaTerm → Option CriteriaSimpleTerm
  | .mk _ s _ => s

/-- The field `CombinationTerm`. -/
def CriteriaTerm.CombinationTerm : CriteriaTerm → Option CriteriaCombinationTerm
  | .mk _ _ c => c

/-- The field `LogicalOperator`. -/
def CriteriaCombinationTerm.LogicalOperator : CriteriaCombinationTerm → Str
  | .mk o _ => o

/-- The field `Terms`. -/
def CriteriaCombinationTerm.Terms : CriteriaCombinationTerm → List CriteriaTerm
  | .mk _ t => t

/-- Go `Scheme` (sml.go:250). -/
structure Scheme where
  Name : Str := []
  Label : Str := []
  Description : Str := []
  Criteria : GoMap CriteriaTerm := []
  CriteriaNames : List Str := []
  Evaluation : Str := []

/-- Go `Project` (sml.go:148). -/
structure Project where
  Name : Str := []
  TableNames : List Str := []
  Tables : GoMap Table := []
  Datasets : GoMap Dataset := []
  Schemes : GoMap Scheme := []

/-- Go `DataTypes` (sml.go:90). -/
def DataTypes : List Str :=
  [ "string".toList, "verbatim".toList, "int".toList, "float".toList, "datetime".toList,
    "bool".toList, "time".toList ]

/-- Go `joinOperators` (sml.go:210). -/
def joinOperators : GoMap Str :=
  [ ("<->".toList, "<->".toList),
    ("inner".toList, "<->".toList),
    ("inner join".toList, "<->".toList),
    ("join".toList, "<->".toList),
    ("-->".toList, "-->".toList),
    ("left outer join".toList, "-->".toList),
    ("left join".toList, "-->".toList),
    ("left".toList, "-->".toList),
    ("<--".toList, "<--".toList),
    ("right outer join".toList, "<--".toList),
    ("right join".toList, "<--".toList),
    ("right".toList, "<--".toList),
    (">-<".toList, ">-<".toList),
    ("full outer join".toList, ">-<".toList),
    ("full join".toList, ">-<".toList),
    ("full".toList, ">-<".toList) ]

/-- Go `decoratorOneToMany` (sml.go:45). -/
def decoratorOneToMany : Str := "oneToMany".toList
/-- Go `decoratorManyToOne` (sml.go:46). -/
def decoratorManyToOne : Str := "manyToOne".toList

/-- Go `normalizedOneToMany` (sml.go:1016). -/
def normalizedOneToMany (u : GoUnicode) (word : Str) : Str :=
  if strings.ToLower u word = strings.ToLower u decoratorOneToMany then decoratorOneToMany
  else if strings.ToLower u word = strings.ToLower u decoratorManyToOne then decoratorManyToOne
  else []

/-- Go `makeTable` (sml.go:168). -/
def makeTable (name : Str) : Table := { Name := name }

/-- Go `copyTable` (sml.go:261): the table `dst` points to after the call.
The columns of `src` are visited in the order of the run time. -/
def copyTable (rt : GoRuntime) (dst : Table) (src : Table) : Table :=
  let dst1 := if src.SQL ≠ [] then { dst with SQL := src.SQL } else dst
  let dst2 := if src.Label ≠ [] then { dst1 with Label := src.Label } else dst1
  let columns := (rt.strOrder 3 src.Columns.keys).foldl
    (fun (cols : GoMap Column) k =>
      match src.Columns.get? k with
      | some c => cols.set k c
      | none => cols)
    dst2.Columns
  { dst2 with
    Columns := columns
    ColumnNames := dst2.ColumnNames ++ src.ColumnNames
    Pk := dst2.Pk ++ src.Pk }

/-! ## sml.go: the parser object -/

/-- Go `maxErrors` (sml.go:287). -/
def maxErrors : Nat := 100

/-- How a piece of the semantic parser ends. -/
inductive Outcome (α : Type) where
  /-- It returns `a`; `parseErrors` is `parser.parseErrors` at that time. -/
  | ok (a : α) (parseErrors : List ParseError)
  /-- It ends in `panic(parser.parseErrors)`, with that value. -/
  | panicErrors (parseErrors : List ParseError)
  /-- It ends in a run-time panic of Go with message `msg`, such as a failed
  type assertion. -/
  | panicRuntime (msg : Str)
deriving Repr

/-- The error list of `st` is still the beginning of the error list with
which the piece ends. -/
def Outcome.Extends {α : Type} (st : List ParseError) : Outcome α → Prop
  | .ok _ e => st <+: e
  | .panicErrors e => st <+: e
  | .panicRuntime _ => True

/-- A piece of code that works on an `smlParser` (sml.go:282): `run st` is
how it ends when it starts with `parser.parseErrors = st`.  The field
`maxErrors` of the parser is the constant `maxErrors` throughout.  No code
of the package takes an error out of `parser.parseErrors`, which `grows`
records. -/
structure Parser (α : Type) where
  run : List ParseError → Outcome α
  grows : ∀ st, (run st).Extends st

/-- A piece of code that returns `a` and does nothing to the parser. -/
def Parser.pure {α : Type} (a : α) : Parser α where
  run := fun st => .ok a st
  grows := fun st => List.prefix_refl st

/-- The sequence of two pieces of code. -/
def Parser.bind {α β : Type} (m : Parser α) (f : α → Parser β) : Parser β where
  run := fun st =>
    match m.run st with
    | .ok a st1 => (f a).run st1
    | .panicErrors e => .panicErrors e
    | .panicRuntime msg => .panicRuntime msg
  grows := fun st => by
    have h1 := m.grows st
    show Outcome.Extends st (match m.run st with
      | .ok a st1 => (f a).run st1
      | .panicErrors e => .panicErrors e
      | .panicRuntime msg => .panicRuntime msg)
    revert h1
    cases m.run st with
    | ok a st1 =>
      intro h1
      have h2 := (f a).grows st1
      show Outcome.Extends st ((f a).run st1)
      revert h2
      cases (f a).run st1 with
      | ok b st2 => exact fun h2 => List.IsPrefix.trans h1 h2
      | panicErrors e => exact fun h2 => List.IsPrefix.trans h1 h2
      | panicRuntime msg => exact fun _ => trivial
    | panicErrors e => exact fun h1 => h1
    | panicRuntime msg => exact fun _ => trivial

instance : Monad Parser where
  pure := Parser.pure
  bind := Parser.bind

/-- Go `appendParseError` (sml.go:307). -/
def appendParseError (parseErrors : List ParseError) : Parser Unit where
  run := fun st =>
    if maxErrors - st.length > 0 then
      if parseErrors.length < maxErrors - st.length then .ok () (st ++ parseErrors)
      else .panicErrors (st ++ parseErrors.take (maxErrors - st.length))
    else .panicErrors st
  grows := fun st => by
    by_cases h1 : maxErrors - st.length > 0
    · by_cases h2 : parseErrors.length < maxErrors - st.length
      · simp only [h1, h2, ↓reduceIte]; exact List.prefix_append _ _
      · simp only [h1, h2, ↓reduceIte]; exact List.prefix_append _ _
    · simp only [h1, ↓reduceIte]; exact List.prefix_refl st

/-- Go `panic(parser.parseErrors)`. -/
def panicParseErrors {α : Type} : Parser α where
  run := fun st => .panicErrors st
  grows := fun st => List.prefix_refl st

/-- A run-time panic of Go. -/
def panicRuntime {α : Type} (msg : Str) : Parser α where
  run := fun _ => .panicRuntime msg
  grows := fun _ => trivial

/-- A Go `for _, x := range list` whose body works on the parser; `s` holds
the variables the body assigns. -/
def forEach {β σ : Type} : List β → σ → (σ → β → Parser σ) → Parser σ
  | [], s, _ => pure s
  | b :: bs, s, body => do
    let s1 ← body s b
    forEach bs s1 body

/-- The piece of code `m` does not end in a run-time panic, and every error
it records, whether it returns or ends in `panic(parser.parseErrors)`,
satisfies `P`. -/
def Parser.Emits {α : Type} (P : ParseError → Prop) (m : Parser α) : Prop :=
  ∀ st, match m.run st with
    | .ok _ st1 => ∃ new, st1 = st ++ new ∧ ∀ e ∈ new, P e
    | .panicErrors st1 => ∃ new, st1 = st ++ new ∧ ∀ e ∈ new, P e
    | .panicRuntime _ => False

/-- Go `list[0]`, which panics on an empty slice. -/
def first {β : Type} : List β → Parser β
  | [] => panicRuntime "runtime error: index out of range [0] with length 0".toList
  | b :: _ => pure b

/-- Go `parser.appendParseError(ParseError{msg, line})`. -/
def report (msg : Str) (line : Int) : Parser Unit :=
  appendParseError [{ Msg := msg, LineNum := line }]

/-- Go `parser.appendParseError(ParseError{msg, line})` followed by
`panic(parser.parseErrors)`. -/
def fatal {α : Type} (msg : Str) (line : Int) : Parser α :=
  report msg line >>= fun _ => panicParseErrors

/-- Go `if c { parser.appendParseError(ParseError{msg, line}) }`. -/
def errorIf (c : Bool) (msg : Str) (line : Int) : Parser Unit :=
  if c then report msg line else pure ()

/-- Go `if c { parser.appendParseError(ParseError{msg, line}); panic(parser.parseErrors) }`. -/
def panicIf (c : Bool) (msg : Str) (line : Int) : Parser Unit :=
  if c then fatal msg line else pure ()

/-! ## sql_tokenize.go -/

/-- Go `SQLTokenType` (sql_tokenize.go:107). -/
inductive SQLTokenType where
  | NumberSQLToken
  | StringSQLToken
  | NameSQLToken
  | OpSQLToken
  | ReservedSQLToken
  | UnknownSQLToken
deriving DecidableEq, Repr

/-- Go `SQLToken` (sql_tokenize.go:120); the field `Type` is written
`Type_`. -/
structure SQLToken where
  Position : Nat
  Type_ : SQLTokenType
  Value : Str
  Value2 : Str
deriving DecidableEq, Repr

/-- Go `isName` (sql_tokenize.go:173). -/
def SQLToken.isName (token : SQLToken) : Bool := token.Type_ = .NameSQLToken
/-- Go `isOp` (sql_tokenize.go:177). -/
def SQLToken.isOp (token : SQLToken) : Bool := token.Type_ = .OpSQLToken
/-- Go `isReserved` (sql_tokenize.go:181). -/
def SQLToken.isReserved (token : SQLToken) : Bool := token.Type_ = .ReservedSQLToken

/-- The words of the list in Go `makeReservedWordsMap` (sql_tokenize.go:40). -/
def sqlReservedWordList : List String :=
  [
    "ADD", "ALL", "ALLOCATE", "ALTER", "AND", "ANY", "ARE", "ARRAY", "AS", "ASENSITIVE",
    "ASYMMETRIC", "AT", "ATOMIC", "AUTHORIZATION", "BEGIN", "BETWEEN", "BIGINT", "BINARY",
    "BLOB", "BOOLEAN", "BOTH", "BY", "CALL", "CALLED", "CASCADED", "CASE", "CAST", "CHAR",
    "CHARACTER", "CHECK", "CLOB", "CLOSE", "COLLATE", "COLUMN", "COMMIT", "CONNECT",
    "CONSTRAINT", "CONTINUE", "CORRESPONDING", "CREATE", "CROSS", "CUBE", "CURRENT",
    "CURRENT_DATE", "CURRENT_DEFAULT_TRANSFORM_GROUP", "CURRENT_PATH", "CURRENT_ROLE",
    "CURRENT_TIME", "CURRENT_TIMESTAMP", "CURRENT_TRANSFORM_GROUP_FOR_TYPE", "CURRENT_USER",
    "CURSOR", "CYCLE", "DATE", "DAY", "DEALLOCATE", "DEC", "DECIMAL", "DECLARE", "DEFAULT",
    "DELETE", "DEREF", "DESCRIBE", "DETERMINISTIC", "DISCONNECT", "DISTINCT", "DOUBLE", "DROP",
    "DYNAMIC", "EACH", "ELEMENT", "ELSE", "END", "END-EXEC", "ESCAPE", "EXCEPT", "EXEC",
    "EXECUTE", "EXISTS", "EXTERNAL", "FALSE", "FETCH", "FILTER", "FLOAT", "FOR", "FOREIGN",
    "FREE", "FROM", "FULL", "FUNCTION", "GET", "GLOBAL", "GRANT", "GROUP", "GROUPING", "HAVING",
    "HOLD", "HOUR", "IDENTITY", "IMMEDIATE", "IN", "INDICATOR", "INNER", "INOUT", "INPUT",
    "INSENSITIVE", "INSERT", "INT", "INTEGER", "INTERSECT", "INTERVAL", "INTO", "IS",
    "ISOLATION", "JOIN", "LANGUAGE", "LARGE", "LATERAL", "LEADING", "LEFT", "LIKE", "LOCAL",
    "LOCALTIME", "LOCALTIMESTAMP", "MATCH", "MEMBER", "MERGE", "METHOD", "MINUTE", "MODIFIES",
    "MODULE", "MONTH", "MULTISET", "NATIONAL", "NATURAL", "NCHAR", "NCLOB", "NEW", "NO", "NONE",
    "NOT", "NULL", "NUMERIC", "OF", "OLD", "ON", "ONLY", "OPEN", "OR", "ORDER", "OUT", "OUTER",
    "OUTPUT", "OVER", "OVERLAPS", "PARAMETER", "PARTITION", "PRECISION", "PREPARE", "PRIMARY",
    "PROCEDURE", "RANGE", "READS", "REAL", "RECURSIVE", "REF", "REFERENCES", "REFERENCING",
    "REGR_AVGX", "REGR_AVGY", "REGR_COUNT", "REGR_INTERCEPT", "REGR_R2", "REGR_SLOPE",
    "REGR_SXX", "REGR_SXY", "REGR_SYY", "RELEASE", "RESULT", "RETURN", "RETURNS", "REVOKE",
    "RIGHT", "ROLLBACK", "ROLLUP", "ROW", "ROWS", "SAVEPOINT", "SCROLL", "SEARCH", "SECOND",
    "SELECT", "SENSITIVE", "SESSION_USER", "SET", "SIMILAR", "SMALLINT", "SOME", "SPECIFIC",
    "SPECIFICTYPE", "SQL", "SQLEXCEPTION", "SQLSTATE", "SQLWARNING", "START", "STATIC",
    "SUBMULTISET", "SYMMETRIC", "SYSTEM", "SYSTEM_USER", "TABLE", "THEN", "TIME", "TIMESTAMP",
    "TIMEZONE_HOUR", "TIMEZONE_MINUTE", "TO", "TRAILING", "TRANSLATION", "TREAT", "TRIGGER",
    "TRUE", "UESCAPE", "UNION", "UNIQUE", "UNKNOWN", "UNNEST", "UPDATE", "UPPER", "USER",
    "USING", "VALUE", "VALUES", "VAR_POP", "VAR_SAMP", "VARCHAR", "VARYING", "WHEN", "WHENEVER",
    "WHERE", "WIDTH_BUCKET", "WINDOW", "WITH", "WITHIN", "WITHOUT", "YEAR", "ASC", "CEIL",
    "CEILING", "CHARACTERS", "CHARACTER_LENGTH", "CHARACTER_SET_CATALOG", "CHARACTER_SET_NAME",
    "CHARACTER_SET_SCHEMA", "CHAR_LENGTH", "CONTAINS", "DATETIME_INTERVAL_CODE",
    "DATETIME_INTERVAL_PRECISION", "DENSE_RANK", "DESC", "EQUALS", "EXCLUDE", "EXCLUDING",
    "EXP", "FIRST", "FLOOR", "FOLLOWING", "FOUND", "GO", "GOTO", "INCLUDING", "INTERSECTION",
    "KEY", "KEY_MEMBER", "KEY_TYPE", "LAST", "LENGTH", "LOWER", "MAXVALUE", "MESSAGE_LENGTH",
    "MESSAGE_OCTET_LENGTH", "MESSAGE_TEXT", "MINVALUE", "MOD", "NESTING", "NEXT", "NULLABLE",
    "NULLIF", "NULLS", "PERCENTILE_CONT", "PERCENTILE_DISC", "PERCENT_RANK", "POWER",
    "PRECEDING", "PRESERVE", "ROW_COUNT", "SIZE", "STDDEV_POP", "STDDEV_SAMP", "SUBSTRING",
    "TRIM", "TYPE", "STRING", "DATETIME", "LIMIT" ]

/-- Go `sqlReservedWords` (sql_tokenize.go:37): `sqlReservedWords[w]`. -/
def sqlReservedWords (w : Str) : Bool :=
  sqlReservedWordList.any (fun r => r.toList = w)

/-- The class `\d` of Go regular expressions. -/
def isDigit (c : Char) : Bool := c ≥ '0' && c ≤ '9'

/-- The class `\s` of Go regular expressions: `[\t\n\f\r ]`. -/
def isRegexSpace (c : Char) : Bool :=
  c == chTab || c == chNewline || c == chFormFeed || c == chReturn || c == ' '

/-- The length of the match of `(?:[eE][-+]?\d+)?` at the start of `s`. -/
def matchExponent : Str → Nat
  | [] => 0
  | c :: r =>
    if c = 'e' || c = 'E' then
      let sign := match r with
        | [] => 0
        | x :: _ => if x = '-' || x = '+' then 1 else 0
      let digits := ((r.drop sign).takeWhile isDigit).length
      if digits ≥ 1 then 1 + sign + digits else 0
    else 0

/-- The length of the match of the pattern "number",
`(?:(?:\d+\.\d*)|(?:\.\d+)|(?:\d+))(?:[eE][-+]?\d+)?`, at the start of `s`,
if it matches there. -/
def matchNumber (s : Str) : Option Nat :=
  let d := (s.takeWhile isDigit).length
  let base : Option Nat :=
    if d ≥ 1 && (s.drop d).head? = some '.' then
      some (d + 1 + ((s.drop (d + 1)).takeWhile isDigit).length)
    else if s.head? = some '.' && ((s.drop 1).takeWhile isDigit).length ≥ 1 then
      some (1 + ((s.drop 1).takeWhile isDigit).length)
    else if d ≥ 1 then some d
    else none
  base.map (fun m => m + matchExponent (s.drop m))

/-- The length of the match of the pattern "name", `[a-zA-Z_]\w*`. -/
def matchName : Str → Option Nat
  | [] => none
  | c :: r => if isAlpha c then some (1 + (r.takeWhile isAlphaNumeric).length) else none

/-- The length of the match of the pattern "operator", `<=|>=|<>`. -/
def matchOperator (s : Str) : Option Nat :=
  if strings.HasPrefix s ['<', '='] || strings.HasPrefix s ['>', '='] ||
      strings.HasPrefix s ['<', '>'] then some 2
  else none

/-- The length of the match of the pattern "backquote", a backquote, one or
more bytes other than the backquote, and a backquote. -/
def matchBackquote : Str → Option Nat
  | [] => none
  | c :: r =>
    let n := (r.takeWhile (fun x => x ≠ chBackquote)).length
    if c = chBackquote && n ≥ 1 && (r.drop n).head? = some chBackquote then some (n + 2)
    else none

/-- The length of the match of `(?:qq|\\q|[^q])*q` at the start of `s`, for
the quote `q`: the alternatives of the group are tried in their order, the
star takes as many rounds as it can, and a choice that leads to no match is
taken back. -/
def matchQuotedBody (q : Char) : Str → Option Nat
  | [] => none
  | c :: rest =>
    let twice : Option Nat :=
      match rest with
      | [] => none
      | d :: rest2 =>
        if (c = q && d = q) || (c = chBackslash && d = q) then
          (matchQuotedBody q rest2).map (· + 2)
        else none
    match twice with
    | some n => some n
    | none =>
      if c ≠ q then (matchQuotedBody q rest).map (· + 1)
      else some 1

/-- The length of the match of the pattern "doublequote" (with `q` the
double quote) or "singlequote" (with `q` the single quote). -/
def matchQuoted (q : Char) : Str → Option Nat
  | [] => none
  | c :: r => if c = q then (matchQuotedBody q r).map (· + 1) else none

/-- Whether the byte `c` lies in `lo..hi`. -/
def byteIn (c : Char) (lo hi : Nat) : Bool :=
  decide (lo ≤ c.toNat) && decide (c.toNat ≤ hi)

/-- The number of bytes of the rune at the start of `s` for Go
`utf8.DecodeRuneInString`, with which package `regexp` reads a string: 1 for
an ASCII byte; the length of the encoding, 2 to 4, for a first byte of
`0xC2..0xF4` followed by the continuation bytes it asks for (a second byte
in `0xA0..0xBF` after `0xE0`, in `0x80..0x9F` after `0xED`, in `0x90..0xBF`
after `0xF0`, in `0x80..0x8F` after `0xF4`, and bytes in `0x80..0xBF`
otherwise); and 1 for any other byte, which is read as U+FFFD. -/
def runeWidth : Str → Nat
  | [] => 0
  | c0 :: rest =>
    if c0.toNat < 0x80 then 1
    else if byteIn c0 0xC2 0xDF then
      match rest with
      | c1 :: _ => if byteIn c1 0x80 0xBF then 2 else 1
      | _ => 1
    else if byteIn c0 0xE0 0xEF then
      match rest with
      | c1 :: c2 :: _ =>
        if byteIn c1 (if c0.toNat = 0xE0 then 0xA0 else 0x80)
            (if c0.toNat = 0xED then 0x9F else 0xBF) && byteIn c2 0x80 0xBF then 3
        else 1
      | _ => 1
    else if byteIn c0 0xF0 0xF4 then
      match rest with
      | c1 :: c2 :: c3 :: _ =>
        if byteIn c1 (if c0.toNat = 0xF0 then 0x90 else 0x80)
            (if c0.toNat = 0xF4 then 0x8F else 0xBF) && byteIn c2 0x80 0xBF &&
            byteIn c3 0x80 0xBF then 4
        else 1
      | _ => 1
    else 1

/-- The match of Go `reToken` (sql_tokenize.go:33) at the start of `s`, which
starts with a byte that is not white space: the index of the pattern that
matches, the first in the order of the alternation, and the length of the
match.  The last pattern, `[^\s]`, matches any such rune, of one byte or
more; the classes `[^q]` of the patterns before it match rune by rune what
they match byte by byte, since no byte of a rune outside ASCII is a quote. -/
def matchToken (s : Str) : Nat × Nat :=
  match matchNumber s with
  | some n => (0, n)
  | none =>
    match matchName s with
    | some n => (1, n)
    | none =>
      match matchOperator s with
      | some n => (2, n)
      | none =>
        match matchBackquote s with
        | some n => (3, n)
        | none =>
          match matchQuoted chDQuote s with
          | some n => (4, n)
          | none =>
            match matchQuoted chSQuote s with
            | some n => (5, n)
            | none => (6, runeWidth s)

/-- Go `patternIndexToType` (sql_tokenize.go:127). -/
def patternIndexToType (index : Nat) : SQLTokenType :=
  match index with
  | 0 => .NumberSQLToken
  | 1 => .NameSQLToken
  | 2 => .OpSQLToken
  | 3 => .NameSQLToken
  | 4 => .StringSQLToken
  | 5 => .StringSQLToken
  | _ => .UnknownSQLToken

/-- Go `makeToken` (sql_tokenize.go:137). -/
def makeToken (position : Nat) (index : Nat) (value : Str) : SQLToken :=
  { Position := position,
    Type_ := if patternIndexToType index = .UnknownSQLToken then .OpSQLToken
      else patternIndexToType index,
    Value := value, Value2 := [] }

/-- The first loop of Go `TokenizeSQL` (sql_tokenize.go:214) over the matches
of `reToken`, which `FindAllStringSubmatch` finds from left to right without
overlap: `s` is the text from byte `position` on, and its first `skip` bytes
belong to the match before. -/
def scanTokens : Str → Nat → Nat → List SQLToken
  | [], _, _ => []
  | _ :: rest, position, skip + 1 => scanTokens rest (position + 1) skip
  | c :: rest, position, 0 =>
    if isRegexSpace c then scanTokens rest (position + 1) 0
    else
      makeToken position (matchToken (c :: rest)).1 ((c :: rest).take (matchToken (c :: rest)).2)
        :: scanTokens rest (position + 1) ((matchToken (c :: rest)).2 - 1)

/-- The second loop of Go `TokenizeSQL` (sql_tokenize.go:221), which merges
`x . y` into one token from the right.  `rev` holds `tokens[0..i]` in reverse
and `done` holds the tokens after index `i`. -/
def mergeQualified : List SQLToken → List SQLToken → List SQLToken
  | a :: b :: c :: rest, done =>
    if a.isName && b.Value = ['.'] && c.isName then
      mergeQualified rest ({ c with Value2 := a.Value } :: done)
    else mergeQualified (b :: c :: rest) (a :: done)
  | rev, done => rev.reverse ++ done

/-- Go `TokenizeSQL` (sql_tokenize.go:207). -/
def TokenizeSQL (u : GoUnicode) (sql : Str) : List SQLToken :=
  let sql1 := sql.map (fun c => if c = chNewline || c = chReturn then ' ' else c)
  let tokens := scanTokens sql1 0 0
  let merged := mergeQualified tokens.reverse []
  merged.map (fun token =>
    if token.isName && token.Value2 = [] && sqlReservedWords (strings.ToUpper u token.Value) then
      { token with Type_ := .ReservedSQLToken }
    else token)

/-! ## sml.go: the semantic parser -/

/-- Go `parseSMLString` (sml.go:1048). -/
def parseSMLString (g : Generic) : Parser Str := do
  errorIf (!g.children.isEmpty)
    ("\"".toList ++ smlKeyword2string g.kw ++ "\" cannot have descendents".toList) g.line
  pure g.value

/-- Go `parseIDList` (sml.go:1065). -/
def parseIDList (g : Generic) (allowEmpty : Bool) : Parser (List Str) := do
  let s ← parseSMLString g
  if s = [] && allowEmpty then pure []
  else do
    errorIf (s = []) ("\"".toList ++ smlKeyword2string g.kw ++ "\" has no values".toList) g.line
    forEach (strings.Fields s) () (fun _ id =>
      errorIf (!IsValidID id)
        ("\"".toList ++ smlKeyword2string g.kw ++ "\" has invalid value: \"".toList ++ id ++
          "\"".toList)
        g.line)
    pure (strings.Fields s)

/-- Go `parseDatatype` (sml.go:1082). -/
def parseDatatype (g : Generic) : Parser Str := do
  let s ← parseSMLString g
  errorIf (s = []) "empty type".toList g.line
  errorIf (!DataTypes.contains s) ("invalid type: \"".toList ++ s ++ "\"".toList) g.line
  pure s

/-- The body of a `case` of the form
`if len(list) > 1 { appendParseError(msg) }; child := list[0]; x = parseSMLString(child)`
which the parse functions of sml.go repeat for every child that may occur
once: the value of `parseSMLString(child)`. -/
def parseSingle (list : List Generic) (msg : Str) (line : Int) : Parser Str := do
  errorIf (list.length > 1) msg line
  let child ← first list
  parseSMLString child

/-- The `switch` in the loop of Go `parseColumn` (sml.go:572) for the key
`kw` with slice `list`; the state is the column `c` and `columnTypeExists`. -/
def parseColumnChild (g : Generic) (state : Column × Bool) (entry : Keyword × List Generic) :
    Parser (Column × Bool) :=
  let c := state.1
  let columnTypeExists := state.2
  let kw := entry.1
  let list := entry.2
  if kw = skwSQL then do
    let v ← parseSingle list "cannot have more than one \"sql\"s for a \"column\"".toList g.line
    pure ({ c with SQL := v }, columnTypeExists)
  else if kw = skwLabel then do
    let v ← parseSingle list "cannot have more than one \"label\"s for a \"column\"".toList g.line
    pure ({ c with Label := v }, columnTypeExists)
  else if kw = skwFormat then do
    let v ← parseSingle list "cannot have more than one \"format\"s for a \"column\"".toList g.line
    pure ({ c with Format := v }, columnTypeExists)
  else if kw = skwType then do
    errorIf (list.length > 1) "cannot have more than one \"type\"s for a \"column\"".toList g.line
    let child ← first list
    let v ← parseDatatype child
    pure ({ c with Type_ := v }, true)
  else if kw = skwTransformer then do
    let v ← parseSingle list
      "cannot have more than one \"transformers\"s for a \"column\"".toList g.line
    pure ({ c with Transformer := v }, columnTypeExists)
  else if kw = skwTransformerName then do
    let v ← parseSingle list
      "cannot have more than one \"transformers_name\"s for a \"column\"".toList g.line
    pure ({ c with TransformerName := v }, columnTypeExists)
  else do
    report ("\"column\" cannot contain \"".toList ++ smlKeyword2string kw ++ "\"".toList) g.line
    pure (c, columnTypeExists)

/-- The end of Go `parseColumn` (sml.go:617), after the loop over the
children, which left the column `c` and `columnTypeExists`. -/
def parseColumnEnd (u : GoUnicode) (g : Generic) (c : Column) (columnTypeExists : Bool) :
    Parser Column := do
  errorIf (!columnTypeExists)
    ("\"type\" is mandatory for a column, missing in column ".toList ++ c.Name) g.line
  pure (if c.Label = [] then { c with Label := createSmartLabel u c.Name } else c)

/-- The beginning of Go `parseColumn` (sml.go:560), to the end of the loop
over the children: the column `c` and `columnTypeExists` after the loop. -/
def parseColumnBegin (rt : GoRuntime) (g : Generic) : Parser (Column × Bool) := do
  panicIf (g.kw ≠ skwColumn ∧ g.kw ≠ skwAuxiliaryColumn)
    "value of the keyword must be column".toList g.line
  (if g.value = [] then report "\"column\" has to have a name".toList g.line
   else errorIf (!IsValidID g.value) ("invalid name for column: ".toList ++ g.value) g.line)
  forEach (rangeChildren rt g) (({ Name := g.value } : Column), false) (parseColumnChild g)

/-- Go `parseColumn` (sml.go:560). -/
def parseColumn (rt : GoRuntime) (g : Generic) (_tableName : Str) : Parser Column := do
  let r ← parseColumnBegin rt g
  parseColumnEnd rt.unicode g r.1 r.2

/-- The loop over the `column` children in Go `parseTable` (sml.go:453);
the state is the map `table.Columns` and the slice `columnNames`. -/
def parseTableColumn (rt : GoRuntime) (tableName : Str) (state : GoMap Column × List Str)
    (child : Generic) : Parser (GoMap Column × List Str) := do
  let column ← parseColumn rt child tableName
  if (state.1.get? column.Name).isSome then do
    report
      ("duplicate column \"".toList ++ column.Name ++ "\" in table \"".toList ++ tableName ++
        "\"".toList)
      child.line
    pure state
  else pure (state.1.set column.Name column, state.2 ++ [column.Name])

/-- The `switch` in the loop of Go `parseTable` (sml.go:432) for the key
`kw` with slice `list`; the state is `table` and the slice `columnNames`. -/
def parseTableChild (rt : GoRuntime) (g : Generic) (state : Table × List Str)
    (entry : Keyword × List Generic) : Parser (Table × List Str) :=
  let table := state.1
  let columnNames := state.2
  let kw := entry.1
  let list := entry.2
  if kw = skwDescription then do
    let v ← parseSingle list
      "cannot have more than one \"descriptions\"s for a \"table\"".toList g.line
    pure ({ table with Description := v }, columnNames)
  else if kw = skwSQL then do
    let v ← parseSingle list "cannot have more than one \"sql\"s for a \"table\"".toList g.line
    pure ({ table with SQL := v }, columnNames)
  else if kw = skwLabel then do
    let v ← parseSingle list "cannot have more than one \"label\"s for a \"table\"".toList g.line
    pure ({ table with Label := v }, columnNames)
  else if kw = skwColumn ∨ kw = skwAuxiliaryColumn then do
    let r ← forEach list (table.Columns, columnNames) (parseTableColumn rt table.Name)
    pure ({ table with Columns := r.1 }, r.2)
  else do
    report ("\"table\" cannot contain \"".toList ++ smlKeyword2string kw ++ "\"".toList) g.line
    pure (table, columnNames)

/-- The end of Go `parseTable` (sml.go:466), after the loop over the
children, which left `table` and the slice `columnNames`. -/
def parseTableEnd (u : GoUnicode) (table : Table) (columnNames : List Str) : Parser Table := do
  let table1 := if table.Label = [] then { table with Label := createSmartLabel u table.Name }
    else table
  errorIf (table1.SQL = []) "\"table\" must have a  \"sql\"".toList (-1)
  pure { table1 with ColumnNames := table1.ColumnNames ++ columnNames }

/-- The beginning of Go `parseTable` (sml.go:417), to the end of the loop
over the children: `table` and the slice `columnNames` after the loop. -/
def parseTableBegin (rt : GoRuntime) (g : Generic) : Parser (Table × List Str) := do
  panicIf (g.kw ≠ skwTable) "value of the keyword must be table".toList g.line
  (if g.value = [] then report "\"table\" has to have a name".toList g.line
   else errorIf (!IsValidID g.value) ("invalid name for table: ".toList ++ g.value) g.line)
  forEach (rangeChildren rt g) (({ Name := g.value } : Table), []) (parseTableChild rt g)

/-- Go `parseTable` (sml.go:417). -/
def parseTable (rt : GoRuntime) (g : Generic) : Parser Table := do
  let r ← parseTableBegin rt g
  parseTableEnd rt.unicode r.1 r.2

/-- Go `validateOneToManyJoinCondition` (sml.go:1026). -/
def validateOneToManyJoinCondition (u : GoUnicode) (sql oneTable oneToMany : Str) (linenum : Int) :
    Parser (List Str) := do
  let oneColumns ← forEach (TokenizeSQL u sql) ([] : List Str) (fun oneColumns token => do
    errorIf
      (token.isReserved &&
        (strings.ToUpper u token.Value = "OR".toList ||
          strings.ToUpper u token.Value = "NOT".toList))
      ("expecting simple conjunctions in ".toList ++ oneToMany ++ " JOIN, found \"".toList ++
        token.Value ++ "\"".toList)
      linenum
    errorIf (token.isOp && token.Value ≠ ['='])
      ("expecting only equalities (=) in ".toList ++ oneToMany ++ " JOIN, found \"".toList ++
        token.Value ++ "\"".toList)
      linenum
    pure
      (if token.isName && token.Value2 ≠ [] &&
          strings.ToLower u token.Value = strings.ToLower u oneTable then
        oneColumns ++ [token.Value2]
      else oneColumns))
  errorIf (oneColumns.length = 0)
    ("did not find any column of table \"".toList ++ oneTable ++ "\" participating in ".toList ++
      oneToMany ++ " JOIN".toList)
    linenum
  pure oneColumns

/-- The `case skwOn, skwSQL` of the loops of Go `parseJoin` (sml.go:676 and
736): the new value of `ots.SQL`.  `owner` is `join` or `then`, `line` the
line of the errors of the join or the `then`, and `decoratorMsg` the message
for a decorator in front of the expression. -/
def parseJoinCondition (u : GoUnicode) (otsSQL : Str) (list : List Generic) (owner : Str)
    (line : Int)
    (decoratorMsg : Str → Str) : Parser Str := do
  panicIf (otsSQL ≠ [] || list.length > 1)
    ("cannot have more than one \"sql/on\"s for a \"".toList ++ owner ++ "\"".toList) line
  let child ← first list
  let sql ← parseSMLString child
  panicIf ((strings.Fields sql).length = 0)
    "no expression for a \"sql\" or \"on\" clause".toList child.line
  panicIf (normalizedOneToMany u ((strings.Fields sql).headD []) ≠ [])
    (decoratorMsg (normalizedOneToMany u ((strings.Fields sql).headD []))) line
  pure sql

/-- The `switch` in the loop over the children of a `then` in Go `parseJoin`
(sml.go:734); the state is `ots.SQL`. -/
def parseThenChild (u : GoUnicode) (thenNode : Generic) (otsSQL : Str)
    (entry : Keyword × List Generic) :
    Parser Str :=
  if entry.1 = skwOn ∨ entry.1 = skwSQL then
    parseJoinCondition u otsSQL entry.2 "then".toList thenNode.line
      (fun d => "not expecting \"".toList ++ d ++
        "\" in joins involving more than two tables".toList)
  else
    fatal ("\"then\" cannot contain \"".toList ++ smlKeyword2string entry.1 ++ "\"".toList)
      thenNode.line

/-- The body of the loop `for i := range then` of Go `parseJoin`
(sml.go:710): the triple of one `then`. -/
def parseThen (rt : GoRuntime) (thenNode : Generic) : Parser OperatorTableSQL := do
  panicIf (thenNode.value = []) "\"then\" has to have value".toList thenNode.line
  panicIf ((strings.Fields thenNode.value).length < 2)
    ("cannot parse \"then\": ".toList ++ thenNode.value) thenNode.line
  let pieces := strings.Fields thenNode.value
  let n := pieces.length
  let operator := strings.Join (pieces.take (n - 1)) [' ']
  match joinOperators.get? (strings.ToLower rt.unicode operator) with
  | none => fatal ("expected operator in \"then\", got: ".toList ++ operator) thenNode.line
  | some op => do
    panicIf (!IsValidID (pieces.getD (n - 1) []))
      ("invalid table \"".toList ++ pieces.getD (n - 1) [] ++ "\" in \"then\"".toList)
      thenNode.line
    let sql ← forEach (rangeChildren rt thenNode) ([] : Str) (parseThenChild rt.unicode thenNode)
    panicIf (sql = []) "no \"on\" clause for a \"then\"".toList thenNode.line
    pure { Operator := op, Table := pieces.getD (n - 1) [], SQL := sql }

/-- Go `sort.Sort(genericByLine(then))` (sml.go:709): the nodes in the order
of their lines.  `sort.Sort` leaves the order of nodes of the same line open;
they are kept here in the order of the slice. -/
def sortByLine (l : List Generic) : List Generic :=
  l.insertionSort (fun a b => a.line ≤ b.line)

/-- The `switch` in the loop over the children of a join in Go `parseJoin`
(sml.go:674); the state is `ots.SQL` and the slice `then`. -/
def parseJoinChild (u : GoUnicode) (g : Generic) (state : Str × List Generic)
    (entry : Keyword × List Generic) :
    Parser (Str × List Generic) :=
  if entry.1 = skwOn ∨ entry.1 = skwSQL then do
    let sql ← parseJoinCondition u state.1 entry.2 "join".toList g.line
      (fun d => "not expecting \"".toList ++ d ++
        "\" in \"sql\" or \"ON\" line, should be on the previous \"join\" line".toList)
    pure (sql, state.2)
  else if entry.1 = skwThen then pure (state.1, entry.2)
  else
    fatal ("\"join\" cannot contain \"".toList ++ smlKeyword2string entry.1 ++ "\"".toList) g.line

/-- The end of Go `parseJoin` (sml.go:765): the constraints on a join with a
decorator `oneToMany`, which is not empty; `ots` is `j.OTS`. -/
def parseJoinDecorator (u : GoUnicode) (g : Generic) (oneToMany : Str)
    (ots : List OperatorTableSQL) :
    Parser Join := do
  panicIf (ots.length > 2)
    ("\"".toList ++ oneToMany ++ "\" JOIN cannot connect more than 2 tables".toList) g.line
  let oneTable :=
    if oneToMany = decoratorManyToOne then (ots.getD 1 {}).Table else (ots.getD 0 {}).Table
  let oneColumns ← validateOneToManyJoinCondition u (ots.getD 1 {}).SQL oneTable oneToMany g.line
  pure { OneTable := oneTable, OneColumns := oneColumns, OTS := ots }

/-- Go `parseJoin` (sml.go:627). -/
def parseJoin (rt : GoRuntime) (g : Generic) : Parser Join := do
  panicIf (g.kw ≠ skwJoin) "value of the keyword must be join".toList g.line
  panicIf (g.value = []) "join is not specified".toList g.line
  panicIf ((strings.Fields g.value).length < 3) ("cannot parse \"join\": ".toList ++ g.value) g.line
  let oneToMany := normalizedOneToMany rt.unicode ((strings.Fields g.value).headD [])
  let pieces := if oneToMany ≠ [] then (strings.Fields g.value).drop 1 else strings.Fields g.value
  let n := pieces.length
  panicIf (oneToMany ≠ [] ∧ n < 3) ("cannot parse \"join\": ".toList ++ g.value) g.line
  let operator := strings.Join ((pieces.drop 1).take (n - 2)) [' ']
  match joinOperators.get? (strings.ToLower rt.unicode operator) with
  | none => fatal ("expected operator in \"join\", got: ".toList ++ operator) g.line
  | some op => do
    panicIf (!IsValidID (pieces.headD []))
      ("invalid table \"".toList ++ pieces.headD [] ++ "\" in \"join\"".toList) g.line
    panicIf (!IsValidID (pieces.getD (n - 1) []))
      ("invalid table \"".toList ++ pieces.getD (n - 1) [] ++ "\" in \"join\"".toList) g.line
    let r ← forEach (rangeChildren rt g) (([] : Str), ([] : List Generic))
      (parseJoinChild rt.unicode g)
    panicIf (r.1 = []) "no \"on\" clause for a \"join\"".toList g.line
    let ots ← forEach (sortByLine r.2)
      ([{ Operator := [], Table := pieces.headD [], SQL := [] },
        { Operator := op, Table := pieces.getD (n - 1) [], SQL := r.1 }] : List OperatorTableSQL)
      (fun ots thenNode => do
        let t ← parseThen rt thenNode
        pure (ots ++ [t]))
    if oneToMany ≠ [] then parseJoinDecorator rt.unicode g oneToMany ots
    else pure { OTS := ots }

/-- The `switch` in the loop of Go `parseDataset` (sml.go:493) for the key
`kw` with slice `list`. -/
def parseDatasetChild (rt : GoRuntime) (g : Generic) (n : Dataset)
    (entry : Keyword × List Generic) : Parser Dataset :=
  let kw := entry.1
  let list := entry.2
  if kw = skwTable then
    forEach list n (fun n child => do
      let ids ← parseIDList child false
      pure { n with
        TableNames := n.TableNames ++ ids
        Tables := ids.foldl (fun tables id => tables.set id ({} : Table)) n.Tables })
  else if kw = skwJoin then
    forEach list n (fun n child => do
      let j ← parseJoin rt child
      pure { n with Joins := n.Joins ++ [j] })
  else if kw = skwLabel then do
    let v ← parseSingle list "cannot have more than one \"label\"s for a \"dataset\"".toList g.line
    pure { n with Label := v }
  else do
    report ("\"dataset\" cannot contain \"".toList ++ smlKeyword2string kw ++ "\"".toList) g.line
    pure n

/-- Go `parseDataset` (sml.go:479). -/
def parseDataset (rt : GoRuntime) (g : Generic) : Parser Dataset := do
  panicIf (g.kw ≠ skwDataset) "value of the keyword must be dataset".toList g.line
  (if g.value = [] then report "\"dataset\" has to have a name".toList g.line
   else errorIf (!IsValidID g.value) ("invalid name for dataset: ".toList ++ g.value) g.line)
  let n ← forEach (rangeChildren rt g) ({ Name := g.value } : Dataset) (parseDatasetChild rt g)
  pure (if n.Label = [] then { n with Label := createSmartLabel rt.unicode n.Name } else n)

/-! ## The parts of package `strconv` the code uses -/

/-- Whether every byte of `s` is a printable ASCII byte, `0x20` to `0x7E`. -/
def isPrintableASCII (s : Str) : Bool :=
  s.all (fun c => decide (32 ≤ c.toNat) && decide (c.toNat ≤ 126))

/-- Go `strconv.Quote`: printable ASCII text is put between double quotes,
with a backslash before every double quote and every backslash; the escapes
of any other text depend on the tables of package `strconv`. -/
def strconvQuote (u : GoUnicode) (s : Str) : Str :=
  if isPrintableASCII s then
    chDQuote :: ((s.map (fun c =>
      if c = chDQuote ∨ c = chBackslash then [chBackslash, c] else [c])).flatten ++ [chDQuote])
  else u.Quote s

/-- The text of a Go `*strconv.NumError`. -/
def numError (u : GoUnicode) (func num err : Str) : Str :=
  "strconv.".toList ++ func ++ ": parsing ".toList ++ strconvQuote u num ++ ": ".toList ++ err

/-- The value of a string of decimal digits. -/
def digitsValue (digits : Str) : Nat :=
  digits.foldl (fun n c => 10 * n + (c.toNat - '0'.toNat)) 0

/-- How the loop of Go `strconv.ParseUint(s, 10, 64)` over the bytes of `s`
ends. -/
inductive DigitScan where
  /-- Every byte is a digit, and `n` is the value, below `2^64`. -/
  | value (n : Nat)
  /-- A byte that is not a digit is met: `ErrSyntax`. -/
  | invalid
  /-- The value read so far leaves the 64 bits: `ErrRange`; the bytes after
  it are not read. -/
  | outOfRange
deriving DecidableEq, Repr

/-- The loop of Go `strconv.ParseUint(s, 10, 64)`, with the value `n` read so
far: a byte is first tested for being a digit, then `n >= cutoff` (`cutoff`
is `maxUint64/10 + 1`), then the new value for leaving the 64 bits. -/
def scanDigits : Str → Nat → DigitScan
  | [], n => .value n
  | c :: s, n =>
    if !isDigit c then .invalid
    else if n ≥ 1844674407370955162 then .outOfRange
    else if 10 * n + (c.toNat - '0'.toNat) ≥ 2 ^ 64 then .outOfRange
    else scanDigits s (10 * n + (c.toNat - '0'.toNat))

/-- The bytes of `v` after its sign `+` or `-`, if it starts with one. -/
def decimalDigits (v : Str) : Str :=
  match v with
  | c :: r => if c = '-' ∨ c = '+' then r else v
  | [] => v

/-- What Go `strconv.Atoi(s)` returns for a 64-bit `int` when the loop over
the bytes after the sign has ended as `scan` says: with `ErrSyntax` the value
is 0, and with `ErrRange`, for a value outside `-2^63 .. 2^63 - 1`, it is the
nearest value of an `int`. -/
def atoiResult (u : GoUnicode) (s : Str) : DigitScan → Int × Option Str
  | .invalid => (0, some (numError u "Atoi".toList s "invalid syntax".toList))
  | .outOfRange =>
    (if s.head? = some '-' then -(2 : Int) ^ 63 else (2 : Int) ^ 63 - 1,
      some (numError u "Atoi".toList s "value out of range".toList))
  | .value n =>
    if s.head? = some '-' then
      if n > 2 ^ 63 then
        (-(2 : Int) ^ 63, some (numError u "Atoi".toList s "value out of range".toList))
      else (-(n : Int), none)
    else
      if n ≥ 2 ^ 63 then
        ((2 : Int) ^ 63 - 1, some (numError u "Atoi".toList s "value out of range".toList))
      else ((n : Int), none)

/-- Go `strconv.Atoi` for a 64-bit `int`, the value and the error it
returns: an optional sign and one or more decimal digits. -/
def strconvAtoiBoth (u : GoUnicode) (s : Str) : Int × Option Str :=
  if (decimalDigits s).isEmpty then
    (0, some (numError u "Atoi".toList s "invalid syntax".toList))
  else atoiResult u s (scanDigits (decimalDigits s) 0)

/-- Go `strconv.Atoi` where the value is used only without an error. -/
def strconvAtoi (u : GoUnicode) (s : Str) : Except Str Int :=
  match (strconvAtoiBoth u s).2 with
  | none => .ok (strconvAtoiBoth u s).1
  | some err => .error err

/-- Go `strconv.ParseBool`. -/
def strconvParseBool (u : GoUnicode) (str : Str) : Except Str Bool :=
  if ["1".toList, "t".toList, "T".toList, "TRUE".toList, "true".toList, "True".toList].contains str
  then .ok true
  else if
    ["0".toList, "f".toList, "F".toList, "FALSE".toList, "false".toList,
      "False".toList].contains str
  then .ok false
  else .error (numError u "ParseBool".toList str "invalid syntax".toList)

/-! ## sml.go: criteria, schemes and the project -/

/-- Go `getTypedValue` (sml.go:884). -/
def getTypedValue (rt : GoRuntime) (v datatype : Str) : Except Str TypedValue :=
  if datatype = "string".toList then .ok (.string v)
  else if datatype = "verbatim".toList then .ok (.string v)
  else if datatype = "int".toList then (strconvAtoi rt.unicode v).map TypedValue.int
  else if datatype = "float".toList then (rt.parseFloat32 v).map TypedValue.float64
  else if datatype = "datetime".toList then .ok (.string v)
  else if datatype = "bool".toList then (strconvParseBool rt.unicode v).map TypedValue.bool
  else .error ("type ".toList ++ datatype ++ " not supported".toList)

/-- Go `assert` (util.go:40): a failed assertion prints the stack and ends in
`panic("assertion failure")`. -/
def assert (b : Bool) : Parser Unit :=
  if b then pure () else panicRuntime "assertion failure".toList

/-- Go `findDatatype` (sml.go:906): `(datatype, err)`, after the three
assertions.  The map `tables` is never `nil`: it is the `w.Tables` that
`parseProject` made with `make`. -/
def findDatatype (u : GoUnicode) (tables : GoMap Table) (table column : Str) :
    Parser (Except Str Str) := do
  assert (table ≠ [])
  assert (column ≠ [])
  pure (match tables.get? table with
    | none => .error ("table ".toList ++ table ++ " does not exist".toList)
    | some t =>
      if IsStringInSlice u column t.ColumnNames then
        .ok ((t.Columns.get? column).getD {}).Type_
      else
        .error ("column ".toList ++ column ++ " does not exist in table ".toList ++ table))

/-- The state of the first loop of Go `parseSimpleCriteriaTerm`. -/
structure SimpleTermState where
  s : CriteriaSimpleTerm := {}
  tableFound : Bool := false
  columnFound : Bool := false
  operatorFound : Bool := false

/-- The `switch` in the first loop of Go `parseSimpleCriteriaTerm`
(sml.go:787). -/
def parseSimpleCriteriaTermChild (g : Generic) (state : SimpleTermState)
    (entry : Keyword × List Generic) : Parser SimpleTermState :=
  let kw := entry.1
  let list := entry.2
  if kw = skwColumn then do
    let v ← parseSingle list
      "cannot have more than one \"column\"s for a criteria term".toList g.line
    pure { state with s := { state.s with Column := v }, columnFound := true }
  else if kw = skwTable then do
    let v ← parseSingle list
      "cannot have more than one \"table\"s for a criteria term".toList g.line
    pure { state with s := { state.s with Table := v }, tableFound := true }
  else if kw = skwOperator then do
    let v ← parseSingle list
      "cannot have more than one \"operator\"s for a criteria term".toList g.line
    pure { state with s := { state.s with Operator := v }, operatorFound := true }
  else if kw = skwGranulariy then do
    let v ← parseSingle list
      "cannot have more than one \"granularity\"s for a criteria term".toList g.line
    pure { state with s := { state.s with Granularity := v }, operatorFound := true }
  else if kw = skwValue then pure state
  else do
    report ("\"term\" cannot contain \"".toList ++ smlKeyword2string kw ++ "\"".toList) g.line
    pure state

/-- The body of `if kw == skwValue` in the second loop of Go
`parseSimpleCriteriaTerm` (sml.go:835): the new value of `s`. -/
def parseCriteriaValue (rt : GoRuntime) (g : Generic) (tables : GoMap Table)
    (s : CriteriaSimpleTerm) (list : List Generic) : Parser CriteriaSimpleTerm := do
  let child ← first list
  let valueString ← parseSMLString child
  let found ← findDatatype rt.unicode tables s.Table s.Column
  match found with
  | .error err => do
    report err g.line
    pure s
  | .ok dataType => do
    let values :=
      if IsStringInSlice rt.unicode s.Operator
          ["age_between".toList, "between".toList, "in".toList] then
        strings.Split (strings.Trim valueString ['[', ']']) ','
      else [valueString]
    let typedValues ← forEach values ([] : List TypedValue) (fun typedValues v =>
      match getTypedValue rt (strings.TrimSpace v) dataType with
      | .error err => do
        report err g.line
        pure typedValues
      | .ok typedValue => pure (typedValues ++ [typedValue]))
    pure { s with Value := typedValues }

/-- The body of the loop `for i, v := range s.Value` of Go
`parseSimpleCriteriaTerm` (sml.go:874): `s.Value[i], err =
strconv.Atoi(v.(string))`, where the type assertion panics for a value that
is not a string, and the value `Atoi` returns is stored with or without an
error. -/
def granularityValue (u : GoUnicode) (g : Generic) (done : List TypedValue) (v : TypedValue) :
    Parser (List TypedValue) :=
  match v with
  | .string str =>
    match (strconvAtoiBoth u str).2 with
    | none => pure (done ++ [.int (strconvAtoiBoth u str).1])
    | some err => do
      report err g.line
      pure (done ++ [.int (strconvAtoiBoth u str).1])
  | .int _ => panicRuntime "interface conversion: interface {} is int, not string".toList
  | .float64 _ => panicRuntime "interface conversion: interface {} is float64, not string".toList
  | .bool _ => panicRuntime "interface conversion: interface {} is bool, not string".toList

/-- The body of `if s.Granularity != ""` at the end of Go
`parseSimpleCriteriaTerm` (sml.go:866). -/
def parseGranularity (u : GoUnicode) (g : Generic) (tables : GoMap Table)
    (s1 : CriteriaSimpleTerm) :
    Parser CriteriaSimpleTerm := do
  let datatype := (((tables.get? s1.Table).getD {}).Columns.get? s1.Column).getD {} |>.Type_
  errorIf (datatype ≠ "datetime".toList)
    ("can not have granularity with the data type ".toList ++ datatype) g.line
  let values ← forEach s1.Value ([] : List TypedValue) (granularityValue u g)
  pure { s1 with Value := values }

/-- Go `parseSimpleCriteriaTerm` (sml.go:784). -/
def parseSimpleCriteriaTerm (rt : GoRuntime) (g : Generic) (tables : GoMap Table) :
    Parser CriteriaSimpleTerm := do
  let state ← forEach (rangeChildren rt g) ({} : SimpleTermState) (parseSimpleCriteriaTermChild g)
  errorIf (!state.tableFound) "must have exactly one \"table\" for a criteria term".toList g.line
  errorIf (!state.operatorFound)
    "must have exactly one \"operator\" for a criteria term".toList g.line
  errorIf (!state.columnFound) "must have exactly one \"column\" for a criteria term".toList g.line
  let s1 ← forEach (rangeChildren rt g) state.s (fun s entry =>
    if entry.1 = skwValue then parseCriteriaValue rt g tables s entry.2 else pure s)
  if s1.Granularity ≠ [] then parseGranularity rt.unicode g tables s1 else pure s1

mutual
/-- Go `parseCriteria` (sml.go:944).  The calls of
`parseCombinationCriteriaTerm` on the children are prepared by
`parseCombinationChildren` and made in the order of the loop. -/
def parseCriteria (rt : GoRuntime) (tables : GoMap Table) : Generic → Parser CriteriaTerm
  | .mk kw value children line =>
    let calls := parseCombinationChildren rt tables children
    let keys := rt.kwOrder line (firstOccurrences (children.map Generic.kw))
    do
      let r ← forEach keys ((false, none) : Bool × Option CriteriaCombinationTerm)
        (fun state k =>
          if k = skwCombine then do
            let call ← first (calls.filter (fun c => c.1.kw = k))
            let c ← call.2
            pure (true, some c)
          else pure state)
      let name := if value = [] then rt.RandomString line else value
      if !r.1 then do
        let s ← parseSimpleCriteriaTerm rt (.mk kw value children line) tables
        pure (.mk name (some s) r.2)
      else pure (.mk name none r.2)
/-- Every child with the call of `parseCombinationCriteriaTerm` on it. -/
def parseCombinationChildren (rt : GoRuntime) (tables : GoMap Table) :
    List Generic → List (Generic × Parser CriteriaCombinationTerm)
  | [] => []
  | c :: cs =>
    (c, parseCombinationCriteriaTerm rt tables c) :: parseCombinationChildren rt tables cs
/-- Go `parseCombinationCriteriaTerm` (sml.go:927).  The calls of
`parseCriteria` on the children are prepared by `parseCriteriaChildren`. -/
def parseCombinationCriteriaTerm (rt : GoRuntime) (tables : GoMap Table) :
    Generic → Parser CriteriaCombinationTerm
  | .mk _ value children line =>
    let calls := parseCriteriaChildren rt tables children
    let keys := rt.kwOrder line (firstOccurrences (children.map Generic.kw))
    do
      let terms ← forEach keys ([] : List CriteriaTerm) (fun terms k =>
        if k = skwTerm then do
          errorIf ((calls.filter (fun c => c.1.kw = k)).length ≠ 2)
            "must have exactly two \"term\"s for a combination criteria".toList line
          forEach (calls.filter (fun c => c.1.kw = k)) terms (fun terms call => do
            let t ← call.2
            pure (terms ++ [t]))
        else pure terms)
      pure (.mk value terms)
/-- Every child with the call of `parseCriteria` on it. -/
def parseCriteriaChildren (rt : GoRuntime) (tables : GoMap Table) :
    List Generic → List (Generic × Parser CriteriaTerm)
  | [] => []
  | c :: cs => (c, parseCriteria rt tables c) :: parseCriteriaChildren rt tables cs
end

/-- The `switch` in the loop of Go `parseScheme` (sml.go:978); the state is
the scheme `s` and `criteriaFound`. -/
def parseSchemeChild (rt : GoRuntime) (g : Generic) (tables : GoMap Table)
    (state : Scheme × Bool) (entry : Keyword × List Generic) : Parser (Scheme × Bool) :=
  let s := state.1
  let kw := entry.1
  let list := entry.2
  if kw = skwDescription then do
    let v ← parseSingle list
      "cannot have more than one \"description\"s for a \"scheme\"".toList g.line
    pure ({ s with Description := v }, state.2)
  else if kw = skwLabel then do
    let v ← parseSingle list "cannot have more than one \"label\"s for a \"scheme\"".toList g.line
    pure ({ s with Label := v }, state.2)
  else if kw = skwEvaluation then do
    let v ← parseSingle list
      "cannot have more than one \"evaluation\"s for a \"scheme\"".toList g.line
    pure ({ s with Evaluation := v }, state.2)
  else if kw = skwCriteria then do
    let s1 ← forEach list s (fun s child => do
      let term ← parseCriteria rt tables child
      pure { s with
        Criteria := s.Criteria.set term.Name term
        CriteriaNames := s.CriteriaNames ++ [term.Name] })
    pure (s1, true)
  else do
    report ("\"scheme\" cannot contain \"".toList ++ smlKeyword2string kw ++ "\"".toList) g.line
    pure state

/-- Go `parseScheme` (sml.go:965). -/
def parseScheme (rt : GoRuntime) (g : Generic) (tables : GoMap Table) : Parser Scheme := do
  panicIf (g.kw ≠ skwScheme) "value of the keyword must be scheme".toList g.line
  (if g.value = [] then report "\"scheme\" has to have an ID".toList g.line
   else errorIf (!IsValidID g.value) ("invalid name for scheme: ".toList ++ g.value) g.line)
  let r ← forEach (rangeChildren rt g) (({ Name := g.value } : Scheme), false)
    (parseSchemeChild rt g tables)
  errorIf (!r.2) "no criteria terms found".toList g.line
  pure r.1

/-- The `switch` in the first loop of Go `parseProject` (sml.go:340); the
state is the project `w` and `schemeFound`. -/
def parseProjectChild (rt : GoRuntime) (g : Generic) (state : Project × Bool)
    (entry : Keyword × List Generic) : Parser (Project × Bool) :=
  let kw := entry.1
  let list := entry.2
  if kw = skwTable then do
    let w ← forEach list state.1 (fun w child => do
      let table ← parseTable rt child
      if (w.Tables.get? table.Name).isNone then
        pure { w with
          Tables := w.Tables.set table.Name table
          TableNames := w.TableNames ++ [table.Name] }
      else pure w)
    pure (w, state.2)
  else if kw = skwDataset then do
    let w ← forEach list state.1 (fun w child => do
      let dataset ← parseDataset rt child
      pure { w with Datasets := w.Datasets.set dataset.Name dataset })
    pure (w, state.2)
  else if kw = skwScheme then pure (state.1, true)
  else do
    report ("\"project\" cannot contain \"".toList ++ smlKeyword2string kw ++ "\"".toList) g.line
    pure state

/-- The body of the loop `for i := range w.Datasets` of Go `parseProject`
(sml.go:371) for one dataset. -/
def validateDataset (w : Project) (line : Int) (dataset : Dataset) : Parser Unit := do
  forEach dataset.TableNames () (fun _ table =>
    errorIf (w.Tables.get? table).isNone
      ("table \"".toList ++ table ++ "\" in dataset \"".toList ++ dataset.Name ++
        "\" not defined in project \"".toList ++ w.Name ++ "\"".toList)
      line)
  forEach dataset.Joins () (fun _ j =>
    forEach j.OTS () (fun _ ots =>
      errorIf (!dataset.TableNames.contains ots.Table)
        ("table \"".toList ++ ots.Table ++ "\" in join of dataset \"".toList ++
          dataset.Name ++ "\" not included in dataset".toList)
        line))

/-- The body of the loop `for _, table := range w.Tables` of Go
`parseProject` (sml.go:388) for one table. -/
def validatePk (u : GoUnicode) (line : Int) (table : Table) : Parser Unit :=
  forEach table.Pk () (fun _ name =>
    errorIf (!(table.Columns.keys.map (strings.ToLower u)).contains (strings.ToLower u name))
      ("pk \"".toList ++ name ++ "\" in table \"".toList ++ table.Name ++
        "\" is not a known column".toList)
      line)

/-- The values of a Go map in the order in which the run time visits its
keys in the loop `salt`. -/
def rangeValues {α : Type} (rt : GoRuntime) (salt : Int) (m : GoMap α) : List α :=
  (rt.strOrder salt m.keys).filterMap (fun k => m.get? k)

/-- The second pass of Go `parseProject` (sml.go:361): the loop over
`g.children[skwScheme]`. -/
def parseSchemes (rt : GoRuntime) (g : Generic) (w : Project) : Parser Project :=
  forEach (g.childrenOf skwScheme) w (fun w s => do
    let scheme ← parseScheme rt s w.Tables
    pure { w with Schemes := w.Schemes.set scheme.Name scheme })

/-- The two validation loops at the end of Go `parseProject` (sml.go:369),
over the datasets and over the tables of `w`. -/
def validateProject (rt : GoRuntime) (g : Generic) (w : Project) : Parser Project := do
  forEach (rangeValues rt 1 w.Datasets) () (fun _ dataset => validateDataset w g.line dataset)
  forEach (rangeValues rt 2 w.Tables) () (fun _ table => validatePk rt.unicode g.line table)
  pure w

/-- Go `parseProject` (sml.go:323). -/
def parseProject (rt : GoRuntime) (g : Generic) : Parser Project := do
  panicIf (g.kw ≠ skwProject) "value of the keyword must be project".toList (-1)
  errorIf (g.value = []) "\"project\" has to have a name".toList g.line
  let r ← forEach (rangeChildren rt g) (({ Name := g.value } : Project), false)
    (parseProjectChild rt g)
  let w ← (if r.2 then parseSchemes rt g r.1 else pure r.1)
  validateProject rt g w

/-! ## sml.go: `ParseSML` -/

/-- Go `ensureUniqueColumnNames` (sml.go:1148); the state of the loop is the
set `names` and the errors. -/
def ensureUniqueColumnNames (rt : GoRuntime) (table : Table) : List ParseError :=
  ((rt.strOrder 4 table.Columns.keys).foldl
    (fun (state : List Str × List ParseError) name =>
      if state.1.contains (strings.ToLower rt.unicode name) then
        (state.1, state.2 ++
          [{ Msg := "more than one column with the same name (".toList ++
              strings.ToLower rt.unicode name ++
               ") in table ".toList ++ table.Name,
             LineNum := -1 }])
      else (state.1 ++ [strings.ToLower rt.unicode name], state.2))
    ([], [])).2

/-- Go `ensureUniqueTableAndColumnNames` (sml.go:1162). -/
def ensureUniqueTableAndColumnNames (rt : GoRuntime) (project : Project) : List ParseError :=
  ((rt.strOrder 5 project.Tables.keys).foldl
    (fun (state : List Str × List ParseError) name =>
      if state.1.contains (strings.ToLower rt.unicode name) then
        (state.1, state.2 ++
          [{ Msg := "more than one table with the same name: ".toList ++
              strings.ToLower rt.unicode name,
             LineNum := -1 }])
      else
        (state.1 ++ [strings.ToLower rt.unicode name],
          state.2 ++ ensureUniqueColumnNames rt ((project.Tables.get? name).getD {})))
    ([], [])).2

/-- Go `ensureUniqueDatasetNames` (sml.go:1181). -/
def ensureUniqueDatasetNames (rt : GoRuntime) (project : Project) : List ParseError :=
  ((rt.strOrder 6 project.Datasets.keys).foldl
    (fun (state : List Str × List ParseError) name =>
      if state.1.contains (strings.ToLower rt.unicode name) then
        (state.1, state.2 ++
          [{ Msg := "more than one dataset with the same name: ".toList ++
              strings.ToLower rt.unicode name,
             LineNum := -1 }])
      else (state.1 ++ [strings.ToLower rt.unicode name], state.2))
    ([], [])).2

/-- Go `computeDerivedAttributesInProject` (sml.go:402): the project `w`
points to after the call (the errors it returns are always `nil`). -/
def computeDerivedAttributesInProject (rt : GoRuntime) (w : Project) : Project :=
  { w with
    Datasets := (rt.strOrder 7 w.Datasets.keys).foldl
      (fun (datasets : GoMap Dataset) name =>
        match datasets.get? name with
        | none => datasets
        | some dataset =>
          datasets.set name
            { dataset with
              Tables := dataset.TableNames.foldl
                (fun (tables : GoMap Table) table =>
                  let src := (w.Tables.get? table).getD {}
                  let tmp := copyTable rt (makeTable src.Name) src
                  tables.set tmp.Name tmp)
                dataset.Tables })
      w.Datasets }

/-- The end of Go `ParseSML` (sml.go:1246), after the `switch`: `token` is
the token that ended the project, or the first token if it is End-of-input. -/
def finishParseSML (rt : GoRuntime) (project : Project) (parseErrors : List ParseError)
    (token : Token) : Project × List ParseError :=
  let errs1 :=
    if token.kw ≠ kwEOF then
      (if token.kw = kwError then
        parseErrors ++ [{ Msg := "this should not happen".toList, LineNum := token.line }]
       else parseErrors) ++
        [{ Msg := "unexpected content beyond project: \"".toList ++ smlKeyword2string token.kw ++
             "\"".toList,
           LineNum := token.line }]
    else parseErrors
  if errs1.length > 0 then (project, errs1)
  else
    (computeDerivedAttributesInProject rt project,
      errs1 ++ ensureUniqueTableAndColumnNames rt project ++ ensureUniqueDatasetNames rt project)

/-- Go `ParseSML` (sml.go:1196).  A panic of the semantic parser is
recovered by the deferred function: the project is then the zero `Project`
and the errors are the value of the panic, or one `unknown error` for a
run-time panic. -/
def ParseSML (rt : GoRuntime) (input projectName : Str) : Project × List ParseError :=
  let l := startLex input smlKeywords
  let token := (recv l).1
  if token.kw = kwError then
    ({}, [{ Msg := "error: ".toList ++ token.value, LineNum := token.line }])
  else if token.kw = kwEOF then finishParseSML rt {} [] token
  else if token.kw = skwProject then
    let r := parseGeneric (parseGenericFuel (recv l).2) (recv l).2 token
    if r.parseErrors.length > 0 then ({}, r.parseErrors)
    else if (findIndentationErrors rt r.g smlKwTree smlKeywords).length > 0 then
      ({}, findIndentationErrors rt r.g smlKwTree smlKeywords)
    else
      match (parseProject rt r.g).run [] with
      | .ok project errs =>
        finishParseSML rt
          (if projectName ≠ [] then { project with Name := projectName } else project)
          errs r.nextToken
      | .panicErrors pe => ({}, pe)
      | .panicRuntime msg => ({}, [{ Msg := "unknown error: ".toList ++ msg, LineNum := -1 }])
  else
    ({}, [{ Msg := "expecting project, got: ".toList ++ smlKeyword2string token.kw,
            LineNum := token.line }])

/-! ## The value of the grammar -/

mutual
/-- Equality of grammar trees, as a Boolean. -/
def KwTree.beq : KwTree → KwTree → Bool
  | .mk k1 c1, .mk k2 c2 => k1 == k2 && KwTree.beqList c1 c2
/-- Equality of lists of grammar trees, as a Boolean. -/
def KwTree.beqList : List KwTree → List KwTree → Bool
  | [], [] => true
  | a :: as, b :: bs => KwTree.beq a b && KwTree.beqList as bs
  | _, _ => false
end

/-- The tree `makeKwTree` builds from the text of the grammar. -/
def smlKwTreeValue : KwTree :=
  .mk skwProject
    [ .mk skwDataset
        [ .mk skwTable [],
          .mk skwJoin [.mk skwOn [], .mk skwSQL [], .mk skwThen [.mk skwOn [], .mk skwSQL []]],
          .mk skwLabel [] ],
      .mk skwTable
        [ .mk skwDescription [], .mk skwSQL [], .mk skwLabel [],
          .mk skwColumn
            [.mk skwSQL [], .mk skwLabel [], .mk skwFormat [], .mk skwType [],
             .mk skwTransformer []] ],
      .mk skwScheme
        [ .mk skwName [], .mk skwDescription [],
          .mk skwCriteria
            [ .mk skwColumn [], .mk skwTable [], .mk skwOperator [], .mk skwValue [],
              .mk skwCombine
                [ .mk skwTerm
                    [.mk skwColumn [], .mk skwTable [], .mk skwOperator [], .mk skwValue [],
                     .mk skwGranulariy [], .mk skwCombine []],
                  .mk skwColumn [], .mk skwTable [], .mk skwOperator [], .mk skwValue [],
                  .mk skwGranulariy [] ] ],
          .mk skwEvaluation [] ] ]


/-- The document of the test `TestParse1`. -/
def testParse1Input : Str := "\nproject blah\n\ttable foo\n\t\tsql bar".toList


/-- The run time `rt`, with the order of the keys of a map of at most one
key written out; it is equal to `rt` (`GoRuntime.fixSmall_eq`), and a parse
that only meets such maps can be evaluated with it for every `rt`. -/
def GoRuntime.fixSmall (rt : GoRuntime) : GoRuntime where
  kwOrder := fun salt keys =>
    match keys with
    | [] => []
    | [k] => [k]
    | k1 :: k2 :: ks => rt.kwOrder salt (k1 :: k2 :: ks)
  kwOrder_perm := fun salt keys => by
    match keys with
    | [] => exact List.Perm.refl _
    | [k] => exact List.Perm.refl _
    | k1 :: k2 :: ks => exact rt.kwOrder_perm salt _
  strOrder := fun salt keys =>
    match keys with
    | [] => []
    | [k] => [k]
    | k1 :: k2 :: ks => rt.strOrder salt (k1 :: k2 :: ks)
  strOrder_perm := fun salt keys => by
    match keys with
    | [] => exact List.Perm.refl _
    | [k] => exact List.Perm.refl _
    | k1 :: k2 :: ks => exact rt.strOrder_perm salt _
  RandomString := rt.RandomString
  parseFloat32 := rt.parseFloat32
  unicode := rt.unicode


/-! ## Notions the statements about the semantic parser use -/

/-- The first bytes of the message `"table" must have a  "sql"`, which no
other message of `parseTable` starts with. -/
def sqlMissingStart : Str := "\"table\" m".toList

/-- The first bytes of the message `"type" is mandatory for a column, ...`,
which no other message of `parseColumn` starts with. -/
def typeMissingStart : Str := "\"type\" i".toList

/-- The message of `e` does not start with `pat`. -/
def NotStart (pat : Str) (e : ParseError) : Prop := e.Msg.take pat.length ≠ pat

/-- The value of `g.children[skwSQL][0]`, the `sql` child `parseTable` reads,
and the empty string when `g` has no `sql` child. -/
def Generic.sqlValue (g : Generic) : Str :=
  match g.childrenOf skwSQL with
  | [] => []
  | child :: _ => child.value

/-- The error `parseTable` records for a table without SQL text. -/
def sqlMissingError : ParseError :=
  { Msg := "\"table\" must have a  \"sql\"".toList, LineNum := -1 }

/-- The error `parseColumn` records for the column `g` without a type. -/
def typeMissingError (g : Generic) : ParseError :=
  { Msg := "\"type\" is mandatory for a column, missing in column ".toList ++ g.value,
    LineNum := g.line }

/-- The list `parser.parseErrors` with which a piece of code ends; empty
for a run-time panic, which carries no list. -/
def Outcome.errors {α : Type} : Outcome α → List ParseError
  | .ok _ e => e
  | .panicErrors e => e
  | .panicRuntime _ => []

/-- Whether the piece of code returned, rather than panicked. -/
def Outcome.returns {α : Type} : Outcome α → Bool
  | .ok _ _ => true
  | _ => false

/-- A table without a name and with 34 columns without a name or a child,
on the lines 3 to 36: its errors use up the budget of `maxErrors`. -/
def budgetTable : Generic :=
  Generic.mk skwTable [] ((List.range 34).map (fun i => Generic.mk skwColumn [] [] (i + 3))) 2

/-- The last column of `budgetTable`. -/
def budgetColumn : Generic := Generic.mk skwColumn [] [] 36

/-- A table `t` with two `sql` children, the first one without a value. -/
def twoSqlTable : Generic :=
  Generic.mk skwTable "t".toList
    [Generic.mk skwSQL [] [] 3, Generic.mk skwSQL "select 1".toList [] 4] 2

/-- A column `c` without children. -/
def typelessColumn : Generic := Generic.mk skwColumn "c".toList [] 3

/-- A column `c` with the child `type int`. -/
def typedColumn : Generic :=
  Generic.mk skwColumn "c".toList [Generic.mk skwType "int".toList [] 4] 3

/-- A table `t` without children. -/
def sqllessTable : Generic := Generic.mk skwTable "t".toList [] 2

/-- A table `t` with the child `sql select 1`. -/
def sqlTable : Generic :=
  Generic.mk skwTable "t".toList [Generic.mk skwSQL "select 1".toList [] 3] 2

/-- What the outcome `o` of a piece of code started with
`parser.parseErrors = st` says about the error `e`: the code did not end in
a run-time panic; if it returned, it has recorded `e` if and only if `cond`
holds; if it ended in `panic(parser.parseErrors)`, it has recorded `e` only
if `cond` holds. -/
def Outcome.RecordsIff {α : Type} (o : Outcome α) (st : List ParseError) (e : ParseError)
    (cond : Prop) : Prop :=
  match o with
  | .ok _ st1 => ∃ new, st1 = st ++ new ∧ (e ∈ new ↔ cond)
  | .panicErrors st1 => ∃ new, st1 = st ++ new ∧ (e ∈ new → cond)
  | .panicRuntime _ => False

/-- A document whose table `t` has two `sql` lines, the first one without a
value. -/
def twoSqlDoc : Str := "project p\n\ttable t\n\t\tsql\n\t\tsql select 1\n".toList

/-- The error of `parseProject` for a table of a dataset that the project
does not define. -/
def datasetTableError (table dataset project : Str) (line : Int) : ParseError :=
  { Msg := "table \"".toList ++ table ++ "\" in dataset \"".toList ++ dataset ++
      "\" not defined in project \"".toList ++ project ++ "\"".toList,
    LineNum := line }

/-- The error of `parseProject` for a table of a join that is not in the
table list of the dataset. -/
def joinTableError (table dataset : Str) (line : Int) : ParseError :=
  { Msg := "table \"".toList ++ table ++ "\" in join of dataset \"".toList ++ dataset ++
      "\" not included in dataset".toList,
    LineNum := line }

/-- The list `errs` has the errors of the validation of the datasets of `w`
at the end of `parseProject`, for the project name `project` and the line
`line`: one for every table of a dataset that `w` does not define, and one
for every table of a join that is not in the table list of its dataset. -/
def Project.Validated (w : Project) (project : Str) (line : Int) (errs : List ParseError) :
    Prop :=
  ∀ name ds, w.Datasets.get? name = some ds →
    (∀ t ∈ ds.TableNames, w.Tables.get? t = none →
      datasetTableError t ds.Name project line ∈ errs) ∧
    (∀ j ∈ ds.Joins, ∀ ots ∈ j.OTS, ots.Table ∉ ds.TableNames →
      joinTableError ots.Table ds.Name line ∈ errs)

/-- The value a piece of code returned, if it returned. -/
def Outcome.value? {α : Type} : Outcome α → Option α
  | .ok a _ => some a
  | _ => none

/-- A document whose dataset `d` joins the table `b`, which is not in the
table list of `d`. -/
def badJoinDoc : Str :=
  ("project p\n\ttable a\n\t\tsql a\n\tdataset d\n\t\ttable a\n" ++
    "\t\tjoin a <-> b\n\t\t\ton a.x = b.x\n").toList

/-- A document whose dataset `d` joins two tables of its table list. -/
def goodJoinDoc : Str :=
  ("project p\n\ttable a\n\t\tsql a\n\ttable b\n\t\tsql b\n\tdataset d\n\t\ttable a b\n" ++
    "\t\tjoin a <-> b\n\t\t\ton a.x = b.x\n").toList

/-- The document `badJoinDoc` without the `on` line of the join. -/
def noOnDoc : Str :=
  "project p\n\ttable a\n\t\tsql a\n\tdataset d\n\t\ttable a\n\t\tjoin a <-> b\n".toList

/-- The document `badJoinDoc` followed by a second dataset `d`, without a
join. -/
def twoDatasetsDoc : Str :=
  badJoinDoc ++ "\tdataset d\n\t\ttable a\n".toList

/-- The node of the first dataset of `twoDatasetsDoc`. -/
def badJoinDataset : Generic :=
  Generic.mk skwDataset "d".toList
    [Generic.mk skwTable "a".toList [] 5,
     Generic.mk skwJoin "a <-> b".toList [Generic.mk skwOn "a.x = b.x".toList [] 7] 6] 4

mutual
/-- The simple term `s` is the simple term of the criteria term, or of a
term of its combination, at any depth. -/
inductive CriteriaTerm.HasSimple (s : CriteriaSimpleTerm) : CriteriaTerm → Prop
  | ofSimple (name : Str) (comb : Option CriteriaCombinationTerm) :
    CriteriaTerm.HasSimple s (.mk name (some s) comb)
  | ofCombination (name : Str) (simple : Option CriteriaSimpleTerm) (c : CriteriaCombinationTerm) :
    CriteriaCombinationTerm.HasSimple s c → CriteriaTerm.HasSimple s (.mk name simple (some c))
/-- The simple term `s` is below one of the terms of the combination. -/
inductive CriteriaCombinationTerm.HasSimple (s : CriteriaSimpleTerm) :
    CriteriaCombinationTerm → Prop
  | ofTerm (op : Str) (terms : List CriteriaTerm) (t : CriteriaTerm) :
    t ∈ terms → CriteriaTerm.HasSimple s t → CriteriaCombinationTerm.HasSimple s (.mk op terms)
end

/-- Go `tables[s.Table].Columns[s.Column].Type` (sml.go:869): the data type
of the column the simple term `s` refers to, empty when there is no such
table or column. -/
def columnType (tables : GoMap Table) (s : CriteriaSimpleTerm) : Str :=
  ((((tables.get? s.Table).getD {}).Columns.get? s.Column).getD {}).Type_

/-- The error of `parseSimpleCriteriaTerm` for a granularity on a column of
the data type `datatype`. -/
def granularityError (datatype : Str) (line : Int) : ParseError :=
  { Msg := "can not have granularity with the data type ".toList ++ datatype, LineNum := line }

/-- If the simple term `s` has a granularity and refers to a column that is
not of the type `datetime`, the list `errs` has the error for it, at some
line. -/
def SimpleChecked (tables : GoMap Table) (errs : List ParseError) (s : CriteriaSimpleTerm) :
    Prop :=
  s.Granularity ≠ [] → columnType tables s ≠ "datetime".toList →
    ∃ line, granularityError (columnType tables s) line ∈ errs

/-- Every simple term of a criteria of a scheme of `w` is `SimpleChecked`
against the tables of `w`. -/
def Project.GranularityChecked (w : Project) (errs : List ParseError) : Prop :=
  ∀ sname scheme cname term s, w.Schemes.get? sname = some scheme →
    scheme.Criteria.get? cname = some term → term.HasSimple s → SimpleChecked w.Tables errs s

/-- The head of the documents about a granularity, to the data type of the
column `i` of the table `f`. -/
def granularityDocHead : Str :=
  "project p\n\ttable f\n\t\tsql f\n\t\tcolumn i\n\t\t\ttype ".toList

/-- The scheme of the documents about a granularity, to the value of the
line `granularity` of its criteria on the column `i`. -/
def granularityDocScheme : Str :=
  ("\n\tscheme s\n\t\tcriteria c\n\t\t\ttable f\n\t\t\tcolumn i\n\t\t\toperator in\n" ++
    "\t\t\tvalue [1, 2]\n\t\t\tgranularity").toList

/-- A criteria with `granularity year` on a column of the type `string`. -/
def stringGranularityDoc : Str :=
  granularityDocHead ++ "string".toList ++ granularityDocScheme ++ " year\n".toList

/-- A criteria with `granularity year` on a column of the type `int`. -/
def intGranularityDoc : Str :=
  granularityDocHead ++ "int".toList ++ granularityDocScheme ++ " year\n".toList

/-- A criteria with a line `granularity` without a value on a column of the
type `string`. -/
def emptyGranularityDoc : Str :=
  granularityDocHead ++ "string".toList ++ granularityDocScheme ++ "\n".toList

/-- The document `stringGranularityDoc` followed by a line with an unknown
keyword. -/
def brokenGranularityDoc : Str := stringGranularityDoc ++ "\tnode foo\n".toList

/-- A join node with the value `value`, at the line `line`, whose only child
is a line `on` or `sql` (the keyword `kw`) with the condition
`t1.a = t2.b AND t1.c = t2.d`, at the line `cline`. -/
def joinNode (value : Str) (kw : Keyword) (line cline : Int) : Generic :=
  Generic.mk skwJoin value [Generic.mk kw "t1.a = t2.b AND t1.c = t2.d".toList [] cline] line

/-- The triples `parseJoin` makes of a join of `t1` and `t2` with the
operator `<->` and the condition of `joinNode`. -/
def joinNodeOTS : List OperatorTableSQL :=
  [{ Operator := [], Table := "t1".toList, SQL := [] },
   { Operator := "<->".toList, Table := "t2".toList,
     SQL := "t1.a = t2.b AND t1.c = t2.d".toList }]

/-- Whether `ParseSML` on `input` reaches the statement
`if projectName != "" { project.Name = projectName }` (sml.go:1237): the
first token is a project, `parseGeneric` and `findIndentationErrors` give no
error, and `parseProject` returns. -/
def reachesNameOverride (rt : GoRuntime) (input : Str) : Bool :=
  let l := startLex input smlKeywords
  let token := (recv l).1
  let r := parseGeneric (parseGenericFuel (recv l).2) (recv l).2 token
  decide (token.kw = skwProject) && decide (r.parseErrors.length = 0) &&
    decide ((findIndentationErrors rt r.g smlKwTree smlKeywords).length = 0) &&
    ((parseProject rt r.g).run []).returns

/-! ## Notions the statements about the lexer use -/

/-- The tokens `runLexer` sends from the round that starts at the line
`lineNum` (0-based) on, End-of-input included; `lexFrom string2keyword lines 0`
are all the tokens. -/
def lexFrom (string2keyword : List (Str × Keyword)) (lines : List Str) (lineNum : Nat) :
    List Token :=
  runLexerLoop string2keyword lines (lines.length + 1 - lineNum) lineNum

/-! ## Notions the statements about the error budget use -/

/-- The piece of code `m` keeps the budget of `maxErrors`: started with
fewer than `maxErrors` errors, it returns with fewer than `maxErrors` errors
or ends in `panic(parser.parseErrors)` with at most `maxErrors` errors. -/
def Parser.Bounded {α : Type} (m : Parser α) : Prop :=
  ∀ st, st.length < maxErrors →
    match m.run st with
    | .ok _ st1 => st1.length < maxErrors
    | .panicErrors st1 => st1.length ≤ maxErrors
    | .panicRuntime _ => True

/-! ## sml.go: `typeFromFilename` and `ParseSMLPieces` -/

/-- Go `smlFileType` (sml.go:1270). -/
inductive SmlFileType where
  | fileTypeUnknown
  | fileTypeDataset
  | fileTypeTable
  | fileTypeScheme
deriving DecidableEq, Repr

/-- Go `smlFileTypes` (sml.go:1279). -/
def smlFileTypes : GoMap SmlFileType :=
  [ (".table.sml".toList, .fileTypeTable),
    (".dataset.sml".toList, .fileTypeDataset),
    (".scheme.sml".toList, .fileTypeScheme) ]

/-- The test of the loop of Go `typeFromFilename` (sml.go:1288) for the
suffix `k`. -/
def hasFileSuffix (u : GoUnicode) (filename k : Str) : Bool :=
  decide (filename.length > k.length) &&
    decide (strings.ToLower u (filename.drop (filename.length - k.length)) = k)

/-- Go `typeFromFilename` (sml.go:1285); the suffixes are visited in the
order of the run time. -/
def typeFromFilename (rt : GoRuntime) (filename : Str) : SmlFileType :=
  match (rt.strOrder 8 smlFileTypes.keys).find? (hasFileSuffix rt.unicode filename) with
  | some k => (smlFileTypes.get? k).getD .fileTypeUnknown
  | none => .fileTypeUnknown

/-- How a call of Go `ParseSMLPieces` ends: it returns, after a panic that
its deferred function recovered or without one, or the deferred function
itself panics. -/
inductive PiecesOutcome where
  | returns (project : Project) (errorLine : Int) (err : Option Str)
  | crashes (msg : Str)

/-- How a round of the first loop of Go `ParseSMLPieces` ends. -/
inductive PieceStep where
  /-- The loop goes on with the slices `tables` and `datasets`. -/
  | goOn (tables datasets : List Generic)
  /-- The function returns with `errorLine` and `err` set. -/
  | stop (errorLine : Int) (err : Str)
  /-- A panic with the string `msg`. -/
  | panics (msg : Str)

/-- The end of a round of the first loop of Go `ParseSMLPieces`
(sml.go:1372), after the `switch`: `token` is the token that ended the
piece. -/
def endPiece (expectedKeyword : Keyword) (filename : Str) (token : Token)
    (tables datasets : List Generic) : PieceStep :=
  if token.kw ≠ kwEOF then
    if token.kw = kwError then .stop 0 "this should not happen".toList
    else
      .stop 0 ("unexpected content beyond ".toList ++ smlKeyword2string expectedKeyword ++
        ": \"".toList ++ smlKeyword2string token.kw ++ "\" (file ".toList ++ filename ++
        " line ".toList ++ fmtInt token.line ++ ")".toList)
  else .goOn tables datasets

/-- A round of the first loop of Go `ParseSMLPieces` (sml.go:1325) for the
input `input` with the file name `filename`.  For a file of the scheme type
the `switch` leaves `expectedKeyword` at its zero value. -/
def readPiece (rt : GoRuntime) (input filename : Str) (tables datasets : List Generic) :
    PieceStep :=
  match typeFromFilename rt filename with
  | .fileTypeUnknown => .goOn tables datasets
  | fileType =>
    let expectedKeyword : Keyword :=
      match fileType with
      | .fileTypeDataset => skwDataset
      | .fileTypeTable => skwTable
      | _ => 0
    let l := startLex input smlKeywords
    let token := (recv l).1
    if token.kw = kwError then .stop token.line token.value
    else if token.kw = kwEOF then endPiece expectedKeyword filename token tables datasets
    else if token.kw = expectedKeyword then
      let r := parseGeneric (parseGenericFuel (recv l).2) (recv l).2 token
      match r.parseErrors with
      | e :: _ => .stop e.LineNum e.Msg
      | [] =>
        if r.g.kw ≠ (makeKwSubtree smlKwTree expectedKeyword).kw then .panics "WTF".toList
        else
          match findIndentationErrors rt r.g (makeKwSubtree smlKwTree expectedKeyword)
              smlKeywords with
          | e :: _ => .stop e.LineNum e.Msg
          | [] =>
            if expectedKeyword = skwDataset then
              endPiece expectedKeyword filename r.nextToken tables (datasets ++ [r.g])
            else if expectedKeyword = skwTable then
              endPiece expectedKeyword filename r.nextToken (tables ++ [r.g]) datasets
            else endPiece expectedKeyword filename r.nextToken tables datasets
    else
      .stop 0 ("expecting ".toList ++ smlKeyword2string expectedKeyword ++ ", got: ".toList ++
        smlKeyword2string token.kw ++ " in file ".toList ++ filename ++ " line ".toList ++
        fmtInt token.line)

/-- The first loop of Go `ParseSMLPieces` (sml.go:1325) over the inputs and
their file names, which are as many. -/
def readPieces (rt : GoRuntime) : List (Str × Str) → List Generic → List Generic → PieceStep
  | [], tables, datasets => .goOn tables datasets
  | (input, filename) :: rest, tables, datasets =>
    match readPiece rt input filename tables datasets with
    | .goOn tables1 datasets1 => readPieces rt rest tables1 datasets1
    | step => step

/-- What the deferred function of Go `ParseSMLPieces` (sml.go:1298) makes
of a panic of the parser with the list `pe`, when the project is `project`:
it takes `pe[0]`, which panics itself on an empty list. -/
def recoverPieces (project : Project) : List ParseError → PiecesOutcome
  | e :: _ => .returns project e.LineNum (some e.Msg)
  | [] => .crashes "runtime error: index out of range [0] with length 0".toList

/-- The loop over the datasets in Go `ParseSMLPieces` (sml.go:1385).  The
parser holds no error whenever a round starts, since the function returns
after the first call that leaves one. -/
def parseDatasetPieces (rt : GoRuntime) : List Generic → Project → Project ⊕ PiecesOutcome
  | [], project => .inl project
  | g :: gs, project =>
    match (parseDataset rt g).run [] with
    | .ok dataset [] =>
      parseDatasetPieces rt gs
        { project with Datasets := project.Datasets.set dataset.Name dataset }
    | .ok _ (e :: _) => .inr (.returns project e.LineNum (some e.Msg))
    | .panicErrors pe => .inr (recoverPieces project pe)
    | .panicRuntime msg =>
      .inr (.returns project (-1) (some ("unknown error: ".toList ++ msg)))

/-- The loop over the tables in Go `ParseSMLPieces` (sml.go:1394). -/
def parseTablePieces (rt : GoRuntime) : List Generic → Project → Project ⊕ PiecesOutcome
  | [], project => .inl project
  | g :: gs, project =>
    match (parseTable rt g).run [] with
    | .ok table [] =>
      parseTablePieces rt gs
        { project with
          Tables := project.Tables.set table.Name table
          TableNames := project.TableNames ++ [table.Name] }
    | .ok _ (e :: _) => .inr (.returns project e.LineNum (some e.Msg))
    | .panicErrors pe => .inr (recoverPieces project pe)
    | .panicRuntime msg =>
      .inr (.returns project (-1) (some ("unknown error: ".toList ++ msg)))

/-- The end of Go `ParseSMLPieces` (sml.go:1404): the two checks of the
names. -/
def checkPieces (rt : GoRuntime) (project : Project) : PiecesOutcome :=
  match ensureUniqueTableAndColumnNames rt project with
  | e :: _ => .returns project e.LineNum (some e.Msg)
  | [] =>
    match ensureUniqueDatasetNames rt project with
    | e :: _ => .returns project e.LineNum (some e.Msg)
    | [] => .returns project 0 none

/-- Go `ParseSMLPieces` (sml.go:1297). -/
def ParseSMLPieces (rt : GoRuntime) (inputs filenames : List Str) : PiecesOutcome :=
  if inputs.length ≠ filenames.length then
    .returns {} 0 (some "inputs length and filenames length do not match in API call".toList)
  else
    match readPieces rt (inputs.zip filenames) [] [] with
    | .stop errorLine err => .returns {} errorLine (some err)
    | .panics msg => .returns {} (-1) (some ("unknown error: ".toList ++ msg))
    | .goOn tables datasets =>
      match parseDatasetPieces rt datasets {} with
      | .inr out => out
      | .inl project1 =>
        match parseTablePieces rt tables project1 with
        | .inr out => out
        | .inl project2 => checkPieces rt project2

/-- The project with which a call of `ParseSMLPieces` returned; the zero
project when it did not return. -/
def PiecesOutcome.project : PiecesOutcome → Project
  | .returns project _ _ => project
  | .crashes _ => {}

/-- The error with which a call of `ParseSMLPieces` returned: `some none`
for `nil`, and `none` when it did not return. -/
def PiecesOutcome.err : PiecesOutcome → Option (Option Str)
  | .returns _ _ err => some err
  | .crashes _ => none

/-- The file name `filename` ends with the suffix `k`, whatever the case of
its letters, after at least one more byte. -/
def EndsWithFold (u : GoUnicode) (filename k : Str) : Prop :=
  ∃ pre suf, pre ≠ [] ∧ filename = pre ++ suf ∧ strings.ToLower u suf = k
/-! ## Inputs at which the fragments and the whole document differ -/

/-- Two fragments that declare a table of the same name `t`. -/
def twoTablePieces : List Str :=
  ["table t\n\tsql a\n".toList, "table t\n\tsql b\n".toList]

/-- The file names of `twoTablePieces`. -/
def twoTableFilenames : List Str :=
  ["a.table.sml".toList, "b.table.sml".toList]

/-- A fragment with a table `t` of one column and a fragment with a dataset
`d` that lists `t`. -/
def datasetPieces : List Str :=
  ["table t\n\tsql a\n\tcolumn c\n\t\ttype int\n".toList, "dataset d\n\ttable t\n".toList]

/-- The file names of `datasetPieces`. -/
def datasetFilenames : List Str :=
  ["x.table.sml".toList, "y.dataset.sml".toList]

/-- The table and the dataset of `datasetPieces` in one document. -/
def datasetDocument : Str :=
  "project p\n\ttable t\n\t\tsql a\n\t\tcolumn c\n\t\t\ttype int\n\tdataset d\n\t\ttable t\n".toList

/-- The SQL and the names of the columns of the entry for the table `t` in
the dataset `d` of a project. -/
def datasetTableOf (w : Project) (d t : Str) : Option (Str × List Str) :=
  match w.Datasets.get? d with
  | some ds => (ds.Tables.get? t).map (fun x => (x.SQL, x.ColumnNames))
  | none => none

/-- A scheme with two criteria of the same name `c`, on a table `f` with a
column `i` of the type `int`. -/
def twoCriteriaDoc : Str :=
  granularityDocHead ++ "int".toList ++
    ("\n\tscheme s\n\t\tcriteria c\n\t\t\ttable f\n\t\t\tcolumn i\n\t\t\toperator in\n" ++
      "\t\t\tvalue [1, 2]\n\t\tcriteria c\n\t\t\ttable f\n\t\t\tcolumn i\n" ++
      "\t\t\toperator equals\n\t\t\tvalue 3\n").toList

/-- The names and the keys of the criteria of the scheme `s` of a project. -/
def criteriaOf (w : Project) (s : Str) : Option (List Str × List Str) :=
  (w.Schemes.get? s).map (fun x => (x.CriteriaNames, x.Criteria.keys))
/-! ## Statements about the names of a project -/

/-- The slice `names` after `append(names, n)` for every `n` of `new` that
is not in it yet, as the loop over the tables of Go `parseProject`
(sml.go:342) leaves `w.TableNames`. -/
def addNames (names new : List Str) : List Str :=
  new.foldl (fun acc n => if n ∈ acc then acc else acc ++ [n]) names

/-- The names of the columns of a table are the keys of its map of columns,
each once. -/
def Table.Listed (t : Table) : Prop :=
  t.Columns.keys = t.ColumnNames ∧ t.ColumnNames.Nodup

/-- The generic tree `ParseSML` builds from `input` when its first token is
a project. -/
def projectTree (input : Str) : Generic :=
  (parseGeneric (parseGenericFuel (recv (startLex input smlKeywords)).2)
    (recv (startLex input smlKeywords)).2 (recv (startLex input smlKeywords)).1).g

/-- The names of the `table` children of a project node, in the order of
the source. -/
def tableNamesOf (g : Generic) : List Str :=
  (g.childrenOf skwTable).map Generic.value

/-- The tables of the project `w` come from the `table` children of the
node `g`: the names in `w.TableNames` are the keys of `w.Tables`, and the
table under a key has its columns listed, has the key as its name and is
what `parseTable` returned for the first `table` child of that name. -/
def Project.TablesOf (rt : GoRuntime) (g : Generic) (w : Project) : Prop :=
  w.Tables.keys = w.TableNames ∧
  ∀ name t, w.Tables.get? name = some t →
    t.Listed ∧ t.Name = name ∧
      ∃ child sa sb, (g.childrenOf skwTable).find? (fun c => c.value = name) = some child ∧
        (parseTable rt child).run sa = .ok t sb

/-- The calls of `parseTable` on the nodes of `list`, one after the other,
with nothing done with the tables they return. -/
def parseTablesOnly (rt : GoRuntime) (list : List Generic) : Parser Unit :=
  forEach list () (fun _ child => do
    let _ ← parseTable rt child
    pure ())

/-- A project node with two `table` children of the name `t`, the first
with the SQL `a` and the second with the SQL `b`. -/
def twoTablesProject : Generic :=
  Generic.mk skwProject "p".toList
    [Generic.mk skwTable "t".toList [Generic.mk skwSQL "a".toList [] 3] 2,
     Generic.mk skwTable "t".toList [Generic.mk skwSQL "b".toList [] 5] 4] 1

/-- The project `parseProject` returns for `twoTablesProject`. -/
def twoTablesResult : Project :=
  { Name := "p".toList
    TableNames := ["t".toList]
    Tables := [("t".toList, { Name := "t".toList, SQL := "a".toList, Label := "T".toList })] }

/-- The table `computeDerivedAttributesInProject` puts into a dataset of `w`
for the entry `table` of its `TableNames` (sml.go:406): `tmp` after
`copyTable(&tmp, w.Tables[table])`. -/
def derivedTable (rt : GoRuntime) (w : Project) (table : Str) : Table :=
  copyTable rt (makeTable ((w.Tables.get? table).getD {}).Name) ((w.Tables.get? table).getD {})

/-- A document whose dataset `d` lists the table `t` twice. -/
def twiceListedDocument : Str :=
  datasetDocument ++ "\t\ttable t\n".toList

/-- The table `t` of `twiceListedDocument` as `ParseSML` returns it, in the
project and in the dataset `d`. -/
def twiceListedTable : Table :=
  { Name := "t".toList
    SQL := "a".toList
    ColumnNames := ["c".toList]
    Columns := [("c".toList, { Name := "c".toList, Label := "C".toList, Type_ := "int".toList })]
    Label := "T".toList }

/-- The dataset `d` of `twiceListedDocument` as `ParseSML` returns it. -/
def twiceListedDataset : Dataset :=
  { Name := "d".toList
    Label := "D".toList
    TableNames := ["t".toList, "t".toList]
    Tables := [("t".toList, twiceListedTable)] }
/-! ## lingling.go: `generic2string` -/

mutual
/-- Go `generic2string` (lingling.go:334): the line of the node, then the
texts of the children, slice after slice in the order in which the run time
visits the keys of `g.children`, joined by newlines. -/
def generic2string (rt : GoRuntime) (kw2string : Keyword → Str) : Generic → Str → Str
  | .mk kw value children line, indent =>
    let calls := generic2stringChildren rt kw2string children
    let keys := rt.kwOrder line (firstOccurrences (children.map Generic.kw))
    strings.Join
      ((indent ++ kw2string kw ++ " ".toList ++ value) ::
        (keys.map (fun k => (calls.filter (fun c => c.1.kw = k)).map
          (fun c => c.2 (indent ++ "  ".toList)))).flatten)
      [chNewline]
/-- Every child with the call of `generic2string` on it. -/
def generic2stringChildren (rt : GoRuntime) (kw2string : Keyword → Str) :
    List Generic → List (Generic × (Str → Str))
  | [] => []
  | c :: cs => (c, generic2string rt kw2string c) :: generic2stringChildren rt kw2string cs
end

/-- The text `generic2string` gives for the tree `ParseSML` builds from
`input`, with no indentation at the root and the names of `smlKeyword2string`. -/
def reemit (rt : GoRuntime) (input : Str) : Str :=
  generic2string rt smlKeyword2string (projectTree input) []

mutual
/-- The node with its children put slice after slice, in the order in which
the run time visits the keys of `g.children`: the order in which
`generic2string` writes them. -/
def regroup (rt : GoRuntime) : Generic → Generic
  | .mk kw value children line =>
    let subs := regroupChildren rt children
    let keys := rt.kwOrder line (firstOccurrences (children.map Generic.kw))
    .mk kw value
      ((keys.map (fun k => (subs.filter (fun c => c.1.kw = k)).map (fun c => c.2))).flatten) line
/-- Every child with the regrouped child. -/
def regroupChildren (rt : GoRuntime) : List Generic → List (Generic × Generic)
  | [] => []
  | c :: cs => (c, regroup rt c) :: regroupChildren rt cs
end

mutual
/-- The lines `generic2string` writes for a node whose children are written
in the order of the list of children. -/
def flatLines (kw2string : Keyword → Str) : Generic → Str → List Str
  | .mk kw value children _, indent =>
    (indent ++ kw2string kw ++ " ".toList ++ value) ::
      flatLinesList kw2string children (indent ++ "  ".toList)
/-- The lines of the nodes of a list, one node after the other. -/
def flatLinesList (kw2string : Keyword → Str) : List Generic → Str → List Str
  | [], _ => []
  | c :: cs, indent => flatLines kw2string c indent ++ flatLinesList kw2string cs indent
end

mutual
/-- The node with its line set to `n + 1` and the lines of the nodes below
it to the following numbers, in the order of the lists of children; and the
last number given. -/
def renumber : Generic → Nat → Generic × Nat
  | .mk kw value children _, n =>
    (.mk kw value (renumberList children (n + 1)).1 ((n : Int) + 1),
      (renumberList children (n + 1)).2)
/-- The nodes of a list renumbered one after the other from `n + 1` on. -/
def renumberList : List Generic → Nat → List Generic × Nat
  | [], n => ([], n)
  | c :: cs, n =>
    ((renumber c n).1 :: (renumberList cs (renumber c n).2).1,
      (renumberList cs (renumber c n).2).2)
end

mutual
/-- The tokens of the lines of a node at the indentation `indent`, whose
children are one step of indentation further in. -/
def flatTokens : Generic → Nat → List Token
  | .mk kw value children line, indent =>
    { indent := (indent : Int), kw := kw, value := value, line := line } ::
      flatTokensList children (indent + 2)
/-- The tokens of the nodes of a list, one node after the other. -/
def flatTokensList : List Generic → Nat → List Token
  | [], _ => []
  | c :: cs, indent => flatTokens c indent ++ flatTokensList cs indent
end

/-- The tree `ParseSML` builds from the text `generic2string` gives for `g`:
the children regrouped as they are written, the lines numbered from 1. -/
def relaid (rt : GoRuntime) (g : Generic) : Generic :=
  (renumber (regroup rt g) 0).1

mutual
/-- Whether two trees are the same. -/
def Generic.beq : Generic → Generic → Bool
  | .mk kw value children line, .mk kw1 value1 children1 line1 =>
    decide (kw = kw1) && decide (value = value1) && Generic.beqList children children1 &&
      decide (line = line1)
/-- Whether two lists of trees are the same. -/
def Generic.beqList : List Generic → List Generic → Bool
  | [], [] => true
  | c :: cs, d :: ds => Generic.beq c d && Generic.beqList cs ds
  | _, _ => false
end

/-- A value that the lexer reads back as it is when it stands without quotes
after a keyword and a blank: it is empty, or it does not start with a quote,
holds no `//`, no `#` and no newline, and has no white space at its ends. -/
def plainValue (v : Str) : Bool :=
  v.isEmpty ||
    (decide (v.headD ' ' ≠ chDQuote) && decide (v.headD ' ' ≠ chSQuote) &&
      (strings.Index v ['/', '/']).isNone && (strings.IndexByte v '#').isNone &&
      decide (strings.TrimSpace v = v) && !v.contains chNewline)

mutual
/-- Whether every node of the tree has a keyword of `smlKeywords` and a
plain value. -/
def Generic.printable : Generic → Bool
  | .mk kw value children _ =>
    smlKeywords.any (fun e => e.2 = kw) && plainValue value && Generic.printableList children
/-- Whether every tree of the list is printable. -/
def Generic.printableList : List Generic → Bool
  | [] => true
  | c :: cs => Generic.printable c && Generic.printableList cs
end

/-- The children of a node slice after slice, in the order in which the run
time visits the keys of `g.children`. -/
def Generic.ordered (rt : GoRuntime) (g : Generic) : List Generic :=
  ((rt.kwOrder g.line g.childKeys).map (fun k => g.childrenOf k)).flatten

mutual
/-- Whether the tree is valid for the grammar: every child of a node has a
keyword that the grammar has below the keyword of the node, and is valid for
that part of the grammar. -/
def Generic.conforms : Generic → KwTree → Bool
  | .mk _ _ children _, grammar => Generic.conformsList children grammar
/-- Whether every tree of the list is valid as a child in the grammar. -/
def Generic.conformsList : List Generic → KwTree → Bool
  | [], _ => true
  | c :: cs, grammar =>
    (match grammar.children.find? (fun t => t.kw = c.kw) with
      | some sub => Generic.conforms c sub
      | none => false) &&
      Generic.conformsList cs grammar
end

/-! ## Two runs of the parser that differ in the line numbers only -/

/-- The messages of a list of errors. -/
def msgsOf (errs : List ParseError) : List Str := errs.map ParseError.Msg

/-- Two pieces of code ended the same way: both returned, with results
related by `Q`, or both ended in `panic(parser.parseErrors)`, or both in the
same run-time panic; and their errors have the same messages, one by one. -/
def Outcome.Alike {α β : Type} (Q : α → β → Prop) : Outcome α → Outcome β → Prop
  | .ok a s, .ok b t => Q a b ∧ msgsOf s = msgsOf t
  | .panicErrors s, .panicErrors t => msgsOf s = msgsOf t
  | .panicRuntime m, .panicRuntime n => m = n
  | _, _ => False

/-- Two pieces of code that end the same way whenever they start with
errors of the same messages. -/
def Parser.Alike {α β : Type} (Q : α → β → Prop) (m : Parser α) (n : Parser β) : Prop :=
  ∀ s t, msgsOf s = msgsOf t → Outcome.Alike Q (m.run s) (n.run t)

/-- The tree `h`, read with the choices `rt2` of the run time, is the tree
`g`, read with the choices `rt1`, but for the lines: the same keyword and
value, the same order of the visits of the keys of the children, the same
random name, and alike children under every key. -/
inductive Generic.Alike (rt1 rt2 : GoRuntime) : Generic → Generic → Prop
  | mk (g h : Generic) (hkw : g.kw = h.kw) (hvalue : g.value = h.value)
      (hempty : g.children.isEmpty = h.children.isEmpty)
      (hkeys : rt1.kwOrder g.line g.childKeys = rt2.kwOrder h.line h.childKeys)
      (hrandom : rt1.RandomString g.line = rt2.RandomString h.line)
      (hchildren : ∀ kw, List.Forall₂ (Generic.Alike rt1 rt2) (g.childrenOf kw) (h.childrenOf kw))
      (hsorted : ∀ kw, List.Forall₂ (Generic.Alike rt1 rt2) (sortByLine (g.childrenOf kw))
        (sortByLine (h.childrenOf kw))) :
      Generic.Alike rt1 rt2 g h

/-- The node of `g` that `generic2string` writes on the line `line` (lines
are counted from 1), when it visits the keys of the children as `rtp` does. -/
def originOf (rtp : GoRuntime) (g : Generic) (line : Int) : Option Generic :=
  if line ≥ 1 then (walkOrder rtp g)[(line - 1).toNat]? else none

/-- The run time that makes, at the node on a line of the text that
`generic2string` has written for `g`, the choices `rt` made at the node of
`g` the line was written for: the same order of the visits of the keys of
the children and the same random name.  At any other place it does as `rt`
does, but for the order of the keys of a map keyed by keyword, which it
visits in the order of insertion. -/
def GoRuntime.after (rt rtp : GoRuntime) (g : Generic) : GoRuntime where
  kwOrder := fun line keys =>
    match originOf rtp g line with
    | some node =>
      if (rt.kwOrder node.line node.childKeys).Perm keys then rt.kwOrder node.line node.childKeys
      else keys
    | none => keys
  kwOrder_perm := fun line keys => by
    dsimp only
    split
    · split_ifs with h
      · exact h
      · exact List.Perm.refl keys
    · exact List.Perm.refl keys
  strOrder := rt.strOrder
  strOrder_perm := rt.strOrder_perm
  RandomString := fun line =>
    match originOf rtp g line with
    | some node => rt.RandomString node.line
    | none => rt.RandomString line
  parseFloat32 := rt.parseFloat32
  unicode := rt.unicode

mutual
/-- Whether the children of every node of the tree are in the order of
their lines, as `parseGeneric` appends them. -/
def Generic.lineOrdered : Generic → Bool
  | .mk _ _ children _ =>
    decide ((children.map Generic.line).Pairwise (· ≤ ·)) && Generic.lineOrderedList children
/-- Whether every tree of the list is in the order of the lines. -/
def Generic.lineOrderedList : List Generic → Bool
  | [] => true
  | c :: cs => Generic.lineOrdered c && Generic.lineOrderedList cs
end

/-- The token `b` is not on an earlier line than the token `a`, if it is
indented at all. -/
def Token.notBefore (a b : Token) : Prop := 1 ≤ b.indent → a.line ≤ b.line

mutual
/-- Whether every value in the tree is plain. -/
def Generic.plain : Generic → Bool
  | .mk _ value children _ => plainValue value && Generic.plainList children
/-- Whether every tree of the list has plain values only. -/
def Generic.plainList : List Generic → Bool
  | [] => true
  | c :: cs => Generic.plain c && Generic.plainList cs
end

mutual
/-- Whether every keyword of the grammar is one of `smlKeywords`. -/
def KwTree.named : KwTree → Bool
  | .mk kw children => smlKeywords.any (fun e => e.2 = kw) && KwTree.namedList children
/-- Whether every grammar of the list has keywords of `smlKeywords` only. -/
def KwTree.namedList : List KwTree → Bool
  | [] => true
  | t :: ts => KwTree.named t && KwTree.namedList ts
end

/-- A project with one table whose SQL is a quoted string that holds a `#`. -/
def hashValueDocument : Str := "project p\n\ttable t\n\t\tsql \"select 1 # x\"\n".toList

/-- The SQL of the table `t` of a project. -/
def tableSQL (w : Project) (t : Str) : Option Str := (w.Tables.get? t).map (fun x => x.SQL)
/-! ## The values of the lexer, the grammar check and the joins: what the claims speak of -/

/-- The end of a value that stands without quotes, as `runLexer` looks for
it (lingling.go:199) in the text `s` from the start of the value on: the
index of the first `//` if there is one, else the index of the first `#` if
there is one, else the length of `s`. -/
def bareEnd (s : Str) : Nat :=
  match strings.Index s ['/', '/'] with
  | some i => i
  | none =>
    match strings.IndexByte s '#' with
    | some i => i
    | none => s.length

/-- The start of the comment after a value that stands without quotes, in
the words of the specification: the index in `s` of the first occurrence of
either marker, `//` or `#`, whichever comes first, and the length of `s` if
there is none. -/
def commentStart (s : Str) : Nat :=
  match strings.Index s ['/', '/'], strings.IndexByte s '#' with
  | some i, some j => min i j
  | some i, none => i
  | none, some j => j
  | none, none => s.length

/-- The text of a quoted literal, in the words of the specification: `s` is
the text after the opening delimiter; the first delimiter that no backslash
stands right before closes the literal, a backslash with a delimiter after
it stands for the delimiter, and every other byte, a backslash too, stands
for itself.  The result is the text and the index in `s` of the closing
delimiter, or `none` if the literal is not closed in `s`. -/
def unquote (delimiter : Char) : Str → Option (Str × Nat)
  | [] => none
  | [c] => if c = delimiter then some ([], 0) else none
  | c :: d :: s =>
    if c = delimiter then some ([], 0)
    else if c = chBackslash ∧ d = delimiter then
      (unquote delimiter s).map (fun r => (delimiter :: r.1, r.2 + 2))
    else (unquote delimiter (d :: s)).map (fun r => (c :: r.1, r.2 + 1))

/-- What a line that does not close a triple-quoted string gives to its
value, in the words of the specification: `s` is the text of the line (on
the first line, the text after the opening quotes); a line that ends in a
backslash gives its text without that backslash and without a newline, any
other line gives its text and a newline. -/
def linePiece (s : Str) : Str :=
  if strings.HasSuffix s [chBackslash] then s.take (s.length - 1) else s ++ [chNewline]

/-- A channel of tokens that ends in End-of-input: its last token has the
keyword `kwEOF` and the indent -1, as the one `runLexer` sends last. -/
def EndsInEOF (l : List Token) : Prop :=
  ∃ ts e, l = ts ++ [e] ∧ e.kw = kwEOF ∧ e.indent = -1

mutual
/-- The offending nodes below the node `g`, read against the grammar node
`grammar`, each as its line and its level: a child whose keyword is not the
keyword of a child of `grammar` offends, at the level `level` (the number of
its ancestors, when `level` is 1 at the root of the tree); a child whose
keyword is found is read in turn against the first child of `grammar` with
that keyword, one level further; below an offending node nothing is
looked at. -/
def offenders : Generic → Int → KwTree → List (Int × Int)
  | .mk _ _ children _, level, grammar => offendersList children level grammar
/-- The offending nodes at and below the trees of a list of children. -/
def offendersList : List Generic → Int → KwTree → List (Int × Int)
  | [], _, _ => []
  | c :: cs, level, grammar =>
    (match grammar.children.find? (fun t => t.kw = c.kw) with
      | some sub => offenders c (level + 1) sub
      | none => [(c.line, level)]) ++ offendersList cs level grammar
end

/-- The offending nodes at and below the child `c` of a node that is read
against `grammar`. -/
def offendersAt (c : Generic) (level : Int) (grammar : KwTree) : List (Int × Int) :=
  match grammar.children.find? (fun t => t.kw = c.kw) with
  | some sub => offenders c (level + 1) sub
  | none => [(c.line, level)]

/-- What the loops of `firstLineMismatchWithGrammar` (lingling.go:458) take
from the child `c` of a node that is read against `grammar`: the result of
the call on `c`, if its keyword is found in the grammar, and else its line
with the level of the loop. -/
def mismatchAt (rt : GoRuntime) (c : Generic) (level : Int) (grammar : KwTree) : Int × Int :=
  match grammar.children.find? (fun t => t.kw = c.kw) with
  | some sub => firstLineMismatchWithGrammar rt c (level + 1) sub
  | none => (c.line, level)

mutual
/-- The lines of the nodes of a tree, the root first. -/
def Generic.lines : Generic → List Int
  | .mk _ _ children line => line :: Generic.linesList children
/-- The lines of the nodes of the trees of a list. -/
def Generic.linesList : List Generic → List Int
  | [] => []
  | c :: cs => Generic.lines c ++ Generic.linesList cs
end

mutual
/-- Whether no two children of a node of the grammar have the same
keyword. -/
def KwTree.uniqueSiblings : KwTree → Bool
  | .mk _ children =>
    decide ((children.map KwTree.kw).Nodup) && KwTree.uniqueSiblingsList children
/-- Whether every grammar of the list has children of different keywords at
every node. -/
def KwTree.uniqueSiblingsList : List KwTree → Bool
  | [] => true
  | t :: ts => KwTree.uniqueSiblings t && KwTree.uniqueSiblingsList ts
end

/-- A project with a table `t` whose child `type` is out of place (line 3,
two ancestors) and a child `column` that is out of place (line 4, one
ancestor). -/
def misplacedDocument : Str :=
  "project p\n\ttable t\n\t\ttype int\n\tcolumn c\n".toList

/-- The keyword at the line `line` that the first walk of
`findIndentationErrors` (lingling.go:373) leaves in `kw`: the keyword of the
last node it visits on that line, the zero keyword if there is none. -/
def mismatchKeyword (rt : GoRuntime) (g : Generic) (line : Int) : Keyword :=
  ((((walkOrder rt g).filter (fun g1 => g1.line = line)).getLast?).map Generic.kw).getD 0

/-- The line that the first walk of `findIndentationErrors` leaves in
`previousLine`. -/
def previousLineOf (rt : GoRuntime) (g : Generic) (line : Int) : Int :=
  (walkOrder rt g).foldl
    (fun prev g1 => if g1.line ≠ line ∧ g1.line < line ∧ g1.line > prev then g1.line else prev)
    (-1 : Int)

/-- The nodes that the second walk of `findIndentationErrors`
(lingling.go:384) leaves in `path`: from the root to the node of the
previous line. -/
def repairPath (rt : GoRuntime) (g : Generic) (line : Int) : List Generic :=
  (pathToLine rt (previousLineOf rt g line) g).getD []

/-- The keywords `keywordSequence` (in reverse: the suggested parent first,
the root last) at which the loop `for len(keywordSequence) > 0` of
`findIndentationErrors` (lingling.go:399) finds that the keyword `kw` makes
a valid path after them, starting from the sequence `revSeq`; `none` if the
loop ends without one. -/
def findFit (grammar : KwTree) (kw : Keyword) : List Keyword → Option (List Keyword)
  | [] => none
  | last :: revSeq =>
    if isValidPath ((last :: revSeq).reverse ++ [kw]) grammar then some (last :: revSeq)
    else findFit grammar kw revSeq

/-- The suggested parent of `findIndentationErrors` for the tree `g` and the
grammar `grammar`, as the keywords from it (first) up to the root (last);
`none` when no line is out of place or no parent fits.  The suggested parent
is the root when the list has one keyword. -/
def suggestedFit (rt : GoRuntime) (g : Generic) (grammar : KwTree) : Option (List Keyword) :=
  if (firstLineMismatchWithGrammar rt g 1 grammar).1 < 0 then none
  else
    findFit grammar (mismatchKeyword rt g (firstLineMismatchWithGrammar rt g 1 grammar).1)
      ((repairPath rt g (firstLineMismatchWithGrammar rt g 1 grammar).1).map Generic.kw).reverse

/-- The direction of the message of `findIndentationErrors`: `right` if the
new level, one more than the number `above` of the ancestors of the suggested
parent, is greater than the level of the line that is out of place, else
`left`. -/
def repairDirection (above : Nat) (level : Int) : Str :=
  if ((above : Int) + 1 > level) then "right".toList else "left".toList

/-- What follows the keyword of the parent in the message, in the words of
the specification, with three full stops where the code has them: nothing
if the trimmed value of the parent is empty, the value in brackets after a
blank if it has at most 8 bytes, and else its first 5 bytes and `...` in
brackets. -/
def parentSuffix (value : Str) : Str :=
  if strings.TrimSpace value = [] then []
  else if (strings.TrimSpace value).length ≤ 8 then
    " (".toList ++ strings.TrimSpace value ++ ")".toList
  else " (".toList ++ (strings.TrimSpace value).take 5 ++ "...".toList ++ ")".toList

/-- The UTF-8 encoding of U+2026, the one sign `…` with which the
specification shortens a value. -/
def ellipsisSign : Str := [Char.ofNat 0xE2, Char.ofNat 0x80, Char.ofNat 0xA6]

/-- The shortened message of `findIndentationErrors`. -/
def indentationMessage (kwName direction : Str) : Str :=
  "indentation error for \"".toList ++ kwName ++ "\", maybe move ".toList ++ direction

/-- The message of `findIndentationErrors` that names the suggested
parent. -/
def indentationMessageUnder (kwName direction parentKwName parentValue : Str) : Str :=
  indentationMessage kwName direction ++ " to be under \"".toList ++ parentKwName ++
    "\"".toList ++ parentSuffix parentValue

mutual
/-- The keywords of a grammar, the root first. -/
def KwTree.keywords : KwTree → List Keyword
  | .mk kw children => kw :: KwTree.keywordsList children
/-- The keywords of the grammars of a list. -/
def KwTree.keywordsList : List KwTree → List Keyword
  | [] => []
  | t :: ts => KwTree.keywords t ++ KwTree.keywordsList ts
end

/-- A project whose table of a long name has a `column` one level too deep,
under its `sql`. -/
def deepColumnDocument : Str :=
  "project p\n\ttable verylongtablename\n\t\tsql a\n\t\t\tcolumn c\n".toList

/-- A table piece whose `column` is one level too deep, under its
`label`. -/
def deepColumnPiece : Str := "table t\n\tlabel l\n\t\tcolumn c\n".toList

/-- A project whose `dataset` is two levels too deep, under the `sql` of a
table. -/
def deepDatasetDocument : Str :=
  "project p\n\ttable t\n\t\tsql a\n\t\t\tdataset d\n".toList

/-- The words of the value of a join node without the decorator `oneToMany`
or `manyToOne`, if it starts with one: `pieces` of Go `parseJoin`
(sml.go:636) where the operator and the tables are read from it. -/
def joinPieces (u : GoUnicode) (value : Str) : List Str :=
  if normalizedOneToMany u ((strings.Fields value).headD []) ≠ [] then
    (strings.Fields value).drop 1
  else strings.Fields value

/-- The four operators of a join. -/
def joinSymbols : List Str := ["<->".toList, "-->".toList, "<--".toList, ">-<".toList]

/-- The triple `t` is what the line of the `then` node `node` says: its
table is the last word of the value, a valid identifier; its operator is
what `joinOperators` has for the words before it, in lower case; its SQL is
not empty. -/
def FromThen (u : GoUnicode) (node : Generic) (t : OperatorTableSQL) : Prop :=
  IsValidID t.Table = true ∧ t.SQL ≠ [] ∧
    t.Table = (strings.Fields node.value).getD ((strings.Fields node.value).length - 1) [] ∧
    joinOperators.get? (strings.ToLower u (strings.Join
      ((strings.Fields node.value).take ((strings.Fields node.value).length - 1)) [' '])) =
        some t.Operator

/-- The join node of the lines `join a Left Join b`, `on a.x = b.x`,
`then INNER c`, `sql b.y = c.y`. -/
def thenJoinNode : Generic :=
  .mk skwJoin "a Left Join b".toList
    [.mk skwOn "a.x = b.x".toList [] 6,
     .mk skwThen "INNER c".toList [.mk skwSQL "b.y = c.y".toList [] 8] 7] 5

/-- The triples of `thenJoinNode`. -/
def thenJoinOTS : List OperatorTableSQL :=
  [{ Operator := [], Table := "a".toList, SQL := [] },
   { Operator := "-->".toList, Table := "b".toList, SQL := "a.x = b.x".toList },
   { Operator := "<->".toList, Table := "c".toList, SQL := "b.y = c.y".toList }]
/-! ## util.go: `ConvertName` and `RandomString` -/

/-- Go `reg.ReplaceAllString(s, "_")` for the expression `[^\w]+`
(util.go:96 and 101): every maximal run of characters outside the class `\w`
becomes one underscore.  The class `\w` is `[0-9A-Za-z_]`, the characters of
`isAlphaNumeric`; `inRun` tells that the character before was outside it. -/
def replaceNonWord : Bool → Str → Str
  | _, [] => []
  | inRun, c :: s =>
    if isAlphaNumeric c then c :: replaceNonWord false s
    else if inRun then replaceNonWord true s
    else '_' :: replaceNonWord true s

/-- Go `_ConvertName` (util.go:91).  The expression `[^\w]+` compiles, so
that the branch `err != nil` is never taken. -/
def _ConvertName (name : Str) : Str :=
  if IsValidID name then name
  else
    let name1 := strings.Trim (replaceNonWord false (strings.TrimSpace name)) ['_']
    if name1 = [] ∨ !isAlpha (name1.headD ' ') then '_' :: name1 else name1

/-- Go `ConvertName` (util.go:109). -/
def ConvertName (u : GoUnicode) (name : Str) : Str :=
  if sqlReservedWords (strings.ToUpper u (_ConvertName name)) then '_' :: _ConvertName name
  else _ConvertName name

/-- Go `letterBytes` of `RandomString` (util.go:439). -/
def letterBytes : Str :=
  "abcdefghijklmnopqrstuvwxyzABCDEFGHIJKLMNOPQRSTUVWXYZ0123456789_".toList

/-- The loop of Go `RandomString` (util.go:449).  `source` holds the values
`src.Int63()` will return, `i + 1` bytes are still to be written (`none` for
`i = -1`), `b` holds the bytes written so far, which are the last ones of the
result.  Every round takes one of the ten letter indices of a value of the
source, so that `fuel` rounds end when the source is long enough; `none` is
an exhausted source. -/
def randomStringLoop : Nat → List Nat → Option Nat → Nat → Nat → Str → Option Str
  | _, _, none, _, _, b => some b
  | 0, _, some _, _, _, _ => none
  | fuel + 1, source, some i, cache, remain, b =>
    if remain = 0 then
      match source with
      | [] => none
      | next :: source1 =>
        if next % 64 < letterBytes.length then
          randomStringLoop fuel source1 (if i = 0 then none else some (i - 1)) (next / 64) 9
            (letterBytes.getD (next % 64) ' ' :: b)
        else randomStringLoop fuel source1 (some i) (next / 64) 9 b
    else
      if cache % 64 < letterBytes.length then
        randomStringLoop fuel source (if i = 0 then none else some (i - 1)) (cache / 64)
          (remain - 1) (letterBytes.getD (cache % 64) ' ' :: b)
      else randomStringLoop fuel source (some i) (cache / 64) (remain - 1) b

/-- Go `RandomString` (util.go:436) for a source of random numbers that
returns the values of `source`, each below `2^63`: the first value fills
`cache` before the loop. -/
def RandomString (n : Nat) (source : List Nat) : Option Str :=
  match source with
  | [] => none
  | first :: source1 =>
    randomStringLoop (10 * source.length + 1) source1 (if n = 0 then none else some (n - 1))
      first 10 []
/-! ## The values of `getTypedValue`: what the claim speaks of -/

/-- The four words the claim gives for a `bool`. -/
def claimedBoolWords : List Str := ["true".toList, "1".toList, "false".toList, "0".toList]

/-- The words `strconv.ParseBool` accepts. -/
def parseBoolWords : List Str :=
  ["1".toList, "t".toList, "T".toList, "TRUE".toList, "true".toList, "True".toList,
   "0".toList, "f".toList, "F".toList, "FALSE".toList, "false".toList, "False".toList]

/-- A decimal integer: an optional sign `+` or `-` followed by one or more
decimal digits. -/
def isDecimalInteger (v : Str) : Bool :=
  !(decimalDigits v).isEmpty && (decimalDigits v).all isDigit

/-- The value of a decimal integer. -/
def decimalValue (v : Str) : Int :=
  if v.head? = some '-' then -(digitsValue (decimalDigits v) : Int)
  else (digitsValue (decimalDigits v) : Int)

/-- The data types `getTypedValue` has a case for. -/
def typedValueTypes : List Str :=
  ["string".toList, "verbatim".toList, "int".toList, "float".toList, "datetime".toList,
   "bool".toList]
/-! ## Documents with criteria at which the claims about criteria are read -/

/-- The head of the documents about criteria: a project with the table `f`,
its columns `d` of the type `datetime` and `i` of the type `int`, and the
first line of the scheme `s`. -/
def criteriaDocHead : Str :=
  ("project p\n\ttable f\n\t\tsql f\n\t\tcolumn d\n\t\t\ttype datetime\n" ++
    "\t\tcolumn i\n\t\t\ttype int\n\tscheme s\n").toList

/-- A criteria whose `combine` has no `term`. -/
def noTermDoc : Str := criteriaDocHead ++ "\t\tcriteria c\n\t\t\tcombine and\n".toList

/-- A criteria whose `combine` has one `term`. -/
def oneTermDoc : Str :=
  noTermDoc ++
      "\t\t\t\tterm a\n\t\t\t\t\ttable f\n\t\t\t\t\tcolumn i\n\t\t\t\t\toperator equals\n".toList

/-- A criteria with a `table` and a `column`, to which the documents below
add lines. -/
def termDoc : Str := criteriaDocHead ++ "\t\tcriteria c\n\t\t\ttable f\n\t\t\tcolumn d\n".toList

/-- A criteria with a `granularity` and no `operator`. -/
def granularityOnlyDoc : Str := termDoc ++ "\t\t\tgranularity year\n".toList

/-- A criteria whose name is not an identifier. -/
def badCriteriaNameDoc : Str :=
  criteriaDocHead ++
    "\t\tcriteria 1 is not a name!\n\t\t\ttable f\n\t\t\tcolumn d\n\t\t\toperator equals\n".toList

/-- A criteria without a name. -/
def unnamedCriteriaDoc : Str :=
  criteriaDocHead ++ "\t\tcriteria\n\t\t\ttable f\n\t\t\tcolumn d\n\t\t\toperator equals\n".toList

/-- A criteria with a `value` and no `table`. -/
def valueNoTableDoc : Str :=
  criteriaDocHead ++ "\t\tcriteria c\n\t\t\tcolumn d\n\t\t\toperator equals\n\t\t\tvalue 1\n".toList

/-- The criteria of `valueNoTableDoc` without its `value`. -/
def noTableDoc : Str :=
  criteriaDocHead ++ "\t\tcriteria c\n\t\t\tcolumn d\n\t\t\toperator equals\n".toList

/-- A criteria with a `value` and a `granularity` on the column `i` of the
type `int`. -/
def intGranularityValueDoc : Str :=
  criteriaDocHead ++
    ("\t\tcriteria c\n\t\t\ttable f\n\t\t\tcolumn i\n\t\t\toperator equals\n\t\t\tvalue 1\n" ++
      "\t\t\tgranularity year\n").toList

/-- The criterion `c` of the scheme `s` of a project. -/
def criterionOf (w : Project) (s c : Str) : Option CriteriaTerm :=
  match w.Schemes.get? s with
  | some x => x.Criteria.get? c
  | none => none

/-- The logical operator and the number of terms of the combination of a
criterion. -/
def combinationOf (t : Option CriteriaTerm) : Option (Str × Nat) :=
  match t with
  | some x => x.CombinationTerm.map (fun c => (c.LogicalOperator, c.Terms.length))
  | none => none

/-- The simple term of a criterion. -/
def simpleTermOf (t : Option CriteriaTerm) : Option CriteriaSimpleTerm :=
  match t with
  | some x => x.SimpleTerm
  | none => none

/-- A run time whose `RandomString(8)` is what `RandomString` makes of a
source of random numbers whose first value is `52 * 2^42`. -/
def GoRuntime.digitFirst : GoRuntime where
  kwOrder := fun _ keys => keys
  kwOrder_perm := fun _ keys => List.Perm.refl keys
  strOrder := fun _ keys => keys
  strOrder_perm := fun _ keys => List.Perm.refl keys
  RandomString := fun _ => (sml.RandomString 8 [52 * 2 ^ 42]).getD []
  parseFloat32 := fun v => .ok v
  unicode := GoUnicode.unchanged
/-! ## The tokens of the lexer and what `parseGeneric` does with them: what the claims speak of -/

/-- The indent of a line as the claim has it: the number of leading blanks
plus 4 times the number of leading tabs, where the leading characters of a
line are its blanks and tabs before the first other character. -/
def leadingIndent (line : Str) : Nat :=
  (line.takeWhile (fun c => c == ' ' || c == chTab)).count ' ' +
    4 * (line.takeWhile (fun c => c == ' ' || c == chTab)).count chTab

/-- The position at which the third part of a round of `runLexer`
(lingling.go:158) finds the value of a line that starts with a keyword: after
the indentation, the keyword and the blanks and tabs that follow it. -/
def valueStart (line : Str) : Nat :=
  (measureIndent line).1 + 1 +
      ((line.drop ((measureIndent line).1 + 1)).takeWhile isAlphaNumeric).length +
    ((line.drop ((measureIndent line).1 + 1 +
      ((line.drop ((measureIndent line).1 + 1)).takeWhile isAlphaNumeric).length)).takeWhile
        isSpace).length

/-- What `parseGeneric` does with a token it receives and does not return:
it makes a node of it, records it as a parse error (an error token), or
skips it after the error `inconsistent indentation`. -/
inductive Taken where
  | node
  | error
  | skipped
deriving DecidableEq, Repr

/-- The parse errors of the tokens taken as `error` and as `skipped`, in the
order of the tokens. -/
def takenErrors : List (Token × Taken) → List ParseError
  | [] => []
  | (_, .node) :: r => takenErrors r
  | (t, .error) :: r => { Msg := t.value, LineNum := t.line } :: takenErrors r
  | (t, .skipped) :: r =>
    { Msg := "inconsistent indentation".toList, LineNum := t.line } :: takenErrors r

/-- The keyword, the value and the line of the tokens taken as `node`, in the
order of the tokens. -/
def takenNodes : List (Token × Taken) → List (Keyword × Str × Int)
  | [] => []
  | (t, .node) :: r => (t.kw, t.value, t.line) :: takenNodes r
  | (_, .error) :: r => takenNodes r
  | (_, .skipped) :: r => takenNodes r

mutual
/-- The keyword, the value and the line of the nodes below a node, every
node before its children and the children in the order in which they were
appended. -/
def Generic.descendants : Generic → List (Keyword × Str × Int)
  | .mk _ _ children _ => Generic.descendantsList children
/-- The nodes of a list of trees, every tree with its root first. -/
def Generic.descendantsList : List Generic → List (Keyword × Str × Int)
  | [] => []
  | c :: cs => (c.kw, c.value, c.line) :: (c.descendants ++ Generic.descendantsList cs)
end

/-- The token `t` is the token of the keyword of the line with the index `k`
(0-based) of `lines`: its indent is the indent of that line; if the value of
the line opens with `"""`, the string is closed and `t` carries its value and
the number (1-based) of the line on which `multilineString` found the closing
`"""`, which is `linesConsumed` lines further; otherwise `t` carries the
number of the line `k` itself. -/
def KeywordTokenAt (lines : List Str) (k : Nat) (t : Token) : Prop :=
  ∃ line rest, lines.drop k = line :: rest ∧ t.indent = (leadingIndent line : Int) ∧
    (strings.HasPrefix (line.drop (valueStart line)) tripleQuote = true →
      ∃ newPos linesConsumed value,
        multilineString (valueStart line + 3) (line :: rest) =
          some (newPos, linesConsumed, value) ∧
        t.line = (k : Int) + linesConsumed + 1 ∧ t.value = value) ∧
    (strings.HasPrefix (line.drop (valueStart line)) tripleQuote = false →
      t.line = (k : Int) + 1)
/-! ## The two parts of `parseJoin` -/

/-- The part of Go `parseJoin` before the constraints on a decorator
(sml.go:627 to 763): the value of `j.OTS` when that part is passed. -/
def parseJoinTables (rt : GoRuntime) (g : Generic) : Parser (List OperatorTableSQL) := do
  panicIf (g.kw ≠ skwJoin) "value of the keyword must be join".toList g.line
  panicIf (g.value = []) "join is not specified".toList g.line
  panicIf ((strings.Fields g.value).length < 3) ("cannot parse \"join\": ".toList ++ g.value) g.line
  let oneToMany := normalizedOneToMany rt.unicode ((strings.Fields g.value).headD [])
  let pieces := if oneToMany ≠ [] then (strings.Fields g.value).drop 1 else strings.Fields g.value
  let n := pieces.length
  panicIf (oneToMany ≠ [] ∧ n < 3) ("cannot parse \"join\": ".toList ++ g.value) g.line
  let operator := strings.Join ((pieces.drop 1).take (n - 2)) [' ']
  match joinOperators.get? (strings.ToLower rt.unicode operator) with
  | none => fatal ("expected operator in \"join\", got: ".toList ++ operator) g.line
  | some op => do
    panicIf (!IsValidID (pieces.headD []))
      ("invalid table \"".toList ++ pieces.headD [] ++ "\" in \"join\"".toList) g.line
    panicIf (!IsValidID (pieces.getD (n - 1) []))
      ("invalid table \"".toList ++ pieces.getD (n - 1) [] ++ "\" in \"join\"".toList) g.line
    let r ← forEach (rangeChildren rt g) (([] : Str), ([] : List Generic))
      (parseJoinChild rt.unicode g)
    panicIf (r.1 = []) "no \"on\" clause for a \"join\"".toList g.line
    forEach (sortByLine r.2)
      ([{ Operator := [], Table := pieces.headD [], SQL := [] },
        { Operator := op, Table := pieces.getD (n - 1) [], SQL := r.1 }] : List OperatorTableSQL)
      (fun ots thenNode => do
        let t ← parseThen rt thenNode
        pure (ots ++ [t]))

/-- The decorator of a join line: `oneToMany`, `manyToOne` or empty. -/
def joinDecorator (u : GoUnicode) (g : Generic) : Str :=
  normalizedOneToMany u ((strings.Fields g.value).headD [])

/-- The triple `t` is that of the `then` node `node`: what `FromThen` says
of its table and its operator, and its SQL is the value of a child `on` or
`sql` of the node. -/
def ThenTriple (u : GoUnicode) (node : Generic) (t : OperatorTableSQL) : Prop :=
  FromThen u node t ∧
    ∃ c ∈ node.children, (c.kw = skwOn ∨ c.kw = skwSQL) ∧ t.SQL = c.value

/-- The error of a join with a decorator and a `then` (sml.go:768). -/
def tooManyTablesError (u : GoUnicode) (g : Generic) : ParseError :=
  { Msg := "\"".toList ++ joinDecorator u g ++ "\" JOIN cannot connect more than 2 tables".toList,
    LineNum := g.line }

/-- The condition of a join whose triples are `ots`: the SQL of the second
triple, `j.OTS[1].SQL`. -/
def conditionOf (ots : List OperatorTableSQL) : Str := (ots.getD 1 {}).SQL

/-- The one-table of a join with a decorator whose triples are `ots`: the
second table for `manyToOne`, the first for `oneToMany`. -/
def oneTableOf (u : GoUnicode) (g : Generic) (ots : List OperatorTableSQL) : Str :=
  if joinDecorator u g = decoratorManyToOne then (ots.getD 1 {}).Table else (ots.getD 0 {}).Table

/-- The token is the reserved word `OR` or `NOT`, in any case of the
letters. -/
def SQLToken.isOrNot (token : SQLToken) (u : GoUnicode) : Bool :=
  token.isReserved &&
    (strings.ToUpper u token.Value = "OR".toList ||
      strings.ToUpper u token.Value = "NOT".toList)

/-- The token is an operator other than `=`. -/
def SQLToken.isOtherOperator (token : SQLToken) : Bool :=
  token.isOp && token.Value ≠ ['=']

/-- The token is a column qualified by the name of `table`, in any case of
the letters. -/
def SQLToken.isColumnOf (token : SQLToken) (u : GoUnicode) (table : Str) : Bool :=
  token.isName && token.Value2 ≠ [] &&
    strings.ToLower u token.Value = strings.ToLower u table

/-- The error for the token `OR` or `NOT` (sml.go:1033). -/
def conjunctionError (oneToMany : Str) (token : SQLToken) (line : Int) : ParseError :=
  { Msg := "expecting simple conjunctions in ".toList ++ oneToMany ++
      " JOIN, found \"".toList ++ token.Value ++ "\"".toList,
    LineNum := line }

/-- The error for an operator other than `=` (sml.go:1036). -/
def equalityError (oneToMany : Str) (token : SQLToken) (line : Int) : ParseError :=
  { Msg := "expecting only equalities (=) in ".toList ++ oneToMany ++
      " JOIN, found \"".toList ++ token.Value ++ "\"".toList,
    LineNum := line }

/-- The error for a condition without a column of the one-table
(sml.go:1043). -/
def noColumnError (oneTable oneToMany : Str) (line : Int) : ParseError :=
  { Msg := "did not find any column of table \"".toList ++ oneTable ++
      "\" participating in ".toList ++ oneToMany ++ " JOIN".toList,
    LineNum := line }

/-- The piece of code `m`, started with the errors `st`, does not end in a
run-time panic; when it ends in `panic(parser.parseErrors)` the budget of
`maxErrors` is used up; when it returns `a` with the errors `st1`, these are
fewer than `maxErrors` and `Q a st1` holds. -/
def Parser.Soft {α : Type} (m : Parser α) (st : List ParseError)
    (Q : α → List ParseError → Prop) : Prop :=
  (∀ a st1, m.run st = .ok a st1 → st1.length < maxErrors ∧ Q a st1) ∧
    (∀ e, m.run st = .panicErrors e → e.length = maxErrors) ∧
    ∀ msg, m.run st ≠ .panicRuntime msg

/-- The join node of the lines `join a <-> b`, `on a.x = b.x`, and two `then`
with their conditions, `Inner c` at the line 7 and `--> d` at the line 9,
held in the slice in the other order. -/
def twoThenJoinNode : Generic :=
  .mk skwJoin "a <-> b".toList
    [.mk skwOn "a.x = b.x".toList [] 6,
     .mk skwThen "--> d".toList [.mk skwSQL "c.z = d.z".toList [] 10] 9,
     .mk skwThen "Inner c".toList [.mk skwOn "b.y = c.y".toList [] 8] 7] 5

/-- The triples of `twoThenJoinNode`. -/
def twoThenOTS : List OperatorTableSQL :=
  [{ Operator := [], Table := "a".toList, SQL := [] },
   { Operator := "<->".toList, Table := "b".toList, SQL := "a.x = b.x".toList },
   { Operator := "<->".toList, Table := "c".toList, SQL := "b.y = c.y".toList },
   { Operator := "-->".toList, Table := "d".toList, SQL := "c.z = d.z".toList }]

/-- The join node of the lines `join oneToMany a <-> b` and
`on a.x = b.x OR c.y < b.y`. -/
def orJoinNode : Generic :=
  .mk skwJoin "oneToMany a <-> b".toList [.mk skwOn "a.x = b.x OR c.y < b.y".toList [] 6] 5

/-- The join node of the lines `join manyToOne a <-> b` and `on a.x = 1`. -/
def noColumnJoinNode : Generic :=
  .mk skwJoin "manyToOne a <-> b".toList [.mk skwOn "a.x = 1".toList [] 6] 5

/-- The join node of the lines `join oneToMany a <-> b`, `on a.x = b.x`,
`then <-> c`, `on b.y = c.y`. -/
def decoratedThenJoinNode : Generic :=
  .mk skwJoin "oneToMany a <-> b".toList
    [.mk skwOn "a.x = b.x".toList [] 6,
     .mk skwThen "<-> c".toList [.mk skwOn "b.y = c.y".toList [] 8] 7] 5

/-- The join node of `decoratedThenJoinNode` without the condition of its
`then`. -/
def bareThenJoinNode : Generic :=
  .mk skwJoin "oneToMany a <-> b".toList
    [.mk skwOn "a.x = b.x".toList [] 6, .mk skwThen "<-> c".toList [] 7] 5
/-! ## Texts outside ASCII -/

/-- The UTF-8 encoding of U+00A0, the no-break space, which is white space
for `unicode.IsSpace` and not for the class `\s` of a regular expression. -/
def nbsp : Str := [Char.ofNat 0xC2, Char.ofNat 0xA0]

/-- The UTF-8 encoding of U+00E9, the letter e with an acute accent. -/
def eAcute : Str := [Char.ofNat 0xC3, Char.ofNat 0xA9]

/-- The UTF-8 encoding of U+0130, the capital letter I with a dot above,
which `unicode.ToLower` maps to `i`. -/
def capitalIDot : Str := [Char.ofNat 0xC4, Char.ofNat 0xB0]

/-- The document `deepColumnDocument` with a table whose name is written in
quotes, `t` and U+00A0. -/
def nbspTableDocument : Str :=
  "project p\n\ttable \"t".toList ++ nbsp ++ "\"\n\t\tsql a\n\t\t\tcolumn c\n".toList

/-- The join node of the lines `join a <-> b`, with U+00A0 in the place of
the two blanks, and `on a.x = b.x`. -/
def nbspJoinNode : Generic :=
  .mk skwJoin ("a".toList ++ nbsp ++ "<->".toList ++ nbsp ++ "b".toList)
    [.mk skwOn "a.x = b.x".toList [] 6] 5

/-- The join node of the lines `join oneToMany a <-> b` and `on a.x = b.x`
with U+00A0 before the sign `=`. -/
def nbspConditionNode : Generic :=
  .mk skwJoin "oneToMany a <-> b".toList
    [.mk skwOn ("a.x ".toList ++ nbsp ++ "= b.x".toList) [] 6] 5
/-! ## Theorems -/



theorem isAlpha_iff (c : Char) :
    isAlpha c = true ↔ (('A' ≤ c ∧ c ≤ 'Z') ∨ ('a' ≤ c ∧ c ≤ 'z') ∨ c = '_') := by
  simp only [isAlpha, Bool.or_eq_true, Bool.and_eq_true, beq_iff_eq, decide_eq_true_eq, ge_iff_le]
  tauto

theorem isAlphaNumeric_iff (c : Char) :
    isAlphaNumeric c = true ↔
      (('A' ≤ c ∧ c ≤ 'Z') ∨ ('a' ≤ c ∧ c ≤ 'z') ∨ ('0' ≤ c ∧ c ≤ '9') ∨ c = '_') := by
  simp only [isAlphaNumeric, Bool.or_eq_true, isAlpha_iff, Bool.and_eq_true, decide_eq_true_eq,
    ge_iff_le]
  tauto

/-- C1: for every byte string `s`, `IsValidID s` is true if and only if `s`
matches `^[A-Za-z_][A-Za-z0-9_]*$`: it is not empty, its first byte is a
letter or the underscore, and every later byte is a letter, a digit or the
underscore. -/
theorem IsValidID_iff_regex (s : Str) : IsValidID s = true ↔ MatchesIdRegex s := by
  cases s with
  | nil => simp [IsValidID, MatchesIdRegex]
  | cons c rest =>
    simp only [IsValidID, MatchesIdRegex, Bool.and_eq_true, List.all_eq_true, isAlpha_iff,
      isAlphaNumeric_iff]
    constructor
    · rintro ⟨h1, h2⟩
      exact ⟨c, rest, rfl, h1, h2⟩
    · rintro ⟨c', rest', heq, h1, h2⟩
      cases heq
      exact ⟨h1, h2⟩

theorem TrimLeft_underscore (s : Str) : strings.TrimLeft s ['_'] = s.dropWhile (· == '_') := by
  induction s with
  | nil => rfl
  | cons c s ih =>
    simp only [strings.TrimLeft, List.dropWhile_cons]
    by_cases h : c = '_'
    · subst h; simpa using ih
    · simp [h]

theorem TrimRight_underscore (s : Str) :
    strings.TrimRight s ['_'] = (s.reverse.dropWhile (· == '_')).reverse := by
  induction s with
  | nil => rfl
  | cons c s ih =>
    simp only [strings.TrimRight, List.reverse_cons]
    rw [ih, List.dropWhile_append]
    by_cases hs : List.dropWhile (fun x => x == '_') s.reverse = []
    · rw [hs]
      by_cases h : c = '_'
      · subst h; simp
      · simp [h]
    · have hne : (List.dropWhile (fun x => x == '_') s.reverse).reverse ≠ [] := by
        simpa using hs
      simp only [List.isEmpty_eq_true, hs, ↓reduceIte, List.reverse_append, List.reverse_cons,
        List.reverse_nil, List.nil_append, List.singleton_append]

theorem Split_eq_splitOn (s : Str) (sep : Char) : strings.Split s sep = s.splitOn sep := by
  induction s with
  | nil => rfl
  | cons c s ih =>
    simp only [strings.Split, List.splitOn, List.splitOnP_cons]
    by_cases h : c = sep
    · subst h; simp [ih, List.splitOn]
    · simp only [beq_iff_eq, h, ↓reduceIte]
      rw [ih]
      simp only [List.splitOn]
      cases hsp : List.splitOnP (fun x => x == sep) s with
      | nil => exact absurd hsp (List.splitOnP_ne_nil _ _)
      | cons p ps => simp [List.modifyHead]

theorem Join_eq_intercalate (l : List Str) (sep : Str) :
    strings.Join l sep = sep.intercalate l := by
  induction l with
  | nil => rfl
  | cons a l ih =>
    cases l with
    | nil => simp [strings.Join, List.intercalate]
    | cons b rest =>
      simp only [strings.Join, ih]
      simp [List.intercalate, List.intersperse]

theorem mem_dropWhile_of_not (p : Char → Bool) (c : Char) (hp : p c = false) :
    ∀ l : Str, c ∈ l → c ∈ l.dropWhile p := by
  intro l
  induction l with
  | nil => intro h; cases h
  | cons d l ih =>
    intro hc
    rw [List.dropWhile_cons]
    by_cases hd : p d = true
    · simp only [hd, ↓reduceIte]
      rcases List.mem_cons.mp hc with h1 | h1
      · subst h1; rw [hp] at hd; cases hd
      · exact ih h1
    · simpa [hd] using hc

theorem Trim_underscore_eq_nil (name : Str) :
    strings.Trim name ['_'] = [] ↔ ∀ c ∈ name, c = '_' := by
  rw [strings.Trim, TrimRight_underscore, TrimLeft_underscore]
  simp only [List.reverse_eq_nil_iff, List.dropWhile_eq_nil_iff, List.mem_reverse, beq_iff_eq]
  constructor
  · intro h c hc
    by_contra hne
    exact hne (h c (mem_dropWhile_of_not _ c (by simpa using hne) name hc))
  · intro h c hc
    exact h c ((List.dropWhile_sublist _).subset hc)

/-- C2: `createSmartLabel "foo_bar" = "Foo Bar"`, `createSmartLabel "__x__" = "X"`,
`createSmartLabel "" = ""` and `createSmartLabel "_" = "_"`; in general a name
made only of underscores is returned unchanged, and for any other name the
result is the underscore-trimmed name split on the underscore, each part
Title-cased by `strings.Title`, joined with single blanks.  This holds for
every name, of ASCII bytes or not, whatever the tables of package `unicode`
are. -/
theorem createSmartLabel_spec (u : GoUnicode) :
    createSmartLabel u "foo_bar".toList = "Foo Bar".toList ∧
    createSmartLabel u "__x__".toList = "X".toList ∧
    createSmartLabel u "".toList = "".toList ∧
    createSmartLabel u "_".toList = "_".toList ∧
    ∀ name : Str,
      createSmartLabel u name =
        if name.all (fun c => c == '_') then name else smartLabelSpec u name := by
  refine ⟨rfl, rfl, rfl, rfl, ?_⟩
  intro name
  by_cases h : ∀ c ∈ name, c = '_'
  · have h1 : name.all (fun c => c == '_') = true := by simpa using h
    simp [createSmartLabel, (Trim_underscore_eq_nil name).mpr h, h1]
  · have h1 : ¬ (name.all (fun c => c == '_') = true) := by simpa using h
    have h2 : strings.Trim name ['_'] ≠ [] := fun h3 => h ((Trim_underscore_eq_nil name).mp h3)
    simp only [createSmartLabel, h2, ↓reduceIte, smartLabelSpec, h1]
    rw [Split_eq_splitOn, Join_eq_intercalate, strings.Trim, TrimRight_underscore,
      TrimLeft_underscore]
    simp

/-! ### The lexer on a line with an unknown keyword -/

theorem measureIndent_append (ws rest : Str) (hws : ∀ c ∈ ws, c = ' ' ∨ c = chTab)
    (hrest : ∀ c ∈ rest.head?, c ≠ ' ' ∧ c ≠ chTab) :
    (measureIndent (ws ++ rest)).1 = ws.length := by
  induction ws with
  | nil =>
    cases rest with
    | nil => rfl
    | cons c r =>
      have h := hrest c (by simp)
      simp [measureIndent, h.1, h.2]
  | cons c ws ih =>
    have ih1 := ih (fun d hd => hws d (List.mem_cons_of_mem _ hd))
    rcases hws c (List.mem_cons_self _ _) with h | h
    · subst h
      simp [measureIndent, ih1]
    · subst h
      have : chTab ≠ ' ' := by decide
      simp [measureIndent, ih1, this]

theorem isAlpha_ne_of_not {c d : Char} (hc : isAlpha c = true) (hd : isAlpha d = false) :
    c ≠ d := by
  intro h
  rw [h, hd] at hc
  cases hc

theorem lexLine_unknown_keyword (string2keyword : List (Str × Keyword)) (n : Nat)
    (ws w tail : Str) (rest : List Str)
    (hws : ∀ c ∈ ws, c = ' ' ∨ c = chTab)
    (hw : IsValidID w = true)
    (htail : ∀ c ∈ tail.head?, isAlphaNumeric c = false)
    (hnot1 : lookupKeyword string2keyword w = none)
    (hnot2 : lookupKeyword linglingKeywords w = none) :
    lexLine string2keyword n (ws ++ w ++ tail) rest =
      .next (some (errorToken n ws.length ("unknown keyword: ".toList ++ w))) (n + 1) := by
  cases w with
  | nil => simp [IsValidID] at hw
  | cons c w1 =>
    simp only [IsValidID, Bool.and_eq_true] at hw
    obtain ⟨hc, hw1⟩ := hw
    have hsp : c ≠ ' ' := isAlpha_ne_of_not hc (by decide)
    have htb : c ≠ chTab := isAlpha_ne_of_not hc (by decide)
    have hhash : c ≠ '#' := isAlpha_ne_of_not hc (by decide)
    have hslash : c ≠ '/' := isAlpha_ne_of_not hc (by decide)
    have hpos : (measureIndent (ws ++ (c :: w1) ++ tail)).1 = ws.length := by
      rw [List.append_assoc]
      apply measureIndent_append ws _ hws
      intro d hd
      simp only [List.cons_append, List.head?_cons, Option.mem_def, Option.some.injEq] at hd
      subst hd
      exact ⟨hsp, htb⟩
    have hdrop : (ws ++ (c :: w1) ++ tail).drop ws.length = c :: (w1 ++ tail) := by
      rw [List.append_assoc, List.drop_left]
      rfl
    have hget : (ws ++ (c :: w1) ++ tail).getD ws.length ' ' = c := by
      rw [List.getD_eq_getElem?_getD, ← List.head?_drop, hdrop]
      rfl
    have hdrop1 : (ws ++ (c :: w1) ++ tail).drop (ws.length + 1) = w1 ++ tail := by
      rw [← List.drop_drop, hdrop]
      rfl
    have htake : (w1 ++ tail).takeWhile isAlphaNumeric = w1 := by
      rw [List.takeWhile_append_of_pos (by simpa using hw1)]
      cases tail with
      | nil => simp
      | cons d t =>
        have := htail d (by simp)
        simp [List.takeWhile_cons, this]
    have hblank : isBlankOrComment (ws ++ (c :: w1) ++ tail) = false := by
      simp only [isBlankOrComment, hpos, hget, hdrop]
      simp [hhash, hslash]
    have hlen : ws.length + 1 + w1.length - ws.length = w1.length + 1 := by omega
    have htake1 : (c :: (w1 ++ tail)).take (w1.length + 1) = c :: w1 := by
      rw [List.take_succ_cons, List.take_left]
    simp only [lexLine, hblank, hpos, hget, hc, hdrop, hdrop1, htake, hlen, htake1]
    simp [hnot1, hnot2]


/-! ### The lexer loop and the first error of `parseGeneric` -/

theorem lexLine_blank (string2keyword : List (Str × Keyword)) (n : Nat) (line : Str)
    (rest : List Str) (h : isBlankOrComment line = true) :
    lexLine string2keyword n line rest = .next none (n + 1) := by
  simp [lexLine, h]

theorem runLexerLoop_blank_lines (string2keyword : List (Str × Keyword)) (pre suffix : List Str)
    (hblank : ∀ line ∈ pre, isBlankOrComment line = true) (fuel : Nat) :
    ∀ d i : Nat, i + d = pre.length →
      runLexerLoop string2keyword (pre ++ suffix) (fuel + d) i =
        runLexerLoop string2keyword (pre ++ suffix) fuel pre.length := by
  intro d
  induction d with
  | zero =>
    intro i hi
    simp only [Nat.add_zero] at hi
    subst hi
    rfl
  | succ d ih =>
    intro i hi
    have hlt : i < pre.length := by omega
    have hdrop : (pre ++ suffix).drop i = pre[i] :: (pre ++ suffix).drop (i + 1) := by
      have h1 : i < (pre ++ suffix).length := by
        rw [List.length_append]; omega
      rw [List.drop_eq_getElem_cons h1, List.getElem_append_left hlt]
    have hb : isBlankOrComment pre[i] = true := hblank _ (List.getElem_mem hlt)
    rw [show fuel + (d + 1) = (fuel + d) + 1 from rfl, runLexerLoop, hdrop]
    simp only [lexLine_blank _ _ _ _ hb, Option.toList_none, List.nil_append]
    exact ih (i + 1) (by omega)

theorem skipErrorTokens_records (l : List Token) :
    ∀ (tok : Token) (errs : List ParseError), tok.kw = kwError →
      ∃ more, (skipErrorTokens tok l errs).2.2 =
        errs ++ { Msg := tok.value, LineNum := tok.line } :: more := by
  induction l with
  | nil =>
    intro tok errs h
    exact ⟨[], by simp [skipErrorTokens, h]⟩
  | cons t ts ih =>
    intro tok errs h
    by_cases ht : t.kw = kwError
    · obtain ⟨more, hmore⟩ := ih t (errs ++ [{ Msg := tok.value, LineNum := tok.line }]) ht
      refine ⟨{ Msg := t.value, LineNum := t.line } :: more, ?_⟩
      simp only [skipErrorTokens, h, ↓reduceIte, hmore]
      simp
    · refine ⟨[], ?_⟩
      simp only [skipErrorTokens, h, ↓reduceIte]
      cases ts with
      | nil => simp [skipErrorTokens, ht]
      | cons u us => simp [skipErrorTokens, ht]

theorem parseChildren_keeps_errors (fuel : Nat) :
    ∀ (childIndent : Int) (l : List Token) (nextToken : Token) (children : List Generic)
      (errs : List ParseError),
      ∃ more, (parseChildren fuel childIndent l nextToken children errs).parseErrors =
        errs ++ more := by
  induction fuel with
  | zero =>
    intro childIndent l nextToken children errs
    exact ⟨[], by simp [parseChildren]⟩
  | succ fuel ih =>
    intro childIndent l nextToken children errs
    rw [parseChildren]
    by_cases h : nextToken.indent = childIndent
    · simp only [h, ↓reduceIte]
      obtain ⟨more, hmore⟩ := ih childIndent (parseGeneric fuel l nextToken).l
        (parseGeneric fuel l nextToken).nextToken (children ++ [(parseGeneric fuel l nextToken).g])
        (errs ++ (parseGeneric fuel l nextToken).parseErrors)
      exact ⟨(parseGeneric fuel l nextToken).parseErrors ++ more, by
        rw [hmore, List.append_assoc]⟩
    · exact ⟨[], by simp [h]⟩

theorem parseGeneric_first_error (fuel : Nat) (l : List Token) (root : Token)
    (h : (recv l).1.kw = kwError) :
    ∃ more, (parseGeneric (fuel + 1) l root).parseErrors =
      { Msg := (recv l).1.value, LineNum := (recv l).1.line } :: more := by
  obtain ⟨m1, hm1⟩ := skipErrorTokens_records (recv l).2 (recv l).1 [] h
  rw [parseGeneric]
  simp only
  split
  · obtain ⟨m2, hm2⟩ := parseChildren_keeps_errors fuel
      (skipErrorTokens (recv l).1 (recv l).2 []).1.indent
      (skipErrorTokens (recv l).1 (recv l).2 []).2.1
      (skipErrorTokens (recv l).1 (recv l).2 []).1 []
      (skipErrorTokens (recv l).1 (recv l).2 []).2.2
    split
    · exact ⟨_, by rw [hm2, hm1]; rfl⟩
    · exact ⟨_, by rw [hm2, hm1]; rfl⟩
  · exact ⟨_, by rw [hm1]; rfl⟩

/-- C3: for every document whose first token is a project line, followed by
a line that starts with `k` blanks or tabs (`ws`) and then an identifier `w`
that is not a keyword, the first error `ParseSML` returns has the message
`error at position <k+1>: unknown keyword: <w>` and the 1-based number of
that line.  The document is given by its lines: `pre` are the blank and
comment lines before the project line `projLine`, whose token `tok` ends on
line `n` (0-based `n` is the next line), and the line `n` is
`ws ++ w ++ tail`. -/
theorem ParseSML_unknown_keyword (rt : GoRuntime) (input projectName : Str)
    (pre : List Str) (projLine : Str) (after : List Str) (tok : Token) (n : Nat)
    (ws w tail : Str) (rest : List Str)
    (hlines : strings.Split (replaceCRLF input) chNewline = pre ++ projLine :: after)
    (hblank : ∀ line ∈ pre, isBlankOrComment line = true)
    (hproj : lexLine smlKeywords pre.length projLine after = .next (some tok) n)
    (hkw : tok.kw = skwProject)
    (hbad : (strings.Split (replaceCRLF input) chNewline).drop n = (ws ++ w ++ tail) :: rest)
    (hws : ∀ c ∈ ws, c = ' ' ∨ c = chTab)
    (hw : IsValidID w = true)
    (htail : ∀ c ∈ tail.head?, isAlphaNumeric c = false)
    (hnot1 : lookupKeyword smlKeywords w = none)
    (hnot2 : lookupKeyword linglingKeywords w = none) :
    (ParseSML rt input projectName).2.head? =
      some { Msg := "error at position ".toList ++ fmtInt ((ws.length : Int) + 1) ++
               ": unknown keyword: ".toList ++ w,
             LineNum := (n : Int) + 1 } := by
  have hlen : (strings.Split (replaceCRLF input) chNewline).length + 1 =
      (after.length + 2) + pre.length := by
    rw [hlines, List.length_append, List.length_cons]; omega
  have htokens : ∃ more, startLex input smlKeywords =
      tok :: errorToken n ws.length ("unknown keyword: ".toList ++ w) :: more := by
    refine ⟨runLexerLoop smlKeywords (strings.Split (replaceCRLF input) chNewline) after.length
      (n + 1), ?_⟩
    rw [startLex, runLexer, hlen]
    have h1 := runLexerLoop_blank_lines smlKeywords pre (projLine :: after) hblank
      (after.length + 2) pre.length 0 (by simp)
    rw [← hlines] at h1
    rw [h1]
    rw [show after.length + 2 = (after.length + 1) + 1 from rfl, runLexerLoop]
    have h2 :
        (strings.Split (replaceCRLF input) chNewline).drop pre.length = projLine :: after := by
      rw [hlines, List.drop_left]
    rw [h2]
    simp only [hproj, Option.toList_some, List.singleton_append]
    rw [runLexerLoop, hbad]
    simp only [lexLine_unknown_keyword smlKeywords n ws w tail rest hws hw htail hnot1 hnot2,
      Option.toList_some, List.singleton_append]
  obtain ⟨more, hmore⟩ := htokens
  have hk1 : skwProject ≠ kwError := by decide
  have hk2 : skwProject ≠ kwEOF := by decide
  obtain ⟨m, hm⟩ := parseGeneric_first_error
    (2 * (errorToken n ws.length ("unknown keyword: ".toList ++ w) :: more).length + 1)
    (errorToken n ws.length ("unknown keyword: ".toList ++ w) :: more) tok rfl
  have hm1 : (parseGeneric
      (parseGenericFuel (errorToken n ws.length ("unknown keyword: ".toList ++ w) :: more))
      (errorToken n ws.length ("unknown keyword: ".toList ++ w) :: more) tok).parseErrors =
      { Msg := (errorToken n ws.length ("unknown keyword: ".toList ++ w)).value,
        LineNum := (errorToken n ws.length ("unknown keyword: ".toList ++ w)).line } :: m := hm
  simp only [ParseSML, hmore, recv, hk1, hk2, hkw, ↓reduceIte, hm1, List.length_cons,
    gt_iff_lt, Nat.zero_lt_succ, List.head?_cons]
  simp [errorToken]

/-- The document of the test `TestParse0`, `"\nproject blah\n  node foo"`,
gives position 3 and line 3. -/
theorem ParseSML_unknown_keyword_witness :
    (ParseSML GoRuntime.insertionOrder "\nproject blah\n  node foo".toList []).2.head? =
      some { Msg := "error at position 3: unknown keyword: node".toList, LineNum := 3 } :=
  ParseSML_unknown_keyword GoRuntime.insertionOrder "\nproject blah\n  node foo".toList []
    [[]] "project blah".toList ["  node foo".toList]
    { indent := 0, kw := skwProject, value := "blah".toList, line := 2 } 2
    "  ".toList "node".toList " foo".toList []
    (by decide) (by decide) (by decide) rfl (by decide) (by decide) (by decide) (by decide)
    (by decide) (by decide)


/-! ### Running the parser -/

theorem run_bind {α β : Type} (m : Parser α) (f : α → Parser β) (st : List ParseError) :
    (m >>= f).run st =
      match m.run st with
      | .ok a st1 => (f a).run st1
      | .panicErrors e => .panicErrors e
      | .panicRuntime msg => .panicRuntime msg := rfl

theorem run_pure {α : Type} (a : α) (st : List ParseError) :
    (pure a : Parser α).run st = .ok a st := rfl

theorem kwOrder_nil (rt : GoRuntime) (salt : Int) : rt.kwOrder salt [] = [] :=
  List.Perm.eq_nil (rt.kwOrder_perm salt [])

theorem kwOrder_singleton (rt : GoRuntime) (salt : Int) (k : Keyword) :
    rt.kwOrder salt [k] = [k] :=
  List.perm_singleton.mp (rt.kwOrder_perm salt [k])

theorem strOrder_nil (rt : GoRuntime) (salt : Int) : rt.strOrder salt [] = [] :=
  List.Perm.eq_nil (rt.strOrder_perm salt [])

theorem strOrder_singleton (rt : GoRuntime) (salt : Int) (k : Str) :
    rt.strOrder salt [k] = [k] :=
  List.perm_singleton.mp (rt.strOrder_perm salt [k])

/-! ### The grammar -/

mutual
theorem KwTree.eq_of_beq : ∀ a b : KwTree, KwTree.beq a b = true → a = b
  | .mk k1 c1, .mk k2 c2, h => by
    simp only [KwTree.beq, Bool.and_eq_true, beq_iff_eq] at h
    rw [h.1, KwTree.eq_of_beqList c1 c2 h.2]
theorem KwTree.eq_of_beqList : ∀ a b : List KwTree, KwTree.beqList a b = true → a = b
  | [], [], _ => rfl
  | a :: as, b :: bs, h => by
    simp only [KwTree.beqList, Bool.and_eq_true] at h
    rw [KwTree.eq_of_beq a b h.1, KwTree.eq_of_beqList as bs h.2]
  | [], _ :: _, h => by simp [KwTree.beqList] at h
  | _ :: _, [], h => by simp [KwTree.beqList] at h
end

set_option maxRecDepth 100000 in
theorem smlKwTree_eq : smlKwTree = smlKwTreeValue :=
  KwTree.eq_of_beq _ _ (by decide!)

/-! ### Maps of at most one key -/

theorem GoRuntime.fixSmall_eq (rt : GoRuntime) : rt.fixSmall = rt := by
  have h1 : rt.fixSmall.kwOrder = rt.kwOrder := by
    funext salt keys
    match keys with
    | [] => exact (kwOrder_nil rt salt).symm
    | [k] => exact (kwOrder_singleton rt salt k).symm
    | k1 :: k2 :: ks => rfl
  have h2 : rt.fixSmall.strOrder = rt.strOrder := by
    funext salt keys
    match keys with
    | [] => exact (strOrder_nil rt salt).symm
    | [k] => exact (strOrder_singleton rt salt k).symm
    | k1 :: k2 :: ks => rfl
  cases rt with
  | mk kwOrder kwOrder_perm strOrder strOrder_perm RandomString parseFloat32 =>
    simp only [GoRuntime.fixSmall] at h1 h2 ⊢
    congr


theorem parseGeneric_root (fuel : Nat) (l : List Token) (root : Token) :
    (parseGeneric fuel l root).g.kw = root.kw ∧ (parseGeneric fuel l root).g.value = root.value ∧
      (parseGeneric fuel l root).g.line = root.line := by
  cases fuel with
  | zero => simp [parseGeneric, Generic.kw, Generic.value, Generic.line]
  | succ fuel =>
    rw [parseGeneric]
    simp only
    split
    · split <;> simp [Generic.kw, Generic.value, Generic.line]
    · simp [Generic.kw, Generic.value, Generic.line]

theorem run_bind_ok {α β : Type} {m : Parser α} {f : α → Parser β} {st st2 : List ParseError}
    {b : β} (h : (m >>= f).run st = .ok b st2) :
    ∃ a st1, m.run st = .ok a st1 ∧ (f a).run st1 = .ok b st2 := by
  rw [run_bind] at h
  cases hm : m.run st with
  | ok a st1 => rw [hm] at h; exact ⟨a, st1, rfl, h⟩
  | panicErrors e => rw [hm] at h; cases h
  | panicRuntime msg => rw [hm] at h; cases h

theorem run_pure_ok {α : Type} {a b : α} {st st1 : List ParseError}
    (h : (pure a : Parser α).run st = .ok b st1) : a = b ∧ st = st1 := by
  rw [run_pure] at h
  cases h
  exact ⟨rfl, rfl⟩

theorem emits_pure {α : Type} (P : ParseError → Prop) (a : α) : (pure a : Parser α).Emits P := by
  intro st
  exact ⟨[], by simp, by simp⟩

theorem emits_bind {α β : Type} {P : ParseError → Prop} {m : Parser α} {f : α → Parser β}
    (hm : m.Emits P) (hf : ∀ a, (f a).Emits P) : (m >>= f).Emits P := by
  intro st
  have h1 := hm st
  rw [run_bind]
  revert h1
  cases m.run st with
  | ok a st1 =>
    rintro ⟨n1, rfl, hn1⟩
    have h2 := hf a (st ++ n1)
    show match (f a).run (st ++ n1) with
      | .ok _ st2 => ∃ new, st2 = st ++ new ∧ ∀ e ∈ new, P e
      | .panicErrors st2 => ∃ new, st2 = st ++ new ∧ ∀ e ∈ new, P e
      | .panicRuntime _ => False
    revert h2
    cases (f a).run (st ++ n1) with
    | ok b st2 =>
      rintro ⟨n2, rfl, hn2⟩
      exact ⟨n1 ++ n2, by simp, fun e he => (List.mem_append.mp he).elim (hn1 e) (hn2 e)⟩
    | panicErrors st2 =>
      rintro ⟨n2, rfl, hn2⟩
      exact ⟨n1 ++ n2, by simp, fun e he => (List.mem_append.mp he).elim (hn1 e) (hn2 e)⟩
    | panicRuntime msg => exact fun h => h
  | panicErrors e => exact fun h => h
  | panicRuntime msg => exact fun h => h

theorem emits_appendParseError {P : ParseError → Prop} {errs : List ParseError}
    (h : ∀ e ∈ errs, P e) : (appendParseError errs).Emits P := by
  intro st
  simp only [appendParseError]
  split_ifs
  · exact ⟨errs, rfl, h⟩
  · exact ⟨errs.take (maxErrors - st.length), rfl, fun e he => h e (List.mem_of_mem_take he)⟩
  · exact ⟨[], by simp, by simp⟩

theorem emits_panicParseErrors {α : Type} (P : ParseError → Prop) :
    (panicParseErrors : Parser α).Emits P := by
  intro st
  exact ⟨[], by simp, by simp⟩

theorem emits_report {P : ParseError → Prop} (msg : Str) (line : Int)
    (h : P { Msg := msg, LineNum := line }) : (report msg line).Emits P :=
  emits_appendParseError (fun x hx => by
    simp only [List.mem_singleton] at hx
    subst hx
    exact h)

theorem emits_fatal {α : Type} {P : ParseError → Prop} (msg : Str) (line : Int)
    (h : P { Msg := msg, LineNum := line }) : (fatal msg line : Parser α).Emits P :=
  emits_bind (emits_report msg line h) (fun _ => emits_panicParseErrors P)

theorem emits_errorIf {P : ParseError → Prop} (c : Bool) (msg : Str) (line : Int)
    (h : P { Msg := msg, LineNum := line }) : (errorIf c msg line).Emits P := by
  unfold errorIf
  split_ifs
  · exact emits_report msg line h
  · exact emits_pure P ()

theorem emits_panicIf {P : ParseError → Prop} (c : Bool) (msg : Str) (line : Int)
    (h : P { Msg := msg, LineNum := line }) : (panicIf c msg line).Emits P := by
  unfold panicIf
  split_ifs
  · exact emits_fatal msg line h
  · exact emits_pure P ()

theorem emits_ite {α : Type} {P : ParseError → Prop} {c : Prop} [Decidable c] {a b : Parser α}
    (ha : a.Emits P) (hb : b.Emits P) : (if c then a else b).Emits P := by
  split_ifs
  · exact ha
  · exact hb

theorem emits_forEach {β σ : Type} {P : ParseError → Prop} (body : σ → β → Parser σ)
    (l : List β) (h : ∀ s, ∀ b ∈ l, (body s b).Emits P) (s : σ) :
    (forEach l s body).Emits P := by
  induction l generalizing s with
  | nil => exact emits_pure P s
  | cons b bs ih =>
    rw [forEach]
    exact emits_bind (h s b (List.mem_cons_self _ _))
      (fun s1 => ih (fun s2 x hx => h s2 x (List.mem_cons_of_mem _ hx)) s1)

theorem emits_first {β : Type} (P : ParseError → Prop) (l : List β) (h : l ≠ []) :
    (first l).Emits P := by
  cases l with
  | nil => exact absurd rfl h
  | cons b bs => exact emits_pure P b

theorem forEach_ok_inv {β σ : Type} (body : σ → β → Parser σ) (Inv : List β → σ → Prop)
    (l : List β)
    (step : ∀ pre b s st s1 st1, b ∈ l → Inv pre s → (body s b).run st = .ok s1 st1 →
      Inv (pre ++ [b]) s1) :
    ∀ (suffix pre : List β) (s : σ) (st : List ParseError) (r : σ) (st1 : List ParseError),
      (∀ b ∈ suffix, b ∈ l) → Inv pre s → (forEach suffix s body).run st = .ok r st1 →
        Inv (pre ++ suffix) r := by
  intro suffix
  induction suffix with
  | nil =>
    intro pre s st r st1 _ hinv h
    rw [forEach] at h
    obtain ⟨rfl, -⟩ := run_pure_ok h
    simpa using hinv
  | cons b bs ih =>
    intro pre s st r st1 hmem hinv h
    rw [forEach] at h
    obtain ⟨s1, st2, h1, h2⟩ := run_bind_ok h
    have := ih (pre ++ [b]) s1 st2 r st1 (fun x hx => hmem x (List.mem_cons_of_mem _ hx))
      (step pre b s st s1 st2 (hmem b (List.mem_cons_self _ _)) hinv h1) h2
    simpa using this

/-! ### The messages of `parseColumn` and `parseTable` -/

theorem notStart_append (pat lit var : Str) (line : Int)
    (h : (decide (pat.length ≤ lit.length) && decide (lit.take pat.length ≠ pat)) = true) :
    NotStart pat { Msg := lit ++ var, LineNum := line } := by
  simp only [Bool.and_eq_true, decide_eq_true_eq] at h
  simp only [NotStart]
  rw [List.take_append_of_le_length h.1]
  exact h.2

theorem notStart_lit (pat lit : Str) (line : Int)
    (h : decide (lit.take pat.length ≠ pat) = true) :
    NotStart pat { Msg := lit, LineNum := line } := by
  simpa [NotStart] using h

theorem smlKeyword2string_mem (kw : Keyword) :
    smlKeyword2string kw ∈ [] :: smlKeywords.map (fun e => e.1) := by
  unfold smlKeyword2string
  cases h : smlKeywords.find? (fun e => decide (e.2 = kw)) with
  | none => simp
  | some e =>
    exact List.mem_cons_of_mem _ (List.mem_map_of_mem _ (List.mem_of_find?_eq_some h))

theorem notStart_quoted_keyword (pat : Str) (hpat : pat = sqlMissingStart ∨ pat = typeMissingStart)
    (kw : Keyword) (tail : Str) (line : Int)
    (htail : tail = "\" cannot have descendents".toList) :
    NotStart pat { Msg := "\"".toList ++ smlKeyword2string kw ++ tail, LineNum := line } := by
  have h : ∀ s ∈ ([] :: smlKeywords.map (fun e => e.1)),
      ∀ p ∈ [sqlMissingStart, typeMissingStart],
        ("\"".toList ++ s ++ "\" cannot have descendents".toList).take p.length ≠ p := by
    decide
  subst htail
  have hp : pat ∈ [sqlMissingStart, typeMissingStart] := by
    rcases hpat with h1 | h1 <;> simp [h1]
  exact h _ (smlKeyword2string_mem kw) pat hp

theorem notStart_cannot (pat : Str) (hpat : pat = sqlMissingStart ∨ pat = typeMissingStart)
    (msg : Str) (line : Int) (hmsg : msg.take 6 = "cannot".toList) :
    NotStart pat { Msg := msg, LineNum := line } := by
  intro h
  have h1 := congrArg (List.take 1) h
  have h2 := congrArg (List.take 1) hmsg
  simp only [List.take_take] at h1 h2
  have h3 : List.take 1 msg = ['c'] := h2
  rcases hpat with hp | hp <;> subst hp <;>
    · have h4 : List.take 1 msg = [chDQuote] := h1
      rw [h3] at h4
      exact absurd h4 (by decide)

theorem emits_parseSMLString (pat : Str) (hpat : pat = sqlMissingStart ∨ pat = typeMissingStart)
    (g : Generic) : (parseSMLString g).Emits (NotStart pat) := by
  unfold parseSMLString
  exact emits_bind (emits_errorIf _ _ _ (notStart_quoted_keyword pat hpat _ _ _ rfl))
    (fun _ => emits_pure _ _)

theorem emits_parseSingle (pat : Str) (hpat : pat = sqlMissingStart ∨ pat = typeMissingStart)
    (list : List Generic) (msg : Str) (line : Int) (hlist : list ≠ [])
    (hmsg : msg.take 6 = "cannot".toList) :
    (parseSingle list msg line).Emits (NotStart pat) := by
  unfold parseSingle
  exact emits_bind (emits_errorIf _ _ _ (notStart_cannot pat hpat _ _ hmsg))
    (fun _ => emits_bind (emits_first _ _ hlist) (fun _ => emits_parseSMLString pat hpat _))

theorem emits_parseDatatype (pat : Str) (hpat : pat = sqlMissingStart ∨ pat = typeMissingStart)
    (g : Generic) : (parseDatatype g).Emits (NotStart pat) := by
  have h1 : ∀ line, NotStart pat { Msg := "empty type".toList, LineNum := line } := by
    intro line
    rcases hpat with hp | hp <;> subst hp <;> exact notStart_lit _ _ _ (by decide)
  have h2 : ∀ s line,
      NotStart pat { Msg := "invalid type: \"".toList ++ s ++ "\"".toList, LineNum := line } := by
    intro s line
    rw [List.append_assoc]
    rcases hpat with hp | hp <;> subst hp <;> exact notStart_append _ _ _ _ (by decide)
  unfold parseDatatype
  exact emits_bind (emits_parseSMLString pat hpat g) (fun _ =>
    emits_bind (emits_errorIf _ _ _ (h1 _)) (fun _ =>
      emits_bind (emits_errorIf _ _ _ (h2 _ _)) (fun _ => emits_pure _ _)))

theorem emits_parseColumnChild (pat : Str)
    (hpat : pat = sqlMissingStart ∨ pat = typeMissingStart) (g : Generic)
    (state : Column × Bool) (entry : Keyword × List Generic) (hentry : entry.2 ≠ []) :
    (parseColumnChild g state entry).Emits (NotStart pat) := by
  have h1 : ∀ s line,
      NotStart pat { Msg := "\"column\" cannot contain \"".toList ++ s ++ "\"".toList,
                     LineNum := line } := by
    intro s line
    rw [List.append_assoc]
    rcases hpat with hp | hp <;> subst hp <;> exact notStart_append _ _ _ _ (by decide)
  unfold parseColumnChild
  dsimp only
  repeat' first
    | exact emits_parseSingle pat hpat _ _ _ hentry (by decide)
    | apply emits_parseDatatype pat hpat
    | exact emits_first _ _ hentry
    | apply emits_pure
    | exact emits_report _ _ (h1 _ _)
    | exact emits_errorIf _ _ _ (notStart_cannot pat hpat _ _ (by decide))
    | apply emits_ite
    | refine emits_bind ?_ (fun _ => ?_)
/-! ### The children of a node as a map -/

theorem mem_firstOccurrences {α : Type} [DecidableEq α] (x : α) (l : List α) :
    x ∈ firstOccurrences l ↔ x ∈ l := by
  induction l with
  | nil => simp [firstOccurrences]
  | cons k ks ih =>
    simp only [firstOccurrences, List.mem_cons, List.mem_filter, ih, decide_eq_true_eq]
    by_cases h : x = k <;> simp [h]

theorem mem_childKeys (g : Generic) (kw : Keyword) :
    kw ∈ g.childKeys ↔ g.childrenOf kw ≠ [] := by
  unfold Generic.childKeys Generic.childrenOf
  rw [mem_firstOccurrences, List.mem_map, ne_eq, List.filter_eq_nil_iff]
  constructor
  · rintro ⟨c, hc, rfl⟩ h
    exact absurd (h c hc) (by simp)
  · intro h
    push_neg at h
    obtain ⟨c, hc, h1⟩ := h
    exact ⟨c, hc, by simpa using h1⟩

theorem mem_rangeChildren (rt : GoRuntime) (g : Generic) (entry : Keyword × List Generic)
    (h : entry ∈ rangeChildren rt g) : entry.2 = g.childrenOf entry.1 ∧ entry.2 ≠ [] := by
  unfold rangeChildren at h
  rw [List.mem_map] at h
  obtain ⟨kw, hkw, rfl⟩ := h
  exact ⟨rfl, (mem_childKeys g kw).mp (((rt.kwOrder_perm g.line g.childKeys).mem_iff).mp hkw)⟩

theorem mem_rangeChildren_keys (rt : GoRuntime) (g : Generic) (kw : Keyword) :
    kw ∈ (rangeChildren rt g).map Prod.fst ↔ g.childrenOf kw ≠ [] := by
  unfold rangeChildren
  rw [List.map_map]
  have h : (Prod.fst ∘ fun kw => (kw, g.childrenOf kw)) = id := rfl
  rw [h, List.map_id, (rt.kwOrder_perm g.line g.childKeys).mem_iff]
  exact mem_childKeys g kw
/-! ### `parseColumn` and `parseTable`: the errors before the last check -/

theorem emits_parseColumnBegin (pat : Str)
    (hpat : pat = sqlMissingStart ∨ pat = typeMissingStart) (rt : GoRuntime) (g : Generic) :
    (parseColumnBegin rt g).Emits (NotStart pat) := by
  have h1 : ∀ line,
      NotStart pat { Msg := "value of the keyword must be column".toList, LineNum := line } := by
    intro line
    rcases hpat with hp | hp <;> subst hp <;> exact notStart_lit _ _ _ (by decide)
  have h2 : ∀ line,
      NotStart pat { Msg := "\"column\" has to have a name".toList, LineNum := line } := by
    intro line
    rcases hpat with hp | hp <;> subst hp <;> exact notStart_lit _ _ _ (by decide)
  have h3 : ∀ s line,
      NotStart pat { Msg := "invalid name for column: ".toList ++ s, LineNum := line } := by
    intro s line
    rcases hpat with hp | hp <;> subst hp <;> exact notStart_append _ _ _ _ (by decide)
  unfold parseColumnBegin
  refine emits_bind (emits_panicIf _ _ _ (h1 _)) (fun _ => emits_bind ?_ (fun _ => ?_))
  · exact emits_ite (emits_report _ _ (h2 _)) (emits_errorIf _ _ _ (h3 _ _))
  · exact emits_forEach _ _
      (fun s b hb => emits_parseColumnChild pat hpat g s b (mem_rangeChildren rt g b hb).2) _

theorem emits_parseColumn (rt : GoRuntime) (g : Generic) (tableName : Str) :
    (parseColumn rt g tableName).Emits (NotStart sqlMissingStart) := by
  unfold parseColumn
  refine emits_bind (emits_parseColumnBegin _ (Or.inl rfl) rt g) (fun r => ?_)
  unfold parseColumnEnd
  exact emits_bind (emits_errorIf _ _ _ (notStart_append _ _ _ _ (by decide)))
    (fun _ => emits_pure _ _)

theorem emits_parseTableColumn (rt : GoRuntime) (tableName : Str)
    (state : GoMap Column × List Str) (child : Generic) :
    (parseTableColumn rt tableName state child).Emits (NotStart sqlMissingStart) := by
  unfold parseTableColumn
  refine emits_bind (emits_parseColumn rt child tableName) (fun column => ?_)
  refine emits_ite (emits_bind (emits_report _ _ ?_) (fun _ => emits_pure _ _)) (emits_pure _ _)
  simp only [List.append_assoc]
  exact notStart_append _ _ _ _ (by decide)

theorem emits_parseTableChild (rt : GoRuntime) (g : Generic) (state : Table × List Str)
    (entry : Keyword × List Generic) (hentry : entry.2 ≠ []) :
    (parseTableChild rt g state entry).Emits (NotStart sqlMissingStart) := by
  have h1 : ∀ s line,
      NotStart sqlMissingStart
        { Msg := "\"table\" cannot contain \"".toList ++ s ++ "\"".toList, LineNum := line } := by
    intro s line
    rw [List.append_assoc]
    exact notStart_append _ _ _ _ (by decide)
  unfold parseTableChild
  dsimp only
  repeat' first
    | exact emits_parseSingle _ (Or.inl rfl) _ _ _ hentry (by decide)
    | exact emits_forEach _ _ (fun s b _ => emits_parseTableColumn rt _ s b) _
    | apply emits_pure
    | exact emits_report _ _ (h1 _ _)
    | apply emits_ite
    | refine emits_bind ?_ (fun _ => ?_)

theorem emits_parseTableBegin (rt : GoRuntime) (g : Generic) :
    (parseTableBegin rt g).Emits (NotStart sqlMissingStart) := by
  unfold parseTableBegin
  refine emits_bind (emits_panicIf _ _ _ (notStart_lit _ _ _ (by decide)))
    (fun _ => emits_bind ?_ (fun _ => ?_))
  · exact emits_ite (emits_report _ _ (notStart_lit _ _ _ (by decide)))
      (emits_errorIf _ _ _ (notStart_append _ _ _ _ (by decide)))
  · exact emits_forEach _ _
      (fun s b hb => emits_parseTableChild rt g s b (mem_rangeChildren rt g b hb).2) _

/-! ### `parseColumn` and `parseTable`: what the loop leaves -/

theorem parseColumnChild_ok (g : Generic) (c : Column) (flag : Bool)
    (entry : Keyword × List Generic) (st st1 : List ParseError) (r : Column × Bool)
    (h : (parseColumnChild g (c, flag) entry).run st = .ok r st1) :
    r.1.Name = c.Name ∧ r.2 = (flag || decide (entry.1 = skwType)) := by
  unfold parseColumnChild at h
  dsimp only at h
  split_ifs at h with h1 h2 h3 h4 h5 h6
  all_goals
    repeat (obtain ⟨_, _, -, h⟩ := run_bind_ok h)
    obtain ⟨rfl, -⟩ := run_pure_ok h
  all_goals simp_all +decide
      [skwSQL, skwLabel, skwFormat, skwType, skwTransformer, skwTransformerName]

theorem parseColumnBegin_ok (rt : GoRuntime) (g : Generic) (st st1 : List ParseError)
    (r : Column × Bool) (h : (parseColumnBegin rt g).run st = .ok r st1) :
    r.1.Name = g.value ∧ (r.2 = true ↔ g.childrenOf skwType ≠ []) := by
  unfold parseColumnBegin at h
  obtain ⟨_, _, -, h⟩ := run_bind_ok h
  obtain ⟨_, st2, -, h⟩ := run_bind_ok h
  have h1 := forEach_ok_inv (parseColumnChild g)
    (fun pre s => s.1.Name = g.value ∧ s.2 = decide (skwType ∈ pre.map Prod.fst))
    (rangeChildren rt g)
    (fun pre b s st s1 st1 _ hinv hrun => by
      obtain ⟨h2, h3⟩ := parseColumnChild_ok g s.1 s.2 b st st1 s1 hrun
      refine ⟨h2.trans hinv.1, ?_⟩
      rw [h3, hinv.2]
      have hb1 : skwType = b.1 ↔ b.1 = skwType := eq_comm
      by_cases hb : b.1 = skwType <;> by_cases hp : skwType ∈ pre.map Prod.fst <;>
        simp [hb1, hb, hp])
    (rangeChildren rt g) [] _ st2 r st1 (fun _ hb => hb) ⟨rfl, by simp⟩ h
  simp only [List.nil_append] at h1
  refine ⟨h1.1, ?_⟩
  rw [h1.2, decide_eq_true_eq]
  exact mem_rangeChildren_keys rt g skwType
theorem last_check_spec {α β : Type} {P : ParseError → Prop} {m : Parser α} (hm : m.Emits P)
    (f : α → Parser β) (c : α → Bool) (msg : α → Str) (line : α → Int)
    (hf : ∀ a, ∃ k : β, f a = errorIf (c a) (msg a) (line a) >>= fun _ => pure k)
    (e0 : ParseError)
    (hne : ¬ P e0) (cond : Prop)
    (hval : ∀ st a st1, m.run st = .ok a st1 →
      ({ Msg := msg a, LineNum := line a } : ParseError) = e0 ∧ (c a = true ↔ cond))
    (st : List ParseError) :
    ((m >>= f).run st).RecordsIff st e0 cond := by
  have h1 := hm st
  unfold Outcome.RecordsIff
  rw [run_bind]
  cases hrun : m.run st with
  | ok a st1 =>
    rw [hrun] at h1
    obtain ⟨n1, rfl, hn1⟩ := h1
    obtain ⟨he, hc⟩ := hval st a _ hrun
    have hn : e0 ∉ n1 := fun h => hne (hn1 e0 h)
    obtain ⟨k, hk⟩ := hf a
    simp only [hk, run_bind]
    by_cases hca : c a = true
    · have hcond : cond := hc.mp hca
      simp only [errorIf, hca, ↓reduceIte, report, appendParseError, he]
      split_ifs
      · exact ⟨n1 ++ [e0], by simp [run_pure], by simp [hcond]⟩
      · exact ⟨n1 ++ [e0].take (maxErrors - (st ++ n1).length), by simp, fun _ => hcond⟩
      · exact ⟨n1, rfl, fun _ => hcond⟩
    · have hcond : ¬ cond := fun h => hca (hc.mpr h)
      simp only [errorIf, hca, Bool.false_eq_true, ↓reduceIte, run_pure]
      exact ⟨n1, rfl, by simp [hn, hcond]⟩
  | panicErrors e =>
    rw [hrun] at h1
    obtain ⟨n1, rfl, hn1⟩ := h1
    exact ⟨n1, rfl, fun h => absurd (hn1 e0 h) hne⟩
  | panicRuntime msg =>
    rw [hrun] at h1
    exact h1

/-- C6 (amended): `parseColumn` does not end in a run-time panic; when it
returns, it has recorded the error `"type" is mandatory for a column,
missing in column <name>` at the line of the column if and only if the column
has no `type` child; when it ends in `panic(parser.parseErrors)` instead, it
has recorded that error only if the column has no `type` child.  A column `c`
without children gives exactly that error, and a column with the child
`type int` gives no error. -/
theorem parseColumn_type_error (rt : GoRuntime) (g : Generic) (tableName : Str)
    (st : List ParseError) :
    ((parseColumn rt g tableName).run st).RecordsIff st (typeMissingError g)
      (g.childrenOf skwType = []) ∧
    ((parseColumn rt typelessColumn tableName).run []).returns = true ∧
    ((parseColumn rt typelessColumn tableName).run []).errors =
      [{ Msg := "\"type\" is mandatory for a column, missing in column c".toList, LineNum := 3 }] ∧
    ((parseColumn rt typedColumn tableName).run []).returns = true ∧
    ((parseColumn rt typedColumn tableName).run []).errors = [] := by
  refine ⟨?_, ?_⟩
  · have hne : ¬ NotStart typeMissingStart (typeMissingError g) := by
      simp [NotStart, typeMissingError, typeMissingStart]
    exact last_check_spec (emits_parseColumnBegin typeMissingStart (Or.inr rfl) rt g)
      (fun r => parseColumnEnd rt.unicode g r.1 r.2) (fun r => !r.2)
      (fun r => "\"type\" is mandatory for a column, missing in column ".toList ++ r.1.Name)
      (fun _ => g.line) (fun _ => ⟨_, rfl⟩) (typeMissingError g) hne (g.childrenOf skwType = [])
      (fun st a st1 hrun => by
        obtain ⟨h1, h2⟩ := parseColumnBegin_ok rt g st st1 a hrun
        refine ⟨by simp [typeMissingError, h1], ?_⟩
        show (!a.2) = true ↔ g.childrenOf skwType = []
        rw [← not_iff_not, ← ne_eq (g.childrenOf skwType), ← h2]
        simp)
      st
  · rw [← GoRuntime.fixSmall_eq rt]
    exact ⟨rfl, rfl, rfl, rfl⟩
set_option maxRecDepth 1000000 in
/-- C6 fails as stated: the table `budgetTable` has no name and 34 columns
without a name or a child.  When `parseTable` comes to the last column,
`budgetColumn`, the parser holds 99 errors; `parseColumn` records
`"column" has to have a name` as the 100th and panics, so that the error
about the missing type of that column is never recorded. -/
theorem parseColumn_type_error_counterexample :
    budgetTable.children.getLast? = some budgetColumn ∧
    budgetColumn.childrenOf skwType = [] ∧
    ((parseTable GoRuntime.insertionOrder budgetTable).run []).returns = false ∧
    ((parseTable GoRuntime.insertionOrder budgetTable).run []).errors.length = maxErrors ∧
    typeMissingError budgetColumn ∉
      ((parseTable GoRuntime.insertionOrder budgetTable).run []).errors ∧
    ((parseColumn GoRuntime.insertionOrder budgetColumn []).run
      (((parseTable GoRuntime.insertionOrder budgetTable).run []).errors.take 99)).returns =
        false ∧
    ((parseColumn GoRuntime.insertionOrder budgetColumn []).run
      (((parseTable GoRuntime.insertionOrder budgetTable).run []).errors.take 99)).errors =
        ((parseTable GoRuntime.insertionOrder budgetTable).run []).errors := by
  refine ⟨rfl, rfl, ?_⟩
  decide!

/-! ### C5: a table without SQL text -/

theorem parseSMLString_ok (g : Generic) (st st1 : List ParseError) (v : Str)
    (h : (parseSMLString g).run st = .ok v st1) : v = g.value := by
  unfold parseSMLString at h
  obtain ⟨_, _, -, h⟩ := run_bind_ok h
  exact (run_pure_ok h).1.symm

theorem parseSingle_ok (list : List Generic) (msg : Str) (line : Int) (st st1 : List ParseError)
    (v : Str) (h : (parseSingle list msg line).run st = .ok v st1) :
    ∃ child rest, list = child :: rest ∧ v = child.value := by
  unfold parseSingle at h
  obtain ⟨_, _, -, h⟩ := run_bind_ok h
  obtain ⟨c, _, h1, h⟩ := run_bind_ok h
  cases list with
  | nil => cases h1
  | cons child rest =>
    obtain ⟨rfl, -⟩ := run_pure_ok h1
    exact ⟨child, rest, rfl, parseSMLString_ok _ _ _ _ h⟩

theorem parseTableChild_ok (rt : GoRuntime) (g : Generic) (table : Table) (names : List Str)
    (entry : Keyword × List Generic) (st st1 : List ParseError) (r : Table × List Str)
    (h : (parseTableChild rt g (table, names) entry).run st = .ok r st1) :
    (entry.1 = skwSQL → ∃ child rest, entry.2 = child :: rest ∧ r.1.SQL = child.value) ∧
      (entry.1 ≠ skwSQL → r.1.SQL = table.SQL) := by
  unfold parseTableChild at h
  dsimp only at h
  split_ifs at h with h1 h2 h3 h4
  · obtain ⟨_, _, -, h⟩ := run_bind_ok h
    obtain ⟨rfl, -⟩ := run_pure_ok h
    exact ⟨fun h5 => absurd (h1.symm.trans h5) (by decide), fun _ => rfl⟩
  · obtain ⟨v, _, h5, h⟩ := run_bind_ok h
    obtain ⟨rfl, -⟩ := run_pure_ok h
    obtain ⟨child, rest, h6, h7⟩ := parseSingle_ok _ _ _ _ _ _ h5
    exact ⟨fun _ => ⟨child, rest, h6, h7⟩, fun h8 => absurd h2 h8⟩
  · obtain ⟨_, _, -, h⟩ := run_bind_ok h
    obtain ⟨rfl, -⟩ := run_pure_ok h
    exact ⟨fun h5 => absurd h5 h2, fun _ => rfl⟩
  · obtain ⟨_, _, -, h⟩ := run_bind_ok h
    obtain ⟨rfl, -⟩ := run_pure_ok h
    exact ⟨fun h5 => absurd h5 h2, fun _ => rfl⟩
  · obtain ⟨_, _, -, h⟩ := run_bind_ok h
    obtain ⟨rfl, -⟩ := run_pure_ok h
    exact ⟨fun h5 => absurd h5 h2, fun _ => rfl⟩

theorem sqlValue_of_not_mem (g : Generic) (h : g.childrenOf skwSQL = []) : g.sqlValue = [] := by
  unfold Generic.sqlValue
  rw [h]

theorem parseTableBegin_ok (rt : GoRuntime) (g : Generic) (st st1 : List ParseError)
    (r : Table × List Str) (h : (parseTableBegin rt g).run st = .ok r st1) :
    r.1.SQL = g.sqlValue := by
  unfold parseTableBegin at h
  obtain ⟨_, _, -, h⟩ := run_bind_ok h
  obtain ⟨_, st2, -, h⟩ := run_bind_ok h
  have h1 := forEach_ok_inv (parseTableChild rt g)
    (fun pre s => s.1.SQL = if skwSQL ∈ pre.map Prod.fst then g.sqlValue else [])
    (rangeChildren rt g)
    (fun pre b s st s1 st1 hb hinv hrun => by
      obtain ⟨h2, h3⟩ := parseTableChild_ok rt g s.1 s.2 b st st1 s1 hrun
      by_cases hk : b.1 = skwSQL
      · obtain ⟨child, rest, h4, h5⟩ := h2 hk
        have h6 : g.childrenOf skwSQL = child :: rest := by
          rw [← hk, ← (mem_rangeChildren rt g b hb).1, h4]
        simp only [List.map_append, List.map_cons, List.map_nil, List.mem_append,
          List.mem_singleton, hk, or_true, ↓reduceIte]
        rw [h5, Generic.sqlValue, h6]
      · have hk1 : ¬ skwSQL = b.1 := fun h => hk h.symm
        simp only [List.map_append, List.map_cons, List.map_nil, List.mem_append,
          List.mem_singleton, hk1, or_false]
        rw [h3 hk]
        exact hinv)
    (rangeChildren rt g) [] _ st2 r st1 (fun _ hb => hb) (by simp) h
  simp only [List.nil_append] at h1
  rw [h1]
  split_ifs with h2
  · rfl
  · rw [mem_rangeChildren_keys] at h2
    exact (sqlValue_of_not_mem g (not_not.mp h2)).symm
/-- C5 (amended): `parseTable` does not end in a run-time panic; when it
returns, it has recorded the error `"table" must have a  "sql"` with
`LineNum = -1` if and only if the table has no `sql` child or the value of
its first `sql` child is empty; when it ends in `panic(parser.parseErrors)`
instead, it has recorded that error only if the table has no `sql` child or
the value of its first `sql` child is empty.  A table `t` without children
gives exactly that error, and a table with the child `sql select 1` gives no
error. -/
theorem parseTable_sql_error (rt : GoRuntime) (g : Generic) (st : List ParseError) :
    ((parseTable rt g).run st).RecordsIff st
      { Msg := "\"table\" must have a  \"sql\"".toList, LineNum := -1 } (g.sqlValue = []) ∧
    ((parseTable rt sqllessTable).run []).returns = true ∧
    ((parseTable rt sqllessTable).run []).errors =
      [{ Msg := "\"table\" must have a  \"sql\"".toList, LineNum := -1 }] ∧
    ((parseTable rt sqlTable).run []).returns = true ∧
    ((parseTable rt sqlTable).run []).errors = [] := by
  refine ⟨?_, ?_⟩
  · have hne : ¬ NotStart sqlMissingStart sqlMissingError := by
      simp [NotStart, sqlMissingError, sqlMissingStart]
    exact last_check_spec (emits_parseTableBegin rt g)
      (fun r => parseTableEnd rt.unicode r.1 r.2)
      (fun r => decide ((if r.1.Label = [] then
        ({ r.1 with Label := createSmartLabel rt.unicode r.1.Name } : Table) else r.1).SQL = []))
      (fun _ => "\"table\" must have a  \"sql\"".toList)
      (fun _ => -1) (fun _ => ⟨_, rfl⟩) sqlMissingError hne (g.sqlValue = [])
      (fun st a st1 hrun => by
        have h1 := parseTableBegin_ok rt g st st1 a hrun
        refine ⟨rfl, ?_⟩
        rw [← h1, decide_eq_true_eq]
        split_ifs <;> rfl)
      st
  · rw [← GoRuntime.fixSmall_eq rt]
    exact ⟨rfl, rfl, rfl, rfl⟩

set_option maxRecDepth 1000000 in
/-- C5 fails as stated, in both halves.  The table `budgetTable` has no
`sql` child, and `parseTable` panics on the 100th error, in its last column,
before it comes to the check of the SQL text: the error
`"table" must have a  "sql"` is not recorded.  The table of `twoSqlDoc` has
the child `sql select 1`, but `parseTable` reads the first `sql` child, whose
value is empty, and records the error. -/
theorem parseTable_sql_error_counterexample :
    budgetTable.childrenOf skwSQL = [] ∧
    ((parseTable GoRuntime.insertionOrder budgetTable).run []).returns = false ∧
    ((parseTable GoRuntime.insertionOrder budgetTable).run []).errors.length = maxErrors ∧
    sqlMissingError ∉ ((parseTable GoRuntime.insertionOrder budgetTable).run []).errors ∧
    (twoSqlTable.childrenOf skwSQL).map Generic.value = [[], "select 1".toList] ∧
    ((parseTable GoRuntime.insertionOrder twoSqlTable).run []).returns = true ∧
    ((parseTable GoRuntime.insertionOrder twoSqlTable).run []).errors =
      [{ Msg := "cannot have more than one \"sql\"s for a \"table\"".toList, LineNum := 2 },
       sqlMissingError] ∧
    (ParseSML GoRuntime.insertionOrder twoSqlDoc []).2 =
      [{ Msg := "cannot have more than one \"sql\"s for a \"table\"".toList, LineNum := 2 },
       sqlMissingError] := by
  refine ⟨rfl, ?_⟩
  decide!
/-! ### Go maps -/

theorem GoMap.get?_set {α : Type} (m : GoMap α) (k key : Str) (v : α) :
    (m.set k v).get? key = if k = key then some v else m.get? key := by
  induction m with
  | nil => simp [GoMap.set, GoMap.get?]
  | cons e m ih =>
    obtain ⟨k0, v0⟩ := e
    simp only [GoMap.set]
    by_cases h0 : k0 = k
    · subst h0
      simp only [↓reduceIte, GoMap.get?]
      split_ifs <;> rfl
    · simp only [h0, ↓reduceIte, GoMap.get?, ih]
      by_cases h1 : k0 = key
      · subst h1
        simp [Ne.symm h0]
      · simp [h1]

theorem GoMap.mem_keys_of_get? {α : Type} (m : GoMap α) (key : Str) (v : α)
    (h : m.get? key = some v) : key ∈ m.keys := by
  induction m with
  | nil => simp [GoMap.get?] at h
  | cons e m ih =>
    obtain ⟨k0, v0⟩ := e
    simp only [GoMap.get?] at h
    simp only [GoMap.keys, List.map_cons, List.mem_cons]
    by_cases h0 : k0 = key
    · exact Or.inl h0.symm
    · simp only [h0, ↓reduceIte] at h
      exact Or.inr (ih h)

theorem mem_rangeValues {α : Type} (rt : GoRuntime) (salt : Int) (m : GoMap α) (key : Str)
    (v : α) (h : m.get? key = some v) : v ∈ rangeValues rt salt m := by
  unfold rangeValues
  rw [List.mem_filterMap]
  exact ⟨key, ((rt.strOrder_perm salt m.keys).mem_iff).mpr (GoMap.mem_keys_of_get? m key v h), h⟩

/-! ### Loops that return -/

theorem run_extends {α : Type} (m : Parser α) (st st1 : List ParseError) (a : α)
    (h : m.run st = .ok a st1) : st <+: st1 := by
  have h1 := m.grows st
  rw [h] at h1
  exact h1

theorem forEach_ok_mem {β σ : Type} (body : σ → β → Parser σ) (l : List β) (s : σ)
    (st : List ParseError) (r : σ) (st1 : List ParseError)
    (h : (forEach l s body).run st = .ok r st1) :
    ∀ b ∈ l, ∃ s0 sa s1 sb, (body s0 b).run sa = .ok s1 sb ∧ sb <+: st1 := by
  induction l generalizing s st with
  | nil => intro b hb; cases hb
  | cons x xs ih =>
    rw [forEach] at h
    obtain ⟨s1, st2, h1, h2⟩ := run_bind_ok h
    intro b hb
    rcases List.mem_cons.mp hb with rfl | hb1
    · exact ⟨s, st, s1, st2, h1, run_extends _ _ _ _ h2⟩
    · exact ih s1 st2 h2 b hb1

theorem errorIf_ok (c : Bool) (msg : Str) (line : Int) (st st1 : List ParseError) (u : Unit)
    (h : (errorIf c msg line).run st = .ok u st1) (hc : c = true) :
    { Msg := msg, LineNum := line } ∈ st1 := by
  subst hc
  simp only [errorIf, ↓reduceIte, report, appendParseError] at h
  split_ifs at h
  cases h
  simp
/-! ### C7: the validation of the datasets -/

theorem validateDataset_ok (w : Project) (line : Int) (ds : Dataset) (st st1 : List ParseError)
    (u : Unit) (h : (validateDataset w line ds).run st = .ok u st1) :
    (∀ t ∈ ds.TableNames, w.Tables.get? t = none →
      datasetTableError t ds.Name w.Name line ∈ st1) ∧
    (∀ j ∈ ds.Joins, ∀ ots ∈ j.OTS, ots.Table ∉ ds.TableNames →
      joinTableError ots.Table ds.Name line ∈ st1) := by
  unfold validateDataset at h
  obtain ⟨_, st2, h1, h2⟩ := run_bind_ok h
  constructor
  · intro t ht hnone
    obtain ⟨_, sa, _, sb, h3, h4⟩ := forEach_ok_mem _ _ _ _ _ _ h1 t ht
    have h5 := errorIf_ok _ _ _ _ _ _ h3 (by simp [hnone])
    exact (run_extends _ _ _ _ h2).subset (h4.subset h5)
  · intro j hj ots hots hnot
    obtain ⟨_, sa, _, sb, h3, h4⟩ := forEach_ok_mem _ _ _ _ _ _ h2 j hj
    obtain ⟨_, sc, _, sd, h5, h6⟩ := forEach_ok_mem _ _ _ _ _ _ h3 ots hots
    have h7 := errorIf_ok _ _ _ _ _ _ h5 (by simp [hnot])
    exact h4.subset (h6.subset h7)

theorem validateProject_ok (rt : GoRuntime) (g : Generic) (w w1 : Project)
    (st st1 : List ParseError) (h : (validateProject rt g w).run st = .ok w1 st1) :
    w1 = w ∧ w.Validated w.Name g.line st1 := by
  unfold validateProject at h
  obtain ⟨_, st2, h1, h2⟩ := run_bind_ok h
  obtain ⟨_, st3, h3, h4⟩ := run_bind_ok h2
  obtain ⟨rfl, rfl⟩ := run_pure_ok h4
  refine ⟨rfl, ?_⟩
  intro name ds hds
  obtain ⟨_, sa, _, sb, h5, h6⟩ :=
    forEach_ok_mem _ _ _ _ _ _ h1 ds (mem_rangeValues rt 1 w.Datasets name ds hds)
  obtain ⟨h7, h8⟩ := validateDataset_ok w g.line ds _ _ _ h5
  have h9 : sb ⊆ st3 := fun e he => (run_extends _ _ _ _ h3).subset (h6.subset he)
  exact ⟨fun t ht hn => h9 (h7 t ht hn), fun j hj ots ho hn => h9 (h8 j hj ots ho hn)⟩

theorem parseProject_ok (rt : GoRuntime) (g : Generic) (w : Project)
    (st st1 : List ParseError) (h : (parseProject rt g).run st = .ok w st1) :
    ∃ name, w.Validated name g.line st1 := by
  unfold parseProject at h
  obtain ⟨_, _, -, h⟩ := run_bind_ok h
  obtain ⟨_, _, -, h⟩ := run_bind_ok h
  obtain ⟨_, _, -, h⟩ := run_bind_ok h
  obtain ⟨w0, _, -, h⟩ := run_bind_ok h
  obtain ⟨rfl, h1⟩ := validateProject_ok rt g w0 w _ _ h
  exact ⟨_, h1⟩
theorem validated_mono (w : Project) (name : Str) (line : Int) (errs errs1 : List ParseError)
    (h : w.Validated name line errs) (hsub : errs ⊆ errs1) : w.Validated name line errs1 :=
  fun n ds hds =>
    ⟨fun t ht hn => hsub ((h n ds hds).1 t ht hn),
      fun j hj ots ho hn => hsub ((h n ds hds).2 j hj ots ho hn)⟩

theorem validated_zero (name : Str) (line : Int) (errs : List ParseError) :
    ({} : Project).Validated name line errs := by
  intro n ds hds
  simp [GoMap.get?] at hds

theorem foldl_derived (f : GoMap Dataset → Str → GoMap Dataset)
    (hf : ∀ m k name ds1, (f m k).get? name = some ds1 →
      ∃ ds, m.get? name = some ds ∧ ds1.Name = ds.Name ∧ ds1.TableNames = ds.TableNames ∧
        ds1.Joins = ds.Joins)
    (l : List Str) (m : GoMap Dataset) (name : Str) (ds1 : Dataset)
    (h : (l.foldl f m).get? name = some ds1) :
    ∃ ds, m.get? name = some ds ∧ ds1.Name = ds.Name ∧ ds1.TableNames = ds.TableNames ∧
      ds1.Joins = ds.Joins := by
  induction l generalizing m with
  | nil => exact ⟨ds1, h, rfl, rfl, rfl⟩
  | cons k ks ih =>
    rw [List.foldl_cons] at h
    obtain ⟨ds2, h2, e1, e2, e3⟩ := ih (f m k) h
    obtain ⟨ds, h3, e4, e5, e6⟩ := hf m k name ds2 h2
    exact ⟨ds, h3, e1.trans e4, e2.trans e5, e3.trans e6⟩

theorem computeDerived_datasets (rt : GoRuntime) (w : Project) (name : Str) (ds1 : Dataset)
    (h : (computeDerivedAttributesInProject rt w).Datasets.get? name = some ds1) :
    ∃ ds, w.Datasets.get? name = some ds ∧ ds1.Name = ds.Name ∧
      ds1.TableNames = ds.TableNames ∧ ds1.Joins = ds.Joins := by
  unfold computeDerivedAttributesInProject at h
  refine foldl_derived _ ?_ _ _ _ _ h
  intro m k n d1 hd
  dsimp only at hd
  cases hk : m.get? k with
  | none =>
    rw [hk] at hd
    exact ⟨d1, hd, rfl, rfl, rfl⟩
  | some d =>
    rw [hk] at hd
    dsimp only at hd
    rw [GoMap.get?_set] at hd
    by_cases hkn : k = n
    · subst hkn
      simp only [↓reduceIte, Option.some.injEq] at hd
      subst hd
      exact ⟨d, hk, rfl, rfl, rfl⟩
    · simp only [hkn, ↓reduceIte] at hd
      exact ⟨d1, hd, rfl, rfl, rfl⟩

theorem computeDerived_validated (rt : GoRuntime) (w : Project) (name : Str) (line : Int)
    (errs : List ParseError) (h : w.Validated name line errs) :
    (computeDerivedAttributesInProject rt w).Validated name line errs := by
  intro n ds1 hds1
  obtain ⟨ds, hds, e1, e2, e3⟩ := computeDerived_datasets rt w n ds1 hds1
  have h1 := h n ds hds
  rw [e1, e2, e3]
  exact h1

theorem finishParseSML_validated (rt : GoRuntime) (w : Project) (name : Str) (line : Int)
    (errs : List ParseError) (token : Token) (h : w.Validated name line errs) :
    (finishParseSML rt w errs token).1.Validated name line (finishParseSML rt w errs token).2 := by
  unfold finishParseSML
  dsimp only
  split_ifs
  all_goals first
    | exact validated_mono _ _ _ _ _ h (by intro e he; simp [he])
    | exact validated_mono _ _ _ _ _ (computeDerived_validated rt w name line errs h)
        (by intro e he; simp [he])

theorem ParseSML_validated (rt : GoRuntime) (input projectName : Str) :
    ∃ name, (ParseSML rt input projectName).1.Validated name
      (recv (startLex input smlKeywords)).1.line (ParseSML rt input projectName).2 := by
  unfold ParseSML
  dsimp only
  by_cases h1 : (recv (startLex input smlKeywords)).1.kw = kwError
  · rw [if_pos h1]
    exact ⟨[], validated_zero _ _ _⟩
  rw [if_neg h1]
  by_cases h2 : (recv (startLex input smlKeywords)).1.kw = kwEOF
  · rw [if_pos h2]
    exact ⟨[], finishParseSML_validated _ _ _ _ _ _ (validated_zero _ _ _)⟩
  rw [if_neg h2]
  by_cases h3 : (recv (startLex input smlKeywords)).1.kw = skwProject
  swap
  · rw [if_neg h3]
    exact ⟨[], validated_zero _ _ _⟩
  rw [if_pos h3]
  split_ifs with h4 h5
  · exact ⟨[], validated_zero _ _ _⟩
  · exact ⟨[], validated_zero _ _ _⟩
  · cases hrun : (parseProject rt (parseGeneric (parseGenericFuel (recv (startLex input
        smlKeywords)).2) (recv (startLex input smlKeywords)).2
        (recv (startLex input smlKeywords)).1).g).run [] with
    | ok project errs =>
      obtain ⟨name, hv⟩ := parseProject_ok rt _ project [] errs hrun
      rw [(parseGeneric_root _ _ _).2.2] at hv
      exact ⟨name, finishParseSML_validated _ _ _ _ _ _ hv⟩
    | panicErrors pe => exact ⟨[], validated_zero _ _ _⟩
    | panicRuntime msg => exact ⟨[], validated_zero _ _ _⟩
  · cases hrun : (parseProject rt (parseGeneric (parseGenericFuel (recv (startLex input
        smlKeywords)).2) (recv (startLex input smlKeywords)).2
        (recv (startLex input smlKeywords)).1).g).run [] with
    | ok project errs =>
      obtain ⟨name, hv⟩ := parseProject_ok rt _ project [] errs hrun
      rw [(parseGeneric_root _ _ _).2.2] at hv
      exact ⟨name, finishParseSML_validated _ _ _ _ _ _ hv⟩
    | panicErrors pe => exact ⟨[], validated_zero _ _ _⟩
    | panicRuntime msg => exact ⟨[], validated_zero _ _ _⟩
/-- C7 (amended): when `ParseSML` returns no errors, every name in the
`TableNames` of a dataset of the returned project is a key of
`Project.Tables`, and every table named in a triple of a join of that
dataset is in its `TableNames`; and whatever `ParseSML` returns, for every
dataset of the returned project, a join that names a table outside the
`TableNames` of the dataset has the error
`table "<b>" in join of dataset "<ds>" not included in dataset`, at the line
of the project, in the returned error list. -/
theorem ParseSML_datasets (rt : GoRuntime) (input projectName : Str) :
    ((ParseSML rt input projectName).2 = [] →
      ∀ name ds, (ParseSML rt input projectName).1.Datasets.get? name = some ds →
        (∀ t ∈ ds.TableNames,
          ((ParseSML rt input projectName).1.Tables.get? t).isSome = true) ∧
        (∀ j ∈ ds.Joins, ∀ ots ∈ j.OTS, ots.Table ∈ ds.TableNames)) ∧
    (∀ name ds, (ParseSML rt input projectName).1.Datasets.get? name = some ds →
      ∀ j ∈ ds.Joins, ∀ ots ∈ j.OTS, ots.Table ∉ ds.TableNames →
        { Msg := "table \"".toList ++ ots.Table ++ "\" in join of dataset \"".toList ++
            ds.Name ++ "\" not included in dataset".toList,
          LineNum := (recv (startLex input smlKeywords)).1.line } ∈
          (ParseSML rt input projectName).2) := by
  obtain ⟨pname, hv⟩ := ParseSML_validated rt input projectName
  constructor
  · intro hnil name ds hds
    rw [hnil] at hv
    obtain ⟨h1, h2⟩ := hv name ds hds
    constructor
    · intro t ht
      cases hget : (ParseSML rt input projectName).1.Tables.get? t with
      | none => exact absurd (h1 t ht hget) (List.not_mem_nil _)
      | some _ => rfl
    · intro j hj ots ho
      by_contra hn
      exact absurd (h2 j hj ots ho hn) (List.not_mem_nil _)
  · intro name ds hds j hj ots ho hn
    exact (hv name ds hds).2 j hj ots ho hn

set_option maxRecDepth 1000000 in
/-- The document `goodJoinDoc` is parsed without errors, and its dataset `d`
joins two tables of its table list, which the project defines; in
`badJoinDoc` the dataset `d` lists the table `a` and joins it with `b`, and
the error for `b` is returned, at line 1. -/
theorem ParseSML_datasets_witness :
    ((ParseSML GoRuntime.insertionOrder goodJoinDoc []).2 = [] ∧
      (∀ name ds,
        (ParseSML GoRuntime.insertionOrder goodJoinDoc []).1.Datasets.get? name = some ds →
          (∀ t ∈ ds.TableNames,
            ((ParseSML GoRuntime.insertionOrder goodJoinDoc []).1.Tables.get? t).isSome = true) ∧
          (∀ j ∈ ds.Joins, ∀ ots ∈ j.OTS, ots.Table ∈ ds.TableNames))) ∧
    (((ParseSML GoRuntime.insertionOrder badJoinDoc []).1.Datasets.get? "d".toList).map
        (fun ds => (ds.Name, ds.TableNames, ds.Joins.map (fun j => j.OTS.map (fun o => o.Table)))) =
        some ("d".toList, ["a".toList], [["a".toList, "b".toList]]) ∧
      { Msg := "table \"".toList ++ "b".toList ++ "\" in join of dataset \"".toList ++
          "d".toList ++ "\" not included in dataset".toList,
        LineNum := 1 } ∈ (ParseSML GoRuntime.insertionOrder badJoinDoc []).2) := by
  have h1 : (ParseSML GoRuntime.insertionOrder goodJoinDoc []).2 = [] := by decide!
  have h2 : (ParseSML GoRuntime.insertionOrder badJoinDoc []).1.Datasets.get? "d".toList =
      some (((ParseSML GoRuntime.insertionOrder badJoinDoc []).1.Datasets.get?
        "d".toList).getD {}) := by decide!
  have h3 : (((ParseSML GoRuntime.insertionOrder badJoinDoc []).1.Datasets.get?
      "d".toList).getD {}).Joins.headD {} ∈
        (((ParseSML GoRuntime.insertionOrder badJoinDoc []).1.Datasets.get?
          "d".toList).getD {}).Joins := by decide!
  have h4 : (⟨"<->".toList, "b".toList, "a.x = b.x".toList⟩ : OperatorTableSQL) ∈
        ((((ParseSML GoRuntime.insertionOrder badJoinDoc []).1.Datasets.get?
          "d".toList).getD {}).Joins.headD {}).OTS := by decide!
  have h5 : "b".toList ∉ (((ParseSML GoRuntime.insertionOrder badJoinDoc []).1.Datasets.get?
      "d".toList).getD {}).TableNames := by decide!
  have h6 : (((ParseSML GoRuntime.insertionOrder badJoinDoc []).1.Datasets.get?
      "d".toList).getD {}).Name = "d".toList := by decide!
  have h7 : (recv (startLex badJoinDoc smlKeywords)).1.line = 1 := by decide!
  refine ⟨⟨h1, (ParseSML_datasets GoRuntime.insertionOrder goodJoinDoc []).1 h1⟩, by decide!, ?_⟩
  have h := (ParseSML_datasets GoRuntime.insertionOrder badJoinDoc []).2 "d".toList _ h2 _ h3 _ h4
    h5
  rw [h6, h7] at h
  exact h

set_option maxRecDepth 1000000 in
/-- C7 fails as stated in its last part.  In `noOnDoc` the dataset `d` lists
the table `a` and has the line `join a <-> b`, without an `on` line:
`parseJoin` panics, and the only error returned is that of the missing `on`
clause.  In `twoDatasetsDoc` the first dataset `d` lists the table `a` and
joins `a` with `b`, and a second dataset `d` replaces it in the map
`w.Datasets` before the validation: no error is returned at all.  Both
hold whether the maps are visited in the order of insertion or in the
reverse order. -/
theorem ParseSML_datasets_counterexample :
    (ParseSML GoRuntime.insertionOrder noOnDoc []).2 =
      [{ Msg := "no \"on\" clause for a \"join\"".toList, LineNum := 6 }] ∧
    (((parseDataset GoRuntime.insertionOrder badJoinDataset).run []).value?.map
        (fun ds => (ds.TableNames, ds.Joins.map (fun j => j.OTS.map (fun o => o.Table))))) =
      some (["a".toList], [["a".toList, "b".toList]]) ∧
    (ParseSML GoRuntime.insertionOrder twoDatasetsDoc []).2 = [] ∧
    (ParseSML GoRuntime.reverseOrder noOnDoc []).2 =
      [{ Msg := "no \"on\" clause for a \"join\"".toList, LineNum := 6 }] ∧
    (ParseSML GoRuntime.reverseOrder twoDatasetsDoc []).2 = [] := by
  decide!
/-! ### C8: a granularity on a column that is not a `datetime` -/

theorem forEach_ok_inv_st {β σ : Type} (body : σ → β → Parser σ)
    (Inv : σ → List ParseError → Prop) (l : List β)
    (step : ∀ b s st s1 st1, b ∈ l → Inv s st → (body s b).run st = .ok s1 st1 → Inv s1 st1)
    (s : σ) (st : List ParseError) (r : σ) (st1 : List ParseError)
    (hinv : Inv s st) (h : (forEach l s body).run st = .ok r st1) : Inv r st1 := by
  induction l generalizing s st with
  | nil =>
    rw [forEach] at h
    obtain ⟨rfl, rfl⟩ := run_pure_ok h
    exact hinv
  | cons b bs ih =>
    rw [forEach] at h
    obtain ⟨s1, st2, h1, h2⟩ := run_bind_ok h
    exact ih (fun b s st s1 st1 hb => step b s st s1 st1 (List.mem_cons_of_mem _ hb)) s1 st2
      (step b s st s1 st2 (List.mem_cons_self _ _) hinv h1) h2

theorem simpleChecked_mono (tables : GoMap Table) (errs errs1 : List ParseError)
    (s : CriteriaSimpleTerm) (h : SimpleChecked tables errs s) (hsub : errs ⊆ errs1) :
    SimpleChecked tables errs1 s := by
  intro h1 h2
  obtain ⟨line, h3⟩ := h h1 h2
  exact ⟨line, hsub h3⟩

theorem parseGranularity_ok {u : GoUnicode} (g : Generic) (tables : GoMap Table)
    (s1 s : CriteriaSimpleTerm)
    (st st1 : List ParseError) (h : (parseGranularity u g tables s1).run st = .ok s st1) :
    SimpleChecked tables st1 s := by
  unfold parseGranularity at h
  obtain ⟨_, st2, h1, h2⟩ := run_bind_ok h
  obtain ⟨values, st3, h3, h4⟩ := run_bind_ok h2
  obtain ⟨rfl, rfl⟩ := run_pure_ok h4
  intro _ hty
  refine ⟨g.line, (run_extends _ _ _ _ h3).subset ?_⟩
  exact errorIf_ok _ _ _ _ _ _ h1 (by simpa [columnType] using hty)

theorem parseSimpleCriteriaTerm_ok (rt : GoRuntime) (g : Generic) (tables : GoMap Table)
    (s : CriteriaSimpleTerm) (st st1 : List ParseError)
    (h : (parseSimpleCriteriaTerm rt g tables).run st = .ok s st1) :
    SimpleChecked tables st1 s := by
  unfold parseSimpleCriteriaTerm at h
  obtain ⟨state, _, -, h⟩ := run_bind_ok h
  obtain ⟨_, _, -, h⟩ := run_bind_ok h
  obtain ⟨_, _, -, h⟩ := run_bind_ok h
  obtain ⟨_, _, -, h⟩ := run_bind_ok h
  obtain ⟨s1, st2, -, h⟩ := run_bind_ok h
  split_ifs at h with hg
  · exact parseGranularity_ok g tables s1 s st2 st1 h
  · obtain ⟨rfl, rfl⟩ := run_pure_ok h
    exact fun h1 => absurd h1 hg
theorem first_ok {β : Type} (l : List β) (st st1 : List ParseError) (b : β)
    (h : (first l).run st = .ok b st1) : b ∈ l ∧ st1 = st := by
  cases l with
  | nil => cases h
  | cons x xs =>
    obtain ⟨rfl, rfl⟩ := run_pure_ok h
    exact ⟨List.mem_cons_self _ _, rfl⟩

mutual
theorem parseCriteria_ok (rt : GoRuntime) (tables : GoMap Table) :
    ∀ (g : Generic) (st st1 : List ParseError) (t : CriteriaTerm),
      (parseCriteria rt tables g).run st = .ok t st1 →
        ∀ s, t.HasSimple s → SimpleChecked tables st1 s
  | .mk kw value children line, st, st1, t, h => by
    unfold parseCriteria at h
    dsimp only at h
    obtain ⟨r, st2, h1, h2⟩ := run_bind_ok h
    have hr : ∀ c, r.2 = some c → ∀ s, c.HasSimple s → SimpleChecked tables st2 s := by
      refine forEach_ok_inv_st _
        (fun (state : Bool × Option CriteriaCombinationTerm) errs =>
          ∀ c, state.2 = some c → ∀ s, c.HasSimple s → SimpleChecked tables errs s)
        _ ?_ _ _ _ _ (fun c hc => by cases hc) h1
      intro k state sa state1 sb _ hinv hrun
      split_ifs at hrun with hk
      · obtain ⟨call, sc, h3, h4⟩ := run_bind_ok hrun
        obtain ⟨hmem, rfl⟩ := first_ok _ _ _ _ h3
        obtain ⟨c1, sd, h5, h6⟩ := run_bind_ok h4
        obtain ⟨rfl, rfl⟩ := run_pure_ok h6
        intro c hc
        cases hc
        exact parseCombinationChildren_ok rt tables children call (List.mem_of_mem_filter hmem)
          _ _ _ h5
      · obtain ⟨rfl, rfl⟩ := run_pure_ok hrun
        exact hinv
    obtain ⟨flag, comb⟩ := r
    dsimp only at h2 hr
    by_cases hsimple : (!flag) = true
    · rw [if_pos hsimple] at h2
      obtain ⟨s1, st3, h3, h4⟩ := run_bind_ok h2
      obtain ⟨rfl, rfl⟩ := run_pure_ok h4
      intro s hs
      cases hs with
      | ofSimple => exact parseSimpleCriteriaTerm_ok rt _ tables _ _ _ h3
      | ofCombination _ _ c hc =>
        exact simpleChecked_mono _ _ _ _ (hr c rfl s hc) (run_extends _ _ _ _ h3).subset
    · rw [if_neg hsimple] at h2
      obtain ⟨rfl, rfl⟩ := run_pure_ok h2
      intro s hs
      cases hs with
      | ofCombination _ _ c hc => exact hr c rfl s hc
theorem parseCombinationChildren_ok (rt : GoRuntime) (tables : GoMap Table) :
    ∀ (cs : List Generic) (call : Generic × Parser CriteriaCombinationTerm),
      call ∈ parseCombinationChildren rt tables cs →
        ∀ (st st1 : List ParseError) (c : CriteriaCombinationTerm),
          call.2.run st = .ok c st1 → ∀ s, c.HasSimple s → SimpleChecked tables st1 s
  | [], call, hmem => by
    simp [parseCombinationChildren] at hmem
  | g :: gs, call, hmem => by
    rw [parseCombinationChildren, List.mem_cons] at hmem
    rcases hmem with rfl | hmem
    · exact parseCombinationCriteriaTerm_ok rt tables g
    · exact parseCombinationChildren_ok rt tables gs call hmem
theorem parseCombinationCriteriaTerm_ok (rt : GoRuntime) (tables : GoMap Table) :
    ∀ (g : Generic) (st st1 : List ParseError) (c : CriteriaCombinationTerm),
      (parseCombinationCriteriaTerm rt tables g).run st = .ok c st1 →
        ∀ s, c.HasSimple s → SimpleChecked tables st1 s
  | .mk kw value children line, st, st1, c, h => by
    unfold parseCombinationCriteriaTerm at h
    dsimp only at h
    obtain ⟨terms, st2, h1, h2⟩ := run_bind_ok h
    obtain ⟨rfl, rfl⟩ := run_pure_ok h2
    have hterms : ∀ t ∈ terms, ∀ s, t.HasSimple s → SimpleChecked tables st2 s := by
      refine forEach_ok_inv_st _
        (fun (terms : List CriteriaTerm) errs =>
          ∀ t ∈ terms, ∀ s, t.HasSimple s → SimpleChecked tables errs s)
        _ ?_ _ _ _ _ (fun t ht => by cases ht) h1
      intro k terms0 sa terms1 sb _ hinv hrun
      split_ifs at hrun with hk
      · obtain ⟨_, sc, h3, h4⟩ := run_bind_ok hrun
        refine forEach_ok_inv_st _
          (fun (terms : List CriteriaTerm) errs =>
            ∀ t ∈ terms, ∀ s, t.HasSimple s → SimpleChecked tables errs s)
          _ ?_ _ _ _ _ ?_ h4
        · intro call terms2 sd terms3 se hcall hinv2 hrun2
          obtain ⟨t1, sf, h5, h6⟩ := run_bind_ok hrun2
          obtain ⟨rfl, rfl⟩ := run_pure_ok h6
          intro t ht s hs
          rcases List.mem_append.mp ht with ht1 | ht1
          · exact simpleChecked_mono _ _ _ _ (hinv2 t ht1 s hs) (run_extends _ _ _ _ h5).subset
          · rw [List.mem_singleton] at ht1
            subst ht1
            exact parseCriteriaChildren_ok rt tables children call (List.mem_of_mem_filter hcall)
              _ _ _ h5 s hs
        · intro t ht s hs
          exact simpleChecked_mono _ _ _ _ (hinv t ht s hs) (run_extends _ _ _ _ h3).subset
      · obtain ⟨rfl, rfl⟩ := run_pure_ok hrun
        exact hinv
    intro s hs
    cases hs with
    | ofTerm _ _ t ht hst => exact hterms t ht s hst
theorem parseCriteriaChildren_ok (rt : GoRuntime) (tables : GoMap Table) :
    ∀ (cs : List Generic) (call : Generic × Parser CriteriaTerm),
      call ∈ parseCriteriaChildren rt tables cs →
        ∀ (st st1 : List ParseError) (t : CriteriaTerm),
          call.2.run st = .ok t st1 → ∀ s, t.HasSimple s → SimpleChecked tables st1 s
  | [], call, hmem => by
    simp [parseCriteriaChildren] at hmem
  | g :: gs, call, hmem => by
    rw [parseCriteriaChildren, List.mem_cons] at hmem
    rcases hmem with rfl | hmem
    · exact parseCriteria_ok rt tables g
    · exact parseCriteriaChildren_ok rt tables gs call hmem
end
theorem parseSchemeChild_ok (rt : GoRuntime) (g : Generic) (tables : GoMap Table)
    (state state1 : Scheme × Bool) (entry : Keyword × List Generic) (st st1 : List ParseError)
    (hinv : ∀ cname term s, state.1.Criteria.get? cname = some term → term.HasSimple s →
      SimpleChecked tables st s)
    (h : (parseSchemeChild rt g tables state entry).run st = .ok state1 st1) :
    ∀ cname term s, state1.1.Criteria.get? cname = some term → term.HasSimple s →
      SimpleChecked tables st1 s := by
  have hmono : ∀ st2, st <+: st2 → ∀ cname term s,
      state.1.Criteria.get? cname = some term → term.HasSimple s →
        SimpleChecked tables st2 s :=
    fun st2 hp cname term s h1 h2 => simpleChecked_mono _ _ _ _ (hinv cname term s h1 h2) hp.subset
  have hext := run_extends _ _ _ _ h
  unfold parseSchemeChild at h
  dsimp only at h
  split_ifs at h with h1 h2 h3 h4
  · obtain ⟨_, _, -, h⟩ := run_bind_ok h
    obtain ⟨rfl, rfl⟩ := run_pure_ok h
    exact hmono _ hext
  · obtain ⟨_, _, -, h⟩ := run_bind_ok h
    obtain ⟨rfl, rfl⟩ := run_pure_ok h
    exact hmono _ hext
  · obtain ⟨_, _, -, h⟩ := run_bind_ok h
    obtain ⟨rfl, rfl⟩ := run_pure_ok h
    exact hmono _ hext
  · obtain ⟨s1, st2, h5, h⟩ := run_bind_ok h
    obtain ⟨rfl, rfl⟩ := run_pure_ok h
    refine forEach_ok_inv_st _
      (fun (sch : Scheme) errs => ∀ cname term s, sch.Criteria.get? cname = some term →
        term.HasSimple s → SimpleChecked tables errs s)
      _ ?_ _ _ _ _ hinv h5
    intro child sch sa sch1 sb _ hinv1 hrun
    obtain ⟨term1, sc, h6, h7⟩ := run_bind_ok hrun
    obtain ⟨rfl, rfl⟩ := run_pure_ok h7
    intro cname term s hget hs
    dsimp only at hget
    rw [GoMap.get?_set] at hget
    split_ifs at hget with hname
    · cases hget
      exact parseCriteria_ok rt tables child _ _ _ h6 s hs
    · exact simpleChecked_mono _ _ _ _ (hinv1 cname term s hget hs) (run_extends _ _ _ _ h6).subset
  · obtain ⟨_, _, -, h⟩ := run_bind_ok h
    obtain ⟨rfl, rfl⟩ := run_pure_ok h
    exact hmono _ hext

theorem parseScheme_ok (rt : GoRuntime) (g : Generic) (tables : GoMap Table) (scheme : Scheme)
    (st st1 : List ParseError) (h : (parseScheme rt g tables).run st = .ok scheme st1) :
    ∀ cname term s, scheme.Criteria.get? cname = some term → term.HasSimple s →
      SimpleChecked tables st1 s := by
  unfold parseScheme at h
  obtain ⟨_, _, -, h⟩ := run_bind_ok h
  obtain ⟨_, st2, -, h⟩ := run_bind_ok h
  obtain ⟨r, st3, h1, h⟩ := run_bind_ok h
  obtain ⟨_, st4, h2, h⟩ := run_bind_ok h
  obtain ⟨rfl, rfl⟩ := run_pure_ok h
  have h3 : ∀ cname term s, r.1.Criteria.get? cname = some term → term.HasSimple s →
      SimpleChecked tables st3 s := by
    refine forEach_ok_inv_st _
      (fun (state : Scheme × Bool) errs => ∀ cname term s,
        state.1.Criteria.get? cname = some term → term.HasSimple s →
          SimpleChecked tables errs s)
      _ ?_ _ _ _ _ ?_ h1
    · intro entry state sa state1 sb _ hinv hrun
      exact parseSchemeChild_ok rt g tables state state1 entry sa sb hinv hrun
    · intro cname term s hget
      simp [GoMap.get?] at hget
  intro cname term s hget hs
  exact simpleChecked_mono _ _ _ _ (h3 cname term s hget hs) (run_extends _ _ _ _ h2).subset

theorem granularityChecked_mono (w : Project) (errs errs1 : List ParseError)
    (h : w.GranularityChecked errs) (hsub : errs ⊆ errs1) : w.GranularityChecked errs1 :=
  fun sname scheme cname term s h1 h2 h3 =>
    simpleChecked_mono _ _ _ _ (h sname scheme cname term s h1 h2 h3) hsub

theorem parseSchemes_ok (rt : GoRuntime) (g : Generic) (w w1 : Project)
    (st st1 : List ParseError) (hinv : w.GranularityChecked st)
    (h : (parseSchemes rt g w).run st = .ok w1 st1) : w1.GranularityChecked st1 := by
  unfold parseSchemes at h
  refine forEach_ok_inv_st _ (fun (p : Project) errs => p.GranularityChecked errs)
    _ ?_ _ _ _ _ hinv h
  intro node p sa p1 sb _ hp hrun
  obtain ⟨scheme1, sc, h1, h2⟩ := run_bind_ok hrun
  obtain ⟨rfl, rfl⟩ := run_pure_ok h2
  intro sname scheme cname term s hget hc hs
  dsimp only at hget
  rw [GoMap.get?_set] at hget
  split_ifs at hget with hname
  · cases hget
    exact parseScheme_ok rt node p.Tables _ _ _ h1 cname term s hc hs
  · exact simpleChecked_mono _ _ _ _ (hp sname scheme cname term s hget hc hs)
      (run_extends _ _ _ _ h1).subset
theorem parseProjectChild_schemes (rt : GoRuntime) (g : Generic) (state state1 : Project × Bool)
    (entry : Keyword × List Generic) (st st1 : List ParseError)
    (h : (parseProjectChild rt g state entry).run st = .ok state1 st1) :
    state1.1.Schemes = state.1.Schemes := by
  unfold parseProjectChild at h
  dsimp only at h
  split_ifs at h with h1 h2 h3
  · obtain ⟨w, st2, h4, h⟩ := run_bind_ok h
    obtain ⟨rfl, rfl⟩ := run_pure_ok h
    refine forEach_ok_inv_st _ (fun (p : Project) _ => p.Schemes = state.1.Schemes)
      _ ?_ _ _ _ _ rfl h4
    intro child p sa p1 sb _ hp hrun
    obtain ⟨table, sc, -, h5⟩ := run_bind_ok hrun
    split_ifs at h5
    · obtain ⟨rfl, rfl⟩ := run_pure_ok h5
      exact hp
    · obtain ⟨rfl, rfl⟩ := run_pure_ok h5
      exact hp
  · obtain ⟨w, st2, h4, h⟩ := run_bind_ok h
    obtain ⟨rfl, rfl⟩ := run_pure_ok h
    refine forEach_ok_inv_st _ (fun (p : Project) _ => p.Schemes = state.1.Schemes)
      _ ?_ _ _ _ _ rfl h4
    intro child p sa p1 sb _ hp hrun
    obtain ⟨ds, sc, -, h5⟩ := run_bind_ok hrun
    obtain ⟨rfl, rfl⟩ := run_pure_ok h5
    exact hp
  · obtain ⟨rfl, rfl⟩ := run_pure_ok h
    rfl
  · obtain ⟨_, _, -, h⟩ := run_bind_ok h
    obtain ⟨rfl, rfl⟩ := run_pure_ok h
    rfl

theorem parseProject_granularity (rt : GoRuntime) (g : Generic) (w : Project)
    (st st1 : List ParseError) (h : (parseProject rt g).run st = .ok w st1) :
    w.GranularityChecked st1 := by
  unfold parseProject at h
  obtain ⟨_, _, -, h⟩ := run_bind_ok h
  obtain ⟨_, _, -, h⟩ := run_bind_ok h
  obtain ⟨r, st2, h1, h⟩ := run_bind_ok h
  obtain ⟨w0, st3, h2, h⟩ := run_bind_ok h
  obtain ⟨rfl, -⟩ := validateProject_ok rt g w0 w _ _ h
  have h3 : r.1.Schemes = [] :=
    forEach_ok_inv_st _ (fun (state : Project × Bool) _ => state.1.Schemes = [])
      _ (fun entry state sa state1 sb _ hs hrun =>
        (parseProjectChild_schemes rt g state state1 entry sa sb hrun).trans hs)
      _ _ _ _ rfl h1
  have h4 : r.1.GranularityChecked st2 := by
    intro sname scheme cname term s hget
    rw [h3] at hget
    simp [GoMap.get?] at hget
  refine granularityChecked_mono _ _ _ ?_ (run_extends _ _ _ _ h).subset
  split_ifs at h2
  · exact parseSchemes_ok rt g r.1 w _ _ h4 h2
  · obtain ⟨rfl, rfl⟩ := run_pure_ok h2
    exact h4

theorem granularityChecked_zero (errs : List ParseError) :
    ({} : Project).GranularityChecked errs := by
  intro sname scheme cname term s hget
  simp [GoMap.get?] at hget

theorem finishParseSML_granularity (rt : GoRuntime) (w : Project) (errs : List ParseError)
    (token : Token) (h : w.GranularityChecked errs) :
    (finishParseSML rt w errs token).1.GranularityChecked (finishParseSML rt w errs token).2 := by
  unfold finishParseSML
  dsimp only
  split_ifs
  all_goals exact granularityChecked_mono _ _ _ h (by intro e he; simp [he])

theorem ParseSML_granularityChecked (rt : GoRuntime) (input projectName : Str) :
    (ParseSML rt input projectName).1.GranularityChecked (ParseSML rt input projectName).2 := by
  unfold ParseSML
  dsimp only
  by_cases h1 : (recv (startLex input smlKeywords)).1.kw = kwError
  · rw [if_pos h1]
    exact granularityChecked_zero _
  rw [if_neg h1]
  by_cases h2 : (recv (startLex input smlKeywords)).1.kw = kwEOF
  · rw [if_pos h2]
    exact finishParseSML_granularity _ _ _ _ (granularityChecked_zero _)
  rw [if_neg h2]
  by_cases h3 : (recv (startLex input smlKeywords)).1.kw = skwProject
  swap
  · rw [if_neg h3]
    exact granularityChecked_zero _
  rw [if_pos h3]
  split_ifs with h4 h5
  · exact granularityChecked_zero _
  · exact granularityChecked_zero _
  · cases hrun : (parseProject rt (parseGeneric (parseGenericFuel (recv (startLex input
        smlKeywords)).2) (recv (startLex input smlKeywords)).2
        (recv (startLex input smlKeywords)).1).g).run [] with
    | ok project errs =>
      exact finishParseSML_granularity _ _ _ _ (parseProject_granularity rt _ project [] errs hrun)
    | panicErrors pe => exact granularityChecked_zero _
    | panicRuntime msg => exact granularityChecked_zero _
  · cases hrun : (parseProject rt (parseGeneric (parseGenericFuel (recv (startLex input
        smlKeywords)).2) (recv (startLex input smlKeywords)).2
        (recv (startLex input smlKeywords)).1).g).run [] with
    | ok project errs =>
      exact finishParseSML_granularity _ _ _ _ (parseProject_granularity rt _ project [] errs hrun)
    | panicErrors pe => exact granularityChecked_zero _
    | panicRuntime msg => exact granularityChecked_zero _
theorem eq_some_getD {α : Type} (o : Option α) (d : α) (h : o.isSome = true) :
    o = some (o.getD d) := by
  cases o with
  | none => cases h
  | some a => rfl

theorem hasSimple_of_simpleTerm (t : CriteriaTerm) (s : CriteriaSimpleTerm)
    (h : t.SimpleTerm = some s) : t.HasSimple s := by
  cases t with
  | mk name simple comb =>
    simp only [CriteriaTerm.SimpleTerm] at h
    subst h
    exact CriteriaTerm.HasSimple.ofSimple name comb

/-- C8 (amended): for every simple criteria term of a scheme of the project
`ParseSML` returns, at any depth of a criteria, whose `Granularity` is not
empty and that refers to a column whose data type `T` in the tables of that
project is not `datetime` (`T` is empty when there is no such table or
column), the error list `ParseSML` returns has the error
`can not have granularity with the data type T`. -/
theorem ParseSML_granularity (rt : GoRuntime) (input projectName sname cname : Str)
    (scheme : Scheme) (term : CriteriaTerm) (s : CriteriaSimpleTerm)
    (hscheme : (ParseSML rt input projectName).1.Schemes.get? sname = some scheme)
    (hterm : scheme.Criteria.get? cname = some term) (hs : term.HasSimple s)
    (hgran : s.Granularity ≠ [])
    (htype : columnType (ParseSML rt input projectName).1.Tables s ≠ "datetime".toList) :
    ∃ line,
      { Msg := "can not have granularity with the data type ".toList ++
          columnType (ParseSML rt input projectName).1.Tables s,
        LineNum := line } ∈ (ParseSML rt input projectName).2 :=
  ParseSML_granularityChecked rt input projectName sname scheme cname term s hscheme hterm hs
    hgran htype

set_option maxRecDepth 1000000 in
/-- The document `stringGranularityDoc`: the simple term of its criteria `c`
has the granularity `year` on a column of the type `string`, and the only
error is the one for it, at the line of the criteria. -/
theorem ParseSML_granularity_witness :
    (∃ line,
      { Msg := "can not have granularity with the data type ".toList ++ "string".toList,
        LineNum := line } ∈ (ParseSML GoRuntime.insertionOrder stringGranularityDoc []).2) ∧
    (ParseSML GoRuntime.insertionOrder stringGranularityDoc []).2 =
      [{ Msg := "can not have granularity with the data type string".toList, LineNum := 7 }] := by
  have h1 : ((ParseSML GoRuntime.insertionOrder stringGranularityDoc []).1.Schemes.get?
      "s".toList).isSome = true := by decide!
  have h2 : ((((ParseSML GoRuntime.insertionOrder stringGranularityDoc []).1.Schemes.get?
      "s".toList).getD {}).Criteria.get? "c".toList).isSome = true := by decide!
  have h3 : (((((ParseSML GoRuntime.insertionOrder stringGranularityDoc []).1.Schemes.get?
      "s".toList).getD {}).Criteria.get? "c".toList).getD (.mk [] none none)).SimpleTerm =
        some { Column := "i".toList, Table := "f".toList, Operator := "in".toList,
               Granularity := "year".toList, Value := [.int 1, .int 2] } := by decide!
  have h4 : columnType (ParseSML GoRuntime.insertionOrder stringGranularityDoc []).1.Tables
      { Column := "i".toList, Table := "f".toList, Operator := "in".toList,
        Granularity := "year".toList, Value := [.int 1, .int 2] } = "string".toList := by
    decide!
  have h5 := eq_some_getD _ ({} : Scheme) h1
  have h6 := eq_some_getD _ (CriteriaTerm.mk [] none none) h2
  have h7 := hasSimple_of_simpleTerm _ _ h3
  have h8 : (CriteriaSimpleTerm.mk "i".toList "f".toList "in".toList "year".toList
      [.int 1, .int 2]).Granularity ≠ [] := by decide
  have h9 : columnType (ParseSML GoRuntime.insertionOrder stringGranularityDoc []).1.Tables
      { Column := "i".toList, Table := "f".toList, Operator := "in".toList,
        Granularity := "year".toList, Value := [.int 1, .int 2] } ≠ "datetime".toList := by
    rw [h4]
    decide
  have h := ParseSML_granularity GoRuntime.insertionOrder stringGranularityDoc [] "s".toList
    "c".toList _ _ _ h5 h6 h7 h8 h9
  rw [h4] at h
  exact ⟨h, by decide!⟩

set_option maxRecDepth 1000000 in
/-- C8 fails as stated.  In `intGranularityDoc` the criteria has
`granularity year` on a column of the type `int` and the values `1` and `2`:
the type assertion `v.(string)` panics on the first value, and `ParseSML`
returns the error of the recovered panic only.  In `brokenGranularityDoc`
the column is of the type `string`, and a line with an unknown keyword ends
the parse before the criteria is looked at.  In `emptyGranularityDoc` the
line `granularity` has no value, which is taken as no granularity.  All hold
whether the maps are visited in the order of insertion or in the reverse
order. -/
theorem ParseSML_granularity_counterexample :
    (ParseSML GoRuntime.insertionOrder intGranularityDoc []).2 =
      [{ Msg := "unknown error: interface conversion: interface {} is int, not string".toList,
         LineNum := -1 }] ∧
    (ParseSML GoRuntime.reverseOrder intGranularityDoc []).2 =
      [{ Msg := "unknown error: interface conversion: interface {} is int, not string".toList,
         LineNum := -1 }] ∧
    (ParseSML GoRuntime.insertionOrder brokenGranularityDoc []).2 =
      [{ Msg := "error at position 2: unknown keyword: node".toList, LineNum := 13 }] ∧
    (ParseSML GoRuntime.reverseOrder brokenGranularityDoc []).2 =
      [{ Msg := "error at position 2: unknown keyword: node".toList, LineNum := 13 }] ∧
    (ParseSML GoRuntime.insertionOrder emptyGranularityDoc []).2 = [] ∧
    (ParseSML GoRuntime.reverseOrder emptyGranularityDoc []).2 = [] := by
  decide!
/-! ### C9: the decorator of a join -/

set_option maxHeartbeats 4000000 in
set_option maxRecDepth 1000000 in
/-- C9: for a join node with the value `oneToMany t1 <-> t2` and a single
`on` child, or a single `sql` child, with the condition
`t1.a = t2.b AND t1.c = t2.d`, `parseJoin` returns `OneTable = "t1"` and
`OneColumns = ["a", "c"]`, in that order, and records no error, whatever the
lines of the nodes, the errors recorded before and the order in which the
maps are visited; with `manyToOne` instead it returns `OneTable = "t2"` and
`OneColumns = ["b", "d"]`. -/
theorem parseJoin_decorator (rt : GoRuntime) (line cline : Int) (st : List ParseError) :
    (parseJoin rt (joinNode "oneToMany t1 <-> t2".toList skwOn line cline)).run st =
      .ok { OneTable := "t1".toList, OneColumns := ["a".toList, "c".toList],
            OTS := joinNodeOTS } st ∧
    (parseJoin rt (joinNode "oneToMany t1 <-> t2".toList skwSQL line cline)).run st =
      .ok { OneTable := "t1".toList, OneColumns := ["a".toList, "c".toList],
            OTS := joinNodeOTS } st ∧
    (parseJoin rt (joinNode "manyToOne t1 <-> t2".toList skwOn line cline)).run st =
      .ok { OneTable := "t2".toList, OneColumns := ["b".toList, "d".toList],
            OTS := joinNodeOTS } st ∧
    (parseJoin rt (joinNode "manyToOne t1 <-> t2".toList skwSQL line cline)).run st =
      .ok { OneTable := "t2".toList, OneColumns := ["b".toList, "d".toList],
            OTS := joinNodeOTS } st := by
  rw [← GoRuntime.fixSmall_eq rt]
  exact ⟨rfl, rfl, rfl, rfl⟩
/-! ### C10: the project name given to `ParseSML` -/

theorem finishParseSML_name (rt : GoRuntime) (w : Project) (name : Str)
    (errs : List ParseError) (token : Token) :
    finishParseSML rt { w with Name := name } errs token =
      ({ (finishParseSML rt w errs token).1 with Name := name },
        (finishParseSML rt w errs token).2) := by
  unfold finishParseSML
  dsimp only
  split_ifs <;> rfl

theorem finishParseSML_zero_name (rt : GoRuntime) (errs : List ParseError) (token : Token) :
    (finishParseSML rt {} errs token).1.Name = [] := by
  unfold finishParseSML
  dsimp only
  split_ifs <;> rfl

/-- C10 (amended): for every input and every non-empty `projectName`, and
the same order of the visits of the maps in both runs,
`ParseSML(input, projectName)` returns the same error list as
`ParseSML(input, "")` and a Project with the same `TableNames`, `Tables`,
`Datasets` and `Schemes`; its `Name` is `projectName` when the parse reaches
the override of the name, that is, when the root is a project,
`parseGeneric` and `findIndentationErrors` give no error and `parseProject`
returns, and it is empty otherwise. -/
theorem ParseSML_projectName (rt : GoRuntime) (input projectName : Str)
    (hname : projectName ≠ []) :
    (ParseSML rt input projectName).2 = (ParseSML rt input []).2 ∧
    (ParseSML rt input projectName).1.TableNames = (ParseSML rt input []).1.TableNames ∧
    (ParseSML rt input projectName).1.Tables = (ParseSML rt input []).1.Tables ∧
    (ParseSML rt input projectName).1.Datasets = (ParseSML rt input []).1.Datasets ∧
    (ParseSML rt input projectName).1.Schemes = (ParseSML rt input []).1.Schemes ∧
    (ParseSML rt input projectName).1.Name =
      if reachesNameOverride rt input = true then projectName else [] := by
  unfold ParseSML reachesNameOverride
  dsimp only
  by_cases h1 : (recv (startLex input smlKeywords)).1.kw = kwError
  · have h1a : (recv (startLex input smlKeywords)).1.kw ≠ skwProject := by
      rw [h1]; decide
    simp only [if_pos h1, h1a, decide_False, Bool.false_and, Bool.false_eq_true, ↓reduceIte,
      and_self]
  rw [if_neg h1, if_neg h1]
  by_cases h2 : (recv (startLex input smlKeywords)).1.kw = kwEOF
  · have h2a : (recv (startLex input smlKeywords)).1.kw ≠ skwProject := by
      rw [h2]; decide
    simp only [if_pos h2, h2a, decide_False, Bool.false_and, Bool.false_eq_true, ↓reduceIte,
      finishParseSML_zero_name, and_self]
  rw [if_neg h2, if_neg h2]
  by_cases h3 : (recv (startLex input smlKeywords)).1.kw = skwProject
  swap
  · simp only [if_neg h3, h3, decide_False, Bool.false_and, Bool.false_eq_true, ↓reduceIte,
      and_self]
  rw [if_pos h3, if_pos h3]
  by_cases h4 : (parseGeneric (parseGenericFuel (recv (startLex input smlKeywords)).2)
      (recv (startLex input smlKeywords)).2
      (recv (startLex input smlKeywords)).1).parseErrors.length > 0
  · have h4a : ¬ (parseGeneric (parseGenericFuel (recv (startLex input smlKeywords)).2)
        (recv (startLex input smlKeywords)).2
        (recv (startLex input smlKeywords)).1).parseErrors.length = 0 := by omega
    simp only [if_pos h4, h4a, decide_False, Bool.false_and, Bool.and_false,
      Bool.false_eq_true, ↓reduceIte, and_self]
  rw [if_neg h4, if_neg h4]
  have h4a : (parseGeneric (parseGenericFuel (recv (startLex input smlKeywords)).2)
      (recv (startLex input smlKeywords)).2
      (recv (startLex input smlKeywords)).1).parseErrors.length = 0 := by omega
  by_cases h5 : (findIndentationErrors rt (parseGeneric (parseGenericFuel (recv (startLex input
      smlKeywords)).2) (recv (startLex input smlKeywords)).2
      (recv (startLex input smlKeywords)).1).g smlKwTree smlKeywords).length > 0
  · have h5a : ¬ (findIndentationErrors rt (parseGeneric (parseGenericFuel (recv (startLex input
        smlKeywords)).2) (recv (startLex input smlKeywords)).2
        (recv (startLex input smlKeywords)).1).g smlKwTree smlKeywords).length = 0 := by omega
    simp only [if_pos h5, h5a, decide_False, Bool.false_and, Bool.and_false,
      Bool.false_eq_true, ↓reduceIte, and_self]
  rw [if_neg h5, if_neg h5]
  have h5a : (findIndentationErrors rt (parseGeneric (parseGenericFuel (recv (startLex input
      smlKeywords)).2) (recv (startLex input smlKeywords)).2
      (recv (startLex input smlKeywords)).1).g smlKwTree smlKeywords).length = 0 := by omega
  simp only [h3, h4a, h5a, decide_True, Bool.true_and]
  cases (parseProject rt (parseGeneric (parseGenericFuel (recv (startLex input
      smlKeywords)).2) (recv (startLex input smlKeywords)).2
      (recv (startLex input smlKeywords)).1).g).run [] with
  | ok project errs =>
    simp only [if_pos hname, ne_eq, not_true_eq_false, ↓reduceIte, finishParseSML_name,
      Outcome.returns, and_self]
  | panicErrors pe => simp only [Outcome.returns, Bool.false_eq_true, ↓reduceIte, and_self]
  | panicRuntime msg => simp only [Outcome.returns, Bool.false_eq_true, ↓reduceIte, and_self]

set_option maxRecDepth 1000000 in
/-- The document of `TestParse1` with the project name `x`: the parse
reaches the override, and the name of the project returned is `x`. -/
theorem ParseSML_projectName_witness :
    "x".toList ≠ [] ∧ reachesNameOverride GoRuntime.insertionOrder testParse1Input = true ∧
    (ParseSML GoRuntime.insertionOrder testParse1Input "x".toList).1.Name = "x".toList ∧
    (ParseSML GoRuntime.insertionOrder testParse1Input "x".toList).2 =
      (ParseSML GoRuntime.insertionOrder testParse1Input []).2 ∧
    (ParseSML GoRuntime.insertionOrder testParse1Input "x".toList).1.TableNames =
      (ParseSML GoRuntime.insertionOrder testParse1Input []).1.TableNames ∧
    (ParseSML GoRuntime.insertionOrder testParse1Input "x".toList).1.Tables =
      (ParseSML GoRuntime.insertionOrder testParse1Input []).1.Tables ∧
    (ParseSML GoRuntime.insertionOrder testParse1Input "x".toList).1.Datasets =
      (ParseSML GoRuntime.insertionOrder testParse1Input []).1.Datasets ∧
    (ParseSML GoRuntime.insertionOrder testParse1Input "x".toList).1.Schemes =
      (ParseSML GoRuntime.insertionOrder testParse1Input []).1.Schemes ∧
    (ParseSML GoRuntime.insertionOrder testParse1Input "x".toList).1.Name =
      if reachesNameOverride GoRuntime.insertionOrder testParse1Input = true then "x".toList
      else [] :=
  ⟨by decide, by decide!, by decide!,
    ParseSML_projectName GoRuntime.insertionOrder testParse1Input "x".toList (by decide)⟩

set_option maxRecDepth 1000000 in
/-- C10 fails as stated.  The document of `TestParse0`,
`"\nproject blah\n  node foo"`, has a project as its root, but `ParseSML`
returns at the error of `parseGeneric`, before it sets the name: the Project
returned for the project name `x` has an empty `Name`.  The same holds for
`noOnDoc`, where `parseProject` panics. -/
theorem ParseSML_projectName_counterexample :
    (recv (startLex "\nproject blah\n  node foo".toList smlKeywords)).1.kw = skwProject ∧
    (ParseSML GoRuntime.insertionOrder "\nproject blah\n  node foo".toList "x".toList).1.Name =
      [] ∧
    (ParseSML GoRuntime.reverseOrder "\nproject blah\n  node foo".toList "x".toList).1.Name =
      [] ∧
    (recv (startLex noOnDoc smlKeywords)).1.kw = skwProject ∧
    (ParseSML GoRuntime.insertionOrder noOnDoc "x".toList).1.Name = [] ∧
    (ParseSML GoRuntime.reverseOrder noOnDoc "x".toList).1.Name = [] := by
  decide!
/-! ### C15, C16: the rounds of the lexer -/

theorem lookupKeyword_mem (m : List (Str × Keyword)) (s : Str) (kw : Keyword)
    (h : lookupKeyword m s = some kw) : (s, kw) ∈ m := by
  induction m with
  | nil => cases h
  | cons e m ih =>
    obtain ⟨k, v⟩ := e
    simp only [lookupKeyword] at h
    split_ifs at h with hk
    · cases h
      subst hk
      exact List.mem_cons_self _ _
    · exact List.mem_cons_of_mem _ (ih h)

theorem lexTrailer_next (lineNum : Nat) (line : Str) (pos indent : Nat) (kw : Keyword)
    (value : Str) :
    ∃ tok, lexTrailer lineNum line pos indent kw value = .next (some tok) (lineNum + 1) ∧
      (tok.kw = kw ∨ tok.kw = kwError) := by
  unfold lexTrailer
  dsimp only
  split_ifs
  · exact ⟨_, rfl, Or.inl rfl⟩
  · exact ⟨_, rfl, Or.inr rfl⟩
  · exact ⟨_, rfl, Or.inl rfl⟩

theorem lexValue_cases (lineNum : Nat) (line : Str) (rest : List Str) (pos indent : Nat)
    (kw : Keyword) :
    (∃ tok next, lexValue lineNum line rest pos indent kw = .next (some tok) next ∧
      lineNum < next ∧ (tok.kw = kw ∨ tok.kw = kwError)) ∨
    lexValue lineNum line rest pos indent kw =
      .stop (errorToken lineNum (-1) "multiline string not terminated".toList) ∨
    ∃ p : Nat, lexValue lineNum line rest pos indent kw =
      .stop (errorToken lineNum p "string not terminated".toList) := by
  unfold lexValue
  dsimp only
  split_ifs with h1 h2 h3
  · cases hm : multilineString (pos + ((line.drop pos).takeWhile isSpace).length + 3)
      (line :: rest) with
    | none => exact Or.inr (Or.inl rfl)
    | some r =>
      obtain ⟨newPos, linesConsumed, value⟩ := r
      obtain ⟨tok, h4, h5⟩ := lexTrailer_next (lineNum + linesConsumed)
        ((line :: rest).getD linesConsumed []) newPos indent kw value
      exact Or.inl ⟨tok, _, h4, by omega, h5⟩
  · cases hq : quotedLoop (line.getD (pos + ((line.drop pos).takeWhile isSpace).length) ' ')
      line line.length (pos + ((line.drop pos).takeWhile isSpace).length + 1) [] with
    | none => exact Or.inr (Or.inr ⟨_, rfl⟩)
    | some r =>
      obtain ⟨i, value⟩ := r
      obtain ⟨tok, h4, h5⟩ := lexTrailer_next lineNum line (i + 1) indent kw value
      exact Or.inl ⟨tok, _, h4, by omega, h5⟩
  · obtain ⟨tok, h4, h5⟩ := lexTrailer_next lineNum line _ indent kw _
    exact Or.inl ⟨tok, _, h4, by omega, h5⟩
  · obtain ⟨tok, h4, h5⟩ := lexTrailer_next lineNum line _ indent kw []
    exact Or.inl ⟨tok, _, h4, by omega, h5⟩

theorem lexLine_cases (string2keyword : List (Str × Keyword)) (lineNum : Nat) (line : Str)
    (rest : List Str) :
    lexLine string2keyword lineNum line rest = .next none (lineNum + 1) ∨
    (∃ tok next, lexLine string2keyword lineNum line rest = .next (some tok) next ∧
      lineNum < next ∧
      (tok.kw = kwError ∨ ∃ e ∈ string2keyword ++ linglingKeywords, tok.kw = e.2)) ∨
    lexLine string2keyword lineNum line rest =
      .stop (errorToken lineNum (-1) "multiline string not terminated".toList) ∨
    ∃ p : Nat, lexLine string2keyword lineNum line rest =
      .stop (errorToken lineNum p "string not terminated".toList) := by
  have hv : ∀ pos indent kw, (∃ e ∈ string2keyword ++ linglingKeywords, kw = e.2) →
      ((∃ tok next, lexValue lineNum line rest pos indent kw = .next (some tok) next ∧
        lineNum < next ∧
        (tok.kw = kwError ∨ ∃ e ∈ string2keyword ++ linglingKeywords, tok.kw = e.2)) ∨
      lexValue lineNum line rest pos indent kw =
        .stop (errorToken lineNum (-1) "multiline string not terminated".toList) ∨
      ∃ p : Nat, lexValue lineNum line rest pos indent kw =
        .stop (errorToken lineNum p "string not terminated".toList)) := by
    intro pos indent kw hkw
    rcases lexValue_cases lineNum line rest pos indent kw with ⟨tok, next, h1, h2, h3⟩ | h | h
    · refine Or.inl ⟨tok, next, h1, h2, ?_⟩
      rcases h3 with h3 | h3
      · exact Or.inr (by rw [h3]; exact hkw)
      · exact Or.inl h3
    · exact Or.inr (Or.inl h)
    · exact Or.inr (Or.inr h)
  unfold lexLine
  dsimp only
  split_ifs with h1 h2
  · exact Or.inl rfl
  · exact Or.inr (Or.inl ⟨_, _, rfl, by omega, Or.inl rfl⟩)
  · cases hk : lookupKeyword string2keyword ((line.drop (measureIndent line).1).take
      ((measureIndent line).1 + 1 + ((line.drop ((measureIndent line).1 + 1)).takeWhile
        isAlphaNumeric).length - (measureIndent line).1)) with
    | some kw =>
      exact Or.inr (hv _ _ kw ⟨_, List.mem_append_left _ (lookupKeyword_mem _ _ _ hk), rfl⟩)
    | none =>
      cases hk2 : lookupKeyword linglingKeywords ((line.drop (measureIndent line).1).take
        ((measureIndent line).1 + 1 + ((line.drop ((measureIndent line).1 + 1)).takeWhile
          isAlphaNumeric).length - (measureIndent line).1)) with
      | some kw =>
        exact Or.inr (hv _ _ kw ⟨_, List.mem_append_right _ (lookupKeyword_mem _ _ _ hk2), rfl⟩)
      | none => exact Or.inr (Or.inl ⟨_, _, rfl, by omega, Or.inl rfl⟩)
theorem runLexerLoop_eof (string2keyword : List (Str × Keyword))
    (hkw : ∀ e ∈ string2keyword, e.2 ≠ kwEOF) (lines : List Str) (fuel lineNum : Nat) :
    ∃ toks last, runLexerLoop string2keyword lines fuel lineNum = toks ++ [last] ∧
      last.kw = kwEOF ∧ last.indent = -1 ∧ ∀ t ∈ toks, t.kw ≠ kwEOF := by
  have hling : ∀ e ∈ linglingKeywords, e.2 ≠ kwEOF := by decide
  have hall : ∀ e ∈ string2keyword ++ linglingKeywords, e.2 ≠ kwEOF := by
    intro e he
    rcases List.mem_append.mp he with h | h
    · exact hkw e h
    · exact hling e h
  induction fuel generalizing lineNum with
  | zero => exact ⟨[], eofToken lineNum, rfl, rfl, rfl, by simp⟩
  | succ fuel ih =>
    rw [runLexerLoop]
    cases hd : lines.drop lineNum with
    | nil => exact ⟨[], eofToken lineNum, rfl, rfl, rfl, by simp⟩
    | cons line rest =>
      dsimp only
      rcases lexLine_cases string2keyword lineNum line rest with
        h | ⟨tok, next, h, -, h1⟩ | h | ⟨p, h⟩
      · rw [h]
        obtain ⟨toks, last, h2, h3, h4, h5⟩ := ih (lineNum + 1)
        exact ⟨toks, last, by simpa using h2, h3, h4, h5⟩
      · rw [h]
        obtain ⟨toks, last, h2, h3, h4, h5⟩ := ih next
        refine ⟨tok :: toks, last, by simp [h2], h3, h4, ?_⟩
        intro t ht
        rcases List.mem_cons.mp ht with rfl | ht
        · rcases h1 with h1 | ⟨e, he, h1⟩
          · rw [h1]; decide
          · rw [h1]; exact hall e he
        · exact h5 t ht
      · rw [h]
        exact ⟨[_], eofToken lineNum, rfl, rfl, rfl, by simp [errorToken, kwError, kwEOF]⟩
      · rw [h]
        exact ⟨[_], eofToken lineNum, rfl, rfl, rfl, by simp [errorToken, kwError, kwEOF]⟩

/-- C15: for every input and every keyword table that does not hold the
keyword End-of-input (as `smlKeywords`, the table of every call in the
package), the tokens `runLexer` sends are some tokens that are not
End-of-input followed by one End-of-input token, whose indent is -1; an
input whose lexing stops on an unterminated string is no exception. -/
theorem runLexer_one_eof (input : Str) (string2keyword : List (Str × Keyword))
    (hkw : ∀ e ∈ string2keyword, e.2 ≠ kwEOF) :
    ∃ toks last, runLexer input string2keyword = toks ++ [last] ∧
      last.kw = kwEOF ∧ last.indent = -1 ∧ ∀ t ∈ toks, t.kw ≠ kwEOF :=
  runLexerLoop_eof string2keyword hkw _ _ _

/-- The table `smlKeywords` and an input whose second line has an
unterminated string: the only tokens are that of the first line, the error
and End-of-input. -/
theorem runLexer_one_eof_witness :
    (∀ e ∈ smlKeywords, e.2 ≠ kwEOF) ∧
    (∃ toks last, runLexer "project p\n\tsql \"abc\n\ttable t".toList smlKeywords =
        toks ++ [last] ∧ last.kw = kwEOF ∧ last.indent = -1 ∧ ∀ t ∈ toks, t.kw ≠ kwEOF) ∧
    runLexer "project p\n\tsql \"abc\n\ttable t".toList smlKeywords =
      [{ indent := 0, kw := skwProject, value := "p".toList, line := 1 },
       { indent := -1, kw := kwError,
         value := "error at position 6: string not terminated".toList, line := 2 },
       { indent := -1, kw := kwEOF, value := [], line := 2 }] :=
  ⟨by decide,
    runLexer_one_eof "project p\n\tsql \"abc\n\ttable t".toList smlKeywords (by decide),
    by decide⟩
theorem lexLine_next_lt (string2keyword : List (Str × Keyword)) (lineNum : Nat) (line : Str)
    (rest : List Str) (tok : Option Token) (next : Nat)
    (h : lexLine string2keyword lineNum line rest = .next tok next) : lineNum < next := by
  rcases lexLine_cases string2keyword lineNum line rest with
    h1 | ⟨tok1, next1, h1, h2, -⟩ | h1 | ⟨p, h1⟩
  · rw [h1] at h
    cases h
    omega
  · rw [h1] at h
    cases h
    exact h2
  · rw [h1] at h
    cases h
  · rw [h1] at h
    cases h

theorem lexLine_stop (string2keyword : List (Str × Keyword)) (lineNum : Nat) (line : Str)
    (rest : List Str) (tok : Token)
    (h : lexLine string2keyword lineNum line rest = .stop tok) :
    tok = errorToken lineNum (-1) "multiline string not terminated".toList ∨
      ∃ p : Nat, tok = errorToken lineNum p "string not terminated".toList := by
  rcases lexLine_cases string2keyword lineNum line rest with
    h1 | ⟨tok1, next1, h1, -, -⟩ | h1 | ⟨p, h1⟩
  · rw [h1] at h
    cases h
  · rw [h1] at h
    cases h
  · rw [h1] at h
    cases h
    exact Or.inl rfl
  · rw [h1] at h
    cases h
    exact Or.inr ⟨p, rfl⟩

theorem runLexerLoop_fuel (string2keyword : List (Str × Keyword)) (lines : List Str) :
    ∀ (f1 f2 n : Nat), lines.length + 1 ≤ f1 + n → lines.length + 1 ≤ f2 + n →
      runLexerLoop string2keyword lines f1 n = runLexerLoop string2keyword lines f2 n := by
  intro f1
  induction f1 with
  | zero =>
    intro f2 n h1 _
    have hd : lines.drop n = [] := List.drop_eq_nil_of_le (by omega)
    cases f2 with
    | zero => rfl
    | succ f2 => rw [runLexerLoop, runLexerLoop, hd]
  | succ f1 ih =>
    intro f2 n h1 h2
    cases hd : lines.drop n with
    | nil =>
      cases f2 with
      | zero => rw [runLexerLoop, runLexerLoop, hd]
      | succ f2 => rw [runLexerLoop, runLexerLoop, hd]
    | cons line rest =>
      have hn : n < lines.length := by
        by_contra hc
        rw [List.drop_eq_nil_of_le (by omega)] at hd
        cases hd
      cases f2 with
      | zero => omega
      | succ f2 =>
        rw [runLexerLoop, runLexerLoop, hd]
        dsimp only
        cases hl : lexLine string2keyword n line rest with
        | next tok next =>
          have hlt := lexLine_next_lt string2keyword n line rest tok next hl
          dsimp only
          rw [ih f2 next (by omega) (by omega)]
        | stop tok => rfl

/-- C16 (amended): on a line on which the lexer sends an error token for a
bad keyword start, an unknown keyword or unexpected trailing content (any
round that does not end in `break`), the lexer goes on: the tokens it sends
from that round on are the token of the round followed by the tokens of the
rounds from the next line on (the line after the one on which the value
ended), so that every later line it comes to yields its token.  On an
unterminated quoted or triple-quoted string it leaves the loop: after the
error token it sends End-of-input only. -/
theorem lexFrom_round (string2keyword : List (Str × Keyword)) (lines : List Str) (n : Nat)
    (line : Str) (rest : List Str) (hline : lines.drop n = line :: rest) :
    (∀ tok next, lexLine string2keyword n line rest = .next tok next →
      n < next ∧
      lexFrom string2keyword lines n = tok.toList ++ lexFrom string2keyword lines next) ∧
    (∀ tok, lexLine string2keyword n line rest = .stop tok →
      (tok = errorToken n (-1) "multiline string not terminated".toList ∨
        ∃ p : Nat, tok = errorToken n p "string not terminated".toList) ∧
      lexFrom string2keyword lines n = [tok, eofToken n]) := by
  have hn : n < lines.length := by
    by_contra hc
    rw [List.drop_eq_nil_of_le (by omega)] at hline
    cases hline
  have hfuel : lines.length + 1 - n = (lines.length - n) + 1 := by omega
  constructor
  · intro tok next h
    have hlt := lexLine_next_lt string2keyword n line rest tok next h
    refine ⟨hlt, ?_⟩
    unfold lexFrom
    rw [hfuel, runLexerLoop, hline]
    dsimp only
    rw [h]
    dsimp only
    rw [runLexerLoop_fuel string2keyword lines (lines.length - n) (lines.length + 1 - next) next
      (by omega) (by omega)]
  · intro tok h
    refine ⟨lexLine_stop string2keyword n line rest tok h, ?_⟩
    unfold lexFrom
    rw [hfuel, runLexerLoop, hline]
    dsimp only
    rw [h]

/-- The lines `project p`, `node foo`, `table t`: the round of the second
line sends the error token of the unknown keyword `node` and the lexer goes
on with the third line, whose token follows. -/
theorem lexFrom_round_witness :
    ["project p".toList, "\tnode foo".toList, "\ttable t".toList].drop 1 =
      "\tnode foo".toList :: ["\ttable t".toList] ∧
    lexLine smlKeywords 1 "\tnode foo".toList ["\ttable t".toList] =
      .next (some (errorToken 1 1 "unknown keyword: node".toList)) 2 ∧
    lexFrom smlKeywords ["project p".toList, "\tnode foo".toList, "\ttable t".toList] 1 =
      (some (errorToken 1 1 "unknown keyword: node".toList)).toList ++
        lexFrom smlKeywords ["project p".toList, "\tnode foo".toList, "\ttable t".toList] 2 ∧
    runLexer "project p\n\tnode foo\n\ttable t".toList smlKeywords =
      [{ indent := 0, kw := skwProject, value := "p".toList, line := 1 },
       { indent := -1, kw := kwError,
         value := "error at position 2: unknown keyword: node".toList, line := 2 },
       { indent := 4, kw := skwTable, value := "t".toList, line := 3 },
       { indent := -1, kw := kwEOF, value := [], line := 4 }] :=
  ⟨rfl, by decide,
    ((lexFrom_round smlKeywords
      ["project p".toList, "\tnode foo".toList, "\ttable t".toList] 1 "\tnode foo".toList
      ["\ttable t".toList] rfl).1 _ _ (by decide)).2,
    by decide⟩

/-- C16 fails as stated for the unterminated strings: in the input
`project p`, `sql "abc`, `table t` the third line is a well-formed keyword
line (a round that starts at it sends its token), but the lexer leaves the
loop at the error of the second line and sends End-of-input; the same
happens with a string that opens with three quotes. -/
theorem lexFrom_round_counterexample :
    lexLine smlKeywords 2 "\ttable t".toList [] =
      .next (some { indent := 4, kw := skwTable, value := "t".toList, line := 3 }) 3 ∧
    runLexer "project p\n\tsql \"abc\n\ttable t".toList smlKeywords =
      [{ indent := 0, kw := skwProject, value := "p".toList, line := 1 },
       { indent := -1, kw := kwError,
         value := "error at position 6: string not terminated".toList, line := 2 },
       { indent := -1, kw := kwEOF, value := [], line := 2 }] ∧
    runLexer "project p\n\tsql \"\"\"abc\n\ttable t".toList smlKeywords =
      [{ indent := 0, kw := skwProject, value := "p".toList, line := 1 },
       { indent := -1, kw := kwError,
         value := "error at position 0: multiline string not terminated".toList, line := 2 },
       { indent := -1, kw := kwEOF, value := [], line := 2 }] := by
  decide
/-! ### C17: the budget of errors -/

theorem bounded_pure {α : Type} (a : α) : (pure a : Parser α).Bounded :=
  fun _ h => h

theorem bounded_bind {α β : Type} {m : Parser α} {f : α → Parser β} (hm : m.Bounded)
    (hf : ∀ a, (f a).Bounded) : (m >>= f).Bounded := by
  intro st hst
  have h1 := hm st hst
  rw [run_bind]
  revert h1
  cases m.run st with
  | ok a st1 => exact fun h1 => hf a st1 h1
  | panicErrors e => exact fun h1 => h1
  | panicRuntime msg => exact fun h1 => h1

theorem bounded_appendParseError (errs : List ParseError) : (appendParseError errs).Bounded := by
  intro st hst
  simp only [appendParseError]
  split_ifs with h1 h2
  · show (st ++ errs).length < maxErrors
    rw [List.length_append]
    omega
  · show (st ++ errs.take (maxErrors - st.length)).length ≤ maxErrors
    rw [List.length_append, List.length_take]
    omega
  · show st.length ≤ maxErrors
    omega

theorem bounded_panicParseErrors {α : Type} : (panicParseErrors : Parser α).Bounded :=
  fun _ h => Nat.le_of_lt h

theorem bounded_panicRuntime {α : Type} (msg : Str) : (panicRuntime msg : Parser α).Bounded :=
  fun _ _ => trivial

theorem bounded_report (msg : Str) (line : Int) : (report msg line).Bounded :=
  bounded_appendParseError _

theorem bounded_fatal {α : Type} (msg : Str) (line : Int) : (fatal msg line : Parser α).Bounded :=
  bounded_bind (bounded_report msg line) (fun _ => bounded_panicParseErrors)

theorem bounded_errorIf (c : Bool) (msg : Str) (line : Int) : (errorIf c msg line).Bounded := by
  unfold errorIf
  split_ifs
  · exact bounded_report msg line
  · exact bounded_pure ()

theorem bounded_panicIf (c : Bool) (msg : Str) (line : Int) : (panicIf c msg line).Bounded := by
  unfold panicIf
  split_ifs
  · exact bounded_fatal msg line
  · exact bounded_pure ()

theorem bounded_ite {α : Type} {c : Prop} [Decidable c] {a b : Parser α} (ha : a.Bounded)
    (hb : b.Bounded) : (if c then a else b).Bounded := by
  split_ifs
  · exact ha
  · exact hb

theorem bounded_forEach {β σ : Type} (body : σ → β → Parser σ) (l : List β)
    (h : ∀ s, ∀ b ∈ l, (body s b).Bounded) (s : σ) : (forEach l s body).Bounded := by
  induction l generalizing s with
  | nil => exact bounded_pure s
  | cons b bs ih =>
    rw [forEach]
    exact bounded_bind (h s b (List.mem_cons_self _ _))
      (fun s1 => ih (fun s2 x hx => h s2 x (List.mem_cons_of_mem _ hx)) s1)

theorem bounded_first {β : Type} (l : List β) : (first l).Bounded := by
  cases l with
  | nil => exact bounded_panicRuntime _
  | cons b bs => exact bounded_pure b

theorem bounded_parseSMLString (g : Generic) : (parseSMLString g).Bounded := by
  unfold parseSMLString
  exact bounded_bind (bounded_errorIf _ _ _) (fun _ => bounded_pure _)

theorem bounded_parseIDList (g : Generic) (allowEmpty : Bool) :
    (parseIDList g allowEmpty).Bounded := by
  unfold parseIDList
  refine bounded_bind (bounded_parseSMLString g) (fun s => bounded_ite (bounded_pure _) ?_)
  exact bounded_bind (bounded_errorIf _ _ _) (fun _ =>
    bounded_bind (bounded_forEach _ _ (fun _ _ _ => bounded_errorIf _ _ _) _)
      (fun _ => bounded_pure _))

theorem bounded_parseDatatype (g : Generic) : (parseDatatype g).Bounded := by
  unfold parseDatatype
  exact bounded_bind (bounded_parseSMLString g) (fun _ =>
    bounded_bind (bounded_errorIf _ _ _) (fun _ =>
      bounded_bind (bounded_errorIf _ _ _) (fun _ => bounded_pure _)))

theorem bounded_parseSingle (list : List Generic) (msg : Str) (line : Int) :
    (parseSingle list msg line).Bounded := by
  unfold parseSingle
  exact bounded_bind (bounded_errorIf _ _ _) (fun _ =>
    bounded_bind (bounded_first _) (fun _ => bounded_parseSMLString _))

theorem bounded_parseColumn (rt : GoRuntime) (g : Generic) (tableName : Str) :
    (parseColumn rt g tableName).Bounded := by
  have hchild : ∀ state entry, (parseColumnChild g state entry).Bounded := by
    intro state entry
    unfold parseColumnChild
    dsimp only
    repeat' first
      | exact bounded_parseSingle _ _ _
      | exact bounded_parseDatatype _
      | exact bounded_first _
      | exact bounded_pure _
      | exact bounded_report _ _
      | exact bounded_errorIf _ _ _
      | apply bounded_ite
      | refine bounded_bind ?_ (fun _ => ?_)
  unfold parseColumn parseColumnBegin parseColumnEnd
  repeat' first
    | exact bounded_forEach _ _ (fun s b _ => hchild s b) _
    | exact bounded_pure _
    | exact bounded_report _ _
    | exact bounded_errorIf _ _ _
    | exact bounded_panicIf _ _ _
    | apply bounded_ite
    | refine bounded_bind ?_ (fun _ => ?_)

theorem bounded_parseTable (rt : GoRuntime) (g : Generic) : (parseTable rt g).Bounded := by
  have hcol : ∀ name state child, (parseTableColumn rt name state child).Bounded := by
    intro name state child
    unfold parseTableColumn
    repeat' first
      | exact bounded_parseColumn _ _ _
      | exact bounded_pure _
      | exact bounded_report _ _
      | apply bounded_ite
      | refine bounded_bind ?_ (fun _ => ?_)
  have hchild : ∀ state entry, (parseTableChild rt g state entry).Bounded := by
    intro state entry
    unfold parseTableChild
    dsimp only
    repeat' first
      | exact bounded_parseSingle _ _ _
      | exact bounded_forEach _ _ (fun s b _ => hcol _ s b) _
      | exact bounded_pure _
      | exact bounded_report _ _
      | apply bounded_ite
      | refine bounded_bind ?_ (fun _ => ?_)
  unfold parseTable parseTableBegin parseTableEnd
  repeat' first
    | exact bounded_forEach _ _ (fun s b _ => hchild s b) _
    | exact bounded_pure _
    | exact bounded_report _ _
    | exact bounded_errorIf _ _ _
    | exact bounded_panicIf _ _ _
    | apply bounded_ite
    | refine bounded_bind ?_ (fun _ => ?_)
theorem bounded_parseJoin (rt : GoRuntime) (g : Generic) : (parseJoin rt g).Bounded := by
  have hcond : ∀ sql list owner line msg,
      (parseJoinCondition rt.unicode sql list owner line msg).Bounded := by
    intro sql list owner line msg
    unfold parseJoinCondition
    repeat' first
      | exact bounded_parseSMLString _
      | exact bounded_first _
      | exact bounded_pure _
      | exact bounded_panicIf _ _ _
      | refine bounded_bind ?_ (fun _ => ?_)
  have hthen : ∀ node, (parseThen rt node).Bounded := by
    intro node
    have hchild : ∀ sql entry, (parseThenChild rt.unicode node sql entry).Bounded := by
      intro sql entry
      unfold parseThenChild
      exact bounded_ite (hcond _ _ _ _ _) (bounded_fatal _ _)
    unfold parseThen
    dsimp only
    refine bounded_bind (bounded_panicIf _ _ _) (fun _ =>
      bounded_bind (bounded_panicIf _ _ _) (fun _ => ?_))
    split
    · exact bounded_fatal _ _
    · exact bounded_bind (bounded_panicIf _ _ _) (fun _ =>
        bounded_bind (bounded_forEach _ _ (fun s b _ => hchild s b) _) (fun _ =>
          bounded_bind (bounded_panicIf _ _ _) (fun _ => bounded_pure _)))
  have hchild : ∀ state entry, (parseJoinChild rt.unicode g state entry).Bounded := by
    intro state entry
    unfold parseJoinChild
    repeat' first
      | exact hcond _ _ _ _ _
      | exact bounded_pure _
      | exact bounded_fatal _ _
      | apply bounded_ite
      | refine bounded_bind ?_ (fun _ => ?_)
  have hval : ∀ sql t o line, (validateOneToManyJoinCondition rt.unicode sql t o line).Bounded := by
    intro sql t o line
    unfold validateOneToManyJoinCondition
    refine bounded_bind (bounded_forEach _ _ (fun s b _ => ?_) _) (fun _ =>
      bounded_bind (bounded_errorIf _ _ _) (fun _ => bounded_pure _))
    exact bounded_bind (bounded_errorIf _ _ _) (fun _ =>
      bounded_bind (bounded_errorIf _ _ _) (fun _ => bounded_pure _))
  have hdec : ∀ o ots, (parseJoinDecorator rt.unicode g o ots).Bounded := by
    intro o ots
    unfold parseJoinDecorator
    exact bounded_bind (bounded_panicIf _ _ _) (fun _ =>
      bounded_bind (hval _ _ _ _) (fun _ => bounded_pure _))
  unfold parseJoin
  dsimp only
  refine bounded_bind (bounded_panicIf _ _ _) (fun _ =>
    bounded_bind (bounded_panicIf _ _ _) (fun _ =>
      bounded_bind (bounded_panicIf _ _ _) (fun _ =>
        bounded_bind (bounded_panicIf _ _ _) (fun _ => ?_))))
  split
  · exact bounded_fatal _ _
  · refine bounded_bind (bounded_panicIf _ _ _) (fun _ =>
      bounded_bind (bounded_panicIf _ _ _) (fun _ =>
        bounded_bind (bounded_forEach _ _ (fun s b _ => hchild s b) _) (fun _ =>
          bounded_bind (bounded_panicIf _ _ _) (fun _ =>
            bounded_bind (bounded_forEach _ _ (fun s b _ => ?_) _) (fun _ =>
              bounded_ite (hdec _ _) (bounded_pure _))))))
    exact bounded_bind (hthen _) (fun _ => bounded_pure _)

theorem bounded_parseDataset (rt : GoRuntime) (g : Generic) : (parseDataset rt g).Bounded := by
  have hchild : ∀ n entry, (parseDatasetChild rt g n entry).Bounded := by
    intro n entry
    unfold parseDatasetChild
    dsimp only
    refine bounded_ite (bounded_forEach _ _ (fun s b _ => ?_) _)
      (bounded_ite (bounded_forEach _ _ (fun s b _ => ?_) _)
        (bounded_ite ?_ ?_))
    · exact bounded_bind (bounded_parseIDList _ _) (fun _ => bounded_pure _)
    · exact bounded_bind (bounded_parseJoin rt _) (fun _ => bounded_pure _)
    · exact bounded_bind (bounded_parseSingle _ _ _) (fun _ => bounded_pure _)
    · exact bounded_bind (bounded_report _ _) (fun _ => bounded_pure _)
  unfold parseDataset
  refine bounded_bind (bounded_panicIf _ _ _) (fun _ => bounded_bind ?_ (fun _ =>
    bounded_bind (bounded_forEach _ _ (fun s b _ => hchild s b) _) (fun _ => bounded_pure _)))
  exact bounded_ite (bounded_report _ _) (bounded_errorIf _ _ _)

theorem bounded_assert (b : Bool) : (assert b).Bounded := by
  unfold assert
  exact bounded_ite (bounded_pure _) (bounded_panicRuntime _)

theorem bounded_findDatatype {u : GoUnicode} (tables : GoMap Table) (table column : Str) :
    (findDatatype u tables table column).Bounded := by
  unfold findDatatype
  exact bounded_bind (bounded_assert _) (fun _ =>
    bounded_bind (bounded_assert _) (fun _ => bounded_pure _))

theorem bounded_parseSimpleCriteriaTerm (rt : GoRuntime) (g : Generic) (tables : GoMap Table) :
    (parseSimpleCriteriaTerm rt g tables).Bounded := by
  have hchild : ∀ state entry, (parseSimpleCriteriaTermChild g state entry).Bounded := by
    intro state entry
    unfold parseSimpleCriteriaTermChild
    dsimp only
    repeat' first
      | exact bounded_parseSingle _ _ _
      | exact bounded_pure _
      | exact bounded_report _ _
      | apply bounded_ite
      | refine bounded_bind ?_ (fun _ => ?_)
  have hvalue : ∀ s list, (parseCriteriaValue rt g tables s list).Bounded := by
    intro s list
    unfold parseCriteriaValue
    refine bounded_bind (bounded_first _) (fun _ =>
      bounded_bind (bounded_parseSMLString _) (fun _ =>
        bounded_bind (bounded_findDatatype _ _ _) (fun found => ?_)))
    split
    · exact bounded_bind (bounded_report _ _) (fun _ => bounded_pure _)
    · refine bounded_bind (bounded_forEach _ _ (fun s b _ => ?_) _) (fun _ => bounded_pure _)
      split
      · exact bounded_bind (bounded_report _ _) (fun _ => bounded_pure _)
      · exact bounded_pure _
  have hgv : ∀ done v, (granularityValue rt.unicode g done v).Bounded := by
    intro done v
    unfold granularityValue
    split
    · split
      · exact bounded_pure _
      · exact bounded_bind (bounded_report _ _) (fun _ => bounded_pure _)
    · exact bounded_panicRuntime _
    · exact bounded_panicRuntime _
    · exact bounded_panicRuntime _
  have hgran : ∀ s, (parseGranularity rt.unicode g tables s).Bounded := by
    intro s
    unfold parseGranularity
    exact bounded_bind (bounded_errorIf _ _ _) (fun _ =>
      bounded_bind (bounded_forEach _ _ (fun s b _ => hgv s b) _) (fun _ => bounded_pure _))
  unfold parseSimpleCriteriaTerm
  refine bounded_bind (bounded_forEach _ _ (fun s b _ => hchild s b) _) (fun _ =>
    bounded_bind (bounded_errorIf _ _ _) (fun _ =>
      bounded_bind (bounded_errorIf _ _ _) (fun _ =>
        bounded_bind (bounded_errorIf _ _ _) (fun _ =>
          bounded_bind (bounded_forEach _ _ (fun s b _ => ?_) _) (fun _ =>
            bounded_ite (hgran _) (bounded_pure _))))))
  exact bounded_ite (hvalue _ _) (bounded_pure _)
mutual
theorem bounded_parseCriteria (rt : GoRuntime) (tables : GoMap Table) :
    ∀ g : Generic, (parseCriteria rt tables g).Bounded
  | .mk kw value children line => by
    unfold parseCriteria
    dsimp only
    refine bounded_bind (bounded_forEach _ _ (fun s k _ => ?_) _) (fun r =>
      bounded_ite (bounded_bind (bounded_parseSimpleCriteriaTerm rt _ tables)
        (fun _ => bounded_pure _)) (bounded_pure _))
    refine bounded_ite ?_ (bounded_pure _)
    intro st hst
    rw [run_bind]
    cases hf : (first (List.filter (fun c => decide (c.1.kw = k))
        (parseCombinationChildren rt tables children))).run st with
    | ok call st1 =>
      obtain ⟨hmem, rfl⟩ := first_ok _ _ _ _ hf
      exact bounded_bind
        (bounded_parseCombinationChildren rt tables children call (List.mem_of_mem_filter hmem))
        (fun _ => bounded_pure _) st1 hst
    | panicErrors e =>
      have h1 := bounded_first (List.filter (fun c => decide (c.1.kw = k))
        (parseCombinationChildren rt tables children)) st hst
      rw [hf] at h1
      exact h1
    | panicRuntime msg => trivial
theorem bounded_parseCombinationChildren (rt : GoRuntime) (tables : GoMap Table) :
    ∀ (cs : List Generic) (call : Generic × Parser CriteriaCombinationTerm),
      call ∈ parseCombinationChildren rt tables cs → call.2.Bounded
  | [], call, hmem => by
    simp [parseCombinationChildren] at hmem
  | g :: gs, call, hmem => by
    rw [parseCombinationChildren, List.mem_cons] at hmem
    rcases hmem with rfl | hmem
    · exact bounded_parseCombinationCriteriaTerm rt tables g
    · exact bounded_parseCombinationChildren rt tables gs call hmem
theorem bounded_parseCombinationCriteriaTerm (rt : GoRuntime) (tables : GoMap Table) :
    ∀ g : Generic, (parseCombinationCriteriaTerm rt tables g).Bounded
  | .mk kw value children line => by
    unfold parseCombinationCriteriaTerm
    dsimp only
    refine bounded_bind (bounded_forEach _ _ (fun s k _ => ?_) _) (fun _ => bounded_pure _)
    refine bounded_ite (bounded_bind (bounded_errorIf _ _ _) (fun _ =>
      bounded_forEach _ _ (fun s call hcall => ?_) _)) (bounded_pure _)
    exact bounded_bind
      (bounded_parseCriteriaChildren rt tables children call (List.mem_of_mem_filter hcall))
      (fun _ => bounded_pure _)
theorem bounded_parseCriteriaChildren (rt : GoRuntime) (tables : GoMap Table) :
    ∀ (cs : List Generic) (call : Generic × Parser CriteriaTerm),
      call ∈ parseCriteriaChildren rt tables cs → call.2.Bounded
  | [], call, hmem => by
    simp [parseCriteriaChildren] at hmem
  | g :: gs, call, hmem => by
    rw [parseCriteriaChildren, List.mem_cons] at hmem
    rcases hmem with rfl | hmem
    · exact bounded_parseCriteria rt tables g
    · exact bounded_parseCriteriaChildren rt tables gs call hmem
end

theorem bounded_parseScheme (rt : GoRuntime) (g : Generic) (tables : GoMap Table) :
    (parseScheme rt g tables).Bounded := by
  have hchild : ∀ state entry, (parseSchemeChild rt g tables state entry).Bounded := by
    intro state entry
    unfold parseSchemeChild
    dsimp only
    repeat' first
      | exact bounded_parseSingle _ _ _
      | exact bounded_forEach _ _ (fun s b _ =>
          bounded_bind (bounded_parseCriteria rt tables b) (fun _ => bounded_pure _)) _
      | exact bounded_pure _
      | exact bounded_report _ _
      | apply bounded_ite
      | refine bounded_bind ?_ (fun _ => ?_)
  unfold parseScheme
  refine bounded_bind (bounded_panicIf _ _ _) (fun _ => bounded_bind ?_ (fun _ =>
    bounded_bind (bounded_forEach _ _ (fun s b _ => hchild s b) _) (fun _ =>
      bounded_bind (bounded_errorIf _ _ _) (fun _ => bounded_pure _))))
  exact bounded_ite (bounded_report _ _) (bounded_errorIf _ _ _)

theorem bounded_parseProject (rt : GoRuntime) (g : Generic) : (parseProject rt g).Bounded := by
  have hchild : ∀ state entry, (parseProjectChild rt g state entry).Bounded := by
    intro state entry
    unfold parseProjectChild
    dsimp only
    refine bounded_ite (bounded_bind (bounded_forEach _ _ (fun s b _ => ?_) _)
        (fun _ => bounded_pure _))
      (bounded_ite (bounded_bind (bounded_forEach _ _ (fun s b _ => ?_) _)
        (fun _ => bounded_pure _))
        (bounded_ite (bounded_pure _) ?_))
    · exact bounded_bind (bounded_parseTable rt _) (fun _ =>
        bounded_ite (bounded_pure _) (bounded_pure _))
    · exact bounded_bind (bounded_parseDataset rt _) (fun _ => bounded_pure _)
    · exact bounded_bind (bounded_report _ _) (fun _ => bounded_pure _)
  have hschemes : ∀ w, (parseSchemes rt g w).Bounded := by
    intro w
    unfold parseSchemes
    exact bounded_forEach _ _ (fun s b _ =>
      bounded_bind (bounded_parseScheme rt _ _) (fun _ => bounded_pure _)) _
  have hvalidate : ∀ w, (validateProject rt g w).Bounded := by
    intro w
    unfold validateProject
    refine bounded_bind (bounded_forEach _ _ (fun s b _ => ?_) _) (fun _ =>
      bounded_bind (bounded_forEach _ _ (fun s b _ => ?_) _) (fun _ => bounded_pure _))
    · unfold validateDataset
      exact bounded_bind (bounded_forEach _ _ (fun _ _ _ => bounded_errorIf _ _ _) _) (fun _ =>
        bounded_forEach _ _ (fun _ _ _ =>
          bounded_forEach _ _ (fun _ _ _ => bounded_errorIf _ _ _) _) _)
    · unfold validatePk
      exact bounded_forEach _ _ (fun _ _ _ => bounded_errorIf _ _ _) _
  unfold parseProject
  exact bounded_bind (bounded_panicIf _ _ _) (fun _ =>
    bounded_bind (bounded_errorIf _ _ _) (fun _ =>
      bounded_bind (bounded_forEach _ _ (fun s b _ => hchild s b) _) (fun _ =>
        bounded_bind (bounded_ite (hschemes _) (bounded_pure _)) (fun _ => hvalidate _))))
theorem bounded_errors {α : Type} (m : Parser α) (hm : m.Bounded) (st : List ParseError)
    (hst : st.length < maxErrors) : (m.run st).errors.length ≤ maxErrors := by
  have h := hm st hst
  revert h
  cases m.run st with
  | ok a st1 => exact fun h => Nat.le_of_lt h
  | panicErrors e => exact fun h => h
  | panicRuntime msg => exact fun _ => Nat.zero_le _

/-- C17 (amended): started with fewer than 100 errors, `parseProject` (and
`parseTable` and `parseDataset`, which `ParseSMLPieces` calls) returns or
panics with an error list of at most 100 errors; and `appendParseError`
returns if and only if the accumulated count stays below 100 with the new
errors, that is, it performs the non-local exit if and only if adding the new
errors makes the count reach or exceed 100; in both cases the list is that of
the old and the new errors, cut to its first 100. -/
theorem appendParseError_budget (rt : GoRuntime) (g : Generic) (st new : List ParseError)
    (hst : st.length < maxErrors) :
    ((parseProject rt g).run st).errors.length ≤ maxErrors ∧
    ((parseTable rt g).run st).errors.length ≤ maxErrors ∧
    ((parseDataset rt g).run st).errors.length ≤ maxErrors ∧
    (((appendParseError new).run st).returns = true ↔ st.length + new.length < maxErrors) ∧
    ((appendParseError new).run st).errors = (st ++ new).take maxErrors := by
  refine ⟨bounded_errors _ (bounded_parseProject rt g) st hst,
    bounded_errors _ (bounded_parseTable rt g) st hst,
    bounded_errors _ (bounded_parseDataset rt g) st hst, ?_, ?_⟩
  · simp only [appendParseError]
    split_ifs with h1 h2
    · simp only [Outcome.returns, true_iff]
      omega
    · simp only [Outcome.returns, Bool.false_eq_true, false_iff]
      omega
    · omega
  · simp only [appendParseError]
    split_ifs with h1 h2
    · simp only [Outcome.errors]
      rw [List.take_of_length_le]
      rw [List.length_append]
      omega
    · simp only [Outcome.errors]
      rw [List.take_append_eq_append_take, List.take_of_length_le (Nat.le_of_lt hst)]
    · omega

set_option maxRecDepth 1000000 in
/-- The table `budgetTable` parsed by a fresh parser ends with exactly 100
errors, and one error added to an empty list is kept. -/
theorem appendParseError_budget_witness :
    ([] : List ParseError).length < maxErrors ∧
    ((parseTable GoRuntime.insertionOrder budgetTable).run []).errors.length = maxErrors ∧
    ((parseProject GoRuntime.insertionOrder budgetTable).run []).errors.length ≤ maxErrors ∧
    ((parseTable GoRuntime.insertionOrder budgetTable).run []).errors.length ≤ maxErrors ∧
    ((parseDataset GoRuntime.insertionOrder budgetTable).run []).errors.length ≤ maxErrors ∧
    (((appendParseError [sqlMissingError]).run []).returns = true ↔
      ([] : List ParseError).length + [sqlMissingError].length < maxErrors) ∧
    ((appendParseError [sqlMissingError]).run []).errors =
      (([] : List ParseError) ++ [sqlMissingError]).take maxErrors :=
  ⟨by decide, by decide!,
    appendParseError_budget GoRuntime.insertionOrder budgetTable [] [sqlMissingError]
      (by decide)⟩

set_option maxRecDepth 1000000 in
/-- C17 fails as stated in its second half: with 99 errors recorded, one
more error makes the count exactly 100, which does not exceed 100, and
`appendParseError` panics all the same; so does `parseTable` on
`budgetTable`, with exactly 100 errors. -/
theorem appendParseError_budget_counterexample :
    (List.replicate 99 sqlMissingError).length + [sqlMissingError].length = 100 ∧
    ((appendParseError [sqlMissingError]).run (List.replicate 99 sqlMissingError)).returns =
      false ∧
    ((appendParseError [sqlMissingError]).run
      (List.replicate 99 sqlMissingError)).errors.length = 100 ∧
    ((parseTable GoRuntime.insertionOrder budgetTable).run []).returns = false ∧
    ((parseTable GoRuntime.insertionOrder budgetTable).run []).errors.length = 100 := by
  decide!
/-! ### C18: `typeFromFilename` -/

theorem ToLower_of_isASCII (u : GoUnicode) (s : Str) (h : isASCII s = true) :
    strings.ToLower u s = s.map toLowerByte := by
  rw [strings.ToLower, if_pos h]

theorem ToUpper_of_isASCII (u : GoUnicode) (s : Str) (h : isASCII s = true) :
    strings.ToUpper u s = s.map toUpperByte := by
  rw [strings.ToUpper, if_pos h]

theorem isASCII_of_ToLower (u : GoUnicode) (s k : Str) (hk : isASCII k = true)
    (hi : k.contains 'i' = false) (hkk : k.contains 'k' = false)
    (h : strings.ToLower u s = k) : isASCII s = true := by
  by_contra hs
  have hs1 : isASCII s = false := by simpa using hs
  rw [strings.ToLower, if_neg hs] at h
  have h2 := u.ToLower_ascii s hs1 (by rw [h]; exact hk)
  rw [h] at h2
  rcases h2 with h1 | h1
  · rw [hi] at h1
    cases h1
  · rw [hkk] at h1
    cases h1

theorem fileSuffix_plain :
    ∀ k ∈ smlFileTypes.keys, isASCII k = true ∧ k.contains 'i' = false ∧ k.contains 'k' = false :=
        by
  decide

theorem hasFileSuffix_lower (u : GoUnicode) (suf k : Str) (hk : k ∈ smlFileTypes.keys)
    (h : strings.ToLower u suf = k) : suf.map toLowerByte = k := by
  obtain ⟨h1, h2, h3⟩ := fileSuffix_plain k hk
  rw [← ToLower_of_isASCII u suf (isASCII_of_ToLower u suf k h1 h2 h3 h)]
  exact h

theorem hasFileSuffix_iff (u : GoUnicode) (filename k : Str) (hk : k ∈ smlFileTypes.keys) :
    hasFileSuffix u filename k = true ↔ EndsWithFold u filename k := by
  simp only [hasFileSuffix, Bool.and_eq_true, decide_eq_true_eq]
  constructor
  · rintro ⟨h1, h2⟩
    refine ⟨filename.take (filename.length - k.length),
      filename.drop (filename.length - k.length), ?_, (List.take_append_drop _ _).symm, h2⟩
    intro h
    have := congrArg List.length h
    rw [List.length_take] at this
    simp at this
    omega
  · rintro ⟨pre, suf, h1, rfl, h3⟩
    have hlen : suf.length = k.length := by
      rw [← hasFileSuffix_lower u suf k hk h3, List.length_map]
    have hpre : 0 < pre.length := List.length_pos.mpr h1
    constructor
    · rw [List.length_append]
      omega
    · have : (pre ++ suf).length - k.length = pre.length := by
        rw [List.length_append]
        omega
      rw [this, List.drop_left]
      exact h3

theorem hasFileSuffix_unique (u : GoUnicode) (filename k1 k2 : Str)
    (h1 : k1 ∈ smlFileTypes.keys) (h2 : k2 ∈ smlFileTypes.keys)
    (hs1 : hasFileSuffix u filename k1 = true) (hs2 : hasFileSuffix u filename k2 = true) :
    k1 = k2 := by
  simp only [hasFileSuffix, Bool.and_eq_true, decide_eq_true_eq] at hs1 hs2
  obtain ⟨hl1, he1⟩ := hs1
  obtain ⟨hl2, he2⟩ := hs2
  replace he1 := hasFileSuffix_lower u _ k1 h1 he1
  replace he2 := hasFileSuffix_lower u _ k2 h2 he2
  have key : ∀ a ∈ smlFileTypes.keys, ∀ b ∈ smlFileTypes.keys,
      a.length ≤ b.length → b.drop (b.length - a.length) = a → a = b := by decide
  have hdrop : ∀ a b : Str, a.length ≤ b.length → filename.length > b.length →
      (filename.drop (filename.length - a.length)).map toLowerByte = a →
      (filename.drop (filename.length - b.length)).map toLowerByte = b →
      b.drop (b.length - a.length) = a := by
    intro a b hab hb ha hb2
    rw [← hb2, ← List.map_drop, List.drop_drop, List.length_map, List.length_drop]
    have h3 : filename.length - b.length +
        (filename.length - (filename.length - b.length) - a.length) =
          filename.length - a.length := by omega
    rw [h3]
    exact ha
  rcases Nat.le_total k1.length k2.length with h | h
  · exact key k1 h1 k2 h2 h (hdrop k1 k2 h hl2 he1 he2)
  · exact (key k2 h2 k1 h1 h (hdrop k2 k1 h hl1 he2 he1)).symm

theorem hasFileSuffix_alone (u : GoUnicode) :
    ∀ f ∈ smlFileTypes.keys, ∀ k ∈ smlFileTypes.keys, hasFileSuffix u f k = false := by
  intro f hf k hk
  have hall : ∀ k ∈ smlFileTypes.keys,
      k = ".table.sml".toList ∨ k = ".dataset.sml".toList ∨ k = ".scheme.sml".toList := by
    decide
  rcases hall f hf with rfl | rfl | rfl <;> rcases hall k hk with rfl | rfl | rfl <;> rfl

theorem typeFromFilename_eq (rt : GoRuntime) (filename k : Str) (hk : k ∈ smlFileTypes.keys)
    (hs : hasFileSuffix rt.unicode filename k = true) :
    typeFromFilename rt filename = (smlFileTypes.get? k).getD .fileTypeUnknown := by
  unfold typeFromFilename
  cases hf : (rt.strOrder 8 smlFileTypes.keys).find? (hasFileSuffix rt.unicode filename) with
  | none =>
    rw [List.find?_eq_none] at hf
    exact absurd hs (hf k (((rt.strOrder_perm 8 smlFileTypes.keys).mem_iff).mpr hk))
  | some k1 =>
    have h1 := List.find?_some hf
    have h2 := ((rt.strOrder_perm 8 smlFileTypes.keys).mem_iff).mp (List.mem_of_find?_eq_some hf)
    rw [hasFileSuffix_unique rt.unicode filename k1 k h2 hk h1 hs]

theorem typeFromFilename_unknown (rt : GoRuntime) (filename : Str)
    (hs : ∀ k ∈ smlFileTypes.keys, hasFileSuffix rt.unicode filename k = false) :
    typeFromFilename rt filename = .fileTypeUnknown := by
  unfold typeFromFilename
  cases hf : (rt.strOrder 8 smlFileTypes.keys).find? (hasFileSuffix rt.unicode filename) with
  | none => rfl
  | some k1 =>
    have h1 := List.find?_some hf
    have h2 := ((rt.strOrder_perm 8 smlFileTypes.keys).mem_iff).mp (List.mem_of_find?_eq_some hf)
    rw [hs k1 h2] at h1
    cases h1

/-- C18 (amended): for every file name `f` and every order of the visits
of the map of suffixes, `typeFromFilename f` is the table type if and only
if `f` ends, whatever the case of its letters, with `.table.sml` after at
least one more byte, the dataset type if and only if it so ends with
`.dataset.sml`, the scheme type if and only if it so ends with `.scheme.sml`,
and unknown otherwise; a file name that is a suffix alone is of the unknown
type.  The case of the letters is that of `strings.ToLower`, for file names
of ASCII bytes or not. -/
theorem typeFromFilename_spec (rt : GoRuntime) (f : Str) :
    (typeFromFilename rt f = .fileTypeTable ↔ EndsWithFold rt.unicode f ".table.sml".toList) ∧
    (typeFromFilename rt f = .fileTypeDataset ↔ EndsWithFold rt.unicode f ".dataset.sml".toList) ∧
    (typeFromFilename rt f = .fileTypeScheme ↔ EndsWithFold rt.unicode f ".scheme.sml".toList) ∧
    (typeFromFilename rt f = .fileTypeUnknown ↔
      ¬ EndsWithFold rt.unicode f ".table.sml".toList ∧ ¬ EndsWithFold rt.unicode f
          ".dataset.sml".toList ∧
        ¬ EndsWithFold rt.unicode f ".scheme.sml".toList) ∧
    typeFromFilename rt ".table.sml".toList = .fileTypeUnknown ∧
    typeFromFilename rt ".dataset.sml".toList = .fileTypeUnknown ∧
    typeFromFilename rt ".scheme.sml".toList = .fileTypeUnknown := by
  have hmem1 : ".table.sml".toList ∈ smlFileTypes.keys := by decide
  have hmem2 : ".dataset.sml".toList ∈ smlFileTypes.keys := by decide
  have hmem3 : ".scheme.sml".toList ∈ smlFileTypes.keys := by decide
  have hall : ∀ k ∈ smlFileTypes.keys,
      k = ".table.sml".toList ∨ k = ".dataset.sml".toList ∨ k = ".scheme.sml".toList := by
    decide
  have hcases : (hasFileSuffix rt.unicode f ".table.sml".toList = true ∧
        typeFromFilename rt f = .fileTypeTable) ∨
      (hasFileSuffix rt.unicode f ".dataset.sml".toList = true ∧
        typeFromFilename rt f = .fileTypeDataset) ∨
      (hasFileSuffix rt.unicode f ".scheme.sml".toList = true ∧
        typeFromFilename rt f = .fileTypeScheme) ∨
      ((∀ k ∈ smlFileTypes.keys, hasFileSuffix rt.unicode f k = false) ∧
        typeFromFilename rt f = .fileTypeUnknown) := by
    by_cases h1 : hasFileSuffix rt.unicode f ".table.sml".toList = true
    · exact Or.inl ⟨h1, typeFromFilename_eq rt f _ hmem1 h1⟩
    by_cases h2 : hasFileSuffix rt.unicode f ".dataset.sml".toList = true
    · exact Or.inr (Or.inl ⟨h2, typeFromFilename_eq rt f _ hmem2 h2⟩)
    by_cases h3 : hasFileSuffix rt.unicode f ".scheme.sml".toList = true
    · exact Or.inr (Or.inr (Or.inl ⟨h3, typeFromFilename_eq rt f _ hmem3 h3⟩))
    refine Or.inr (Or.inr (Or.inr ⟨?_, ?_⟩))
    · intro k hk
      rcases hall k hk with rfl | rfl | rfl
      · simpa using h1
      · simpa using h2
      · simpa using h3
    · apply typeFromFilename_unknown
      intro k hk
      rcases hall k hk with rfl | rfl | rfl
      · simpa using h1
      · simpa using h2
      · simpa using h3
  have hu : ∀ k1 k2 : Str, k1 ∈ smlFileTypes.keys → k2 ∈ smlFileTypes.keys → k1 ≠ k2 →
      hasFileSuffix rt.unicode f k1 = true → hasFileSuffix rt.unicode f k2 = true → False :=
    fun k1 k2 m1 m2 hne a b =>
      hne (hasFileSuffix_unique rt.unicode f k1 k2 m1 m2 a b)
  have hne12 : ".table.sml".toList ≠ ".dataset.sml".toList := by decide
  have hne13 : ".table.sml".toList ≠ ".scheme.sml".toList := by decide
  have hne23 : ".dataset.sml".toList ≠ ".scheme.sml".toList := by decide
  rw [← hasFileSuffix_iff rt.unicode f _ hmem1, ← hasFileSuffix_iff rt.unicode f _ hmem2,
    ← hasFileSuffix_iff rt.unicode f _ hmem3]
  refine ⟨?_, ?_, ?_, ?_, ?_, ?_, ?_⟩
  · rcases hcases with ⟨h, ht⟩ | ⟨h, ht⟩ | ⟨h, ht⟩ | ⟨h, ht⟩
    · exact ⟨fun _ => h, fun _ => ht⟩
    · rw [ht]
      exact ⟨fun x => (by cases x), fun x => (hu _ _ hmem1 hmem2 hne12 x h).elim⟩
    · rw [ht]
      exact ⟨fun x => (by cases x), fun x => (hu _ _ hmem1 hmem3 hne13 x h).elim⟩
    · rw [ht, h _ hmem1]
      exact ⟨fun x => (by cases x), fun x => (by cases x)⟩
  · rcases hcases with ⟨h, ht⟩ | ⟨h, ht⟩ | ⟨h, ht⟩ | ⟨h, ht⟩
    · rw [ht]
      exact ⟨fun x => (by cases x), fun x => (hu _ _ hmem1 hmem2 hne12 h x).elim⟩
    · exact ⟨fun _ => h, fun _ => ht⟩
    · rw [ht]
      exact ⟨fun x => (by cases x), fun x => (hu _ _ hmem2 hmem3 hne23 x h).elim⟩
    · rw [ht, h _ hmem2]
      exact ⟨fun x => (by cases x), fun x => (by cases x)⟩
  · rcases hcases with ⟨h, ht⟩ | ⟨h, ht⟩ | ⟨h, ht⟩ | ⟨h, ht⟩
    · rw [ht]
      exact ⟨fun x => (by cases x), fun x => (hu _ _ hmem1 hmem3 hne13 h x).elim⟩
    · rw [ht]
      exact ⟨fun x => (by cases x), fun x => (hu _ _ hmem2 hmem3 hne23 h x).elim⟩
    · exact ⟨fun _ => h, fun _ => ht⟩
    · rw [ht, h _ hmem3]
      exact ⟨fun x => (by cases x), fun x => (by cases x)⟩
  · rcases hcases with ⟨h, ht⟩ | ⟨h, ht⟩ | ⟨h, ht⟩ | ⟨h, ht⟩
    · rw [ht]
      exact ⟨fun x => (by cases x), fun x => (x.1 h).elim⟩
    · rw [ht]
      exact ⟨fun x => (by cases x), fun x => (x.2.1 h).elim⟩
    · rw [ht]
      exact ⟨fun x => (by cases x), fun x => (x.2.2 h).elim⟩
    · rw [h _ hmem1, h _ hmem2, h _ hmem3]
      exact ⟨fun _ => ⟨fun x => (by cases x), fun x => (by cases x), fun x => (by cases x)⟩,
        fun _ => ht⟩
  · exact typeFromFilename_unknown rt _ (hasFileSuffix_alone rt.unicode _ hmem1)
  · exact typeFromFilename_unknown rt _ (hasFileSuffix_alone rt.unicode _ hmem2)
  · exact typeFromFilename_unknown rt _ (hasFileSuffix_alone rt.unicode _ hmem3)

/-- C18, as first stated, fails at a file name that is the suffix alone:
`.table.sml` ends with `.table.sml`, and `typeFromFilename` gives the unknown
type for it, in either order of the visits, since the source asks for
`len(filename) > n`; with one more byte in front the type is the table
type. -/
theorem typeFromFilename_spec_counterexample :
    strings.ToLower GoUnicode.unchanged ".table.sml".toList = ".table.sml".toList ∧
    typeFromFilename GoRuntime.insertionOrder ".table.sml".toList = .fileTypeUnknown ∧
    typeFromFilename GoRuntime.reverseOrder ".table.sml".toList = .fileTypeUnknown ∧
    typeFromFilename GoRuntime.insertionOrder "a.table.sml".toList = .fileTypeTable ∧
    typeFromFilename GoRuntime.reverseOrder "a.Table.SML".toList = .fileTypeTable := by
  decide
set_option maxRecDepth 1000000 in
/-- C13: `ParseSMLPieces` at two `.table.sml` fragments that both declare
the table `t` returns no error with `TableNames = [t, t]` beside the one key
of `Tables`; and at a table fragment with a dataset fragment that lists the
table it returns no error with the zero table as the entry of the dataset,
where `ParseSML` on the same table and dataset in one document gives the
entry the SQL and the column of the table.  Both in the insertion order and
in the reverse order of the visits of the maps. -/
theorem ParseSMLPieces_unmerged :
    ((ParseSMLPieces GoRuntime.insertionOrder twoTablePieces twoTableFilenames).err = some none ∧
      (ParseSMLPieces GoRuntime.insertionOrder twoTablePieces twoTableFilenames).project.TableNames
          =
        ["t".toList, "t".toList] ∧
      (ParseSMLPieces GoRuntime.insertionOrder twoTablePieces twoTableFilenames).project.Tables.keys
          =
        ["t".toList] ∧
      (ParseSMLPieces GoRuntime.insertionOrder datasetPieces datasetFilenames).err = some none ∧
      ((ParseSMLPieces GoRuntime.insertionOrder datasetPieces datasetFilenames).project.Tables.get?
        "t".toList).map (fun x => (x.SQL, x.ColumnNames)) = some ("a".toList, ["c".toList]) ∧
      datasetTableOf
          (ParseSMLPieces GoRuntime.insertionOrder datasetPieces datasetFilenames).project
        "d".toList "t".toList = some ([], []) ∧
      (ParseSML GoRuntime.insertionOrder datasetDocument []).2 = [] ∧
      datasetTableOf (ParseSML GoRuntime.insertionOrder datasetDocument []).1 "d".toList
        "t".toList = some ("a".toList, ["c".toList])) ∧
    ((ParseSMLPieces GoRuntime.reverseOrder twoTablePieces twoTableFilenames).err = some none ∧
      (ParseSMLPieces GoRuntime.reverseOrder twoTablePieces twoTableFilenames).project.TableNames =
        ["t".toList, "t".toList] ∧
      (ParseSMLPieces GoRuntime.reverseOrder twoTablePieces twoTableFilenames).project.Tables.keys =
        ["t".toList] ∧
      (ParseSMLPieces GoRuntime.reverseOrder datasetPieces datasetFilenames).err = some none ∧
      ((ParseSMLPieces GoRuntime.reverseOrder datasetPieces datasetFilenames).project.Tables.get?
        "t".toList).map (fun x => (x.SQL, x.ColumnNames)) = some ("a".toList, ["c".toList]) ∧
      datasetTableOf (ParseSMLPieces GoRuntime.reverseOrder datasetPieces datasetFilenames).project
        "d".toList "t".toList = some ([], []) ∧
      (ParseSML GoRuntime.reverseOrder datasetDocument []).2 = [] ∧
      datasetTableOf (ParseSML GoRuntime.reverseOrder datasetDocument []).1 "d".toList
        "t".toList = some ("a".toList, ["c".toList])) := by
  refine ⟨⟨?_, ?_, ?_, ?_, ?_, ?_, ?_, ?_⟩, ⟨?_, ?_, ?_, ?_, ?_, ?_, ?_, ?_⟩⟩ <;> decide!
set_option maxRecDepth 1000000 in
/-- C12: `ParseSML` at a document whose scheme `s` has two criteria of the
same name `c` returns no error, and the scheme has `CriteriaNames = [c, c]`
beside the one key `c` of `Criteria`, which holds the second criterion; in
the insertion order and in the reverse order of the visits of the maps. -/
theorem ParseSML_two_criteria :
    ((ParseSML GoRuntime.insertionOrder twoCriteriaDoc []).2 = [] ∧
      criteriaOf (ParseSML GoRuntime.insertionOrder twoCriteriaDoc []).1 "s".toList =
        some (["c".toList, "c".toList], ["c".toList]) ∧
      ((ParseSML GoRuntime.insertionOrder twoCriteriaDoc []).1.Schemes.get? "s".toList).map
        (fun x => (x.Criteria.get? "c".toList).map
          (fun c => c.SimpleTerm.map (fun t => t.Operator))) =
        some (some (some "equals".toList))) ∧
    ((ParseSML GoRuntime.reverseOrder twoCriteriaDoc []).2 = [] ∧
      criteriaOf (ParseSML GoRuntime.reverseOrder twoCriteriaDoc []).1 "s".toList =
        some (["c".toList, "c".toList], ["c".toList]) ∧
      ((ParseSML GoRuntime.reverseOrder twoCriteriaDoc []).1.Schemes.get? "s".toList).map
        (fun x => (x.Criteria.get? "c".toList).map
          (fun c => c.SimpleTerm.map (fun t => t.Operator))) =
        some (some (some "equals".toList))) := by
  refine ⟨⟨?_, ?_, ?_⟩, ⟨?_, ?_, ?_⟩⟩ <;> decide!
/-! ### Go maps and slices of names -/

theorem GoMap.keys_set {α : Type} (m : GoMap α) (k : Str) (v : α) :
    (m.set k v).keys = if k ∈ m.keys then m.keys else m.keys ++ [k] := by
  induction m with
  | nil => simp [GoMap.set, GoMap.keys]
  | cons e m ih =>
    obtain ⟨k0, v0⟩ := e
    simp only [GoMap.set]
    by_cases h0 : k0 = k
    · subst h0
      simp only [↓reduceIte, GoMap.keys, List.map_cons, List.mem_cons, true_or]
    · have h1 : ¬ k = k0 := fun h => h0 h.symm
      simp only [h0, ↓reduceIte]
      simp only [GoMap.keys, List.map_cons, List.mem_cons, h1, false_or] at ih ⊢
      rw [ih]
      split_ifs
      · rfl
      · rfl

theorem GoMap.get?_eq_none_iff {α : Type} (m : GoMap α) (key : Str) :
    m.get? key = none ↔ key ∉ m.keys := by
  induction m with
  | nil => simp [GoMap.get?, GoMap.keys]
  | cons e m ih =>
    obtain ⟨k0, v0⟩ := e
    simp only [GoMap.get?, GoMap.keys, List.map_cons, List.mem_cons, not_or] at ih ⊢
    by_cases h0 : k0 = key
    · simp only [h0, ↓reduceIte, reduceCtorEq, not_true_eq_false, false_and]
    · have h1 : ¬ key = k0 := fun h => h0 h.symm
      simp only [h0, ↓reduceIte, ih, h1, not_false_eq_true, true_and]

theorem GoMap.get?_isSome_of_mem {α : Type} (m : GoMap α) (key : Str) (h : key ∈ m.keys) :
    ∃ v, m.get? key = some v := by
  cases hg : m.get? key with
  | none => exact absurd h ((GoMap.get?_eq_none_iff m key).mp hg)
  | some v => exact ⟨v, rfl⟩

theorem addNames_append (names new : List Str) (n : Str) :
    addNames names (new ++ [n]) =
      if n ∈ addNames names new then addNames names new else addNames names new ++ [n] := by
  simp [addNames, List.foldl_append]

theorem addNames_eq (names new : List Str) :
    addNames names new = names ++ (firstOccurrences new).filter (fun x => x ∉ names) := by
  induction new generalizing names with
  | nil => simp [addNames, firstOccurrences]
  | cons n ns ih =>
    have hstep : addNames names (n :: ns) =
        addNames (if n ∈ names then names else names ++ [n]) ns := rfl
    rw [hstep]
    by_cases h : n ∈ names
    · rw [if_pos h, ih]
      simp only [firstOccurrences, List.filter_cons, h, not_true_eq_false, decide_False,
        Bool.false_eq_true, ↓reduceIte, List.filter_filter]
      congr 1
      apply List.filter_congr
      intro x _
      by_cases hx : x ∈ names
      · simp [hx]
      · have : x ≠ n := fun e => hx (e ▸ h)
        simp [hx, this]
    · rw [if_neg h, ih]
      simp only [firstOccurrences, List.filter_cons, h, not_false_eq_true, decide_True,
        ↓reduceIte, List.filter_filter, List.append_assoc, List.singleton_append]
      congr 2
      apply List.filter_congr
      intro x _
      by_cases hx : x = n
      · simp [hx]
      · simp [hx]

theorem addNames_nil (new : List Str) : addNames [] new = firstOccurrences new := by
  rw [addNames_eq]
  simp

theorem addNames_of_subset (names new : List Str) (h : ∀ n ∈ new, n ∈ names) :
    addNames names new = names := by
  rw [addNames_eq]
  have : (firstOccurrences new).filter (fun x => x ∉ names) = [] := by
    rw [List.filter_eq_nil_iff]
    intro x hx
    simp [h x ((mem_firstOccurrences x new).mp hx)]
  rw [this, List.append_nil]

theorem firstOccurrences_nodup {α : Type} [DecidableEq α] (l : List α) :
    (firstOccurrences l).Nodup := by
  induction l with
  | nil => simp [firstOccurrences]
  | cons k ks ih =>
    simp only [firstOccurrences, List.nodup_cons, List.mem_filter, ne_eq, not_true_eq_false,
      decide_False, Bool.false_eq_true, and_false, not_false_eq_true, true_and]
    exact ih.filter _

theorem forEach_ok_split {β σ : Type} (body : σ → β → Parser σ) (Inv : List β → σ → Prop)
    (l : List β)
    (step : ∀ pre b post s st s1 st1, l = pre ++ b :: post → Inv pre s →
      (body s b).run st = .ok s1 st1 → Inv (pre ++ [b]) s1) :
    ∀ (suffix pre : List β) (s : σ) (st : List ParseError) (r : σ) (st1 : List ParseError),
      l = pre ++ suffix → Inv pre s → (forEach suffix s body).run st = .ok r st1 → Inv l r := by
  intro suffix
  induction suffix with
  | nil =>
    intro pre s st r st1 hl hinv h
    rw [forEach] at h
    obtain ⟨rfl, -⟩ := run_pure_ok h
    rw [hl, List.append_nil]
    exact hinv
  | cons b bs ih =>
    intro pre s st r st1 hl hinv h
    rw [forEach] at h
    obtain ⟨s1, st2, h1, h2⟩ := run_bind_ok h
    exact ih (pre ++ [b]) s1 st2 r st1 (by simpa using hl) (step pre b bs s st s1 st2 hl hinv h1) h2
/-! ### C11: the names of the columns of a table -/

theorem parseTableColumn_listed (rt : GoRuntime) (tableName : Str)
    (state s1 : GoMap Column × List Str) (child : Generic) (st st1 : List ParseError)
    (h : (parseTableColumn rt tableName state child).run st = .ok s1 st1)
    (hinv : state.1.keys = state.2 ∧ state.2.Nodup) : s1.1.keys = s1.2 ∧ s1.2.Nodup := by
  unfold parseTableColumn at h
  obtain ⟨column, st2, -, h⟩ := run_bind_ok h
  by_cases hc : (state.1.get? column.Name).isSome = true
  · rw [if_pos hc] at h
    obtain ⟨_, _, -, h⟩ := run_bind_ok h
    obtain ⟨rfl, -⟩ := run_pure_ok h
    exact hinv
  · rw [if_neg hc] at h
    obtain ⟨rfl, -⟩ := run_pure_ok h
    have hnone : state.1.get? column.Name = none := by
      cases hg : state.1.get? column.Name with
      | none => rfl
      | some v => rw [hg] at hc; simp at hc
    have hnot := (GoMap.get?_eq_none_iff _ _).mp hnone
    dsimp only
    rw [GoMap.keys_set, if_neg hnot, hinv.1]
    refine ⟨rfl, ?_⟩
    rw [hinv.1] at hnot
    exact List.Nodup.append hinv.2 (List.nodup_singleton _) (by simpa using hnot)

theorem parseTableChild_listed (rt : GoRuntime) (g : Generic) (state s1 : Table × List Str)
    (entry : Keyword × List Generic) (st st1 : List ParseError)
    (h : (parseTableChild rt g state entry).run st = .ok s1 st1)
    (hinv : state.1.Columns.keys = state.2 ∧ state.2.Nodup ∧ state.1.ColumnNames = [] ∧
      state.1.Name = g.value) :
    s1.1.Columns.keys = s1.2 ∧ s1.2.Nodup ∧ s1.1.ColumnNames = [] ∧ s1.1.Name = g.value := by
  unfold parseTableChild at h
  dsimp only at h
  split_ifs at h
  · obtain ⟨_, _, -, h⟩ := run_bind_ok h
    obtain ⟨rfl, -⟩ := run_pure_ok h
    exact hinv
  · obtain ⟨_, _, -, h⟩ := run_bind_ok h
    obtain ⟨rfl, -⟩ := run_pure_ok h
    exact hinv
  · obtain ⟨_, _, -, h⟩ := run_bind_ok h
    obtain ⟨rfl, -⟩ := run_pure_ok h
    exact hinv
  · obtain ⟨r, st2, h1, h⟩ := run_bind_ok h
    obtain ⟨rfl, -⟩ := run_pure_ok h
    have h2 := forEach_ok_inv_st (parseTableColumn rt state.1.Name)
      (fun s _ => s.1.keys = s.2 ∧ s.2.Nodup) entry.2
      (fun b s sa s1 sb _ hi hrun => parseTableColumn_listed rt _ s s1 b sa sb hrun hi)
      _ st r st2 ⟨hinv.1, hinv.2.1⟩ h1
    exact ⟨h2.1, h2.2, hinv.2.2.1, hinv.2.2.2⟩
  · obtain ⟨_, _, -, h⟩ := run_bind_ok h
    obtain ⟨rfl, -⟩ := run_pure_ok h
    exact hinv

theorem parseTable_listed (rt : GoRuntime) (g : Generic) (st st1 : List ParseError) (t : Table)
    (h : (parseTable rt g).run st = .ok t st1) : t.Listed ∧ t.Name = g.value := by
  unfold parseTable at h
  obtain ⟨r, st2, h1, h2⟩ := run_bind_ok h
  unfold parseTableBegin at h1
  obtain ⟨_, _, -, h1⟩ := run_bind_ok h1
  obtain ⟨_, st3, -, h1⟩ := run_bind_ok h1
  have h3 := forEach_ok_inv_st (parseTableChild rt g)
    (fun s _ => s.1.Columns.keys = s.2 ∧ s.2.Nodup ∧ s.1.ColumnNames = [] ∧ s.1.Name = g.value)
    (rangeChildren rt g)
    (fun b s sa s1 sb _ hi hrun => parseTableChild_listed rt g s s1 b sa sb hrun hi)
    _ st3 r st2 ⟨rfl, List.nodup_nil, rfl, rfl⟩ h1
  unfold parseTableEnd at h2
  obtain ⟨_, _, -, h2⟩ := run_bind_ok h2
  obtain ⟨rfl, -⟩ := run_pure_ok h2
  obtain ⟨e1, e2, e3, e4⟩ := h3
  unfold Table.Listed
  dsimp only
  split_ifs
  · dsimp only
    rw [e3, List.nil_append]
    exact ⟨⟨e1, e2⟩, e4⟩
  · rw [e3, List.nil_append]
    exact ⟨⟨e1, e2⟩, e4⟩
/-! ### C11, C14: the tables of a project -/

theorem find?_first {α : Type} (p : α → Bool) (pre post : List α) (b : α)
    (hpre : ∀ c ∈ pre, p c = false) (hb : p b = true) :
    (pre ++ b :: post).find? p = some b := by
  induction pre with
  | nil => simp [List.find?, hb]
  | cons x xs ih =>
    rw [List.cons_append, List.find?, hpre x (List.mem_cons_self _ _)]
    exact ih (fun c hc => hpre c (List.mem_cons_of_mem _ hc))

theorem parseProjectChild_tables (rt : GoRuntime) (g : Generic) (state s1 : Project × Bool)
    (entry : Keyword × List Generic) (st st1 : List ParseError)
    (hentry : entry ∈ rangeChildren rt g)
    (h : (parseProjectChild rt g state entry).run st = .ok s1 st1)
    (hinv : state.1.TablesOf rt g) :
    s1.1.TablesOf rt g ∧
    (entry.1 = skwTable → s1.1.TableNames = addNames state.1.TableNames (tableNamesOf g)) ∧
    (entry.1 ≠ skwTable → s1.1.TableNames = state.1.TableNames) := by
  unfold parseProjectChild at h
  dsimp only at h
  by_cases hk : entry.1 = skwTable
  · rw [if_pos hk] at h
    obtain ⟨w, st2, h1, h⟩ := run_bind_ok h
    obtain ⟨rfl, -⟩ := run_pure_ok h
    have hlist : entry.2 = g.childrenOf skwTable := by
      rw [(mem_rangeChildren rt g entry hentry).1, hk]
    have h2 := forEach_ok_split _
      (fun pre (w1 : Project) => w1.TablesOf rt g ∧
        w1.TableNames = addNames state.1.TableNames (pre.map Generic.value) ∧
        ∀ c ∈ pre, c.value ∈ w1.TableNames)
      entry.2
      (fun pre b post w1 sa w2 sb hl hi hrun => by
        obtain ⟨hT, hN, hP⟩ := hi
        obtain ⟨table, sc, hpt, hrun⟩ := run_bind_ok hrun
        obtain ⟨hlisted, hname⟩ := parseTable_listed rt b sa sc table hpt
        by_cases hnew : (w1.Tables.get? table.Name).isNone = true
        · rw [if_pos hnew] at hrun
          obtain ⟨rfl, -⟩ := run_pure_ok hrun
          have hnone : w1.Tables.get? table.Name = none := by simpa using hnew
          have hnot := (GoMap.get?_eq_none_iff _ _).mp hnone
          have hnot1 : b.value ∉ w1.TableNames := by
            rw [← hname, ← hT.1]
            exact hnot
          refine ⟨⟨?_, ?_⟩, ?_, ?_⟩
          · dsimp only
            rw [GoMap.keys_set, if_neg hnot, hT.1]
          · intro name t ht
            dsimp only at ht
            rw [GoMap.get?_set] at ht
            by_cases hn : table.Name = name
            · rw [if_pos hn] at ht
              obtain rfl := Option.some.inj ht
              refine ⟨hlisted, hn, b, sa, sc, ?_, hpt⟩
              rw [← hlist, hl]
              apply find?_first
              · intro c hc
                have : c.value ≠ b.value := fun e => hnot1 (e ▸ hP c hc)
                simpa [← hn, hname] using this
              · simp [← hn, hname]
            · rw [if_neg hn] at ht
              exact hT.2 name t ht
          · dsimp only
            rw [List.map_append, List.map_cons, List.map_nil, addNames_append, ← hN,
              if_neg hnot1, hname]
          · intro c hc
            dsimp only
            rcases List.mem_append.mp hc with hc1 | hc1
            · exact List.mem_append_left _ (hP c hc1)
            · rw [List.mem_singleton.mp hc1, hname]
              simp
        · rw [if_neg hnew] at hrun
          obtain ⟨rfl, -⟩ := run_pure_ok hrun
          have hin : b.value ∈ w1.TableNames := by
            cases hg : w1.Tables.get? table.Name with
            | none => rw [hg] at hnew; simp at hnew
            | some v =>
              rw [← hname, ← hT.1]
              exact GoMap.mem_keys_of_get? _ _ _ hg
          refine ⟨hT, ?_, ?_⟩
          · rw [List.map_append, List.map_cons, List.map_nil, addNames_append, ← hN, if_pos hin]
          · intro c hc
            rcases List.mem_append.mp hc with hc1 | hc1
            · exact hP c hc1
            · rw [List.mem_singleton.mp hc1]
              exact hin)
      entry.2 [] state.1 st w st2 rfl ⟨hinv, rfl, fun _ hc => by cases hc⟩ h1
    refine ⟨h2.1, fun _ => ?_, fun hne => absurd hk hne⟩
    rw [h2.2.1, hlist]
    rfl
  · rw [if_neg hk] at h
    refine ⟨?_, fun e => absurd e hk, fun _ => ?_⟩
    all_goals
      split_ifs at h
      · obtain ⟨w, st2, h1, h⟩ := run_bind_ok h
        obtain ⟨rfl, -⟩ := run_pure_ok h
        have h2 := forEach_ok_inv_st _
          (fun (w1 : Project) _ => w1.Tables = state.1.Tables ∧ w1.TableNames = state.1.TableNames)
          entry.2
          (fun b w1 sa w2 sb _ hi hrun => by
            obtain ⟨_, _, -, hrun⟩ := run_bind_ok hrun
            obtain ⟨rfl, -⟩ := run_pure_ok hrun
            exact hi)
          state.1 st w st2 ⟨rfl, rfl⟩ h1
        first
          | exact h2.2
          | exact ⟨by rw [h2.1, h2.2]; exact hinv.1,
              fun n t ht => hinv.2 n t (by rw [← h2.1]; exact ht)⟩
      · obtain ⟨rfl, -⟩ := run_pure_ok h
        first
          | rfl
          | exact hinv
      · obtain ⟨_, _, -, h⟩ := run_bind_ok h
        obtain ⟨rfl, -⟩ := run_pure_ok h
        first
          | rfl
          | exact hinv
theorem parseSchemes_tables (rt : GoRuntime) (g : Generic) (w w1 : Project)
    (st st1 : List ParseError) (h : (parseSchemes rt g w).run st = .ok w1 st1) :
    w1.Tables = w.Tables ∧ w1.TableNames = w.TableNames ∧ w1.Datasets = w.Datasets := by
  unfold parseSchemes at h
  exact forEach_ok_inv_st _
    (fun (w2 : Project) _ => w2.Tables = w.Tables ∧ w2.TableNames = w.TableNames ∧
      w2.Datasets = w.Datasets)
    (g.childrenOf skwScheme)
    (fun b w2 sa w3 sb _ hi hrun => by
      obtain ⟨_, _, -, hrun⟩ := run_bind_ok hrun
      obtain ⟨rfl, -⟩ := run_pure_ok hrun
      exact hi)
    w st w1 st1 ⟨rfl, rfl, rfl⟩ h

theorem parseProject_tables (rt : GoRuntime) (g : Generic) (w : Project)
    (st st1 : List ParseError) (h : (parseProject rt g).run st = .ok w st1) :
    w.TablesOf rt g ∧ w.TableNames = firstOccurrences (tableNamesOf g) := by
  unfold parseProject at h
  obtain ⟨_, _, -, h⟩ := run_bind_ok h
  obtain ⟨_, st2, -, h⟩ := run_bind_ok h
  obtain ⟨r, st3, h1, h⟩ := run_bind_ok h
  obtain ⟨w0, st4, h2, h⟩ := run_bind_ok h
  obtain ⟨rfl, -⟩ := validateProject_ok rt g w0 w _ _ h
  have h3 := forEach_ok_inv (parseProjectChild rt g)
    (fun pre s => s.1.TablesOf rt g ∧
      s.1.TableNames = if skwTable ∈ pre.map Prod.fst then firstOccurrences (tableNamesOf g)
        else [])
    (rangeChildren rt g)
    (fun pre b s sa s1 sb hb hinv hrun => by
      obtain ⟨e1, e2, e3⟩ := parseProjectChild_tables rt g s s1 b sa sb hb hrun hinv.1
      refine ⟨e1, ?_⟩
      by_cases hk : b.1 = skwTable
      · rw [e2 hk, hinv.2]
        simp only [List.map_append, List.map_cons, List.map_nil, List.mem_append,
          List.mem_singleton, hk, or_true, ↓reduceIte]
        split_ifs
        · apply addNames_of_subset
          intro n hn
          exact (mem_firstOccurrences n _).mpr hn
        · exact addNames_nil _
      · have hk1 : ¬ skwTable = b.1 := fun e => hk e.symm
        rw [e3 hk, hinv.2]
        simp only [List.map_append, List.map_cons, List.map_nil, List.mem_append,
          List.mem_singleton, hk1, or_false])
    (rangeChildren rt g) [] _ st2 r st3 (fun _ hb => hb)
    ⟨⟨rfl, fun n t ht => by simp [GoMap.get?] at ht⟩, by simp⟩ h1
  simp only [List.nil_append] at h3
  have h4 : r.1.TableNames = firstOccurrences (tableNamesOf g) := by
    rw [h3.2]
    split_ifs with hmem
    · rfl
    · rw [mem_rangeChildren_keys] at hmem
      rw [tableNamesOf, not_not.mp hmem]
      rfl
  by_cases hs : r.2 = true
  · rw [if_pos hs] at h2
    obtain ⟨e1, e2, -⟩ := parseSchemes_tables rt g r.1 w _ _ h2
    refine ⟨⟨by rw [e1, e2]; exact h3.1.1, fun n t ht => h3.1.2 n t (by rw [← e1]; exact ht)⟩, ?_⟩
    rw [e2, h4]
  · rw [if_neg hs] at h2
    obtain ⟨rfl, -⟩ := run_pure_ok h2
    exact ⟨h3.1, h4⟩
/-! ### The project `ParseSML` returns -/

theorem computeDerived_zero (rt : GoRuntime) : computeDerivedAttributesInProject rt {} = {} := by
  unfold computeDerivedAttributesInProject
  have h : rt.strOrder 7 (({} : Project).Datasets.keys) = [] := strOrder_nil rt 7
  rw [h]
  rfl

theorem finishParseSML_zero (rt : GoRuntime) (errs : List ParseError) (token : Token) :
    (finishParseSML rt {} errs token).1 = {} := by
  unfold finishParseSML
  dsimp only
  split_ifs <;> first | rfl | exact computeDerived_zero rt

theorem finishParseSML_tables (rt : GoRuntime) (w : Project) (errs : List ParseError)
    (token : Token) :
    (finishParseSML rt w errs token).1.Tables = w.Tables ∧
    (finishParseSML rt w errs token).1.TableNames = w.TableNames := by
  unfold finishParseSML
  dsimp only
  split_ifs <;> exact ⟨rfl, rfl⟩

theorem finishParseSML_no_errors (rt : GoRuntime) (w : Project) (errs : List ParseError)
    (token : Token) (h : (finishParseSML rt w errs token).2 = []) :
    errs = [] ∧ (finishParseSML rt w errs token).1 = computeDerivedAttributesInProject rt w := by
  unfold finishParseSML at h ⊢
  dsimp only at h ⊢
  by_cases h1 : token.kw ≠ kwEOF
  · rw [if_pos h1] at h
    rw [if_pos (by simp)] at h
    simp at h
  · rw [if_neg h1] at h ⊢
    by_cases h2 : errs.length > 0
    · rw [if_pos h2] at h
      dsimp only at h
      rw [h] at h2
      simp at h2
    · rw [if_neg h2]
      exact ⟨List.length_eq_zero.mp (by omega), rfl⟩

theorem ParseSML_cases (rt : GoRuntime) (input projectName : Str) :
    (reachesNameOverride rt input = false ∧ (ParseSML rt input projectName).1 = {}) ∨
    (reachesNameOverride rt input = true ∧
      ∃ w errs token, (parseProject rt (projectTree input)).run [] = .ok w errs ∧
        ParseSML rt input projectName =
          finishParseSML rt (if projectName ≠ [] then { w with Name := projectName } else w)
            errs token) := by
  unfold ParseSML reachesNameOverride projectTree
  dsimp only
  by_cases h1 : (recv (startLex input smlKeywords)).1.kw = kwError
  · rw [if_pos h1]
    left
    refine ⟨?_, rfl⟩
    have : (recv (startLex input smlKeywords)).1.kw ≠ skwProject := by
      rw [h1]
      decide
    simp [this]
  rw [if_neg h1]
  by_cases h2 : (recv (startLex input smlKeywords)).1.kw = kwEOF
  · rw [if_pos h2]
    left
    refine ⟨?_, finishParseSML_zero _ _ _⟩
    have : (recv (startLex input smlKeywords)).1.kw ≠ skwProject := by
      rw [h2]
      decide
    simp [this]
  rw [if_neg h2]
  by_cases h3 : (recv (startLex input smlKeywords)).1.kw = skwProject
  swap
  · rw [if_neg h3]
    left
    refine ⟨?_, rfl⟩
    simp [h3]
  rw [if_pos h3]
  by_cases h4 : (parseGeneric (parseGenericFuel (recv (startLex input smlKeywords)).2)
      (recv (startLex input smlKeywords)).2
      (recv (startLex input smlKeywords)).1).parseErrors.length > 0
  · rw [if_pos h4]
    left
    refine ⟨?_, rfl⟩
    have : ¬ (parseGeneric (parseGenericFuel (recv (startLex input smlKeywords)).2)
      (recv (startLex input smlKeywords)).2
      (recv (startLex input smlKeywords)).1).parseErrors.length = 0 := by omega
    simp [this]
  rw [if_neg h4]
  by_cases h5 : (findIndentationErrors rt (parseGeneric (parseGenericFuel
      (recv (startLex input smlKeywords)).2) (recv (startLex input smlKeywords)).2
      (recv (startLex input smlKeywords)).1).g smlKwTree smlKeywords).length > 0
  · rw [if_pos h5]
    left
    refine ⟨?_, rfl⟩
    have : ¬ (findIndentationErrors rt (parseGeneric (parseGenericFuel
      (recv (startLex input smlKeywords)).2) (recv (startLex input smlKeywords)).2
      (recv (startLex input smlKeywords)).1).g smlKwTree smlKeywords).length = 0 := by omega
    simp [this]
  rw [if_neg h5]
  have e4 : (parseGeneric (parseGenericFuel (recv (startLex input smlKeywords)).2)
      (recv (startLex input smlKeywords)).2
      (recv (startLex input smlKeywords)).1).parseErrors.length = 0 := by omega
  have e5 : (findIndentationErrors rt (parseGeneric (parseGenericFuel
      (recv (startLex input smlKeywords)).2) (recv (startLex input smlKeywords)).2
      (recv (startLex input smlKeywords)).1).g smlKwTree smlKeywords).length = 0 := by omega
  cases hrun : (parseProject rt (parseGeneric (parseGenericFuel (recv (startLex input
      smlKeywords)).2) (recv (startLex input smlKeywords)).2
      (recv (startLex input smlKeywords)).1).g).run [] with
  | ok project errs =>
    right
    refine ⟨?_, project, errs, _, rfl, rfl⟩
    simp [h3, e4, e5, Outcome.returns]
  | panicErrors pe =>
    left
    refine ⟨?_, rfl⟩
    simp [Outcome.returns]
  | panicRuntime msg =>
    left
    refine ⟨?_, rfl⟩
    simp [Outcome.returns]
theorem named_tables (w : Project) (projectName : Str) :
    (if projectName ≠ [] then { w with Name := projectName } else w).Tables = w.Tables ∧
    (if projectName ≠ [] then { w with Name := projectName } else w).TableNames = w.TableNames ∧
    (if projectName ≠ [] then { w with Name := projectName } else w).Datasets = w.Datasets := by
  split_ifs <;> exact ⟨rfl, rfl, rfl⟩

/-- C11: for every input, every `projectName` and every order of the visits
of the maps, the Project `ParseSML` returns has no repeated entry in
`TableNames`; the entries of `TableNames` are the keys of `Tables`, so the
two have the same length; `TableNames` is the list of the names of the
`table` children of the project node, each once, in the order of the first
`table` child of each name (and is empty when the parse does not come to the
end of `parseProject`); and for every table in `Tables` the entries of
`ColumnNames` are, without repetition, the keys of `Columns`. -/
theorem ParseSML_table_names (rt : GoRuntime) (input projectName : Str) :
    (ParseSML rt input projectName).1.TableNames.Nodup ∧
    (ParseSML rt input projectName).1.Tables.keys = (ParseSML rt input projectName).1.TableNames ∧
    (ParseSML rt input projectName).1.TableNames.length =
      (ParseSML rt input projectName).1.Tables.length ∧
    (ParseSML rt input projectName).1.TableNames =
      (if reachesNameOverride rt input then firstOccurrences (tableNamesOf (projectTree input))
       else []) ∧
    ∀ name t, (ParseSML rt input projectName).1.Tables.get? name = some t →
      t.Columns.keys = t.ColumnNames ∧ t.ColumnNames.Nodup ∧
        t.ColumnNames.length = t.Columns.length := by
  rcases ParseSML_cases rt input projectName with ⟨hr, hp⟩ | ⟨hr, w, errs, token, hrun, hp⟩
  · rw [hp, hr]
    refine ⟨List.nodup_nil, rfl, rfl, rfl, ?_⟩
    intro name t ht
    simp [GoMap.get?] at ht
  · obtain ⟨⟨hkeys, htab⟩, hnames⟩ := parseProject_tables rt _ w [] errs hrun
    obtain ⟨e1, e2⟩ := finishParseSML_tables rt
      (if projectName ≠ [] then { w with Name := projectName } else w) errs token
    obtain ⟨e3, e4, -⟩ := named_tables w projectName
    rw [hp, hr, e1, e2, e3, e4]
    refine ⟨?_, hkeys, ?_, ?_, ?_⟩
    · rw [hnames]
      exact firstOccurrences_nodup _
    · rw [← hkeys, GoMap.keys, List.length_map]
    · rw [hnames]
      rfl
    · intro name t ht
      obtain ⟨⟨h1, h2⟩, -⟩ := htab name t ht
      refine ⟨h1, h2, ?_⟩
      rw [← h1, GoMap.keys, List.length_map]
/-! ### C14: a repeated table -/

theorem tableLoop_run (rt : GoRuntime) (list : List Generic) (w0 : Project)
    (s : List ParseError) :
    (∃ w1 e, (forEach list w0 (fun w child => do
        let table ← parseTable rt child
        if (w.Tables.get? table.Name).isNone then
          pure { w with
            Tables := w.Tables.set table.Name table
            TableNames := w.TableNames ++ [table.Name] }
        else pure w)).run s = .ok w1 e ∧ (parseTablesOnly rt list).run s = .ok () e) ∨
    (∃ e, (forEach list w0 (fun w child => do
        let table ← parseTable rt child
        if (w.Tables.get? table.Name).isNone then
          pure { w with
            Tables := w.Tables.set table.Name table
            TableNames := w.TableNames ++ [table.Name] }
        else pure w)).run s = .panicErrors e ∧
      (parseTablesOnly rt list).run s = .panicErrors e) ∨
    (∃ m, (forEach list w0 (fun w child => do
        let table ← parseTable rt child
        if (w.Tables.get? table.Name).isNone then
          pure { w with
            Tables := w.Tables.set table.Name table
            TableNames := w.TableNames ++ [table.Name] }
        else pure w)).run s = .panicRuntime m ∧
      (parseTablesOnly rt list).run s = .panicRuntime m) := by
  unfold parseTablesOnly
  induction list generalizing w0 s with
  | nil => exact Or.inl ⟨w0, s, rfl, rfl⟩
  | cons c cs ih =>
    simp only [forEach, run_bind]
    cases hpt : (parseTable rt c).run s with
    | ok t s1 =>
      dsimp only
      by_cases hn : (w0.Tables.get? t.Name).isNone = true
      · rw [if_pos hn]
        simp only [run_pure]
        exact ih _ s1
      · rw [if_neg hn]
        simp only [run_pure]
        exact ih _ s1
    | panicErrors e => exact Or.inr (Or.inl ⟨e, rfl, rfl⟩)
    | panicRuntime m => exact Or.inr (Or.inr ⟨m, rfl, rfl⟩)

theorem parseProjectChild_table_errors (rt : GoRuntime) (g : Generic) (w0 : Project)
    (flag : Bool) (list : List Generic) (s : List ParseError) :
    ((parseProjectChild rt g (w0, flag) (skwTable, list)).run s).errors =
      ((parseTablesOnly rt list).run s).errors ∧
    ((parseProjectChild rt g (w0, flag) (skwTable, list)).run s).returns =
      ((parseTablesOnly rt list).run s).returns := by
  unfold parseProjectChild
  dsimp only
  rw [if_pos rfl, run_bind]
  rcases tableLoop_run rt list w0 s with ⟨w1, e, h1, h2⟩ | ⟨e, h1, h2⟩ | ⟨m, h1, h2⟩
  · rw [h1, h2]
    exact ⟨rfl, rfl⟩
  · rw [h1, h2]
    exact ⟨rfl, rfl⟩
  · rw [h1, h2]
    exact ⟨rfl, rfl⟩
theorem filter_eq_length_one (l : List Str) (a : Str) (h : l.Nodup) (hm : a ∈ l) :
    (l.filter (fun n => n = a)).length = 1 := by
  induction l with
  | nil => cases hm
  | cons x xs ih =>
    obtain ⟨hx, hxs⟩ := List.nodup_cons.mp h
    by_cases hxa : x = a
    · subst hxa
      have : xs.filter (fun n => decide (n = x)) = [] := by
        rw [List.filter_eq_nil_iff]
        intro y hy
        have : y ≠ x := fun e => hx (e ▸ hy)
        simpa using this
      simp [List.filter_cons, this]
    · have hm1 : a ∈ xs := by
        rcases List.mem_cons.mp hm with e | e
        · exact absurd e.symm hxa
        · exact e
      simp only [List.filter_cons, hxa, decide_False, Bool.false_eq_true, ↓reduceIte]
      exact ih hxs hm1

/-- C14: when `parseProject` returns for a project node, then for every
name borne by one or more of its `table` children, `Tables[name]` is a table
that `parseTable` returned for the first such child in the order of the
source, and the name is once in `TableNames`; and the loop over the `table`
children records exactly the errors of the calls of `parseTable` on them,
one call for each child, whether a name is repeated or not. -/
theorem parseProject_repeated_table (rt : GoRuntime) (g : Generic) (w : Project)
    (st st1 : List ParseError) (name : Str) (child : Generic)
    (h : (parseProject rt g).run st = .ok w st1)
    (hchild : (g.childrenOf skwTable).find? (fun c => c.value = name) = some child) :
    (∃ sa sb t, (parseTable rt child).run sa = .ok t sb ∧ w.Tables.get? name = some t) ∧
    (w.TableNames.filter (fun n => n = name)).length = 1 ∧
    ∀ w0 flag list s,
      ((parseProjectChild rt g (w0, flag) (skwTable, list)).run s).errors =
        ((parseTablesOnly rt list).run s).errors ∧
      ((parseProjectChild rt g (w0, flag) (skwTable, list)).run s).returns =
        ((parseTablesOnly rt list).run s).returns := by
  obtain ⟨⟨hkeys, htab⟩, hnames⟩ := parseProject_tables rt g w st st1 h
  have hmem : name ∈ w.TableNames := by
    rw [hnames, mem_firstOccurrences, tableNamesOf, List.mem_map]
    refine ⟨child, List.mem_of_find?_eq_some hchild, ?_⟩
    simpa using List.find?_some hchild
  have hnodup : w.TableNames.Nodup := by
    rw [hnames]
    exact firstOccurrences_nodup _
  refine ⟨?_, filter_eq_length_one _ _ hnodup hmem,
    fun w0 flag list s => parseProjectChild_table_errors rt g w0 flag list s⟩
  obtain ⟨t, ht⟩ := GoMap.get?_isSome_of_mem w.Tables name (by rw [hkeys]; exact hmem)
  obtain ⟨-, -, c, sa, sb, hc, hrun⟩ := htab name t ht
  rw [hchild] at hc
  obtain rfl := Option.some.inj hc
  exact ⟨sa, sb, t, hrun, ht⟩

set_option maxRecDepth 1000000 in
/-- C14 at a project node with two `table` children of the name `t`: the
table under `t` is that of the first child, with the SQL `a`. -/
theorem parseProject_repeated_table_witness :
    ((twoTablesProject.childrenOf skwTable).map Generic.value = ["t".toList, "t".toList]) ∧
    (twoTablesResult.Tables.get? "t".toList).map Table.SQL = some "a".toList ∧
    ((∃ sa sb t, (parseTable GoRuntime.insertionOrder
        (Generic.mk skwTable "t".toList [Generic.mk skwSQL "a".toList [] 3] 2)).run sa =
          .ok t sb ∧ twoTablesResult.Tables.get? "t".toList = some t) ∧
      (twoTablesResult.TableNames.filter (fun n => n = "t".toList)).length = 1 ∧
      ∀ w0 flag list s,
        ((parseProjectChild GoRuntime.insertionOrder twoTablesProject (w0, flag)
            (skwTable, list)).run s).errors =
          ((parseTablesOnly GoRuntime.insertionOrder list).run s).errors ∧
        ((parseProjectChild GoRuntime.insertionOrder twoTablesProject (w0, flag)
            (skwTable, list)).run s).returns =
          ((parseTablesOnly GoRuntime.insertionOrder list).run s).returns) :=
  ⟨by decide, by decide,
    parseProject_repeated_table GoRuntime.insertionOrder twoTablesProject twoTablesResult [] []
      "t".toList (Generic.mk skwTable "t".toList [Generic.mk skwSQL "a".toList [] 3] 2)
      (by rfl) (by rfl)⟩
/-! ### C20: the tables of a dataset -/

theorem foldl_copy_get? (src : GoMap Column) (l : List Str) (m0 : GoMap Column) (x : Str) :
    (l.foldl (fun (cols : GoMap Column) k =>
        match src.get? k with
        | some c => cols.set k c
        | none => cols) m0).get? x =
      if x ∈ l ∧ (src.get? x).isSome then src.get? x else m0.get? x := by
  induction l generalizing m0 with
  | nil => simp
  | cons k ks ih =>
    rw [List.foldl_cons, ih]
    by_cases hx : x ∈ ks ∧ (src.get? x).isSome = true
    · rw [if_pos hx, if_pos ⟨List.mem_cons_of_mem _ hx.1, hx.2⟩]
    · rw [if_neg hx]
      cases hk : src.get? k with
      | none =>
        dsimp only
        by_cases hxk : x = k
        · subst hxk
          rw [if_neg (by rw [hk]; simp)]
        · have : ¬ (x ∈ k :: ks ∧ (src.get? x).isSome = true) := by
            rintro ⟨h1, h2⟩
            rcases List.mem_cons.mp h1 with e | e
            · exact hxk e
            · exact hx ⟨e, h2⟩
          rw [if_neg this]
      | some c =>
        dsimp only
        rw [GoMap.get?_set]
        by_cases hxk : k = x
        · subst hxk
          rw [if_pos rfl, if_pos ⟨List.mem_cons_self _ _, by rw [hk]; rfl⟩, hk]
        · rw [if_neg hxk]
          have : ¬ (x ∈ k :: ks ∧ (src.get? x).isSome = true) := by
            rintro ⟨h1, h2⟩
            rcases List.mem_cons.mp h1 with e | e
            · exact hxk e.symm
            · exact hx ⟨e, h2⟩
          rw [if_neg this]

theorem copyTable_makeTable (rt : GoRuntime) (src : Table) :
    (copyTable rt (makeTable src.Name) src).Name = src.Name ∧
    (copyTable rt (makeTable src.Name) src).SQL = src.SQL ∧
    (copyTable rt (makeTable src.Name) src).Label = src.Label ∧
    (copyTable rt (makeTable src.Name) src).ColumnNames = src.ColumnNames ∧
    (copyTable rt (makeTable src.Name) src).Pk = src.Pk ∧
    ∀ k, (copyTable rt (makeTable src.Name) src).Columns.get? k = src.Columns.get? k := by
  have hcols : ∀ (m0 : GoMap Column) (k : Str), m0 = [] →
      ((rt.strOrder 3 src.Columns.keys).foldl (fun (cols : GoMap Column) k =>
        match src.Columns.get? k with
        | some c => cols.set k c
        | none => cols) m0).get? k = src.Columns.get? k := by
    intro m0 k hm0
    rw [foldl_copy_get?, hm0]
    by_cases hk : k ∈ rt.strOrder 3 src.Columns.keys ∧ (src.Columns.get? k).isSome = true
    · rw [if_pos hk]
    · rw [if_neg hk]
      cases hg : src.Columns.get? k with
      | none => rfl
      | some c =>
        exfalso
        apply hk
        refine ⟨((rt.strOrder_perm 3 _).mem_iff).mpr (GoMap.mem_keys_of_get? _ _ _ hg), ?_⟩
        rw [hg]
        rfl
  unfold copyTable makeTable
  dsimp only
  by_cases h1 : src.SQL ≠ []
  · by_cases h2 : src.Label ≠ []
    · simp only [if_pos h1, if_pos h2, List.nil_append, true_and]
      exact fun k => hcols _ k rfl
    · simp only [if_pos h1, if_neg h2, List.nil_append, true_and]
      exact ⟨(not_not.mp h2).symm, fun k => hcols _ k rfl⟩
  · by_cases h2 : src.Label ≠ []
    · simp only [if_neg h1, if_pos h2, List.nil_append, true_and]
      exact ⟨(not_not.mp h1).symm, fun k => hcols _ k rfl⟩
    · simp only [if_neg h1, if_neg h2, List.nil_append, true_and]
      exact ⟨(not_not.mp h1).symm, (not_not.mp h2).symm, fun k => hcols _ k rfl⟩

theorem foldl_set_get? {α : Type} (key : Str → Str) (val : Str → α) (l : List Str)
    (hkey : ∀ t ∈ l, key t = t) (m0 : GoMap α) (x : Str) :
    (l.foldl (fun (m : GoMap α) t => m.set (key t) (val t)) m0).get? x =
      if x ∈ l then some (val x) else m0.get? x := by
  induction l generalizing m0 with
  | nil => simp
  | cons t ts ih =>
    rw [List.foldl_cons, ih (fun a ha => hkey a (List.mem_cons_of_mem _ ha))]
    by_cases hx : x ∈ ts
    · rw [if_pos hx, if_pos (List.mem_cons_of_mem _ hx)]
    · rw [if_neg hx, GoMap.get?_set, hkey t (List.mem_cons_self _ _)]
      by_cases hxt : t = x
      · subst hxt
        rw [if_pos rfl, if_pos (List.mem_cons_self _ _)]
      · rw [if_neg hxt]
        have : x ∉ t :: ts := by
          intro h
          rcases List.mem_cons.mp h with e | e
          · exact hxt e.symm
          · exact hx e
        rw [if_neg this]
theorem foldl_done (F : GoMap Dataset → Str → GoMap Dataset) (G : Dataset → Dataset)
    (Good Done : Dataset → Prop)
    (hF : ∀ m n, F m n = match m.get? n with
      | none => m
      | some d => m.set n (G d))
    (hgood : ∀ d, Good d → Good (G d)) (hdone : ∀ d, Good d → Done (G d)) :
    ∀ (l : List Str) (m : GoMap Dataset), (∀ n d, m.get? n = some d → Good d) →
      ∀ n d, (l.foldl F m).get? n = some d →
        Good d ∧ ((n ∈ l ∨ ∀ d0, m.get? n = some d0 → Done d0) → Done d) := by
  intro l
  induction l with
  | nil =>
    intro m hm n d hd
    refine ⟨hm n d hd, fun h => ?_⟩
    rcases h with h | h
    · cases h
    · exact h d hd
  | cons k ks ih =>
    intro m hm n d hd
    rw [List.foldl_cons] at hd
    have hstep : ∀ n d0, (F m k).get? n = some d0 →
        Good d0 ∧ ((n = k ∨ ∀ d1, m.get? n = some d1 → Done d1) → Done d0) := by
      intro n d0 h0
      rw [hF] at h0
      cases hk : m.get? k with
      | none =>
        rw [hk] at h0
        dsimp only at h0
        refine ⟨hm n d0 h0, fun h => ?_⟩
        rcases h with h | h
        · rw [h, hk] at h0
          cases h0
        · exact h d0 h0
      | some dk =>
        rw [hk] at h0
        dsimp only at h0
        rw [GoMap.get?_set] at h0
        by_cases hkn : k = n
        · rw [if_pos hkn] at h0
          obtain rfl := Option.some.inj h0
          exact ⟨hgood dk (hm k dk hk), fun _ => hdone dk (hm k dk hk)⟩
        · rw [if_neg hkn] at h0
          refine ⟨hm n d0 h0, fun h => ?_⟩
          rcases h with h | h
          · exact absurd h.symm hkn
          · exact h d0 h0
    obtain ⟨h1, h2⟩ := ih (F m k) (fun n d0 h0 => (hstep n d0 h0).1) n d hd
    refine ⟨h1, fun h => h2 ?_⟩
    rcases h with h | h
    · rcases List.mem_cons.mp h with e | e
      · exact Or.inr (fun d0 h0 => (hstep n d0 h0).2 (Or.inl e))
      · exact Or.inl e
    · exact Or.inr (fun d0 h0 => (hstep n d0 h0).2 (Or.inr h))

theorem computeDerived_tables (rt : GoRuntime) (w : Project)
    (hw : ∀ n d, w.Datasets.get? n = some d →
      ∀ t ∈ d.TableNames, ∃ table, w.Tables.get? t = some table ∧ table.Name = t)
    (n : Str) (d : Dataset)
    (hd : (computeDerivedAttributesInProject rt w).Datasets.get? n = some d) :
    ∀ t ∈ d.TableNames, d.Tables.get? t = some (derivedTable rt w t) := by
  have hname : ∀ t table, w.Tables.get? t = some table → table.Name = t →
      (derivedTable rt w t).Name = t := by
    intro t table h1 h2
    unfold derivedTable
    rw [h1]
    exact (copyTable_makeTable rt table).1.trans h2
  have h := foldl_done
    (fun (datasets : GoMap Dataset) name =>
      match datasets.get? name with
      | none => datasets
      | some dataset =>
        datasets.set name
          { dataset with
            Tables := dataset.TableNames.foldl
              (fun (tables : GoMap Table) table =>
                tables.set (derivedTable rt w table).Name (derivedTable rt w table))
              dataset.Tables })
    (fun dataset =>
      { dataset with
        Tables := dataset.TableNames.foldl
          (fun (tables : GoMap Table) table =>
            tables.set (derivedTable rt w table).Name (derivedTable rt w table))
          dataset.Tables })
    (fun d0 => ∀ t ∈ d0.TableNames, (derivedTable rt w t).Name = t)
    (fun d0 => ∀ t ∈ d0.TableNames, d0.Tables.get? t = some (derivedTable rt w t))
    (fun m k => rfl)
    (fun d0 h0 => h0)
    (fun d0 h0 t ht => by
      dsimp only
      rw [foldl_set_get? _ _ _ h0, if_pos ht])
    (rt.strOrder 7 w.Datasets.keys) w.Datasets
    (fun n0 d0 h0 t ht => by
      obtain ⟨table, h1, h2⟩ := hw n0 d0 h0 t ht
      exact hname t table h1 h2)
    n d hd
  refine h.2 (Or.inl ?_)
  obtain ⟨ds, hds, -⟩ := computeDerived_datasets rt w n d hd
  exact ((rt.strOrder_perm 7 _).mem_iff).mpr (GoMap.mem_keys_of_get? _ _ _ hds)
/-- C20: for every Project `ParseSML` returns with no error, every dataset
`D` of it and every name `t` in `D.TableNames`, the project has a table
`P.Tables[t]` and `D.Tables[t]` has the name `t`, the SQL and the Label of
`P.Tables[t]`, the same column under every key as `P.Tables[t].Columns`, and
the `ColumnNames` of `P.Tables[t]`, in which no name is repeated, however
often `D` lists `t`. -/
theorem ParseSML_dataset_tables (rt : GoRuntime) (input projectName : Str)
    (herr : (ParseSML rt input projectName).2 = []) (dname : Str) (D : Dataset)
    (hD : (ParseSML rt input projectName).1.Datasets.get? dname = some D) (t : Str)
    (ht : t ∈ D.TableNames) :
    ∃ T DT, (ParseSML rt input projectName).1.Tables.get? t = some T ∧
      D.Tables.get? t = some DT ∧ DT.Name = t ∧ DT.SQL = T.SQL ∧ DT.Label = T.Label ∧
      (∀ k, DT.Columns.get? k = T.Columns.get? k) ∧ DT.ColumnNames = T.ColumnNames ∧
      DT.ColumnNames.Nodup := by
  rcases ParseSML_cases rt input projectName with ⟨-, hp⟩ | ⟨-, w, errs, token, hrun, hp⟩
  · rw [hp] at hD
    simp [GoMap.get?] at hD
  · rw [hp] at herr hD ⊢
    obtain ⟨herrs, hfin⟩ := finishParseSML_no_errors rt _ errs token herr
    subst herrs
    rw [hfin] at hD ⊢
    obtain ⟨e3, e4, e5⟩ := named_tables w projectName
    obtain ⟨⟨-, htab⟩, -⟩ := parseProject_tables rt _ w [] [] hrun
    obtain ⟨pname, hval⟩ := parseProject_ok rt _ w [] [] hrun
    have hw : ∀ n d,
        (if projectName ≠ [] then { w with Name := projectName } else w).Datasets.get? n =
          some d →
        ∀ t ∈ d.TableNames, ∃ table,
          (if projectName ≠ [] then { w with Name := projectName } else w).Tables.get? t =
            some table ∧ table.Name = t := by
      intro n d hd t0 ht0
      rw [e5] at hd
      rw [e3]
      cases hg : w.Tables.get? t0 with
      | none =>
        have := (hval n d hd).1 t0 ht0 hg
        simp at this
      | some table => exact ⟨table, rfl, (htab t0 table hg).2.1⟩
    have hdone := computeDerived_tables rt _ hw dname D hD t ht
    obtain ⟨ds, hds, -, hnames, -⟩ := computeDerived_datasets rt _ dname D hD
    obtain ⟨T, hT, hTn⟩ := hw dname ds hds t (by rw [← hnames]; exact ht)
    have hTw : w.Tables.get? t = some T := by rw [← e3]; exact hT
    obtain ⟨c1, c2, c3, c4, -, c6⟩ := copyTable_makeTable rt T
    have hder : derivedTable rt (if projectName ≠ [] then { w with Name := projectName } else w)
        t = copyTable rt (makeTable T.Name) T := by
      unfold derivedTable
      rw [hT]
      rfl
    rw [hder] at hdone
    refine ⟨T, _, hT, hdone, c1.trans hTn, c2, c3, c6, c4, ?_⟩
    rw [c4]
    exact (htab t T hTw).1.2

set_option maxRecDepth 1000000 in
/-- C20 at a document whose dataset `d` lists the table `t` twice: the
table of the dataset has the one column name `c` once. -/
theorem ParseSML_dataset_tables_witness :
    twiceListedDataset.TableNames = ["t".toList, "t".toList] ∧
    (ParseSML GoRuntime.insertionOrder twiceListedDocument []).1.Tables.get? "t".toList =
      some twiceListedTable ∧
    twiceListedDataset.Tables.get? "t".toList = some twiceListedTable ∧
    ∃ T DT, (ParseSML GoRuntime.insertionOrder twiceListedDocument []).1.Tables.get? "t".toList =
        some T ∧
      twiceListedDataset.Tables.get? "t".toList = some DT ∧ DT.Name = "t".toList ∧
      DT.SQL = T.SQL ∧ DT.Label = T.Label ∧
      (∀ k, DT.Columns.get? k = T.Columns.get? k) ∧ DT.ColumnNames = T.ColumnNames ∧
      DT.ColumnNames.Nodup :=
  ⟨by decide, by decide!, by decide,
    ParseSML_dataset_tables GoRuntime.insertionOrder twiceListedDocument [] (by decide!)
      "d".toList twiceListedDataset (by decide!) "t".toList (by decide)⟩
/-! ### C19: `parseGeneric` on the tokens of a tree -/

theorem skipErrorTokens_ok (t : Token) (ts : List Token) (h : t.kw ≠ kwError) :
    skipErrorTokens t ts [] = (t, ts, []) := by
  cases ts with
  | nil => simp [skipErrorTokens, h]
  | cons a as => simp [skipErrorTokens, h]

theorem flatTokens_ne_nil (g : Generic) (d : Nat) : flatTokens g d ≠ [] := by
  cases g with
  | mk kw value children line => simp [flatTokens]

theorem flatTokens_head (g : Generic) (d : Nat) (l : List Token) :
    ∃ ts, flatTokens g d ++ l =
      ({ indent := (d : Int), kw := g.kw, value := g.value, line := g.line } : Token) :: ts ∧
      ts = flatTokensList g.children (d + 2) ++ l := by
  cases g with
  | mk kw value children line => exact ⟨_, by simp [flatTokens, Generic.kw, Generic.value,
      Generic.line, Generic.children], rfl⟩

theorem flatTokens_head_mem (c : Generic) (cs : List Generic) (d : Nat) :
    ({ indent := (d : Int), kw := c.kw, value := c.value, line := c.line } : Token) ∈
      flatTokensList (c :: cs) d := by
  rw [flatTokensList]
  apply List.mem_append_left
  cases c with
  | mk k v ch ln =>
    rw [flatTokens]
    exact List.mem_cons_self _ _

mutual
theorem parseGeneric_flat : ∀ (g : Generic) (d fuel : Nat) (nextTok : Token)
    (rest : List Token),
    (flatTokens g d).length * 2 ≤ fuel + 1 →
    (∀ t ∈ flatTokensList g.children (d + 2), t.kw ≠ kwError) →
    nextTok.kw ≠ kwError → nextTok.indent ≤ (d : Int) →
    parseGeneric fuel (flatTokensList g.children (d + 2) ++ nextTok :: rest)
        { indent := (d : Int), kw := g.kw, value := g.value, line := g.line } =
      { g := g, nextToken := nextTok, parseErrors := [], l := rest }
  | .mk kw value children line, d, fuel, nextTok, rest, hfuel, hkw, hnext, hind => by
    simp only [Generic.children, Generic.kw, Generic.value, Generic.line] at hkw ⊢
    simp only [flatTokens, List.length_cons] at hfuel
    cases fuel with
    | zero => omega
    | succ fuel =>
      rw [parseGeneric]
      cases children with
      | nil =>
        simp only [flatTokensList, List.nil_append, recv]
        rw [skipErrorTokens_ok _ _ hnext]
        have : ¬ nextTok.indent > (d : Int) := by omega
        simp only [this, ↓reduceIte]
      | cons c cs =>
        obtain ⟨ts, h1, h2⟩ := flatTokens_head c (d + 2)
            (flatTokensList cs (d + 2) ++ nextTok :: rest)
        have hl : flatTokensList (c :: cs) (d + 2) ++ nextTok :: rest =
            ({ indent := ((d + 2 : Nat) : Int), kw := c.kw, value := c.value, line := c.line } :
              Token) :: ts := by
          rw [flatTokensList, List.append_assoc, h1]
        rw [hl]
        simp only [recv]
        rw [skipErrorTokens_ok _ _ (hkw _ (flatTokens_head_mem c cs (d + 2)))]
        have hgt : ((d + 2 : Nat) : Int) > (d : Int) := by omega
        simp only [hgt, ↓reduceIte]
        have hc := parseChildren_flat (c :: cs) (d + 2) fuel [] nextTok rest _ ts
          (by omega) hkw hnext (by omega) hl
        rw [hc]
        have : ¬ nextTok.indent > (d : Int) := by omega
        simp only [this, ↓reduceIte, Generic.children, List.nil_append]
theorem parseChildren_flat : ∀ (cs : List Generic) (d fuel : Nat) (acc : List Generic)
    (nextTok : Token) (rest : List Token) (t : Token) (ts : List Token),
    (flatTokensList cs d).length * 2 ≤ fuel →
    (∀ t ∈ flatTokensList cs d, t.kw ≠ kwError) →
    nextTok.kw ≠ kwError → nextTok.indent < (d : Int) →
    flatTokensList cs d ++ nextTok :: rest = t :: ts →
    parseChildren fuel (d : Int) ts t acc [] =
      { g := .mk 0 [] (acc ++ cs) 0, nextToken := nextTok, parseErrors := [], l := rest }
  | [], d, fuel, acc, nextTok, rest, t, ts, hfuel, hkw, hnext, hind, hl => by
    simp only [flatTokensList, List.nil_append, List.cons.injEq] at hl
    obtain ⟨rfl, rfl⟩ := hl
    have : ¬ nextTok.indent = (d : Int) := by omega
    cases fuel with
    | zero => simp [parseChildren]
    | succ fuel => simp [parseChildren, this]
  | c :: cs, d, fuel, acc, nextTok, rest, t, ts, hfuel, hkw, hnext, hind, hl => by
    obtain ⟨ts1, h1, h2⟩ := flatTokens_head c d (flatTokensList cs d ++ nextTok :: rest)
    rw [flatTokensList, List.append_assoc, h1, List.cons.injEq] at hl
    obtain ⟨rfl, rfl⟩ := hl
    have hlen : (flatTokensList (c :: cs) d).length =
        (flatTokens c d).length + (flatTokensList cs d).length := by
      rw [flatTokensList, List.length_append]
    have hpos : 0 < (flatTokens c d).length := List.length_pos.mpr (flatTokens_ne_nil c d)
    cases fuel with
    | zero => omega
    | succ fuel =>
      rw [parseChildren]
      simp only [↓reduceIte]
      have hkwc : ∀ t ∈ flatTokensList c.children (d + 2), t.kw ≠ kwError := by
        intro t ht
        apply hkw
        rw [flatTokensList]
        apply List.mem_append_left
        cases c with
        | mk k v ch ln =>
          simp only [flatTokens, Generic.children] at ht ⊢
          exact List.mem_cons_of_mem _ ht
      have hkwcs : ∀ t ∈ flatTokensList cs d, t.kw ≠ kwError := by
        intro t ht
        apply hkw
        rw [flatTokensList]
        exact List.mem_append_right _ ht
      rw [h2]
      cases hcs : flatTokensList cs d ++ nextTok :: rest with
      | nil => simp at hcs
      | cons t2 ts2 =>
        have ht2 : t2.kw ≠ kwError ∧ t2.indent ≤ (d : Int) := by
          cases cs with
          | nil =>
            simp only [flatTokensList, List.nil_append, List.cons.injEq] at hcs
            rw [← hcs.1]
            exact ⟨hnext, by omega⟩
          | cons c2 cs2 =>
            obtain ⟨ts3, h3, -⟩ := flatTokens_head c2 d (flatTokensList cs2 d ++ nextTok :: rest)
            rw [flatTokensList, List.append_assoc, h3, List.cons.injEq] at hcs
            rw [← hcs.1]
            exact ⟨hkwcs _ (flatTokens_head_mem c2 cs2 d), le_refl _⟩
        have hg := parseGeneric_flat c d fuel t2 ts2 (by omega) hkwc ht2.1 ht2.2
        rw [hg]
        simp only [List.append_nil]
        have hrec := parseChildren_flat cs d fuel (acc ++ [c]) nextTok rest t2 ts2 (by omega)
          hkwcs hnext hind hcs
        rw [hrec]
        simp
end
/-! ### C19: the lexer on a line of `generic2string` -/

theorem TrimLeft_length (s cutset : Str) : (strings.TrimLeft s cutset).length ≤ s.length := by
  induction s with
  | nil => simp [strings.TrimLeft]
  | cons c s ih =>
    rw [strings.TrimLeft]
    split_ifs
    · simp only [List.length_cons]
      omega
    · exact le_refl _

theorem TrimRight_length (s cutset : Str) : (strings.TrimRight s cutset).length ≤ s.length := by
  induction s with
  | nil => simp [strings.TrimRight]
  | cons c s ih =>
    rw [strings.TrimRight]
    split
    · split_ifs <;> simp
    · next r hr =>
      simp only [List.length_cons]
      omega

theorem TrimRight_last (s cutset : Str) (h : strings.TrimRight s cutset = s) :
    ∀ c, s.getLast? = some c → cutset.contains c = false := by
  induction s with
  | nil => intro c hc; simp at hc
  | cons d s ih =>
    intro c hc
    rw [strings.TrimRight] at h
    cases hs : strings.TrimRight s cutset with
    | nil =>
      rw [hs] at h
      dsimp only at h
      split_ifs at h with hd
      cases h
      simp only [List.getLast?_singleton, Option.some.injEq] at hc
      subst hc
      simpa using hd
    | cons e r =>
      rw [hs] at h
      dsimp only at h
      have hs1 : strings.TrimRight s cutset = s := by
        rw [hs]
        exact (List.cons.inj h).2
      have hne : s ≠ [] := by
        intro h0
        rw [h0] at hs
        simp [strings.TrimRight] at hs
      cases s with
      | nil => exact absurd rfl hne
      | cons x xs =>
        rw [List.getLast?_cons_cons] at hc
        exact ih hs1 c hc

theorem measureIndent_spaces (d : Nat) (rest : Str)
    (hrest : ∀ c ∈ rest.head?, c ≠ ' ' ∧ c ≠ chTab) :
    measureIndent (List.replicate d ' ' ++ rest) = (d, d) := by
  induction d with
  | zero =>
    cases rest with
    | nil => rfl
    | cons c r =>
      have h := hrest c (by simp)
      simp [measureIndent, h.1, h.2]
  | succ d ih =>
    rw [List.replicate_succ, List.cons_append, measureIndent, ih]
    simp

theorem asciiSpaces_lt : ∀ c ∈ asciiSpaces, c.toNat < 128 := by decide

theorem spaceWidthOf_space (runes : List Str) (x : Char) (xs : Str)
    (hx : asciiSpaces.contains x = true) : spaceWidthOf runes (x :: xs) = 1 := by
  have hlt : x.toNat < 128 := asciiSpaces_lt x (List.mem_of_elem_eq_true hx)
  rw [spaceWidthOf, if_pos hlt, if_pos hx]

theorem trimRunes_length (runes : List Str) (fuel : Nat) (s : Str) :
    (trimRunes runes fuel s).length ≤ s.length := by
  induction fuel generalizing s with
  | zero => exact le_refl _
  | succ n ih =>
    rw [trimRunes]
    split_ifs with h
    · exact le_refl _
    · refine (ih _).trans ?_
      rw [List.length_drop]
      omega

theorem trimRunes_drop (runes : List Str) (fuel : Nat) (s : Str) :
    ∃ k, trimRunes runes fuel s = s.drop k := by
  induction fuel generalizing s with
  | zero => exact ⟨0, rfl⟩
  | succ n ih =>
    rw [trimRunes]
    split_ifs with h
    · exact ⟨0, rfl⟩
    · obtain ⟨k, hk⟩ := ih (s.drop (spaceWidthOf runes s))
      exact ⟨spaceWidthOf runes s + k, by rw [hk, List.drop_drop]⟩

theorem trimRunes_space (runes : List Str) (fuel : Nat) (x : Char) (xs : Str)
    (hx : asciiSpaces.contains x = true) :
    (trimRunes runes (fuel + 1) (x :: xs)).length ≤ xs.length := by
  rw [trimRunes, spaceWidthOf_space runes x xs hx, if_neg (by decide)]
  exact trimRunes_length _ _ _

theorem trimRightSpace_length (fuel : Nat) (s : Str) :
    (trimRightSpace fuel s).length ≤ s.length := by
  rw [trimRightSpace, List.length_reverse]
  exact (trimRunes_length _ _ _).trans (by rw [List.length_reverse])

theorem TrimSpace_length (s : Str) : (strings.TrimSpace s).length ≤ s.length := by
  rw [strings.TrimSpace]
  exact (trimRightSpace_length _ _).trans (trimRunes_length _ _ _)

theorem TrimSpace_head (x : Char) (xs : Str) (h : strings.TrimSpace (x :: xs) = x :: xs) :
    asciiSpaces.contains x = false := by
  by_contra hcon
  have hx : asciiSpaces.contains x = true := by simpa using hcon
  have h1 := trimRightSpace_length (x :: xs).length (trimLeftSpace (x :: xs).length (x :: xs))
  have h2 : (trimLeftSpace (x :: xs).length (x :: xs)).length ≤ xs.length :=
    trimRunes_space spaceRunes xs.length x xs hx
  rw [strings.TrimSpace] at h
  rw [h] at h1
  simp only [List.length_cons] at h1 h2
  omega

theorem TrimSpace_last (v : Str) (c : Char) (h : strings.TrimSpace v = v)
    (hc : v.getLast? = some c) : asciiSpaces.contains c = false := by
  by_contra hcon
  have hx : asciiSpaces.contains c = true := by simpa using hcon
  obtain ⟨k, hk⟩ := trimRunes_drop spaceRunes v.length v
  have h1 := trimRightSpace_length v.length (trimLeftSpace v.length v)
  have h2 : (trimLeftSpace v.length v).length ≤ v.length := trimRunes_length _ _ _
  rw [strings.TrimSpace] at h
  have hw : trimLeftSpace v.length v = v := by
    rw [h] at h1
    have h3 : (trimLeftSpace v.length v).length = v.length := le_antisymm h2 h1
    rw [trimLeftSpace, hk, List.length_drop] at h3
    rw [trimLeftSpace, hk]
    cases k with
    | zero => rfl
    | succ k =>
      have : v.length = 0 := by omega
      rw [List.length_eq_zero.mp this]
      rfl
  rw [hw] at h
  obtain ⟨pre, rfl⟩ : ∃ pre, v = pre ++ [c] := by
    rw [List.getLast?_eq_some_iff] at hc
    exact hc
  have h4 := congrArg List.length h
  rw [trimRightSpace, List.length_reverse, List.reverse_append, List.reverse_singleton,
    List.singleton_append, List.length_append, List.length_singleton] at h4
  have h5 := trimRunes_space (spaceRunes.map List.reverse) pre.length c pre.reverse hx
  rw [List.length_reverse] at h5
  omega

theorem plainValue_head (v : Str) (hv : plainValue v = true) (c : Char) (hc : v.head? = some c) :
    c ≠ ' ' ∧ c ≠ chTab ∧ c ≠ chDQuote ∧ c ≠ chSQuote := by
  cases v with
  | nil => simp at hc
  | cons x xs =>
    simp only [List.head?_cons, Option.some.injEq] at hc
    subst hc
    simp only [plainValue, List.isEmpty_cons, List.headD_cons, Bool.false_or, Bool.and_eq_true,
      decide_eq_true_eq] at hv
    obtain ⟨⟨⟨⟨⟨h1, h2⟩, -⟩, -⟩, h5⟩, -⟩ := hv
    have hnot : asciiSpaces.contains x = false := TrimSpace_head x xs h5
    refine ⟨?_, ?_, h1, h2⟩
    · intro h
      rw [h] at hnot
      revert hnot
      decide
    · intro h
      rw [h] at hnot
      revert hnot
      decide

theorem HasPrefix_cons_ne (c d : Char) (s p : Str) (h : c ≠ d) :
    strings.HasPrefix (c :: s) (d :: p) = false := by
  simp [strings.HasPrefix, h]

theorem smlKeywords_names :
    ∀ e ∈ smlKeywords, IsValidID (smlKeyword2string e.2) = true ∧
      lookupKeyword smlKeywords (smlKeyword2string e.2) = some e.2 := by
  decide

theorem lexLine_printed (n d : Nat) (kw : Keyword) (v : Str) (rest : List Str)
    (hkw : ∃ e ∈ smlKeywords, e.2 = kw) (hv : plainValue v = true) :
    lexLine smlKeywords n (List.replicate d ' ' ++ smlKeyword2string kw ++ " ".toList ++ v) rest =
      .next (some { indent := (d : Int), kw := kw, value := v, line := (n : Int) + 1 })
        (n + 1) := by
  obtain ⟨e, he, rfl⟩ := hkw
  obtain ⟨hid, hlook⟩ := smlKeywords_names e he
  generalize smlKeyword2string e.2 = w at hid hlook
  cases w with
  | nil => simp [IsValidID] at hid
  | cons c w1 =>
    simp only [IsValidID, Bool.and_eq_true] at hid
    obtain ⟨hc, hw1⟩ := hid
    have hsp : c ≠ ' ' := isAlpha_ne_of_not hc (by decide)
    have htb : c ≠ chTab := isAlpha_ne_of_not hc (by decide)
    have hhash : c ≠ '#' := isAlpha_ne_of_not hc (by decide)
    have hslash : c ≠ '/' := isAlpha_ne_of_not hc (by decide)
    have hline : List.replicate d ' ' ++ (c :: w1) ++ " ".toList ++ v =
        List.replicate d ' ' ++ (c :: (w1 ++ ' ' :: v)) := by
      simp
    rw [hline]
    have hmi : measureIndent (List.replicate d ' ' ++ (c :: (w1 ++ ' ' :: v))) = (d, d) :=
      measureIndent_spaces d _ (by
        intro x hx
        simp only [List.head?_cons, Option.mem_def, Option.some.injEq] at hx
        subst hx
        exact ⟨hsp, htb⟩)
    have hdrop : (List.replicate d ' ' ++ (c :: (w1 ++ ' ' :: v))).drop d =
        c :: (w1 ++ ' ' :: v) := by
      have := List.drop_left (List.replicate d ' ') (c :: (w1 ++ ' ' :: v))
      rwa [List.length_replicate] at this
    have hget : (List.replicate d ' ' ++ (c :: (w1 ++ ' ' :: v))).getD d ' ' = c := by
      rw [List.getD_eq_getElem?_getD, ← List.head?_drop, hdrop]
      rfl
    have hdrop1 : (List.replicate d ' ' ++ (c :: (w1 ++ ' ' :: v))).drop (d + 1) =
        w1 ++ ' ' :: v := by
      rw [← List.drop_drop, hdrop]
      rfl
    have htake : (w1 ++ ' ' :: v).takeWhile isAlphaNumeric = w1 := by
      rw [List.takeWhile_append_of_pos (by simpa using hw1)]
      have : isAlphaNumeric ' ' = false := by decide
      simp [List.takeWhile_cons, this]
    have hlenl : (List.replicate d ' ' ++ (c :: (w1 ++ ' ' :: v))).length =
        d + 1 + w1.length + 1 + v.length := by
      simp only [List.length_append, List.length_replicate, List.length_cons]
      omega
    have hblank : isBlankOrComment (List.replicate d ' ' ++ (c :: (w1 ++ ' ' :: v))) = false := by
      simp only [isBlankOrComment, hmi, hget, hdrop, hlenl]
      have hlt0 : d < d + 1 + w1.length + 1 + v.length := by omega
      simp [hhash, hslash, hlt0]
    have hlen : d + 1 + w1.length - d = w1.length + 1 := by omega
    have htake1 : (c :: (w1 ++ ' ' :: v)).take (w1.length + 1) = c :: w1 := by
      rw [List.take_succ_cons, List.take_left]
    have hdrop2 : (List.replicate d ' ' ++ (c :: (w1 ++ ' ' :: v))).drop (d + 1 + w1.length) =
        ' ' :: v := by
      rw [← List.drop_drop, hdrop1, List.drop_left]
    have hdrop3 : (List.replicate d ' ' ++ (c :: (w1 ++ ' ' :: v))).drop
        (d + 1 + w1.length + 1) = v := by
      rw [← List.drop_drop, hdrop2]
      rfl
    have hspace : (' ' :: v).takeWhile isSpace = [' '] := by
      cases v with
      | nil => rfl
      | cons x xs =>
        obtain ⟨h1, h2, -, -⟩ := plainValue_head (x :: xs) hv x rfl
        have : isSpace x = false := by simp [isSpace, h1, h2]
        rw [List.takeWhile_cons, List.takeWhile_cons, this]
        rfl
    have hend : (List.replicate d ' ' ++ (c :: (w1 ++ ' ' :: v))).drop
        (d + 1 + w1.length + 1 + v.length) = [] := by
      rw [List.drop_eq_nil_iff, hlenl]
    simp only [lexLine, hblank, hmi, hget, hc, hdrop1, htake, hlen, hdrop, htake1, hlook,
      Bool.not_true, Bool.false_eq_true, ↓reduceIte]
    simp only [lexValue, hdrop2, hspace, List.length_singleton, hlenl, hdrop3]
    cases v with
    | nil =>
      simp only [List.length_nil, Nat.add_zero, lt_self_iff_false, ↓reduceIte, lexTrailer,
        List.drop_nil, List.takeWhile_nil]
      have := hend
      simp only [List.length_nil, Nat.add_zero] at this
      simp [this, hlenl]
    | cons x xs =>
      obtain ⟨-, -, h3, h4⟩ := plainValue_head (x :: xs) hv x rfl
      simp only [plainValue, List.isEmpty_cons, List.headD_cons, Bool.false_or, Bool.and_eq_true,
        decide_eq_true_eq, Option.isNone_iff_eq_none] at hv
      obtain ⟨⟨⟨⟨-, h5⟩, h6⟩, h7⟩, -⟩ := hv
      have hlt : d + 1 + w1.length + 1 < d + 1 + w1.length + 1 + (x :: xs).length := by
        simp only [List.length_cons]
        omega
      have hgetx : (List.replicate d ' ' ++ (c :: (w1 ++ ' ' :: x :: xs))).getD
          (d + 1 + w1.length + 1) ' ' = x := by
        rw [List.getD_eq_getElem?_getD, ← List.head?_drop, hdrop3]
        rfl
      have hpre : strings.HasPrefix (x :: xs) tripleQuote = false :=
        HasPrefix_cons_ne _ _ _ _ h3
      simp only [hlt, ↓reduceIte, hpre, Bool.false_eq_true, hgetx, h3, h4, decide_False,
        Bool.or_self, h5, h6]
      have htk : (x :: xs).take (d + 1 + w1.length + 1 + (x :: xs).length -
          (d + 1 + w1.length + 1)) = x :: xs := by
        rw [Nat.add_sub_cancel_left, List.take_length]
      simp only [htk, h7, lexTrailer, hend, List.takeWhile_nil, List.length_nil, Nat.add_zero,
        hlenl, lt_self_iff_false, ↓reduceIte]
/-! ### C19: the lexer on the text of `generic2string` -/

theorem replicate_two (d : Nat) :
    List.replicate d ' ' ++ "  ".toList = List.replicate (d + 2) ' ' := by
  have : "  ".toList = List.replicate 2 ' ' := rfl
  rw [this, ← List.replicate_add]

mutual
theorem flatLines_lex : ∀ (g : Generic) (d : Nat), g.printable = true →
    List.Forall₂
      (fun line tok => ∀ (n : Nat) (rest : List Str), tok.line = (n : Int) + 1 →
        lexLine smlKeywords n line rest = .next (some tok) (n + 1))
      (flatLines smlKeyword2string g (List.replicate d ' ')) (flatTokens g d)
  | .mk kw value children line, d, h => by
    simp only [Generic.printable, Bool.and_eq_true, List.any_eq_true, decide_eq_true_eq] at h
    obtain ⟨⟨hkw, hv⟩, hch⟩ := h
    rw [flatLines, flatTokens, replicate_two]
    refine List.Forall₂.cons ?_ (flatLinesList_lex children (d + 2) hch)
    intro n rest hn
    dsimp only at hn
    rw [lexLine_printed n d kw value rest hkw hv, hn]
theorem flatLinesList_lex : ∀ (cs : List Generic) (d : Nat), Generic.printableList cs = true →
    List.Forall₂
      (fun line tok => ∀ (n : Nat) (rest : List Str), tok.line = (n : Int) + 1 →
        lexLine smlKeywords n line rest = .next (some tok) (n + 1))
      (flatLinesList smlKeyword2string cs (List.replicate d ' ')) (flatTokensList cs d)
  | [], d, _ => by
    rw [flatLinesList, flatTokensList]
    exact List.Forall₂.nil
  | c :: cs, d, h => by
    simp only [Generic.printableList, Bool.and_eq_true] at h
    rw [flatLinesList, flatTokensList]
    exact List.rel_append (flatLines_lex c d h.1) (flatLinesList_lex cs d h.2)
end

mutual
theorem renumber_lines : ∀ (g : Generic) (n d : Nat),
    (renumber g n).2 = n + (flatTokens (renumber g n).1 d).length ∧
    ∀ i tok, (flatTokens (renumber g n).1 d)[i]? = some tok → tok.line = ((n + i : Nat) : Int) + 1
  | .mk kw value children line, n, d => by
    obtain ⟨h1, h2⟩ := renumberList_lines children (n + 1) (d + 2)
    simp only [renumber, flatTokens, List.length_cons]
    refine ⟨by rw [h1]; omega, ?_⟩
    intro i tok hi
    cases i with
    | zero =>
      simp only [List.getElem?_cons_zero, Option.some.injEq] at hi
      rw [← hi]
      simp
    | succ i =>
      simp only [List.getElem?_cons_succ] at hi
      rw [h2 i tok hi]
      push_cast
      ring
theorem renumberList_lines : ∀ (cs : List Generic) (n d : Nat),
    (renumberList cs n).2 = n + (flatTokensList (renumberList cs n).1 d).length ∧
    ∀ i tok, (flatTokensList (renumberList cs n).1 d)[i]? = some tok →
      tok.line = ((n + i : Nat) : Int) + 1
  | [], n, d => by
    simp [renumberList, flatTokensList]
  | c :: cs, n, d => by
    obtain ⟨h1, h2⟩ := renumber_lines c n d
    obtain ⟨h3, h4⟩ := renumberList_lines cs (renumber c n).2 d
    simp only [renumberList, flatTokensList, List.length_append]
    refine ⟨by rw [h3, h1]; omega, ?_⟩
    intro i tok hi
    by_cases hlt : i < (flatTokens (renumber c n).1 d).length
    · rw [List.getElem?_append_left hlt] at hi
      exact h2 i tok hi
    · rw [List.getElem?_append_right (by omega)] at hi
      rw [h4 _ tok hi, h1]
      congr 2
      omega
end

mutual
theorem renumber_printable : ∀ (g : Generic) (n : Nat),
    (renumber g n).1.printable = g.printable
  | .mk kw value children line, n => by
    simp only [renumber, Generic.printable, renumberList_printable children (n + 1)]
theorem renumberList_printable : ∀ (cs : List Generic) (n : Nat),
    Generic.printableList (renumberList cs n).1 = Generic.printableList cs
  | [], n => rfl
  | c :: cs, n => by
    simp only [renumberList, Generic.printableList, renumber_printable c n,
      renumberList_printable cs (renumber c n).2]
end

theorem runLexerLoop_lines (lines : List Str) (toks : List Token)
    (hlen : toks.length = lines.length)
    (h : ∀ i line tok, lines[i]? = some line → toks[i]? = some tok →
      ∀ rest, lexLine smlKeywords i line rest = .next (some tok) (i + 1)) :
    ∀ (k i fuel : Nat), i + k = lines.length → k + 1 ≤ fuel →
      runLexerLoop smlKeywords lines fuel i = toks.drop i ++ [eofToken lines.length] := by
  intro k
  induction k with
  | zero =>
    intro i fuel hi hf
    have hi1 : i = lines.length := by omega
    cases fuel with
    | zero => omega
    | succ fuel =>
      rw [runLexerLoop, List.drop_eq_nil_of_le (by omega), List.drop_eq_nil_of_le (by omega), hi1]
      rfl
  | succ k ih =>
    intro i fuel hi hf
    have hlt : i < lines.length := by omega
    have hlt2 : i < toks.length := by omega
    cases fuel with
    | zero => omega
    | succ fuel =>
      rw [runLexerLoop, List.drop_eq_getElem_cons hlt]
      dsimp only
      rw [h i lines[i] toks[i] (List.getElem?_eq_getElem hlt) (List.getElem?_eq_getElem hlt2)]
      dsimp only
      rw [ih (i + 1) fuel (by omega) (by omega), List.drop_eq_getElem_cons hlt2]
      rfl
/-! ### C19: the text of `generic2string` -/

theorem generic2stringChildren_eq (rt : GoRuntime) (kw2string : Keyword → Str)
    (cs : List Generic) :
    generic2stringChildren rt kw2string cs = cs.map (fun c => (c, generic2string rt kw2string c)) :=
        by
  induction cs with
  | nil => rfl
  | cons c cs ih => rw [generic2stringChildren, ih, List.map_cons]

theorem regroupChildren_eq (rt : GoRuntime) (cs : List Generic) :
    regroupChildren rt cs = cs.map (fun c => (c, regroup rt c)) := by
  induction cs with
  | nil => rfl
  | cons c cs ih => rw [regroupChildren, ih, List.map_cons]

theorem filter_pairs {β γ : Type} (cs : List Generic) (F : Generic → β) (G : β → γ)
    (k : Keyword) :
    ((cs.map (fun c => (c, F c))).filter (fun c => c.1.kw = k)).map (fun c => G c.2) =
      (cs.filter (fun c => c.kw = k)).map (fun c => G (F c)) := by
  induction cs with
  | nil => rfl
  | cons c cs ih =>
    simp only [List.map_cons, List.filter_cons]
    by_cases h : c.kw = k
    · simp only [h, decide_True, ↓reduceIte, List.map_cons, List.cons.injEq, true_and]
      exact ih
    · simp only [h, decide_False, Bool.false_eq_true, ↓reduceIte]
      exact ih

theorem filter_pairs_snd {β : Type} (cs : List Generic) (F : Generic → β) (k : Keyword) :
    ((cs.map (fun c => (c, F c))).filter (fun c => c.1.kw = k)).map (fun c => c.2) =
      (cs.filter (fun c => c.kw = k)).map F :=
  filter_pairs cs F (fun x => x) k

theorem grouped_map {γ : Type} (cs : List Generic) (keys : List Keyword) (H : Generic → γ) :
    (keys.map (fun k => (cs.filter (fun c => c.kw = k)).map H)).flatten =
      ((keys.map (fun k => cs.filter (fun c => c.kw = k))).flatten).map H := by
  induction keys with
  | nil => rfl
  | cons k ks ih => simp only [List.map_cons, List.flatten_cons, List.map_append, ih]

theorem regroup_eq (rt : GoRuntime) (g : Generic) :
    regroup rt g = .mk g.kw g.value ((g.ordered rt).map (regroup rt)) g.line := by
  cases g with
  | mk kw value children line =>
    rw [regroup, regroupChildren_eq]
    simp only [filter_pairs_snd children (regroup rt)]
    rw [grouped_map]
    rfl

theorem generic2string_eq (rt : GoRuntime) (kw2string : Keyword → Str) (g : Generic)
    (indent : Str) :
    generic2string rt kw2string g indent =
      strings.Join
        ((indent ++ kw2string g.kw ++ " ".toList ++ g.value) ::
          (g.ordered rt).map (fun c => generic2string rt kw2string c (indent ++ "  ".toList)))
        [chNewline] := by
  cases g with
  | mk kw value children line =>
    rw [generic2string, generic2stringChildren_eq]
    simp only [filter_pairs children (generic2string rt kw2string)
      (fun f => f (indent ++ "  ".toList))]
    rw [grouped_map]
    rfl

theorem flatLinesList_eq (kw2string : Keyword → Str) (cs : List Generic) (indent : Str) :
    flatLinesList kw2string cs indent =
      (cs.map (fun c => flatLines kw2string c indent)).flatten := by
  induction cs with
  | nil => rfl
  | cons c cs ih => rw [flatLinesList, ih, List.map_cons, List.flatten_cons]

theorem flatLines_ne_nil (kw2string : Keyword → Str) (g : Generic) (indent : Str) :
    flatLines kw2string g indent ≠ [] := by
  cases g with
  | mk kw value children line => simp [flatLines]

theorem Join_cons (x : Str) (xs : List Str) (sep : Str) :
    strings.Join (x :: xs) sep = x ++ (xs.map (fun y => sep ++ y)).flatten := by
  induction xs generalizing x with
  | nil => simp [strings.Join]
  | cons y ys ih =>
    rw [strings.Join, ih y, List.map_cons, List.flatten_cons]
    simp only [List.append_assoc]

theorem Join_pieces (a : Str) (ls : List (List Str)) (sep : Str) (hls : ∀ l ∈ ls, l ≠ []) :
    strings.Join (a :: ls.map (fun l => strings.Join l sep)) sep =
      strings.Join (a :: ls.flatten) sep := by
  rw [Join_cons, Join_cons]
  congr 1
  induction ls with
  | nil => rfl
  | cons l ls ih =>
    have hl : l ≠ [] := hls l (List.mem_cons_self _ _)
    have hrest : ∀ l1 ∈ ls, l1 ≠ [] := fun l1 h1 => hls l1 (List.mem_cons_of_mem _ h1)
    rw [List.map_cons, List.map_cons, List.flatten_cons, List.flatten_cons, List.map_append,
      List.flatten_append, ih hrest]
    congr 1
    cases l with
    | nil => exact absurd rfl hl
    | cons x xs =>
      rw [Join_cons, List.map_cons, List.flatten_cons]
      simp only [List.append_assoc]

mutual
theorem Generic.induct (P : Generic → Prop)
    (h : ∀ kw value children line, (∀ c ∈ children, P c) → P (.mk kw value children line)) :
    ∀ g, P g
  | .mk kw value children line => h kw value children line (Generic.inductList P h children)
theorem Generic.inductList (P : Generic → Prop)
    (h : ∀ kw value children line, (∀ c ∈ children, P c) → P (.mk kw value children line)) :
    ∀ cs : List Generic, ∀ c ∈ cs, P c
  | [], _, hc => by cases hc
  | d :: ds, c, hc => by
    rcases List.mem_cons.mp hc with rfl | h1
    · exact Generic.induct P h c
    · exact Generic.inductList P h ds c h1
end

theorem mem_ordered (rt : GoRuntime) (g c : Generic) (h : c ∈ g.ordered rt) : c ∈ g.children := by
  unfold Generic.ordered at h
  rw [List.mem_flatten] at h
  obtain ⟨l, hl, hc⟩ := h
  rw [List.mem_map] at hl
  obtain ⟨k, -, rfl⟩ := hl
  exact (List.mem_filter.mp hc).1

theorem generic2string_flat (rt : GoRuntime) (kw2string : Keyword → Str) :
    ∀ (g : Generic) (indent : Str),
      generic2string rt kw2string g indent =
        strings.Join (flatLines kw2string (regroup rt g) indent) [chNewline] := by
  intro g
  induction g using Generic.induct with
  | h kw value children line ih =>
    intro indent
    rw [generic2string_eq, regroup_eq, flatLines, flatLinesList_eq, List.map_map]
    have h1 : (Generic.ordered rt (.mk kw value children line)).map
        (fun c => generic2string rt kw2string c (indent ++ "  ".toList)) =
        ((Generic.ordered rt (.mk kw value children line)).map
          ((fun c => flatLines kw2string c (indent ++ "  ".toList)) ∘ regroup rt)).map
          (fun l => strings.Join l [chNewline]) := by
      rw [List.map_map]
      apply List.map_congr_left
      intro c hc
      exact ih c (mem_ordered rt _ c hc) _
    rw [h1, Join_pieces]
    intro l hl
    rw [List.mem_map] at hl
    obtain ⟨c, -, rfl⟩ := hl
    exact flatLines_ne_nil _ _ _
mutual
theorem renumber_flatLines (kw2string : Keyword → Str) : ∀ (g : Generic) (n : Nat) (indent : Str),
    flatLines kw2string (renumber g n).1 indent = flatLines kw2string g indent
  | .mk kw value children line, n, indent => by
    simp only [renumber, flatLines, renumberList_flatLines kw2string children (n + 1)]
theorem renumberList_flatLines (kw2string : Keyword → Str) :
    ∀ (cs : List Generic) (n : Nat) (indent : Str),
    flatLinesList kw2string (renumberList cs n).1 indent = flatLinesList kw2string cs indent
  | [], n, indent => rfl
  | c :: cs, n, indent => by
    simp only [renumberList, flatLinesList, renumber_flatLines kw2string c n,
      renumberList_flatLines kw2string cs (renumber c n).2]
end

theorem printableList_iff (cs : List Generic) :
    Generic.printableList cs = true ↔ ∀ c ∈ cs, c.printable = true := by
  induction cs with
  | nil => simp [Generic.printableList]
  | cons c cs ih => simp [Generic.printableList, ih]

theorem printable_children (g : Generic) (h : g.printable = true) :
    ∀ c ∈ g.children, c.printable = true := by
  cases g with
  | mk kw value children line =>
    simp only [Generic.printable, Bool.and_eq_true] at h
    exact (printableList_iff children).mp h.2

theorem regroup_printable (rt : GoRuntime) :
    ∀ g : Generic, g.printable = true → (regroup rt g).printable = true := by
  intro g
  induction g using Generic.induct with
  | h kw value children line ih =>
    intro hp
    have hc := printable_children _ hp
    rw [regroup_eq]
    simp only [Generic.printable, Bool.and_eq_true] at hp ⊢
    refine ⟨hp.1, ?_⟩
    rw [printableList_iff]
    intro c hc1
    rw [List.mem_map] at hc1
    obtain ⟨c0, hc0, rfl⟩ := hc1
    have hmem := mem_ordered rt _ c0 hc0
    exact ih c0 hmem (hc c0 hmem)

theorem replaceCRLF_step (c d : Char) (s : Str) (h : c ≠ chReturn ∨ d ≠ chNewline) :
    replaceCRLF (c :: d :: s) = c :: replaceCRLF (d :: s) := by
  rw [replaceCRLF]
  rcases h with h | h
  · simp [h]
  · simp [h]

theorem replaceCRLF_id : ∀ a : Str, chNewline ∉ a → replaceCRLF a = a
  | [], _ => rfl
  | [c], _ => rfl
  | c :: d :: s, h => by
    have hd : d ≠ chNewline := fun e => h (by simp [e])
    rw [replaceCRLF_step c d s (Or.inr hd),
      replaceCRLF_id (d :: s) (fun hm => h (List.mem_cons_of_mem _ hm))]

theorem replaceCRLF_line : ∀ (a t : Str), chNewline ∉ a → a.getLast? ≠ some chReturn →
    replaceCRLF (a ++ chNewline :: t) = a ++ chNewline :: replaceCRLF t
  | [], t, _, _ => by
    cases t with
    | nil => rfl
    | cons d s =>
      rw [List.nil_append, replaceCRLF_step _ _ _ (Or.inl (by decide))]
      rfl
  | [c], t, h, hl => by
    have hc : c ≠ chReturn := fun e => hl (by simp [e])
    have h0 := replaceCRLF_line [] t (by simp) (by simp)
    rw [List.nil_append] at h0
    rw [List.singleton_append, replaceCRLF_step _ _ _ (Or.inl hc), h0]
    rfl
  | c :: d :: s, t, h, hl => by
    have hd : d ≠ chNewline := fun e => h (by simp [e])
    rw [List.cons_append, List.cons_append, replaceCRLF_step _ _ _ (Or.inr hd),
      ← List.cons_append, replaceCRLF_line (d :: s) t
      (fun hm => h (List.mem_cons_of_mem _ hm)) (by
        rw [List.getLast?_cons_cons] at hl
        exact hl)]
    rfl

theorem replaceCRLF_Join (lines : List Str) (h : ∀ l ∈ lines, chNewline ∉ l)
    (hl : ∀ l ∈ lines, l.getLast? ≠ some chReturn) :
    replaceCRLF (strings.Join lines [chNewline]) = strings.Join lines [chNewline] := by
  induction lines with
  | nil => rfl
  | cons a ls ih =>
    cases ls with
    | nil =>
      rw [strings.Join]
      exact replaceCRLF_id a (h a (List.mem_cons_self _ _))
    | cons b rest =>
      rw [strings.Join, List.append_assoc, List.singleton_append,
        replaceCRLF_line a _ (h a (List.mem_cons_self _ _)) (hl a (List.mem_cons_self _ _)),
        ih (fun l hm => h l (List.mem_cons_of_mem _ hm))
          (fun l hm => hl l (List.mem_cons_of_mem _ hm))]

theorem Split_Join (lines : List Str) (hne : lines ≠ []) (h : ∀ l ∈ lines, chNewline ∉ l) :
    strings.Split (strings.Join lines [chNewline]) chNewline = lines := by
  rw [Split_eq_splitOn, Join_eq_intercalate]
  exact List.splitOn_intercalate lines chNewline h hne

theorem plainValue_last (v : Str) (hv : plainValue v = true) (c : Char)
    (hc : v.getLast? = some c) : asciiSpaces.contains c = false := by
  cases v with
  | nil => simp at hc
  | cons x xs =>
    simp only [plainValue, List.isEmpty_cons, List.headD_cons, Bool.false_or, Bool.and_eq_true,
      decide_eq_true_eq] at hv
    obtain ⟨⟨-, h5⟩, -⟩ := hv
    exact TrimSpace_last _ c h5 hc

theorem smlKeywords_plain :
    ∀ e ∈ smlKeywords, chNewline ∉ smlKeyword2string e.2 := by
  decide

theorem printed_line (d : Nat) (kw : Keyword) (v : Str) (hkw : ∃ e ∈ smlKeywords, e.2 = kw)
    (hv : plainValue v = true) :
    chNewline ∉ List.replicate d ' ' ++ smlKeyword2string kw ++ " ".toList ++ v ∧
    (List.replicate d ' ' ++ smlKeyword2string kw ++ " ".toList ++ v).getLast? ≠
      some chReturn := by
  obtain ⟨e, he, rfl⟩ := hkw
  have hname := smlKeywords_plain e he
  have hvn : chNewline ∉ v := by
    cases v with
    | nil => simp
    | cons x xs =>
      simp only [plainValue, List.isEmpty_cons, Bool.false_or, Bool.and_eq_true,
        Bool.not_eq_true', List.contains_eq_any_beq, List.any_eq_false, beq_iff_eq] at hv
      intro hm
      exact hv.2 chNewline hm rfl
  constructor
  · simp only [List.mem_append, List.mem_replicate, not_or]
    refine ⟨⟨⟨?_, hname⟩, by decide⟩, hvn⟩
    rintro ⟨-, h⟩
    revert h
    decide
  · cases hv1 : v.getLast? with
    | none =>
      have : v = [] := by simpa using hv1
      subst this
      rw [List.append_nil]
      have : (" ".toList : Str) = [' '] := rfl
      rw [this, List.getLast?_append, List.getLast?_singleton]
      intro hc
      simp only [Option.or, Option.some.injEq] at hc
      revert hc
      decide
    | some c =>
      rw [List.getLast?_append, hv1]
      intro hc
      simp only [Option.or, Option.some.injEq] at hc
      have := plainValue_last v hv c hv1
      rw [hc] at this
      revert this
      decide

theorem flatLines_chars : ∀ (g : Generic) (d : Nat), g.printable = true →
    ∀ l ∈ flatLines smlKeyword2string g (List.replicate d ' '),
      chNewline ∉ l ∧ l.getLast? ≠ some chReturn := by
  intro g
  induction g using Generic.induct with
  | h kw value children line ih =>
    intro d hp l hl
    have hc := printable_children _ hp
    simp only [Generic.printable, Bool.and_eq_true, List.any_eq_true, decide_eq_true_eq] at hp
    rw [flatLines, replicate_two, flatLinesList_eq, List.mem_cons] at hl
    rcases hl with rfl | hl
    · exact printed_line d kw value hp.1.1 hp.1.2
    · rw [List.mem_flatten] at hl
      obtain ⟨ls, hls, hl1⟩ := hl
      rw [List.mem_map] at hls
      obtain ⟨c, hc1, rfl⟩ := hls
      exact ih c hc1 (d + 2) (hc c hc1) l hl1
theorem startLex_generic2string (rt : GoRuntime) (g : Generic) (hp : g.printable = true) :
    startLex (generic2string rt smlKeyword2string g []) smlKeywords =
      flatTokens (relaid rt g) 0 ++ [eofToken (flatTokens (relaid rt g) 0).length] := by
  have hp1 : (relaid rt g).printable = true := by
    rw [relaid, renumber_printable]
    exact regroup_printable rt g hp
  have htext : generic2string rt smlKeyword2string g [] =
      strings.Join (flatLines smlKeyword2string (relaid rt g) (List.replicate 0 ' '))
        [chNewline] := by
    rw [generic2string_flat, relaid, renumber_flatLines]
    rfl
  have hchars := flatLines_chars (relaid rt g) 0 hp1
  have hlex := flatLines_lex (relaid rt g) 0 hp1
  have hnum := (renumber_lines (regroup rt g) 0 0).2
  obtain ⟨hlen, hget⟩ := List.forall₂_iff_get.mp hlex
  rw [htext, startLex, replaceCRLF_Join _ (fun l hl => (hchars l hl).1)
    (fun l hl => (hchars l hl).2), runLexer,
    Split_Join _ (flatLines_ne_nil _ _ _) (fun l hl => (hchars l hl).1)]
  rw [runLexerLoop_lines _ (flatTokens (relaid rt g) 0) hlen.symm ?_ _ 0 _ (by omega) (le_refl _),
    List.drop_zero, hlen]
  intro i line tok hline htok rest
  obtain ⟨h1, rfl⟩ := List.getElem?_eq_some_iff.mp hline
  obtain ⟨h2, rfl⟩ := List.getElem?_eq_some_iff.mp htok
  have := hget i h1 h2
  simp only [List.get_eq_getElem] at this
  apply this
  have hn := hnum i _ (List.getElem?_eq_getElem h2)
  simpa [relaid] using hn

theorem flatTokens_kw : ∀ (g : Generic) (d : Nat), g.printable = true →
    ∀ t ∈ flatTokens g d, ∃ e ∈ smlKeywords, e.2 = t.kw := by
  intro g
  induction g using Generic.induct with
  | h kw value children line ih =>
    intro d hp t ht
    have hc := printable_children _ hp
    simp only [Generic.printable, Bool.and_eq_true, List.any_eq_true, decide_eq_true_eq] at hp
    rw [flatTokens, List.mem_cons] at ht
    rcases ht with rfl | ht
    · exact hp.1.1
    · have hlist : ∀ (cs : List Generic), (∀ c ∈ cs, c ∈ children) →
          ∀ t ∈ flatTokensList cs (d + 2), ∃ e ∈ smlKeywords, e.2 = t.kw := by
        intro cs
        induction cs with
        | nil => intro _ t ht; simp [flatTokensList] at ht
        | cons c cs ihc =>
          intro hsub t ht
          rw [flatTokensList, List.mem_append] at ht
          rcases ht with h1 | h1
          · exact ih c (hsub c (List.mem_cons_self _ _)) (d + 2)
              (hc c (hsub c (List.mem_cons_self _ _))) t h1
          · exact ihc (fun x hx => hsub x (List.mem_cons_of_mem _ hx)) t h1
      exact hlist children (fun _ h => h) t ht

theorem smlKeywords_ne_error : ∀ e ∈ smlKeywords, e.2 ≠ kwError := by
  decide

theorem relaid_root (rt : GoRuntime) (g : Generic) :
    (relaid rt g).kw = g.kw ∧ (relaid rt g).value = g.value ∧ (relaid rt g).line = 1 := by
  rw [relaid, regroup_eq, renumber]
  exact ⟨rfl, rfl, rfl⟩

theorem projectTree_generic2string (rt : GoRuntime) (g : Generic) (hp : g.printable = true) :
    (recv (startLex (generic2string rt smlKeyword2string g []) smlKeywords)).1 =
      { indent := 0, kw := g.kw, value := g.value, line := 1 } ∧
    parseGeneric
        (parseGenericFuel (recv (startLex (generic2string rt smlKeyword2string g [])
          smlKeywords)).2)
        (recv (startLex (generic2string rt smlKeyword2string g []) smlKeywords)).2
        (recv (startLex (generic2string rt smlKeyword2string g []) smlKeywords)).1 =
      { g := relaid rt g, nextToken := eofToken (flatTokens (relaid rt g) 0).length,
        parseErrors := [], l := [] } := by
  have hp1 : (relaid rt g).printable = true := by
    rw [relaid, renumber_printable]
    exact regroup_printable rt g hp
  obtain ⟨r1, r2, r3⟩ := relaid_root rt g
  rw [startLex_generic2string rt g hp]
  obtain ⟨ts, h1, h2⟩ := flatTokens_head (relaid rt g) 0
    [eofToken (flatTokens (relaid rt g) 0).length]
  rw [h1]
  simp only [recv]
  have hlen : (flatTokens (relaid rt g) 0).length + 1 = ts.length + 1 := by
    have := congrArg List.length h1
    simpa using this
  have hkw : ∀ t ∈ flatTokensList (relaid rt g).children (0 + 2), t.kw ≠ kwError := by
    intro t ht
    have hmem : t ∈ flatTokens (relaid rt g) 0 := by
      cases hrel : relaid rt g with
      | mk k v ch ln =>
        rw [hrel] at ht
        rw [flatTokens]
        exact List.mem_cons_of_mem _ ht
    obtain ⟨e, he, hek⟩ := flatTokens_kw (relaid rt g) 0 hp1 t hmem
    rw [← hek]
    exact smlKeywords_ne_error e he
  have hpg := parseGeneric_flat (relaid rt g) 0 (parseGenericFuel ts)
    (eofToken (flatTokens (relaid rt g) 0).length) [] (by
      rw [parseGenericFuel]
      omega) hkw (by simp [eofToken, kwEOF, kwError]) (by simp [eofToken])
  rw [← h2] at hpg
  refine ⟨by rw [r1, r2, r3]; rfl, ?_⟩
  rw [← hpg]
/-! ### C19: a tree that is valid for the grammar -/

theorem conformsList_iff (cs : List Generic) (grammar : KwTree) :
    Generic.conformsList cs grammar = true ↔
      ∀ c ∈ cs, ∃ sub, grammar.children.find? (fun t => t.kw = c.kw) = some sub ∧
        c.conforms sub = true := by
  induction cs with
  | nil => simp [Generic.conformsList]
  | cons c cs ih =>
    rw [Generic.conformsList, Bool.and_eq_true, ih]
    constructor
    · rintro ⟨h1, h2⟩ x hx
      rcases List.mem_cons.mp hx with rfl | hx1
      · cases hf : grammar.children.find? (fun t => t.kw = x.kw) with
        | none => rw [hf] at h1; cases h1
        | some sub => rw [hf] at h1; exact ⟨sub, rfl, h1⟩
      · exact h2 x hx1
    · intro h
      refine ⟨?_, fun x hx => h x (List.mem_cons_of_mem _ hx)⟩
      obtain ⟨sub, h1, h2⟩ := h c (List.mem_cons_self _ _)
      rw [h1]
      exact h2

theorem conforms_children (g : Generic) (grammar : KwTree) (h : g.conforms grammar = true) :
    ∀ c ∈ g.children, ∃ sub, grammar.children.find? (fun t => t.kw = c.kw) = some sub ∧
      c.conforms sub = true := by
  cases g with
  | mk kw value children line =>
    rw [Generic.conforms] at h
    exact (conformsList_iff children grammar).mp h

theorem conforms_of_children (g : Generic) (grammar : KwTree)
    (h : ∀ c ∈ g.children, ∃ sub, grammar.children.find? (fun t => t.kw = c.kw) = some sub ∧
      c.conforms sub = true) : g.conforms grammar = true := by
  cases g with
  | mk kw value children line =>
    rw [Generic.conforms]
    exact (conformsList_iff children grammar).mpr h

theorem firstLineMismatchChildren_eq (rt : GoRuntime) (cs : List Generic) :
    firstLineMismatchChildren rt cs = cs.map (fun c => (c, firstLineMismatchWithGrammar rt c)) := by
  induction cs with
  | nil => rfl
  | cons c cs ih => rw [firstLineMismatchChildren, ih, List.map_cons]

theorem foldl_fixed {α β : Type} (f : α → β → α) (a : α) (l : List β)
    (h : ∀ b ∈ l, f a b = a) : l.foldl f a = a := by
  induction l with
  | nil => rfl
  | cons b bs ih =>
    rw [List.foldl_cons, h b (List.mem_cons_self _ _)]
    exact ih (fun x hx => h x (List.mem_cons_of_mem _ hx))

theorem firstLineMismatch_conforms (rt : GoRuntime) :
    ∀ (g : Generic) (level : Int) (grammar : KwTree), g.conforms grammar = true →
      firstLineMismatchWithGrammar rt g level grammar = (-1, -1) := by
  intro g
  induction g using Generic.induct with
  | h kw value children line ih =>
    intro level grammar hc
    have hch := conforms_children _ grammar hc
    simp only [Generic.children] at hch
    rw [firstLineMismatchWithGrammar, firstLineMismatchChildren_eq]
    apply foldl_fixed
    intro k _
    have hfilter : ∀ x ∈ (children.map (fun c => (c, firstLineMismatchWithGrammar rt c))).filter
        (fun c => c.1.kw = k), x.1 ∈ children ∧ x.1.kw = k ∧
          x.2 = firstLineMismatchWithGrammar rt x.1 := by
      intro x hx
      obtain ⟨h1, h2⟩ := List.mem_filter.mp hx
      rw [List.mem_map] at h1
      obtain ⟨c, hc1, rfl⟩ := h1
      exact ⟨hc1, by simpa using h2, rfl⟩
    cases hf : grammar.children.find? (fun t => t.kw = k) with
    | some sub =>
      dsimp only
      apply foldl_fixed
      intro x hx
      obtain ⟨h1, h2, h3⟩ := hfilter x hx
      obtain ⟨sub1, h4, h5⟩ := hch x.1 h1
      rw [h2, hf] at h4
      obtain rfl := Option.some.inj h4
      rw [h3, ih x.1 h1 (level + 1) sub h5]
      rfl
    | none =>
      dsimp only
      apply foldl_fixed
      intro x hx
      obtain ⟨h1, h2, h3⟩ := hfilter x hx
      obtain ⟨sub1, h4, h5⟩ := hch x.1 h1
      rw [h2, hf] at h4
      cases h4

theorem findIndentationErrors_conforms (rt : GoRuntime) (g : Generic) (grammar : KwTree)
    (keyword2string : List (Str × Keyword)) (h : g.conforms grammar = true) :
    findIndentationErrors rt g grammar keyword2string = [] := by
  rw [findIndentationErrors, firstLineMismatch_conforms rt g 1 grammar h]
  rfl

mutual
theorem renumber_conforms : ∀ (g : Generic) (n : Nat) (grammar : KwTree),
    (renumber g n).1.conforms grammar = g.conforms grammar
  | .mk kw value children line, n, grammar => by
    simp only [renumber, Generic.conforms, renumberList_conforms children (n + 1) grammar]
theorem renumberList_conforms : ∀ (cs : List Generic) (n : Nat) (grammar : KwTree),
    Generic.conformsList (renumberList cs n).1 grammar = Generic.conformsList cs grammar
  | [], n, grammar => rfl
  | .mk kw value children line :: cs, n, grammar => by
    rw [renumberList, Generic.conformsList, Generic.conformsList,
      renumberList_conforms cs _ grammar]
    have hkw : (renumber (.mk kw value children line) n).1.kw = kw := rfl
    rw [hkw]
    simp only [Generic.kw]
    cases grammar.children.find? (fun t => t.kw = kw) with
    | none => rfl
    | some sub => simp only [renumber_conforms (.mk kw value children line) n sub]
end

theorem regroup_conforms (rt : GoRuntime) :
    ∀ (g : Generic) (grammar : KwTree), g.conforms grammar = true →
      (regroup rt g).conforms grammar = true := by
  intro g
  induction g using Generic.induct with
  | h kw value children line ih =>
    intro grammar hc
    have hch := conforms_children _ grammar hc
    rw [regroup_eq]
    apply conforms_of_children
    intro c hcm
    simp only [Generic.children, List.mem_map] at hcm
    obtain ⟨c0, hc0, rfl⟩ := hcm
    have hmem := mem_ordered rt _ c0 hc0
    obtain ⟨sub, h1, h2⟩ := hch c0 hmem
    have hkw : (regroup rt c0).kw = c0.kw := by
      rw [regroup_eq]
      rfl
    rw [hkw]
    exact ⟨sub, h1, ih c0 hmem sub h2⟩

theorem relaid_conforms (rt : GoRuntime) (g : Generic) (grammar : KwTree)
    (h : g.conforms grammar = true) : (relaid rt g).conforms grammar = true := by
  rw [relaid, renumber_conforms]
  exact regroup_conforms rt g grammar h
/-! ### C19: two runs of the parser that differ in the line numbers only -/

theorem alike_pure {α β : Type} {Q : α → β → Prop} {a : α} {b : β} (h : Q a b) :
    Parser.Alike Q (pure a : Parser α) (pure b : Parser β) := by
  intro s t hst
  exact ⟨h, hst⟩

theorem alike_bind {α β γ δ : Type} {Q1 : α → β → Prop} {Q : γ → δ → Prop} {m : Parser α}
    {n : Parser β} {f : α → Parser γ} {k : β → Parser δ} (h1 : Parser.Alike Q1 m n)
    (h2 : ∀ a b, Q1 a b → Parser.Alike Q (f a) (k b)) : Parser.Alike Q (m >>= f) (n >>= k) := by
  intro s t hst
  have h := h1 s t hst
  rw [run_bind, run_bind]
  cases hm : m.run s with
  | ok a s1 =>
    cases hn : n.run t with
    | ok b t1 =>
      rw [hm, hn] at h
      exact h2 a b h.1 s1 t1 h.2
    | panicErrors e => rw [hm, hn] at h; exact h.elim
    | panicRuntime msg => rw [hm, hn] at h; exact h.elim
  | panicErrors e =>
    cases hn : n.run t with
    | ok b t1 => rw [hm, hn] at h; exact h.elim
    | panicErrors e1 => rw [hm, hn] at h; exact h
    | panicRuntime msg => rw [hm, hn] at h; exact h.elim
  | panicRuntime msg =>
    cases hn : n.run t with
    | ok b t1 => rw [hm, hn] at h; exact h.elim
    | panicErrors e1 => rw [hm, hn] at h; exact h.elim
    | panicRuntime msg1 => rw [hm, hn] at h; exact h

theorem alike_bind_eq {α γ δ : Type} {Q : γ → δ → Prop} {m n : Parser α}
    {f : α → Parser γ} {k : α → Parser δ} (h1 : Parser.Alike Eq m n)
    (h2 : ∀ a, Parser.Alike Q (f a) (k a)) : Parser.Alike Q (m >>= f) (n >>= k) :=
  alike_bind h1 (fun a _ hab => hab ▸ h2 a)

theorem alike_appendParseError (e1 e2 : List ParseError) (h : msgsOf e1 = msgsOf e2) :
    Parser.Alike Eq (appendParseError e1) (appendParseError e2) := by
  intro s t hst
  have hl1 : s.length = t.length := by
    have := congrArg List.length hst
    simpa [msgsOf] using this
  have hl2 : e1.length = e2.length := by
    have := congrArg List.length h
    simpa [msgsOf] using this
  simp only [appendParseError, hl1, hl2]
  split_ifs
  · refine ⟨rfl, ?_⟩
    simp only [msgsOf, List.map_append] at hst h ⊢
    rw [hst, h]
  · show msgsOf _ = msgsOf _
    simp only [msgsOf, List.map_append, List.map_take] at hst h ⊢
    rw [hst, h]
  · exact hst

theorem alike_report (msg : Str) (l1 l2 : Int) :
    Parser.Alike Eq (report msg l1) (report msg l2) :=
  alike_appendParseError _ _ rfl

theorem alike_panicParseErrors {α β : Type} {Q : α → β → Prop} :
    Parser.Alike Q (panicParseErrors : Parser α) (panicParseErrors : Parser β) := by
  intro s t hst
  exact hst

theorem alike_panicRuntime {α β : Type} {Q : α → β → Prop} (msg : Str) :
    Parser.Alike Q (panicRuntime msg : Parser α) (panicRuntime msg : Parser β) := by
  intro s t _
  rfl

theorem alike_fatal {α β : Type} {Q : α → β → Prop} (msg : Str) (l1 l2 : Int) :
    Parser.Alike Q (fatal msg l1 : Parser α) (fatal msg l2 : Parser β) :=
  alike_bind_eq (alike_report msg l1 l2) (fun _ => alike_panicParseErrors)

theorem alike_errorIf (c : Bool) (msg : Str) (l1 l2 : Int) :
    Parser.Alike Eq (errorIf c msg l1) (errorIf c msg l2) := by
  unfold errorIf
  split_ifs
  · exact alike_report msg l1 l2
  · exact alike_pure rfl

theorem alike_panicIf (c : Bool) (msg : Str) (l1 l2 : Int) :
    Parser.Alike Eq (panicIf c msg l1) (panicIf c msg l2) := by
  unfold panicIf
  split_ifs
  · exact alike_fatal msg l1 l2
  · exact alike_pure rfl

theorem alike_ite {α β : Type} {Q : α → β → Prop} (c : Prop) [Decidable c] {m1 m2 : Parser α}
    {n1 n2 : Parser β} (h1 : Parser.Alike Q m1 n1) (h2 : Parser.Alike Q m2 n2) :
    Parser.Alike Q (if c then m1 else m2) (if c then n1 else n2) := by
  split_ifs
  · exact h1
  · exact h2

theorem alike_forEach {β1 β2 σ1 σ2 : Type} {R : β1 → β2 → Prop} {Q : σ1 → σ2 → Prop}
    {body1 : σ1 → β1 → Parser σ1} {body2 : σ2 → β2 → Parser σ2} {l1 : List β1} {l2 : List β2}
    (hl : List.Forall₂ R l1 l2)
    (hbody : ∀ s1 s2 b1 b2, Q s1 s2 → R b1 b2 → Parser.Alike Q (body1 s1 b1) (body2 s2 b2)) :
    ∀ s1 s2, Q s1 s2 → Parser.Alike Q (forEach l1 s1 body1) (forEach l2 s2 body2) := by
  induction hl with
  | nil =>
    intro s1 s2 hs
    exact alike_pure hs
  | cons hb _ ih =>
    intro s1 s2 hs
    rw [forEach, forEach]
    exact alike_bind (hbody _ _ _ _ hs hb) (fun a b hab => ih a b hab)

theorem alike_forEach_same {β σ1 σ2 : Type} {Q : σ1 → σ2 → Prop}
    {body1 : σ1 → β → Parser σ1} {body2 : σ2 → β → Parser σ2} (l : List β)
    (hbody : ∀ s1 s2 b, Q s1 s2 → Parser.Alike Q (body1 s1 b) (body2 s2 b)) :
    ∀ s1 s2, Q s1 s2 → Parser.Alike Q (forEach l s1 body1) (forEach l s2 body2) := by
  induction l with
  | nil =>
    intro s1 s2 hs
    exact alike_pure hs
  | cons b bs ih =>
    intro s1 s2 hs
    rw [forEach, forEach]
    exact alike_bind (hbody _ _ _ hs) (fun a b hab => ih a b hab)

theorem alike_first {β1 β2 : Type} {R : β1 → β2 → Prop} {l1 : List β1} {l2 : List β2}
    (hl : List.Forall₂ R l1 l2) : Parser.Alike R (first l1) (first l2) := by
  cases hl with
  | nil => exact alike_panicRuntime _
  | cons hb _ => exact alike_pure hb

theorem forall₂_length_eq {β1 β2 : Type} {R : β1 → β2 → Prop} {l1 : List β1} {l2 : List β2}
    (hl : List.Forall₂ R l1 l2) : l1.length = l2.length :=
  hl.length_eq

theorem Generic.Alike.kw_eq {rt1 rt2 : GoRuntime} {g h : Generic}
    (a : Generic.Alike rt1 rt2 g h) : h.kw = g.kw := by
  cases a with
  | mk _ _ hkw => exact hkw.symm

theorem Generic.Alike.value_eq {rt1 rt2 : GoRuntime} {g h : Generic}
    (a : Generic.Alike rt1 rt2 g h) : h.value = g.value := by
  cases a with
  | mk _ _ _ hvalue => exact hvalue.symm

theorem Generic.Alike.isEmpty_eq {rt1 rt2 : GoRuntime} {g h : Generic}
    (a : Generic.Alike rt1 rt2 g h) : h.children.isEmpty = g.children.isEmpty := by
  cases a with
  | mk _ _ _ _ hempty => exact hempty.symm

theorem Generic.Alike.random_eq {rt1 rt2 : GoRuntime} {g h : Generic}
    (a : Generic.Alike rt1 rt2 g h) : rt2.RandomString h.line = rt1.RandomString g.line := by
  cases a with
  | mk _ _ _ _ _ _ hrandom => exact hrandom.symm

theorem Generic.Alike.keys_eq {rt1 rt2 : GoRuntime} {g h : Generic}
    (a : Generic.Alike rt1 rt2 g h) :
    rt2.kwOrder h.line h.childKeys = rt1.kwOrder g.line g.childKeys := by
  cases a with
  | mk _ _ _ _ _ hkeys => exact hkeys.symm

theorem Generic.Alike.childrenOf {rt1 rt2 : GoRuntime} {g h : Generic}
    (a : Generic.Alike rt1 rt2 g h) (kw : Keyword) :
    List.Forall₂ (Generic.Alike rt1 rt2) (g.childrenOf kw) (h.childrenOf kw) := by
  cases a with
  | mk _ _ _ _ _ _ _ hchildren => exact hchildren kw

theorem Generic.Alike.sorted {rt1 rt2 : GoRuntime} {g h : Generic}
    (a : Generic.Alike rt1 rt2 g h) (kw : Keyword) :
    List.Forall₂ (Generic.Alike rt1 rt2) (sortByLine (g.childrenOf kw))
      (sortByLine (h.childrenOf kw)) := by
  cases a with
  | mk _ _ _ _ _ _ _ _ hsorted => exact hsorted kw

theorem forall₂_map_same {α β1 β2 : Type} {R : β1 → β2 → Prop} (l : List α) (f1 : α → β1)
    (f2 : α → β2) (h : ∀ x, R (f1 x) (f2 x)) : List.Forall₂ R (l.map f1) (l.map f2) := by
  induction l with
  | nil => exact List.Forall₂.nil
  | cons x xs ih => exact List.Forall₂.cons (h x) ih

theorem Generic.Alike.rangeChildren {rt1 rt2 : GoRuntime} {g h : Generic}
    (a : Generic.Alike rt1 rt2 g h) :
    List.Forall₂ (fun e1 e2 => e1.1 = e2.1 ∧ List.Forall₂ (Generic.Alike rt1 rt2) e1.2 e2.2)
      (sml.rangeChildren rt1 g) (sml.rangeChildren rt2 h) := by
  unfold sml.rangeChildren
  rw [a.keys_eq]
  exact forall₂_map_same _ _ _ (fun kw => ⟨rfl, a.childrenOf kw⟩)
/-! ### C19: the parse functions on two alike trees -/

theorem alike_parseSMLString {rt1 rt2 : GoRuntime} {g h : Generic}
    (a : Generic.Alike rt1 rt2 g h) : Parser.Alike Eq (parseSMLString g) (parseSMLString h) := by
  unfold parseSMLString
  rw [a.isEmpty_eq, a.kw_eq, a.value_eq]
  exact alike_bind_eq (alike_errorIf _ _ _ _) (fun _ => alike_pure rfl)

theorem alike_parseIDList {rt1 rt2 : GoRuntime} {g h : Generic}
    (a : Generic.Alike rt1 rt2 g h) (allowEmpty : Bool) :
    Parser.Alike Eq (parseIDList g allowEmpty) (parseIDList h allowEmpty) := by
  unfold parseIDList
  rw [a.kw_eq]
  refine alike_bind_eq (alike_parseSMLString a) (fun s => ?_)
  refine alike_ite _ (alike_pure rfl) ?_
  refine alike_bind_eq (alike_errorIf _ _ _ _) (fun _ => ?_)
  refine alike_bind_eq ?_ (fun _ => alike_pure rfl)
  apply alike_forEach_same
  · intro s1 s2 b _
    exact alike_errorIf _ _ _ _
  · rfl

theorem alike_parseDatatype {rt1 rt2 : GoRuntime} {g h : Generic}
    (a : Generic.Alike rt1 rt2 g h) : Parser.Alike Eq (parseDatatype g) (parseDatatype h) := by
  unfold parseDatatype
  refine alike_bind_eq (alike_parseSMLString a) (fun s => ?_)
  refine alike_bind_eq (alike_errorIf _ _ _ _) (fun _ => ?_)
  exact alike_bind_eq (alike_errorIf _ _ _ _) (fun _ => alike_pure rfl)

theorem alike_parseSingle {rt1 rt2 : GoRuntime} {l1 l2 : List Generic}
    (hl : List.Forall₂ (Generic.Alike rt1 rt2) l1 l2) (msg : Str) (n1 n2 : Int) :
    Parser.Alike Eq (parseSingle l1 msg n1) (parseSingle l2 msg n2) := by
  unfold parseSingle
  rw [hl.length_eq]
  refine alike_bind_eq (alike_errorIf _ _ _ _) (fun _ => ?_)
  exact alike_bind (alike_first hl) (fun c1 c2 hc => alike_parseSMLString hc)

theorem alike_parseColumnChild {rt1 rt2 : GoRuntime} {g h : Generic} (state : Column × Bool)
    {e1 e2 : Keyword × List Generic} (hk : e1.1 = e2.1)
    (hl : List.Forall₂ (Generic.Alike rt1 rt2) e1.2 e2.2) :
    Parser.Alike Eq (parseColumnChild g state e1) (parseColumnChild h state e2) := by
  unfold parseColumnChild
  dsimp only
  rw [← hk, hl.length_eq]
  repeat' first
    | exact alike_pure rfl
    | exact alike_parseSingle hl _ _ _
    | exact alike_errorIf _ _ _ _
    | exact alike_report _ _ _
    | exact alike_bind (alike_first hl) (fun c1 c2 hc =>
        alike_bind_eq (alike_parseDatatype hc) (fun _ => alike_pure rfl))
    | apply alike_ite
    | refine alike_bind_eq ?_ (fun _ => ?_)

theorem alike_parseColumn {rt1 rt2 : GoRuntime} (hu : rt2.unicode = rt1.unicode) {g h : Generic}
    (a : Generic.Alike rt1 rt2 g h) (tableName : Str) :
    Parser.Alike Eq (parseColumn rt1 g tableName) (parseColumn rt2 h tableName) := by
  unfold parseColumn parseColumnBegin parseColumnEnd
  rw [a.kw_eq, a.value_eq, hu]
  refine alike_bind_eq ?_ (fun r => ?_)
  · refine alike_bind_eq (alike_panicIf _ _ _ _) (fun _ => ?_)
    refine alike_bind_eq ?_ (fun _ => ?_)
    · exact alike_ite _ (alike_report _ _ _) (alike_errorIf _ _ _ _)
    · exact alike_forEach a.rangeChildren
        (fun s1 s2 b1 b2 hs hb => hs ▸ alike_parseColumnChild s1 hb.1 hb.2) _ _ rfl
  · exact alike_bind_eq (alike_errorIf _ _ _ _) (fun _ => alike_pure rfl)

theorem alike_parseTableColumn {rt1 rt2 : GoRuntime} (hu : rt2.unicode = rt1.unicode)
    (tableName : Str)
    (state : GoMap Column × List Str) {c1 c2 : Generic} (a : Generic.Alike rt1 rt2 c1 c2) :
    Parser.Alike Eq (parseTableColumn rt1 tableName state c1)
      (parseTableColumn rt2 tableName state c2) := by
  unfold parseTableColumn
  refine alike_bind_eq (alike_parseColumn hu a tableName) (fun column => ?_)
  refine alike_ite _ ?_ (alike_pure rfl)
  exact alike_bind_eq (alike_report _ _ _) (fun _ => alike_pure rfl)

theorem alike_parseTableChild {rt1 rt2 : GoRuntime} (hu : rt2.unicode = rt1.unicode) {g h : Generic}
    (state : Table × List Str)
    {e1 e2 : Keyword × List Generic} (hk : e1.1 = e2.1)
    (hl : List.Forall₂ (Generic.Alike rt1 rt2) e1.2 e2.2) :
    Parser.Alike Eq (parseTableChild rt1 g state e1) (parseTableChild rt2 h state e2) := by
  unfold parseTableChild
  dsimp only
  rw [← hk]
  repeat' first
    | exact alike_pure rfl
    | exact alike_parseSingle hl _ _ _
    | exact alike_report _ _ _
    | exact alike_forEach hl
        (fun s1 s2 b1 b2 hs hb => hs ▸ alike_parseTableColumn hu _ s1 hb) _ _ rfl
    | apply alike_ite
    | refine alike_bind_eq ?_ (fun _ => ?_)

theorem alike_parseTable {rt1 rt2 : GoRuntime} (hu : rt2.unicode = rt1.unicode) {g h : Generic}
    (a : Generic.Alike rt1 rt2 g h) : Parser.Alike Eq (parseTable rt1 g) (parseTable rt2 h) := by
  unfold parseTable parseTableBegin parseTableEnd
  rw [a.kw_eq, a.value_eq, hu]
  refine alike_bind_eq ?_ (fun r => ?_)
  · refine alike_bind_eq (alike_panicIf _ _ _ _) (fun _ => ?_)
    refine alike_bind_eq ?_ (fun _ => ?_)
    · exact alike_ite _ (alike_report _ _ _) (alike_errorIf _ _ _ _)
    · exact alike_forEach a.rangeChildren
        (fun s1 s2 b1 b2 hs hb => hs ▸ alike_parseTableChild hu s1 hb.1 hb.2) _ _ rfl
  · exact alike_bind_eq (alike_errorIf _ _ _ _) (fun _ => alike_pure rfl)
theorem Generic.Alike.rangeChildren_sorted {rt1 rt2 : GoRuntime} {g h : Generic}
    (a : Generic.Alike rt1 rt2 g h) :
    List.Forall₂
      (fun e1 e2 => e1.1 = e2.1 ∧ List.Forall₂ (Generic.Alike rt1 rt2) e1.2 e2.2 ∧
        List.Forall₂ (Generic.Alike rt1 rt2) (sortByLine e1.2) (sortByLine e2.2))
      (sml.rangeChildren rt1 g) (sml.rangeChildren rt2 h) := by
  unfold sml.rangeChildren
  rw [a.keys_eq]
  exact forall₂_map_same _ _ _ (fun kw => ⟨rfl, a.childrenOf kw, a.sorted kw⟩)

theorem alike_validateOneToManyJoinCondition {u : GoUnicode} (sql oneTable oneToMany : Str)
    (n1 n2 : Int) :
    Parser.Alike Eq (validateOneToManyJoinCondition u sql oneTable oneToMany n1)
      (validateOneToManyJoinCondition u sql oneTable oneToMany n2) := by
  unfold validateOneToManyJoinCondition
  refine alike_bind_eq ?_ (fun r => ?_)
  · apply alike_forEach_same
    · intro s1 s2 b hs
      subst hs
      refine alike_bind_eq (alike_errorIf _ _ _ _) (fun _ => ?_)
      exact alike_bind_eq (alike_errorIf _ _ _ _) (fun _ => alike_pure rfl)
    · rfl
  · exact alike_bind_eq (alike_errorIf _ _ _ _) (fun _ => alike_pure rfl)

theorem alike_parseJoinCondition {rt1 rt2 : GoRuntime} {u : GoUnicode} (otsSQL : Str)
    {l1 l2 : List Generic}
    (hl : List.Forall₂ (Generic.Alike rt1 rt2) l1 l2) (owner : Str) (n1 n2 : Int)
    (decoratorMsg : Str → Str) :
    Parser.Alike Eq (parseJoinCondition u otsSQL l1 owner n1 decoratorMsg)
      (parseJoinCondition u otsSQL l2 owner n2 decoratorMsg) := by
  unfold parseJoinCondition
  rw [hl.length_eq]
  refine alike_bind_eq (alike_panicIf _ _ _ _) (fun _ => ?_)
  refine alike_bind (alike_first hl) (fun c1 c2 hc => ?_)
  refine alike_bind_eq (alike_parseSMLString hc) (fun sql => ?_)
  refine alike_bind_eq (alike_panicIf _ _ _ _) (fun _ => ?_)
  exact alike_bind_eq (alike_panicIf _ _ _ _) (fun _ => alike_pure rfl)

theorem alike_parseThenChild {rt1 rt2 : GoRuntime} {u : GoUnicode} (t1 t2 : Generic) (otsSQL : Str)
    {e1 e2 : Keyword × List Generic} (hk : e1.1 = e2.1)
    (hl : List.Forall₂ (Generic.Alike rt1 rt2) e1.2 e2.2) :
    Parser.Alike Eq (parseThenChild u t1 otsSQL e1) (parseThenChild u t2 otsSQL e2) := by
  unfold parseThenChild
  rw [← hk]
  exact alike_ite _ (alike_parseJoinCondition _ hl _ _ _ _) (alike_fatal _ _ _)

theorem alike_parseThen {rt1 rt2 : GoRuntime} (hu : rt2.unicode = rt1.unicode) {g h : Generic}
    (a : Generic.Alike rt1 rt2 g h) : Parser.Alike Eq (parseThen rt1 g) (parseThen rt2 h) := by
  unfold parseThen
  rw [a.value_eq, hu]
  refine alike_bind_eq (alike_panicIf _ _ _ _) (fun _ => ?_)
  refine alike_bind_eq (alike_panicIf _ _ _ _) (fun _ => ?_)
  dsimp only
  split
  · exact alike_fatal _ _ _
  · refine alike_bind_eq (alike_panicIf _ _ _ _) (fun _ => ?_)
    refine alike_bind_eq ?_ (fun sql => ?_)
    · exact alike_forEach a.rangeChildren
        (fun s1 s2 b1 b2 hs hb => hs ▸ alike_parseThenChild g h s1 hb.1 hb.2) _ _ rfl
    · exact alike_bind_eq (alike_panicIf _ _ _ _) (fun _ => alike_pure rfl)

theorem alike_parseJoinChild {rt1 rt2 : GoRuntime} {u : GoUnicode} (g h : Generic)
    {s1 s2 : Str × List Generic} (hs1 : s1.1 = s2.1)
    (hs2 : List.Forall₂ (Generic.Alike rt1 rt2) (sortByLine s1.2) (sortByLine s2.2))
    {e1 e2 : Keyword × List Generic} (hk : e1.1 = e2.1)
    (hl : List.Forall₂ (Generic.Alike rt1 rt2) e1.2 e2.2)
    (hsorted : List.Forall₂ (Generic.Alike rt1 rt2) (sortByLine e1.2) (sortByLine e2.2)) :
    Parser.Alike
      (fun r1 r2 => r1.1 = r2.1 ∧
        List.Forall₂ (Generic.Alike rt1 rt2) (sortByLine r1.2) (sortByLine r2.2))
      (parseJoinChild u g s1 e1) (parseJoinChild u h s2 e2) := by
  unfold parseJoinChild
  rw [← hk, ← hs1]
  refine alike_ite _ ?_ (alike_ite _ (alike_pure ⟨rfl, hsorted⟩) (alike_fatal _ _ _))
  exact alike_bind_eq (alike_parseJoinCondition _ hl _ _ _ _) (fun _ => alike_pure ⟨rfl, hs2⟩)

theorem alike_parseJoinDecorator {u : GoUnicode} (g h : Generic) (oneToMany : Str)
    (ots : List OperatorTableSQL) :
    Parser.Alike Eq (parseJoinDecorator u g oneToMany ots)
      (parseJoinDecorator u h oneToMany ots) := by
  unfold parseJoinDecorator
  refine alike_bind_eq (alike_panicIf _ _ _ _) (fun _ => ?_)
  exact alike_bind_eq (alike_validateOneToManyJoinCondition _ _ _ _ _) (fun _ => alike_pure rfl)

theorem alike_parseJoin {rt1 rt2 : GoRuntime} (hu : rt2.unicode = rt1.unicode) {g h : Generic}
    (a : Generic.Alike rt1 rt2 g h) : Parser.Alike Eq (parseJoin rt1 g) (parseJoin rt2 h) := by
  unfold parseJoin
  rw [a.kw_eq, a.value_eq, hu]
  refine alike_bind_eq (alike_panicIf _ _ _ _) (fun _ => ?_)
  refine alike_bind_eq (alike_panicIf _ _ _ _) (fun _ => ?_)
  refine alike_bind_eq (alike_panicIf _ _ _ _) (fun _ => ?_)
  dsimp only
  refine alike_bind_eq (alike_panicIf _ _ _ _) (fun _ => ?_)
  split
  · exact alike_fatal _ _ _
  · refine alike_bind_eq (alike_panicIf _ _ _ _) (fun _ => ?_)
    refine alike_bind_eq (alike_panicIf _ _ _ _) (fun _ => ?_)
    refine alike_bind
      (alike_forEach a.rangeChildren_sorted
        (fun s1 s2 b1 b2 hs hb => alike_parseJoinChild g h hs.1 hs.2 hb.1 hb.2.1 hb.2.2) _ _
        ⟨rfl, List.Forall₂.nil⟩)
      (fun r1 r2 hr => ?_)
    rw [← hr.1]
    refine alike_bind_eq (alike_panicIf _ _ _ _) (fun _ => ?_)
    refine alike_bind_eq ?_ (fun ots => ?_)
    · exact alike_forEach hr.2
        (fun s1 s2 b1 b2 hs hb => hs ▸
          alike_bind_eq (alike_parseThen hu hb) (fun _ => alike_pure rfl)) _ _ rfl
    · exact alike_ite _ (alike_parseJoinDecorator g h _ _) (alike_pure rfl)

theorem alike_parseDatasetChild {rt1 rt2 : GoRuntime} (hu : rt2.unicode = rt1.unicode)
    (g h : Generic)
    (n : Dataset)
    {e1 e2 : Keyword × List Generic} (hk : e1.1 = e2.1)
    (hl : List.Forall₂ (Generic.Alike rt1 rt2) e1.2 e2.2) :
    Parser.Alike Eq (parseDatasetChild rt1 g n e1) (parseDatasetChild rt2 h n e2) := by
  unfold parseDatasetChild
  dsimp only
  rw [← hk]
  refine alike_ite _ ?_ (alike_ite _ ?_ (alike_ite _ ?_ ?_))
  · exact alike_forEach hl
      (fun s1 s2 b1 b2 hs hb => hs ▸
        alike_bind_eq (alike_parseIDList hb false) (fun _ => alike_pure rfl)) _ _ rfl
  · exact alike_forEach hl
      (fun s1 s2 b1 b2 hs hb => hs ▸
        alike_bind_eq (alike_parseJoin hu hb) (fun _ => alike_pure rfl)) _ _ rfl
  · exact alike_bind_eq (alike_parseSingle hl _ _ _) (fun _ => alike_pure rfl)
  · exact alike_bind_eq (alike_report _ _ _) (fun _ => alike_pure rfl)

theorem alike_parseDataset {rt1 rt2 : GoRuntime} (hu : rt2.unicode = rt1.unicode) {g h : Generic}
    (a : Generic.Alike rt1 rt2 g h) :
    Parser.Alike Eq (parseDataset rt1 g) (parseDataset rt2 h) := by
  unfold parseDataset
  rw [a.kw_eq, a.value_eq, hu]
  refine alike_bind_eq (alike_panicIf _ _ _ _) (fun _ => ?_)
  refine alike_bind_eq ?_ (fun _ => ?_)
  · exact alike_ite _ (alike_report _ _ _) (alike_errorIf _ _ _ _)
  · refine alike_bind_eq ?_ (fun _ => alike_pure rfl)
    exact alike_forEach a.rangeChildren
      (fun s1 s2 b1 b2 hs hb => hs ▸ alike_parseDatasetChild hu g h s1 hb.1 hb.2) _ _ rfl
theorem getTypedValue_congr (rt1 rt2 : GoRuntime) (hpf : rt2.parseFloat32 = rt1.parseFloat32)
    (hu : rt2.unicode = rt1.unicode) (v datatype : Str) :
    getTypedValue rt2 v datatype = getTypedValue rt1 v datatype := by
  unfold getTypedValue
  rw [hpf, hu]

theorem alike_parseSimpleCriteriaTermChild {rt1 rt2 : GoRuntime} (g h : Generic)
    (state : SimpleTermState) {e1 e2 : Keyword × List Generic} (hk : e1.1 = e2.1)
    (hl : List.Forall₂ (Generic.Alike rt1 rt2) e1.2 e2.2) :
    Parser.Alike Eq (parseSimpleCriteriaTermChild g state e1)
      (parseSimpleCriteriaTermChild h state e2) := by
  unfold parseSimpleCriteriaTermChild
  dsimp only
  rw [← hk]
  repeat' first
    | exact alike_pure rfl
    | exact alike_parseSingle hl _ _ _
    | exact alike_report _ _ _
    | apply alike_ite
    | refine alike_bind_eq ?_ (fun _ => ?_)

theorem alike_assert (b : Bool) : Parser.Alike Eq (assert b) (assert b) := by
  unfold assert
  exact alike_ite _ (alike_pure rfl) (alike_panicRuntime _)

theorem alike_findDatatype {u : GoUnicode} (tables : GoMap Table) (table column : Str) :
    Parser.Alike Eq (findDatatype u tables table column) (findDatatype u tables table column) := by
  unfold findDatatype
  exact alike_bind_eq (alike_assert _) (fun _ =>
    alike_bind_eq (alike_assert _) (fun _ => alike_pure rfl))

theorem alike_parseCriteriaValue {rt1 rt2 : GoRuntime}
    (hpf : rt2.parseFloat32 = rt1.parseFloat32) (hu : rt2.unicode = rt1.unicode) (g h : Generic)
        (tables : GoMap Table)
    (s : CriteriaSimpleTerm) {l1 l2 : List Generic}
    (hl : List.Forall₂ (Generic.Alike rt1 rt2) l1 l2) :
    Parser.Alike Eq (parseCriteriaValue rt1 g tables s l1)
      (parseCriteriaValue rt2 h tables s l2) := by
  unfold parseCriteriaValue
  rw [hu]
  refine alike_bind (alike_first hl) (fun c1 c2 hc => ?_)
  refine alike_bind_eq (alike_parseSMLString hc) (fun valueString => ?_)
  refine alike_bind_eq (alike_findDatatype _ _ _) (fun found => ?_)
  split
  · exact alike_bind_eq (alike_report _ _ _) (fun _ => alike_pure rfl)
  · dsimp only
    refine alike_bind_eq ?_ (fun _ => alike_pure rfl)
    apply alike_forEach_same
    · intro s1 s2 b hs
      subst hs
      rw [getTypedValue_congr rt1 rt2 hpf hu]
      split
      · exact alike_bind_eq (alike_report _ _ _) (fun _ => alike_pure rfl)
      · exact alike_pure rfl
    · rfl

theorem alike_granularityValue {u : GoUnicode} (g h : Generic) (done : List TypedValue)
    (v : TypedValue) :
    Parser.Alike Eq (granularityValue u g done v) (granularityValue u h done v) := by
  unfold granularityValue
  split
  · split
    · exact alike_pure rfl
    · exact alike_bind_eq (alike_report _ _ _) (fun _ => alike_pure rfl)
  · exact alike_panicRuntime _
  · exact alike_panicRuntime _
  · exact alike_panicRuntime _

theorem alike_parseGranularity {u : GoUnicode} (g h : Generic) (tables : GoMap Table)
    (s1 : CriteriaSimpleTerm) :
    Parser.Alike Eq (parseGranularity u g tables s1) (parseGranularity u h tables s1) := by
  unfold parseGranularity
  dsimp only
  refine alike_bind_eq (alike_errorIf _ _ _ _) (fun _ => ?_)
  refine alike_bind_eq ?_ (fun _ => alike_pure rfl)
  apply alike_forEach_same
  · intro s1 s2 b hs
    subst hs
    exact alike_granularityValue g h _ _
  · rfl

theorem alike_parseSimpleCriteriaTerm {rt1 rt2 : GoRuntime}
    (hpf : rt2.parseFloat32 = rt1.parseFloat32) (hu : rt2.unicode = rt1.unicode) {g h : Generic}
    (a : Generic.Alike rt1 rt2 g h) (tables : GoMap Table) :
    Parser.Alike Eq (parseSimpleCriteriaTerm rt1 g tables)
      (parseSimpleCriteriaTerm rt2 h tables) := by
  unfold parseSimpleCriteriaTerm
  rw [hu]
  refine alike_bind_eq ?_ (fun state => ?_)
  · exact alike_forEach a.rangeChildren
      (fun s1 s2 b1 b2 hs hb => hs ▸ alike_parseSimpleCriteriaTermChild g h s1 hb.1 hb.2) _ _ rfl
  refine alike_bind_eq (alike_errorIf _ _ _ _) (fun _ => ?_)
  refine alike_bind_eq (alike_errorIf _ _ _ _) (fun _ => ?_)
  refine alike_bind_eq (alike_errorIf _ _ _ _) (fun _ => ?_)
  refine alike_bind_eq ?_ (fun s1 => ?_)
  · refine alike_forEach a.rangeChildren (fun s1 s2 b1 b2 hs hb => ?_) _ _ rfl
    subst hs
    rw [← hb.1]
    exact alike_ite _ (alike_parseCriteriaValue hpf hu g h tables s1 hb.2) (alike_pure rfl)
  · exact alike_ite _ (alike_parseGranularity g h tables s1) (alike_pure rfl)
theorem parseCombinationChildren_eq (rt : GoRuntime) (tables : GoMap Table) (cs : List Generic) :
    parseCombinationChildren rt tables cs =
      cs.map (fun c => (c, parseCombinationCriteriaTerm rt tables c)) := by
  induction cs with
  | nil => rfl
  | cons c cs ih => rw [parseCombinationChildren, ih, List.map_cons]

theorem parseCriteriaChildren_eq (rt : GoRuntime) (tables : GoMap Table) (cs : List Generic) :
    parseCriteriaChildren rt tables cs = cs.map (fun c => (c, parseCriteria rt tables c)) := by
  induction cs with
  | nil => rfl
  | cons c cs ih => rw [parseCriteriaChildren, ih, List.map_cons]

theorem filter_pairs_map {β : Type} (cs : List Generic) (F : Generic → β) (k : Keyword) :
    (cs.map (fun c => (c, F c))).filter (fun c => c.1.kw = k) =
      (cs.filter (fun c => c.kw = k)).map (fun c => (c, F c)) := by
  induction cs with
  | nil => rfl
  | cons c cs ih =>
    simp only [List.map_cons, List.filter_cons]
    by_cases h : c.kw = k
    · simp only [h, decide_True, ↓reduceIte, List.map_cons, List.cons.injEq, true_and]
      exact ih
    · simp only [h, decide_False, Bool.false_eq_true, ↓reduceIte]
      exact ih

theorem forall₂_calls {β : Type} {rt1 rt2 : GoRuntime} {l1 l2 : List Generic}
    (F1 F2 : Generic → Parser β)
    (hl : List.Forall₂ (Generic.Alike rt1 rt2) l1 l2)
    (hF : ∀ c ∈ l1, ∀ d, Generic.Alike rt1 rt2 c d → Parser.Alike Eq (F1 c) (F2 d)) :
    List.Forall₂ (fun (a b : Generic × Parser β) => Parser.Alike Eq a.2 b.2)
      (l1.map (fun c => (c, F1 c))) (l2.map (fun c => (c, F2 c))) := by
  induction hl with
  | nil => exact List.Forall₂.nil
  | cons hab _ ih =>
    exact List.Forall₂.cons (hF _ (List.mem_cons_self _ _) _ hab)
      (ih (fun c hc d hd => hF c (List.mem_cons_of_mem _ hc) d hd))

theorem alike_parseCriteria {rt1 rt2 : GoRuntime} (hpf : rt2.parseFloat32 = rt1.parseFloat32)
    (hu : rt2.unicode = rt1.unicode) (tables : GoMap Table) :
    ∀ g h : Generic, Generic.Alike rt1 rt2 g h →
      Parser.Alike Eq (parseCriteria rt1 tables g) (parseCriteria rt2 tables h) ∧
      Parser.Alike Eq (parseCombinationCriteriaTerm rt1 tables g)
        (parseCombinationCriteriaTerm rt2 tables h) := by
  intro g
  induction g using Generic.induct with
  | h kw value children line ih =>
    intro h a
    cases h with
    | mk kw2 value2 children2 line2 =>
      have hkeys := a.keys_eq
      have hvalue := a.value_eq
      have hrandom := a.random_eq
      simp only [Generic.line, Generic.childKeys, Generic.children] at hkeys
      simp only [Generic.value] at hvalue
      simp only [Generic.line] at hrandom
      have hcalls1 : ∀ k, List.Forall₂
          (fun (a b : Generic × Parser CriteriaCombinationTerm) => Parser.Alike Eq a.2 b.2)
          ((parseCombinationChildren rt1 tables children).filter (fun c => c.1.kw = k))
          ((parseCombinationChildren rt2 tables children2).filter (fun c => c.1.kw = k)) := by
        intro k
        rw [parseCombinationChildren_eq, parseCombinationChildren_eq, filter_pairs_map,
          filter_pairs_map]
        exact forall₂_calls _ _ (a.childrenOf k)
          (fun c hc d hd => (ih c (List.mem_of_mem_filter hc) d hd).2)
      have hcalls2 : ∀ k, List.Forall₂
          (fun (a b : Generic × Parser CriteriaTerm) => Parser.Alike Eq a.2 b.2)
          ((parseCriteriaChildren rt1 tables children).filter (fun c => c.1.kw = k))
          ((parseCriteriaChildren rt2 tables children2).filter (fun c => c.1.kw = k)) := by
        intro k
        rw [parseCriteriaChildren_eq, parseCriteriaChildren_eq, filter_pairs_map,
          filter_pairs_map]
        exact forall₂_calls _ _ (a.childrenOf k)
          (fun c hc d hd => (ih c (List.mem_of_mem_filter hc) d hd).1)
      constructor
      · unfold parseCriteria
        dsimp only
        rw [hkeys, hvalue, hrandom]
        refine alike_bind_eq ?_ (fun r => ?_)
        · apply alike_forEach_same
          · intro s1 s2 k hs
            subst hs
            refine alike_ite _ ?_ (alike_pure rfl)
            exact alike_bind (alike_first (hcalls1 k))
              (fun c1 c2 hc => alike_bind_eq hc (fun _ => alike_pure rfl))
          · rfl
        · refine alike_ite _ ?_ (alike_pure rfl)
          exact alike_bind_eq (alike_parseSimpleCriteriaTerm hpf hu a tables)
            (fun _ => alike_pure rfl)
      · unfold parseCombinationCriteriaTerm
        dsimp only
        rw [hkeys, hvalue]
        refine alike_bind_eq ?_ (fun r => alike_pure rfl)
        apply alike_forEach_same
        · intro s1 s2 k hs
          subst hs
          refine alike_ite _ ?_ (alike_pure rfl)
          rw [(hcalls2 k).length_eq]
          refine alike_bind_eq (alike_errorIf _ _ _ _) (fun _ => ?_)
          exact alike_forEach (hcalls2 k)
            (fun t1 t2 b1 b2 ht hb => ht ▸ alike_bind_eq hb (fun _ => alike_pure rfl)) _ _ rfl
        · rfl
theorem alike_parseSchemeChild {rt1 rt2 : GoRuntime} (hpf : rt2.parseFloat32 = rt1.parseFloat32)
    (hu : rt2.unicode = rt1.unicode) (g h : Generic) (tables : GoMap Table) (state : Scheme × Bool)
    {e1 e2 : Keyword × List Generic} (hk : e1.1 = e2.1)
    (hl : List.Forall₂ (Generic.Alike rt1 rt2) e1.2 e2.2) :
    Parser.Alike Eq (parseSchemeChild rt1 g tables state e1)
      (parseSchemeChild rt2 h tables state e2) := by
  unfold parseSchemeChild
  dsimp only
  rw [← hk]
  repeat' first
    | exact alike_pure rfl
    | exact alike_parseSingle hl _ _ _
    | exact alike_report _ _ _
    | exact alike_forEach hl
        (fun s1 s2 b1 b2 hs hb => hs ▸
          alike_bind_eq (alike_parseCriteria hpf hu tables b1 b2 hb).1 (fun _ => alike_pure rfl))
        _ _ rfl
    | apply alike_ite
    | refine alike_bind_eq ?_ (fun _ => ?_)

theorem alike_parseScheme {rt1 rt2 : GoRuntime} (hpf : rt2.parseFloat32 = rt1.parseFloat32)
    (hu : rt2.unicode = rt1.unicode) {g h : Generic} (a : Generic.Alike rt1 rt2 g h)
        (tables : GoMap Table) :
    Parser.Alike Eq (parseScheme rt1 g tables) (parseScheme rt2 h tables) := by
  unfold parseScheme
  rw [a.kw_eq, a.value_eq]
  refine alike_bind_eq (alike_panicIf _ _ _ _) (fun _ => ?_)
  refine alike_bind_eq ?_ (fun _ => ?_)
  · exact alike_ite _ (alike_report _ _ _) (alike_errorIf _ _ _ _)
  · refine alike_bind_eq ?_ (fun r => ?_)
    · exact alike_forEach a.rangeChildren
        (fun s1 s2 b1 b2 hs hb => hs ▸ alike_parseSchemeChild hpf hu g h tables s1 hb.1 hb.2)
        _ _ rfl
    · exact alike_bind_eq (alike_errorIf _ _ _ _) (fun _ => alike_pure rfl)

theorem alike_parseProjectChild {rt1 rt2 : GoRuntime} (hu : rt2.unicode = rt1.unicode)
    (g h : Generic)
    (state : Project × Bool)
    {e1 e2 : Keyword × List Generic} (hk : e1.1 = e2.1)
    (hl : List.Forall₂ (Generic.Alike rt1 rt2) e1.2 e2.2) :
    Parser.Alike Eq (parseProjectChild rt1 g state e1) (parseProjectChild rt2 h state e2) := by
  unfold parseProjectChild
  dsimp only
  rw [← hk]
  refine alike_ite _ ?_ (alike_ite _ ?_ (alike_ite _ (alike_pure rfl) ?_))
  · refine alike_bind_eq ?_ (fun _ => alike_pure rfl)
    exact alike_forEach hl
      (fun s1 s2 b1 b2 hs hb => hs ▸
        alike_bind_eq (alike_parseTable hu hb) (fun _ => alike_ite _ (alike_pure rfl)
          (alike_pure rfl))) _ _ rfl
  · refine alike_bind_eq ?_ (fun _ => alike_pure rfl)
    exact alike_forEach hl
      (fun s1 s2 b1 b2 hs hb => hs ▸
        alike_bind_eq (alike_parseDataset hu hb) (fun _ => alike_pure rfl)) _ _ rfl
  · exact alike_bind_eq (alike_report _ _ _) (fun _ => alike_pure rfl)

theorem alike_parseSchemes {rt1 rt2 : GoRuntime} (hpf : rt2.parseFloat32 = rt1.parseFloat32)
    (hu : rt2.unicode = rt1.unicode) {g h : Generic} (a : Generic.Alike rt1 rt2 g h) (w : Project) :
    Parser.Alike Eq (parseSchemes rt1 g w) (parseSchemes rt2 h w) := by
  unfold parseSchemes
  exact alike_forEach (a.childrenOf skwScheme)
    (fun s1 s2 b1 b2 hs hb => hs ▸
      alike_bind_eq (alike_parseScheme hpf hu hb _) (fun _ => alike_pure rfl)) _ _ rfl

theorem alike_validateDataset (w : Project) (n1 n2 : Int) (dataset : Dataset) :
    Parser.Alike Eq (validateDataset w n1 dataset) (validateDataset w n2 dataset) := by
  unfold validateDataset
  refine alike_bind_eq ?_ (fun _ => ?_)
  · apply alike_forEach_same
    · intro s1 s2 b _
      exact alike_errorIf _ _ _ _
    · rfl
  · apply alike_forEach_same
    · intro s1 s2 b _
      apply alike_forEach_same
      · intro s3 s4 b2 _
        exact alike_errorIf _ _ _ _
      · rfl
    · rfl

theorem alike_validatePk {u : GoUnicode} (n1 n2 : Int) (table : Table) :
    Parser.Alike Eq (validatePk u n1 table) (validatePk u n2 table) := by
  unfold validatePk
  apply alike_forEach_same
  · intro s1 s2 b _
    exact alike_errorIf _ _ _ _
  · rfl

theorem rangeValues_congr {α : Type} (rt1 rt2 : GoRuntime) (hso : rt2.strOrder = rt1.strOrder)
    (salt : Int) (m : GoMap α) : rangeValues rt2 salt m = rangeValues rt1 salt m := by
  unfold rangeValues
  rw [hso]

theorem alike_validateProject {rt1 rt2 : GoRuntime} (hso : rt2.strOrder = rt1.strOrder)
    (hu : rt2.unicode = rt1.unicode) (g h : Generic) (w : Project) :
    Parser.Alike Eq (validateProject rt1 g w) (validateProject rt2 h w) := by
  unfold validateProject
  rw [rangeValues_congr rt1 rt2 hso, rangeValues_congr rt1 rt2 hso, hu]
  refine alike_bind_eq ?_ (fun _ => ?_)
  · apply alike_forEach_same
    · intro s1 s2 b _
      exact alike_validateDataset _ _ _ _
    · rfl
  · refine alike_bind_eq ?_ (fun _ => alike_pure rfl)
    apply alike_forEach_same
    · intro s1 s2 b _
      exact alike_validatePk _ _ _
    · rfl

theorem alike_parseProject {rt1 rt2 : GoRuntime} (hpf : rt2.parseFloat32 = rt1.parseFloat32)
    (hso : rt2.strOrder = rt1.strOrder) (hu : rt2.unicode = rt1.unicode) {g h : Generic}
        (a : Generic.Alike rt1 rt2 g h) :
    Parser.Alike Eq (parseProject rt1 g) (parseProject rt2 h) := by
  unfold parseProject
  rw [a.kw_eq, a.value_eq]
  refine alike_bind_eq (alike_panicIf _ _ _ _) (fun _ => ?_)
  refine alike_bind_eq (alike_errorIf _ _ _ _) (fun _ => ?_)
  refine alike_bind_eq ?_ (fun r => ?_)
  · exact alike_forEach a.rangeChildren
      (fun s1 s2 b1 b2 hs hb => hs ▸ alike_parseProjectChild hu g h s1 hb.1 hb.2) _ _ rfl
  · refine alike_bind_eq ?_ (fun w => alike_validateProject hso hu g h w)
    exact alike_ite _ (alike_parseSchemes hpf hu a _) (alike_pure rfl)

theorem parseProject_alike_ok {rt1 rt2 : GoRuntime} (hpf : rt2.parseFloat32 = rt1.parseFloat32)
    (hso : rt2.strOrder = rt1.strOrder) (hu : rt2.unicode = rt1.unicode) {g h : Generic}
        (a : Generic.Alike rt1 rt2 g h)
    (w : Project) (hrun : (parseProject rt1 g).run [] = .ok w []) :
    (parseProject rt2 h).run [] = .ok w [] := by
  have := alike_parseProject hpf hso hu a [] [] rfl
  rw [hrun] at this
  cases h2 : (parseProject rt2 h).run [] with
  | ok w2 s2 =>
    rw [h2] at this
    obtain ⟨rfl, hm⟩ := this
    have : s2 = [] := by
      simpa [msgsOf] using hm.symm
    rw [this]
  | panicErrors e => rw [h2] at this; exact this.elim
  | panicRuntime m => rw [h2] at this; exact this.elim
/-! ### C19: the tree of the text of `generic2string` is alike the tree it was written for -/

theorem walkOrderChildren_eq (rt : GoRuntime) (cs : List Generic) :
    walkOrderChildren rt cs = cs.map (fun c => (c, walkOrder rt c)) := by
  induction cs with
  | nil => rfl
  | cons c cs ih => rw [walkOrderChildren, ih, List.map_cons]

theorem flatten_map_flatten {α β γ : Type} (keys : List α) (f : α → List β) (w : β → List γ) :
    (keys.map (fun k => ((f k).map w).flatten)).flatten =
      (((keys.map f).flatten).map w).flatten := by
  induction keys with
  | nil => rfl
  | cons k ks ih =>
    simp only [List.map_cons, List.flatten_cons, List.map_append, List.flatten_append, ih]

theorem walkOrder_eq (rt : GoRuntime) (g : Generic) :
    walkOrder rt g = g :: ((g.ordered rt).map (walkOrder rt)).flatten := by
  cases g with
  | mk kw value children line =>
    rw [walkOrder, walkOrderChildren_eq]
    simp only [filter_pairs_snd children (walkOrder rt)]
    rw [flatten_map_flatten]
    rfl

theorem mem_ordered_iff (rt : GoRuntime) (g c : Generic) : c ∈ g.ordered rt ↔ c ∈ g.children := by
  constructor
  · exact mem_ordered rt g c
  · intro h
    unfold Generic.ordered
    rw [List.mem_flatten]
    refine ⟨g.childrenOf c.kw, ?_, ?_⟩
    · rw [List.mem_map]
      refine ⟨c.kw, ?_, rfl⟩
      rw [(rt.kwOrder_perm g.line g.childKeys).mem_iff, Generic.childKeys, mem_firstOccurrences]
      exact List.mem_map_of_mem _ h
    · unfold Generic.childrenOf
      rw [List.mem_filter]
      exact ⟨h, by simp⟩

theorem ordered_isEmpty (rt : GoRuntime) (g : Generic) :
    (g.ordered rt).isEmpty = g.children.isEmpty := by
  cases hc : g.children with
  | nil =>
    have : g.ordered rt = [] := by
      rw [List.eq_nil_iff_forall_not_mem]
      intro c hc1
      rw [mem_ordered_iff, hc] at hc1
      cases hc1
    rw [this]
  | cons c cs =>
    have h1 : c ∈ g.ordered rt := by
      rw [mem_ordered_iff, hc]
      exact List.mem_cons_self _ _
    cases ho : g.ordered rt with
    | nil => rw [ho] at h1; cases h1
    | cons x xs => rfl

theorem filter_flatten_other (g : Generic) (k : Keyword) (ks : List Keyword) (hk : k ∉ ks) :
    ((ks.map (fun k1 => g.childrenOf k1)).flatten).filter (fun c => c.kw = k) = [] := by
  rw [List.filter_eq_nil_iff]
  intro c hc
  rw [List.mem_flatten] at hc
  obtain ⟨l, hl, hcl⟩ := hc
  rw [List.mem_map] at hl
  obtain ⟨k1, hk1, rfl⟩ := hl
  unfold Generic.childrenOf at hcl
  have := (List.mem_filter.mp hcl).2
  simp only [decide_eq_true_eq] at this ⊢
  rw [this]
  exact fun e => hk (e ▸ hk1)

theorem filter_flatten_groups (g : Generic) (k : Keyword) :
    ∀ ks : List Keyword, ks.Nodup → k ∈ ks →
      ((ks.map (fun k1 => g.childrenOf k1)).flatten).filter (fun c => c.kw = k) =
        g.childrenOf k := by
  intro ks
  induction ks with
  | nil => intro _ h; cases h
  | cons k1 ks ih =>
    intro hnd hmem
    obtain ⟨h1, h2⟩ := List.nodup_cons.mp hnd
    rw [List.map_cons, List.flatten_cons, List.filter_append]
    by_cases hk : k1 = k
    · subst hk
      rw [filter_flatten_other g k1 ks h1, List.append_nil]
      unfold Generic.childrenOf
      rw [List.filter_filter]
      simp
    · have hmem1 : k ∈ ks := by
        rcases List.mem_cons.mp hmem with e | e
        · exact absurd e.symm hk
        · exact e
      rw [ih h2 hmem1]
      have : (g.childrenOf k1).filter (fun c => c.kw = k) = [] := by
        rw [List.filter_eq_nil_iff]
        intro c hc
        unfold Generic.childrenOf at hc
        have := (List.mem_filter.mp hc).2
        simp only [decide_eq_true_eq] at this ⊢
        rw [this]
        exact hk
      rw [this, List.nil_append]

theorem ordered_childrenOf (rt : GoRuntime) (g : Generic) (k : Keyword) :
    (g.ordered rt).filter (fun c => c.kw = k) = g.childrenOf k := by
  unfold Generic.ordered
  by_cases hk : k ∈ rt.kwOrder g.line g.childKeys
  · apply filter_flatten_groups g k _ _ hk
    exact (rt.kwOrder_perm g.line g.childKeys).nodup_iff.mpr (firstOccurrences_nodup _)
  · rw [filter_flatten_other g k _ hk]
    symm
    have hk1 : k ∉ g.childKeys := fun h =>
      hk ((rt.kwOrder_perm g.line g.childKeys).mem_iff.mpr h)
    rw [mem_childKeys] at hk1
    exact not_not.mp hk1
/-! ### C19: the lines of the tree that is read back -/

theorem renumber_eq (g : Generic) (n : Nat) :
    (renumber g n).1 = .mk g.kw g.value (renumberList g.children (n + 1)).1 ((n : Int) + 1) ∧
    (renumber g n).2 = (renumberList g.children (n + 1)).2 := by
  cases g with
  | mk kw value children line => exact ⟨rfl, rfl⟩

theorem renumber_snd_gt (g : Generic) (n : Nat) : n < (renumber g n).2 := by
  have h := (renumber_lines g n 0).1
  have hpos : 0 < (flatTokens (renumber g n).1 0).length :=
    List.length_pos.mpr (flatTokens_ne_nil _ _)
  omega

theorem renumberList_sorted : ∀ (cs : List Generic) (n : Nat),
    (∀ x ∈ (renumberList cs n).1, (n : Int) < x.line) ∧
    ((renumberList cs n).1.map Generic.line).Pairwise (· ≤ ·) ∧ n ≤ (renumberList cs n).2
  | [], n => by simp [renumberList]
  | c :: cs, n => by
    obtain ⟨h1, h2, h3⟩ := renumberList_sorted cs (renumber c n).2
    have hgt := renumber_snd_gt c n
    have hline : (renumber c n).1.line = (n : Int) + 1 := by
      rw [(renumber_eq c n).1]
      rfl
    rw [renumberList]
    refine ⟨?_, ?_, by omega⟩
    · intro x hx
      rcases List.mem_cons.mp hx with rfl | hx1
      · rw [hline]
        omega
      · have := h1 x hx1
        omega
    · rw [List.map_cons, List.pairwise_cons]
      refine ⟨?_, h2⟩
      intro l hl
      rw [List.mem_map] at hl
      obtain ⟨x, hx, rfl⟩ := hl
      have := h1 x hx
      rw [hline]
      omega

theorem renumber_regroup_snd (rt : GoRuntime) :
    ∀ (g : Generic) (n : Nat), (renumber (regroup rt g) n).2 = n + (walkOrder rt g).length := by
  intro g
  induction g using Generic.induct with
  | h kw value children line ih =>
    intro n
    have hlist : ∀ (l : List Generic), (∀ c ∈ l, c ∈ children) → ∀ m,
        (renumberList (l.map (regroup rt)) m).2 = m + ((l.map (walkOrder rt)).flatten).length := by
      intro l
      induction l with
      | nil => intro _ m; rfl
      | cons c cs ihl =>
        intro hsub m
        rw [List.map_cons, renumberList, List.map_cons, List.flatten_cons, List.length_append,
          ihl (fun x hx => hsub x (List.mem_cons_of_mem _ hx)),
          ih c (hsub c (List.mem_cons_self _ _))]
        omega
    rw [(renumber_eq _ n).2, regroup_eq, walkOrder_eq]
    simp only [Generic.children, List.length_cons]
    rw [hlist _ (fun c hc => mem_ordered rt (.mk kw value children line) c hc)]
    omega

theorem forall₂_filter {α β : Type} {R : α → β → Prop} (p : α → Bool) (q : β → Bool)
    {l1 : List α} {l2 : List β} (h : List.Forall₂ R l1 l2) (hpq : ∀ a b, R a b → p a = q b) :
    List.Forall₂ R (l1.filter p) (l2.filter q) := by
  induction h with
  | nil => exact List.Forall₂.nil
  | cons hab _ ih =>
    rw [List.filter_cons, List.filter_cons, hpq _ _ hab]
    split_ifs
    · exact List.Forall₂.cons hab ih
    · exact ih

theorem forall₂_map_kw {rt1 rt2 : GoRuntime} {l1 l2 : List Generic}
    (h : List.Forall₂ (Generic.Alike rt1 rt2) l1 l2) :
    l2.map Generic.kw = l1.map Generic.kw := by
  induction h with
  | nil => rfl
  | cons hab _ ih => rw [List.map_cons, List.map_cons, ih, hab.kw_eq]

theorem sortByLine_of_sorted (l : List Generic) (h : (l.map Generic.line).Pairwise (· ≤ ·)) :
    sortByLine l = l := by
  unfold sortByLine
  apply List.Sorted.insertionSort_eq
  rw [List.pairwise_map] at h
  exact h.imp (fun hab => by simpa using hab)

theorem pairwise_filter_lines (l : List Generic) (p : Generic → Bool)
    (h : (l.map Generic.line).Pairwise (· ≤ ·)) :
    ((l.filter p).map Generic.line).Pairwise (· ≤ ·) := by
  rw [List.pairwise_map] at h ⊢
  exact h.filter p

theorem lineOrdered_children (g : Generic) (h : g.lineOrdered = true) :
    (g.children.map Generic.line).Pairwise (· ≤ ·) ∧ ∀ c ∈ g.children, c.lineOrdered = true := by
  cases g with
  | mk kw value children line =>
    simp only [Generic.lineOrdered, Bool.and_eq_true, decide_eq_true_eq] at h
    refine ⟨h.1, ?_⟩
    have hl : ∀ cs : List Generic, Generic.lineOrderedList cs = true →
        ∀ c ∈ cs, c.lineOrdered = true := by
      intro cs
      induction cs with
      | nil => intro _ c hc; cases hc
      | cons d ds ihd =>
        intro hd c hc
        simp only [Generic.lineOrderedList, Bool.and_eq_true] at hd
        rcases List.mem_cons.mp hc with rfl | hc1
        · exact hd.1
        · exact ihd hd.2 c hc1
    exact hl children h.2
/-! ### C19: the tree that is read back, node by node -/

theorem originOf_at (rtp : GoRuntime) (g c : Generic) (A B : List Generic)
    (hw : walkOrder rtp g = A ++ walkOrder rtp c ++ B) :
    originOf rtp g ((A.length : Int) + 1) = some c := by
  unfold originOf
  have h1 : ((A.length : Int) + 1) ≥ 1 := by omega
  have h2 : (((A.length : Int) + 1) - 1).toNat = A.length := by simp
  rw [if_pos h1, h2, hw, walkOrder_eq rtp c, List.append_assoc,
    List.getElem?_append_right (le_refl _)]
  simp

theorem forall₂_isEmpty {β1 β2 : Type} {R : β1 → β2 → Prop} {l1 : List β1} {l2 : List β2}
    (hl : List.Forall₂ R l1 l2) : l1.isEmpty = l2.isEmpty := by
  cases hl <;> rfl

theorem relaid_alike (rt rtp : GoRuntime) (G : Generic) :
    ∀ (c : Generic) (A B : List Generic), walkOrder rtp G = A ++ walkOrder rtp c ++ B →
      c.lineOrdered = true →
      Generic.Alike rt (rt.after rtp G) c (renumber (regroup rtp c) A.length).1 := by
  intro c
  induction c using Generic.induct with
  | h kw value children line ih =>
    intro A B hw hlo
    obtain ⟨hsorted, hloc⟩ := lineOrdered_children _ hlo
    simp only [Generic.children] at hsorted hloc
    have horigin := originOf_at rtp G _ A B hw
    have hlist : ∀ (l : List Generic) (A1 B1 : List Generic), (∀ c ∈ l, c ∈ children) →
        walkOrder rtp G = A1 ++ (l.map (walkOrder rtp)).flatten ++ B1 →
        List.Forall₂ (Generic.Alike rt (rt.after rtp G)) l
          (renumberList (l.map (regroup rtp)) A1.length).1 := by
      intro l
      induction l with
      | nil =>
        intro A1 B1 _ _
        exact List.Forall₂.nil
      | cons c cs ihl =>
        intro A1 B1 hsub hw1
        rw [List.map_cons, renumberList]
        rw [List.map_cons, List.flatten_cons] at hw1
        have hc := hsub c (List.mem_cons_self _ _)
        refine List.Forall₂.cons
          (ih c hc A1 (((cs.map (walkOrder rtp)).flatten) ++ B1)
            (by rw [hw1]; simp only [List.append_assoc]) (hloc c hc)) ?_
        have hlen : (renumber (regroup rtp c) A1.length).2 = (A1 ++ walkOrder rtp c).length := by
          rw [renumber_regroup_snd, List.length_append]
        rw [hlen]
        exact ihl (A1 ++ walkOrder rtp c) B1 (fun x hx => hsub x (List.mem_cons_of_mem _ hx))
          (by rw [hw1]; simp only [List.append_assoc])
    have hL := hlist ((Generic.mk kw value children line).ordered rtp)
      (A ++ [Generic.mk kw value children line]) B
      (fun c hc => mem_ordered rtp (.mk kw value children line) c hc)
      (by rw [hw, walkOrder_eq]; simp only [List.append_assoc, List.singleton_append,
        List.cons_append, List.nil_append])
    rw [List.length_append, List.length_singleton] at hL
    have hnew : (renumber (regroup rtp (.mk kw value children line)) A.length).1 =
        .mk kw value
          (renumberList (((Generic.mk kw value children line).ordered rtp).map (regroup rtp))
            (A.length + 1)).1 ((A.length : Int) + 1) := by
      rw [(renumber_eq _ _).1, regroup_eq]
      rfl
    rw [hnew]
    have hkws := forall₂_map_kw hL
    have hfilter : ∀ k, List.Forall₂ (Generic.Alike rt (rt.after rtp G))
        ((Generic.mk kw value children line).childrenOf k)
        ((Generic.mk kw value
          (renumberList (((Generic.mk kw value children line).ordered rtp).map (regroup rtp))
            (A.length + 1)).1 ((A.length : Int) + 1)).childrenOf k) := by
      intro k
      rw [← ordered_childrenOf rtp]
      exact forall₂_filter _ _ hL (fun a b hab => by rw [hab.kw_eq])
    refine Generic.Alike.mk _ _ rfl rfl ?_ ?_ ?_ hfilter ?_
    · have hemp := ordered_isEmpty rtp (.mk kw value children line)
      simp only [Generic.children] at hemp ⊢
      rw [← hemp]
      exact forall₂_isEmpty hL
    · have hperm : (rt.kwOrder line (Generic.mk kw value children line).childKeys).Perm
          (Generic.mk kw value
            (renumberList (((Generic.mk kw value children line).ordered rtp).map (regroup rtp))
              (A.length + 1)).1 ((A.length : Int) + 1)).childKeys := by
        refine (rt.kwOrder_perm _ _).trans ?_
        refine (List.perm_ext_iff_of_nodup (firstOccurrences_nodup _)
          (firstOccurrences_nodup _)).mpr ?_
        intro x
        simp only [Generic.childKeys, Generic.children, mem_firstOccurrences, hkws, List.mem_map]
        constructor
        · rintro ⟨c, hc, rfl⟩
          exact ⟨c, (mem_ordered_iff rtp (.mk kw value children line) c).mpr hc, rfl⟩
        · rintro ⟨c, hc, rfl⟩
          exact ⟨c, (mem_ordered_iff rtp (.mk kw value children line) c).mp hc, rfl⟩
      show rt.kwOrder line _ = (rt.after rtp G).kwOrder ((A.length : Int) + 1) _
      simp only [GoRuntime.after, horigin, Generic.line]
      rw [if_pos hperm]
    · show rt.RandomString line = (rt.after rtp G).RandomString ((A.length : Int) + 1)
      simp only [GoRuntime.after, horigin, Generic.line]
    · intro k
      have h1 : sortByLine ((Generic.mk kw value children line).childrenOf k) =
          (Generic.mk kw value children line).childrenOf k :=
        sortByLine_of_sorted _ (pairwise_filter_lines _ _ hsorted)
      have h2 := sortByLine_of_sorted _ (pairwise_filter_lines
        (renumberList (((Generic.mk kw value children line).ordered rtp).map (regroup rtp))
          (A.length + 1)).1 (fun c => c.kw = k) (renumberList_sorted _ _).2.1)
      have h3 := hfilter k
      simp only [Generic.childrenOf, Generic.children] at h1 h3 ⊢
      rw [h1, h2]
      exact h3
/-! ### C19: the lines of the tokens of the lexer -/

theorem lexTrailer_line (lineNum : Nat) (line : Str) (pos indent : Nat) (kw : Keyword)
    (value : Str) :
    ∃ tok, lexTrailer lineNum line pos indent kw value = .next (some tok) (lineNum + 1) ∧
      tok.line = (lineNum : Int) + 1 := by
  unfold lexTrailer
  dsimp only
  split_ifs
  · exact ⟨_, rfl, rfl⟩
  · exact ⟨_, rfl, rfl⟩
  · exact ⟨_, rfl, rfl⟩

theorem lexValue_line (lineNum : Nat) (line : Str) (rest : List Str) (pos indent : Nat)
    (kw : Keyword) (tok : Token) (next : Nat)
    (h : lexValue lineNum line rest pos indent kw = .next (some tok) next) :
    tok.line = (next : Int) := by
  unfold lexValue at h
  dsimp only at h
  split_ifs at h with h1 h2 h3
  · cases hm : multilineString (pos + ((line.drop pos).takeWhile isSpace).length + 3)
      (line :: rest) with
    | none =>
      rw [hm] at h
      cases h
    | some r =>
      obtain ⟨newPos, linesConsumed, value⟩ := r
      rw [hm] at h
      obtain ⟨tok1, h4, h5⟩ := lexTrailer_line (lineNum + linesConsumed)
        ((line :: rest).getD linesConsumed []) newPos indent kw value
      simp only at h
      rw [h4] at h
      cases h
      rw [h5]
      push_cast
      rfl
  · cases hq : quotedLoop (line.getD (pos + ((line.drop pos).takeWhile isSpace).length) ' ')
      line line.length (pos + ((line.drop pos).takeWhile isSpace).length + 1) [] with
    | none =>
      rw [hq] at h
      cases h
    | some r =>
      obtain ⟨i, value⟩ := r
      rw [hq] at h
      obtain ⟨tok1, h4, h5⟩ := lexTrailer_line lineNum line (i + 1) indent kw value
      simp only at h
      rw [h4] at h
      cases h
      rw [h5]
      push_cast
      rfl
  · obtain ⟨tok1, h4, h5⟩ := lexTrailer_line lineNum line _ indent kw _
    rw [h4] at h
    cases h
    rw [h5]
    push_cast
    rfl
  · obtain ⟨tok1, h4, h5⟩ := lexTrailer_line lineNum line _ indent kw []
    rw [h4] at h
    cases h
    rw [h5]
    push_cast
    rfl

theorem lexLine_line (string2keyword : List (Str × Keyword)) (lineNum : Nat) (line : Str)
    (rest : List Str) (tok : Token) (next : Nat)
    (h : lexLine string2keyword lineNum line rest = .next (some tok) next) :
    tok.line = (next : Int) := by
  unfold lexLine at h
  dsimp only at h
  split_ifs at h with h1 h2
  · cases h
  · cases h
    simp [errorToken]
  · split at h
    · exact lexValue_line _ _ _ _ _ _ _ _ h
    · split at h
      · exact lexValue_line _ _ _ _ _ _ _ _ h
      · cases h
        simp [errorToken]

theorem runLexerLoop_sorted (string2keyword : List (Str × Keyword)) (lines : List Str) :
    ∀ (fuel n : Nat),
      (∀ t ∈ runLexerLoop string2keyword lines fuel n, (n : Int) + 1 ≤ t.line) ∧
      ((runLexerLoop string2keyword lines fuel n).map Token.line).Pairwise (· ≤ ·) := by
  intro fuel
  induction fuel with
  | zero =>
    intro n
    simp [runLexerLoop, eofToken]
  | succ fuel ih =>
    intro n
    rw [runLexerLoop]
    cases hd : lines.drop n with
    | nil => simp [eofToken]
    | cons line rest =>
      simp only
      cases hl : lexLine string2keyword n line rest with
      | stop tok =>
        rcases lexLine_stop _ _ _ _ _ hl with h | ⟨p, h⟩ <;> subst h <;>
          simp [eofToken, errorToken]
      | next tok next =>
        have hlt := lexLine_next_lt _ _ _ _ _ _ hl
        obtain ⟨ih1, ih2⟩ := ih next
        cases tok with
        | none =>
          simp only [Option.toList, List.nil_append]
          exact ⟨fun t ht => by have := ih1 t ht; omega, ih2⟩
        | some tok =>
          have hline := lexLine_line _ _ _ _ _ _ hl
          simp only [Option.toList, List.singleton_append, List.mem_cons, List.map_cons,
            List.pairwise_cons, List.mem_map]
          refine ⟨?_, ?_, ih2⟩
          · rintro t (rfl | ht)
            · omega
            · have := ih1 t ht
              omega
          · rintro x ⟨t, ht, rfl⟩
            have := ih1 t ht
            omega
/-! ### C19: the lines of the children that `parseGeneric` appends -/

theorem lineOrdered_of_children (kw : Keyword) (value : Str) (children : List Generic)
    (line : Int) (h1 : (children.map Generic.line).Pairwise (· ≤ ·))
    (h2 : ∀ c ∈ children, c.lineOrdered = true) :
    (Generic.mk kw value children line).lineOrdered = true := by
  rw [Generic.lineOrdered, Bool.and_eq_true]
  refine ⟨decide_eq_true h1, ?_⟩
  clear h1
  induction children with
  | nil => rfl
  | cons c cs ih =>
    rw [Generic.lineOrderedList, Bool.and_eq_true]
    exact ⟨h2 c (List.mem_cons_self _ _), ih (fun x hx => h2 x (List.mem_cons_of_mem _ hx))⟩

theorem recv_later (l : List Token) (h : l.Pairwise Token.notBefore) :
    ((recv l).1 :: (recv l).2).Pairwise Token.notBefore ∧
      ∀ t ∈ (recv l).1 :: (recv l).2, t ∈ l ∨ t.indent < 1 := by
  cases l with
  | nil =>
    refine ⟨List.pairwise_singleton _ _, fun t ht => Or.inr ?_⟩
    rw [List.mem_singleton.mp ht]
    decide
  | cons t ts => exact ⟨h, fun x hx => Or.inl hx⟩

theorem skipErrorTokens_later : ∀ (l : List Token) (tok : Token) (errs : List ParseError),
    (tok :: l).Pairwise Token.notBefore →
      ((skipErrorTokens tok l errs).1 :: (skipErrorTokens tok l errs).2.1).Pairwise
          Token.notBefore ∧
        ∀ t ∈ (skipErrorTokens tok l errs).1 :: (skipErrorTokens tok l errs).2.1,
          t ∈ tok :: l ∨ t.indent < 1 := by
  intro l
  induction l with
  | nil =>
    intro tok errs h
    rw [skipErrorTokens]
    split_ifs
    · refine ⟨List.pairwise_singleton _ _, fun t ht => Or.inr ?_⟩
      rw [List.mem_singleton.mp ht]
      show (recv []).1.indent < 1
      decide
    · exact ⟨h, fun x hx => Or.inl hx⟩
  | cons t ts ih =>
    intro tok errs h
    rw [skipErrorTokens]
    split_ifs
    · obtain ⟨h1, h2⟩ := ih t (errs ++ [{ Msg := tok.value, LineNum := tok.line }])
        (List.pairwise_cons.mp h).2
      refine ⟨h1, fun x hx => ?_⟩
      rcases h2 x hx with h3 | h3
      · exact Or.inl (List.mem_cons_of_mem _ h3)
      · exact Or.inr h3
    · exact ⟨h, fun x hx => Or.inl hx⟩

theorem parseGeneric_ordered : ∀ fuel : Nat,
    (∀ (l : List Token) (root : Token), 0 ≤ root.indent →
      (root :: l).Pairwise Token.notBefore →
      (parseGeneric fuel l root).g.lineOrdered = true ∧
      ((parseGeneric fuel l root).nextToken :: (parseGeneric fuel l root).l).Pairwise
        Token.notBefore ∧
      ∀ t ∈ (parseGeneric fuel l root).nextToken :: (parseGeneric fuel l root).l,
        t ∈ l ∨ t.indent < 1) ∧
    (∀ (childIndent : Int) (l : List Token) (nextToken : Token) (children : List Generic)
      (errs : List ParseError), 1 ≤ childIndent →
      (nextToken :: l).Pairwise Token.notBefore →
      (children.map Generic.line).Pairwise (· ≤ ·) →
      (∀ c ∈ children, c.lineOrdered = true) →
      (∀ c ∈ children, ∀ t ∈ nextToken :: l, 1 ≤ t.indent → c.line ≤ t.line) →
      (((parseChildren fuel childIndent l nextToken children errs).g.children.map
        Generic.line).Pairwise (· ≤ ·)) ∧
      (∀ c ∈ (parseChildren fuel childIndent l nextToken children errs).g.children,
        c.lineOrdered = true) ∧
      ((parseChildren fuel childIndent l nextToken children errs).nextToken ::
        (parseChildren fuel childIndent l nextToken children errs).l).Pairwise
          Token.notBefore ∧
      ∀ t ∈ (parseChildren fuel childIndent l nextToken children errs).nextToken ::
          (parseChildren fuel childIndent l nextToken children errs).l,
        t ∈ nextToken :: l ∨ t.indent < 1) := by
  intro fuel
  induction fuel with
  | zero =>
    constructor
    · intro l root _ h
      rw [parseGeneric]
      obtain ⟨h1, h2⟩ := recv_later l (List.pairwise_cons.mp h).2
      exact ⟨rfl, h1, h2⟩
    · intro childIndent l nextToken children errs _ h hs hlo _
      rw [parseChildren]
      exact ⟨hs, hlo, h, fun x hx => Or.inl hx⟩
  | succ fuel ih =>
    obtain ⟨ihg, ihc⟩ := ih
    constructor
    · intro l root hroot h
      rw [parseGeneric]
      obtain ⟨h1, h2⟩ := recv_later l (List.pairwise_cons.mp h).2
      obtain ⟨h3, h4⟩ := skipErrorTokens_later (recv l).2 (recv l).1 [] h1
      have hsub : ∀ t ∈ (skipErrorTokens (recv l).1 (recv l).2 []).1 ::
          (skipErrorTokens (recv l).1 (recv l).2 []).2.1, t ∈ l ∨ t.indent < 1 := by
        intro t ht
        rcases h4 t ht with h5 | h5
        · exact h2 t h5
        · exact Or.inr h5
      simp only
      split_ifs with hi hj
      · obtain ⟨c1, c2, c3, c4⟩ := ihc (skipErrorTokens (recv l).1 (recv l).2 []).1.indent
          (skipErrorTokens (recv l).1 (recv l).2 []).2.1
          (skipErrorTokens (recv l).1 (recv l).2 []).1 []
          (skipErrorTokens (recv l).1 (recv l).2 []).2.2 (by omega) h3 List.Pairwise.nil
          (fun c hc => by cases hc) (fun c hc => by cases hc)
        obtain ⟨h6, h7⟩ := recv_later _ (List.pairwise_cons.mp c3).2
        refine ⟨lineOrdered_of_children _ _ _ _ c1 c2, h6, fun t ht => ?_⟩
        rcases h7 t ht with h8 | h8
        · rcases c4 t (List.mem_cons_of_mem _ h8) with h9 | h9
          · exact hsub t h9
          · exact Or.inr h9
        · exact Or.inr h8
      · obtain ⟨c1, c2, c3, c4⟩ := ihc (skipErrorTokens (recv l).1 (recv l).2 []).1.indent
          (skipErrorTokens (recv l).1 (recv l).2 []).2.1
          (skipErrorTokens (recv l).1 (recv l).2 []).1 []
          (skipErrorTokens (recv l).1 (recv l).2 []).2.2 (by omega) h3 List.Pairwise.nil
          (fun c hc => by cases hc) (fun c hc => by cases hc)
        refine ⟨lineOrdered_of_children _ _ _ _ c1 c2, c3, fun t ht => ?_⟩
        rcases c4 t ht with h9 | h9
        · exact hsub t h9
        · exact Or.inr h9
      · exact ⟨rfl, h3, hsub⟩
    · intro childIndent l nextToken children errs hci h hs hlo hb
      rw [parseChildren]
      split_ifs with hi
      · obtain ⟨g1, g2, g3⟩ := ihg l nextToken (by omega) h
        have hline := (parseGeneric_root fuel l nextToken).2.2
        have hnb := (List.pairwise_cons.mp h).1
        obtain ⟨c1, c2, c3, c4⟩ := ihc childIndent (parseGeneric fuel l nextToken).l
          (parseGeneric fuel l nextToken).nextToken
              (children ++ [(parseGeneric fuel l nextToken).g])
          (errs ++ (parseGeneric fuel l nextToken).parseErrors) hci g2
          (by
            rw [List.map_append, List.pairwise_append]
            refine ⟨hs, by simp, ?_⟩
            intro a ha b hb1
            simp only [List.map_cons, List.map_nil, List.mem_singleton] at hb1
            obtain ⟨c, hc, rfl⟩ := List.mem_map.mp ha
            rw [hb1, hline]
            exact hb c hc nextToken (List.mem_cons_self _ _) (by omega))
          (by
            intro c hc
            rcases List.mem_append.mp hc with hc | hc
            · exact hlo c hc
            · rw [List.mem_singleton.mp hc]
              exact g1)
          (by
            intro c hc t ht hti
            have htl : t ∈ l := by
              rcases g3 t ht with h5 | h5
              · exact h5
              · omega
            rcases List.mem_append.mp hc with hc | hc
            · exact hb c hc t (List.mem_cons_of_mem _ htl) hti
            · rw [List.mem_singleton.mp hc, hline]
              exact hnb t htl hti)
        refine ⟨c1, c2, c3, fun t ht => ?_⟩
        rcases c4 t ht with h5 | h5
        · rcases g3 t h5 with h6 | h6
          · exact Or.inl (List.mem_cons_of_mem _ h6)
          · exact Or.inr h6
        · exact Or.inr h5
      · exact ⟨hs, hlo, h, fun x hx => Or.inl hx⟩
theorem lexTrailer_indent (lineNum : Nat) (line : Str) (pos indent : Nat) (kw : Keyword)
    (value : Str) (tok : Token) (next : Nat)
    (h : lexTrailer lineNum line pos indent kw value = .next (some tok) next) :
    tok.kw = kwError ∨ 0 ≤ tok.indent := by
  unfold lexTrailer at h
  dsimp only at h
  split_ifs at h <;> cases h
  · exact Or.inr (Int.natCast_nonneg _)
  · exact Or.inl rfl
  · exact Or.inr (Int.natCast_nonneg _)

theorem lexValue_indent (lineNum : Nat) (line : Str) (rest : List Str) (pos indent : Nat)
    (kw : Keyword) (tok : Token) (next : Nat)
    (h : lexValue lineNum line rest pos indent kw = .next (some tok) next) :
    tok.kw = kwError ∨ 0 ≤ tok.indent := by
  unfold lexValue at h
  dsimp only at h
  split_ifs at h with h1 h2 h3
  · cases hm : multilineString (pos + ((line.drop pos).takeWhile isSpace).length + 3)
      (line :: rest) with
    | none =>
      rw [hm] at h
      cases h
    | some r =>
      obtain ⟨newPos, linesConsumed, value⟩ := r
      rw [hm] at h
      exact lexTrailer_indent _ _ _ _ _ _ _ _ h
  · cases hq : quotedLoop (line.getD (pos + ((line.drop pos).takeWhile isSpace).length) ' ')
      line line.length (pos + ((line.drop pos).takeWhile isSpace).length + 1) [] with
    | none =>
      rw [hq] at h
      cases h
    | some r =>
      obtain ⟨i, value⟩ := r
      rw [hq] at h
      exact lexTrailer_indent _ _ _ _ _ _ _ _ h
  · exact lexTrailer_indent _ _ _ _ _ _ _ _ h
  · exact lexTrailer_indent _ _ _ _ _ _ _ _ h

theorem lexLine_indent (string2keyword : List (Str × Keyword)) (lineNum : Nat) (line : Str)
    (rest : List Str) (tok : Token) (next : Nat)
    (h : lexLine string2keyword lineNum line rest = .next (some tok) next) :
    tok.kw = kwError ∨ 0 ≤ tok.indent := by
  unfold lexLine at h
  dsimp only at h
  split_ifs at h with h1 h2
  · cases h
  · cases h
    exact Or.inl rfl
  · split at h
    · exact lexValue_indent _ _ _ _ _ _ _ _ h
    · split at h
      · exact lexValue_indent _ _ _ _ _ _ _ _ h
      · cases h
        exact Or.inl rfl

theorem runLexerLoop_indent (string2keyword : List (Str × Keyword)) (lines : List Str) :
    ∀ (fuel n : Nat), ∀ t ∈ runLexerLoop string2keyword lines fuel n,
      t.kw = kwError ∨ t.kw = kwEOF ∨ 0 ≤ t.indent := by
  intro fuel
  induction fuel with
  | zero =>
    intro n t ht
    rw [runLexerLoop, List.mem_singleton] at ht
    rw [ht]
    exact Or.inr (Or.inl rfl)
  | succ fuel ih =>
    intro n t ht
    rw [runLexerLoop] at ht
    cases hd : lines.drop n with
    | nil =>
      rw [hd] at ht
      rw [List.mem_singleton.mp ht]
      exact Or.inr (Or.inl rfl)
    | cons line rest =>
      rw [hd] at ht
      simp only at ht
      cases hl : lexLine string2keyword n line rest with
      | stop tok =>
        rw [hl] at ht
        simp only [List.mem_cons, List.mem_singleton, List.not_mem_nil, or_false] at ht
        rcases ht with rfl | rfl
        · rcases lexLine_stop _ _ _ _ _ hl with h | ⟨p, h⟩ <;> subst h <;> exact Or.inl rfl
        · exact Or.inr (Or.inl rfl)
      | next tok next =>
        rw [hl] at ht
        simp only [List.mem_append] at ht
        rcases ht with ht | ht
        · cases tok with
          | none => cases ht
          | some tok =>
            simp only [Option.toList, List.mem_singleton] at ht
            subst ht
            rcases lexLine_indent _ _ _ _ _ _ hl with h | h
            · exact Or.inl h
            · exact Or.inr (Or.inr h)
        · exact ih next t ht

theorem projectTree_lineOrdered (input : Str)
    (h : (recv (startLex input smlKeywords)).1.kw = skwProject) :
    (projectTree input).lineOrdered = true := by
  have hs := (runLexerLoop_sorted smlKeywords (strings.Split (replaceCRLF input) chNewline)
    ((strings.Split (replaceCRLF input) chNewline).length + 1) 0).2
  have hi := runLexerLoop_indent smlKeywords (strings.Split (replaceCRLF input) chNewline)
    ((strings.Split (replaceCRLF input) chNewline).length + 1) 0
  have hl : startLex input smlKeywords = runLexerLoop smlKeywords
      (strings.Split (replaceCRLF input) chNewline)
      ((strings.Split (replaceCRLF input) chNewline).length + 1) 0 := rfl
  rw [← hl] at hs hi
  unfold projectTree
  cases hc : startLex input smlKeywords with
  | nil =>
    rw [hc] at h
    exact absurd h (by decide)
  | cons root l =>
    rw [hc] at h hs hi
    simp only [recv] at h ⊢
    have hroot : 0 ≤ root.indent := by
      rcases hi root (List.mem_cons_self _ _) with h1 | h1 | h1
      · rw [h] at h1
        exact absurd h1 (by decide)
      · rw [h] at h1
        exact absurd h1 (by decide)
      · exact h1
    have hp : (root :: l).Pairwise Token.notBefore := by
      rw [List.pairwise_map] at hs
      refine List.Pairwise.imp ?_ hs
      intro a b hab _
      exact hab
    exact ((parseGeneric_ordered _).1 l root hroot hp).1

theorem plainList_iff (cs : List Generic) :
    Generic.plainList cs = true ↔ ∀ c ∈ cs, c.plain = true := by
  induction cs with
  | nil => simp [Generic.plainList]
  | cons c cs ih => simp [Generic.plainList, ih]

theorem namedList_iff (ts : List KwTree) :
    KwTree.namedList ts = true ↔ ∀ t ∈ ts, t.named = true := by
  induction ts with
  | nil => simp [KwTree.namedList]
  | cons t ts ih => simp [KwTree.namedList, ih]

theorem printable_of_conforms : ∀ (g : Generic) (grammar : KwTree),
    grammar.named = true → g.conforms grammar = true →
    smlKeywords.any (fun e => e.2 = g.kw) = true → g.plain = true → g.printable = true := by
  intro g
  induction g using Generic.induct with
  | h kw value children line ih =>
    intro grammar hn hc hk hp
    have hch := conforms_children _ _ hc
    simp only [Generic.children] at hch
    rw [Generic.plain, Bool.and_eq_true, plainList_iff] at hp
    rw [Generic.printable, Bool.and_eq_true, Bool.and_eq_true, printableList_iff]
    refine ⟨⟨hk, hp.1⟩, fun c hcm => ?_⟩
    obtain ⟨sub, hf, hcs⟩ := hch c hcm
    cases grammar with
    | mk gkw gchildren =>
      rw [KwTree.named, Bool.and_eq_true, namedList_iff] at hn
      simp only [KwTree.children] at hf
      have hsub := hn.2 sub (List.mem_of_find?_eq_some hf)
      have hkw := List.find?_some hf
      simp only [decide_eq_true_eq] at hkw
      have hsk : smlKeywords.any (fun e => e.2 = c.kw) = true := by
        cases sub with
        | mk skw schildren =>
          rw [KwTree.named, Bool.and_eq_true] at hsub
          rw [← hkw]
          exact hsub.1
      exact ih c hcm sub hsub hcs hsk (hp.2 c hcm)

set_option maxRecDepth 1000000 in
theorem smlKwTree_named : smlKwTree.named = true := by decide!
/-! ### C19: `ParseSML` on a source that starts with a project -/

theorem finishParseSML_after (rt rtp : GoRuntime) (G : Generic) (w : Project)
    (errs : List ParseError) (token : Token) :
    finishParseSML (rt.after rtp G) w errs token = finishParseSML rt w errs token := rfl

theorem finishParseSML_eof (rt : GoRuntime) (w : Project) (errs : List ParseError)
    (token : Token) (n : Nat) (h : (finishParseSML rt w errs token).2 = []) :
    finishParseSML rt w [] (eofToken n) = ((finishParseSML rt w errs token).1, []) := by
  unfold finishParseSML at h ⊢
  dsimp only at h ⊢
  by_cases h1 : token.kw ≠ kwEOF
  · rw [if_pos h1] at h
    rw [if_pos (by simp)] at h
    simp at h
  · rw [if_neg h1] at h ⊢
    by_cases h2 : errs.length > 0
    · rw [if_pos h2] at h
      dsimp only at h
      rw [h] at h2
      simp at h2
    · rw [if_neg h2] at h ⊢
      have he : errs = [] := List.length_eq_zero.mp (by omega)
      subst he
      have hk : ¬ (eofToken n).kw ≠ kwEOF := by simp [eofToken]
      rw [if_neg hk, if_neg h2]
      dsimp only at h
      rw [h]

theorem ParseSML_project (rt : GoRuntime) (input projectName : Str)
    (h : (recv (startLex input smlKeywords)).1.kw = skwProject)
    (hpe : (parseGeneric (parseGenericFuel (recv (startLex input smlKeywords)).2)
      (recv (startLex input smlKeywords)).2
      (recv (startLex input smlKeywords)).1).parseErrors = [])
    (hie : findIndentationErrors rt (projectTree input) smlKwTree smlKeywords = []) :
    (∀ w errs, (parseProject rt (projectTree input)).run [] = .ok w errs →
      ParseSML rt input projectName =
        finishParseSML rt (if projectName ≠ [] then { w with Name := projectName } else w) errs
          (parseGeneric (parseGenericFuel (recv (startLex input smlKeywords)).2)
            (recv (startLex input smlKeywords)).2
            (recv (startLex input smlKeywords)).1).nextToken) ∧
    (∀ pe, (parseProject rt (projectTree input)).run [] = .panicErrors pe →
      ParseSML rt input projectName = ({}, pe)) ∧
    (∀ msg, (parseProject rt (projectTree input)).run [] = .panicRuntime msg →
      ParseSML rt input projectName =
        ({}, [{ Msg := "unknown error: ".toList ++ msg, LineNum := -1 }])) := by
  unfold projectTree at hie ⊢
  unfold ParseSML
  dsimp only
  have h1 : ¬ (recv (startLex input smlKeywords)).1.kw = kwError := by
    rw [h]
    decide
  have h2 : ¬ (recv (startLex input smlKeywords)).1.kw = kwEOF := by
    rw [h]
    decide
  rw [if_neg h1, if_neg h2, if_pos h, hpe, hie]
  simp only [List.length_nil, gt_iff_lt, lt_self_iff_false, if_false]
  refine ⟨fun w errs hr => ?_, fun pe hr => ?_, fun msg hr => ?_⟩ <;> rw [hr]

theorem ParseSML_ok_inv (rt : GoRuntime) (input projectName : Str)
    (h : (recv (startLex input smlKeywords)).1.kw = skwProject)
    (hok : (ParseSML rt input projectName).2 = []) :
    (parseGeneric (parseGenericFuel (recv (startLex input smlKeywords)).2)
      (recv (startLex input smlKeywords)).2
      (recv (startLex input smlKeywords)).1).parseErrors = [] ∧
    findIndentationErrors rt (projectTree input) smlKwTree smlKeywords = [] := by
  unfold projectTree
  unfold ParseSML at hok
  dsimp only at hok
  have h1 : ¬ (recv (startLex input smlKeywords)).1.kw = kwError := by
    rw [h]
    decide
  have h2 : ¬ (recv (startLex input smlKeywords)).1.kw = kwEOF := by
    rw [h]
    decide
  rw [if_neg h1, if_neg h2, if_pos h] at hok
  by_cases h4 : (parseGeneric (parseGenericFuel (recv (startLex input smlKeywords)).2)
      (recv (startLex input smlKeywords)).2
      (recv (startLex input smlKeywords)).1).parseErrors.length > 0
  · rw [if_pos h4] at hok
    dsimp only at hok
    rw [hok] at h4
    simp at h4
  rw [if_neg h4] at hok
  by_cases h5 : (findIndentationErrors rt (parseGeneric (parseGenericFuel
      (recv (startLex input smlKeywords)).2) (recv (startLex input smlKeywords)).2
      (recv (startLex input smlKeywords)).1).g smlKwTree smlKeywords).length > 0
  · rw [if_pos h5] at hok
    dsimp only at hok
    rw [hok] at h5
    simp at h5
  exact ⟨List.length_eq_zero.mp (by omega), List.length_eq_zero.mp (by omega)⟩

theorem msgsOf_eq_nil (errs : List ParseError) (h : msgsOf errs = []) : errs = [] := by
  cases errs with
  | nil => rfl
  | cons e es => cases h
/-! ### C19: the round trip through `generic2string` -/

/-- C19 (amended): let `ParseSML` parse the source `input`, whose first
token is a project, without errors, into the tree `projectTree input` and a
project; let the tree be valid for the grammar `smlKwTree` and every value in
it be plain (empty, or without a quote at its start, without `//`, `#` and
newline, and without white space at its ends).  Then `ParseSML` parses the
text `generic2string` gives for the tree, in whatever order `rtp` the printer
visits the children, without errors into the same project, when the run time
makes at every node of the new tree the choices (the order of the keys of the
children, the random name of a criterion) it made at the node of the first
tree that the line was printed from. -/
theorem ParseSML_generic2string (rt rtp : GoRuntime) (input projectName : Str)
    (hproject : (recv (startLex input smlKeywords)).1.kw = skwProject)
    (hok : (ParseSML rt input projectName).2 = [])
    (hgrammar : (projectTree input).conforms smlKwTree = true)
    (hplain : (projectTree input).plain = true) :
    ParseSML (rt.after rtp (projectTree input)) (reemit rtp input) projectName =
      ((ParseSML rt input projectName).1, []) := by
  have hG : (projectTree input).kw = skwProject := by
    rw [← hproject]
    exact (parseGeneric_root _ _ _).1
  have hp : (projectTree input).printable = true :=
    printable_of_conforms _ smlKwTree smlKwTree_named hgrammar (by rw [hG]; decide) hplain
  have hlo := projectTree_lineOrdered input hproject
  obtain ⟨hpe, hie⟩ := ParseSML_ok_inv rt input projectName hproject hok
  obtain ⟨f1, f2, f3⟩ := ParseSML_project rt input projectName hproject hpe hie
  obtain ⟨t1, t2⟩ := projectTree_generic2string rtp (projectTree input) hp
  have h2tok : (recv (startLex (reemit rtp input) smlKeywords)).1.kw = skwProject := by
    rw [reemit, t1]
    exact hG
  have hpe2 : (parseGeneric (parseGenericFuel (recv (startLex (reemit rtp input) smlKeywords)).2)
      (recv (startLex (reemit rtp input) smlKeywords)).2
      (recv (startLex (reemit rtp input) smlKeywords)).1).parseErrors = [] :=
    congrArg GenericResult.parseErrors t2
  have htree2 : projectTree (reemit rtp input) = relaid rtp (projectTree input) :=
    congrArg GenericResult.g t2
  have hnext2 : (parseGeneric (parseGenericFuel (recv (startLex (reemit rtp input) smlKeywords)).2)
      (recv (startLex (reemit rtp input) smlKeywords)).2
      (recv (startLex (reemit rtp input) smlKeywords)).1).nextToken =
        eofToken (flatTokens (relaid rtp (projectTree input)) 0).length :=
    congrArg GenericResult.nextToken t2
  have hie2 : findIndentationErrors (rt.after rtp (projectTree input))
      (projectTree (reemit rtp input)) smlKwTree smlKeywords = [] := by
    rw [htree2]
    exact findIndentationErrors_conforms _ _ _ _ (relaid_conforms rtp _ _ hgrammar)
  obtain ⟨s1, s2, s3⟩ := ParseSML_project (rt.after rtp (projectTree input)) (reemit rtp input)
    projectName h2tok hpe2 hie2
  rw [htree2] at s1 s2 s3
  rw [hnext2] at s1
  have ha : Generic.Alike rt (rt.after rtp (projectTree input)) (projectTree input)
      (relaid rtp (projectTree input)) :=
    relaid_alike rt rtp (projectTree input) (projectTree input) [] []
      (by rw [List.nil_append, List.append_nil]) hlo
  have halike := @alike_parseProject rt (rt.after rtp (projectTree input)) rfl rfl rfl _ _ ha
    [] [] rfl
  cases h1 : (parseProject rt (projectTree input)).run [] with
  | ok w errs =>
    cases h2 : (parseProject (rt.after rtp (projectTree input))
        (relaid rtp (projectTree input))).run [] with
    | ok w2 errs2 =>
      rw [h1, h2] at halike
      obtain ⟨hw, hm⟩ := halike
      have e1 := f1 w errs h1
      rw [e1] at hok ⊢
      have herr := (finishParseSML_no_errors _ _ _ _ hok).1
      rw [herr] at hm
      have herr2 := msgsOf_eq_nil errs2 hm.symm
      rw [s1 w2 errs2 h2, herr2, ← hw, finishParseSML_after]
      exact finishParseSML_eof _ _ _ _ _ hok
    | panicErrors pe2 =>
      rw [h1, h2] at halike
      exact absurd halike id
    | panicRuntime m2 =>
      rw [h1, h2] at halike
      exact absurd halike id
  | panicErrors pe =>
    cases h2 : (parseProject (rt.after rtp (projectTree input))
        (relaid rtp (projectTree input))).run [] with
    | ok w2 errs2 =>
      rw [h1, h2] at halike
      exact absurd halike id
    | panicErrors pe2 =>
      rw [h1, h2] at halike
      have e1 := f2 pe h1
      rw [e1] at hok ⊢
      dsimp only at hok
      rw [hok] at halike
      rw [s2 pe2 h2, msgsOf_eq_nil pe2 halike.symm]
    | panicRuntime m2 =>
      rw [h1, h2] at halike
      exact absurd halike id
  | panicRuntime m =>
    have e1 := f3 m h1
    rw [e1] at hok
    cases hok
set_option maxRecDepth 1000000 in
/-- The hypotheses of C19 (amended) hold for `twoCriteriaDoc`, printed with
the keys of the children in the reverse order. -/
theorem ParseSML_generic2string_witness :
    (recv (startLex twoCriteriaDoc smlKeywords)).1.kw = skwProject ∧
    (ParseSML GoRuntime.insertionOrder twoCriteriaDoc []).2 = [] ∧
    (projectTree twoCriteriaDoc).conforms smlKwTree = true ∧
    (projectTree twoCriteriaDoc).plain = true ∧
    ParseSML (GoRuntime.insertionOrder.after GoRuntime.reverseOrder (projectTree twoCriteriaDoc))
        (reemit GoRuntime.reverseOrder twoCriteriaDoc) [] =
      ((ParseSML GoRuntime.insertionOrder twoCriteriaDoc []).1, []) :=
  ⟨by decide!, by decide!, by decide!, by decide!,
    ParseSML_generic2string GoRuntime.insertionOrder GoRuntime.reverseOrder twoCriteriaDoc []
      (by decide!) (by decide!) (by decide!) (by decide!)⟩

set_option maxRecDepth 1000000 in
/-- C19 fails as stated for a quoted value that holds a `#`:
`hashValueDocument` is parsed without errors and its tree is valid for the
grammar, the SQL of its table being `select 1 # x`; `generic2string` prints
the value without the quotes, and the text is parsed without errors into a
project whose table has the SQL `select 1`, whether the run time is the same
or makes the same choices node by node. -/
theorem ParseSML_generic2string_counterexample :
    ((recv (startLex hashValueDocument smlKeywords)).1.kw = skwProject ∧
      (ParseSML GoRuntime.insertionOrder hashValueDocument []).2 = [] ∧
      (projectTree hashValueDocument).conforms smlKwTree = true ∧
      tableSQL (ParseSML GoRuntime.insertionOrder hashValueDocument []).1 "t".toList =
        some "select 1 # x".toList) ∧
    (reemit GoRuntime.insertionOrder hashValueDocument =
        "project p\n  table t\n    sql select 1 # x".toList ∧
      (ParseSML GoRuntime.insertionOrder (reemit GoRuntime.insertionOrder hashValueDocument)
        []).2 = [] ∧
      tableSQL (ParseSML GoRuntime.insertionOrder
        (reemit GoRuntime.insertionOrder hashValueDocument) []).1 "t".toList =
        some "select 1".toList) ∧
    ((ParseSML (GoRuntime.insertionOrder.after GoRuntime.insertionOrder
        (projectTree hashValueDocument))
        (reemit GoRuntime.insertionOrder hashValueDocument) []).2 = [] ∧
      tableSQL (ParseSML (GoRuntime.insertionOrder.after GoRuntime.insertionOrder
        (projectTree hashValueDocument))
        (reemit GoRuntime.insertionOrder hashValueDocument) []).1 "t".toList =
        some "select 1".toList) := by
  refine ⟨⟨?_, ?_, ?_, ?_⟩, ⟨?_, ?_, ?_⟩, ⟨?_, ?_⟩⟩ <;> decide!
/-! ### C21: a value without quotes -/

theorem HasPrefix_of_Index : ∀ (s sub : Str) (i : Nat), strings.Index s sub = some i →
    strings.HasPrefix (s.drop i) sub = true ∧ i ≤ s.length := by
  intro s
  induction s with
  | nil =>
    intro sub i h
    simp only [strings.Index] at h
    split_ifs at h with h1
    cases h
    cases sub with
    | nil => exact ⟨rfl, le_refl _⟩
    | cons c cs => cases h1
  | cons c s ih =>
    intro sub i h
    rw [strings.Index] at h
    split_ifs at h with h1
    · cases h
      exact ⟨h1, Nat.zero_le _⟩
    · cases hi : strings.Index s sub with
      | none =>
        rw [hi] at h
        cases h
      | some j =>
        rw [hi] at h
        cases h
        obtain ⟨h2, h3⟩ := ih sub j hi
        exact ⟨h2, Nat.succ_le_succ h3⟩

theorem getD_of_IndexByte : ∀ (s : Str) (c : Char) (i : Nat), strings.IndexByte s c = some i →
    i < s.length ∧ (s.drop i).head? = some c := by
  intro s
  induction s with
  | nil =>
    intro c i h
    cases h
  | cons d s ih =>
    intro c i h
    rw [strings.IndexByte] at h
    split_ifs at h with h1
    · cases h
      simp only [beq_iff_eq] at h1
      exact ⟨Nat.zero_lt_succ _, by rw [h1]; rfl⟩
    · cases hi : strings.IndexByte s c with
      | none =>
        rw [hi] at h
        cases h
      | some j =>
        rw [hi] at h
        cases h
        obtain ⟨h2, h3⟩ := ih c j hi
        exact ⟨Nat.succ_lt_succ h2, h3⟩

theorem bareEnd_le (s : Str) : bareEnd s ≤ s.length := by
  unfold bareEnd
  split
  · rename_i i h
    exact (HasPrefix_of_Index s _ i h).2
  · split
    · rename_i i h
      exact le_of_lt (getD_of_IndexByte s _ i h).1
    · exact le_refl _

theorem bareEnd_spec (s : Str) :
    bareEnd s = s.length ∨ (s.drop (bareEnd s)).head? = some '#' ∨
      strings.HasPrefix (s.drop (bareEnd s)) ['/', '/'] = true := by
  unfold bareEnd
  split
  · rename_i i h
    exact Or.inr (Or.inr (HasPrefix_of_Index s _ i h).1)
  · split
    · rename_i i h
      exact Or.inr (Or.inl (getD_of_IndexByte s _ i h).2)
    · exact Or.inl rfl

theorem lexTrailer_comment (lineNum : Nat) (line : Str) (pos indent : Nat) (kw : Keyword)
    (value : Str)
    (h : line.length ≤ pos ∨ (line.drop pos).head? = some '#' ∨
      strings.HasPrefix (line.drop pos) ['/', '/'] = true) :
    lexTrailer lineNum line pos indent kw value =
      .next (some { indent := indent, kw := kw, value := value, line := (lineNum : Int) + 1 })
        (lineNum + 1) := by
  unfold lexTrailer
  dsimp only
  rcases h with h | h | h
  · have hd : line.drop pos = [] := List.drop_eq_nil_of_le h
    rw [hd]
    simp only [List.takeWhile_nil, List.length_nil, Nat.add_zero]
    rw [if_neg (by omega)]
  · cases hd : line.drop pos with
    | nil =>
      rw [hd] at h
      cases h
    | cons c s =>
      rw [hd] at h
      simp only [List.head?_cons, Option.some.injEq] at h
      subst h
      have hs : (('#' :: s).takeWhile isSpace).length = 0 := by
        rw [List.takeWhile_cons]
        rfl
      have hlt : pos < line.length := by
        by_contra hc
        rw [List.drop_eq_nil_of_le (by omega)] at hd
        cases hd
      have hg : line.getD pos ' ' = '#' := by
        have := congrArg (fun l => l.headD ' ') hd
        simpa [List.getD_eq_getElem?_getD, List.headD_eq_head?_getD, List.head?_drop] using this
      rw [hs, Nat.add_zero, if_pos hlt, if_pos
          (by rw [Bool.or_eq_true]; exact Or.inl (decide_eq_true hg))]
  · cases hd : line.drop pos with
    | nil =>
      rw [hd] at h
      cases h
    | cons c s =>
      have hlt : pos < line.length := by
        by_contra hc
        rw [List.drop_eq_nil_of_le (by omega)] at hd
        cases hd
      have hs : ((line.drop pos).takeWhile isSpace).length = 0 := by
        rw [hd] at h ⊢
        have hc : c = '/' := by
          simp only [strings.HasPrefix, Bool.and_eq_true, beq_iff_eq] at h
          exact h.1
        subst hc
        rw [List.takeWhile_cons]
        rfl
      rw [← hd, hs, Nat.add_zero, if_pos hlt, if_pos (by rw [Bool.or_eq_true]; exact Or.inr h)]

theorem lexValue_bare (lineNum : Nat) (line : Str) (rest : List Str) (pos indent : Nat)
    (kw : Keyword)
    (h1 : pos + ((line.drop pos).takeWhile isSpace).length < line.length)
    (h2 : strings.HasPrefix (line.drop (pos + ((line.drop pos).takeWhile isSpace).length))
      tripleQuote = false)
    (h3 : line.getD (pos + ((line.drop pos).takeWhile isSpace).length) ' ' ≠ chDQuote)
    (h4 : line.getD (pos + ((line.drop pos).takeWhile isSpace).length) ' ' ≠ chSQuote) :
    lexValue lineNum line rest pos indent kw =
      .next (some { indent := indent, kw := kw,
                    value := strings.TrimSpace
                      ((line.drop (pos + ((line.drop pos).takeWhile isSpace).length)).take
                        (bareEnd (line.drop (pos + ((line.drop pos).takeWhile isSpace).length)))),
                    line := (lineNum : Int) + 1 })
        (lineNum + 1) := by
  unfold lexValue
  dsimp only
  generalize pos + ((line.drop pos).takeWhile isSpace).length = p at h1 h2 h3 h4 ⊢
  rw [if_pos h1, if_neg (by rw [h2]; exact Bool.false_ne_true),
    if_neg (by
      rw [Bool.or_eq_true, decide_eq_true_eq, decide_eq_true_eq]
      exact fun h => h.elim h3 h4)]
  have key : ∀ i, i = p + bareEnd (line.drop p) →
      lexTrailer lineNum line i indent kw (strings.TrimSpace ((line.drop p).take (i - p))) =
        .next (some { indent := indent, kw := kw,
                      value := strings.TrimSpace ((line.drop p).take (bareEnd (line.drop p))),
                      line := (lineNum : Int) + 1 })
          (lineNum + 1) := by
    intro i hi
    subst hi
    rw [Nat.add_sub_cancel_left]
    apply lexTrailer_comment
    have hle := bareEnd_le (line.drop p)
    rw [List.length_drop] at hle
    rcases bareEnd_spec (line.drop p) with h | h | h
    · left
      rw [h, List.length_drop]
      omega
    · right
      left
      rw [List.drop_drop] at h
      exact h
    · right
      right
      rw [List.drop_drop] at h
      exact h
  cases hI : strings.Index (line.drop p) ['/', '/'] with
  | some i =>
    apply key
    simp only [bareEnd, hI]
    exact Nat.add_comm i p
  | none =>
    cases hB : strings.IndexByte (line.drop p) '#' with
    | some i =>
      apply key
      simp only [bareEnd, hI, hB]
      exact Nat.add_comm i p
    | none =>
      apply key
      simp only [bareEnd, hI, hB, List.length_drop]
      omega

/-- C21 at the line `label a # b // c`: the text up to the first of the two
markers, trimmed, is `a`, the value the claim asks for; `runLexer` sends a
token with the value `a # b`, for it looks for `#` only in a line without
`//` (lingling.go:199).  With `//` before `#`, or with `#` alone, the value
is `a`. -/
theorem runLexer_bare_value :
    strings.TrimSpace ("a # b // c".toList.take (commentStart "a # b // c".toList)) = "a".toList ∧
    runLexer "label a # b // c".toList smlKeywords =
      [{ indent := 0, kw := skwLabel, value := "a # b".toList, line := 1 }, eofToken 1] ∧
    runLexer "label a // b # c".toList smlKeywords =
      [{ indent := 0, kw := skwLabel, value := "a".toList, line := 1 }, eofToken 1] ∧
    runLexer "label a # b".toList smlKeywords =
      [{ indent := 0, kw := skwLabel, value := "a".toList, line := 1 }, eofToken 1] := by
  decide
/-! ### C22: a quoted value -/

theorem unquote_none (dl : Char) : ∀ s : Str, strings.IndexByte s dl = none →
    unquote dl s = none := by
  intro s
  induction s using unquote.induct dl with
  | case1 => intro _; rfl
  | case2 =>
    intro h
    simp [strings.IndexByte] at h
  | case3 c hc =>
    intro _
    rw [unquote, if_neg hc]
  | case4 d s =>
    intro h
    simp [strings.IndexByte] at h
  | case5 c d s hc hb ih =>
    intro h
    rw [strings.IndexByte, if_neg (by simp [hc]), strings.IndexByte,
      if_pos (by simp [hb.2])] at h
    cases h
  | case6 c d s hc hb ih =>
    intro h
    rw [strings.IndexByte, if_neg (by simp [hc])] at h
    rw [unquote, if_neg hc, if_neg hb, ih (by simpa using h)]
    rfl

theorem unquote_of_index (dl : Char) : ∀ (s : Str) (j : Nat), strings.IndexByte s dl = some j →
    ((j = 0 ∨ s.getD (j - 1) ' ' ≠ chBackslash) → unquote dl s = some (s.take j, j)) ∧
    ((j ≠ 0 ∧ s.getD (j - 1) ' ' = chBackslash) →
      unquote dl s = (unquote dl (s.drop (j + 1))).map
        (fun r => (s.take (j - 1) ++ dl :: r.1, r.2 + (j + 1)))) := by
  intro s
  induction s using unquote.induct dl with
  | case1 =>
    intro j h
    cases h
  | case2 =>
    intro j h
    rw [strings.IndexByte, if_pos (by simp)] at h
    cases h
    exact ⟨fun _ => by simp [unquote], fun h2 => absurd rfl h2.1⟩
  | case3 c hc =>
    intro j h
    rw [strings.IndexByte, if_neg (by simp [hc])] at h
    cases h
  | case4 d s =>
    intro j h
    rw [strings.IndexByte, if_pos (by simp)] at h
    cases h
    exact ⟨fun _ => by simp [unquote], fun h2 => absurd rfl h2.1⟩
  | case5 c d s hc hb ih =>
    intro j h
    rw [strings.IndexByte, if_neg (by simp [hc]), strings.IndexByte,
      if_pos (by simp [hb.2])] at h
    cases h
    constructor
    · rintro (h2 | h2)
      · cases h2
      · exact absurd hb.1 h2
    · intro _
      rw [unquote, if_neg hc, if_pos hb]
      rfl
  | case6 c d s hc hb ih =>
    intro j h
    rw [strings.IndexByte, if_neg (by simp [hc])] at h
    cases hi : strings.IndexByte (d :: s) dl with
    | none =>
      rw [hi] at h
      cases h
    | some k =>
      rw [hi] at h
      cases h
      obtain ⟨ih1, ih2⟩ := ih k hi
      rw [unquote, if_neg hc, if_neg hb]
      cases k with
      | zero =>
        have hd : d = dl := by
          rw [strings.IndexByte] at hi
          split_ifs at hi with h1
          · simpa using h1
          · cases hj : strings.IndexByte s dl with
            | none =>
              rw [hj] at hi
              cases hi
            | some m =>
              rw [hj] at hi
              cases hi
        constructor
        · intro _
          rw [ih1 (Or.inl rfl)]
          rfl
        · rintro ⟨-, h3⟩
          exact absurd ⟨h3, hd⟩ hb
      | succ k =>
        constructor
        · rintro (h2 | h2)
          · cases h2
          · rw [ih1 (Or.inr h2)]
            rfl
        · rintro ⟨-, h3⟩
          rw [ih2 ⟨Nat.succ_ne_zero k, h3⟩, Option.map_map]
          rfl

theorem quotedLoop_eq (dl : Char) (line : Str) : ∀ (fuel i : Nat) (value : Str),
    line.length - i ≤ fuel →
    quotedLoop dl line fuel i value =
      (unquote dl (line.drop i)).map (fun r => (i + r.2, value ++ r.1)) := by
  intro fuel
  induction fuel with
  | zero =>
    intro i value h
    rw [quotedLoop, List.drop_eq_nil_of_le (by omega)]
    rfl
  | succ fuel ih =>
    intro i value h
    rw [quotedLoop]
    cases hi : strings.IndexByte (line.drop i) dl with
    | none =>
      rw [unquote_none dl _ hi]
      rfl
    | some j =>
      obtain ⟨u1, u2⟩ := unquote_of_index dl _ j hi
      have hg : j ≠ 0 → (line.drop i).getD (j - 1) ' ' = line.getD (i + j - 1) ' ' := by
        intro hj
        rw [List.getD_eq_getElem?_getD, List.getD_eq_getElem?_getD, List.getElem?_drop]
        congr 2
        omega
      simp only
      by_cases hc : j = 0 ∨ line.getD (i + j - 1) ' ' ≠ chBackslash
      · rw [if_pos (by
          rw [Bool.or_eq_true, decide_eq_true_eq, decide_eq_true_eq]
          exact hc)]
        rw [u1 (by
          rcases hc with hc | hc
          · exact Or.inl hc
          · by_cases hj : j = 0
            · exact Or.inl hj
            · exact Or.inr (by rw [hg hj]; exact hc))]
        rfl
      · rw [if_neg (by
          rw [Bool.or_eq_true, decide_eq_true_eq, decide_eq_true_eq]
          exact hc)]
        push_neg at hc
        rw [ih _ _ (by omega), u2 ⟨hc.1, by rw [hg hc.1]; exact hc.2⟩, Option.map_map,
          List.drop_drop]
        rw [Nat.add_assoc i j 1]
        congr 1
        funext r
        simp only [Function.comp, List.append_assoc, List.singleton_append, Prod.mk.injEq,
          and_true]
        omega

theorem lexTrailer_cases (lineNum : Nat) (line : Str) (pos indent : Nat) (kw : Keyword)
    (value : Str) :
    (∃ tok, lexTrailer lineNum line pos indent kw value = .next (some tok) (lineNum + 1) ∧
      (tok = { indent := indent, kw := kw, value := value, line := (lineNum : Int) + 1 } ∨
        ∃ q : Nat, tok = errorToken lineNum q ("unexpected content: ".toList ++ line.drop q))) ∧
    ((line.length ≤ pos + ((line.drop pos).takeWhile isSpace).length ∨
      line.getD (pos + ((line.drop pos).takeWhile isSpace).length) ' ' = '#' ∨
      strings.HasPrefix (line.drop (pos + ((line.drop pos).takeWhile isSpace).length))
        ['/', '/'] = true) →
      lexTrailer lineNum line pos indent kw value =
        .next (some { indent := indent, kw := kw, value := value, line := (lineNum : Int) + 1 })
          (lineNum + 1)) := by
  unfold lexTrailer
  dsimp only
  generalize pos + ((line.drop pos).takeWhile isSpace).length = p
  constructor
  · split_ifs
    · exact ⟨_, rfl, Or.inl rfl⟩
    · exact ⟨_, rfl, Or.inr ⟨p, rfl⟩⟩
    · exact ⟨_, rfl, Or.inl rfl⟩
  · intro h
    by_cases h1 : p < line.length
    · rw [if_pos h1, if_pos]
      rw [Bool.or_eq_true, decide_eq_true_eq]
      rcases h with h | h | h
      · omega
      · exact Or.inl h
      · exact Or.inr h
    · rw [if_neg h1]

/-- C22: in the third part of a round of `runLexer`, for a line `line` whose
value starts at `p` (the first byte after the keyword that is no blank or
tab) with a quote `"` or `'` that does not open a triple-quoted string: if
no delimiter without a backslash right before it follows on the line, the
lexer sends the error token `string not terminated` and leaves the loop;
else the value is the text between the delimiters in which every backslash
with a delimiter after it stands for the delimiter and every other backslash
is kept (`unquote`), the fourth part of the round is run with it at the byte
after the closing delimiter, and the token sent carries that value, when
only blanks or a comment follow, or is the error token for unexpected
content. -/
theorem lexValue_quoted (lineNum : Nat) (line : Str) (rest : List Str) (pos indent : Nat)
    (kw : Keyword) (p : Nat) (hp : p = pos + ((line.drop pos).takeWhile isSpace).length)
    (hlt : p < line.length)
    (hq : line.getD p ' ' = chDQuote ∨ line.getD p ' ' = chSQuote)
    (h3 : strings.HasPrefix (line.drop p) tripleQuote = false) :
    (unquote (line.getD p ' ') (line.drop (p + 1)) = none →
      lexValue lineNum line rest pos indent kw =
        .stop (errorToken lineNum p "string not terminated".toList)) ∧
    (∀ v k, unquote (line.getD p ' ') (line.drop (p + 1)) = some (v, k) →
      lexValue lineNum line rest pos indent kw = lexTrailer lineNum line (p + k + 2) indent kw v ∧
      (∃ tok, lexValue lineNum line rest pos indent kw = .next (some tok) (lineNum + 1) ∧
        (tok = { indent := indent, kw := kw, value := v, line := (lineNum : Int) + 1 } ∨
          ∃ q : Nat, tok = errorToken lineNum q ("unexpected content: ".toList ++ line.drop q))) ∧
      ((line.length ≤ p + k + 2 + ((line.drop (p + k + 2)).takeWhile isSpace).length ∨
        line.getD (p + k + 2 + ((line.drop (p + k + 2)).takeWhile isSpace).length) ' ' = '#' ∨
        strings.HasPrefix
          (line.drop (p + k + 2 + ((line.drop (p + k + 2)).takeWhile isSpace).length))
          ['/', '/'] = true) →
        lexValue lineNum line rest pos indent kw =
          .next (some { indent := indent, kw := kw, value := v, line := (lineNum : Int) + 1 })
            (lineNum + 1))) := by
  have hloop := quotedLoop_eq (line.getD p ' ') line line.length (p + 1) [] (by omega)
  have hc2 : ¬ (strings.HasPrefix (line.drop p) tripleQuote = true) := by
    rw [h3]
    exact Bool.false_ne_true
  have hc3 : (decide (line.getD p ' ' = chDQuote) || decide (line.getD p ' ' = chSQuote)) =
      true := by
    rw [Bool.or_eq_true, decide_eq_true_eq, decide_eq_true_eq]
    exact hq
  constructor
  · intro hn
    unfold lexValue
    dsimp only
    rw [← hp, if_pos hlt, if_neg hc2, if_pos hc3, hloop, hn]
    rfl
  · intro v k hs
    have he : lexValue lineNum line rest pos indent kw =
        lexTrailer lineNum line (p + k + 2) indent kw v := by
      unfold lexValue
      dsimp only
      rw [← hp, if_pos hlt, if_neg hc2, if_pos hc3, hloop, hs]
      simp only [Option.map_some', List.nil_append]
      have ha : p + 1 + k + 1 = p + k + 2 := by omega
      rw [ha]
    rw [he]
    exact ⟨rfl, (lexTrailer_cases lineNum line (p + k + 2) indent kw v).1,
      (lexTrailer_cases lineNum line (p + k + 2) indent kw v).2⟩

/-- The line `label "x\\\"y" # c` (three backslashes before the second
quote): the literal starts at the byte 6, the value is `x\\"y` (the first
two backslashes kept, the third with the quote giving the quote), and the
token carries it. -/
theorem lexValue_quoted_witness :
    (6 = 5 + (("label \"x\\\\\\\"y\" # c".toList.drop 5).takeWhile isSpace).length ∧
      "label \"x\\\\\\\"y\" # c".toList.getD 6 ' ' = chDQuote ∧
      unquote chDQuote ("label \"x\\\\\\\"y\" # c".toList.drop 7) = some ("x\\\\\"y".toList, 6)) ∧
    lexValue 0 "label \"x\\\\\\\"y\" # c".toList [] 5 0 skwLabel =
      .next (some { indent := 0, kw := skwLabel, value := "x\\\\\"y".toList, line := 1 }) 1 ∧
    runLexer "label \"x\\\\\\\"y\" # c".toList smlKeywords =
      [{ indent := 0, kw := skwLabel, value := "x\\\\\"y".toList, line := 1 }, eofToken 1] ∧
    runLexer "label 'ab".toList smlKeywords =
      [errorToken 0 6 "string not terminated".toList, eofToken 0] :=
  ⟨⟨by decide, by decide, by decide⟩,
    ((lexValue_quoted 0 "label \"x\\\\\\\"y\" # c".toList [] 5 0 skwLabel 6 (by decide)
      (by decide) (Or.inl (by decide)) (by decide)).2 "x\\\\\"y".toList 6 (by decide)).2.2
        (by decide),
    by decide, by decide⟩
/-! ### C23: `multilineString` -/

theorem Join_empty_sep : ∀ l : List Str, strings.Join l [] = l.flatten := by
  intro l
  induction l with
  | nil => rfl
  | cons a l ih =>
    cases l with
    | nil => simp [strings.Join]
    | cons b l =>
      rw [strings.Join, ih]
      simp

theorem multilineStringLoop_closed (closing : Str) (post : List Str) (j : Nat)
    (hj : strings.Index closing tripleQuote = some j) :
    ∀ (pre : List Str) (l : Str) (ls : List Str) (pos i : Nat) (pieces : List Str),
      l.drop pos :: ls = pre ++ closing :: post →
      (∀ s ∈ pre, strings.Index s tripleQuote = none) →
      multilineStringLoop (l :: ls) pos i pieces =
        some ((if pre = [] then pos else 0) + j + 3, i + pre.length,
          (pieces ++ pre.map linePiece).flatten ++ closing.take j) := by
  intro pre
  induction pre with
  | nil =>
    intro l ls pos i pieces h _
    simp only [List.nil_append, List.cons.injEq] at h
    rw [multilineStringLoop, h.1, hj]
    simp [Join_empty_sep]
  | cons s pre ih =>
    intro l ls pos i pieces h hpre
    simp only [List.cons_append, List.cons.injEq] at h
    rw [multilineStringLoop, h.1, hpre s (List.mem_cons_self _ _)]
    simp only
    have hls : ∃ l1 ls1, ls = l1 :: ls1 ∧ l1.drop 0 :: ls1 = pre ++ closing :: post := by
      cases pre with
      | nil => exact ⟨closing, post, h.2, by simp⟩
      | cons a pre => exact ⟨a, pre ++ closing :: post, h.2, by simp⟩
    obtain ⟨l1, ls1, h1, h2⟩ := hls
    rw [h1, ih l1 ls1 0 (i + 1) _ h2 (fun x hx => hpre x (List.mem_cons_of_mem _ hx))]
    simp only [linePiece, List.length_cons, List.map_cons, if_neg (List.cons_ne_nil s pre),
      ite_self, List.append_assoc, List.singleton_append, Option.some.injEq, Prod.mk.injEq,
      and_true, true_and]
    omega

theorem multilineStringLoop_open : ∀ (ls : List Str) (l : Str) (pos i : Nat)
    (pieces : List Str), (∀ s ∈ l.drop pos :: ls, strings.Index s tripleQuote = none) →
    multilineStringLoop (l :: ls) pos i pieces = none := by
  intro ls
  induction ls with
  | nil =>
    intro l pos i pieces h
    rw [multilineStringLoop, h _ (List.mem_cons_self _ _)]
    simp only
    rw [multilineStringLoop]
  | cons a ls ih =>
    intro l pos i pieces h
    rw [multilineStringLoop, h _ (List.mem_cons_self _ _)]
    simp only
    exact ih a 0 (i + 1) _ (fun s hs => h s (List.mem_cons_of_mem _ (by simpa using hs)))

/-- C23: `multilineString` on the lines `first :: rest`, for a string opened
before the position `p` of `first`.  The texts it looks at are `first` from
`p` on and the lines of `rest`.  If the first of them that holds `"""` is the
one with the index `i` (the texts `pre` before it hold none, and `j` is the
index of the first `"""` in it), the result is the position after the closing
quotes, `linesConsumed = i`, and the value made of the piece of every text of
`pre` (the text and a newline, or the text without its last byte if that is a
backslash) followed by the text `i` before the closing quotes.  If no text
holds `"""`, the result is the one that stands for `-1, -1, ""`. -/
theorem multilineString_spec (p : Nat) (first : Str) (rest : List Str) :
    (∀ (pre : List Str) (closing : Str) (post : List Str) (j : Nat),
      first.drop p :: rest = pre ++ closing :: post →
      (∀ s ∈ pre, strings.Index s tripleQuote = none) →
      strings.Index closing tripleQuote = some j →
      multilineString p (first :: rest) =
        some ((if pre = [] then p else 0) + j + 3, pre.length,
          (pre.map linePiece).flatten ++ closing.take j)) ∧
    ((∀ s ∈ first.drop p :: rest, strings.Index s tripleQuote = none) →
      multilineString p (first :: rest) = none) := by
  constructor
  · intro pre closing post j h hpre hj
    rw [multilineString, multilineStringLoop_closed closing post j hj pre first rest p 0 [] h hpre]
    simp
  · intro h
    exact multilineStringLoop_open rest first p 0 [] h

/-- The lines `sql """select \`, `a`, `from b""" # c`, with the string
opened before the position 7: the first two texts hold no `"""`, the third
holds it at the index 6; `linesConsumed` is 2 and the value is `select `
(the backslash and the newline left out), `a` and a newline, `from b`. -/
theorem multilineString_spec_witness :
    ("sql \"\"\"select \\".toList.drop 7 :: ["a".toList, "from b\"\"\" # c".toList] =
        ["select \\".toList, "a".toList] ++ "from b\"\"\" # c".toList :: [] ∧
      (∀ s ∈ ["select \\".toList, "a".toList], strings.Index s tripleQuote = none) ∧
      strings.Index "from b\"\"\" # c".toList tripleQuote = some 6) ∧
    multilineString 7 ["sql \"\"\"select \\".toList, "a".toList, "from b\"\"\" # c".toList] =
      some (9, 2, "select a\nfrom b".toList) ∧
    runLexer "sql \"\"\"select \\\na\nfrom b\"\"\" # c\nlabel l".toList smlKeywords =
      [{ indent := 0, kw := skwSQL, value := "select a\nfrom b".toList, line := 3 },
       { indent := 0, kw := skwLabel, value := "l".toList, line := 4 }, eofToken 4] ∧
    multilineString 7 ["sql \"\"\"select".toList, "a".toList] = none :=
  ⟨⟨by decide, by decide, by decide⟩,
    (multilineString_spec 7 "sql \"\"\"select \\".toList
      ["a".toList, "from b\"\"\" # c".toList]).1 ["select \\".toList, "a".toList]
      "from b\"\"\" # c".toList [] 6 (by decide) (by decide) (by decide),
    by decide, by decide⟩
/-! ### C24: line ends of Windows -/

theorem Index_tail_none (c : Char) (s sub : Str) (h : strings.Index (c :: s) sub = none) :
    strings.HasPrefix (c :: s) sub = false ∧ strings.Index s sub = none := by
  rw [strings.Index] at h
  split_ifs at h with h1
  refine ⟨by simpa using h1, ?_⟩
  cases hi : strings.Index s sub with
  | none => rfl
  | some j =>
    rw [hi] at h
    cases h

theorem replaceCRLF_fixed : ∀ t : Str, strings.Index t [chReturn, chNewline] = none →
    replaceCRLF t = t := by
  intro t
  induction t using replaceCRLF.induct with
  | case1 => intro _; rfl
  | case2 c => intro _; rfl
  | case3 c d s hc ih =>
    intro h
    have h1 := (Index_tail_none _ _ _ h).1
    simp only [Bool.and_eq_true, beq_iff_eq] at hc
    simp [strings.HasPrefix, hc.1, hc.2] at h1
  | case4 c d s hc ih =>
    intro h
    rw [replaceCRLF, if_neg hc, ih (Index_tail_none _ _ _ h).2]

theorem replaceCRLF_head (d : Char) (s : Str)
    (h : (replaceCRLF (d :: s)).head? = some chNewline) :
    d = chNewline ∨ (d = chReturn ∧ s.head? = some chNewline) := by
  cases s with
  | nil =>
    rw [replaceCRLF] at h
    simp only [List.head?_cons, Option.some.injEq] at h
    exact Or.inl h
  | cons e s =>
    rw [replaceCRLF] at h
    split_ifs at h with h1
    · simp only [Bool.and_eq_true, beq_iff_eq] at h1
      exact Or.inr ⟨h1.1, by rw [h1.2]; rfl⟩
    · simp only [List.head?_cons, Option.some.injEq] at h
      exact Or.inl h

theorem HasPrefix_two (c d : Char) (t : Str) :
    strings.HasPrefix t [c, d] = true ↔ ∃ u, t = c :: d :: u := by
  cases t with
  | nil => simp [strings.HasPrefix]
  | cons a t =>
    cases t with
    | nil => simp [strings.HasPrefix]
    | cons b t =>
      simp only [strings.HasPrefix, Bool.and_eq_true, beq_iff_eq, and_true, List.cons.injEq]
      constructor
      · rintro ⟨rfl, rfl⟩
        exact ⟨t, rfl, rfl, rfl⟩
      · rintro ⟨u, rfl, rfl, -⟩
        exact ⟨rfl, rfl⟩

theorem replaceCRLF_no_CRLF : ∀ s : Str,
    strings.Index s [chReturn, chReturn, chNewline] = none →
    strings.Index (replaceCRLF s) [chReturn, chNewline] = none := by
  intro s
  induction s using replaceCRLF.induct with
  | case1 => intro _; rfl
  | case2 c =>
    intro _
    rw [replaceCRLF, strings.Index, if_neg (by simp [strings.HasPrefix])]
    rfl
  | case3 c d s hc ih =>
    intro h
    have h2 := (Index_tail_none _ _ _ (Index_tail_none _ _ _ h).2).2
    rw [replaceCRLF, if_pos hc, strings.Index, ih h2,
      if_neg (by simp [strings.HasPrefix, chNewline, chReturn])]
    rfl
  | case4 c d s hc ih =>
    intro h
    obtain ⟨h1, h2⟩ := Index_tail_none _ _ _ h
    rw [replaceCRLF, if_neg hc, strings.Index, ih h2, if_neg]
    · rfl
    · intro hp
      obtain ⟨u, hu⟩ := (HasPrefix_two _ _ _).mp hp
      simp only [List.cons.injEq] at hu
      obtain ⟨rfl, hu⟩ := hu
      have hh : (replaceCRLF (d :: s)).head? = some chNewline := by rw [hu]; rfl
      rcases replaceCRLF_head d s hh with hd | ⟨hd, hs⟩
      · exact hc (by simp [hd])
      · subst hd
        cases s with
        | nil => cases hs
        | cons e s =>
          simp only [List.head?_cons, Option.some.injEq] at hs
          subst hs
          simp [strings.HasPrefix] at h1

theorem replaceCRLF_twice (s : Str)
    (h : strings.Index s [chReturn, chReturn, chNewline] = none) :
    replaceCRLF (replaceCRLF s) = replaceCRLF s :=
  replaceCRLF_fixed _ (replaceCRLF_no_CRLF s h)

/-- C24 (amended): for every input `s` in which no `\r\n` stands right after
a `\r` (`s` does not hold `\r\r\n`) and every table of keywords, `startLex`
gives the same tokens for `s` with every `\r\n` replaced by `\n` as for `s`
itself, and `ParseSML` gives the same project and the same errors for
both. -/
theorem startLex_CRLF (rt : GoRuntime) (s projectName : Str)
    (string2keyword : List (Str × Keyword))
    (h : strings.Index s [chReturn, chReturn, chNewline] = none) :
    startLex (replaceCRLF s) string2keyword = startLex s string2keyword ∧
    ParseSML rt (replaceCRLF s) projectName = ParseSML rt s projectName := by
  have h1 : ∀ k, startLex (replaceCRLF s) k = startLex s k := by
    intro k
    rw [startLex, startLex, replaceCRLF_twice s h]
  refine ⟨h1 _, ?_⟩
  unfold ParseSML
  rw [h1]

/-- The document `project p`, `table t`, `sql a` with Windows line ends:
it holds no `\r\r\n`, and it is lexed and parsed as its Unix form. -/
theorem startLex_CRLF_witness :
    strings.Index "project p\r\n\ttable t\r\n\t\tsql a\r\n".toList
      [chReturn, chReturn, chNewline] = none ∧
    replaceCRLF "project p\r\n\ttable t\r\n\t\tsql a\r\n".toList =
      "project p\n\ttable t\n\t\tsql a\n".toList ∧
    (startLex (replaceCRLF "project p\r\n\ttable t\r\n\t\tsql a\r\n".toList) smlKeywords =
        startLex "project p\r\n\ttable t\r\n\t\tsql a\r\n".toList smlKeywords ∧
      ParseSML GoRuntime.insertionOrder
          (replaceCRLF "project p\r\n\ttable t\r\n\t\tsql a\r\n".toList) [] =
        ParseSML GoRuntime.insertionOrder "project p\r\n\ttable t\r\n\t\tsql a\r\n".toList []) :=
  ⟨by decide, by decide,
    startLex_CRLF GoRuntime.insertionOrder "project p\r\n\ttable t\r\n\t\tsql a\r\n".toList []
      smlKeywords (by decide)⟩

set_option maxRecDepth 1000000 in
/-- C24 fails as stated for the input `\r\r\n`: with `\r\n` replaced it is
`\r\n`, which `startLex` lexes as two empty lines, while `startLex` on the
input itself lexes the lines `\r` and the empty line and sends an error token
for the first; `ParseSML` gives no error for the one and an error for the
other. -/
theorem startLex_CRLF_counterexample :
    replaceCRLF "\r\r\n".toList = "\r\n".toList ∧
    startLex (replaceCRLF "\r\r\n".toList) smlKeywords = [eofToken 2] ∧
    startLex "\r\r\n".toList smlKeywords =
      [errorToken 0 0 "expected keyword, got \r".toList, eofToken 2] ∧
    (ParseSML GoRuntime.insertionOrder (replaceCRLF "\r\r\n".toList) []).2 = [] ∧
    (ParseSML GoRuntime.insertionOrder "\r\r\n".toList []).2 =
      [{ Msg := "error: error at position 1: expected keyword, got \r".toList, LineNum := 1 }] := by
  refine ⟨?_, ?_, ?_, ?_, ?_⟩ <;> decide!
/-! ### C25: the token that ends `parseGeneric` -/

theorem EndsInEOF.ne_nil {l : List Token} (h : EndsInEOF l) : l ≠ [] := by
  obtain ⟨ts, e, rfl, -, -⟩ := h
  simp

theorem EndsInEOF.suffix {l s : List Token} (h : EndsInEOF l) (hs : s <:+ l) (hne : s ≠ []) :
    EndsInEOF s := by
  obtain ⟨ts, e, rfl, h1, h2⟩ := h
  obtain ⟨pre, hpre⟩ := hs
  obtain ⟨s1, x, rfl⟩ : ∃ s1 x, s = s1 ++ [x] := by
    rcases List.eq_nil_or_concat s with h | ⟨s1, x, h⟩
    · exact absurd h hne
    · exact ⟨s1, x, by rw [h, List.concat_eq_append]⟩
  rw [← List.append_assoc] at hpre
  have := List.append_inj_right' hpre rfl
  simp only [List.cons.injEq, and_true] at this
  subst this
  exact ⟨s1, x, rfl, h1, h2⟩

theorem EndsInEOF.single {t : Token} (h : EndsInEOF [t]) : t.kw = kwEOF ∧ t.indent = -1 := by
  obtain ⟨ts, e, he, h1, h2⟩ := h
  cases ts with
  | nil =>
    simp only [List.nil_append, List.cons.injEq, and_true] at he
    subst he
    exact ⟨h1, h2⟩
  | cons a ts =>
    have := congrArg List.length he
    simp at this

theorem EndsInEOF.tail {t : Token} {l : List Token} (h : EndsInEOF (t :: l))
    (ht : t.indent ≠ -1) : EndsInEOF l := by
  cases l with
  | nil => exact absurd h.single.2 ht
  | cons a l => exact h.suffix (List.suffix_cons _ _) (List.cons_ne_nil _ _)

theorem skipErrorTokens_suffix : ∀ (l : List Token) (tok : Token) (errs : List ParseError),
    EndsInEOF (tok :: l) →
    ((skipErrorTokens tok l errs).1 :: (skipErrorTokens tok l errs).2.1) <:+ (tok :: l) := by
  intro l
  induction l with
  | nil =>
    intro tok errs h
    rw [skipErrorTokens, if_neg (by rw [h.single.1]; decide)]
  | cons t ts ih =>
    intro tok errs h
    rw [skipErrorTokens]
    split_ifs
    · exact (ih t _ (h.suffix (List.suffix_cons _ _) (List.cons_ne_nil _ _))).trans
        (List.suffix_cons _ _)
    · exact List.suffix_refl _

theorem recv_suffix (l : List Token) (h : l ≠ []) : ((recv l).1 :: (recv l).2) = l := by
  cases l with
  | nil => exact absurd rfl h
  | cons t ts => rfl

theorem parseGeneric_ends : ∀ fuel : Nat,
    (∀ (l : List Token) (root : Token), EndsInEOF l → -1 ≤ root.indent →
      2 * l.length + 1 ≤ fuel →
      ((parseGeneric fuel l root).nextToken :: (parseGeneric fuel l root).l) <:+ l ∧
      ((parseGeneric fuel l root).nextToken.indent ≤ root.indent ∨
        ∃ line, (parseGeneric fuel l root).parseErrors.getLast? =
          some { Msg := "inconsistent indentation".toList, LineNum := line })) ∧
    (∀ (childIndent : Int) (l : List Token) (nextToken : Token) (children : List Generic)
      (errs : List ParseError), EndsInEOF (nextToken :: l) → 0 ≤ childIndent →
      2 * (l.length + 1) ≤ fuel →
      ((parseChildren fuel childIndent l nextToken children errs).nextToken ::
        (parseChildren fuel childIndent l nextToken children errs).l) <:+ (nextToken :: l) ∧
      (parseChildren fuel childIndent l nextToken children errs).nextToken.indent ≠
        childIndent) := by
  intro fuel
  induction fuel with
  | zero =>
    constructor
    · intro l root _ _ h
      omega
    · intro childIndent l nextToken children errs _ _ h
      omega
  | succ fuel ih =>
    obtain ⟨ihg, ihc⟩ := ih
    constructor
    · intro l root he hroot hf
      rw [parseGeneric]
      have hrecv := recv_suffix l he.ne_nil
      have hsk := skipErrorTokens_suffix (recv l).2 (recv l).1 [] (by rw [hrecv]; exact he)
      rw [hrecv] at hsk
      have hske : EndsInEOF ((skipErrorTokens (recv l).1 (recv l).2 []).1 ::
          (skipErrorTokens (recv l).1 (recv l).2 []).2.1) :=
        he.suffix hsk (List.cons_ne_nil _ _)
      have hlen := hsk.length_le
      rw [List.length_cons] at hlen
      simp only
      split_ifs with hi hj
      · obtain ⟨c1, c2⟩ := ihc (skipErrorTokens (recv l).1 (recv l).2 []).1.indent
          (skipErrorTokens (recv l).1 (recv l).2 []).2.1
          (skipErrorTokens (recv l).1 (recv l).2 []).1 []
          (skipErrorTokens (recv l).1 (recv l).2 []).2.2 hske (by omega) (by omega)
        have hce := hske.suffix c1 (List.cons_ne_nil _ _)
        have hcl := hce.tail (by omega)
        refine ⟨?_, Or.inr ⟨_, List.getLast?_concat _⟩⟩
        rw [recv_suffix _ hcl.ne_nil]
        exact ((List.suffix_cons _ _).trans c1).trans hsk
      · obtain ⟨c1, c2⟩ := ihc (skipErrorTokens (recv l).1 (recv l).2 []).1.indent
          (skipErrorTokens (recv l).1 (recv l).2 []).2.1
          (skipErrorTokens (recv l).1 (recv l).2 []).1 []
          (skipErrorTokens (recv l).1 (recv l).2 []).2.2 hske (by omega) (by omega)
        exact ⟨c1.trans hsk, Or.inl (le_of_not_gt hj)⟩
      · exact ⟨hsk, Or.inl (le_of_not_gt hi)⟩
    · intro childIndent l nextToken children errs he hci hf
      rw [parseChildren]
      split_ifs with hi
      · have hl := he.tail (by omega)
        obtain ⟨g1, -⟩ := ihg l nextToken hl (by omega) (by omega)
        have hge := hl.suffix g1 (List.cons_ne_nil _ _)
        have hlen := g1.length_le
        rw [List.length_cons] at hlen
        obtain ⟨c1, c2⟩ := ihc childIndent (parseGeneric fuel l nextToken).l
          (parseGeneric fuel l nextToken).nextToken
              (children ++ [(parseGeneric fuel l nextToken).g])
          (errs ++ (parseGeneric fuel l nextToken).parseErrors) hge hci (by omega)
        exact ⟨(c1.trans g1).trans (List.suffix_cons _ _), c2⟩
      · exact ⟨List.suffix_refl _, hi⟩

/-- C25 (amended): for every channel of tokens that ends in End-of-input
(`ts` followed by a token of the keyword `kwEOF` and the indent -1) and
every root token of an indent of -1 at least, as all tokens of the lexer
are, `parseGeneric` returns as the token that ended it a token of the
channel (the channel is not drained) that is End-of-input or has an indent
less than or equal to the indent of the root, unless the last error it
returns is `inconsistent indentation`: then it has skipped the token at
fault and returns the token after it, whatever its indent. -/
theorem parseGeneric_nextToken (ts : List Token) (e root : Token) (he : e.kw = kwEOF)
    (hi : e.indent = -1) (hroot : -1 ≤ root.indent) :
    ((parseGeneric (parseGenericFuel (ts ++ [e])) (ts ++ [e]) root).nextToken ::
      (parseGeneric (parseGenericFuel (ts ++ [e])) (ts ++ [e]) root).l) <:+ ts ++ [e] ∧
    (((parseGeneric (parseGenericFuel (ts ++ [e])) (ts ++ [e]) root).nextToken.kw = kwEOF ∨
      (parseGeneric (parseGenericFuel (ts ++ [e])) (ts ++ [e]) root).nextToken.indent ≤
        root.indent) ∨
      ∃ line, (parseGeneric (parseGenericFuel (ts ++ [e])) (ts ++ [e]) root).parseErrors.getLast? =
        some { Msg := "inconsistent indentation".toList, LineNum := line }) := by
  obtain ⟨h1, h2⟩ := (parseGeneric_ends (parseGenericFuel (ts ++ [e]))).1 (ts ++ [e]) root
    ⟨ts, e, rfl, he, hi⟩ hroot (by unfold parseGenericFuel; omega)
  refine ⟨h1, ?_⟩
  rcases h2 with h2 | h2
  · exact Or.inl (Or.inr h2)
  · exact Or.inr h2

/-- The tokens of `project p`, `table a` (one tab), `table b` (one tab) and
of `project p`, `table a`, then `project q` at the indent 0: `parseGeneric`
on the first returns End-of-input, on the second the token of `project q`,
whose indent is that of the root. -/
theorem parseGeneric_nextToken_witness :
    ((eofToken 3).kw = kwEOF ∧ (eofToken 3).indent = -1 ∧
      (-1 : Int) ≤ (Token.mk 0 skwProject "p".toList 1).indent) ∧
    (((parseGeneric
        (parseGenericFuel ([Token.mk 4 skwTable "a".toList 2,
          Token.mk 0 skwProject "q".toList 3] ++ [eofToken 3]))
        ([Token.mk 4 skwTable "a".toList 2, Token.mk 0 skwProject "q".toList 3] ++ [eofToken 3])
        (Token.mk 0 skwProject "p".toList 1)).nextToken ::
      (parseGeneric
        (parseGenericFuel ([Token.mk 4 skwTable "a".toList 2,
          Token.mk 0 skwProject "q".toList 3] ++ [eofToken 3]))
        ([Token.mk 4 skwTable "a".toList 2, Token.mk 0 skwProject "q".toList 3] ++ [eofToken 3])
        (Token.mk 0 skwProject "p".toList 1)).l) <:+
        [Token.mk 4 skwTable "a".toList 2, Token.mk 0 skwProject "q".toList 3] ++ [eofToken 3] ∧
      (((parseGeneric
        (parseGenericFuel ([Token.mk 4 skwTable "a".toList 2,
          Token.mk 0 skwProject "q".toList 3] ++ [eofToken 3]))
        ([Token.mk 4 skwTable "a".toList 2, Token.mk 0 skwProject "q".toList 3] ++ [eofToken 3])
        (Token.mk 0 skwProject "p".toList 1)).nextToken.kw = kwEOF ∨
        (parseGeneric
          (parseGenericFuel ([Token.mk 4 skwTable "a".toList 2,
            Token.mk 0 skwProject "q".toList 3] ++ [eofToken 3]))
          ([Token.mk 4 skwTable "a".toList 2, Token.mk 0 skwProject "q".toList 3] ++ [eofToken 3])
          (Token.mk 0 skwProject "p".toList 1)).nextToken.indent ≤
            (Token.mk 0 skwProject "p".toList 1).indent) ∨
        ∃ line, (parseGeneric
          (parseGenericFuel ([Token.mk 4 skwTable "a".toList 2,
            Token.mk 0 skwProject "q".toList 3] ++ [eofToken 3]))
          ([Token.mk 4 skwTable "a".toList 2, Token.mk 0 skwProject "q".toList 3] ++ [eofToken 3])
          (Token.mk 0 skwProject "p".toList 1)).parseErrors.getLast? =
            some { Msg := "inconsistent indentation".toList, LineNum := line })) ∧
    (parseGeneric
        (parseGenericFuel ([Token.mk 4 skwTable "a".toList 2,
          Token.mk 0 skwProject "q".toList 3] ++ [eofToken 3]))
        ([Token.mk 4 skwTable "a".toList 2, Token.mk 0 skwProject "q".toList 3] ++ [eofToken 3])
        (Token.mk 0 skwProject "p".toList 1)).nextToken = Token.mk 0 skwProject "q".toList 3 ∧
    (parseGeneric (parseGenericFuel [Token.mk 4 skwTable "a".toList 2, eofToken 2])
        [Token.mk 4 skwTable "a".toList 2, eofToken 2]
        (Token.mk 0 skwProject "p".toList 1)).nextToken = eofToken 2 :=
  ⟨⟨by decide, by decide, by decide⟩,
    parseGeneric_nextToken [Token.mk 4 skwTable "a".toList 2, Token.mk 0 skwProject "q".toList 3]
      (eofToken 3) (Token.mk 0 skwProject "p".toList 1) (by decide) (by decide) (by decide),
    by decide, by decide⟩

/-- C25 fails as stated after a line of inconsistent indentation: in
`project p`, `table a` (indent 4), `table b` (indent 2), `table c`
(indent 4) the lexer sends these four tokens and End-of-input, and
`parseGeneric` with the first as root reports `inconsistent indentation` at
the line 3, skips the token of `table b` and returns the token of `table c`,
which is not End-of-input and has the indent 4, more than the root. -/
theorem parseGeneric_nextToken_counterexample :
    startLex "project p\n    table a\n  table b\n    table c".toList smlKeywords =
      [Token.mk 0 skwProject "p".toList 1, Token.mk 4 skwTable "a".toList 2,
       Token.mk 2 skwTable "b".toList 3, Token.mk 4 skwTable "c".toList 4, eofToken 4] ∧
    (parseGeneric
        (parseGenericFuel [Token.mk 4 skwTable "a".toList 2, Token.mk 2 skwTable "b".toList 3,
          Token.mk 4 skwTable "c".toList 4, eofToken 4])
        [Token.mk 4 skwTable "a".toList 2, Token.mk 2 skwTable "b".toList 3,
          Token.mk 4 skwTable "c".toList 4, eofToken 4]
        (Token.mk 0 skwProject "p".toList 1)).nextToken = Token.mk 4 skwTable "c".toList 4 ∧
    (parseGeneric
        (parseGenericFuel [Token.mk 4 skwTable "a".toList 2, Token.mk 2 skwTable "b".toList 3,
          Token.mk 4 skwTable "c".toList 4, eofToken 4])
        [Token.mk 4 skwTable "a".toList 2, Token.mk 2 skwTable "b".toList 3,
          Token.mk 4 skwTable "c".toList 4, eofToken 4]
        (Token.mk 0 skwProject "p".toList 1)).parseErrors =
      [{ Msg := "inconsistent indentation".toList, LineNum := 3 }] ∧
    (Token.mk 4 skwTable "c".toList 4).kw ≠ kwEOF ∧
    ¬ (Token.mk 4 skwTable "c".toList 4).indent ≤ (Token.mk 0 skwProject "p".toList 1).indent := by
  refine ⟨?_, ?_, ?_, ?_, ?_⟩ <;> decide
/-! ### C26, C27: `firstLineMismatchWithGrammar` -/

theorem offendersList_eq (cs : List Generic) (level : Int) (grammar : KwTree) :
    offendersList cs level grammar = (cs.map (fun c => offendersAt c level grammar)).flatten := by
  induction cs with
  | nil => rfl
  | cons c cs ih =>
    rw [offendersList, ih, List.map_cons, List.flatten_cons]
    rfl

theorem linesList_eq (cs : List Generic) :
    Generic.linesList cs = (cs.map Generic.lines).flatten := by
  induction cs with
  | nil => rfl
  | cons c cs ih => rw [Generic.linesList, ih, List.map_cons, List.flatten_cons]

theorem mem_offenders_iff (kw : Keyword) (value : Str) (children : List Generic) (line level : Int)
    (grammar : KwTree) (o : Int × Int) :
    o ∈ offenders (.mk kw value children line) level grammar ↔
      ∃ c ∈ children, o ∈ offendersAt c level grammar := by
  rw [offenders, offendersList_eq]
  simp only [List.mem_flatten, List.mem_map]
  constructor
  · rintro ⟨l, ⟨c, hc, rfl⟩, ho⟩
    exact ⟨c, hc, ho⟩
  · rintro ⟨c, hc, ho⟩
    exact ⟨_, ⟨c, hc, rfl⟩, ho⟩

theorem lines_children (kw : Keyword) (value : Str) (children : List Generic) (line : Int)
    (c : Generic) (hc : c ∈ children) :
    ∀ n ∈ c.lines, n ∈ (Generic.mk kw value children line).lines := by
  intro n hn
  rw [Generic.lines, linesList_eq]
  refine List.mem_cons_of_mem _ ?_
  simp only [List.mem_flatten, List.mem_map]
  exact ⟨_, ⟨c, hc, rfl⟩, hn⟩

theorem line_mem_lines (g : Generic) : g.line ∈ g.lines := by
  cases g with
  | mk kw value children line =>
    rw [Generic.lines]
    exact List.mem_cons_self _ _

theorem updateMin_eq (cur p : Int × Int) :
    updateMin cur p.1 p.2 = if 0 ≤ p.1 ∧ (cur.1 < 0 ∨ p.1 < cur.1) then p else cur := by
  unfold updateMin
  by_cases h : 0 ≤ p.1 ∧ (cur.1 < 0 ∨ p.1 < cur.1)
  · rw [if_pos h, if_pos (by simpa using h)]
  · rw [if_neg h, if_neg (by simpa using h)]

theorem foldl_updateMin : ∀ (L : List (Int × Int)) (cur : Int × Int),
    (cur = (-1, -1) ∨ 0 ≤ cur.1) →
    (L.foldl (fun a p => updateMin a p.1 p.2) cur = cur ∨
      (L.foldl (fun a p => updateMin a p.1 p.2) cur ∈ L ∧
        0 ≤ (L.foldl (fun a p => updateMin a p.1 p.2) cur).1)) ∧
    (0 ≤ cur.1 → (L.foldl (fun a p => updateMin a p.1 p.2) cur).1 ≤ cur.1) ∧
    (∀ p ∈ L, 0 ≤ p.1 → 0 ≤ (L.foldl (fun a p => updateMin a p.1 p.2) cur).1 ∧
      (L.foldl (fun a p => updateMin a p.1 p.2) cur).1 ≤ p.1) := by
  intro L
  induction L with
  | nil =>
    intro cur _
    exact ⟨Or.inl rfl, fun _ => le_refl _, fun p hp => by cases hp⟩
  | cons q L ih =>
    intro cur hcur
    rw [List.foldl_cons, updateMin_eq]
    by_cases h : 0 ≤ q.1 ∧ (cur.1 < 0 ∨ q.1 < cur.1)
    · rw [if_pos h]
      obtain ⟨i1, i2, i3⟩ := ih q (Or.inr h.1)
      refine ⟨Or.inr ?_, ?_, ?_⟩
      · rcases i1 with i1 | i1
        · rw [i1]
          exact ⟨List.mem_cons_self _ _, h.1⟩
        · exact ⟨List.mem_cons_of_mem _ i1.1, i1.2⟩
      · intro hc
        have := i2 h.1
        omega
      · intro p hp hp0
        rcases List.mem_cons.mp hp with rfl | hp
        · refine ⟨?_, i2 h.1⟩
          rcases i1 with i1 | i1
          · rw [i1]
            exact h.1
          · exact i1.2
        · exact i3 p hp hp0
    · rw [if_neg h]
      obtain ⟨i1, i2, i3⟩ := ih cur hcur
      refine ⟨?_, i2, ?_⟩
      · rcases i1 with i1 | i1
        · exact Or.inl i1
        · exact Or.inr ⟨List.mem_cons_of_mem _ i1.1, i1.2⟩
      · intro p hp hp0
        rcases List.mem_cons.mp hp with rfl | hp
        · have hc0 : 0 ≤ cur.1 := by
            rcases hcur with hcur | hcur
            · rw [hcur] at h
              exact absurd ⟨hp0, Or.inl (by decide)⟩ h
            · exact hcur
          have hle : cur.1 ≤ p.1 := by
            by_contra hlt
            exact h ⟨hp0, Or.inr (by omega)⟩
          have := i2 hc0
          refine ⟨?_, by omega⟩
          rcases i1 with i1 | i1
          · rw [i1]
            exact hc0
          · exact i1.2
        · exact i3 p hp hp0

theorem foldl_flatten_map {α β κ : Type} (F : κ → List β) (f : α → β → α) :
    ∀ (keys : List κ) (a : α),
      ((keys.map F).flatten).foldl f a = keys.foldl (fun acc k => (F k).foldl f acc) a := by
  intro keys
  induction keys with
  | nil => intro a; rfl
  | cons k ks ih =>
    intro a
    rw [List.map_cons, List.flatten_cons, List.foldl_append, ih, List.foldl_cons]

theorem foldl_congr_mem {α β : Type} (f g : α → β → α) :
    ∀ (l : List β) (a : α), (∀ a, ∀ b ∈ l, f a b = g a b) → l.foldl f a = l.foldl g a := by
  intro l
  induction l with
  | nil => intro a _; rfl
  | cons b bs ih =>
    intro a h
    rw [List.foldl_cons, List.foldl_cons, h a b (List.mem_cons_self _ _)]
    exact ih _ (fun a x hx => h a x (List.mem_cons_of_mem _ hx))

theorem updateMinUnchecked_eq (cur : Int × Int) (line level : Int) (h : 0 ≤ line) :
    updateMinUnchecked cur line level = updateMin cur line level := by
  unfold updateMinUnchecked updateMin
  simp [h]

theorem firstLineMismatch_fold (rt : GoRuntime) (kw : Keyword) (value : Str)
    (children : List Generic) (line level : Int) (grammar : KwTree)
    (hnn : ∀ c ∈ children, 0 ≤ c.line) :
    firstLineMismatchWithGrammar rt (.mk kw value children line) level grammar =
      (((Generic.mk kw value children line).ordered rt).map
        (fun c => mismatchAt rt c level grammar)).foldl (fun a p => updateMin a p.1 p.2)
        (-1, -1) := by
  rw [firstLineMismatchWithGrammar, firstLineMismatchChildren_eq, List.foldl_map]
  unfold Generic.ordered
  rw [foldl_flatten_map]
  apply foldl_congr_mem
  intro a k _
  rw [filter_pairs_map]
  simp only [Generic.childrenOf, Generic.children]
  cases hf : grammar.children.find? (fun t => t.kw = k) with
  | some sub =>
    dsimp only
    rw [List.foldl_map]
    apply foldl_congr_mem
    intro a1 c hc
    have hk : c.kw = k := by simpa using (List.mem_filter.mp hc).2
    simp only [mismatchAt, hk, hf]
  | none =>
    dsimp only
    rw [List.foldl_map]
    apply foldl_congr_mem
    intro a1 c hc
    have hk : c.kw = k := by simpa using (List.mem_filter.mp hc).2
    simp only [mismatchAt, hk, hf]
    exact updateMinUnchecked_eq _ _ _ (hnn c (List.mem_filter.mp hc).1)

theorem firstLineMismatch_offenders (rt : GoRuntime) :
    ∀ (g : Generic) (level : Int) (grammar : KwTree), (∀ n ∈ g.lines, 0 ≤ n) →
      (offenders g level grammar = [] →
        firstLineMismatchWithGrammar rt g level grammar = (-1, -1)) ∧
      (offenders g level grammar ≠ [] →
        firstLineMismatchWithGrammar rt g level grammar ∈ offenders g level grammar ∧
        ∀ o ∈ offenders g level grammar,
          (firstLineMismatchWithGrammar rt g level grammar).1 ≤ o.1) ∧
      (∀ o ∈ offenders g level grammar, 0 ≤ o.1) := by
  intro g
  induction g using Generic.induct with
  | h kw value children line ih =>
    intro level grammar hnn
    have hcl : ∀ c ∈ children, 0 ≤ c.line := fun c hc =>
      hnn _ (lines_children kw value children line c hc _ (line_mem_lines c))
    have facts : ∀ c ∈ children,
        (offendersAt c level grammar = [] → mismatchAt rt c level grammar = (-1, -1)) ∧
        (offendersAt c level grammar ≠ [] →
          mismatchAt rt c level grammar ∈ offendersAt c level grammar ∧
          0 ≤ (mismatchAt rt c level grammar).1 ∧
          ∀ o ∈ offendersAt c level grammar, (mismatchAt rt c level grammar).1 ≤ o.1) ∧
        (∀ o ∈ offendersAt c level grammar, 0 ≤ o.1) := by
      intro c hc
      unfold offendersAt mismatchAt
      cases hf : grammar.children.find? (fun t => t.kw = c.kw) with
      | some sub =>
        dsimp only
        obtain ⟨i1, i2, i3⟩ := ih c hc (level + 1) sub
          (fun n hn => hnn n (lines_children kw value children line c hc n hn))
        exact ⟨i1, fun hne => ⟨(i2 hne).1, i3 _ (i2 hne).1, (i2 hne).2⟩, i3⟩
      | none =>
        dsimp only
        refine ⟨fun h => (by cases h), fun _ => ⟨List.mem_singleton.mpr rfl, hcl c hc, ?_⟩, ?_⟩
        · intro o ho
          rw [List.mem_singleton.mp ho]
        · intro o ho
          rw [List.mem_singleton.mp ho]
          exact hcl c hc
    rw [firstLineMismatch_fold rt kw value children line level grammar hcl]
    obtain ⟨f1, -, f3⟩ := foldl_updateMin
      (((Generic.mk kw value children line).ordered rt).map
        (fun c => mismatchAt rt c level grammar)) (-1, -1) (Or.inl rfl)
    have hmemL : ∀ c ∈ children, mismatchAt rt c level grammar ∈
        ((Generic.mk kw value children line).ordered rt).map
          (fun c => mismatchAt rt c level grammar) := fun c hc =>
      List.mem_map.mpr ⟨c, (mem_ordered_iff rt _ c).mpr hc, rfl⟩
    have hofL : ∀ p ∈ ((Generic.mk kw value children line).ordered rt).map
        (fun c => mismatchAt rt c level grammar),
        ∃ c ∈ children, p = mismatchAt rt c level grammar := by
      intro p hp
      obtain ⟨c, hc, rfl⟩ := List.mem_map.mp hp
      exact ⟨c, (mem_ordered_iff rt _ c).mp hc, rfl⟩
    generalize (((Generic.mk kw value children line).ordered rt).map
      (fun c => mismatchAt rt c level grammar)).foldl (fun a p => updateMin a p.1 p.2)
      (-1, -1) = r at f1 f3 ⊢
    refine ⟨?_, ?_, ?_⟩
    · intro hO
      rcases f1 with f1 | ⟨f1, f2⟩
      · exact f1
      · obtain ⟨c, hc, rfl⟩ := hofL r f1
        have hA : offendersAt c level grammar = [] := by
          by_contra hne
          obtain ⟨h1, -, -⟩ := (facts c hc).2.1 hne
          have : mismatchAt rt c level grammar ∈
              offenders (.mk kw value children line) level grammar :=
            (mem_offenders_iff _ _ _ _ _ _ _).mpr ⟨c, hc, h1⟩
          rw [hO] at this
          cases this
        rw [(facts c hc).1 hA] at f2
        exact absurd f2 (by decide)
    · intro hO
      obtain ⟨o, ho⟩ := List.exists_mem_of_ne_nil _ hO
      obtain ⟨c, hc, hoc⟩ := (mem_offenders_iff _ _ _ _ _ _ _).mp ho
      obtain ⟨m1, m2, -⟩ := (facts c hc).2.1 (List.ne_nil_of_mem hoc)
      have hr0 := (f3 _ (hmemL c hc) m2).1
      have hrL : r ∈ ((Generic.mk kw value children line).ordered rt).map
          (fun c => mismatchAt rt c level grammar) := by
        rcases f1 with f1 | ⟨f1, -⟩
        · rw [f1] at hr0
          exact absurd hr0 (by decide)
        · exact f1
      constructor
      · obtain ⟨c1, hc1, rfl⟩ := hofL r hrL
        have hA : offendersAt c1 level grammar ≠ [] := by
          intro hA
          rw [(facts c1 hc1).1 hA] at hr0
          exact absurd hr0 (by decide)
        exact (mem_offenders_iff _ _ _ _ _ _ _).mpr ⟨c1, hc1, ((facts c1 hc1).2.1 hA).1⟩
      · intro o2 ho2
        obtain ⟨c2, hc2, hoc2⟩ := (mem_offenders_iff _ _ _ _ _ _ _).mp ho2
        obtain ⟨n1, n2, n3⟩ := (facts c2 hc2).2.1 (List.ne_nil_of_mem hoc2)
        exact le_trans (f3 _ (hmemL c2 hc2) n2).2 (n3 o2 hoc2)
    · intro o ho
      obtain ⟨c, hc, hoc⟩ := (mem_offenders_iff _ _ _ _ _ _ _).mp ho
      exact (facts c hc).2.2 o hoc

theorem offenders_nil_iff : ∀ (g : Generic) (level : Int) (grammar : KwTree),
    offenders g level grammar = [] ↔ g.conforms grammar = true := by
  intro g
  induction g using Generic.induct with
  | h kw value children line ih =>
    intro level grammar
    rw [List.eq_nil_iff_forall_not_mem]
    simp only [mem_offenders_iff, not_exists, not_and]
    constructor
    · intro h
      apply conforms_of_children
      intro c hc
      simp only [Generic.children] at hc
      have hA : offendersAt c level grammar = [] :=
        List.eq_nil_iff_forall_not_mem.mpr (fun o ho => h o c hc ho)
      unfold offendersAt at hA
      cases hf : grammar.children.find? (fun t => t.kw = c.kw) with
      | some sub =>
        rw [hf] at hA
        exact ⟨sub, rfl, (ih c hc (level + 1) sub).mp hA⟩
      | none =>
        rw [hf] at hA
        cases hA
    · intro h o c hc ho
      obtain ⟨sub, hf, hcs⟩ := conforms_children _ _ h c hc
      unfold offendersAt at ho
      rw [hf] at ho
      dsimp only at ho
      rw [(ih c hc (level + 1) sub).mpr hcs] at ho
      cases ho
/-! ### C26, C27: the first line that does not follow the grammar -/

/-- C26: for every generic tree `g` whose nodes have lines that are not
negative, as the nodes of every tree `parseGeneric` builds from the tokens of
the lexer have (`parseGeneric_lines_nonneg`: the line of a node is the line
of its token), every grammar and every order of
the visits of the maps, `firstLineMismatchWithGrammar` returns a negative
line if and only if `g` is valid for the grammar: the keyword of every child
of every node is the keyword of a child of the grammar node the node is read
against (the first one of that keyword), recursively. -/
theorem firstLineMismatch_negative_iff (rt : GoRuntime) (g : Generic) (level : Int)
    (grammar : KwTree) (hnn : ∀ n ∈ g.lines, 0 ≤ n) :
    (firstLineMismatchWithGrammar rt g level grammar).1 < 0 ↔ g.conforms grammar = true := by
  obtain ⟨h1, h2, h3⟩ := firstLineMismatch_offenders rt g level grammar hnn
  constructor
  · intro h
    by_contra hc
    have hne : offenders g level grammar ≠ [] := fun he =>
      hc ((offenders_nil_iff g level grammar).mp he)
    have := h3 _ (h2 hne).1
    omega
  · intro h
    rw [h1 ((offenders_nil_iff g level grammar).mpr h)]
    decide

set_option maxRecDepth 1000000 in
/-- The trees of `project p`, `table t`, `sql a` (valid) and of
`misplacedDocument` (not valid), read against `smlKwTree`. -/
theorem firstLineMismatch_negative_iff_witness :
    (∀ n ∈ (projectTree "project p\n\ttable t\n\t\tsql a\n".toList).lines, 0 ≤ n) ∧
    ((firstLineMismatchWithGrammar GoRuntime.insertionOrder
        (projectTree "project p\n\ttable t\n\t\tsql a\n".toList) 1 smlKwTree).1 < 0 ↔
      (projectTree "project p\n\ttable t\n\t\tsql a\n".toList).conforms smlKwTree = true) ∧
    firstLineMismatchWithGrammar GoRuntime.insertionOrder
        (projectTree "project p\n\ttable t\n\t\tsql a\n".toList) 1 smlKwTree = (-1, -1) ∧
    (projectTree "project p\n\ttable t\n\t\tsql a\n".toList).conforms smlKwTree = true ∧
    firstLineMismatchWithGrammar GoRuntime.insertionOrder (projectTree misplacedDocument) 1
      smlKwTree = (3, 2) ∧
    (projectTree misplacedDocument).conforms smlKwTree = false :=
  ⟨by decide!,
    firstLineMismatch_negative_iff GoRuntime.insertionOrder
      (projectTree "project p\n\ttable t\n\t\tsql a\n".toList) 1 smlKwTree (by decide!),
    by decide!, by decide!, by decide!, by decide!⟩

theorem offenders_lines_sublist : ∀ (g : Generic) (level : Int) (grammar : KwTree),
    ((offenders g level grammar).map Prod.fst).Sublist g.lines.tail := by
  intro g
  induction g using Generic.induct with
  | h kw value children line ih =>
    intro level grammar
    rw [offenders, Generic.lines, List.tail_cons]
    have hl : ∀ cs : List Generic, (∀ c ∈ cs, c ∈ children) →
        ((offendersList cs level grammar).map Prod.fst).Sublist (Generic.linesList cs) := by
      intro cs
      induction cs with
      | nil =>
        intro _
        exact List.Sublist.slnil
      | cons c cs ihc =>
        intro hsub
        rw [offendersList, Generic.linesList, List.map_append]
        refine List.Sublist.append ?_ (ihc (fun x hx => hsub x (List.mem_cons_of_mem _ hx)))
        cases hf : grammar.children.find? (fun t => t.kw = c.kw) with
        | some sub =>
          dsimp only
          exact (ih c (hsub c (List.mem_cons_self _ _)) (level + 1) sub).trans
            (List.tail_sublist _)
        | none =>
          dsimp only
          cases c with
          | mk ckw cvalue cchildren cline =>
            rw [Generic.lines]
            simp only [List.map_cons, List.map_nil, Generic.line]
            exact List.Sublist.cons₂ _ (List.nil_sublist _)
    exact hl children (fun c hc => hc)

/-- C27: for every generic tree `g` that is not valid for the grammar and
whose nodes have lines that are not negative, `firstLineMismatchWithGrammar`
returns the line and the level of an offending node (a node whose keyword is
not the keyword of a child of the grammar node its parent is read against,
all its ancestors being in place; the level is the number of its ancestors
when the call for the root has the level 1, as in `findIndentationErrors`),
and no offending node has a smaller line; if the lines of the nodes are all
different, the result is the same in every order of the visits of the
maps. -/
theorem firstLineMismatch_min (rt : GoRuntime) (g : Generic) (level : Int) (grammar : KwTree)
    (hnn : ∀ n ∈ g.lines, 0 ≤ n) (hinvalid : g.conforms grammar = false) :
    firstLineMismatchWithGrammar rt g level grammar ∈ offenders g level grammar ∧
    (∀ o ∈ offenders g level grammar,
      (firstLineMismatchWithGrammar rt g level grammar).1 ≤ o.1) ∧
    (g.lines.Nodup → ∀ rt2 : GoRuntime,
      firstLineMismatchWithGrammar rt2 g level grammar =
        firstLineMismatchWithGrammar rt g level grammar) := by
  have hne : offenders g level grammar ≠ [] := by
    intro he
    rw [(offenders_nil_iff g level grammar).mp he] at hinvalid
    cases hinvalid
  obtain ⟨a1, a2⟩ := (firstLineMismatch_offenders rt g level grammar hnn).2.1 hne
  refine ⟨a1, a2, ?_⟩
  intro hnd rt2
  obtain ⟨b1, b2⟩ := (firstLineMismatch_offenders rt2 g level grammar hnn).2.1 hne
  have hline : (firstLineMismatchWithGrammar rt2 g level grammar).1 =
      (firstLineMismatchWithGrammar rt g level grammar).1 :=
    le_antisymm (b2 _ a1) (a2 _ b1)
  have hnd2 : ((offenders g level grammar).map Prod.fst).Nodup :=
    ((offenders_lines_sublist g level grammar).trans (List.tail_sublist _)).nodup hnd
  exact List.inj_on_of_nodup_map hnd2 b1 a1 hline

set_option maxRecDepth 1000000 in
/-- The tree of `misplacedDocument`, read against `smlKwTree` with the level
1: its lines are 1 to 4; the offending nodes are the `type` at the line 3
with two ancestors and the `column` at the line 4 with one; the result is
the line 3 with the level 2 in the order of insertion and in the reverse
order. -/
theorem firstLineMismatch_min_witness :
    ((∀ n ∈ (projectTree misplacedDocument).lines, 0 ≤ n) ∧
      (projectTree misplacedDocument).conforms smlKwTree = false ∧
      (projectTree misplacedDocument).lines = [1, 2, 3, 4] ∧
      offenders (projectTree misplacedDocument) 1 smlKwTree = [(3, 2), (4, 1)]) ∧
    (firstLineMismatchWithGrammar GoRuntime.reverseOrder (projectTree misplacedDocument) 1
        smlKwTree ∈ offenders (projectTree misplacedDocument) 1 smlKwTree ∧
      (∀ o ∈ offenders (projectTree misplacedDocument) 1 smlKwTree,
        (firstLineMismatchWithGrammar GoRuntime.reverseOrder (projectTree misplacedDocument) 1
          smlKwTree).1 ≤ o.1) ∧
      ((projectTree misplacedDocument).lines.Nodup → ∀ rt2 : GoRuntime,
        firstLineMismatchWithGrammar rt2 (projectTree misplacedDocument) 1 smlKwTree =
          firstLineMismatchWithGrammar GoRuntime.reverseOrder
            (projectTree misplacedDocument) 1 smlKwTree)) ∧
    firstLineMismatchWithGrammar GoRuntime.reverseOrder (projectTree misplacedDocument) 1
      smlKwTree = (3, 2) ∧
    firstLineMismatchWithGrammar GoRuntime.insertionOrder (projectTree misplacedDocument) 1
      smlKwTree = (3, 2) :=
  ⟨⟨by decide!, by decide!, by decide!, by decide!⟩,
    firstLineMismatch_min GoRuntime.reverseOrder (projectTree misplacedDocument) 1 smlKwTree
      (by decide!) (by decide!),
    by decide!, by decide!⟩
/-! ### C28, C29: the message of `findIndentationErrors` -/

theorem findIndentationErrors_eq (rt : GoRuntime) (g : Generic) (grammar : KwTree)
    (keyword2string : List (Str × Keyword)) :
    findIndentationErrors rt g grammar keyword2string =
      if (firstLineMismatchWithGrammar rt g 1 grammar).1 < 0 then []
      else
        findRepair rt keyword2string grammar
          (repairPath rt g (firstLineMismatchWithGrammar rt g 1 grammar).1)
          (mismatchKeyword rt g (firstLineMismatchWithGrammar rt g 1 grammar).1)
          (firstLineMismatchWithGrammar rt g 1 grammar).1
          (firstLineMismatchWithGrammar rt g 1 grammar).2
          ((repairPath rt g (firstLineMismatchWithGrammar rt g 1 grammar).1).map
            Generic.kw).reverse := rfl

theorem parentSuffix_eq (value : Str) :
    (if (if (strings.TrimSpace value).length > 8 then
          (strings.TrimSpace value).take 5 ++ "...".toList
        else strings.TrimSpace value) ≠ [] then
      " (".toList ++ (if (strings.TrimSpace value).length > 8 then
          (strings.TrimSpace value).take 5 ++ "...".toList
        else strings.TrimSpace value) ++ ")".toList
    else (if (strings.TrimSpace value).length > 8 then
          (strings.TrimSpace value).take 5 ++ "...".toList
        else strings.TrimSpace value)) = parentSuffix value := by
  unfold parentSuffix
  generalize strings.TrimSpace value = v
  by_cases h8 : v.length > 8
  · have hne : v ≠ [] := by
      intro h
      rw [h] at h8
      simp at h8
    rw [if_pos h8, if_pos (by simp), if_neg hne, if_neg (by omega)]
    simp only [List.append_assoc]
  · rw [if_neg h8]
    by_cases hv : v = []
    · rw [if_neg (by simpa using hv), if_pos hv]
      exact hv
    · rw [if_pos hv, if_neg hv, if_pos (by omega)]

theorem findRepair_fit (rt : GoRuntime) (keyword2string : List (Str × Keyword))
    (grammar : KwTree) (path : List Generic) (kw : Keyword) (line level : Int) :
    ∀ revSeq : List Keyword,
      (findFit grammar kw revSeq = none →
        findRepair rt keyword2string grammar path kw line level revSeq = []) ∧
      (∀ last rest, findFit grammar kw revSeq = some (last :: rest) →
        findRepair rt keyword2string grammar path kw line level revSeq =
          [{ LineNum := line,
             Msg :=
              if keywordName rt keyword2string last = "project".toList then
                indentationMessage (keywordName rt keyword2string kw)
                  (repairDirection rest.length level)
              else
                indentationMessageUnder (keywordName rt keyword2string kw)
                  (repairDirection rest.length level) (keywordName rt keyword2string last)
                  (path.getD rest.length (.mk 0 [] [] 0)).value }]) := by
  intro revSeq
  induction revSeq with
  | nil =>
    refine ⟨fun _ => rfl, fun last rest h => ?_⟩
    cases h
  | cons l r ih =>
    rw [findFit, findRepair]
    by_cases hv : isValidPath ((l :: r).reverse ++ [kw]) grammar = true
    · rw [if_pos hv]
      refine ⟨fun h => (by cases h), fun last rest h => ?_⟩
      simp only [Option.some.injEq, List.cons.injEq] at h
      obtain ⟨rfl, rfl⟩ := h
      simp only [hv, if_true]
      have hlen : ((l :: r).reverse ++ [kw]).length - 2 = r.length := by simp
      have hget : ((l :: r).reverse ++ [kw]).getD r.length 0 = l := by
        rw [List.reverse_cons, List.append_assoc, List.getD_eq_getElem?_getD,
          List.getElem?_append_right (by simp)]
        simp
      have hlvl : ((((l :: r).reverse ++ [kw]).length : Nat) : Int) - 1 = (r.length : Int) + 1 := by
        simp only [List.length_append, List.length_reverse, List.length_cons, List.length_nil,
          Nat.cast_add, Nat.cast_one, Nat.cast_zero]
        omega
      rw [hlen, hget, hlvl, parentSuffix_eq]
      by_cases hp : keywordName rt keyword2string l = "project".toList
      · rw [if_pos hp, if_pos hp]
        rfl
      · rw [if_neg hp, if_neg hp]
        rfl
    · rw [if_neg hv]
      simp only [hv, Bool.false_eq_true, if_false]
      exact ih

theorem isValidPathFrom_cons (children : List KwTree) (k : Keyword) (path : List Keyword)
    (h : isValidPathFrom children (k :: path) = true) :
    ∃ t ∈ children, t.kw = k ∧ isValidPathFrom t.children path = true := by
  rw [isValidPathFrom] at h
  cases hf : children.find? (fun t => t.kw = k) with
  | none =>
    rw [hf] at h
    cases h
  | some t =>
    rw [hf] at h
    exact ⟨t, List.mem_of_find?_eq_some hf, by simpa using List.find?_some hf, h⟩

theorem keywordsList_eq (ts : List KwTree) :
    KwTree.keywordsList ts = (ts.map KwTree.keywords).flatten := by
  induction ts with
  | nil => rfl
  | cons t ts ih => rw [KwTree.keywordsList, ih, List.map_cons, List.flatten_cons]

theorem mem_keywordsList {ts : List KwTree} {t : KwTree} {k : Keyword} (ht : t ∈ ts)
    (hk : k ∈ t.keywords) : k ∈ KwTree.keywordsList ts := by
  rw [keywordsList_eq]
  simp only [List.mem_flatten, List.mem_map]
  exact ⟨_, ⟨t, ht, rfl⟩, hk⟩

theorem validPath_mem : ∀ (path : List Keyword) (children : List KwTree),
    isValidPathFrom children path = true → ∀ k ∈ path, k ∈ KwTree.keywordsList children := by
  intro path
  induction path with
  | nil =>
    intro children _ k hk
    cases hk
  | cons a path ih =>
    intro children h k hk
    obtain ⟨t, ht, hta, hrest⟩ := isValidPathFrom_cons children a path h
    cases t with
    | mk tkw tchildren =>
      rcases List.mem_cons.mp hk with rfl | hk
      · refine mem_keywordsList ht ?_
        rw [KwTree.keywords, ← hta]
        exact List.mem_cons_self _ _
      · refine mem_keywordsList ht ?_
        rw [KwTree.keywords]
        exact List.mem_cons_of_mem _ (ih tchildren hrest k hk)

theorem findFit_valid (grammar : KwTree) (kw : Keyword) : ∀ (revSeq s : List Keyword),
    findFit grammar kw revSeq = some s → isValidPath (s.reverse ++ [kw]) grammar = true := by
  intro revSeq
  induction revSeq with
  | nil =>
    intro s h
    cases h
  | cons l r ih =>
    intro s h
    rw [findFit] at h
    split_ifs at h with hv
    · cases h
      exact hv
    · exact ih s h

theorem fit_root (grammar : KwTree) (kw last : Keyword)
    (h : isValidPath ([last].reverse ++ [kw]) grammar = true) : last = grammar.kw := by
  obtain ⟨t, ht, hk, -⟩ := isValidPathFrom_cons [grammar] last [kw] h
  rw [List.mem_singleton.mp ht] at hk
  exact hk.symm

theorem fit_below (grammar : KwTree) (kw last : Keyword) (rest : List Keyword)
    (hne : rest ≠ []) (h : isValidPath ((last :: rest).reverse ++ [kw]) grammar = true) :
    last ∈ KwTree.keywordsList grammar.children := by
  obtain ⟨r1, x, hr⟩ : ∃ r1 x, rest = r1 ++ [x] := by
    rcases List.eq_nil_or_concat rest with h1 | ⟨r1, x, h1⟩
    · exact absurd h1 hne
    · exact ⟨r1, x, by rw [h1, List.concat_eq_append]⟩
  subst hr
  rw [List.reverse_cons, List.reverse_append, List.reverse_singleton, List.singleton_append,
    List.cons_append, List.cons_append] at h
  obtain ⟨t, ht, -, hrest⟩ := isValidPathFrom_cons [grammar] x _ h
  rw [List.mem_singleton.mp ht] at hrest
  exact validPath_mem _ _ hrest last (by simp)

theorem keywordName_project (rt : GoRuntime) (k : Keyword)
    (h : keywordName rt smlKeywords k = "project".toList) : k = skwProject := by
  unfold keywordName at h
  cases hf : smlKeywords.find? (fun e => e.2 = k) with
  | some e =>
    rw [hf] at h
    dsimp only at h
    have hm := List.mem_of_find?_eq_some hf
    have hk : e.2 = k := by simpa using List.find?_some hf
    have hall : ∀ e ∈ smlKeywords, e.1 = "project".toList → e.2 = skwProject := by decide
    rw [← hk]
    exact hall e hm h
  | none =>
    rw [hf] at h
    dsimp only at h
    unfold linglingKeyword2string at h
    dsimp only at h
    cases hg : (rt.strOrder 0 (linglingKeywords.map (fun e => e.1))).reverse.find?
        (fun k1 => lookupKeyword linglingKeywords k1 = some k) with
    | some k1 =>
      rw [hg] at h
      dsimp only at h
      have hm := List.mem_of_find?_eq_some hg
      rw [List.mem_reverse] at hm
      have hp := (rt.strOrder_perm 0 (linglingKeywords.map (fun e => e.1))).mem_iff.mp hm
      rw [h] at hp
      exact absurd hp (by decide)
    | none =>
      rw [hg] at h
      cases h

theorem keywordName_of_project (rt : GoRuntime) :
    keywordName rt smlKeywords skwProject = "project".toList := by
  unfold keywordName
  have hf : smlKeywords.find? (fun e => e.2 = skwProject) =
      some ("project".toList, skwProject) := by decide
  rw [hf]

theorem findIndentationErrors_fit (rt : GoRuntime) (g : Generic) (grammar : KwTree)
    (keyword2string : List (Str × Keyword)) (last : Keyword) (rest : List Keyword)
    (hfit : suggestedFit rt g grammar = some (last :: rest)) :
    isValidPath ((last :: rest).reverse ++
      [mismatchKeyword rt g (firstLineMismatchWithGrammar rt g 1 grammar).1]) grammar = true ∧
    findIndentationErrors rt g grammar keyword2string =
      [{ LineNum := (firstLineMismatchWithGrammar rt g 1 grammar).1,
         Msg :=
          if keywordName rt keyword2string last = "project".toList then
            indentationMessage
              (keywordName rt keyword2string
                (mismatchKeyword rt g (firstLineMismatchWithGrammar rt g 1 grammar).1))
              (repairDirection rest.length (firstLineMismatchWithGrammar rt g 1 grammar).2)
          else
            indentationMessageUnder
              (keywordName rt keyword2string
                (mismatchKeyword rt g (firstLineMismatchWithGrammar rt g 1 grammar).1))
              (repairDirection rest.length (firstLineMismatchWithGrammar rt g 1 grammar).2)
              (keywordName rt keyword2string last)
              ((repairPath rt g (firstLineMismatchWithGrammar rt g 1 grammar).1).getD rest.length
                (.mk 0 [] [] 0)).value }] := by
  unfold suggestedFit at hfit
  rw [findIndentationErrors_eq]
  by_cases hl : (firstLineMismatchWithGrammar rt g 1 grammar).1 < 0
  · rw [if_pos hl] at hfit
    cases hfit
  · rw [if_neg hl] at hfit ⊢
    exact ⟨findFit_valid _ _ _ _ hfit,
      (findRepair_fit rt keyword2string grammar _ _ _ _ _).2 last rest hfit⟩

theorem under_ne_short (a b c d : Str) :
    indentationMessageUnder a b c d ≠ indentationMessage a b := by
  intro h
  have := congrArg List.length h
  unfold indentationMessageUnder at this
  simp only [List.length_append] at this
  have h1 : " to be under \"".toList.length = 14 := by decide
  omega

set_option maxRecDepth 1000000 in
theorem grammars_below_root :
    skwProject ∉ KwTree.keywordsList smlKwTree.children ∧
    skwProject ∉ (makeKwSubtree smlKwTree skwTable).keywords ∧
    skwProject ∉ (makeKwSubtree smlKwTree skwDataset).keywords ∧ smlKwTree.kw = skwProject := by
  refine ⟨?_, ?_, ?_, ?_⟩ <;> decide!

theorem keywords_children (t : KwTree) :
    ∀ k ∈ KwTree.keywordsList t.children, k ∈ t.keywords := by
  cases t with
  | mk kw children =>
    intro k hk
    rw [KwTree.keywords]
    exact List.mem_cons_of_mem _ hk

theorem kw_mem_keywords (t : KwTree) : t.kw ∈ t.keywords := by
  cases t with
  | mk kw children =>
    rw [KwTree.keywords]
    exact List.mem_cons_self _ _

/-- C28 (amended): for the grammars the package passes to
`findIndentationErrors` (`smlKwTree` and its subtrees for a table and for a
dataset) and the names of `smlKeywords`: when the suggested parent `last` is
not the root (keywords `rest` lie between it and the root, the root
included), `findIndentationErrors` returns one error, at the line that is
out of place, with the message `indentation error for "<kw>", maybe move
<direction> to be under "<parent-kw>"` followed by nothing if the trimmed
value of the parent is empty, by ` (<value>)` if it has at most 8 bytes, and
by ` (`, its first 5 bytes, three full stops `...` and `)` if it is
longer. -/
theorem findIndentationErrors_under (rt : GoRuntime) (g : Generic) (grammar : KwTree)
    (last : Keyword) (rest : List Keyword)
    (hgrammar : grammar = smlKwTree ∨ grammar = makeKwSubtree smlKwTree skwTable ∨
      grammar = makeKwSubtree smlKwTree skwDataset)
    (hfit : suggestedFit rt g grammar = some (last :: rest)) (hne : rest ≠ []) :
    findIndentationErrors rt g grammar smlKeywords =
      [{ LineNum := (firstLineMismatchWithGrammar rt g 1 grammar).1,
         Msg := indentationMessageUnder
            (keywordName rt smlKeywords
              (mismatchKeyword rt g (firstLineMismatchWithGrammar rt g 1 grammar).1))
            (repairDirection rest.length (firstLineMismatchWithGrammar rt g 1 grammar).2)
            (keywordName rt smlKeywords last)
            ((repairPath rt g (firstLineMismatchWithGrammar rt g 1 grammar).1).getD rest.length
              (.mk 0 [] [] 0)).value }] := by
  obtain ⟨hv, he⟩ := findIndentationErrors_fit rt g grammar smlKeywords last rest hfit
  have hbelow := fit_below grammar _ last rest hne hv
  have hnp : keywordName rt smlKeywords last ≠ "project".toList := by
    intro h
    have hl := keywordName_project rt last h
    subst hl
    obtain ⟨g1, g2, g3, -⟩ := grammars_below_root
    rcases hgrammar with hg | hg | hg
    · rw [hg] at hbelow
      exact g1 hbelow
    · rw [hg] at hbelow
      exact g2 (keywords_children _ _ hbelow)
    · rw [hg] at hbelow
      exact g3 (keywords_children _ _ hbelow)
  rw [he, if_neg hnp]

/-- C29 (amended): with the grammar `smlKwTree` of a whole project,
`findIndentationErrors` returns the shortened message `indentation error for
"<kw>", maybe move <direction>` exactly when the suggested parent is the
root of the grammar (`rest` is empty).  With the subtree of `smlKwTree` for
a table or for a dataset, as `ParseSMLPieces` passes them, it never returns
the shortened message: whatever the suggested parent, the root too, the
message names the parent, `... to be under "<parent-kw>"` and its value. -/
theorem findIndentationErrors_short (rt : GoRuntime) (g : Generic) (last : Keyword)
    (rest : List Keyword) :
    (suggestedFit rt g smlKwTree = some (last :: rest) →
      (findIndentationErrors rt g smlKwTree smlKeywords =
        [{ LineNum := (firstLineMismatchWithGrammar rt g 1 smlKwTree).1,
           Msg := indentationMessage
              (keywordName rt smlKeywords
                (mismatchKeyword rt g (firstLineMismatchWithGrammar rt g 1 smlKwTree).1))
              (repairDirection rest.length (firstLineMismatchWithGrammar rt g 1 smlKwTree).2) }] ↔
        rest = [])) ∧
    (∀ grammar, grammar = makeKwSubtree smlKwTree skwTable ∨
        grammar = makeKwSubtree smlKwTree skwDataset →
      suggestedFit rt g grammar = some (last :: rest) →
      findIndentationErrors rt g grammar smlKeywords =
        [{ LineNum := (firstLineMismatchWithGrammar rt g 1 grammar).1,
           Msg := indentationMessageUnder
              (keywordName rt smlKeywords
                (mismatchKeyword rt g (firstLineMismatchWithGrammar rt g 1 grammar).1))
              (repairDirection rest.length (firstLineMismatchWithGrammar rt g 1 grammar).2)
              (keywordName rt smlKeywords last)
              ((repairPath rt g (firstLineMismatchWithGrammar rt g 1 grammar).1).getD
                rest.length (.mk 0 [] [] 0)).value }] ∧
      findIndentationErrors rt g grammar smlKeywords ≠
        [{ LineNum := (firstLineMismatchWithGrammar rt g 1 grammar).1,
           Msg := indentationMessage
              (keywordName rt smlKeywords
                (mismatchKeyword rt g (firstLineMismatchWithGrammar rt g 1 grammar).1))
              (repairDirection rest.length
                (firstLineMismatchWithGrammar rt g 1 grammar).2) }]) := by
  obtain ⟨g1, g2, g3, g4⟩ := grammars_below_root
  constructor
  · intro hfit
    obtain ⟨hv, he⟩ := findIndentationErrors_fit rt g smlKwTree smlKeywords last rest hfit
    constructor
    · intro h
      by_contra hne
      rw [findIndentationErrors_under rt g smlKwTree last rest (Or.inl rfl) hfit hne] at h
      simp only [List.cons.injEq, and_true, ParseError.mk.injEq] at h
      exact under_ne_short _ _ _ _ h
    · intro hr
      subst hr
      have hl := fit_root smlKwTree _ last hv
      rw [g4] at hl
      subst hl
      rw [he, if_pos (keywordName_of_project rt)]
  · intro grammar hgrammar hfit
    obtain ⟨hv, he⟩ := findIndentationErrors_fit rt g grammar smlKeywords last rest hfit
    have hmem : last ∈ grammar.keywords := by
      by_cases hr : rest = []
      · subst hr
        rw [fit_root grammar _ last hv]
        exact kw_mem_keywords grammar
      · exact keywords_children _ _ (fit_below grammar _ last rest hr hv)
    have hnp : keywordName rt smlKeywords last ≠ "project".toList := by
      intro h
      have hl := keywordName_project rt last h
      subst hl
      rcases hgrammar with hg | hg
      · rw [hg] at hmem
        exact g2 hmem
      · rw [hg] at hmem
        exact g3 hmem
    rw [he, if_neg hnp]
    refine ⟨rfl, ?_⟩
    intro h
    simp only [List.cons.injEq, and_true, ParseError.mk.injEq] at h
    exact under_ne_short _ _ _ _ h

set_option maxRecDepth 1000000 in
/-- The tree of `deepColumnDocument`: the `column` of the line 4 is out of
place under `sql`; the suggested parent is the table, one level below the
root, whose trimmed value has 17 bytes; the message ends in ` (veryl...)`. -/
theorem findIndentationErrors_under_witness :
    (suggestedFit GoRuntime.insertionOrder (projectTree deepColumnDocument) smlKwTree =
        some (skwTable :: [skwProject]) ∧ [skwProject] ≠ []) ∧
    findIndentationErrors GoRuntime.insertionOrder (projectTree deepColumnDocument) smlKwTree
        smlKeywords =
      [{ LineNum := (firstLineMismatchWithGrammar GoRuntime.insertionOrder
            (projectTree deepColumnDocument) 1 smlKwTree).1,
         Msg := indentationMessageUnder
            (keywordName GoRuntime.insertionOrder smlKeywords
              (mismatchKeyword GoRuntime.insertionOrder (projectTree deepColumnDocument)
                (firstLineMismatchWithGrammar GoRuntime.insertionOrder
                  (projectTree deepColumnDocument) 1 smlKwTree).1))
            (repairDirection [skwProject].length
              (firstLineMismatchWithGrammar GoRuntime.insertionOrder
                (projectTree deepColumnDocument) 1 smlKwTree).2)
            (keywordName GoRuntime.insertionOrder smlKeywords skwTable)
            ((repairPath GoRuntime.insertionOrder (projectTree deepColumnDocument)
              (firstLineMismatchWithGrammar GoRuntime.insertionOrder
                (projectTree deepColumnDocument) 1 smlKwTree).1).getD [skwProject].length
              (.mk 0 [] [] 0)).value }] ∧
    findIndentationErrors GoRuntime.insertionOrder (projectTree deepColumnDocument) smlKwTree
        smlKeywords =
      [{ LineNum := 4,
         Msg := ("indentation error for \"column\", maybe move left to be under \"table\"" ++
           " (veryl...)").toList }] :=
  ⟨⟨by decide!, by decide⟩,
    findIndentationErrors_under GoRuntime.insertionOrder (projectTree deepColumnDocument)
      smlKwTree skwTable [skwProject] (Or.inl rfl) (by decide!) (by decide),
    by decide!⟩

set_option maxRecDepth 1000000 in
/-- C28 fails as stated in the sign that shortens the value: for
`deepColumnDocument` the suggested parent is the table `verylongtablename`,
not the root, and `ParseSML` returns the message that ends in ` (veryl...)`,
with three full stops as in the source (lingling.go:415), not with the one
sign `…` of the claim. -/
theorem findIndentationErrors_under_counterexample :
    suggestedFit GoRuntime.insertionOrder (projectTree deepColumnDocument) smlKwTree =
      some [skwTable, skwProject] ∧
    (strings.TrimSpace ((repairPath GoRuntime.insertionOrder (projectTree deepColumnDocument)
      4).getD 1 (.mk 0 [] [] 0)).value) = "verylongtablename".toList ∧
    (ParseSML GoRuntime.insertionOrder deepColumnDocument []).2 =
      [{ LineNum := 4,
         Msg := ("indentation error for \"column\", maybe move left to be under \"table\"" ++
           " (veryl...)").toList }] ∧
    ("indentation error for \"column\", maybe move left to be under \"table\"" ++
        " (veryl...)").toList ≠
      ("indentation error for \"column\", maybe move left to be under \"table\"" ++
        " (veryl").toList ++ ellipsisSign ++ ")".toList := by
  refine ⟨?_, ?_, ?_, ?_⟩ <;> decide!

set_option maxRecDepth 1000000 in
/-- The tree of `deepDatasetDocument` with `smlKwTree`: the suggested parent
is the root and the message is the shortened one; the tree of
`deepColumnPiece` with the subtree for a table: the suggested parent is the
root of the subtree and the message names it. -/
theorem findIndentationErrors_short_witness :
    (suggestedFit GoRuntime.insertionOrder (projectTree deepDatasetDocument) smlKwTree =
        some [skwProject] ∧
      suggestedFit GoRuntime.insertionOrder (projectTree deepColumnPiece)
        (makeKwSubtree smlKwTree skwTable) = some [skwTable]) ∧
    findIndentationErrors GoRuntime.insertionOrder (projectTree deepDatasetDocument) smlKwTree
        smlKeywords =
      [{ LineNum := (firstLineMismatchWithGrammar GoRuntime.insertionOrder
            (projectTree deepDatasetDocument) 1 smlKwTree).1,
         Msg := indentationMessage
            (keywordName GoRuntime.insertionOrder smlKeywords
              (mismatchKeyword GoRuntime.insertionOrder (projectTree deepDatasetDocument)
                (firstLineMismatchWithGrammar GoRuntime.insertionOrder
                  (projectTree deepDatasetDocument) 1 smlKwTree).1))
            (repairDirection ([] : List Keyword).length
              (firstLineMismatchWithGrammar GoRuntime.insertionOrder
                (projectTree deepDatasetDocument) 1 smlKwTree).2) }] ∧
    findIndentationErrors GoRuntime.insertionOrder (projectTree deepDatasetDocument) smlKwTree
        smlKeywords =
      [{ LineNum := 4, Msg := "indentation error for \"dataset\", maybe move left".toList }] ∧
    findIndentationErrors GoRuntime.insertionOrder (projectTree deepColumnPiece)
        (makeKwSubtree smlKwTree skwTable) smlKeywords =
      [{ LineNum := 3,
         Msg := ("indentation error for \"column\", maybe move left to be under \"table\"" ++
           " (t)").toList }] :=
  ⟨⟨by decide!, by decide!⟩,
    ((findIndentationErrors_short GoRuntime.insertionOrder (projectTree deepDatasetDocument)
      skwProject []).1 (by decide!)).mpr rfl,
    by decide!,
    ((findIndentationErrors_short GoRuntime.insertionOrder (projectTree deepColumnPiece)
      skwTable []).2 _ (Or.inl rfl) (by decide!)).1.trans (by decide!)⟩

set_option maxRecDepth 1000000 in
/-- C29 fails as stated for the pieces: for the table piece
`deepColumnPiece` the grammar is the subtree of `smlKwTree` for a table, the
`column` of the line 3 is out of place under `label` and the suggested parent
is the root of that grammar, the table; `ParseSMLPieces` returns the message
that names it, `... to be under "table" (t)`, not the shortened one, which
the code gives only for a parent of the name `project` (lingling.go:425). -/
theorem findIndentationErrors_short_counterexample :
    suggestedFit GoRuntime.insertionOrder (projectTree deepColumnPiece)
      (makeKwSubtree smlKwTree skwTable) = some [skwTable] ∧
    (makeKwSubtree smlKwTree skwTable).kw = skwTable ∧
    (ParseSMLPieces GoRuntime.insertionOrder [deepColumnPiece] ["a.table.sml".toList]).err =
      some (some ("indentation error for \"column\", maybe move left to be under \"table\"" ++
        " (t)").toList) ∧
    (ParseSMLPieces GoRuntime.reverseOrder [deepColumnPiece] ["a.table.sml".toList]).err =
      some (some ("indentation error for \"column\", maybe move left to be under \"table\"" ++
        " (t)").toList) := by
  refine ⟨?_, ?_, ?_, ?_⟩ <;> decide!
/-! ### C30: the triples of a join -/

theorem fatal_not_ok {α : Type} (msg : Str) (line : Int) (st st1 : List ParseError) (a : α) :
    (fatal msg line : Parser α).run st ≠ .ok a st1 := by
  intro h
  unfold fatal at h
  obtain ⟨_, _, -, h2⟩ := run_bind_ok h
  cases h2

theorem panicIf_ok (c : Bool) (msg : Str) (line : Int) (st st1 : List ParseError) (u : Unit)
    (h : (panicIf c msg line).run st = .ok u st1) : c = false ∧ st1 = st := by
  unfold panicIf at h
  cases c with
  | true => exact absurd h (fatal_not_ok _ _ _ _ _)
  | false =>
    simp only [Bool.false_eq_true, if_false] at h
    exact ⟨rfl, (run_pure_ok h).2.symm⟩

theorem Fields_ne_nil (s : Str) (h : (strings.Fields s).length ≠ 0) : s ≠ [] := by
  intro hs
  rw [hs] at h
  exact h rfl

theorem parseJoinCondition_ok {u : GoUnicode} (otsSQL : Str) (list : List Generic) (owner : Str)
    (line : Int)
    (decoratorMsg : Str → Str) (st st1 : List ParseError) (sql : Str)
    (h : (parseJoinCondition u otsSQL list owner line decoratorMsg).run st = .ok sql st1) :
    sql ≠ [] := by
  unfold parseJoinCondition at h
  obtain ⟨_, _, -, h⟩ := run_bind_ok h
  obtain ⟨child, _, -, h⟩ := run_bind_ok h
  obtain ⟨v, _, -, h⟩ := run_bind_ok h
  obtain ⟨_, _, h1, h⟩ := run_bind_ok h
  obtain ⟨_, _, -, h⟩ := run_bind_ok h
  obtain ⟨rfl, -⟩ := run_pure_ok h
  have := (panicIf_ok _ _ _ _ _ _ h1).1
  exact Fields_ne_nil v (by simpa using this)

theorem joinOperators_symbol (k v : Str) (h : joinOperators.get? k = some v) :
    v ∈ joinSymbols := by
  have hmem : ∀ (m : GoMap Str) (k v : Str), m.get? k = some v → (k, v) ∈ m := by
    intro m
    induction m with
    | nil =>
      intro k v h
      cases h
    | cons e m ih =>
      intro k v h
      obtain ⟨k0, v0⟩ := e
      rw [GoMap.get?] at h
      split_ifs at h with h0
      · cases h
        rw [h0]
        exact List.mem_cons_self _ _
      · exact List.mem_cons_of_mem _ (ih k v h)
  have hall : ∀ e ∈ joinOperators, e.2 ∈ joinSymbols := by decide
  exact hall _ (hmem joinOperators k v h)

theorem parseThen_ok (rt : GoRuntime) (node : Generic) (st st1 : List ParseError)
    (t : OperatorTableSQL) (h : (parseThen rt node).run st = .ok t st1) :
        FromThen rt.unicode node t := by
  unfold parseThen at h
  obtain ⟨_, _, -, h⟩ := run_bind_ok h
  obtain ⟨_, _, -, h⟩ := run_bind_ok h
  dsimp only at h
  cases hop : joinOperators.get? (strings.ToLower rt.unicode (strings.Join
      ((strings.Fields node.value).take ((strings.Fields node.value).length - 1)) [' '])) with
  | none =>
    rw [hop] at h
    exact absurd h (fatal_not_ok _ _ _ _ _)
  | some op =>
    rw [hop] at h
    dsimp only at h
    obtain ⟨_, _, h1, h⟩ := run_bind_ok h
    obtain ⟨sql, _, -, h⟩ := run_bind_ok h
    obtain ⟨_, _, h2, h⟩ := run_bind_ok h
    obtain ⟨rfl, -⟩ := run_pure_ok h
    have hid := (panicIf_ok _ _ _ _ _ _ h1).1
    have hsql := (panicIf_ok _ _ _ _ _ _ h2).1
    exact ⟨by simpa using hid, by simpa using hsql, rfl, hop⟩

theorem parseJoinChild_then {u : GoUnicode} (g : Generic) (state : Str × List Generic)
    (entry : Keyword × List Generic) (st st1 : List ParseError) (r : Str × List Generic)
    (hentry : entry.2 = g.childrenOf entry.1)
    (hinv : ∀ x ∈ state.2, x ∈ g.children ∧ x.kw = skwThen)
    (h : (parseJoinChild u g state entry).run st = .ok r st1) :
    ∀ x ∈ r.2, x ∈ g.children ∧ x.kw = skwThen := by
  unfold parseJoinChild at h
  split_ifs at h with h1 h2
  · obtain ⟨sql, _, -, h⟩ := run_bind_ok h
    obtain ⟨rfl, -⟩ := run_pure_ok h
    exact hinv
  · obtain ⟨rfl, -⟩ := run_pure_ok h
    intro x hx
    simp only at hx
    rw [hentry, h2, Generic.childrenOf, List.mem_filter] at hx
    exact ⟨hx.1, by simpa using hx.2⟩
  · exact absurd h (fatal_not_ok _ _ _ _ _)

/-- C30: when `parseJoin` returns for the join node `g`, `OTS` has two
triples at least; the first has an empty operator and an empty SQL, and its
table is the first word of the join line (after the decorator, if there is
one), a valid identifier; the second has the last word of the join line as
its table and comes with the operator that `joinOperators` has for the words
between the two tables, in lower case; every later triple comes from a
`then` child of `g`, with its last word as the table and the operator that
`joinOperators` has for the words before it, in lower case; the table of
every triple after the first is a valid identifier, its SQL is not empty and
its operator is one of `<->`, `-->`, `<--`, `>-<`. -/
theorem parseJoin_OTS (rt : GoRuntime) (g : Generic) (st st1 : List ParseError) (j : Join)
    (h : (parseJoin rt g).run st = .ok j st1) :
    ∃ second later,
      j.OTS = { Operator := [], Table := (joinPieces rt.unicode g.value).headD [], SQL := [] } ::
        second :: later ∧
      IsValidID ((joinPieces rt.unicode g.value).headD []) = true ∧
      second.Table =
        (joinPieces rt.unicode g.value).getD ((joinPieces rt.unicode g.value).length - 1) [] ∧
      joinOperators.get? (strings.ToLower rt.unicode (strings.Join
        (((joinPieces rt.unicode g.value).drop 1).take
          ((joinPieces rt.unicode g.value).length - 2)) [' '])) =
          some second.Operator ∧
      (∀ t ∈ later, ∃ node ∈ g.children, node.kw = skwThen ∧ FromThen rt.unicode node t) ∧
      (∀ t ∈ second :: later,
        IsValidID t.Table = true ∧ t.SQL ≠ [] ∧ t.Operator ∈ joinSymbols) := by
  unfold parseJoin at h
  obtain ⟨_, _, -, h⟩ := run_bind_ok h
  obtain ⟨_, _, -, h⟩ := run_bind_ok h
  obtain ⟨_, _, -, h⟩ := run_bind_ok h
  dsimp only at h
  obtain ⟨_, _, -, h⟩ := run_bind_ok h
  change (match joinOperators.get? (strings.ToLower rt.unicode (strings.Join
      (((joinPieces rt.unicode g.value).drop 1).take ((joinPieces rt.unicode g.value).length - 2))
          [' '])) with
    | none => _
    | some op => _ : Parser Join).run _ = _ at h
  cases hop : joinOperators.get? (strings.ToLower rt.unicode (strings.Join
      (((joinPieces rt.unicode g.value).drop 1).take ((joinPieces rt.unicode g.value).length - 2))
          [' '])) with
  | none =>
    rw [hop] at h
    exact absurd h (fatal_not_ok _ _ _ _ _)
  | some op =>
    rw [hop] at h
    dsimp only at h
    obtain ⟨_, _, h1, h⟩ := run_bind_ok h
    obtain ⟨_, _, h2, h⟩ := run_bind_ok h
    obtain ⟨r, st3, h3, h⟩ := run_bind_ok h
    obtain ⟨_, _, h4, h⟩ := run_bind_ok h
    obtain ⟨ots, st5, h5, h⟩ := run_bind_ok h
    have hid1 : IsValidID ((joinPieces rt.unicode g.value).headD []) = true := by
      have h0 := (panicIf_ok _ _ _ _ _ _ h1).1
      change (!IsValidID ((joinPieces rt.unicode g.value).headD [])) = false at h0
      cases hv : IsValidID ((joinPieces rt.unicode g.value).headD []) with
      | true => rfl
      | false =>
        rw [hv] at h0
        cases h0
    have hid2 : IsValidID
        ((joinPieces rt.unicode g.value).getD ((joinPieces rt.unicode g.value).length - 1) []) =
        true := by
      have h0 := (panicIf_ok _ _ _ _ _ _ h2).1
      change (!IsValidID ((joinPieces rt.unicode g.value).getD ((joinPieces rt.unicode
          g.value).length - 1) [])) =
        false at h0
      cases hv : IsValidID ((joinPieces rt.unicode g.value).getD ((joinPieces rt.unicode
          g.value).length - 1) []) with
      | true => rfl
      | false =>
        rw [hv] at h0
        cases h0
    have hsql : r.1 ≠ [] := by
      simpa using (panicIf_ok _ _ _ _ _ _ h4).1
    have hthen : ∀ x ∈ r.2, x ∈ g.children ∧ x.kw = skwThen :=
      forEach_ok_inv_st (parseJoinChild rt.unicode g)
        (fun s _ => ∀ x ∈ s.2, x ∈ g.children ∧ x.kw = skwThen) (rangeChildren rt g)
        (fun b s st s1 st1 hb hinv hrun =>
          parseJoinChild_then g s b st st1 s1 (mem_rangeChildren rt g b hb).1 hinv hrun)
        _ _ _ _ (fun x hx => by cases hx) h3
    have hots := forEach_ok_inv
      (fun (ots : List OperatorTableSQL) thenNode => do
        let t ← parseThen rt thenNode
        pure (ots ++ [t]))
      (fun _ s => ∃ later, s =
        ({ Operator := [], Table := (joinPieces rt.unicode g.value).headD [], SQL := [] } ::
          { Operator := op, Table := (joinPieces rt.unicode g.value).getD
              ((joinPieces rt.unicode g.value).length - 1) [], SQL := r.1 } :: later :
            List OperatorTableSQL) ∧
        ∀ t ∈ later, ∃ node ∈ g.children, node.kw = skwThen ∧ FromThen rt.unicode node t)
      (sortByLine r.2)
      (by
        intro pre b s st s1 st1 hb hinv hrun
        obtain ⟨later, rfl, hl⟩ := hinv
        obtain ⟨t, _, ht, hrun⟩ := run_bind_ok hrun
        obtain ⟨rfl, -⟩ := run_pure_ok hrun
        refine ⟨later ++ [t], by simp, ?_⟩
        intro x hx
        rcases List.mem_append.mp hx with hx | hx
        · exact hl x hx
        · rw [List.mem_singleton.mp hx]
          have hb2 : b ∈ r.2 := (List.perm_insertionSort _ _).mem_iff.mp hb
          exact ⟨b, (hthen b hb2).1, (hthen b hb2).2, parseThen_ok rt b _ _ t ht⟩)
      (sortByLine r.2) [] _ _ _ _ (fun b hb => hb) ⟨[], rfl, fun t ht => by cases ht⟩ h5
    obtain ⟨later, rfl, hlater⟩ := hots
    have hj : j.OTS =
        { Operator := [], Table := (joinPieces rt.unicode g.value).headD [], SQL := [] } ::
        { Operator := op, Table := (joinPieces rt.unicode g.value).getD
            ((joinPieces rt.unicode g.value).length - 1) [], SQL := r.1 } :: later := by
      split_ifs at h with hd
      · unfold parseJoinDecorator at h
        obtain ⟨_, _, -, h⟩ := run_bind_ok h
        obtain ⟨_, _, -, h⟩ := run_bind_ok h
        obtain ⟨rfl, -⟩ := run_pure_ok h
        rfl
      · obtain ⟨rfl, -⟩ := run_pure_ok h
        rfl
    refine ⟨_, later, hj, hid1, rfl, rfl, hlater, ?_⟩
    intro t ht
    rcases List.mem_cons.mp ht with rfl | ht
    · exact ⟨hid2, hsql, joinOperators_symbol _ _ hop⟩
    · obtain ⟨node, -, -, f1, f2, -, f4⟩ := hlater t ht
      exact ⟨f1, f2, joinOperators_symbol _ _ f4⟩

set_option maxRecDepth 1000000 in
/-- The join of `thenJoinNode`: `parseJoin` returns the three triples of
`thenJoinOTS`, with the operators `-->` for `Left Join` and `<->` for
`INNER`, in the order of insertion and in the reverse order of the visits.
The tables of package `unicode` are not read for these texts of ASCII bytes
(`GoRuntime.insertionOrder.unicode` is `GoUnicode.unchanged`). -/
theorem parseJoin_OTS_witness :
    ((parseJoin GoRuntime.insertionOrder thenJoinNode).run [] = .ok { OTS := thenJoinOTS } [] ∧
      (parseJoin GoRuntime.reverseOrder thenJoinNode).run [] = .ok { OTS := thenJoinOTS } []) ∧
    ∃ second later,
      ({ OTS := thenJoinOTS } : Join).OTS =
        { Operator := [], Table := (joinPieces GoUnicode.unchanged thenJoinNode.value).headD [],
          SQL := [] } :: second :: later ∧
      IsValidID ((joinPieces GoUnicode.unchanged thenJoinNode.value).headD []) = true ∧
      second.Table = (joinPieces GoUnicode.unchanged thenJoinNode.value).getD
        ((joinPieces GoUnicode.unchanged thenJoinNode.value).length - 1) [] ∧
      joinOperators.get? (strings.ToLower GoUnicode.unchanged (strings.Join
        (((joinPieces GoUnicode.unchanged thenJoinNode.value).drop 1).take
          ((joinPieces GoUnicode.unchanged thenJoinNode.value).length - 2)) [' '])) =
            some second.Operator ∧
      (∀ t ∈ later, ∃ node ∈ thenJoinNode.children,
        node.kw = skwThen ∧ FromThen GoUnicode.unchanged node t) ∧
      (∀ t ∈ second :: later,
        IsValidID t.Table = true ∧ t.SQL ≠ [] ∧ t.Operator ∈ joinSymbols) :=
  ⟨⟨rfl, rfl⟩,
    parseJoin_OTS GoRuntime.insertionOrder thenJoinNode [] [] { OTS := thenJoinOTS } rfl⟩
/-! ### C40: `ConvertName` -/

theorem replaceNonWord_all : ∀ (s : Str) (inRun : Bool),
    ∀ c ∈ replaceNonWord inRun s, isAlphaNumeric c = true := by
  intro s
  induction s with
  | nil =>
    intro inRun c hc
    cases inRun <;> simp [replaceNonWord] at hc
  | cons d s ih =>
    intro inRun c hc
    rw [replaceNonWord] at hc
    split_ifs at hc with h1 h2
    · rcases List.mem_cons.mp hc with rfl | hc
      · exact h1
      · exact ih false c hc
    · exact ih true c hc
    · rcases List.mem_cons.mp hc with rfl | hc
      · decide
      · exact ih true c hc

theorem mem_of_mem_TrimLeft (cutset : Str) : ∀ (s : Str) (c : Char),
    c ∈ strings.TrimLeft s cutset → c ∈ s := by
  intro s
  induction s with
  | nil =>
    intro c hc
    simp [strings.TrimLeft] at hc
  | cons d s ih =>
    intro c hc
    rw [strings.TrimLeft] at hc
    split_ifs at hc
    · exact List.mem_cons_of_mem _ (ih c hc)
    · exact hc

theorem mem_of_mem_TrimRight (cutset : Str) : ∀ (s : Str) (c : Char),
    c ∈ strings.TrimRight s cutset → c ∈ s := by
  intro s
  induction s with
  | nil =>
    intro c hc
    simp [strings.TrimRight] at hc
  | cons d s ih =>
    intro c hc
    rw [strings.TrimRight] at hc
    split at hc
    · split_ifs at hc
      · cases hc
      · rcases List.mem_singleton.mp hc with rfl
        exact List.mem_cons_self _ _
    · next r hr =>
      rcases List.mem_cons.mp hc with rfl | hc
      · exact List.mem_cons_self _ _
      · exact List.mem_cons_of_mem _ (ih c hc)

theorem isAlphaNumeric_of_isAlpha (c : Char) (h : isAlpha c = true) : isAlphaNumeric c = true := by
  rw [isAlphaNumeric, h, Bool.true_or]

theorem IsValidID_underscore (s : Str) (h : ∀ c ∈ s, isAlphaNumeric c = true) :
    IsValidID ('_' :: s) = true := by
  rw [IsValidID, Bool.and_eq_true, List.all_eq_true]
  exact ⟨by decide, h⟩

theorem all_of_IsValidID (s : Str) (h : IsValidID s = true) :
    ∀ c ∈ s, isAlphaNumeric c = true := by
  cases s with
  | nil => cases h
  | cons d s =>
    rw [IsValidID, Bool.and_eq_true, List.all_eq_true] at h
    intro c hc
    rcases List.mem_cons.mp hc with rfl | hc
    · exact isAlphaNumeric_of_isAlpha _ h.1
    · exact h.2 c hc

theorem _ConvertName_valid (s : Str) : IsValidID (_ConvertName s) = true := by
  unfold _ConvertName
  by_cases h1 : IsValidID s = true
  · rw [if_pos h1]
    exact h1
  · rw [if_neg h1]
    dsimp only
    have hall : ∀ c ∈ strings.Trim (replaceNonWord false (strings.TrimSpace s)) ['_'],
        isAlphaNumeric c = true := fun c hc =>
      replaceNonWord_all _ _ c (mem_of_mem_TrimLeft _ _ c (mem_of_mem_TrimRight _ _ c hc))
    revert hall
    cases strings.Trim (replaceNonWord false (strings.TrimSpace s)) ['_'] with
    | nil =>
      intro _
      rw [if_pos (Or.inl rfl)]
      rfl
    | cons d r =>
      intro hall
      by_cases h2 : (d :: r) = [] ∨ (!isAlpha ((d :: r).headD ' ')) = true
      · rw [if_pos h2]
        exact IsValidID_underscore _ hall
      · rw [if_neg h2, IsValidID, Bool.and_eq_true, List.all_eq_true]
        refine ⟨?_, fun c hc => hall c (List.mem_cons_of_mem _ hc)⟩
        by_contra hd
        exact h2 (Or.inr (by simpa using hd))

set_option maxRecDepth 1000000 in
theorem sqlReservedWords_underscore (w : Str) : sqlReservedWords ('_' :: w) = false := by
  have hall : sqlReservedWordList.all (fun r => r.toList.head? != some '_') = true := by decide!
  rw [List.all_eq_true] at hall
  rw [sqlReservedWords, List.any_eq_false]
  intro r hr
  have := hall r hr
  intro heq
  rw [decide_eq_true_eq] at heq
  rw [heq] at this
  simp at this

theorem isAlphaNumeric_lt (c : Char) (h : isAlphaNumeric c = true) : c.toNat < 128 := by
  simp only [isAlphaNumeric, isAlpha, Bool.or_eq_true, Bool.and_eq_true, beq_iff_eq,
    decide_eq_true_eq, ge_iff_le, Char.le_def] at h
  rcases h with (((rfl | ⟨-, h⟩) | ⟨-, h⟩) | ⟨-, h⟩)
  · decide
  · rw [UInt32.le_def, BitVec.le_def] at h
    have e : 'z'.val.toBitVec.toNat = 122 := rfl
    show c.val.toBitVec.toNat < 128
    omega
  · rw [UInt32.le_def, BitVec.le_def] at h
    have e : 'Z'.val.toBitVec.toNat = 90 := rfl
    show c.val.toBitVec.toNat < 128
    omega
  · rw [UInt32.le_def, BitVec.le_def] at h
    have e : '9'.val.toBitVec.toNat = 57 := rfl
    show c.val.toBitVec.toNat < 128
    omega

theorem isASCII_of_IsValidID (s : Str) (h : IsValidID s = true) : isASCII s = true := by
  cases s with
  | nil => cases h
  | cons d s =>
    rw [IsValidID, Bool.and_eq_true, List.all_eq_true] at h
    rw [isASCII, List.all_eq_true]
    intro c hc
    rw [decide_eq_true_eq]
    rcases List.mem_cons.mp hc with rfl | hc
    · apply isAlphaNumeric_lt
      rw [isAlphaNumeric, h.1]
      rfl
    · exact isAlphaNumeric_lt c (h.2 c hc)

theorem ToUpper_underscore (u : GoUnicode) (s : Str) (hs : isASCII s = true) :
    strings.ToUpper u ('_' :: s) = '_' :: strings.ToUpper u s := by
  have h1 : isASCII ('_' :: s) = true := by
    rw [isASCII, List.all_cons, Bool.and_eq_true]
    exact ⟨by decide, hs⟩
  rw [ToUpper_of_isASCII u _ h1, ToUpper_of_isASCII u s hs, List.map_cons]
  rfl

theorem ConvertName_valid (u : GoUnicode) (s : Str) : IsValidID (ConvertName u s) = true := by
  unfold ConvertName
  split_ifs
  · exact IsValidID_underscore _ (all_of_IsValidID _ (_ConvertName_valid s))
  · exact _ConvertName_valid s

theorem ConvertName_not_reserved (u : GoUnicode) (s : Str) :
    sqlReservedWords (strings.ToUpper u (ConvertName u s)) = false := by
  unfold ConvertName
  split_ifs with h
  · rw [ToUpper_underscore u _ (isASCII_of_IsValidID _ (_ConvertName_valid s))]
    exact sqlReservedWords_underscore _
  · simpa using h

theorem ConvertName_fixed (u : GoUnicode) (s : Str) (hv : IsValidID s = true)
    (hr : sqlReservedWords (strings.ToUpper u s) = false) : ConvertName u s = s := by
  have h1 : _ConvertName s = s := by
    unfold _ConvertName
    rw [if_pos hv]
  unfold ConvertName
  rw [h1, hr]
  rfl

/-- C40: for every string `s`, `ConvertName s` passes `IsValidID`; its upper
case is not in `sqlReservedWords`, the test the function itself makes; it is
`s` when `s` passes `IsValidID` and the upper case of `s` is not in
`sqlReservedWords`; and `ConvertName` applied to it gives it back. -/
theorem ConvertName_spec (u : GoUnicode) (s : Str) :
    IsValidID (ConvertName u s) = true ∧
    sqlReservedWords (strings.ToUpper u (ConvertName u s)) = false ∧
    (IsValidID s = true → sqlReservedWords (strings.ToUpper u s) = false → ConvertName u s = s) ∧
    ConvertName u (ConvertName u s) = ConvertName u s :=
  ⟨ConvertName_valid u s, ConvertName_not_reserved u s, ConvertName_fixed u s,
    ConvertName_fixed u _ (ConvertName_valid u s) (ConvertName_not_reserved u s)⟩

set_option maxRecDepth 1000000 in
/-- The names of the comment of `_ConvertName` and three more: `2017#`,
`2017#@$Year` and `2017#Year@NYC` become `_2017`, `_2017_Year` and
`_2017_Year_NYC` (the comment leaves out the underscore put before a digit);
the reserved word `select` becomes `_select`; the empty name becomes `_`;
`my_table` is kept. -/
theorem ConvertName_spec_witness :
    (ConvertName GoUnicode.unchanged "2017#".toList = "_2017".toList ∧
      ConvertName GoUnicode.unchanged "2017#@$Year".toList = "_2017_Year".toList ∧
      ConvertName GoUnicode.unchanged "2017#Year@NYC".toList = "_2017_Year_NYC".toList ∧
      ConvertName GoUnicode.unchanged "select".toList = "_select".toList ∧
      ConvertName GoUnicode.unchanged [] = "_".toList ∧
      ConvertName GoUnicode.unchanged "my_table".toList = "my_table".toList) ∧
    (IsValidID (ConvertName GoUnicode.unchanged "select".toList) = true ∧
      sqlReservedWords
        (strings.ToUpper GoUnicode.unchanged (ConvertName GoUnicode.unchanged "select".toList)) =
          false ∧
      (IsValidID "select".toList = true →
        sqlReservedWords (strings.ToUpper GoUnicode.unchanged "select".toList) = false →
        ConvertName GoUnicode.unchanged "select".toList = "select".toList) ∧
      ConvertName GoUnicode.unchanged (ConvertName GoUnicode.unchanged "select".toList) =
        ConvertName GoUnicode.unchanged "select".toList) :=
  ⟨by decide!, ConvertName_spec GoUnicode.unchanged "select".toList⟩
/-! ### C36: `getTypedValue` -/

theorem strconvParseBool_ok {u : GoUnicode} (v : Str) :
    (∃ b, strconvParseBool u v = .ok b) ↔ v ∈ parseBoolWords := by
  unfold strconvParseBool
  by_cases h1 : ["1".toList, "t".toList, "T".toList, "TRUE".toList, "true".toList,
      "True".toList].contains v = true
  · rw [if_pos h1]
    refine ⟨fun _ => ?_, fun _ => ⟨true, rfl⟩⟩
    exact List.mem_append_left _ (List.mem_of_elem_eq_true h1)
  · rw [if_neg h1]
    by_cases h2 : ["0".toList, "f".toList, "F".toList, "FALSE".toList, "false".toList,
        "False".toList].contains v = true
    · rw [if_pos h2]
      refine ⟨fun _ => ?_, fun _ => ⟨false, rfl⟩⟩
      exact List.mem_append_right
        ["1".toList, "t".toList, "T".toList, "TRUE".toList, "true".toList, "True".toList]
        (List.mem_of_elem_eq_true h2)
    · rw [if_neg h2]
      constructor
      · rintro ⟨b, hb⟩
        cases hb
      · intro hv
        rcases List.mem_append.mp (show v ∈ ["1".toList, "t".toList, "T".toList, "TRUE".toList,
          "true".toList, "True".toList] ++ ["0".toList, "f".toList, "F".toList, "FALSE".toList,
          "false".toList, "False".toList] from hv) with h | h
        · exact absurd (List.elem_eq_true_of_mem h) h1
        · exact absurd (List.elem_eq_true_of_mem h) h2

theorem digitsFrom_ge (s : Str) (n : Nat) :
    n ≤ s.foldl (fun n c => 10 * n + (c.toNat - '0'.toNat)) n := by
  induction s generalizing n with
  | nil => exact le_refl _
  | cons c s ih =>
    rw [List.foldl_cons]
    exact le_trans (by omega) (ih _)

theorem scanDigits_all (s : Str) (n : Nat) (hs : s.all isDigit = true) :
    (scanDigits s n = .value (s.foldl (fun n c => 10 * n + (c.toNat - '0'.toNat)) n) ∧
      (s ≠ [] → s.foldl (fun n c => 10 * n + (c.toNat - '0'.toNat)) n < 2 ^ 64)) ∨
    (scanDigits s n = .outOfRange ∧
      2 ^ 64 ≤ s.foldl (fun n c => 10 * n + (c.toNat - '0'.toNat)) n) := by
  induction s generalizing n with
  | nil => exact Or.inl ⟨rfl, fun h => absurd rfl h⟩
  | cons c s ih =>
    rw [List.all_cons, Bool.and_eq_true] at hs
    rw [scanDigits, List.foldl_cons, hs.1]
    simp only [Bool.not_true, Bool.false_eq_true, ↓reduceIte]
    by_cases h1 : n ≥ 1844674407370955162
    · rw [if_pos h1]
      refine Or.inr ⟨rfl, le_trans ?_ (digitsFrom_ge s _)⟩
      norm_num
      omega
    · rw [if_neg h1]
      by_cases h2 : 10 * n + (c.toNat - '0'.toNat) ≥ 2 ^ 64
      · rw [if_pos h2]
        exact Or.inr ⟨rfl, le_trans h2 (digitsFrom_ge s _)⟩
      · rw [if_neg h2]
        rcases ih (10 * n + (c.toNat - '0'.toNat)) hs.2 with ⟨e, hlt⟩ | ⟨e, hge⟩
        · refine Or.inl ⟨e, fun _ => ?_⟩
          cases s with
          | nil => exact not_le.mp h2
          | cons d s => exact hlt (List.cons_ne_nil _ _)
        · exact Or.inr ⟨e, hge⟩

theorem scanDigits_not_all (s : Str) (n : Nat) (hs : s.all isDigit = false) :
    ∀ m, scanDigits s n ≠ .value m := by
  induction s generalizing n with
  | nil => cases hs
  | cons c s ih =>
    intro m
    rw [scanDigits]
    by_cases hc : isDigit c = true
    · rw [List.all_cons, hc, Bool.true_and] at hs
      rw [hc]
      simp only [Bool.not_true, Bool.false_eq_true, ↓reduceIte]
      split_ifs
      · intro h
        cases h
      · intro h
        cases h
      · exact ih _ hs m
    · rw [Bool.not_eq_true] at hc
      rw [hc]
      intro h
      cases h

theorem strconvAtoi_ok (u : GoUnicode) (v : Str) :
    (isDecimalInteger v = true ∧ -(2 : Int) ^ 63 ≤ decimalValue v ∧ decimalValue v < 2 ^ 63 →
      strconvAtoi u v = .ok (decimalValue v)) ∧
    ((∃ n, strconvAtoi u v = .ok n) →
      isDecimalInteger v = true ∧ -(2 : Int) ^ 63 ≤ decimalValue v ∧ decimalValue v < 2 ^ 63) := by
  unfold strconvAtoi strconvAtoiBoth isDecimalInteger decimalValue digitsValue
  by_cases he : (decimalDigits v).isEmpty = true
  · rw [if_pos he, he]
    exact ⟨fun h => absurd h.1 (by simp), fun ⟨n, hn⟩ => by cases hn⟩
  · rw [if_neg he]
    have he1 : (decimalDigits v).isEmpty = false := by simpa using he
    have hne : decimalDigits v ≠ [] := by
      intro h
      rw [h] at he
      exact he rfl
    by_cases hd : (decimalDigits v).all isDigit = true
    · rw [he1, hd]
      rcases scanDigits_all (decimalDigits v) 0 hd with ⟨e, hlt⟩ | ⟨e, hge⟩
      · rw [e]
        have hlt := hlt hne
        generalize (decimalDigits v).foldl (fun n c => 10 * n + (c.toNat - '0'.toNat)) 0 = m
          at hlt ⊢
        unfold atoiResult
        by_cases hs : v.head? = some '-'
        · simp only [hs, ↓reduceIte]
          by_cases hr : m > 2 ^ 63
          · rw [if_pos hr]
            refine ⟨fun h => ?_, fun ⟨n, hn⟩ => by cases hn⟩
            have : ((m : Nat) : Int) > 2 ^ 63 := by exact_mod_cast hr
            omega
          · rw [if_neg hr]
            refine ⟨fun _ => rfl, fun _ => ⟨rfl, ?_, ?_⟩⟩
            · have : ((m : Nat) : Int) ≤ 2 ^ 63 := by exact_mod_cast not_lt.mp hr
              omega
            · have : (0 : Int) ≤ ((m : Nat) : Int) := Int.natCast_nonneg _
              omega
        · simp only [hs, ↓reduceIte]
          by_cases hr : m ≥ 2 ^ 63
          · rw [if_pos hr]
            refine ⟨fun h => ?_, fun ⟨n, hn⟩ => by cases hn⟩
            have : ((m : Nat) : Int) ≥ 2 ^ 63 := by exact_mod_cast hr
            omega
          · rw [if_neg hr]
            refine ⟨fun _ => rfl, fun _ => ⟨rfl, ?_, ?_⟩⟩
            · have : (0 : Int) ≤ ((m : Nat) : Int) := Int.natCast_nonneg _
              omega
            · have : ((m : Nat) : Int) < 2 ^ 63 := by exact_mod_cast not_le.mp hr
              exact this
      · rw [e]
        generalize (decimalDigits v).foldl (fun n c => 10 * n + (c.toNat - '0'.toNat)) 0 = m
          at hge ⊢
        have hm : ((m : Nat) : Int) ≥ 2 ^ 64 := by exact_mod_cast hge
        unfold atoiResult
        refine ⟨fun h => ?_, fun ⟨n, hn⟩ => by cases hn⟩
        by_cases hs : v.head? = some '-'
        · simp only [hs, ↓reduceIte] at h
          omega
        · simp only [hs, ↓reduceIte] at h
          omega
    · have hd1 : (decimalDigits v).all isDigit = false := by simpa using hd
      rw [he1, hd1]
      refine ⟨fun h => absurd h.1 (by simp), fun ⟨n, hn⟩ => ?_⟩
      exfalso
      have hs := scanDigits_not_all (decimalDigits v) 0 hd1
      revert hn
      cases hsc : scanDigits (decimalDigits v) 0 with
      | value m => exact absurd hsc (hs m)
      | invalid =>
        intro hn
        cases hn
      | outOfRange =>
        intro hn
        cases hn

theorem getTypedValue_bool (rt : GoRuntime) (v : Str) :
    getTypedValue rt v "bool".toList = (strconvParseBool rt.unicode v).map TypedValue.bool := by
  unfold getTypedValue
  rw [if_neg (by decide), if_neg (by decide), if_neg (by decide), if_neg (by decide),
    if_neg (by decide), if_pos rfl]

theorem getTypedValue_int (rt : GoRuntime) (v : Str) :
    getTypedValue rt v "int".toList = (strconvAtoi rt.unicode v).map TypedValue.int := by
  unfold getTypedValue
  rw [if_neg (by decide), if_neg (by decide), if_pos rfl]

theorem getTypedValue_other (rt : GoRuntime) (v t : Str) (h : t ∉ typedValueTypes) :
    getTypedValue rt v t = .error ("type ".toList ++ t ++ " not supported".toList) := by
  unfold getTypedValue
  simp only [typedValueTypes, List.mem_cons, List.mem_singleton, not_or, List.not_mem_nil,
    or_false] at h
  rw [if_neg h.1, if_neg h.2.1, if_neg h.2.2.1, if_neg h.2.2.2.1, if_neg h.2.2.2.2.1,
    if_neg h.2.2.2.2.2]

/-- C36 (amended): for every string `v`, `getTypedValue(v, "bool")` succeeds
if and only if `v` is one of the twelve words `strconv.ParseBool` accepts
(`1`, `t`, `T`, `TRUE`, `true`, `True`, `0`, `f`, `F`, `FALSE`, `false`,
`False`); for `string`, `verbatim` and `datetime` it returns `v` unchanged
without an error; for `int` it succeeds if and only if `v` is a decimal
integer (an optional sign and one or more digits) whose value is in the range
`-2^63 .. 2^63 - 1` of `int`, and then returns that value; for `float` it
returns what `strconv.ParseFloat(v, 32)` returns; and for every other name of
a data type, the recognized type `time` among them, it returns the error
`type <t> not supported`. -/
theorem getTypedValue_spec (rt : GoRuntime) (v : Str) :
    ((∃ x, getTypedValue rt v "bool".toList = .ok x) ↔ v ∈ parseBoolWords) ∧
    getTypedValue rt v "string".toList = .ok (.string v) ∧
    getTypedValue rt v "verbatim".toList = .ok (.string v) ∧
    getTypedValue rt v "datetime".toList = .ok (.string v) ∧
    ((∃ x, getTypedValue rt v "int".toList = .ok x) ↔
      (isDecimalInteger v = true ∧ -(2 : Int) ^ 63 ≤ decimalValue v ∧ decimalValue v < 2 ^ 63)) ∧
    (isDecimalInteger v = true ∧ -(2 : Int) ^ 63 ≤ decimalValue v ∧ decimalValue v < 2 ^ 63 →
      getTypedValue rt v "int".toList = .ok (.int (decimalValue v))) ∧
    getTypedValue rt v "float".toList = (rt.parseFloat32 v).map TypedValue.float64 ∧
    (∀ t, t ∉ typedValueTypes →
      getTypedValue rt v t = .error ("type ".toList ++ t ++ " not supported".toList)) ∧
    getTypedValue rt v "time".toList = .error "type time not supported".toList := by
  refine ⟨?_, rfl, rfl, rfl, ?_, ?_, rfl, getTypedValue_other rt v,
    getTypedValue_other rt v _ (by decide)⟩
  · rw [getTypedValue_bool, ← strconvParseBool_ok]
    constructor
    · rintro ⟨x, hx⟩
      cases hb : strconvParseBool rt.unicode v with
      | error e => rw [hb] at hx; cases hx
      | ok b => exact ⟨b, rfl⟩
    · rintro ⟨b, hb⟩
      rw [hb]
      exact ⟨_, rfl⟩
  · rw [getTypedValue_int]
    constructor
    · rintro ⟨x, hx⟩
      cases hb : strconvAtoi rt.unicode v with
      | error e => rw [hb] at hx; cases hx
      | ok n => exact (strconvAtoi_ok rt.unicode v).2 ⟨n, hb⟩
    · intro h
      rw [(strconvAtoi_ok rt.unicode v).1 h]
      exact ⟨_, rfl⟩
  · intro h
    rw [getTypedValue_int, (strconvAtoi_ok rt.unicode v).1 h]
    rfl

/-- The word `True` of the test `TestParse5` and the integer `-42`. -/
theorem getTypedValue_spec_witness :
    (getTypedValue GoRuntime.insertionOrder "-42".toList "int".toList = .ok (.int (-42)) ∧
      getTypedValue GoRuntime.insertionOrder "x".toList "long".toList =
        .error "type long not supported".toList) ∧
    (((∃ x, getTypedValue GoRuntime.insertionOrder "True".toList "bool".toList = .ok x) ↔
        "True".toList ∈ parseBoolWords) ∧
      getTypedValue GoRuntime.insertionOrder "True".toList "string".toList =
        .ok (.string "True".toList) ∧
      getTypedValue GoRuntime.insertionOrder "True".toList "verbatim".toList =
        .ok (.string "True".toList) ∧
      getTypedValue GoRuntime.insertionOrder "True".toList "datetime".toList =
        .ok (.string "True".toList) ∧
      ((∃ x, getTypedValue GoRuntime.insertionOrder "True".toList "int".toList = .ok x) ↔
        (isDecimalInteger "True".toList = true ∧ -(2 : Int) ^ 63 ≤ decimalValue "True".toList ∧
          decimalValue "True".toList < 2 ^ 63)) ∧
      (isDecimalInteger "True".toList = true ∧ -(2 : Int) ^ 63 ≤ decimalValue "True".toList ∧
          decimalValue "True".toList < 2 ^ 63 →
        getTypedValue GoRuntime.insertionOrder "True".toList "int".toList =
          .ok (.int (decimalValue "True".toList))) ∧
      getTypedValue GoRuntime.insertionOrder "True".toList "float".toList =
        (GoRuntime.insertionOrder.parseFloat32 "True".toList).map TypedValue.float64 ∧
      (∀ t, t ∉ typedValueTypes →
        getTypedValue GoRuntime.insertionOrder "True".toList t =
          .error ("type ".toList ++ t ++ " not supported".toList)) ∧
      getTypedValue GoRuntime.insertionOrder "True".toList "time".toList =
        .error "type time not supported".toList) :=
  ⟨⟨rfl, rfl⟩, getTypedValue_spec GoRuntime.insertionOrder "True".toList⟩

/-- The claim C36 fails: `True`, the word the test `TestParse5` writes, and
`T` are values of a `bool` and none of `true`, `1`, `false`, `0`; the decimal
integer `9223372036854775808` (`2^63`) is refused for an `int`. -/
theorem getTypedValue_spec_counterexample :
    getTypedValue GoRuntime.insertionOrder "True".toList "bool".toList = .ok (.bool true) ∧
    getTypedValue GoRuntime.insertionOrder "T".toList "bool".toList = .ok (.bool true) ∧
    "True".toList ∉ claimedBoolWords ∧ "T".toList ∉ claimedBoolWords ∧
    isDecimalInteger "9223372036854775808".toList = true ∧
    getTypedValue GoRuntime.insertionOrder "9223372036854775808".toList "int".toList =
      .error ("strconv.Atoi: parsing \"9223372036854775808\": value out of range".toList) := by
  refine ⟨rfl, rfl, by decide, by decide, by decide, ?_⟩
  rfl
/-! ### C33, C34, C35, C37: criteria -/

set_option maxRecDepth 1000000 in
/-- C33: `ParseSML` at a document whose criteria `c` has a `combine and`
without any `term` returns no error, and the combination of `c` has the
operator `and` and no term; with one `term` the error `must have exactly two
"term"s for a combination criteria` is returned.  Both in the insertion order
and in the reverse order of the visits of the maps. -/
theorem ParseSML_combine_no_term :
    ((ParseSML GoRuntime.insertionOrder noTermDoc []).2 = [] ∧
      combinationOf (criterionOf (ParseSML GoRuntime.insertionOrder noTermDoc []).1 "s".toList
        "c".toList) = some ("and".toList, 0) ∧
      (ParseSML GoRuntime.insertionOrder oneTermDoc []).2 =
        [{ Msg := "must have exactly two \"term\"s for a combination criteria".toList,
           LineNum := 10 }]) ∧
    ((ParseSML GoRuntime.reverseOrder noTermDoc []).2 = [] ∧
      combinationOf (criterionOf (ParseSML GoRuntime.reverseOrder noTermDoc []).1 "s".toList
        "c".toList) = some ("and".toList, 0) ∧
      (ParseSML GoRuntime.reverseOrder oneTermDoc []).2 =
        [{ Msg := "must have exactly two \"term\"s for a combination criteria".toList,
           LineNum := 10 }]) := by
  refine ⟨⟨?_, ?_, ?_⟩, ⟨?_, ?_, ?_⟩⟩ <;> decide!

set_option maxRecDepth 1000000 in
/-- C34: `ParseSML` at a document whose criteria `c` has a `table`, a
`column` and a `granularity` and no `operator` returns no error, and the
simple term of `c` has an empty operator; without the line `granularity` the
error `must have exactly one "operator" for a criteria term` is returned.
Both in the insertion order and in the reverse order of the visits of the
maps. -/
theorem ParseSML_granularity_no_operator :
    ((ParseSML GoRuntime.insertionOrder granularityOnlyDoc []).2 = [] ∧
      simpleTermOf (criterionOf (ParseSML GoRuntime.insertionOrder granularityOnlyDoc []).1
        "s".toList "c".toList) =
        some { Column := "d".toList, Table := "f".toList, Operator := [],
               Granularity := "year".toList, Value := [] } ∧
      (ParseSML GoRuntime.insertionOrder termDoc []).2 =
        [{ Msg := "must have exactly one \"operator\" for a criteria term".toList,
           LineNum := 9 }]) ∧
    ((ParseSML GoRuntime.reverseOrder granularityOnlyDoc []).2 = [] ∧
      simpleTermOf (criterionOf (ParseSML GoRuntime.reverseOrder granularityOnlyDoc []).1
        "s".toList "c".toList) =
        some { Column := "d".toList, Table := "f".toList, Operator := [],
               Granularity := "year".toList, Value := [] } ∧
      (ParseSML GoRuntime.reverseOrder termDoc []).2 =
        [{ Msg := "must have exactly one \"operator\" for a criteria term".toList,
           LineNum := 9 }]) := by
  refine ⟨⟨?_, ?_, ?_⟩, ⟨?_, ?_, ?_⟩⟩ <;> decide!

set_option maxRecDepth 1000000 in
/-- C35: `ParseSML` at a document whose criteria has the value
`1 is not a name!` returns no error and a criterion of that name, which does
not pass `IsValidID`; and for a source of random numbers whose first value is
`52 * 2^42`, `RandomString(8)` is `0aaaaaaa`, which does not pass `IsValidID`
and is the name of the criterion of a document whose criteria has no value,
returned without an error. -/
theorem ParseSML_criteria_name :
    ((ParseSML GoRuntime.insertionOrder badCriteriaNameDoc []).2 = [] ∧
      criteriaOf (ParseSML GoRuntime.insertionOrder badCriteriaNameDoc []).1 "s".toList =
        some (["1 is not a name!".toList], ["1 is not a name!".toList]) ∧
      (ParseSML GoRuntime.reverseOrder badCriteriaNameDoc []).2 = [] ∧
      criteriaOf (ParseSML GoRuntime.reverseOrder badCriteriaNameDoc []).1 "s".toList =
        some (["1 is not a name!".toList], ["1 is not a name!".toList]) ∧
      IsValidID "1 is not a name!".toList = false) ∧
    (RandomString 8 [52 * 2 ^ 42] = some "0aaaaaaa".toList ∧
      IsValidID "0aaaaaaa".toList = false ∧
      (ParseSML GoRuntime.digitFirst unnamedCriteriaDoc []).2 = [] ∧
      criteriaOf (ParseSML GoRuntime.digitFirst unnamedCriteriaDoc []).1 "s".toList =
        some (["0aaaaaaa".toList], ["0aaaaaaa".toList])) := by
  refine ⟨⟨?_, ?_, ?_, ?_, ?_⟩, ⟨?_, ?_, ?_, ?_⟩⟩ <;> decide!

set_option maxRecDepth 1000000 in
/-- C37: `ParseSML` at a document whose criteria has a `column`, an
`operator` and a `value` and no `table` returns the one error
`unknown error: assertion failure` (the assertion `table != ""` of
`findDatatype`), without the error `must have exactly one "table" for a
criteria term` that the parser had recorded and that is returned for the same
criteria without its `value`; at a document whose criteria has a `value` and
a `granularity` on a column of the type `int` it returns the one error
`unknown error: interface conversion: interface {} is int, not string`.  Both
in the insertion order and in the reverse order of the visits of the maps. -/
theorem ParseSML_unknown_error :
    ((ParseSML GoRuntime.insertionOrder valueNoTableDoc []).2 =
        [{ Msg := "unknown error: assertion failure".toList, LineNum := -1 }] ∧
      (ParseSML GoRuntime.insertionOrder noTableDoc []).2 =
        [{ Msg := "must have exactly one \"table\" for a criteria term".toList, LineNum := 9 }] ∧
      (ParseSML GoRuntime.insertionOrder intGranularityValueDoc []).2 =
        [{ Msg := "unknown error: interface conversion: interface {} is int, not string".toList,
           LineNum := -1 }]) ∧
    ((ParseSML GoRuntime.reverseOrder valueNoTableDoc []).2 =
        [{ Msg := "unknown error: assertion failure".toList, LineNum := -1 }] ∧
      (ParseSML GoRuntime.reverseOrder noTableDoc []).2 =
        [{ Msg := "must have exactly one \"table\" for a criteria term".toList, LineNum := 9 }] ∧
      (ParseSML GoRuntime.reverseOrder intGranularityValueDoc []).2 =
        [{ Msg := "unknown error: interface conversion: interface {} is int, not string".toList,
           LineNum := -1 }]) := by
  refine ⟨⟨?_, ?_, ?_⟩, ⟨?_, ?_, ?_⟩⟩ <;> decide!
/-! ### C38: the tokens `parseGeneric` takes -/

theorem takenErrors_append (a b : List (Token × Taken)) :
    takenErrors (a ++ b) = takenErrors a ++ takenErrors b := by
  induction a with
  | nil => rfl
  | cons p a ih =>
    obtain ⟨t, r⟩ := p
    cases r <;> simp [takenErrors, ih]

theorem takenNodes_append (a b : List (Token × Taken)) :
    takenNodes (a ++ b) = takenNodes a ++ takenNodes b := by
  induction a with
  | nil => rfl
  | cons p a ih =>
    obtain ⟨t, r⟩ := p
    cases r <;> simp [takenNodes, ih]

theorem takenErrors_errors (pre : List Token) :
    takenErrors (pre.map (fun t => (t, Taken.error))) =
      pre.map (fun t => ({ Msg := t.value, LineNum := t.line } : ParseError)) := by
  induction pre with
  | nil => rfl
  | cons t pre ih => simp [takenErrors, ih]

theorem takenNodes_errors (pre : List Token) :
    takenNodes (pre.map (fun t => (t, Taken.error))) = [] := by
  induction pre with
  | nil => rfl
  | cons t pre ih => simp [takenNodes, ih]

theorem descendantsList_append (a b : List Generic) :
    Generic.descendantsList (a ++ b) = Generic.descendantsList a ++ Generic.descendantsList b := by
  induction a with
  | nil => rfl
  | cons c a ih => simp [Generic.descendantsList, ih]

theorem skipErrorTokens_taken : ∀ (l : List Token) (tok : Token) (errs : List ParseError),
    EndsInEOF (tok :: l) →
    ∃ pre, tok :: l = pre ++ (skipErrorTokens tok l errs).1 :: (skipErrorTokens tok l errs).2.1 ∧
      (∀ t ∈ pre, t.kw = kwError) ∧
      (skipErrorTokens tok l errs).2.2 =
        errs ++ pre.map (fun t => ({ Msg := t.value, LineNum := t.line } : ParseError)) ∧
      (skipErrorTokens tok l errs).1.kw ≠ kwError := by
  intro l
  induction l with
  | nil =>
    intro tok errs h
    have hk : tok.kw ≠ kwError := by rw [h.single.1]; decide
    rw [skipErrorTokens, if_neg hk]
    exact ⟨[], rfl, by simp, by simp, hk⟩
  | cons t ts ih =>
    intro tok errs h
    rw [skipErrorTokens]
    split_ifs with hk
    · obtain ⟨pre, h1, h2, h3, h4⟩ := ih t (errs ++ [{ Msg := tok.value, LineNum := tok.line }])
        (h.suffix (List.suffix_cons _ _) (List.cons_ne_nil _ _))
      refine ⟨tok :: pre, by rw [List.cons_append, ← h1], ?_, ?_, h4⟩
      · intro x hx
        rcases List.mem_cons.mp hx with rfl | hx
        · exact hk
        · exact h2 x hx
      · rw [h3, List.map_cons, List.append_assoc]
        rfl
    · exact ⟨[], rfl, by simp, by simp, hk⟩
theorem map_fst_error (pre : List Token) :
    (pre.map (fun t => (t, Taken.error))).map Prod.fst = pre := by
  induction pre with
  | nil => rfl
  | cons t pre ih => rw [List.map_cons, List.map_cons, ih]

theorem parseGeneric_taken : ∀ fuel : Nat,
    (∀ (l : List Token) (root : Token), EndsInEOF l → -1 ≤ root.indent →
      2 * l.length + 1 ≤ fuel →
      (∀ fuel2, fuel ≤ fuel2 → parseGeneric fuel2 l root = parseGeneric fuel l root) ∧
      ∃ taken : List (Token × Taken),
        l = taken.map Prod.fst ++
          (parseGeneric fuel l root).nextToken :: (parseGeneric fuel l root).l ∧
        (parseGeneric fuel l root).parseErrors = takenErrors taken ∧
        (parseGeneric fuel l root).g.descendants = takenNodes taken ∧
        ∀ p ∈ taken, (p.2 = .error → p.1.kw = kwError) ∧
          (p.2 ≠ .error → root.indent < p.1.indent)) ∧
    (∀ (childIndent : Int) (l : List Token) (nextToken : Token) (children : List Generic)
      (errs : List ParseError), EndsInEOF (nextToken :: l) → 0 ≤ childIndent →
      2 * (l.length + 1) ≤ fuel →
      (∀ fuel2, fuel ≤ fuel2 →
        parseChildren fuel2 childIndent l nextToken children errs =
          parseChildren fuel childIndent l nextToken children errs) ∧
      ∃ taken : List (Token × Taken),
        nextToken :: l = taken.map Prod.fst ++
          (parseChildren fuel childIndent l nextToken children errs).nextToken ::
            (parseChildren fuel childIndent l nextToken children errs).l ∧
        (parseChildren fuel childIndent l nextToken children errs).parseErrors =
          errs ++ takenErrors taken ∧
        Generic.descendantsList
            (parseChildren fuel childIndent l nextToken children errs).g.children =
          Generic.descendantsList children ++ takenNodes taken ∧
        (parseChildren fuel childIndent l nextToken children errs).nextToken.indent ≠
          childIndent ∧
        ∀ p ∈ taken, (p.2 = .error → p.1.kw = kwError) ∧
          (p.2 ≠ .error → childIndent ≤ p.1.indent)) := by
  intro fuel
  induction fuel with
  | zero =>
    constructor
    · intro l root _ _ h
      omega
    · intro childIndent l nextToken children errs _ _ h
      omega
  | succ fuel ih =>
    obtain ⟨ihg, ihc⟩ := ih
    constructor
    · intro l root he hroot hf
      have hrecv := recv_suffix l he.ne_nil
      obtain ⟨pre, h1, h2, h3, h4⟩ := skipErrorTokens_taken (recv l).2 (recv l).1 []
        (by rw [hrecv]; exact he)
      rw [hrecv] at h1
      have hsk : ((skipErrorTokens (recv l).1 (recv l).2 []).1 ::
          (skipErrorTokens (recv l).1 (recv l).2 []).2.1) <:+ l := ⟨pre, h1.symm⟩
      have hske : EndsInEOF ((skipErrorTokens (recv l).1 (recv l).2 []).1 ::
          (skipErrorTokens (recv l).1 (recv l).2 []).2.1) :=
        he.suffix hsk (List.cons_ne_nil _ _)
      have hlen := hsk.length_le
      rw [List.length_cons] at hlen
      rw [List.nil_append] at h3
      by_cases hi : (skipErrorTokens (recv l).1 (recv l).2 []).1.indent > root.indent
      · obtain ⟨stabC, takenC, c1, c2, c3, c4, c5⟩ :=
          ihc (skipErrorTokens (recv l).1 (recv l).2 []).1.indent
            (skipErrorTokens (recv l).1 (recv l).2 []).2.1
            (skipErrorTokens (recv l).1 (recv l).2 []).1 []
            (skipErrorTokens (recv l).1 (recv l).2 []).2.2 hske (by omega) (by omega)
        have hstab : ∀ fuel2, fuel + 1 ≤ fuel2 →
            parseGeneric fuel2 l root = parseGeneric (fuel + 1) l root := by
          intro fuel2 hf2
          obtain ⟨f2, rfl⟩ : ∃ f2, fuel2 = f2 + 1 := ⟨fuel2 - 1, by omega⟩
          rw [parseGeneric, parseGeneric]
          simp only [hi, if_true]
          rw [stabC f2 (by omega)]
        refine ⟨hstab, ?_⟩
        by_cases hj : (parseChildren fuel (skipErrorTokens (recv l).1 (recv l).2 []).1.indent
            (skipErrorTokens (recv l).1 (recv l).2 []).2.1
            (skipErrorTokens (recv l).1 (recv l).2 []).1 []
            (skipErrorTokens (recv l).1 (recv l).2 []).2.2).nextToken.indent > root.indent
        · have hce := hske.suffix ⟨_, c1.symm⟩ (List.cons_ne_nil _ _)
          have hcl := hce.tail (by omega)
          have hr := recv_suffix _ hcl.ne_nil
          rw [parseGeneric]
          simp only [hi, hj, if_true]
          refine ⟨pre.map (fun t => (t, Taken.error)) ++ takenC ++
            [((parseChildren fuel (skipErrorTokens (recv l).1 (recv l).2 []).1.indent
              (skipErrorTokens (recv l).1 (recv l).2 []).2.1
              (skipErrorTokens (recv l).1 (recv l).2 []).1 []
              (skipErrorTokens (recv l).1 (recv l).2 []).2.2).nextToken, Taken.skipped)],
            ?_, ?_, ?_, ?_⟩
          · rw [hr, List.map_append, List.map_append, map_fst_error, List.map_singleton,
              List.append_assoc, List.append_assoc, List.singleton_append, ← c1]
            exact h1
          · rw [c2, h3, takenErrors_append, takenErrors_append, takenErrors_errors]
            rfl
          · rw [Generic.descendants, takenNodes_append, takenNodes_append, takenNodes_errors, c3]
            simp [takenNodes, Generic.descendantsList]
          · intro p hp
            rcases List.mem_append.mp hp with hp | hp
            · rcases List.mem_append.mp hp with hp | hp
              · obtain ⟨t, ht, rfl⟩ := List.mem_map.mp hp
                exact ⟨fun _ => h2 t ht, fun h => absurd rfl h⟩
              · exact ⟨(c5 p hp).1, fun h => lt_of_lt_of_le hi ((c5 p hp).2 h)⟩
            · rw [List.mem_singleton] at hp
              subst hp
              exact ⟨fun h => (by cases h), fun _ => hj⟩
        · rw [parseGeneric]
          simp only [hi, hj, if_true, if_false]
          refine ⟨pre.map (fun t => (t, Taken.error)) ++ takenC, ?_, ?_, ?_, ?_⟩
          · rw [List.map_append, map_fst_error, List.append_assoc, ← c1]
            exact h1
          · rw [c2, h3, takenErrors_append, takenErrors_errors]
          · rw [Generic.descendants, takenNodes_append, takenNodes_errors, c3]
            rfl
          · intro p hp
            rcases List.mem_append.mp hp with hp | hp
            · obtain ⟨t, ht, rfl⟩ := List.mem_map.mp hp
              exact ⟨fun _ => h2 t ht, fun h => absurd rfl h⟩
            · exact ⟨(c5 p hp).1, fun h => lt_of_lt_of_le hi ((c5 p hp).2 h)⟩
      · have hstab : ∀ fuel2, fuel + 1 ≤ fuel2 →
            parseGeneric fuel2 l root = parseGeneric (fuel + 1) l root := by
          intro fuel2 hf2
          obtain ⟨f2, rfl⟩ : ∃ f2, fuel2 = f2 + 1 := ⟨fuel2 - 1, by omega⟩
          rw [parseGeneric, parseGeneric]
          simp only [hi, if_false]
        refine ⟨hstab, ?_⟩
        rw [parseGeneric]
        simp only [hi, if_false]
        refine ⟨pre.map (fun t => (t, Taken.error)), ?_, ?_, ?_, ?_⟩
        · rw [map_fst_error]
          exact h1
        · rw [h3, takenErrors_errors]
        · rw [Generic.descendants, takenNodes_errors]
          rfl
        · intro p hp
          obtain ⟨t, ht, rfl⟩ := List.mem_map.mp hp
          exact ⟨fun _ => h2 t ht, fun h => absurd rfl h⟩
    · intro childIndent l nextToken children errs he hci hf
      by_cases hi : nextToken.indent = childIndent
      · have hl := he.tail (by omega)
        obtain ⟨stabG, takenG, g1, g2, g3, g5⟩ := ihg l nextToken hl (by omega) (by omega)
        have hsuf : ((parseGeneric fuel l nextToken).nextToken ::
            (parseGeneric fuel l nextToken).l) <:+ l := ⟨_, g1.symm⟩
        have hge := hl.suffix hsuf (List.cons_ne_nil _ _)
        have hlen := hsuf.length_le
        rw [List.length_cons] at hlen
        obtain ⟨stabC, takenC, c1, c2, c3, c4, c5⟩ := ihc childIndent
          (parseGeneric fuel l nextToken).l (parseGeneric fuel l nextToken).nextToken
          (children ++ [(parseGeneric fuel l nextToken).g])
          (errs ++ (parseGeneric fuel l nextToken).parseErrors) hge hci (by omega)
        have hstab : ∀ fuel2, fuel + 1 ≤ fuel2 →
            parseChildren fuel2 childIndent l nextToken children errs =
              parseChildren (fuel + 1) childIndent l nextToken children errs := by
          intro fuel2 hf2
          obtain ⟨f2, rfl⟩ : ∃ f2, fuel2 = f2 + 1 := ⟨fuel2 - 1, by omega⟩
          rw [parseChildren, parseChildren]
          simp only [hi, if_true]
          rw [stabG f2 (by omega), stabC f2 (by omega)]
        refine ⟨hstab, ?_⟩
        rw [parseChildren]
        simp only [hi, if_true]
        obtain ⟨r1, r2, r3⟩ := parseGeneric_root fuel l nextToken
        refine ⟨(nextToken, Taken.node) :: (takenG ++ takenC), ?_, ?_, ?_, c4, ?_⟩
        · rw [List.map_cons, List.map_append, List.cons_append, List.append_assoc, ← c1, ← g1]
        · rw [c2, g2, takenErrors, takenErrors_append, List.append_assoc]
        · rw [c3, descendantsList_append, takenNodes, takenNodes_append, ← g3,
            Generic.descendantsList, Generic.descendantsList, r1, r2, r3]
          simp
        · intro p hp
          rcases List.mem_cons.mp hp with rfl | hp
          · exact ⟨fun h => (by cases h), fun _ => le_of_eq hi.symm⟩
          · rcases List.mem_append.mp hp with hp | hp
            · exact ⟨(g5 p hp).1, fun h => by have := (g5 p hp).2 h; omega⟩
            · exact c5 p hp
      · have hstab : ∀ fuel2, fuel + 1 ≤ fuel2 →
            parseChildren fuel2 childIndent l nextToken children errs =
              parseChildren (fuel + 1) childIndent l nextToken children errs := by
          intro fuel2 hf2
          obtain ⟨f2, rfl⟩ : ∃ f2, fuel2 = f2 + 1 := ⟨fuel2 - 1, by omega⟩
          rw [parseChildren, parseChildren]
          simp only [hi, if_false]
        refine ⟨hstab, ?_⟩
        rw [parseChildren]
        simp only [hi, if_false]
        exact ⟨[], rfl, by simp [takenErrors], by simp [takenNodes, Generic.children], hi,
          fun p hp => by cases hp⟩
/-! ### C39: the tokens of the lexer -/

theorem measureIndent_leading (line : Str) : (measureIndent line).2 = leadingIndent line := by
  unfold leadingIndent
  induction line with
  | nil => rfl
  | cons c s ih =>
    rw [measureIndent]
    by_cases h1 : c = ' '
    · subst h1
      rw [if_pos rfl, List.takeWhile_cons_of_pos (by decide), List.count_cons_self,
        List.count_cons_of_ne (by decide)]
      simp only
      omega
    · rw [if_neg h1]
      by_cases h2 : c = chTab
      · subst h2
        rw [if_pos rfl, List.takeWhile_cons_of_pos (by decide), List.count_cons_self,
          List.count_cons_of_ne (by decide)]
        simp only [tabSize]
        omega
      · rw [if_neg h2, List.takeWhile_cons_of_neg (by simp [h1, h2])]
        rfl

theorem multilineStringLoop_lt : ∀ (ls : List Str) (pos i : Nat) (pieces : List Str)
    (newPos c : Nat) (v : Str),
    multilineStringLoop ls pos i pieces = some (newPos, c, v) → i ≤ c ∧ c < i + ls.length := by
  intro ls
  induction ls with
  | nil =>
    intro pos i pieces newPos c v h
    cases h
  | cons line rest ih =>
    intro pos i pieces newPos c v h
    rw [multilineStringLoop] at h
    cases hI : strings.Index (line.drop pos) tripleQuote with
    | some j =>
      rw [hI] at h
      cases h
      simp
    | none =>
      rw [hI] at h
      have := ih _ _ _ _ _ _ h
      rw [List.length_cons]
      omega

theorem lexTrailer_token (lineNum : Nat) (line : Str) (pos indent : Nat) (kw : Keyword)
    (value : Str) :
    ∃ tok, lexTrailer lineNum line pos indent kw value = .next (some tok) (lineNum + 1) ∧
      tok.line = (lineNum : Int) + 1 ∧
      ((tok.kw = kwError ∧ tok.indent = -1) ∨
        tok = { indent := indent, kw := kw, value := value, line := (lineNum : Int) + 1 }) := by
  unfold lexTrailer
  dsimp only
  split_ifs
  · exact ⟨_, rfl, rfl, Or.inr rfl⟩
  · exact ⟨_, rfl, rfl, Or.inl ⟨rfl, rfl⟩⟩
  · exact ⟨_, rfl, rfl, Or.inr rfl⟩

theorem lexValue_token (lineNum : Nat) (line : Str) (rest : List Str) (pos indent : Nat)
    (kw : Keyword) (tok : Token) (next : Nat)
    (h : lexValue lineNum line rest pos indent kw = .next (some tok) next) :
    tok.line = (next : Int) ∧ lineNum < next ∧ next ≤ lineNum + rest.length + 1 ∧
    ((tok.kw = kwError ∧ tok.indent = -1) ∨ (tok.kw = kw ∧ tok.indent = indent)) ∧
    (strings.HasPrefix (line.drop (pos + ((line.drop pos).takeWhile isSpace).length))
        tripleQuote = true →
      ∃ newPos linesConsumed value,
        multilineString (pos + ((line.drop pos).takeWhile isSpace).length + 3) (line :: rest) =
          some (newPos, linesConsumed, value) ∧
        next = lineNum + linesConsumed + 1 ∧ (tok.kw ≠ kwError → tok.value = value)) ∧
    (strings.HasPrefix (line.drop (pos + ((line.drop pos).takeWhile isSpace).length))
        tripleQuote = false → next = lineNum + 1) := by
  unfold lexValue at h
  dsimp only at h
  generalize pos + ((line.drop pos).takeWhile isSpace).length = p at h ⊢
  have key : ∀ (ln : Nat) (l : Str) (q : Nat) (v : Str),
      lexTrailer ln l q indent kw v = .next (some tok) next →
      tok.line = (next : Int) ∧ next = ln + 1 ∧
      ((tok.kw = kwError ∧ tok.indent = -1) ∨ (tok.kw = kw ∧ tok.indent = indent)) ∧
      (tok.kw ≠ kwError → tok.value = v) := by
    intro ln l q v ht
    obtain ⟨t1, e1, e2, e3⟩ := lexTrailer_token ln l q indent kw v
    rw [e1] at ht
    cases ht
    refine ⟨by rw [e2]; push_cast; rfl, rfl, ?_, ?_⟩
    · rcases e3 with e3 | e3
      · exact Or.inl e3
      · rw [e3]
        exact Or.inr ⟨rfl, rfl⟩
    · rcases e3 with e3 | e3
      · intro hk
        exact absurd e3.1 hk
      · intro _
        rw [e3]
  by_cases hp : p < line.length
  · rw [if_pos hp] at h
    by_cases ht : strings.HasPrefix (line.drop p) tripleQuote = true
    · rw [if_pos ht] at h
      cases hm : multilineString (p + 3) (line :: rest) with
      | none =>
        rw [hm] at h
        cases h
      | some r =>
        obtain ⟨newPos, lc, v⟩ := r
        rw [hm] at h
        dsimp only at h
        obtain ⟨k1, k2, k3, k4⟩ := key _ _ _ _ h
        have hb := multilineStringLoop_lt _ _ _ _ _ _ _ hm
        rw [List.length_cons] at hb
        exact ⟨k1, by omega, by omega, k3, fun _ => ⟨newPos, lc, v, rfl, k2, k4⟩,
          fun hf => absurd ht (by rw [hf]; decide)⟩
    · rw [if_neg ht] at h
      by_cases hq : (line.getD p ' ' = chDQuote || line.getD p ' ' = chSQuote) = true
      · rw [if_pos hq] at h
        cases hql : quotedLoop (line.getD p ' ') line line.length (p + 1) [] with
        | none =>
          rw [hql] at h
          cases h
        | some r =>
          obtain ⟨i, v⟩ := r
          rw [hql] at h
          dsimp only at h
          obtain ⟨k1, k2, k3, k4⟩ := key _ _ _ _ h
          exact ⟨k1, by omega, by omega, k3, fun hpos => absurd hpos ht, fun _ => k2⟩
      · rw [if_neg hq] at h
        obtain ⟨k1, k2, k3, k4⟩ := key _ _ _ _ h
        exact ⟨k1, by omega, by omega, k3, fun hpos => absurd hpos ht, fun _ => k2⟩
  · rw [if_neg hp] at h
    obtain ⟨k1, k2, k3, k4⟩ := key _ _ _ _ h
    refine ⟨k1, by omega, by omega, k3, fun hpos => ?_, fun _ => k2⟩
    rw [List.drop_eq_nil_of_le (by omega)] at hpos
    exact absurd hpos (by decide)
theorem lexLine_token (string2keyword : List (Str × Keyword))
    (hkw : ∀ e ∈ string2keyword ++ linglingKeywords, e.2 ≠ kwError) (k : Nat) (line : Str)
    (rest : List Str) (tok : Token) (next : Nat)
    (h : lexLine string2keyword k line rest = .next (some tok) next) :
    tok.line = (next : Int) ∧ k < next ∧ next ≤ k + rest.length + 1 ∧
    ((tok.kw = kwError ∧ tok.indent = -1) ∨
      (tok.kw ≠ kwError ∧ (∃ e ∈ string2keyword ++ linglingKeywords, tok.kw = e.2) ∧
        tok.indent = (leadingIndent line : Int) ∧
        (strings.HasPrefix (line.drop (valueStart line)) tripleQuote = true →
          ∃ newPos linesConsumed value,
            multilineString (valueStart line + 3) (line :: rest) =
              some (newPos, linesConsumed, value) ∧
            next = k + linesConsumed + 1 ∧ tok.value = value) ∧
        (strings.HasPrefix (line.drop (valueStart line)) tripleQuote = false →
          next = k + 1))) := by
  have hv : ∀ kw, (∃ e ∈ string2keyword ++ linglingKeywords, kw = e.2) →
      lexValue k line rest
        ((measureIndent line).1 + 1 +
          ((line.drop ((measureIndent line).1 + 1)).takeWhile isAlphaNumeric).length)
        (measureIndent line).2 kw = .next (some tok) next →
      tok.line = (next : Int) ∧ k < next ∧ next ≤ k + rest.length + 1 ∧
      ((tok.kw = kwError ∧ tok.indent = -1) ∨
        (tok.kw ≠ kwError ∧ (∃ e ∈ string2keyword ++ linglingKeywords, tok.kw = e.2) ∧
          tok.indent = (leadingIndent line : Int) ∧
          (strings.HasPrefix (line.drop (valueStart line)) tripleQuote = true →
            ∃ newPos linesConsumed value,
              multilineString (valueStart line + 3) (line :: rest) =
                some (newPos, linesConsumed, value) ∧
              next = k + linesConsumed + 1 ∧ tok.value = value) ∧
          (strings.HasPrefix (line.drop (valueStart line)) tripleQuote = false →
            next = k + 1))) := by
    intro kw hmem hl
    obtain ⟨v1, v2, v3, v4, v5, v6⟩ := lexValue_token _ _ _ _ _ _ _ _ hl
    refine ⟨v1, v2, v3, ?_⟩
    rcases v4 with v4 | v4
    · exact Or.inl v4
    · obtain ⟨e, he, hee⟩ := hmem
      have hne : tok.kw ≠ kwError := by
        rw [v4.1, hee]
        exact hkw e he
      refine Or.inr ⟨hne, ⟨e, he, by rw [v4.1, hee]⟩, ?_, ?_, v6⟩
      · rw [v4.2, measureIndent_leading]
      · intro ht
        obtain ⟨np, lc, v, m1, m2, m3⟩ := v5 ht
        exact ⟨np, lc, v, m1, m2, m3 hne⟩
  unfold lexLine at h
  dsimp only at h
  split_ifs at h with h1 h2
  · cases h
  · cases h
    refine ⟨?_, by omega, by omega, Or.inl ⟨rfl, rfl⟩⟩
    simp [errorToken]
  · cases hk1 : lookupKeyword string2keyword ((line.drop (measureIndent line).1).take
        ((measureIndent line).1 + 1 +
          ((line.drop ((measureIndent line).1 + 1)).takeWhile isAlphaNumeric).length -
            (measureIndent line).1)) with
    | some kw =>
      rw [hk1] at h
      exact hv kw ⟨_, List.mem_append_left _ (lookupKeyword_mem _ _ _ hk1), rfl⟩ h
    | none =>
      rw [hk1] at h
      dsimp only at h
      cases hk2 : lookupKeyword linglingKeywords ((line.drop (measureIndent line).1).take
          ((measureIndent line).1 + 1 +
            ((line.drop ((measureIndent line).1 + 1)).takeWhile isAlphaNumeric).length -
              (measureIndent line).1)) with
      | some kw =>
        rw [hk2] at h
        exact hv kw ⟨_, List.mem_append_right _ (lookupKeyword_mem _ _ _ hk2), rfl⟩ h
      | none =>
        rw [hk2] at h
        cases h
        refine ⟨?_, by omega, by omega, Or.inl ⟨rfl, rfl⟩⟩
        simp [errorToken]
theorem runLexerLoop_tokens (string2keyword : List (Str × Keyword))
    (hkw1 : ∀ e ∈ string2keyword ++ linglingKeywords, e.2 ≠ kwError)
    (hkw2 : ∀ e ∈ string2keyword ++ linglingKeywords, e.2 ≠ kwEOF) (lines : List Str) :
    ∀ (fuel n : Nat), lines.length + 1 ≤ fuel + n →
      ∃ toks last, runLexerLoop string2keyword lines fuel n = toks ++ [last] ∧
        last.kw = kwEOF ∧ last.indent = -1 ∧
        (toks.map Token.line).Pairwise (· < ·) ∧
        ∀ t ∈ toks, (n : Int) + 1 ≤ t.line ∧ t.line ≤ (lines.length : Int) ∧
          ((t.kw = kwError ∧ t.indent = -1) ∨
            (t.kw ≠ kwError ∧ t.kw ≠ kwEOF ∧ ∃ k, n ≤ k ∧ KeywordTokenAt lines k t)) := by
  intro fuel
  induction fuel with
  | zero =>
    intro n _
    exact ⟨[], eofToken n, rfl, rfl, rfl, List.Pairwise.nil, fun t ht => (by cases ht)⟩
  | succ fuel ih =>
    intro n hn
    rw [runLexerLoop]
    cases hd : lines.drop n with
    | nil => exact ⟨[], eofToken n, rfl, rfl, rfl, List.Pairwise.nil, fun t ht => (by cases ht)⟩
    | cons line rest =>
      have hlen : lines.length = n + rest.length + 1 := by
        have := congrArg List.length hd
        rw [List.length_drop, List.length_cons] at this
        omega
      dsimp only
      cases hl : lexLine string2keyword n line rest with
      | stop tok =>
        dsimp only
        refine ⟨[tok], eofToken n, rfl, rfl, rfl, List.pairwise_singleton _ _, ?_⟩
        intro t ht
        rw [List.mem_singleton] at ht
        subst ht
        rcases lexLine_stop _ _ _ _ _ hl with h | ⟨p, h⟩ <;> subst h
        · exact ⟨by simp [errorToken], by simp only [errorToken]; omega, Or.inl ⟨rfl, rfl⟩⟩
        · exact ⟨by simp [errorToken], by simp only [errorToken]; omega, Or.inl ⟨rfl, rfl⟩⟩
      | next tok next =>
        dsimp only
        cases tok with
        | none =>
          have hlt := lexLine_next_lt _ _ _ _ _ _ hl
          obtain ⟨toks, last, e1, e2, e3, e4, e5⟩ := ih next (by omega)
          refine ⟨toks, last, by rw [e1]; rfl, e2, e3, e4, ?_⟩
          intro t ht
          obtain ⟨a1, a2, a3⟩ := e5 t ht
          refine ⟨by omega, a2, ?_⟩
          rcases a3 with a3 | ⟨b1, b2, k, b3, b4⟩
          · exact Or.inl a3
          · exact Or.inr ⟨b1, b2, k, by omega, b4⟩
        | some tok =>
          obtain ⟨t1, t2, t3, t4⟩ := lexLine_token string2keyword hkw1 _ _ _ _ _ hl
          obtain ⟨toks, last, e1, e2, e3, e4, e5⟩ := ih next (by omega)
          refine ⟨tok :: toks, last, by rw [e1]; rfl, e2, e3, ?_, ?_⟩
          · rw [List.map_cons, List.pairwise_cons]
            refine ⟨?_, e4⟩
            intro x hx
            obtain ⟨t, ht, rfl⟩ := List.mem_map.mp hx
            have := (e5 t ht).1
            omega
          · intro t ht
            rcases List.mem_cons.mp ht with rfl | ht
            · refine ⟨by omega, by omega, ?_⟩
              rcases t4 with t4 | ⟨c1, ⟨e, he, hee⟩, c3, c4, c5⟩
              · exact Or.inl t4
              · refine Or.inr ⟨c1, by rw [hee]; exact hkw2 e he, n, le_refl _, line, rest, hd, c3,
                  ?_, ?_⟩
                · intro hq
                  obtain ⟨np, lc, v, m1, m2, m3⟩ := c4 hq
                  exact ⟨np, lc, v, m1, by rw [t1, m2]; push_cast; ring, m3⟩
                · intro hq
                  rw [t1, c5 hq]
                  push_cast
                  rfl
            · obtain ⟨a1, a2, a3⟩ := e5 t ht
              refine ⟨by omega, a2, ?_⟩
              rcases a3 with a3 | ⟨b1, b2, k, b3, b4⟩
              · exact Or.inl a3
              · exact Or.inr ⟨b1, b2, k, by omega, b4⟩

/-- C39: for every input, with `lines` its lines (the pieces between the
newlines) and `n` their number, and every keyword table that holds neither
the keyword of error tokens nor End-of-input (as `smlKeywords`), the tokens
`runLexer` sends are some tokens followed by End-of-input such that: the line
numbers of the tokens before End-of-input are strictly increasing in the
order in which they are sent and lie in `1..n`; every error token has the
indent -1; every other token has a keyword of the table or of
`linglingKeywords` and is the token of the keyword of a line `k` of the input
(`KeywordTokenAt`): its indent is the number of leading blanks plus 4 times
the number of leading tabs of that line, it carries the number of that line,
`k + 1`, unless the value of the line opens with `"""`: then it carries the
value `multilineString` returns and the number of the line on which it found
the closing `"""`. -/
theorem runLexer_tokens (input : Str) (string2keyword : List (Str × Keyword))
    (hkw : ∀ e ∈ string2keyword, e.2 ≠ kwError ∧ e.2 ≠ kwEOF) :
    ∃ toks last, runLexer input string2keyword = toks ++ [last] ∧ last.kw = kwEOF ∧
      last.indent = -1 ∧
      (toks.map Token.line).Pairwise (· < ·) ∧
      ∀ t ∈ toks, 1 ≤ t.line ∧ t.line ≤ ((strings.Split input chNewline).length : Int) ∧
        ((t.kw = kwError ∧ t.indent = -1) ∨
          (t.kw ≠ kwError ∧ t.kw ≠ kwEOF ∧ 0 ≤ t.indent ∧
            ∃ k, KeywordTokenAt (strings.Split input chNewline) k t)) := by
  have h1 : ∀ e ∈ string2keyword ++ linglingKeywords, e.2 ≠ kwError := by
    intro e he
    rcases List.mem_append.mp he with h | h
    · exact (hkw e h).1
    · exact (by decide : ∀ e ∈ linglingKeywords, e.2 ≠ kwError) e h
  have h2 : ∀ e ∈ string2keyword ++ linglingKeywords, e.2 ≠ kwEOF := by
    intro e he
    rcases List.mem_append.mp he with h | h
    · exact (hkw e h).2
    · exact (by decide : ∀ e ∈ linglingKeywords, e.2 ≠ kwEOF) e h
  obtain ⟨toks, last, e1, e2, e3, e4, e5⟩ := runLexerLoop_tokens string2keyword h1 h2
    (strings.Split input chNewline) ((strings.Split input chNewline).length + 1) 0 (by omega)
  refine ⟨toks, last, e1, e2, e3, e4, ?_⟩
  intro t ht
  obtain ⟨a1, a2, a3⟩ := e5 t ht
  refine ⟨by simpa using a1, a2, ?_⟩
  rcases a3 with a3 | ⟨b1, b2, k, -, b4⟩
  · exact Or.inl a3
  · refine Or.inr ⟨b1, b2, ?_, k, b4⟩
    obtain ⟨line, rest, -, hi, -, -⟩ := b4
    rw [hi]
    exact Int.natCast_nonneg _
set_option maxRecDepth 1000000 in
/-- The lines `project p`, a tab and a blank before `sql """a`, `b"""`,
two blanks before `?x`, `table t`: the tokens are that of `project p`, that
of `sql` with the indent 5, the value `a`, newline, `b` and the line 3 of the
closing quotes, an error token of the indent -1 at the line 4, that of
`table t` at the line 5, and End-of-input. -/
theorem runLexer_tokens_witness :
    ((∀ e ∈ smlKeywords, e.2 ≠ kwError ∧ e.2 ≠ kwEOF) ∧
      runLexer "project p\n\t sql \"\"\"a\nb\"\"\"\n  ?x\ntable t".toList smlKeywords =
        [Token.mk 0 skwProject "p".toList 1, Token.mk 5 skwSQL "a\nb".toList 3,
         errorToken 3 2 "expected keyword, got ?".toList, Token.mk 0 skwTable "t".toList 5,
         eofToken 5] ∧
      leadingIndent "\t sql \"\"\"a".toList = 5) ∧
    ∃ toks last,
      runLexer "project p\n\t sql \"\"\"a\nb\"\"\"\n  ?x\ntable t".toList smlKeywords =
        toks ++ [last] ∧ last.kw = kwEOF ∧ last.indent = -1 ∧
      (toks.map Token.line).Pairwise (· < ·) ∧
      ∀ t ∈ toks, 1 ≤ t.line ∧
        t.line ≤ ((strings.Split "project p\n\t sql \"\"\"a\nb\"\"\"\n  ?x\ntable t".toList
          chNewline).length : Int) ∧
        ((t.kw = kwError ∧ t.indent = -1) ∨
          (t.kw ≠ kwError ∧ t.kw ≠ kwEOF ∧ 0 ≤ t.indent ∧
            ∃ k, KeywordTokenAt
              (strings.Split "project p\n\t sql \"\"\"a\nb\"\"\"\n  ?x\ntable t".toList chNewline)
              k t)) :=
  ⟨⟨by decide, by decide!, by decide⟩,
    runLexer_tokens "project p\n\t sql \"\"\"a\nb\"\"\"\n  ?x\ntable t".toList smlKeywords
      (by decide)⟩
theorem mem_of_append_cons_eq_concat {α : Type} (a b c : List α) (x y : α)
    (h : a ++ x :: b = c ++ [y]) : ∀ t ∈ a, t ∈ c := by
  rcases List.eq_nil_or_concat b with hb | ⟨b1, z, hb⟩
  · subst hb
    have := List.append_inj_left' h rfl
    intro t ht
    rw [← this]
    exact ht
  · rw [hb, List.concat_eq_append, ← List.cons_append, ← List.append_assoc] at h
    have := List.append_inj_left' h rfl
    intro t ht
    rw [← this]
    exact List.mem_append_left _ ht

theorem tail_of_lexed (pre post toks : List Token) (root last : Token)
    (h : pre ++ root :: post = toks ++ [last]) (hne : root ≠ last) :
    ∃ post1, post = post1 ++ [last] ∧ toks = pre ++ root :: post1 := by
  rcases List.eq_nil_or_concat post with hp | ⟨p1, z, hp⟩
  · subst hp
    have := List.append_inj_right' h rfl
    simp only [List.cons.injEq, and_true] at this
    exact absurd this hne
  · rw [hp, List.concat_eq_append, ← List.cons_append, ← List.append_assoc] at h
    have h1 := List.append_inj_left' h rfl
    have h2 := List.append_inj_right' h rfl
    simp only [List.cons.injEq, and_true] at h2
    subst h2
    exact ⟨p1, by rw [hp, List.concat_eq_append], h1.symm⟩

/-- C38: for every input and every keyword table that holds neither the
keyword of error tokens nor End-of-input (as `smlKeywords`), every token
`root` of an indent of 0 at least among the tokens `runLexer` sends, and the
tokens `post` sent after it: `parseGeneric` on `post` with `root` returns,
with the same result for every depth of calls from `parseGenericFuel` on; the
tokens it received are the tokens `taken`, which it does not return, followed
by the token it returns, and they are the first tokens of `post`, so that
nothing is received after End-of-input; no token of `taken` is End-of-input;
every token of `taken` has one of three roles, `error` exactly for the error
tokens; the errors `parseGeneric` returns are, in order, one for every token
taken as `error` (its text and line) or as `skipped` (`inconsistent
indentation` at its line), and the nodes below the root of the tree it
returns are, in order, one for every token taken as `node`, with its
keyword, value and line. -/
theorem parseGeneric_consumes (input : Str) (string2keyword : List (Str × Keyword))
    (hkw : ∀ e ∈ string2keyword, e.2 ≠ kwError ∧ e.2 ≠ kwEOF) (pre post : List Token)
    (root : Token) (hl : runLexer input string2keyword = pre ++ root :: post)
    (hroot : 0 ≤ root.indent) :
    (∀ fuel, parseGenericFuel post ≤ fuel →
      parseGeneric fuel post root = parseGeneric (parseGenericFuel post) post root) ∧
    ∃ taken : List (Token × Taken),
      post = taken.map Prod.fst ++
        (parseGeneric (parseGenericFuel post) post root).nextToken ::
          (parseGeneric (parseGenericFuel post) post root).l ∧
      (∀ p ∈ taken, p.1.kw ≠ kwEOF) ∧
      (∀ p ∈ taken, (p.2 = Taken.error ↔ p.1.kw = kwError)) ∧
      (parseGeneric (parseGenericFuel post) post root).parseErrors = takenErrors taken ∧
      (parseGeneric (parseGenericFuel post) post root).g.descendants = takenNodes taken := by
  have h1 : ∀ e ∈ string2keyword ++ linglingKeywords, e.2 ≠ kwError := by
    intro e he
    rcases List.mem_append.mp he with h | h
    · exact (hkw e h).1
    · exact (by decide : ∀ e ∈ linglingKeywords, e.2 ≠ kwError) e h
  have h2 : ∀ e ∈ string2keyword ++ linglingKeywords, e.2 ≠ kwEOF := by
    intro e he
    rcases List.mem_append.mp he with h | h
    · exact (hkw e h).2
    · exact (by decide : ∀ e ∈ linglingKeywords, e.2 ≠ kwEOF) e h
  obtain ⟨toks, last, e1, e2, e3, -, e5⟩ := runLexerLoop_tokens string2keyword h1 h2
    (strings.Split input chNewline) ((strings.Split input chNewline).length + 1) 0 (by omega)
  rw [runLexer] at hl
  rw [hl] at e1
  have hne : root ≠ last := by
    intro h
    rw [h, e3] at hroot
    omega
  obtain ⟨post1, hp, htoks⟩ := tail_of_lexed pre post toks root last e1 hne
  have he : EndsInEOF post := ⟨post1, last, hp, e2, e3⟩
  obtain ⟨stab, taken, g1, g2, g3, g5⟩ := (parseGeneric_taken (parseGenericFuel post)).1 post root
    he (by omega) (by unfold parseGenericFuel; omega)
  refine ⟨stab, taken, g1, ?_, ?_, g2, g3⟩
  all_goals
    have hmem : ∀ p ∈ taken, p.1 ∈ toks := by
      intro p hp1
      rw [hp] at g1
      have := mem_of_append_cons_eq_concat _ _ _ _ _ g1.symm p.1
        (List.mem_map.mpr ⟨p, hp1, rfl⟩)
      rw [htoks]
      exact List.mem_append_right _ (List.mem_cons_of_mem _ this)
  · intro p hp1
    rcases (e5 p.1 (hmem p hp1)).2.2 with a | a
    · rw [a.1]
      decide
    · exact a.2.1
  · intro p hp1
    refine ⟨(g5 p hp1).1, fun hk => ?_⟩
    by_contra hc
    have hlt := (g5 p hp1).2 hc
    rcases (e5 p.1 (hmem p hp1)).2.2 with a | a
    · rw [a.2] at hlt
      omega
    · exact a.1 hk

set_option maxRecDepth 1000000 in
/-- The lines `project p`, `table a` (indent 4), `?`, `table b` (indent 2),
`table c` (indent 4): the lexer sends the token of `project p`, of `table a`,
an error token, the tokens of `table b` and `table c` and End-of-input;
`parseGeneric` with the first as root makes a node of `table a`, records the
error token, skips the token of `table b` with `inconsistent indentation` and
returns the token of `table c`, End-of-input being left on the channel. -/
theorem parseGeneric_consumes_witness :
    ((∀ e ∈ smlKeywords, e.2 ≠ kwError ∧ e.2 ≠ kwEOF) ∧
      runLexer "project p\n    table a\n?\n  table b\n    table c".toList smlKeywords =
        [] ++ Token.mk 0 skwProject "p".toList 1 ::
          [Token.mk 4 skwTable "a".toList 2,
           errorToken 2 0 "expected keyword, got ?".toList,
           Token.mk 2 skwTable "b".toList 4, Token.mk 4 skwTable "c".toList 5, eofToken 5] ∧
      (0 : Int) ≤ (Token.mk 0 skwProject "p".toList 1).indent) ∧
    ((parseGeneric
        (parseGenericFuel [Token.mk 4 skwTable "a".toList 2,
          errorToken 2 0 "expected keyword, got ?".toList,
          Token.mk 2 skwTable "b".toList 4, Token.mk 4 skwTable "c".toList 5, eofToken 5])
        [Token.mk 4 skwTable "a".toList 2, errorToken 2 0 "expected keyword, got ?".toList,
          Token.mk 2 skwTable "b".toList 4, Token.mk 4 skwTable "c".toList 5, eofToken 5]
        (Token.mk 0 skwProject "p".toList 1)).nextToken = Token.mk 4 skwTable "c".toList 5 ∧
      (parseGeneric
        (parseGenericFuel [Token.mk 4 skwTable "a".toList 2,
          errorToken 2 0 "expected keyword, got ?".toList,
          Token.mk 2 skwTable "b".toList 4, Token.mk 4 skwTable "c".toList 5, eofToken 5])
        [Token.mk 4 skwTable "a".toList 2, errorToken 2 0 "expected keyword, got ?".toList,
          Token.mk 2 skwTable "b".toList 4, Token.mk 4 skwTable "c".toList 5, eofToken 5]
        (Token.mk 0 skwProject "p".toList 1)).l = [eofToken 5] ∧
      (parseGeneric
        (parseGenericFuel [Token.mk 4 skwTable "a".toList 2,
          errorToken 2 0 "expected keyword, got ?".toList,
          Token.mk 2 skwTable "b".toList 4, Token.mk 4 skwTable "c".toList 5, eofToken 5])
        [Token.mk 4 skwTable "a".toList 2, errorToken 2 0 "expected keyword, got ?".toList,
          Token.mk 2 skwTable "b".toList 4, Token.mk 4 skwTable "c".toList 5, eofToken 5]
        (Token.mk 0 skwProject "p".toList 1)).parseErrors =
        takenErrors [(Token.mk 4 skwTable "a".toList 2, Taken.node),
          (errorToken 2 0 "expected keyword, got ?".toList, Taken.error),
          (Token.mk 2 skwTable "b".toList 4, Taken.skipped)]) ∧
    ((∀ fuel, parseGenericFuel [Token.mk 4 skwTable "a".toList 2,
          errorToken 2 0 "expected keyword, got ?".toList,
          Token.mk 2 skwTable "b".toList 4, Token.mk 4 skwTable "c".toList 5, eofToken 5] ≤ fuel →
      parseGeneric fuel [Token.mk 4 skwTable "a".toList 2,
          errorToken 2 0 "expected keyword, got ?".toList,
          Token.mk 2 skwTable "b".toList 4, Token.mk 4 skwTable "c".toList 5, eofToken 5]
        (Token.mk 0 skwProject "p".toList 1) =
      parseGeneric (parseGenericFuel [Token.mk 4 skwTable "a".toList 2,
          errorToken 2 0 "expected keyword, got ?".toList,
          Token.mk 2 skwTable "b".toList 4, Token.mk 4 skwTable "c".toList 5, eofToken 5])
        [Token.mk 4 skwTable "a".toList 2, errorToken 2 0 "expected keyword, got ?".toList,
          Token.mk 2 skwTable "b".toList 4, Token.mk 4 skwTable "c".toList 5, eofToken 5]
        (Token.mk 0 skwProject "p".toList 1)) ∧
    ∃ taken : List (Token × Taken),
      [Token.mk 4 skwTable "a".toList 2, errorToken 2 0 "expected keyword, got ?".toList,
          Token.mk 2 skwTable "b".toList 4, Token.mk 4 skwTable "c".toList 5, eofToken 5] =
        taken.map Prod.fst ++
        (parseGeneric (parseGenericFuel [Token.mk 4 skwTable "a".toList 2,
            errorToken 2 0 "expected keyword, got ?".toList,
            Token.mk 2 skwTable "b".toList 4, Token.mk 4 skwTable "c".toList 5, eofToken 5])
          [Token.mk 4 skwTable "a".toList 2, errorToken 2 0 "expected keyword, got ?".toList,
            Token.mk 2 skwTable "b".toList 4, Token.mk 4 skwTable "c".toList 5, eofToken 5]
          (Token.mk 0 skwProject "p".toList 1)).nextToken ::
          (parseGeneric (parseGenericFuel [Token.mk 4 skwTable "a".toList 2,
            errorToken 2 0 "expected keyword, got ?".toList,
            Token.mk 2 skwTable "b".toList 4, Token.mk 4 skwTable "c".toList 5, eofToken 5])
          [Token.mk 4 skwTable "a".toList 2, errorToken 2 0 "expected keyword, got ?".toList,
            Token.mk 2 skwTable "b".toList 4, Token.mk 4 skwTable "c".toList 5, eofToken 5]
          (Token.mk 0 skwProject "p".toList 1)).l ∧
      (∀ p ∈ taken, p.1.kw ≠ kwEOF) ∧
      (∀ p ∈ taken, (p.2 = Taken.error ↔ p.1.kw = kwError)) ∧
      (parseGeneric (parseGenericFuel [Token.mk 4 skwTable "a".toList 2,
            errorToken 2 0 "expected keyword, got ?".toList,
            Token.mk 2 skwTable "b".toList 4, Token.mk 4 skwTable "c".toList 5, eofToken 5])
          [Token.mk 4 skwTable "a".toList 2, errorToken 2 0 "expected keyword, got ?".toList,
            Token.mk 2 skwTable "b".toList 4, Token.mk 4 skwTable "c".toList 5, eofToken 5]
          (Token.mk 0 skwProject "p".toList 1)).parseErrors = takenErrors taken ∧
      (parseGeneric (parseGenericFuel [Token.mk 4 skwTable "a".toList 2,
            errorToken 2 0 "expected keyword, got ?".toList,
            Token.mk 2 skwTable "b".toList 4, Token.mk 4 skwTable "c".toList 5, eofToken 5])
          [Token.mk 4 skwTable "a".toList 2, errorToken 2 0 "expected keyword, got ?".toList,
            Token.mk 2 skwTable "b".toList 4, Token.mk 4 skwTable "c".toList 5, eofToken 5]
          (Token.mk 0 skwProject "p".toList 1)).g.descendants = takenNodes taken) :=
  ⟨⟨by decide, by decide!, by decide⟩, ⟨by decide!, by decide!, by decide!⟩,
    parseGeneric_consumes "project p\n    table a\n?\n  table b\n    table c".toList smlKeywords
      (by decide) [] _ (Token.mk 0 skwProject "p".toList 1) (by decide!) (by decide)⟩
/-! ### The lines of the trees that `parseGeneric` builds

The nodes of a tree that `parseGeneric` builds from the tokens of `runLexer`
have the lines of their tokens, which are not negative: the condition on the
lines under which C26 is stated holds for every tree that `ParseSML` and
`ParseSMLPieces` pass to `findIndentationErrors`. -/

theorem recv_lines (l : List Token) (h : ∀ t ∈ l, 0 ≤ t.indent → 0 ≤ t.line) :
    (0 ≤ (recv l).1.indent → 0 ≤ (recv l).1.line) ∧
    ∀ t ∈ (recv l).2, 0 ≤ t.indent → 0 ≤ t.line := by
  cases l with
  | nil => exact ⟨fun _ => le_refl _, fun t ht => (by cases ht)⟩
  | cons a l =>
    exact ⟨h a (List.mem_cons_self _ _), fun t ht => h t (List.mem_cons_of_mem _ ht)⟩

theorem skipErrorTokens_lines : ∀ (l : List Token) (tok : Token) (errs : List ParseError),
    (0 ≤ tok.indent → 0 ≤ tok.line) → (∀ t ∈ l, 0 ≤ t.indent → 0 ≤ t.line) →
    (0 ≤ (skipErrorTokens tok l errs).1.indent → 0 ≤ (skipErrorTokens tok l errs).1.line) ∧
    ∀ t ∈ (skipErrorTokens tok l errs).2.1, 0 ≤ t.indent → 0 ≤ t.line := by
  intro l
  induction l with
  | nil =>
    intro tok errs h1 h2
    rw [skipErrorTokens]
    split_ifs
    · exact ⟨fun _ => le_refl _, fun t ht => (by cases ht)⟩
    · exact ⟨h1, h2⟩
  | cons a l ih =>
    intro tok errs h1 h2
    rw [skipErrorTokens]
    split_ifs
    · exact ih a _ (h2 a (List.mem_cons_self _ _)) (fun t ht => h2 t (List.mem_cons_of_mem _ ht))
    · exact ⟨h1, h2⟩

theorem parseGeneric_lines : ∀ fuel : Nat,
    (∀ (l : List Token) (root : Token), (∀ t ∈ l, 0 ≤ t.indent → 0 ≤ t.line) →
      -1 ≤ root.indent → 0 ≤ root.line →
      (∀ n ∈ (parseGeneric fuel l root).g.lines, 0 ≤ n) ∧
      (0 ≤ (parseGeneric fuel l root).nextToken.indent →
        0 ≤ (parseGeneric fuel l root).nextToken.line) ∧
      ∀ t ∈ (parseGeneric fuel l root).l, 0 ≤ t.indent → 0 ≤ t.line) ∧
    (∀ (childIndent : Int) (l : List Token) (nextToken : Token) (children : List Generic)
      (errs : List ParseError), 0 ≤ childIndent → (∀ t ∈ l, 0 ≤ t.indent → 0 ≤ t.line) →
      (0 ≤ nextToken.indent → 0 ≤ nextToken.line) →
      (∀ n ∈ Generic.linesList children, 0 ≤ n) →
      (∀ n ∈ Generic.linesList
          (parseChildren fuel childIndent l nextToken children errs).g.children, 0 ≤ n) ∧
      (0 ≤ (parseChildren fuel childIndent l nextToken children errs).nextToken.indent →
        0 ≤ (parseChildren fuel childIndent l nextToken children errs).nextToken.line) ∧
      ∀ t ∈ (parseChildren fuel childIndent l nextToken children errs).l,
        0 ≤ t.indent → 0 ≤ t.line) := by
  intro fuel
  induction fuel with
  | zero =>
    constructor
    · intro l root hl _ hline
      rw [parseGeneric]
      refine ⟨?_, (recv_lines l hl).1, (recv_lines l hl).2⟩
      intro n hn
      simp only [Generic.lines, Generic.linesList, List.mem_singleton] at hn
      rw [hn]
      exact hline
    · intro childIndent l nextToken children errs _ hl hn hc
      rw [parseChildren]
      exact ⟨hc, hn, hl⟩
  | succ fuel ih =>
    obtain ⟨ihg, ihc⟩ := ih
    constructor
    · intro l root hl hroot hline
      obtain ⟨s1, s2⟩ := skipErrorTokens_lines (recv l).2 (recv l).1 [] (recv_lines l hl).1
        (recv_lines l hl).2
      rw [parseGeneric]
      dsimp only
      split_ifs with hi hj
      · obtain ⟨c1, c2, c3⟩ := ihc (skipErrorTokens (recv l).1 (recv l).2 []).1.indent
          (skipErrorTokens (recv l).1 (recv l).2 []).2.1
          (skipErrorTokens (recv l).1 (recv l).2 []).1 []
          (skipErrorTokens (recv l).1 (recv l).2 []).2.2 (by omega) s2 s1
          (fun n hn => (by cases hn))
        refine ⟨?_, (recv_lines _ c3).1, (recv_lines _ c3).2⟩
        intro n hn
        rw [Generic.lines] at hn
        rcases List.mem_cons.mp hn with rfl | hn
        · exact hline
        · exact c1 n hn
      · obtain ⟨c1, c2, c3⟩ := ihc (skipErrorTokens (recv l).1 (recv l).2 []).1.indent
          (skipErrorTokens (recv l).1 (recv l).2 []).2.1
          (skipErrorTokens (recv l).1 (recv l).2 []).1 []
          (skipErrorTokens (recv l).1 (recv l).2 []).2.2 (by omega) s2 s1
          (fun n hn => (by cases hn))
        refine ⟨?_, c2, c3⟩
        intro n hn
        rw [Generic.lines] at hn
        rcases List.mem_cons.mp hn with rfl | hn
        · exact hline
        · exact c1 n hn
      · refine ⟨?_, s1, s2⟩
        intro n hn
        simp only [Generic.lines, Generic.linesList, List.mem_singleton] at hn
        rw [hn]
        exact hline
    · intro childIndent l nextToken children errs hci hl hn hc
      rw [parseChildren]
      split_ifs with hi
      · obtain ⟨g1, g2, g3⟩ := ihg l nextToken hl (by omega) (hn (by omega))
        refine ihc childIndent _ _ _ _ hci g3 g2 ?_
        intro n hmem
        rw [linesList_eq, List.map_append, List.flatten_append, List.mem_append] at hmem
        rcases hmem with hmem | hmem
        · rw [← linesList_eq] at hmem
          exact hc n hmem
        · simp only [List.map_cons, List.map_nil, List.flatten_cons, List.flatten_nil,
            List.append_nil] at hmem
          exact g1 n hmem
      · exact ⟨hc, hn, hl⟩

/-- The tree that `parseGeneric` builds for a keyword token `root` of the
lexer and the tokens after it has no node with a negative line, whatever the
input is. -/
theorem parseGeneric_lines_nonneg (input : Str) (string2keyword : List (Str × Keyword))
    (hkw : ∀ e ∈ string2keyword, e.2 ≠ kwError ∧ e.2 ≠ kwEOF) (pre post : List Token)
    (root : Token) (hl : runLexer input string2keyword = pre ++ root :: post)
    (hroot : 0 ≤ root.indent) (fuel : Nat) :
    ∀ n ∈ (parseGeneric fuel post root).g.lines, 0 ≤ n := by
  have h1 : ∀ e ∈ string2keyword ++ linglingKeywords, e.2 ≠ kwError := by
    intro e he
    rcases List.mem_append.mp he with h | h
    · exact (hkw e h).1
    · exact (by decide : ∀ e ∈ linglingKeywords, e.2 ≠ kwError) e h
  have h2 : ∀ e ∈ string2keyword ++ linglingKeywords, e.2 ≠ kwEOF := by
    intro e he
    rcases List.mem_append.mp he with h | h
    · exact (hkw e h).2
    · exact (by decide : ∀ e ∈ linglingKeywords, e.2 ≠ kwEOF) e h
  obtain ⟨toks, last, e1, -, e3, -, e5⟩ := runLexerLoop_tokens string2keyword h1 h2
    (strings.Split input chNewline) ((strings.Split input chNewline).length + 1) 0 (by omega)
  have hall : ∀ t ∈ runLexer input string2keyword, 0 ≤ t.indent → 0 ≤ t.line := by
    intro t ht hi
    rw [runLexer, e1] at ht
    rcases List.mem_append.mp ht with ht | ht
    · have := (e5 t ht).1
      omega
    · rw [List.mem_singleton] at ht
      rw [ht, e3] at hi
      omega
  rw [hl] at hall
  exact ((parseGeneric_lines fuel).1 post root
    (fun t ht => hall t (List.mem_append_right _ (List.mem_cons_of_mem _ ht))) (by omega)
    (hall root (List.mem_append_right _ (List.mem_cons_self _ _)) hroot)).1

/-- The tree that `ParseSML` builds for an input whose first token is the
token of a keyword has no node with a negative line. -/
theorem projectTree_lines_nonneg (input : Str)
    (h : 0 ≤ (recv (startLex input smlKeywords)).1.indent) :
    ∀ n ∈ (projectTree input).lines, 0 ≤ n := by
  have hne : startLex input smlKeywords =
      [] ++ (recv (startLex input smlKeywords)).1 :: (recv (startLex input smlKeywords)).2 := by
    cases hs : startLex input smlKeywords with
    | nil =>
      exfalso
      have h1 : ∀ e ∈ smlKeywords ++ linglingKeywords, e.2 ≠ kwError := by decide
      have h2 : ∀ e ∈ smlKeywords ++ linglingKeywords, e.2 ≠ kwEOF := by decide
      obtain ⟨toks, last, e1, -⟩ := runLexerLoop_tokens smlKeywords h1 h2
        (strings.Split (replaceCRLF input) chNewline)
        ((strings.Split (replaceCRLF input) chNewline).length + 1) 0 (by omega)
      rw [startLex, runLexer, e1] at hs
      exact absurd hs (by simp)
    | cons a l => rfl
  exact parseGeneric_lines_nonneg (replaceCRLF input) smlKeywords (by decide) [] _ _ hne h _
theorem run_bind_assoc {α β γ : Type} (m : Parser α) (f : α → Parser β) (k : β → Parser γ)
    (st : List ParseError) :
    ((m >>= f) >>= k).run st = (m >>= fun a => f a >>= k).run st := by
  rw [run_bind, run_bind, run_bind]
  cases m.run st <;> rfl

theorem run_bind_congr {α β : Type} (m : Parser α) (f g : α → Parser β) (st : List ParseError)
    (h : ∀ a st1, (f a).run st1 = (g a).run st1) : (m >>= f).run st = (m >>= g).run st := by
  rw [run_bind, run_bind]
  cases m.run st with
  | ok a st1 => exact h a st1
  | panicErrors e => rfl
  | panicRuntime msg => rfl

theorem run_fatal_bind {α β : Type} (msg : Str) (line : Int) (k : α → Parser β)
    (st : List ParseError) :
    ((fatal msg line : Parser α) >>= k).run st = (fatal msg line : Parser β).run st := by
  unfold fatal
  rw [run_bind_assoc]
  exact run_bind_congr _ _ _ _ (fun _ _ => rfl)

theorem parseJoin_run (rt : GoRuntime) (g : Generic) (st : List ParseError) :
    (parseJoin rt g).run st =
      (parseJoinTables rt g >>= fun ots =>
        if joinDecorator rt.unicode g ≠ [] then parseJoinDecorator rt.unicode g
            (joinDecorator rt.unicode g) ots
        else pure { OTS := ots }).run st := by
  unfold parseJoin parseJoinTables
  rw [run_bind_assoc]
  refine run_bind_congr _ _ _ _ (fun _ st => ?_)
  rw [run_bind_assoc]
  refine run_bind_congr _ _ _ _ (fun _ st => ?_)
  rw [run_bind_assoc]
  refine run_bind_congr _ _ _ _ (fun _ st => ?_)
  dsimp only
  rw [run_bind_assoc]
  refine run_bind_congr _ _ _ _ (fun _ st => ?_)
  generalize joinOperators.get? _ = o
  cases o with
  | none =>
    dsimp only
    rw [run_fatal_bind]
  | some op =>
    dsimp only
    rw [run_bind_assoc]
    refine run_bind_congr _ _ _ _ (fun _ st => ?_)
    rw [run_bind_assoc]
    refine run_bind_congr _ _ _ _ (fun _ st => ?_)
    rw [run_bind_assoc]
    refine run_bind_congr _ _ _ _ (fun r st => ?_)
    rw [run_bind_assoc]
    refine run_bind_congr _ _ _ _ (fun _ st => ?_)
    rfl
/-! ### C31: the triples of the `then` children -/

theorem parseJoinCondition_value {u : GoUnicode} (otsSQL : Str) (list : List Generic) (owner : Str)
    (line : Int)
    (decoratorMsg : Str → Str) (st st1 : List ParseError) (sql : Str)
    (h : (parseJoinCondition u otsSQL list owner line decoratorMsg).run st = .ok sql st1) :
    ∃ child ∈ list, sql = child.value := by
  unfold parseJoinCondition at h
  obtain ⟨_, _, -, h⟩ := run_bind_ok h
  obtain ⟨child, _, hc, h⟩ := run_bind_ok h
  obtain ⟨v, _, hv, h⟩ := run_bind_ok h
  obtain ⟨_, _, -, h⟩ := run_bind_ok h
  obtain ⟨_, _, -, h⟩ := run_bind_ok h
  obtain ⟨rfl, -⟩ := run_pure_ok h
  exact ⟨child, (first_ok _ _ _ _ hc).1, parseSMLString_ok _ _ _ _ hv⟩

theorem parseThen_triple (rt : GoRuntime) (node : Generic) (st st1 : List ParseError)
    (t : OperatorTableSQL) (h : (parseThen rt node).run st = .ok t st1) : ThenTriple rt.unicode node
        t := by
  refine ⟨parseThen_ok rt node st st1 t h, ?_⟩
  unfold parseThen at h
  obtain ⟨_, _, -, h⟩ := run_bind_ok h
  obtain ⟨_, _, -, h⟩ := run_bind_ok h
  dsimp only at h
  cases hop : joinOperators.get? (strings.ToLower rt.unicode (strings.Join
      ((strings.Fields node.value).take ((strings.Fields node.value).length - 1)) [' '])) with
  | none =>
    rw [hop] at h
    exact absurd h (fatal_not_ok _ _ _ _ _)
  | some op =>
    rw [hop] at h
    dsimp only at h
    obtain ⟨_, _, -, h⟩ := run_bind_ok h
    obtain ⟨sql, _, h1, h⟩ := run_bind_ok h
    obtain ⟨_, _, h2, h⟩ := run_bind_ok h
    obtain ⟨rfl, -⟩ := run_pure_ok h
    have hsql : sql ≠ [] := by simpa using (panicIf_ok _ _ _ _ _ _ h2).1
    have hinv : sql = [] ∨
        ∃ c ∈ node.children, (c.kw = skwOn ∨ c.kw = skwSQL) ∧ sql = c.value := by
      refine forEach_ok_inv_st (parseThenChild rt.unicode node)
        (fun s _ => s = [] ∨ ∃ c ∈ node.children, (c.kw = skwOn ∨ c.kw = skwSQL) ∧ s = c.value)
        (rangeChildren rt node) ?_ _ _ _ _ (Or.inl rfl) h1
      intro b s sa s1 sb hb _ hrun
      unfold parseThenChild at hrun
      split_ifs at hrun with hk
      · obtain ⟨child, hc, hv⟩ := parseJoinCondition_value _ _ _ _ _ _ _ _ hrun
        rw [(mem_rangeChildren rt node b hb).1, Generic.childrenOf, List.mem_filter] at hc
        refine Or.inr ⟨child, hc.1, ?_, hv⟩
        have : child.kw = b.1 := by simpa using hc.2
        rw [this]
        exact hk
      · exact absurd hrun (fatal_not_ok _ _ _ _ _)
    rcases hinv with hinv | hinv
    · exact absurd hinv hsql
    · exact hinv

theorem parseJoinChild_thens (rt : GoRuntime) (g : Generic) (st st1 : List ParseError)
    (r : Str × List Generic)
    (h : (forEach (rangeChildren rt g) (([] : Str), ([] : List Generic))
      (parseJoinChild rt.unicode g)).run st = .ok r st1) : r.2 = g.childrenOf skwThen := by
  have hinv := forEach_ok_inv (parseJoinChild rt.unicode g)
    (fun pre s => s.2 = if skwThen ∈ pre.map Prod.fst then g.childrenOf skwThen else [])
    (rangeChildren rt g)
    (by
      intro pre b s sa s1 sb hb hinv hrun
      unfold parseJoinChild at hrun
      split_ifs at hrun with h1 h2
      · obtain ⟨sql, _, -, hrun⟩ := run_bind_ok hrun
        obtain ⟨rfl, -⟩ := run_pure_ok hrun
        have hne : b.1 ≠ skwThen := by
          rcases h1 with h1 | h1 <;> rw [h1] <;> decide
        have e : skwThen ∈ (pre ++ [b]).map Prod.fst ↔ skwThen ∈ pre.map Prod.fst := by
          rw [List.map_append, List.mem_append]
          constructor
          · rintro (hm | hm)
            · exact hm
            · rw [List.map_singleton, List.mem_singleton] at hm
              exact absurd hm.symm hne
          · exact fun hm => Or.inl hm
        show s.2 = _
        rw [hinv]
        simp only [e]
      · obtain ⟨rfl, -⟩ := run_pure_ok hrun
        simp only [List.map_append, List.map_cons, List.map_nil, List.mem_append,
          List.mem_singleton]
        rw [if_pos (Or.inr h2.symm), (mem_rangeChildren rt g b hb).1, h2]
      · exact absurd hrun (fatal_not_ok _ _ _ _ _))
    (rangeChildren rt g) [] _ _ _ _ (fun b hb => hb) (by simp) h
  rw [List.nil_append] at hinv
  rw [hinv]
  split_ifs with hk
  · rfl
  · by_contra hc
    exact hk ((mem_rangeChildren_keys rt g skwThen).mpr (Ne.symm hc))

theorem forEach_parseThen (rt : GoRuntime) : ∀ (l : List Generic) (init : List OperatorTableSQL)
    (st st1 : List ParseError) (ots : List OperatorTableSQL),
    (forEach l init (fun ots thenNode => do
      let t ← parseThen rt thenNode
      pure (ots ++ [t]))).run st = .ok ots st1 →
    ∃ later, ots = init ++ later ∧ List.Forall₂ (ThenTriple rt.unicode) l later := by
  intro l
  induction l with
  | nil =>
    intro init st st1 ots h
    rw [forEach] at h
    obtain ⟨rfl, -⟩ := run_pure_ok h
    exact ⟨[], by simp, List.Forall₂.nil⟩
  | cons node l ih =>
    intro init st st1 ots h
    rw [forEach] at h
    obtain ⟨s1, st2, h1, h2⟩ := run_bind_ok h
    obtain ⟨t, _, ht, h1⟩ := run_bind_ok h1
    obtain ⟨rfl, -⟩ := run_pure_ok h1
    obtain ⟨later, rfl, hl⟩ := ih _ _ _ _ h2
    exact ⟨t :: later, by simp, List.Forall₂.cons (parseThen_triple rt node _ _ t ht) hl⟩

theorem parseJoinTables_ok (rt : GoRuntime) (g : Generic) (st st1 : List ParseError)
    (ots : List OperatorTableSQL) (h : (parseJoinTables rt g).run st = .ok ots st1) :
    ∃ first second later, ots = first :: second :: later ∧
      List.Forall₂ (ThenTriple rt.unicode) (sortByLine (g.childrenOf skwThen)) later := by
  unfold parseJoinTables at h
  obtain ⟨_, _, -, h⟩ := run_bind_ok h
  obtain ⟨_, _, -, h⟩ := run_bind_ok h
  obtain ⟨_, _, -, h⟩ := run_bind_ok h
  dsimp only at h
  obtain ⟨_, _, -, h⟩ := run_bind_ok h
  revert h
  generalize joinOperators.get? _ = o
  intro h
  cases o with
  | none => exact absurd h (fatal_not_ok _ _ _ _ _)
  | some op =>
    dsimp only at h
    obtain ⟨_, _, -, h⟩ := run_bind_ok h
    obtain ⟨_, _, -, h⟩ := run_bind_ok h
    obtain ⟨r, st3, h3, h⟩ := run_bind_ok h
    obtain ⟨_, _, -, h⟩ := run_bind_ok h
    obtain ⟨later, rfl, hl⟩ := forEach_parseThen rt _ _ _ _ _ h
    rw [parseJoinChild_thens rt g _ _ r h3] at hl
    exact ⟨_, _, later, rfl, hl⟩

theorem parseJoinDecorator_ok {u : GoUnicode} (g : Generic) (oneToMany : Str)
    (ots : List OperatorTableSQL)
    (st st1 : List ParseError) (j : Join)
    (h : (parseJoinDecorator u g oneToMany ots).run st = .ok j st1) :
    j.OTS = ots ∧ ots.length ≤ 2 := by
  unfold parseJoinDecorator at h
  obtain ⟨_, _, h1, h⟩ := run_bind_ok h
  obtain ⟨_, _, -, h⟩ := run_bind_ok h
  obtain ⟨rfl, -⟩ := run_pure_ok h
  have := (panicIf_ok _ _ _ _ _ _ h1).1
  exact ⟨rfl, by simpa using this⟩

theorem parseJoin_ok_tables (rt : GoRuntime) (g : Generic) (st st1 : List ParseError) (j : Join)
    (h : (parseJoin rt g).run st = .ok j st1) :
    ∃ st2, (parseJoinTables rt g).run st = .ok j.OTS st2 ∧
      (joinDecorator rt.unicode g ≠ [] → j.OTS.length ≤ 2) := by
  rw [parseJoin_run] at h
  obtain ⟨ots, st2, h1, h2⟩ := run_bind_ok h
  split_ifs at h2 with hd
  · obtain ⟨e1, e2⟩ := parseJoinDecorator_ok _ _ _ _ _ _ h2
    rw [e1]
    exact ⟨st2, h1, fun _ => e2⟩
  · obtain ⟨rfl, -⟩ := run_pure_ok h2
    exact ⟨st2, h1, fun hc => absurd hc hd⟩

/-- C31: when `parseJoin` returns for a join node `g` with `k` children
`then`, `OTS` has `k + 2` triples, and the triples after the first two are
those of the `then` children taken in the order of their lines: there is an
arrangement of the `then` children whose lines never decrease (strictly
increasing when the lines differ, as they do in a parsed document) such that
the triple at the index `2 + i` is that of the child `i` of the arrangement,
with the last word of its line as the table, the operator `joinOperators` has
for the words before it, and the value of its `on` or `sql` child as the
SQL. -/
theorem parseJoin_then (rt : GoRuntime) (g : Generic) (st st1 : List ParseError) (j : Join)
    (h : (parseJoin rt g).run st = .ok j st1) :
    j.OTS.length = (g.childrenOf skwThen).length + 2 ∧
    ∃ thens : List Generic, thens.Perm (g.childrenOf skwThen) ∧
      (thens.map Generic.line).Pairwise (· ≤ ·) ∧
      (((g.childrenOf skwThen).map Generic.line).Nodup →
        (thens.map Generic.line).Pairwise (· < ·)) ∧
      List.Forall₂ (ThenTriple rt.unicode) thens (j.OTS.drop 2) := by
  obtain ⟨st2, h1, -⟩ := parseJoin_ok_tables rt g st st1 j h
  obtain ⟨first, second, later, hots, hl⟩ := parseJoinTables_ok rt g st st2 _ h1
  have hperm : (sortByLine (g.childrenOf skwThen)).Perm (g.childrenOf skwThen) :=
    List.perm_insertionSort _ _
  haveI : IsTotal Generic (fun a b => a.line ≤ b.line) := ⟨fun a b => le_total a.line b.line⟩
  haveI : IsTrans Generic (fun a b => a.line ≤ b.line) :=
    ⟨fun a b c hab hbc => le_trans hab hbc⟩
  have hsorted : ((sortByLine (g.childrenOf skwThen)).map Generic.line).Pairwise (· ≤ ·) := by
    rw [List.pairwise_map]
    exact List.sorted_insertionSort (fun a b : Generic => a.line ≤ b.line) _
  refine ⟨?_, sortByLine (g.childrenOf skwThen), hperm, hsorted, ?_, ?_⟩
  · rw [hots, List.length_cons, List.length_cons, ← hl.length_eq, hperm.length_eq]
  · intro hnd
    have hnd2 : ((sortByLine (g.childrenOf skwThen)).map Generic.line).Nodup :=
      (hperm.map Generic.line).nodup_iff.mpr hnd
    rw [List.Nodup] at hnd2
    exact (hsorted.and hnd2).imp (fun hab => lt_of_le_of_ne hab.1 hab.2)
  · rw [hots]
    exact hl
/-! ### C32: the constraints on a join with a decorator -/

theorem report_run (msg : Str) (line : Int) (st : List ParseError) (hst : st.length < maxErrors) :
    (report msg line).run st =
      if st.length + 1 < maxErrors then .ok () (st ++ [{ Msg := msg, LineNum := line }])
      else .panicErrors (st ++ [{ Msg := msg, LineNum := line }]) := by
  unfold report appendParseError
  dsimp only
  rw [if_pos (by omega)]
  by_cases h : st.length + 1 < maxErrors
  · rw [if_pos h, if_pos (by simp only [List.length_singleton]; omega)]
  · rw [if_neg h, if_neg (by simp only [List.length_singleton]; omega)]
    have : maxErrors - st.length = 1 := by omega
    rw [this]
    rfl

theorem fatal_run {α : Type} (msg : Str) (line : Int) (st : List ParseError)
    (hst : st.length < maxErrors) :
    (fatal msg line : Parser α).run st = .panicErrors (st ++ [{ Msg := msg, LineNum := line }]) :=
        by
  unfold fatal
  rw [run_bind, report_run msg line st hst]
  split_ifs <;> rfl

theorem errorIf_run (c : Bool) (msg : Str) (line : Int) (st : List ParseError)
    (hst : st.length < maxErrors) :
    (errorIf c msg line).run st =
      if c = true then
        if st.length + 1 < maxErrors then .ok () (st ++ [{ Msg := msg, LineNum := line }])
        else .panicErrors (st ++ [{ Msg := msg, LineNum := line }])
      else .ok () st := by
  unfold errorIf
  cases c with
  | true =>
    rw [if_pos rfl, if_pos rfl]
    exact report_run msg line st hst
  | false =>
    rw [if_neg (by decide), if_neg (by decide)]
    rfl

theorem mem_drop_append {α : Type} (st new : List α) (e : α) (n : Nat) (hn : n ≤ st.length)
    (h : e ∈ new) : e ∈ (st ++ new).drop n := by
  rw [List.drop_append_of_le_length hn]
  exact List.mem_append_right _ h

theorem mem_drop_of_prefix {α : Type} (a b : List α) (e : α) (n : Nat) (hab : a <+: b)
    (h : e ∈ a.drop n) : e ∈ b.drop n := by
  obtain ⟨t, rfl⟩ := hab
  by_cases hn : n ≤ a.length
  · rw [List.drop_append_of_le_length hn]
    exact List.mem_append_left _ h
  · rw [List.drop_eq_nil_of_le (by omega)] at h
    cases h
theorem soft_pure {α : Type} (a : α) (st : List ParseError) (Q : α → List ParseError → Prop)
    (hst : st.length < maxErrors) (hq : Q a st) : (pure a : Parser α).Soft st Q := by
  refine ⟨fun b st1 h => ?_, fun e h => (by cases h), fun msg h => (by cases h)⟩
  obtain ⟨rfl, rfl⟩ := run_pure_ok h
  exact ⟨hst, hq⟩

theorem soft_bind {α β : Type} (m : Parser α) (f : α → Parser β) (st : List ParseError)
    (Q1 : α → List ParseError → Prop) (Q2 : β → List ParseError → Prop) (hm : m.Soft st Q1)
    (hf : ∀ a st1, st1.length < maxErrors → Q1 a st1 → (f a).Soft st1 Q2) :
    (m >>= f).Soft st Q2 := by
  obtain ⟨m1, m2, m3⟩ := hm
  rw [Parser.Soft, run_bind]
  cases hr : m.run st with
  | ok a st1 =>
    obtain ⟨q1, q2⟩ := m1 a st1 hr
    exact hf a st1 q1 q2
  | panicErrors e =>
    exact ⟨fun b st1 h => (by cases h), fun e1 h => (by cases h; exact m2 e hr),
      fun msg h => (by cases h)⟩
  | panicRuntime msg => exact absurd hr (m3 msg)

theorem soft_errorIf (c : Bool) (msg : Str) (line : Int) (st : List ParseError)
    (hst : st.length < maxErrors) :
    (errorIf c msg line).Soft st (fun _ st1 => st <+: st1 ∧
      (c = true → ({ Msg := msg, LineNum := line } : ParseError) ∈ st1.drop st.length)) := by
  rw [Parser.Soft, errorIf_run c msg line st hst]
  cases c with
  | true =>
    rw [if_pos rfl]
    by_cases hb : st.length + 1 < maxErrors
    · rw [if_pos hb]
      refine ⟨fun a st1 h => ?_, fun e h => (by cases h), fun m h => (by cases h)⟩
      cases h
      refine ⟨by rw [List.length_append, List.length_singleton]; exact hb,
        List.prefix_append _ _, fun _ => ?_⟩
      exact mem_drop_append st _ _ _ (le_refl _) (List.mem_singleton_self _)
    · rw [if_neg hb]
      refine ⟨fun a st1 h => (by cases h), fun e h => ?_, fun m h => (by cases h)⟩
      cases h
      rw [List.length_append, List.length_singleton]
      omega
  | false =>
    rw [if_neg (by decide)]
    refine ⟨fun a st1 h => ?_, fun e h => (by cases h), fun m h => (by cases h)⟩
    cases h
    exact ⟨hst, List.prefix_refl _, fun hc => (by cases hc)⟩

theorem mem_drop_of_le {α : Type} (l : List α) (e : α) (n m : Nat) (hnm : n ≤ m)
    (h : e ∈ l.drop m) : e ∈ l.drop n := by
  have : l.drop m = (l.drop n).drop (m - n) := by
    rw [List.drop_drop]
    congr 1
    omega
  rw [this] at h
  exact List.mem_of_mem_drop h

theorem validateLoop_soft {u : GoUnicode} (oneTable oneToMany : Str) (linenum : Int) :
    ∀ (tokens : List SQLToken) (cols : List Str) (st : List ParseError),
      st.length < maxErrors →
      (forEach tokens cols (fun oneColumns token => do
        errorIf
          (token.isReserved &&
            (strings.ToUpper u token.Value = "OR".toList ||
              strings.ToUpper u token.Value = "NOT".toList))
          ("expecting simple conjunctions in ".toList ++ oneToMany ++
            " JOIN, found \"".toList ++ token.Value ++ "\"".toList)
          linenum
        errorIf (token.isOp && token.Value ≠ ['='])
          ("expecting only equalities (=) in ".toList ++ oneToMany ++
            " JOIN, found \"".toList ++ token.Value ++ "\"".toList)
          linenum
        pure
          (if token.isName && token.Value2 ≠ [] &&
              strings.ToLower u token.Value = strings.ToLower u oneTable then
            oneColumns ++ [token.Value2]
          else oneColumns))).Soft st
        (fun cols1 st1 =>
          cols1 = cols ++ (tokens.filter (fun t => t.isColumnOf u oneTable)).map SQLToken.Value2 ∧
          st <+: st1 ∧
          (∀ t ∈ tokens, t.isOrNot u = true →
            conjunctionError oneToMany t linenum ∈ st1.drop st.length) ∧
          (∀ t ∈ tokens, t.isOtherOperator = true →
            equalityError oneToMany t linenum ∈ st1.drop st.length)) := by
  intro tokens
  induction tokens with
  | nil =>
    intro cols st hst
    rw [forEach]
    exact soft_pure _ _ _ hst ⟨by simp, List.prefix_refl _, fun t ht => (by cases ht),
      fun t ht => (by cases ht)⟩
  | cons t ts ih =>
    intro cols st hst
    rw [forEach]
    refine soft_bind _ _ st
      (fun s1 st1 => s1 = (if t.isColumnOf u oneTable = true then cols ++ [t.Value2] else cols) ∧
        st <+: st1 ∧
        (t.isOrNot u = true → conjunctionError oneToMany t linenum ∈ st1.drop st.length) ∧
        (t.isOtherOperator = true → equalityError oneToMany t linenum ∈ st1.drop st.length))
      _ ?_ ?_
    · refine soft_bind _ _ st _ _ (soft_errorIf _ _ _ st hst) ?_
      intro _ sa hsa ⟨pa, qa⟩
      refine soft_bind _ _ sa _ _ (soft_errorIf _ _ _ sa hsa) ?_
      intro _ sb hsb ⟨pb, qb⟩
      refine soft_pure _ _ _ hsb ⟨rfl, pa.trans pb, fun h1 => ?_, fun h2 => ?_⟩
      · exact mem_drop_of_prefix _ _ _ _ pb (qa h1)
      · exact mem_drop_of_le _ _ _ _ pa.length_le (qb h2)
    · intro s1 st1 hst1 ⟨e1, p1, q1, q2⟩
      obtain ⟨i1, i2, i3⟩ := ih s1 st1 hst1
      refine ⟨fun cols2 st2 h => ?_, i2, i3⟩
      obtain ⟨l2, c2, p2, r1, r2⟩ := i1 cols2 st2 h
      refine ⟨l2, ?_, p1.trans p2, ?_, ?_⟩
      · rw [c2, e1, List.filter_cons]
        by_cases hc : t.isColumnOf u oneTable = true
        · rw [if_pos hc, if_pos hc, List.map_cons, List.append_assoc]
          rfl
        · rw [if_neg hc, if_neg hc]
      · intro x hx hx1
        rcases List.mem_cons.mp hx with rfl | hx
        · exact mem_drop_of_prefix _ _ _ _ p2 (q1 hx1)
        · exact mem_drop_of_le _ _ _ _ p1.length_le (r1 x hx hx1)
      · intro x hx hx1
        rcases List.mem_cons.mp hx with rfl | hx
        · exact mem_drop_of_prefix _ _ _ _ p2 (q2 hx1)
        · exact mem_drop_of_le _ _ _ _ p1.length_le (r2 x hx hx1)

theorem validateOneToManyJoinCondition_soft {u : GoUnicode} (sql oneTable oneToMany : Str)
    (linenum : Int)
    (st : List ParseError) (hst : st.length < maxErrors) :
    (validateOneToManyJoinCondition u sql oneTable oneToMany linenum).Soft st
      (fun _ st1 => st <+: st1 ∧
        (∀ t ∈ TokenizeSQL u sql, t.isOrNot u = true →
          conjunctionError oneToMany t linenum ∈ st1.drop st.length) ∧
        (∀ t ∈ TokenizeSQL u sql, t.isOtherOperator = true →
          equalityError oneToMany t linenum ∈ st1.drop st.length) ∧
        ((∀ t ∈ TokenizeSQL u sql, t.isColumnOf u oneTable = false) →
          noColumnError oneTable oneToMany linenum ∈ st1.drop st.length)) := by
  unfold validateOneToManyJoinCondition
  refine soft_bind _ _ st _ _ (validateLoop_soft oneTable oneToMany linenum _ [] st hst) ?_
  intro cols sa hsa ⟨c1, pa, q1, q2⟩
  refine soft_bind _ _ sa _ _ (soft_errorIf _ _ _ sa hsa) ?_
  intro _ sb hsb ⟨pb, qb⟩
  refine soft_pure _ _ _ hsb ⟨pa.trans pb, fun t ht h1 => ?_, fun t ht h2 => ?_, fun h3 => ?_⟩
  · exact mem_drop_of_prefix _ _ _ _ pb (q1 t ht h1)
  · exact mem_drop_of_prefix _ _ _ _ pb (q2 t ht h2)
  · have hnil : cols = [] := by
      rw [c1, List.nil_append, List.map_eq_nil_iff, List.filter_eq_nil_iff]
      intro t ht
      rw [h3 t ht]
      decide
    exact mem_drop_of_le _ _ _ _ pa.length_le (qb (by rw [hnil]; rfl))
theorem bounded_parseJoinTables (rt : GoRuntime) (g : Generic) :
    (parseJoinTables rt g).Bounded := by
  have hcond : ∀ sql list owner line msg,
      (parseJoinCondition rt.unicode sql list owner line msg).Bounded := by
    intro sql list owner line msg
    unfold parseJoinCondition
    repeat' first
      | exact bounded_parseSMLString _
      | exact bounded_first _
      | exact bounded_pure _
      | exact bounded_panicIf _ _ _
      | refine bounded_bind ?_ (fun _ => ?_)
  have hthen : ∀ node, (parseThen rt node).Bounded := by
    intro node
    have hchild : ∀ sql entry, (parseThenChild rt.unicode node sql entry).Bounded := by
      intro sql entry
      unfold parseThenChild
      exact bounded_ite (hcond _ _ _ _ _) (bounded_fatal _ _)
    unfold parseThen
    dsimp only
    refine bounded_bind (bounded_panicIf _ _ _) (fun _ =>
      bounded_bind (bounded_panicIf _ _ _) (fun _ => ?_))
    split
    · exact bounded_fatal _ _
    · exact bounded_bind (bounded_panicIf _ _ _) (fun _ =>
        bounded_bind (bounded_forEach _ _ (fun s b _ => hchild s b) _) (fun _ =>
          bounded_bind (bounded_panicIf _ _ _) (fun _ => bounded_pure _)))
  have hchild : ∀ state entry, (parseJoinChild rt.unicode g state entry).Bounded := by
    intro state entry
    unfold parseJoinChild
    repeat' first
      | exact hcond _ _ _ _ _
      | exact bounded_pure _
      | exact bounded_fatal _ _
      | apply bounded_ite
      | refine bounded_bind ?_ (fun _ => ?_)
  unfold parseJoinTables
  dsimp only
  refine bounded_bind (bounded_panicIf _ _ _) (fun _ =>
    bounded_bind (bounded_panicIf _ _ _) (fun _ =>
      bounded_bind (bounded_panicIf _ _ _) (fun _ =>
        bounded_bind (bounded_panicIf _ _ _) (fun _ => ?_))))
  split
  · exact bounded_fatal _ _
  · refine bounded_bind (bounded_panicIf _ _ _) (fun _ =>
      bounded_bind (bounded_panicIf _ _ _) (fun _ =>
        bounded_bind (bounded_forEach _ _ (fun s b _ => hchild s b) _) (fun _ =>
          bounded_bind (bounded_panicIf _ _ _) (fun _ =>
            bounded_forEach _ _ (fun s b _ => ?_) _))))
    exact bounded_bind (hthen _) (fun _ => bounded_pure _)

theorem parseJoin_of_tables (rt : GoRuntime) (g : Generic) (st st1 : List ParseError)
    (ots : List OperatorTableSQL) (hdec : joinDecorator rt.unicode g ≠ [])
    (h : (parseJoinTables rt g).run st = .ok ots st1) :
    (parseJoin rt g).run st = (parseJoinDecorator rt.unicode g (joinDecorator rt.unicode g) ots).run
        st1 := by
  rw [parseJoin_run, run_bind, h]
  dsimp only
  rw [if_pos hdec]

theorem parseJoinDecorator_run {u : GoUnicode} (g : Generic) (ots : List OperatorTableSQL)
    (st : List ParseError) (hst : st.length < maxErrors) :
    (2 < ots.length →
      (parseJoinDecorator u g (joinDecorator u g) ots).run st =
        .panicErrors (st ++ [tooManyTablesError u g])) ∧
    (ots.length ≤ 2 →
      (parseJoinDecorator u g (joinDecorator u g) ots).run st =
        ((validateOneToManyJoinCondition u (conditionOf ots) (oneTableOf u g ots) (joinDecorator u
            g)
          g.line) >>= fun oneColumns =>
            pure { OneTable := oneTableOf u g ots, OneColumns := oneColumns, OTS := ots }).run st)
                := by
  constructor
  · intro h
    unfold parseJoinDecorator
    rw [run_bind]
    unfold panicIf
    rw [if_pos (by simpa using h), fatal_run _ _ _ hst]
    rfl
  · intro h
    unfold parseJoinDecorator
    rw [run_bind]
    unfold panicIf
    rw [if_neg (by simpa using h)]
    rfl

/-- C32 (amended): for every join node `g` with a decorator `oneToMany` or
`manyToOne` and every state of the parser with fewer than `maxErrors` errors.
If `g` has a `then` child, `parseJoin` never returns, and when the part of
`parseJoin` before the constraints on the decorator is passed (the join line,
the condition and every `then` are accepted) it ends in
`panic(parser.parseErrors)` with the error
`"<decorator>" JOIN cannot connect more than 2 tables` recorded last.  If `g`
has no `then` child and that part is passed with the triples `ots` and the
errors `st1`: whenever the condition has a token that is the reserved word
`OR` or `NOT` or an operator other than `=`, or has no token that is a column
qualified by the name of the one-table, the errors with which `parseJoin`
ends are more than `st1`; and when `parseJoin` returns, the errors recorded
after `st1` have the error of every such token and, if no column of the
one-table is there, the error `did not find any column ...`. -/
theorem parseJoin_decorated (rt : GoRuntime) (g : Generic) (st : List ParseError)
    (hdec : joinDecorator rt.unicode g ≠ []) (hst : st.length < maxErrors) :
    (g.childrenOf skwThen ≠ [] →
      (∀ j st1, (parseJoin rt g).run st ≠ .ok j st1) ∧
      ∀ ots st1, (parseJoinTables rt g).run st = .ok ots st1 →
        (parseJoin rt g).run st = .panicErrors (st1 ++ [tooManyTablesError rt.unicode g])) ∧
    (g.childrenOf skwThen = [] →
      ∀ ots st1, (parseJoinTables rt g).run st = .ok ots st1 →
        (((∃ t ∈ TokenizeSQL rt.unicode (conditionOf ots),
              t.isOrNot rt.unicode = true ∨ t.isOtherOperator = true) ∨
            ∀ t ∈ TokenizeSQL rt.unicode (conditionOf ots),
              t.isColumnOf rt.unicode (oneTableOf rt.unicode g ots) = false) →
          st1.length < ((parseJoin rt g).run st).errors.length) ∧
        ∀ j st2, (parseJoin rt g).run st = .ok j st2 →
          (∀ t ∈ TokenizeSQL rt.unicode (conditionOf ots), t.isOrNot rt.unicode = true →
            conjunctionError (joinDecorator rt.unicode g) t g.line ∈ st2.drop st1.length) ∧
          (∀ t ∈ TokenizeSQL rt.unicode (conditionOf ots), t.isOtherOperator = true →
            equalityError (joinDecorator rt.unicode g) t g.line ∈ st2.drop st1.length) ∧
          ((∀ t ∈ TokenizeSQL rt.unicode (conditionOf ots),
              t.isColumnOf rt.unicode (oneTableOf rt.unicode g ots) = false) →
            noColumnError (oneTableOf rt.unicode g ots) (joinDecorator rt.unicode g) g.line ∈
              st2.drop st1.length)) := by
  have hlen : ∀ ots st1, (parseJoinTables rt g).run st = .ok ots st1 →
      ots.length = (g.childrenOf skwThen).length + 2 ∧ st1.length < maxErrors := by
    intro ots st1 h
    obtain ⟨first, second, later, hots, hl⟩ := parseJoinTables_ok rt g st st1 ots h
    have hb := bounded_parseJoinTables rt g st hst
    rw [h] at hb
    refine ⟨?_, hb⟩
    have hp : (sortByLine (g.childrenOf skwThen)).length = (g.childrenOf skwThen).length :=
      (List.perm_insertionSort _ _).length_eq
    rw [hots, List.length_cons, List.length_cons, ← hl.length_eq, hp]
  constructor
  · intro hthen
    have hpos : 0 < (g.childrenOf skwThen).length := List.length_pos.mpr hthen
    have hrun : ∀ ots st1, (parseJoinTables rt g).run st = .ok ots st1 →
        (parseJoin rt g).run st = .panicErrors (st1 ++ [tooManyTablesError rt.unicode g]) := by
      intro ots st1 h
      obtain ⟨h1, h2⟩ := hlen ots st1 h
      rw [parseJoin_of_tables rt g st st1 ots hdec h]
      exact (parseJoinDecorator_run g ots st1 h2).1 (by omega)
    refine ⟨?_, hrun⟩
    intro j st1 h
    obtain ⟨st2, h1, -⟩ := parseJoin_ok_tables rt g st st1 j h
    rw [hrun _ _ h1] at h
    cases h
  · intro hthen ots st1 h
    obtain ⟨h1, h2⟩ := hlen ots st1 h
    rw [hthen, List.length_nil] at h1
    rw [parseJoin_of_tables rt g st st1 ots hdec h,
      (parseJoinDecorator_run g ots st1 h2).2 (by omega), run_bind]
    obtain ⟨s1, s2, s3⟩ := validateOneToManyJoinCondition_soft (conditionOf ots)
      (oneTableOf rt.unicode g ots) (joinDecorator rt.unicode g) g.line st1 h2
    cases hv :
        (validateOneToManyJoinCondition rt.unicode (conditionOf ots) (oneTableOf rt.unicode g ots)
        (joinDecorator rt.unicode g) g.line).run st1 with
    | ok cols st2 =>
      obtain ⟨-, p, q1, q2, q3⟩ := s1 cols st2 hv
      dsimp only
      have hgt : ∀ e, e ∈ st2.drop st1.length → st1.length < st2.length := by
        intro e he
        by_contra hc
        rw [List.drop_eq_nil_of_le (by omega)] at he
        cases he
      refine ⟨?_, ?_⟩
      · rintro (⟨t, ht, ht1 | ht1⟩ | hno)
        · exact hgt _ (q1 t ht ht1)
        · exact hgt _ (q2 t ht ht1)
        · exact hgt _ (q3 hno)
      · intro j st3 hj
        cases hj
        exact ⟨q1, q2, q3⟩
    | panicErrors e =>
      dsimp only
      refine ⟨fun _ => ?_, fun j st3 hj => (by cases hj)⟩
      show st1.length < e.length
      rw [s2 e hv]
      exact h2
    | panicRuntime msg => exact absurd hv (s3 msg)
/-- The join of `twoThenJoinNode`, whose slice of `then` children holds the
`then` of the line 9 before that of the line 7: `parseJoin` returns the four
triples of `twoThenOTS`, with the table `c` of the line 7 before the table
`d` of the line 9, in the insertion order and in the reverse order of the
visits of the maps. -/
theorem parseJoin_then_witness :
    ((parseJoin GoRuntime.insertionOrder twoThenJoinNode).run [] = .ok { OTS := twoThenOTS } [] ∧
      (parseJoin GoRuntime.reverseOrder twoThenJoinNode).run [] = .ok { OTS := twoThenOTS } []) ∧
    (({ OTS := twoThenOTS } : Join).OTS.length = (twoThenJoinNode.childrenOf skwThen).length + 2 ∧
      ∃ thens : List Generic, thens.Perm (twoThenJoinNode.childrenOf skwThen) ∧
        (thens.map Generic.line).Pairwise (· ≤ ·) ∧
        (((twoThenJoinNode.childrenOf skwThen).map Generic.line).Nodup →
          (thens.map Generic.line).Pairwise (· < ·)) ∧
        List.Forall₂ (ThenTriple GoUnicode.unchanged) thens
          (({ OTS := twoThenOTS } : Join).OTS.drop 2)) :=
  ⟨⟨rfl, rfl⟩,
    parseJoin_then GoRuntime.insertionOrder twoThenJoinNode [] [] { OTS := twoThenOTS } rfl⟩

/-- The join of `orJoinNode` has the decorator `oneToMany` and no `then`, and
the part of `parseJoin` before the constraints on the decorator is passed
without an error, as for `decoratedThenJoinNode`: `parseJoin` returns with
the errors of the tokens `OR` and `<`; that of `noColumnJoinNode` returns
with the error that no column of the table `b` is there; that of
`decoratedThenJoinNode` ends in `panic(parser.parseErrors)` with the error of
more than 2 tables.  The tables of package `unicode` are not read for these
texts of ASCII bytes (`GoRuntime.insertionOrder.unicode` is
`GoUnicode.unchanged`). -/
theorem parseJoin_decorated_witness :
    ((joinDecorator GoUnicode.unchanged orJoinNode ≠ [] ∧
        ([] : List ParseError).length < maxErrors) ∧
      (∃ ots, (parseJoinTables GoRuntime.insertionOrder orJoinNode).run [] = .ok ots []) ∧
      (∃ ots, (parseJoinTables GoRuntime.insertionOrder decoratedThenJoinNode).run [] =
        .ok ots []) ∧
      (parseJoin GoRuntime.insertionOrder orJoinNode).run [] =
        .ok { OneTable := "a".toList, OneColumns := ["x".toList],
              OTS := [{ Operator := [], Table := "a".toList, SQL := [] },
                { Operator := "<->".toList, Table := "b".toList,
                  SQL := "a.x = b.x OR c.y < b.y".toList }] }
          [{ Msg := "expecting simple conjunctions in oneToMany JOIN, found \"OR\"".toList,
             LineNum := 5 },
           { Msg := "expecting only equalities (=) in oneToMany JOIN, found \"<\"".toList,
             LineNum := 5 }] ∧
      (parseJoin GoRuntime.insertionOrder noColumnJoinNode).run [] =
        .ok { OneTable := "b".toList, OneColumns := [],
              OTS := [{ Operator := [], Table := "a".toList, SQL := [] },
                { Operator := "<->".toList, Table := "b".toList, SQL := "a.x = 1".toList }] }
          [{ Msg := ("did not find any column of table \"b\" participating in " ++
               "manyToOne JOIN").toList,
             LineNum := 5 }] ∧
      (parseJoin GoRuntime.insertionOrder decoratedThenJoinNode).run [] =
        .panicErrors [tooManyTablesError GoUnicode.unchanged decoratedThenJoinNode] ∧
      tooManyTablesError GoUnicode.unchanged decoratedThenJoinNode =
        { Msg := "\"oneToMany\" JOIN cannot connect more than 2 tables".toList, LineNum := 5 }) ∧
    ((orJoinNode.childrenOf skwThen ≠ [] →
      (∀ j st1, (parseJoin GoRuntime.insertionOrder orJoinNode).run [] ≠ .ok j st1) ∧
      ∀ ots st1, (parseJoinTables GoRuntime.insertionOrder orJoinNode).run [] = .ok ots st1 →
        (parseJoin GoRuntime.insertionOrder orJoinNode).run [] =
          .panicErrors (st1 ++ [tooManyTablesError GoUnicode.unchanged orJoinNode])) ∧
    (orJoinNode.childrenOf skwThen = [] →
      ∀ ots st1, (parseJoinTables GoRuntime.insertionOrder orJoinNode).run [] = .ok ots st1 →
        (((∃ t ∈ TokenizeSQL GoUnicode.unchanged (conditionOf ots),
              t.isOrNot GoUnicode.unchanged = true ∨ t.isOtherOperator = true) ∨
            ∀ t ∈ TokenizeSQL GoUnicode.unchanged (conditionOf ots),
              t.isColumnOf GoUnicode.unchanged (oneTableOf GoUnicode.unchanged orJoinNode ots) =
                false) →
          st1.length <
            ((parseJoin GoRuntime.insertionOrder orJoinNode).run []).errors.length) ∧
        ∀ j st2, (parseJoin GoRuntime.insertionOrder orJoinNode).run [] = .ok j st2 →
          (∀ t ∈ TokenizeSQL GoUnicode.unchanged (conditionOf ots),
              t.isOrNot GoUnicode.unchanged = true →
            conjunctionError (joinDecorator GoUnicode.unchanged orJoinNode) t orJoinNode.line ∈
              st2.drop st1.length) ∧
          (∀ t ∈ TokenizeSQL GoUnicode.unchanged (conditionOf ots), t.isOtherOperator = true →
            equalityError (joinDecorator GoUnicode.unchanged orJoinNode) t orJoinNode.line ∈
              st2.drop st1.length) ∧
          ((∀ t ∈ TokenizeSQL GoUnicode.unchanged (conditionOf ots),
              t.isColumnOf GoUnicode.unchanged (oneTableOf GoUnicode.unchanged orJoinNode ots) =
                false) →
            noColumnError (oneTableOf GoUnicode.unchanged orJoinNode ots)
                (joinDecorator GoUnicode.unchanged orJoinNode) orJoinNode.line ∈
              st2.drop st1.length))) :=
  ⟨⟨⟨by decide, by decide⟩, ⟨_, rfl⟩, ⟨_, rfl⟩, rfl, rfl, rfl, rfl⟩,
    parseJoin_decorated GoRuntime.insertionOrder orJoinNode [] (by decide) (by decide)⟩

/-- The claim C32 fails for a join with a decorator whose `then` is itself
refused: the join of `bareThenJoinNode` has the decorator `oneToMany` and a
`then` child without a condition, and `parseJoin` ends in
`panic(parser.parseErrors)` with the one error `no "on" clause for a "then"`
of the line of the `then`, in the insertion order and in the reverse order of
the visits of the maps. -/
theorem parseJoin_decorated_counterexample :
    joinDecorator GoUnicode.unchanged bareThenJoinNode = "oneToMany".toList ∧
    (bareThenJoinNode.childrenOf skwThen).length = 1 ∧
    (parseJoin GoRuntime.insertionOrder bareThenJoinNode).run [] =
      .panicErrors [{ Msg := "no \"on\" clause for a \"then\"".toList, LineNum := 7 }] ∧
    (parseJoin GoRuntime.reverseOrder bareThenJoinNode).run [] =
      .panicErrors [{ Msg := "no \"on\" clause for a \"then\"".toList, LineNum := 7 }] :=
  ⟨by decide, by decide, rfl, rfl⟩
/-! ### The library functions on texts outside ASCII

Closed evaluations at texts with U+00A0, which is white space for
`strings.TrimSpace` and `strings.Fields` and one rune that is not white space
for the regular expression of `TokenizeSQL`, and at texts for which the
tables of package `unicode` are read. -/

set_option maxRecDepth 1000000 in
/-- U+00A0 is taken off by `strings.TrimSpace` and separates the fields of
`strings.Fields`; a byte `0xC2` without a second byte is no white space; the
value `t` and U+00A0 of a parent is printed as ` (t)`, and the value `p` and
U+00A0 is not plain. -/
theorem whiteSpace_outside_ASCII :
    strings.TrimSpace (nbsp ++ "t".toList ++ nbsp) = "t".toList ∧
    strings.TrimSpace ("t".toList ++ [Char.ofNat 0xC2]) = "t".toList ++ [Char.ofNat 0xC2] ∧
    strings.Fields ("a".toList ++ nbsp ++ "<->".toList ++ nbsp ++ "b".toList) =
      ["a".toList, "<->".toList, "b".toList] ∧
    parentSuffix ("t".toList ++ nbsp) = " (t)".toList ∧
    plainValue ("p".toList ++ nbsp) = false := by
  refine ⟨?_, ?_, ?_, ?_, ?_⟩ <;> decide!

set_option maxRecDepth 1000000 in
/-- The lexer keeps U+00A0 at the end of a value in quotes and takes it off
a value without quotes. -/
theorem runLexer_nbsp :
    runLexer ("label \"p".toList ++ nbsp ++ "\"".toList) smlKeywords =
      [Token.mk 0 skwLabel ("p".toList ++ nbsp) 1, eofToken 1] ∧
    runLexer ("label p".toList ++ nbsp) smlKeywords =
      [Token.mk 0 skwLabel "p".toList 1, eofToken 1] := by
  refine ⟨?_, ?_⟩ <;> decide!

set_option maxRecDepth 1000000 in
/-- The parent of `nbspTableDocument`, the table of the name `t` and U+00A0,
is named with its trimmed value `t` in the message. -/
theorem ParseSML_nbsp_parent :
    (ParseSML GoRuntime.insertionOrder nbspTableDocument []).2 =
      [{ LineNum := 4,
         Msg := ("indentation error for \"column\", maybe move left to be under \"table\"" ++
           " (t)").toList }] := by
  decide!

set_option maxRecDepth 1000000 in
/-- The words of the join line of `nbspJoinNode` are `a`, `<->` and `b`. -/
theorem parseJoin_nbsp :
    (parseJoin GoRuntime.insertionOrder nbspJoinNode).run [] =
      .ok { OTS := [{ Operator := [], Table := "a".toList, SQL := [] },
              { Operator := "<->".toList, Table := "b".toList, SQL := "a.x = b.x".toList }] }
        [] := by
  rfl

set_option maxRecDepth 1000000 in
/-- The rune U+00A0 in the condition of `nbspConditionNode` is one token of
two bytes, an operator other than `=`. -/
theorem parseJoin_nbsp_condition :
    (TokenizeSQL GoUnicode.unchanged ("a.x ".toList ++ nbsp ++ "= b.x".toList)).map
        (fun t => (t.Position, t.Value, t.Value2)) =
      [(0, "a".toList, "x".toList), (4, nbsp, []), (6, "=".toList, []),
        (8, "b".toList, "x".toList)] ∧
    (parseJoin GoRuntime.insertionOrder nbspConditionNode).run [] =
      .ok { OneTable := "a".toList, OneColumns := ["x".toList],
            OTS := [{ Operator := [], Table := "a".toList, SQL := [] },
              { Operator := "<->".toList, Table := "b".toList,
                SQL := "a.x ".toList ++ nbsp ++ "= b.x".toList }] }
        [{ Msg := "expecting only equalities (=) in oneToMany JOIN, found \"".toList ++ nbsp ++
             "\"".toList,
           LineNum := 5 }] := by
  refine ⟨?_, ?_⟩
  · decide!
  · rfl

/-- For a text with a byte outside ASCII the tables of package `unicode` are
read: the label of the name `été_x` is the title of `été`, a blank and `X`,
and the operator of a join written `İNNER` is looked up under what
`strings.ToLower` makes of it (`inner` with the tables of Go). -/
theorem tables_outside_ASCII (u : GoUnicode) :
    createSmartLabel u (eAcute ++ "t".toList ++ eAcute ++ "_x".toList) =
      u.Title (eAcute ++ "t".toList ++ eAcute) ++ " X".toList ∧
    strings.ToLower u (capitalIDot ++ "NNER".toList) = u.ToLower (capitalIDot ++ "NNER".toList) ∧
    strings.ToLower u "INNER".toList = "inner".toList := by
  refine ⟨?_, rfl, rfl⟩
  have h1 : strings.Trim (eAcute ++ "t".toList ++ eAcute ++ "_x".toList) ['_'] =
      eAcute ++ "t".toList ++ eAcute ++ "_x".toList := by decide
  have h2 : strings.Split (eAcute ++ "t".toList ++ eAcute ++ "_x".toList) '_' =
      [eAcute ++ "t".toList ++ eAcute, "x".toList] := by decide
  have h3 : strings.Title u (eAcute ++ "t".toList ++ eAcute) =
      u.Title (eAcute ++ "t".toList ++ eAcute) := rfl
  have h4 : strings.Title u "x".toList = "X".toList := rfl
  unfold createSmartLabel
  simp only [h1]
  rw [if_neg (by decide), h2, List.map_cons, List.map_cons, List.map_nil, h3, h4,
    Join_eq_intercalate]
  simp [List.intercalate, List.intersperse]


end sml
